import Mathlib

/-!
# WinZigC parser: a shallow embedding of the lexer, the recursive-descent parser and the
AST serializer, with theorems about them.

Conventions of the embedding.

* `std::string` input text is a `List Char` (the lexer indexes it by `pos`); token texts and
  node labels are `String`.
* `std::cout` output is the `String` that was written.
* `ASTNode*` results are `Option ASTNode`; `none` is the null pointer.
* `int` line, column and depth are `Int`; `size_t` positions are `Nat` (no wrap-around is
  modelled: it would need an input of more than `2^31` characters).
* The character classes of `<cctype>` are those of the "C" locale.
* Loops of the lexer are recursive functions on a fuel argument which the caller sets to the
  number of characters left (each iteration consumes one); theorems below show that this fuel
  is never exhausted before the loop condition fails.
* Parser routines are mutually recursive and need not terminate, so they take a fuel argument
  and return `none` when it runs out: `Option (Option ASTNode × Parser)`.
-/

/-! ## ast_node.h / ast_node.cpp -/

/-- AST node: `nodeType`, `children`, `value`. -/
inductive ASTNode where
  | mk (nodeType : String) (children : List ASTNode) (value : String) : ASTNode
deriving Repr, Inhabited

namespace ASTNode

def nodeType : ASTNode → String
  | mk t _ _ => t

def children : ASTNode → List ASTNode
  | mk _ c _ => c

def value : ASTNode → String
  | mk _ _ v => v

/-- Constructor `ASTNode(type)` with the default `val = ""` and no children. -/
def new (type : String) : ASTNode := mk type [] ""

/-- Member `addChild`: `if (child) children.push_back(child);`. -/
def addChild (n : ASTNode) (child : Option ASTNode) : ASTNode :=
  match child with
  | some c => mk n.nodeType (n.children ++ [c]) n.value
  | none => n

/-- Output of `for (int i = 0; i < k; i++) cout << ". ";`. -/
def indent : Nat → String
  | 0 => ""
  | k + 1 => indent k ++ ". "

mutual
/-- Member `print(depth, isLast)`: the text written to `cout`. -/
def print : ASTNode → Int → Bool → String
  | mk ty cs v, depth, _ =>
    indent depth.toNat ++ ty ++ "(" ++ toString cs.length ++ ")"
      ++ (if cs.isEmpty && v != "" then
            "\n" ++ indent (depth + 1).toNat ++ v ++ "(0)"
          else "")
      ++ printChildren cs depth
/-- The loop `for (i < children.size()) { cout << "\n"; children[i]->print(depth + 1, false); }`. -/
def printChildren : List ASTNode → Int → String
  | [], _ => ""
  | c :: cs, depth => "\n" ++ print c (depth + 1) false ++ printChildren cs depth
end

end ASTNode

/-! ## token.h -/

inductive TokenType where
  | TOK_IDENTIFIER | TOK_INTEGER | TOK_CHAR | TOK_STRING
  | TOK_PROGRAM | TOK_VAR | TOK_CONST | TOK_TYPE | TOK_FUNCTION | TOK_RETURN
  | TOK_BEGIN | TOK_END | TOK_IF | TOK_THEN | TOK_ELSE | TOK_WHILE | TOK_DO
  | TOK_CASE | TOK_OF | TOK_OTHERWISE | TOK_REPEAT | TOK_UNTIL | TOK_FOR
  | TOK_LOOP | TOK_POOL | TOK_EXIT | TOK_READ | TOK_OUTPUT
  | TOK_AND | TOK_OR | TOK_NOT | TOK_MOD | TOK_SUCC | TOK_PRED | TOK_CHR | TOK_ORD
  | TOK_EOF_KW | TOK_TRUE | TOK_FALSE | TOK_BOOLEAN | TOK_INTEGER_TYPE
  | TOK_ASSIGN | TOK_SWAP | TOK_PLUS | TOK_MINUS | TOK_MULTIPLY | TOK_DIVIDE
  | TOK_EQUAL | TOK_NOT_EQUAL | TOK_LESS | TOK_LESS_EQUAL | TOK_GREATER
  | TOK_GREATER_EQUAL | TOK_DOTS
  | TOK_SEMICOLON | TOK_COLON | TOK_COMMA | TOK_DOT | TOK_LPAREN | TOK_RPAREN
  | TOK_LBRACE | TOK_RBRACE
  | TOK_EOF | TOK_NEWLINE | TOK_UNKNOWN
deriving DecidableEq, Repr, Inhabited

open TokenType

/-- Token record: `type`, `value`, `line`, `column`. -/
structure Token where
  type : TokenType
  value : String
  line : Int
  column : Int
deriving DecidableEq, Repr

/-- Default-constructed token `Token()`: `TOK_UNKNOWN`, empty text, line 1, column 1. -/
def Token.default : Token := ⟨TOK_UNKNOWN, "", 1, 1⟩

/-! ## lexer.h / lexer.cpp -/

/-- Lexer state: the text, the cursor and the position counters.  The keyword map is the
constant `keywords` below. -/
structure Lexer where
  input : List Char
  pos : Nat
  line : Int
  column : Int
deriving DecidableEq, Repr

/-- The map filled by `Lexer::initKeywords`. -/
def keywords : List (String × TokenType) :=
  [("program", TOK_PROGRAM), ("var", TOK_VAR), ("const", TOK_CONST), ("type", TOK_TYPE),
   ("function", TOK_FUNCTION), ("return", TOK_RETURN), ("begin", TOK_BEGIN), ("end", TOK_END),
   ("if", TOK_IF), ("then", TOK_THEN), ("else", TOK_ELSE), ("while", TOK_WHILE), ("do", TOK_DO),
   ("case", TOK_CASE), ("of", TOK_OF), ("otherwise", TOK_OTHERWISE), ("repeat", TOK_REPEAT),
   ("until", TOK_UNTIL), ("for", TOK_FOR), ("loop", TOK_LOOP), ("pool", TOK_POOL),
   ("exit", TOK_EXIT), ("read", TOK_READ), ("output", TOK_OUTPUT), ("and", TOK_AND),
   ("or", TOK_OR), ("not", TOK_NOT), ("mod", TOK_MOD), ("succ", TOK_SUCC), ("pred", TOK_PRED),
   ("chr", TOK_CHR), ("ord", TOK_ORD), ("eof", TOK_EOF_KW), ("true", TOK_TRUE),
   ("false", TOK_FALSE), ("boolean", TOK_BOOLEAN), ("integer", TOK_INTEGER_TYPE)]

/-- C `isspace` in the "C" locale: space, `\t`, `\n`, `\v`, `\f`, `\r`. -/
def isspace (c : Char) : Bool := c.toNat == 32 || (9 ≤ c.toNat && c.toNat ≤ 13)

/-- C `isdigit`. -/
def isdigit (c : Char) : Bool := 48 ≤ c.toNat && c.toNat ≤ 57

/-- C `isalpha` in the "C" locale. -/
def isalpha (c : Char) : Bool :=
  (65 ≤ c.toNat && c.toNat ≤ 90) || (97 ≤ c.toNat && c.toNat ≤ 122)

/-- C `isalnum`. -/
def isalnum (c : Char) : Bool := isalpha c || isdigit c

namespace Lexer

/-- Constructor `Lexer(text)`: cursor 0, line 1, column 1. -/
def new (text : List Char) : Lexer := ⟨text, 0, 1, 1⟩

/-- Member `peek(offset)`: NUL when `pos + offset` is past the end. -/
def peek (l : Lexer) (offset : Nat) : Char :=
  if l.pos + offset ≥ l.input.length then '\x00' else l.input.getD (l.pos + offset) '\x00'

/-- Member `advance()`: the consumed character and the new state. -/
def advance (l : Lexer) : Char × Lexer :=
  if l.pos ≥ l.input.length then ('\x00', l)
  else
    let c := l.input.getD l.pos '\x00'
    if c = '\n' then (c, ⟨l.input, l.pos + 1, l.line + 1, 1⟩)
    else (c, ⟨l.input, l.pos + 1, l.line, l.column + 1⟩)

/-- The loop of `skipWhitespace`:
`while (pos < input.length() && isspace(peek()) && peek() != '\n') advance();`. -/
def skipWhitespaceLoop : Nat → Lexer → Lexer
  | 0, l => l
  | fuel + 1, l =>
    if l.pos < l.input.length && isspace (l.peek 0) && l.peek 0 != '\n' then
      skipWhitespaceLoop fuel l.advance.2
    else l

def skipWhitespace (l : Lexer) : Lexer :=
  skipWhitespaceLoop (l.input.length - l.pos) l

/-- Line-comment loop: `while (pos < input.length() && peek() != '\n') advance();`. -/
def skipLineCommentLoop : Nat → Lexer → Lexer
  | 0, l => l
  | fuel + 1, l =>
    if l.pos < l.input.length && l.peek 0 != '\n' then skipLineCommentLoop fuel l.advance.2
    else l

/-- Block-comment loop:
`while (pos < input.length()) { if (peek() == '}') { advance(); break; } advance(); }`. -/
def skipBlockCommentLoop : Nat → Lexer → Lexer
  | 0, l => l
  | fuel + 1, l =>
    if l.pos < l.input.length then
      if l.peek 0 == '\x7d' then l.advance.2
      else skipBlockCommentLoop fuel l.advance.2
    else l

def skipComment (l : Lexer) : Lexer :=
  if l.peek 0 == '#' then
    skipLineCommentLoop (l.input.length - l.pos) l
  else if l.peek 0 == '\x7b' then
    let l1 := l.advance.2
    skipBlockCommentLoop (l1.input.length - l1.pos) l1
  else l

/-- The loop of `readIdentifier`:
`while (pos < input.length() && (isalnum(peek()) || peek() == '_')) value += advance();`. -/
def readIdentifierLoop : Nat → Lexer → String → String × Lexer
  | 0, l, value => (value, l)
  | fuel + 1, l, value =>
    if l.pos < l.input.length && (isalnum (l.peek 0) || l.peek 0 == '_') then
      readIdentifierLoop fuel l.advance.2 (value.push l.advance.1)
    else (value, l)

/-- The token kind `readIdentifier` gives to the text `value`:
`type = TOK_IDENTIFIER; if (keywords.find(value) != keywords.end()) type = keywords[value];`. -/
def keywordType (value : String) : TokenType :=
  match keywords.lookup value with
  | some t => t
  | none => TOK_IDENTIFIER

def readIdentifier (l : Lexer) : Token × Lexer :=
  let r := readIdentifierLoop (l.input.length - l.pos) l ""
  (⟨keywordType r.1, r.1, l.line, l.column⟩, r.2)

/-- The loop of `readNumber`: `while (pos < input.length() && isdigit(peek())) value += advance();`. -/
def readNumberLoop : Nat → Lexer → String → String × Lexer
  | 0, l, value => (value, l)
  | fuel + 1, l, value =>
    if l.pos < l.input.length && isdigit (l.peek 0) then
      readNumberLoop fuel l.advance.2 (value.push l.advance.1)
    else (value, l)

def readNumber (l : Lexer) : Token × Lexer :=
  let r := readNumberLoop (l.input.length - l.pos) l ""
  (⟨TOK_INTEGER, r.1, l.line, l.column⟩, r.2)

def readChar (l : Lexer) : Token × Lexer :=
  let l1 := l.advance.2
  if l1.pos ≥ l1.input.length then
    (⟨TOK_UNKNOWN, "", l.line, l.column⟩, l1)
  else
    let c := l1.advance.1
    let l2 := l1.advance.2
    let value := ("'".push c) ++ "'"
    let l3 := if l2.pos < l2.input.length && l2.peek 0 == '\'' then l2.advance.2 else l2
    (⟨TOK_CHAR, value, l.line, l.column⟩, l3)

/-- The loop of `readString`: `while (pos < input.length() && peek() != '"') value += advance();`. -/
def readStringLoop : Nat → Lexer → String → String × Lexer
  | 0, l, value => (value, l)
  | fuel + 1, l, value =>
    if l.pos < l.input.length && l.peek 0 != '"' then
      readStringLoop fuel l.advance.2 (value.push l.advance.1)
    else (value, l)

def readString (l : Lexer) : Token × Lexer :=
  let l1 := l.advance.2
  let r := readStringLoop (l1.input.length - l1.pos) l1 ("".push '"')
  if r.2.pos < r.2.input.length && r.2.peek 0 == '"' then
    (⟨TOK_STRING, r.1.push r.2.advance.1, l.line, l.column⟩, r.2.advance.2)
  else
    (⟨TOK_STRING, r.1, l.line, l.column⟩, r.2)

/-- The cases of the `switch (c)` at the end of `nextToken`. -/
def singleCharTable : List (Char × TokenType) :=
  [('+', TOK_PLUS), ('-', TOK_MINUS), ('*', TOK_MULTIPLY), ('/', TOK_DIVIDE), ('=', TOK_EQUAL),
   ('<', TOK_LESS), ('>', TOK_GREATER), (';', TOK_SEMICOLON), (':', TOK_COLON),
   (',', TOK_COMMA), ('.', TOK_DOT), ('(', TOK_LPAREN), (')', TOK_RPAREN),
   ('\x7b', TOK_LBRACE), ('\x7d', TOK_RBRACE)]

/-- The `switch (c)` at the end of `nextToken`, with `default: TOK_UNKNOWN`. -/
def singleCharType (c : Char) : TokenType :=
  match singleCharTable.lookup c with
  | some t => t
  | none => TOK_UNKNOWN

/-- The part of the loop body of `nextToken` that follows the comment check, applied to the
state reached after `skipWhitespace` (so `pos < input.length()`): every branch returns a token. -/
def scanToken (l : Lexer) : Token × Lexer :=
  let c := l.peek 0
  if c = '\n' then (⟨TOK_NEWLINE, "\\n", l.line, l.column⟩, l.advance.2)
  else if isalpha c || c = '_' then l.readIdentifier
  else if isdigit c then l.readNumber
  else if c = '\'' then l.readChar
  else if c = '"' then l.readString
  else if c = ':' && l.peek 1 = '=' then
    if l.peek 2 = ':' then
      let l3 := l.advance.2.advance.2.advance.2
      (⟨TOK_SWAP, ":=:", l3.line, l3.column - 3⟩, l3)
    else
      let l2 := l.advance.2.advance.2
      (⟨TOK_ASSIGN, ":=", l2.line, l2.column - 2⟩, l2)
  else if c = '<' && l.peek 1 = '=' then
    let l2 := l.advance.2.advance.2
    (⟨TOK_LESS_EQUAL, "<=", l2.line, l2.column - 2⟩, l2)
  else if c = '>' && l.peek 1 = '=' then
    let l2 := l.advance.2.advance.2
    (⟨TOK_GREATER_EQUAL, ">=", l2.line, l2.column - 2⟩, l2)
  else if c = '<' && l.peek 1 = '>' then
    let l2 := l.advance.2.advance.2
    (⟨TOK_NOT_EQUAL, "<>", l2.line, l2.column - 2⟩, l2)
  else if c = '.' && l.peek 1 = '.' then
    let l2 := l.advance.2.advance.2
    (⟨TOK_DOTS, "..", l2.line, l2.column - 2⟩, l2)
  else
    (⟨singleCharType c, String.singleton c, l.line, l.column⟩, l.advance.2)

/-- The loop `while (pos < input.length())` of `nextToken`, one iteration per unit of fuel: only
the comment branch (`continue`) iterates, every other branch returns or breaks. -/
def nextTokenLoop : Nat → Lexer → Token × Lexer
  | 0, l => (⟨TOK_EOF, "", l.line, l.column⟩, l)
  | fuel + 1, l0 =>
    if l0.pos < l0.input.length then
      let l := l0.skipWhitespace
      if l.pos ≥ l.input.length then (⟨TOK_EOF, "", l.line, l.column⟩, l)
      else if l.peek 0 = '#' || l.peek 0 = '\x7b' then nextTokenLoop fuel l.skipComment
      else l.scanToken
    else (⟨TOK_EOF, "", l0.line, l0.column⟩, l0)

/-- Member `nextToken()`.  Every `continue` follows a comment skip that consumed a character, so
`input.length() - pos + 1` iterations are enough. -/
def nextToken (l : Lexer) : Token × Lexer :=
  nextTokenLoop (l.input.length - l.pos + 1) l

end Lexer

/-! ## parser.h / parser.cpp -/

/-- Parser state: the lexer and the one-token lookahead `currentToken`. -/
structure Parser where
  lexer : Lexer
  currentToken : Token
deriving DecidableEq, Repr

namespace Parser

/-- The loop of `advance`: `do { currentToken = lexer.nextToken(); } while (type == TOK_NEWLINE);`.
Every NEWLINE token consumes a character, so the fuel `input.length() - pos` set by `advance` is
enough; with none left the body still runs once. -/
def advanceLoop : Nat → Lexer → Token × Lexer
  | 0, l => l.nextToken
  | fuel + 1, l =>
    if l.nextToken.1.type = TOK_NEWLINE then advanceLoop fuel l.nextToken.2
    else l.nextToken

/-- Member `advance()`. -/
def advance (p : Parser) : Parser :=
  let r := advanceLoop (p.lexer.input.length - p.lexer.pos) p.lexer
  ⟨r.2, r.1⟩

/-- Constructor `Parser(input)`: builds the lexer and fetches the first token. -/
def new (input : List Char) : Parser :=
  advance ⟨Lexer.new input, Token.default⟩

/-- Member `match(type)`. -/
def matchTok (p : Parser) (type : TokenType) : Bool :=
  p.currentToken.type = type

/-- Member `consume(type)`: success flag and new state. -/
def consume (p : Parser) (type : TokenType) : Bool × Parser :=
  if p.matchTok type then (true, p.advance) else (false, p)

def createIdentifierNode (name : String) : ASTNode :=
  (ASTNode.new "<identifier>").addChild (some (ASTNode.new name))

def createIntegerNode (value : String) : ASTNode :=
  (ASTNode.new "<integer>").addChild (some (ASTNode.new value))

def createCharNode (value : String) : ASTNode :=
  (ASTNode.new "<char>").addChild (some (ASTNode.new value))

def createStringNode (value : String) : ASTNode :=
  (ASTNode.new "<string>").addChild (some (ASTNode.new value))

def parseName (p : Parser) : Option ASTNode × Parser :=
  if p.matchTok TOK_IDENTIFIER then
    (some (createIdentifierNode p.currentToken.value), p.advance)
  else if p.matchTok TOK_INTEGER_TYPE then
    (some (createIdentifierNode p.currentToken.value), p.advance)
  else if p.matchTok TOK_BOOLEAN then
    (some (createIdentifierNode p.currentToken.value), p.advance)
  else (none, p)

def parseConstValue (p : Parser) : Option ASTNode × Parser :=
  if p.matchTok TOK_INTEGER then
    (some (createIntegerNode p.currentToken.value), p.advance)
  else if p.matchTok TOK_CHAR then
    (some (createCharNode p.currentToken.value), p.advance)
  else if p.matchTok TOK_IDENTIFIER then
    parseName p
  else if p.matchTok TOK_TRUE then
    (some (createIdentifierNode p.currentToken.value), p.advance)
  else if p.matchTok TOK_FALSE then
    (some (createIdentifierNode p.currentToken.value), p.advance)
  else (none, p)

def parseConst (p : Parser) : Option ASTNode × Parser :=
  let constNode := ASTNode.new "const"
  let r1 := parseName p
  let constNode := constNode.addChild r1.1
  let c := r1.2.consume TOK_EQUAL
  if !c.1 then (none, c.2)
  else
    let r2 := parseConstValue c.2
    (some (constNode.addChild r2.1), r2.2)

/-- The loop of `parseConsts`: `do { consts->addChild(parseConst()); } while (consume(TOK_COMMA));`. -/
def parseConstsLoop : Nat → ASTNode → Parser → Option (ASTNode × Parser)
  | 0, _, _ => none
  | fuel + 1, consts, p =>
    let r := parseConst p
    let c := r.2.consume TOK_COMMA
    if c.1 then parseConstsLoop fuel (consts.addChild r.1) c.2
    else some (consts.addChild r.1, c.2)

def parseConsts (fuel : Nat) (p : Parser) : Option (Option ASTNode × Parser) :=
  let consts := ASTNode.new "consts"
  if p.matchTok TOK_CONST then
    match parseConstsLoop fuel consts p.advance with
    | none => none
    | some r => some (some r.1, (r.2.consume TOK_SEMICOLON).2)
  else some (some consts, p)

/-- The loop of `parseLitList`: `do { lit->addChild(parseName()); } while (consume(TOK_COMMA));`. -/
def parseLitListLoop : Nat → ASTNode → Parser → Option (ASTNode × Parser)
  | 0, _, _ => none
  | fuel + 1, lit, p =>
    let r := parseName p
    let c := r.2.consume TOK_COMMA
    if c.1 then parseLitListLoop fuel (lit.addChild r.1) c.2
    else some (lit.addChild r.1, c.2)

def parseLitList (fuel : Nat) (p : Parser) : Option (Option ASTNode × Parser) :=
  let lit := ASTNode.new "lit"
  let c := p.consume TOK_LPAREN
  if !c.1 then some (none, c.2)
  else
    match parseLitListLoop fuel lit c.2 with
    | none => none
    | some r => some (some r.1, (r.2.consume TOK_RPAREN).2)

def parseType (fuel : Nat) (p : Parser) : Option (Option ASTNode × Parser) :=
  let type := ASTNode.new "type"
  let r1 := parseName p
  let type := type.addChild r1.1
  let c := r1.2.consume TOK_EQUAL
  if !c.1 then some (none, c.2)
  else
    match parseLitList fuel c.2 with
    | none => none
    | some r2 => some (some (type.addChild r2.1), r2.2)

/-- The loop of `parseTypes`:
`do { types->addChild(parseType()); consume(TOK_SEMICOLON); } while (match(TOK_IDENTIFIER));`. -/
def parseTypesLoop : Nat → ASTNode → Parser → Option (ASTNode × Parser)
  | 0, _, _ => none
  | fuel + 1, types, p =>
    match parseType fuel p with
    | none => none
    | some r =>
      let p1 := (r.2.consume TOK_SEMICOLON).2
      if p1.matchTok TOK_IDENTIFIER then parseTypesLoop fuel (types.addChild r.1) p1
      else some (types.addChild r.1, p1)

def parseTypes (fuel : Nat) (p : Parser) : Option (Option ASTNode × Parser) :=
  let types := ASTNode.new "types"
  if p.matchTok TOK_TYPE then
    match parseTypesLoop fuel types p.advance with
    | none => none
    | some r => some (some r.1, r.2)
  else some (some types, p)

/-- The name-list loop of `parseDcln`:
`do { var->addChild(parseName()); } while (consume(TOK_COMMA));`. -/
def parseDclnLoop : Nat → ASTNode → Parser → Option (ASTNode × Parser)
  | 0, _, _ => none
  | fuel + 1, var, p =>
    let r := parseName p
    let c := r.2.consume TOK_COMMA
    if c.1 then parseDclnLoop fuel (var.addChild r.1) c.2
    else some (var.addChild r.1, c.2)

def parseDcln (fuel : Nat) (p : Parser) : Option (Option ASTNode × Parser) :=
  let var := ASTNode.new "var"
  match parseDclnLoop fuel var p with
  | none => none
  | some r =>
    let c := r.2.consume TOK_COLON
    if !c.1 then some (none, c.2)
    else
      let r2 := parseName c.2
      some (some (r.1.addChild r2.1), r2.2)

/-- The loop of `parseDclns`: `do { dclns->addChild(parseDcln()); consume(TOK_SEMICOLON); }
while (match(TOK_IDENTIFIER) && !match(TOK_BEGIN) && !match(TOK_FUNCTION) && !match(TOK_END));`. -/
def parseDclnsLoop : Nat → ASTNode → Parser → Option (ASTNode × Parser)
  | 0, _, _ => none
  | fuel + 1, dclns, p =>
    match parseDcln fuel p with
    | none => none
    | some r =>
      let p1 := (r.2.consume TOK_SEMICOLON).2
      if p1.matchTok TOK_IDENTIFIER && !p1.matchTok TOK_BEGIN && !p1.matchTok TOK_FUNCTION
          && !p1.matchTok TOK_END then
        parseDclnsLoop fuel (dclns.addChild r.1) p1
      else some (dclns.addChild r.1, p1)

def parseDclns (fuel : Nat) (p : Parser) : Option (Option ASTNode × Parser) :=
  let dclns := ASTNode.new "dclns"
  if p.matchTok TOK_VAR then
    match parseDclnsLoop fuel dclns p.advance with
    | none => none
    | some r => some (some r.1, r.2)
  else some (some dclns, p)

/-- The loop of `parseParams`: `do { params->addChild(parseDcln()); } while (consume(TOK_SEMICOLON));`. -/
def parseParamsLoop : Nat → ASTNode → Parser → Option (ASTNode × Parser)
  | 0, _, _ => none
  | fuel + 1, params, p =>
    match parseDcln fuel p with
    | none => none
    | some r =>
      let c := r.2.consume TOK_SEMICOLON
      if c.1 then parseParamsLoop fuel (params.addChild r.1) c.2
      else some (params.addChild r.1, c.2)

def parseParams (fuel : Nat) (p : Parser) : Option (Option ASTNode × Parser) :=
  let params := ASTNode.new "params"
  if !p.matchTok TOK_RPAREN then
    match parseParamsLoop fuel params p with
    | none => none
    | some r => some (some r.1, r.2)
  else some (some params, p)

/-- Operator label chosen by the `switch` of `parseExpression`; `none` when the loop condition
`match(TOK_LESS_EQUAL) || match(TOK_LESS) || ...` is false. -/
def relOp : TokenType → Option String
  | TOK_LESS_EQUAL => some "<="
  | TOK_LESS => some "<"
  | TOK_GREATER_EQUAL => some ">="
  | TOK_GREATER => some ">"
  | TOK_EQUAL => some "="
  | TOK_NOT_EQUAL => some "<>"
  | _ => none

/-- Operator label chosen by the `switch` of `parseTerm`; `none` when its loop condition fails. -/
def addOp : TokenType → Option String
  | TOK_PLUS => some "+"
  | TOK_MINUS => some "-"
  | TOK_OR => some "or"
  | _ => none

/-- Operator label chosen by the `switch` of `parseFactor`; `none` when its loop condition fails. -/
def mulOp : TokenType → Option String
  | TOK_MULTIPLY => some "*"
  | TOK_DIVIDE => some "/"
  | TOK_AND => some "and"
  | TOK_MOD => some "mod"
  | _ => none

/-- The node built in each iteration of the three binary-operator loops:
`opNode = new ASTNode(op); opNode->addChild(left); opNode->addChild(right);`. -/
def mkOpNode (op : String) (left right : Option ASTNode) : ASTNode :=
  ((ASTNode.new op).addChild left).addChild right

mutual

def parseExpression : Nat → Parser → Option (Option ASTNode × Parser)
  | 0, _ => none
  | fuel + 1, p =>
    match parseTerm fuel p with
    | none => none
    | some r => parseExpressionLoop fuel r.1 r.2

/-- The loop of `parseExpression`: while the current token is a relational operator, consume it,
parse the right operand with `parseTerm` and fold it into `left`. -/
def parseExpressionLoop : Nat → Option ASTNode → Parser → Option (Option ASTNode × Parser)
  | 0, _, _ => none
  | fuel + 1, left, p =>
    match relOp p.currentToken.type with
    | none => some (left, p)
    | some op =>
      match parseTerm fuel p.advance with
      | none => none
      | some r => parseExpressionLoop fuel (some (mkOpNode op left r.1)) r.2

def parseTerm : Nat → Parser → Option (Option ASTNode × Parser)
  | 0, _ => none
  | fuel + 1, p =>
    match parseFactor fuel p with
    | none => none
    | some r => parseTermLoop fuel r.1 r.2

/-- The loop of `parseTerm`, over the additive operators. -/
def parseTermLoop : Nat → Option ASTNode → Parser → Option (Option ASTNode × Parser)
  | 0, _, _ => none
  | fuel + 1, left, p =>
    match addOp p.currentToken.type with
    | none => some (left, p)
    | some op =>
      match parseFactor fuel p.advance with
      | none => none
      | some r => parseTermLoop fuel (some (mkOpNode op left r.1)) r.2

def parseFactor : Nat → Parser → Option (Option ASTNode × Parser)
  | 0, _ => none
  | fuel + 1, p =>
    match parsePrimary fuel p with
    | none => none
    | some r => parseFactorLoop fuel r.1 r.2

/-- The loop of `parseFactor`, over the multiplicative operators. -/
def parseFactorLoop : Nat → Option ASTNode → Parser → Option (Option ASTNode × Parser)
  | 0, _, _ => none
  | fuel + 1, left, p =>
    match mulOp p.currentToken.type with
    | none => some (left, p)
    | some op =>
      match parsePrimary fuel p.advance with
      | none => none
      | some r => parseFactorLoop fuel (some (mkOpNode op left r.1)) r.2

def parsePrimary : Nat → Parser → Option (Option ASTNode × Parser)
  | 0, _ => none
  | fuel + 1, p =>
    if p.matchTok TOK_MINUS then
      match parsePrimary fuel p.advance with
      | none => none
      | some r => some (some ((ASTNode.new "-").addChild r.1), r.2)
    else if p.matchTok TOK_PLUS then
      parsePrimary fuel p.advance
    else if p.matchTok TOK_NOT then
      match parsePrimary fuel p.advance with
      | none => none
      | some r => some (some ((ASTNode.new "not").addChild r.1), r.2)
    else if p.matchTok TOK_SUCC then
      match parseExpression fuel (p.advance.consume TOK_LPAREN).2 with
      | none => none
      | some r => some (some ((ASTNode.new "succ").addChild r.1), (r.2.consume TOK_RPAREN).2)
    else if p.matchTok TOK_PRED then
      match parseExpression fuel (p.advance.consume TOK_LPAREN).2 with
      | none => none
      | some r => some (some ((ASTNode.new "pred").addChild r.1), (r.2.consume TOK_RPAREN).2)
    else if p.matchTok TOK_CHR then
      match parseExpression fuel (p.advance.consume TOK_LPAREN).2 with
      | none => none
      | some r => some (some ((ASTNode.new "chr").addChild r.1), (r.2.consume TOK_RPAREN).2)
    else if p.matchTok TOK_ORD then
      match parseExpression fuel (p.advance.consume TOK_LPAREN).2 with
      | none => none
      | some r => some (some ((ASTNode.new "ord").addChild r.1), (r.2.consume TOK_RPAREN).2)
    else if p.matchTok TOK_EOF_KW then
      some (some (ASTNode.new "eof"), p.advance)
    else if p.matchTok TOK_INTEGER then
      some (some (createIntegerNode p.currentToken.value), p.advance)
    else if p.matchTok TOK_CHAR then
      some (some (createCharNode p.currentToken.value), p.advance)
    else if p.matchTok TOK_STRING then
      some (some (createStringNode p.currentToken.value), p.advance)
    else if p.matchTok TOK_TRUE || p.matchTok TOK_FALSE then
      some (some (createIdentifierNode p.currentToken.value), p.advance)
    else if p.matchTok TOK_LPAREN then
      match parseExpression fuel p.advance with
      | none => none
      | some r => some (r.1, (r.2.consume TOK_RPAREN).2)
    else if p.matchTok TOK_IDENTIFIER then
      let name := p.currentToken.value
      let p1 := p.advance
      if p1.matchTok TOK_LPAREN then
        let p2 := p1.advance
        let call := (ASTNode.new "call").addChild (some (createIdentifierNode name))
        if !p2.matchTok TOK_RPAREN then
          match parseCallArgsLoop fuel call p2 with
          | none => none
          | some r => some (some r.1, (r.2.consume TOK_RPAREN).2)
        else some (some call, (p2.consume TOK_RPAREN).2)
      else some (some (createIdentifierNode name), p1)
    else some (none, p)

/-- The argument loop of a call in `parsePrimary`:
`do { call->addChild(parseExpression()); } while (consume(TOK_COMMA));`. -/
def parseCallArgsLoop : Nat → ASTNode → Parser → Option (ASTNode × Parser)
  | 0, _, _ => none
  | fuel + 1, call, p =>
    match parseExpression fuel p with
    | none => none
    | some r =>
      let c := r.2.consume TOK_COMMA
      if c.1 then parseCallArgsLoop fuel (call.addChild r.1) c.2
      else some (call.addChild r.1, c.2)

end

def parseAssignment (fuel : Nat) (p : Parser) : Option (Option ASTNode × Parser) :=
  if p.matchTok TOK_IDENTIFIER then
    let name := p.currentToken.value
    let p1 := p.advance
    if p1.matchTok TOK_ASSIGN then
      let assign := (ASTNode.new "assign").addChild (some (createIdentifierNode name))
      match parseExpression fuel p1.advance with
      | none => none
      | some r => some (some (assign.addChild r.1), r.2)
    else if p1.matchTok TOK_SWAP then
      let swap := (ASTNode.new "swap").addChild (some (createIdentifierNode name))
      let r := parseName p1.advance
      some (some (swap.addChild r.1), r.2)
    else some (none, p1)
  else some (none, p)

def parseForStat (fuel : Nat) (p : Parser) : Option (Option ASTNode × Parser) :=
  if p.matchTok TOK_IDENTIFIER then parseAssignment fuel p
  else some (some (ASTNode.new "<null>"), p)

def parseForExp (fuel : Nat) (p : Parser) : Option (Option ASTNode × Parser) :=
  if !p.matchTok TOK_SEMICOLON then parseExpression fuel p
  else some (some (ASTNode.new "true"), p)

def parseOutExp (fuel : Nat) (p : Parser) : Option (Option ASTNode × Parser) :=
  if p.matchTok TOK_STRING then
    some (some ((ASTNode.new "string").addChild (some (createStringNode p.currentToken.value))),
      p.advance)
  else
    match parseExpression fuel p with
    | none => none
    | some r => some (some ((ASTNode.new "integer").addChild r.1), r.2)

/-- Member `parseCaseclauses()`: a stub that returns the null pointer. -/
def parseCaseclauses (p : Parser) : Option ASTNode × Parser := (none, p)

def parseCaseExpression (p : Parser) : Option ASTNode × Parser :=
  let r := parseConstValue p
  if r.2.matchTok TOK_DOTS then
    let range := (ASTNode.new "..").addChild r.1
    let r2 := parseConstValue r.2.advance
    (some (range.addChild r2.1), r2.2)
  else r

/-- The loop of the output statement:
`do { output->addChild(parseOutExp()); } while (consume(TOK_COMMA));`. -/
def parseOutputLoop : Nat → ASTNode → Parser → Option (ASTNode × Parser)
  | 0, _, _ => none
  | fuel + 1, output, p =>
    match parseOutExp fuel p with
    | none => none
    | some r =>
      let c := r.2.consume TOK_COMMA
      if c.1 then parseOutputLoop fuel (output.addChild r.1) c.2
      else some (output.addChild r.1, c.2)

/-- The loop of the read statement:
`do { read->addChild(parseName()); } while (consume(TOK_COMMA));`. -/
def parseReadLoop : Nat → ASTNode → Parser → Option (ASTNode × Parser)
  | 0, _, _ => none
  | fuel + 1, read, p =>
    let r := parseName p
    let c := r.2.consume TOK_COMMA
    if c.1 then parseReadLoop fuel (read.addChild r.1) c.2
    else some (read.addChild r.1, c.2)

mutual

def parseStatement : Nat → Parser → Option (Option ASTNode × Parser)
  | 0, _ => none
  | fuel + 1, p =>
    if p.matchTok TOK_IDENTIFIER then
      let name := p.currentToken.value
      let p1 := p.advance
      if p1.matchTok TOK_ASSIGN then
        let assign := (ASTNode.new "assign").addChild (some (createIdentifierNode name))
        match parseExpression fuel p1.advance with
        | none => none
        | some r => some (some (assign.addChild r.1), r.2)
      else if p1.matchTok TOK_SWAP then
        let swap := (ASTNode.new "swap").addChild (some (createIdentifierNode name))
        let r := parseName p1.advance
        some (some (swap.addChild r.1), r.2)
      else some (none, p1)
    else if p.matchTok TOK_OUTPUT then
      match parseOutputLoop fuel (ASTNode.new "output") (p.advance.consume TOK_LPAREN).2 with
      | none => none
      | some r => some (some r.1, (r.2.consume TOK_RPAREN).2)
    else if p.matchTok TOK_IF then
      let ifNode := ASTNode.new "if"
      match parseExpression fuel p.advance with
      | none => none
      | some rc =>
        match parseStatement fuel (rc.2.consume TOK_THEN).2 with
        | none => none
        | some rt =>
          let ifNode := (ifNode.addChild rc.1).addChild rt.1
          if rt.2.matchTok TOK_ELSE then
            match parseStatement fuel rt.2.advance with
            | none => none
            | some re => some (some (ifNode.addChild re.1), re.2)
          else some (some ifNode, rt.2)
    else if p.matchTok TOK_WHILE then
      let whileNode := ASTNode.new "while"
      match parseExpression fuel p.advance with
      | none => none
      | some rc =>
        match parseStatement fuel (rc.2.consume TOK_DO).2 with
        | none => none
        | some rb => some (some ((whileNode.addChild rc.1).addChild rb.1), rb.2)
    else if p.matchTok TOK_REPEAT then
      match parseRepeatLoop fuel (ASTNode.new "repeat") p.advance with
      | none => none
      | some rl =>
        match parseExpression fuel (rl.2.consume TOK_UNTIL).2 with
        | none => none
        | some rc => some (some (rl.1.addChild rc.1), rc.2)
    else if p.matchTok TOK_FOR then
      let forNode := ASTNode.new "for"
      match parseForStat fuel (p.advance.consume TOK_LPAREN).2 with
      | none => none
      | some r1 =>
        match parseForExp fuel (r1.2.consume TOK_SEMICOLON).2 with
        | none => none
        | some r2 =>
          match parseForStat fuel (r2.2.consume TOK_SEMICOLON).2 with
          | none => none
          | some r3 =>
            match parseStatement fuel (r3.2.consume TOK_RPAREN).2 with
            | none => none
            | some r4 =>
              some (some ((((forNode.addChild r1.1).addChild r2.1).addChild r3.1).addChild r4.1),
                r4.2)
    else if p.matchTok TOK_LOOP then
      match parseLoopLoop fuel (ASTNode.new "loop") p.advance with
      | none => none
      | some rl => some (some rl.1, (rl.2.consume TOK_POOL).2)
    else if p.matchTok TOK_CASE then
      let caseNode := ASTNode.new "case"
      match parseExpression fuel p.advance with
      | none => none
      | some re =>
        match parseCaseLoop fuel (caseNode.addChild re.1) (re.2.consume TOK_OF).2 with
        | none => none
        | some rl =>
          if rl.2.matchTok TOK_OTHERWISE then
            match parseOtherwiseClause fuel rl.2 with
            | none => none
            | some ro => some (some (rl.1.addChild ro.1), (ro.2.consume TOK_END).2)
          else some (some rl.1, (rl.2.consume TOK_END).2)
    else if p.matchTok TOK_READ then
      match parseReadLoop fuel (ASTNode.new "read") (p.advance.consume TOK_LPAREN).2 with
      | none => none
      | some r => some (some r.1, (r.2.consume TOK_RPAREN).2)
    else if p.matchTok TOK_EXIT then
      some (some (ASTNode.new "exit"), p.advance)
    else if p.matchTok TOK_RETURN then
      match parseExpression fuel p.advance with
      | none => none
      | some r => some (some ((ASTNode.new "return").addChild r.1), r.2)
    else if p.matchTok TOK_BEGIN then
      parseBody fuel p
    else some (some (ASTNode.new "<null>"), p)

/-- The statement loop of the repeat statement:
`do { repeatNode->addChild(parseStatement()); } while (consume(TOK_SEMICOLON) && !match(TOK_UNTIL));`. -/
def parseRepeatLoop : Nat → ASTNode → Parser → Option (ASTNode × Parser)
  | 0, _, _ => none
  | fuel + 1, repeatNode, p =>
    match parseStatement fuel p with
    | none => none
    | some r =>
      let c := r.2.consume TOK_SEMICOLON
      if c.1 && !c.2.matchTok TOK_UNTIL then parseRepeatLoop fuel (repeatNode.addChild r.1) c.2
      else some (repeatNode.addChild r.1, c.2)

/-- The statement loop of the loop statement:
`do { loopNode->addChild(parseStatement()); } while (consume(TOK_SEMICOLON) && !match(TOK_POOL));`. -/
def parseLoopLoop : Nat → ASTNode → Parser → Option (ASTNode × Parser)
  | 0, _, _ => none
  | fuel + 1, loopNode, p =>
    match parseStatement fuel p with
    | none => none
    | some r =>
      let c := r.2.consume TOK_SEMICOLON
      if c.1 && !c.2.matchTok TOK_POOL then parseLoopLoop fuel (loopNode.addChild r.1) c.2
      else some (loopNode.addChild r.1, c.2)

/-- The clause loop of the case statement:
`while (!match(TOK_END) && !match(TOK_OTHERWISE)) { clause = parseCaseclause();
if (clause) caseNode->addChild(clause); consume(TOK_SEMICOLON);
if (!match(TOK_END) && !match(TOK_OTHERWISE) && clause == nullptr) break; }`. -/
def parseCaseLoop : Nat → ASTNode → Parser → Option (ASTNode × Parser)
  | 0, _, _ => none
  | fuel + 1, caseNode, p =>
    if !p.matchTok TOK_END && !p.matchTok TOK_OTHERWISE then
      match parseCaseclause fuel p with
      | none => none
      | some r =>
        let p1 := (r.2.consume TOK_SEMICOLON).2
        if !p1.matchTok TOK_END && !p1.matchTok TOK_OTHERWISE && r.1.isNone then
          some (caseNode.addChild r.1, p1)
        else parseCaseLoop fuel (caseNode.addChild r.1) p1
    else some (caseNode, p)

def parseCaseclause : Nat → Parser → Option (Option ASTNode × Parser)
  | 0, _ => none
  | fuel + 1, p =>
    let clause := ASTNode.new "case_clause"
    let r1 := parseCaseExpression p
    match parseStatement fuel (r1.2.consume TOK_COLON).2 with
    | none => none
    | some r2 => some (some ((clause.addChild r1.1).addChild r2.1), r2.2)

def parseOtherwiseClause : Nat → Parser → Option (Option ASTNode × Parser)
  | 0, _ => none
  | fuel + 1, p =>
    match parseStatement fuel p.advance with
    | none => none
    | some r => some (some ((ASTNode.new "otherwise").addChild r.1), r.2)

def parseBody : Nat → Parser → Option (Option ASTNode × Parser)
  | 0, _ => none
  | fuel + 1, p =>
    let block := ASTNode.new "block"
    let p1 := (p.consume TOK_BEGIN).2
    if !p1.matchTok TOK_END then
      match parseBodyLoop fuel block p1 with
      | none => none
      | some r => some (some r.1, (r.2.consume TOK_END).2)
    else some (some block, (p1.consume TOK_END).2)

/-- The statement loop of `parseBody`:
`while (!match(TOK_END)) { stmt = parseStatement();
if (stmt) block->addChild(stmt); else block->addChild(new ASTNode("<null>"));
if (!consume(TOK_SEMICOLON)) { if (!match(TOK_END)) block->addChild(new ASTNode("<null>")); break; }
if (match(TOK_END)) { block->addChild(new ASTNode("<null>")); break; } }`. -/
def parseBodyLoop : Nat → ASTNode → Parser → Option (ASTNode × Parser)
  | 0, _, _ => none
  | fuel + 1, block, p =>
    if !p.matchTok TOK_END then
      match parseStatement fuel p with
      | none => none
      | some r =>
        let block1 := match r.1 with
          | some stmt => block.addChild (some stmt)
          | none => block.addChild (some (ASTNode.new "<null>"))
        let c := r.2.consume TOK_SEMICOLON
        if !c.1 then
          if !c.2.matchTok TOK_END then
            some (block1.addChild (some (ASTNode.new "<null>")), c.2)
          else some (block1, c.2)
        else if c.2.matchTok TOK_END then
          some (block1.addChild (some (ASTNode.new "<null>")), c.2)
        else parseBodyLoop fuel block1 c.2
    else some (block, p)

end

def parseFcn (fuel : Nat) (p : Parser) : Option (Option ASTNode × Parser) :=
  let fcn := ASTNode.new "fcn"
  let p0 := (p.consume TOK_FUNCTION).2
  let r1 := parseName p0
  let fcn := fcn.addChild r1.1
  match parseParams fuel (r1.2.consume TOK_LPAREN).2 with
  | none => none
  | some r2 =>
    let fcn := fcn.addChild r2.1
    let r3 := parseName ((r2.2.consume TOK_RPAREN).2.consume TOK_COLON).2
    let fcn := fcn.addChild r3.1
    match parseConsts fuel (r3.2.consume TOK_SEMICOLON).2 with
    | none => none
    | some r4 =>
      match parseTypes fuel r4.2 with
      | none => none
      | some r5 =>
        match parseDclns fuel r5.2 with
        | none => none
        | some r6 =>
          match parseBody fuel r6.2 with
          | none => none
          | some r7 =>
            let r8 := parseName r7.2
            some (some (((((fcn.addChild r4.1).addChild r5.1).addChild r6.1).addChild r7.1).addChild
              r8.1), (r8.2.consume TOK_SEMICOLON).2)

/-- The loop of `parseSubProgs`: `while (match(TOK_FUNCTION)) subprogs->addChild(parseFcn());`. -/
def parseSubProgsLoop : Nat → ASTNode → Parser → Option (ASTNode × Parser)
  | 0, _, _ => none
  | fuel + 1, subprogs, p =>
    if p.matchTok TOK_FUNCTION then
      match parseFcn fuel p with
      | none => none
      | some r => parseSubProgsLoop fuel (subprogs.addChild r.1) r.2
    else some (subprogs, p)

def parseSubProgs (fuel : Nat) (p : Parser) : Option (Option ASTNode × Parser) :=
  match parseSubProgsLoop fuel (ASTNode.new "subprogs") p with
  | none => none
  | some r => some (some r.1, r.2)

def parseProgram (fuel : Nat) (p : Parser) : Option (Option ASTNode × Parser) :=
  let program := ASTNode.new "program"
  let c1 := p.consume TOK_PROGRAM
  if !c1.1 then some (none, c1.2)
  else
    let r1 := parseName c1.2
    let program := program.addChild r1.1
    let c2 := r1.2.consume TOK_COLON
    if !c2.1 then some (none, c2.2)
    else
      match parseConsts fuel c2.2 with
      | none => none
      | some r2 =>
        match parseTypes fuel r2.2 with
        | none => none
        | some r3 =>
          match parseDclns fuel r3.2 with
          | none => none
          | some r4 =>
            match parseSubProgs fuel r4.2 with
            | none => none
            | some r5 =>
              match parseBody fuel r5.2 with
              | none => none
              | some r6 =>
                let r7 := parseName r6.2
                some (some ((((((program.addChild r2.1).addChild r3.1).addChild r4.1).addChild
                  r5.1).addChild r6.1).addChild r7.1), (r7.2.consume TOK_DOT).2)

end Parser

/-! ## main.cpp -/

/-- What `main` does with the text of the input file once it has been read: the text written to
standard output and the exit status, or `none` when the parser runs out of fuel.  On a parse
failure nothing is written to standard output (`Parse error` goes to standard error). -/
def runMain (fuel : Nat) (input : List Char) : Option (String × Nat) :=
  match Parser.parseProgram fuel (Parser.new input) with
  | none => none
  | some (some ast, _) => some (ast.print 0 true ++ "\n", 0)
  | some (none, _) => some ("", 1)

/-! ## Auxiliary definitions used to state the theorems -/

namespace ASTNode

mutual
/-- Every node of the tree has an empty `value` field. -/
def valuesEmpty : ASTNode → Bool
  | mk _ cs v => v == "" && valuesEmptyList cs
/-- Every node of every tree of the list has an empty `value` field. -/
def valuesEmptyList : List ASTNode → Bool
  | [] => true
  | c :: cs => valuesEmpty c && valuesEmptyList cs
end

mutual
/-- The lines of the preorder dump of a tree at depth `d`: one line, `d` markers then
`label(childCount)`, per node; a node before its children, the children in order one level
deeper. -/
def dumpLines : ASTNode → Nat → List String
  | mk ty cs _, d =>
    (String.join (List.replicate d ". ") ++ ty ++ "(" ++ toString cs.length ++ ")")
      :: dumpLinesList cs (d + 1)
/-- The preorder dump of a list of sibling trees. -/
def dumpLinesList : List ASTNode → Nat → List String
  | [], _ => []
  | c :: cs, d => dumpLines c d ++ dumpLinesList cs d
end

mutual
/-- All the nodes of a tree, the root first. -/
def subtrees : ASTNode → List ASTNode
  | mk ty cs v => mk ty cs v :: subtreesList cs
/-- All the nodes of a list of trees. -/
def subtreesList : List ASTNode → List ASTNode
  | [] => []
  | c :: cs => subtrees c ++ subtreesList cs
end

end ASTNode

namespace Lexer

/-- The characters not yet consumed. -/
def rest (l : Lexer) : List Char := l.input.drop l.pos

/-- The state after `k` calls of `advance`. -/
def skip : Nat → Lexer → Lexer
  | 0, l => l
  | k + 1, l => skip k l.advance.2

/-- The tokens returned by `k` successive calls of `nextToken`. -/
def tokenStream : Nat → Lexer → List Token
  | 0, _ => []
  | k + 1, l => l.nextToken.1 :: tokenStream k l.nextToken.2

/-- The text is an identifier or keyword spelling: `[A-Za-z_][A-Za-z0-9_]*`. -/
def isIdentifierText (p : List Char) : Bool :=
  match p with
  | [] => false
  | c :: cs => (isalpha c || c == '_') && cs.all (fun c => isalnum c || c == '_')

/-- The text that follows cannot continue an identifier: it is empty or starts with a character
outside `[A-Za-z0-9_]`. -/
def identifierEnd (r : List Char) : Bool :=
  match r with
  | [] => true
  | c :: _ => !(isalnum c || c == '_')

/-- The text is an integer literal: a non-empty run of digits. -/
def isNumberText (p : List Char) : Bool :=
  !p.isEmpty && p.all isdigit

/-- The text that follows cannot continue an integer literal. -/
def numberEnd (r : List Char) : Bool :=
  match r with
  | [] => true
  | c :: _ => !isdigit c

/-- The character `c`, followed by `next` (NUL at the end of the input), is lexed by the last
branch of `nextToken`, as a one-character token: it starts no comment, newline, identifier,
number, char or string literal, and no two-character operator. -/
def isSingleCharToken (c next : Char) : Bool :=
  !isspace c && c != '#' && c != '\x7b' && !isalpha c && c != '_' && !isdigit c && c != '\''
    && c != '"' && !(c == ':' && next == '=') && !(c == '<' && next == '=')
    && !(c == '>' && next == '=') && !(c == '<' && next == '>') && !(c == '.' && next == '.')

end Lexer

namespace Parser

/-- The text of a primary operand: an identifier spelling that is not a keyword, or an integer
literal. -/
def isPrimaryText (x : List Char) : Bool :=
  (Lexer.isIdentifierText x && (keywords.lookup (String.mk x)).isNone) || Lexer.isNumberText x

/-- The wrapper node of a primary operand with text `x`: `<integer>` over the digits, or
`<identifier>` over the spelling. -/
def primaryNode (x : List Char) : ASTNode :=
  if Lexer.isNumberText x then createIntegerNode (String.mk x)
  else createIdentifierNode (String.mk x)

/-- The token is an operand made of one token: an integer literal or an identifier. -/
def isOperand (t : Token) : Bool :=
  t.type == TOK_INTEGER || t.type == TOK_IDENTIFIER

/-- The wrapper node `parsePrimary` builds from an operand token. -/
def operandNode (t : Token) : ASTNode :=
  if t.type = TOK_INTEGER then createIntegerNode t.value else createIdentifierNode t.value

/-- The token cannot continue an expression that ends in an operand: it is no binary operator
and no opening parenthesis. -/
def endsExpression (t : TokenType) : Bool :=
  (relOp t).isNone && (addOp t).isNone && (mulOp t).isNone && t != TOK_LPAREN

/-- The state after `k` calls of `advance`. -/
def advanceN : Nat → Parser → Parser
  | 0, p => p
  | k + 1, p => advanceN k p.advance

/-- Termination measure of the declaration loops: the characters the lexer has not consumed,
plus one while the current token is not the end-of-input token. -/
def remaining (p : Parser) : Nat :=
  p.lexer.rest.length + (if p.currentToken.type = TOK_EOF then 0 else 1)

/-- The labels of the four wrapper nodes. -/
def isWrapperLabel (label : String) : Bool :=
  label == "<identifier>" || label == "<integer>" || label == "<char>" || label == "<string>"

/-- The token kinds whose text each wrapper is built from: `createIdentifierNode` is called on
identifiers, on the type names `integer` and `boolean` and on `true` and `false`. -/
def wrapperKinds (label : String) : List TokenType :=
  if label = "<identifier>" then
    [TOK_IDENTIFIER, TOK_INTEGER_TYPE, TOK_BOOLEAN, TOK_TRUE, TOK_FALSE]
  else if label = "<integer>" then [TOK_INTEGER]
  else if label = "<char>" then [TOK_CHAR]
  else if label = "<string>" then [TOK_STRING]
  else []

/-- The lexical class of the text under each wrapper: an identifier spelling, a non-empty run
of digits, a character between two quotes, a text that starts with a double quote. -/
def wrapperText (label : String) (text : String) : Prop :=
  (label = "<identifier>" → Lexer.isIdentifierText text.data = true)
  ∧ (label = "<integer>" → Lexer.isNumberText text.data = true)
  ∧ (label = "<char>" → ∃ c : Char, text = ("'".push c) ++ "'")
  ∧ (label = "<string>" → ∃ body : List Char, text = String.mk ('"' :: body))

/-- The lexical class of a literal token's text: identifiers and keywords are spelled
`[A-Za-z_][A-Za-z0-9_]*`, an integer literal is a non-empty run of digits, a char literal is
one character between two quotes, a string literal starts with a double quote. -/
def TokenClassOK (t : Token) : Prop :=
  (t.type ∈ [TOK_IDENTIFIER, TOK_INTEGER_TYPE, TOK_BOOLEAN, TOK_TRUE, TOK_FALSE] →
      Lexer.isIdentifierText t.value.data = true)
  ∧ (t.type = TOK_INTEGER → Lexer.isNumberText t.value.data = true)
  ∧ (t.type = TOK_CHAR → ∃ c : Char, t.value = ("'".push c) ++ "'")
  ∧ (t.type = TOK_STRING → ∃ body : List Char, t.value = String.mk ('"' :: body))

/-- The text of a literal token is not itself the label of a wrapper. -/
def TokenTextOK (t : Token) : Prop :=
  t.type ∈ [TOK_IDENTIFIER, TOK_INTEGER_TYPE, TOK_BOOLEAN, TOK_TRUE, TOK_FALSE, TOK_INTEGER,
      TOK_CHAR, TOK_STRING] →
    isWrapperLabel t.value = false

/-- The wrapper pattern at one node, for a parse started in state `s0`: a node with a wrapper
label has exactly one child, a leaf whose label is the text of one of the tokens read from
`s0` on, of a kind the wrapper is built from. -/
def WrapperOK (s0 : Parser) (n : ASTNode) : Prop :=
  isWrapperLabel n.nodeType = true →
    ∃ k, (advanceN k s0).currentToken.type ∈ wrapperKinds n.nodeType
      ∧ n = ASTNode.mk n.nodeType [ASTNode.mk (advanceN k s0).currentToken.value [] ""] ""

/-- The wrapper pattern at every node of a tree. -/
def TreeOK (s0 : Parser) (t : ASTNode) : Prop :=
  ∀ n ∈ t.subtrees, WrapperOK s0 n

/-- The wrapper pattern at every node of an optional tree. -/
def OptOK (s0 : Parser) (o : Option ASTNode) : Prop :=
  ∀ t, o = some t → TreeOK s0 t

/-- A node under construction: its label is not a wrapper label and the wrapper pattern holds
in each of its children. -/
def Good (s0 : Parser) (n : ASTNode) : Prop :=
  isWrapperLabel n.nodeType = false ∧ ∀ c ∈ n.children, TreeOK s0 c

/-- The state `s` is reached from `s0` by calls of `advance`. -/
def Reach (s0 s : Parser) : Prop :=
  ∃ k, s = advanceN k s0

/-- Invariant of a parsing routine's result: the state is reached from `s0` and the tree, if
present, has the wrapper pattern. -/
def ResOK (s0 : Parser) (r : Option ASTNode × Parser) : Prop :=
  Reach s0 r.2 ∧ OptOK s0 r.1

/-- Invariant of a list loop's result: the state is reached from `s0` and the node under
construction is good. -/
def NodeOK (s0 : Parser) (r : ASTNode × Parser) : Prop :=
  Reach s0 r.2 ∧ Good s0 r.1

/-- The invariant of the eight routines of the expression parser, at a given fuel. -/
def ExprInv (s0 : Parser) (n : Nat) : Prop :=
  (∀ s r, parseExpression n s = some r → Reach s0 s → ResOK s0 r)
  ∧ (∀ left s r, parseExpressionLoop n left s = some r → Reach s0 s → OptOK s0 left →
      ResOK s0 r)
  ∧ (∀ s r, parseTerm n s = some r → Reach s0 s → ResOK s0 r)
  ∧ (∀ left s r, parseTermLoop n left s = some r → Reach s0 s → OptOK s0 left → ResOK s0 r)
  ∧ (∀ s r, parseFactor n s = some r → Reach s0 s → ResOK s0 r)
  ∧ (∀ left s r, parseFactorLoop n left s = some r → Reach s0 s → OptOK s0 left → ResOK s0 r)
  ∧ (∀ s r, parsePrimary n s = some r → Reach s0 s → ResOK s0 r)
  ∧ (∀ node s r, parseCallArgsLoop n node s = some r → Reach s0 s → Good s0 node →
      NodeOK s0 r)

/-- The invariant of the eight routines of the statement parser, at a given fuel. -/
def StmtInv (s0 : Parser) (n : Nat) : Prop :=
  (∀ s r, parseStatement n s = some r → Reach s0 s → ResOK s0 r)
  ∧ (∀ node s r, parseRepeatLoop n node s = some r → Reach s0 s → Good s0 node → NodeOK s0 r)
  ∧ (∀ node s r, parseLoopLoop n node s = some r → Reach s0 s → Good s0 node → NodeOK s0 r)
  ∧ (∀ node s r, parseCaseLoop n node s = some r → Reach s0 s → Good s0 node → NodeOK s0 r)
  ∧ (∀ s r, parseCaseclause n s = some r → Reach s0 s → ResOK s0 r)
  ∧ (∀ s r, parseOtherwiseClause n s = some r → Reach s0 s → ResOK s0 r)
  ∧ (∀ s r, parseBody n s = some r → Reach s0 s → ResOK s0 r)
  ∧ (∀ node s r, parseBodyLoop n node s = some r → Reach s0 s → Good s0 node → NodeOK s0 r)

/-- The parser's current token has kind `ty` and text `val`, and its lexer has exactly the
characters `cs` left to read. -/
def At (p : Parser) (ty : TokenType) (val : String) (cs : List Char) : Prop :=
  p.currentToken.type = ty ∧ p.currentToken.value = val ∧ p.lexer.rest = cs

/-- From any state whose lexer has the characters `cs` left, `advance` makes the token of
kind `ty` and text `val` current and leaves the characters `cs'`. -/
def LexTo (cs : List Char) (ty : TokenType) (val : String) (cs' : List Char) : Prop :=
  ∀ p : Parser, p.lexer.rest = cs → p.advance.At ty val cs'

end Parser

open TokenType

namespace Parser

/-- Spellings of the relational operators, the lowest level of `parseExpression`. -/
def relOps : List String := ["=", "<>", "<", "<=", ">", ">="]

/-- Spellings of the additive operators, the level of `parseTerm`. -/
def addOps : List String := ["+", "-", "or"]

/-- Spellings of the multiplicative operators, the level of `parseFactor`. -/
def mulOps : List String := ["*", "/", "and", "mod"]

/-- The token kinds at which `parseStatement` recognises a statement form: assignment or swap
(an identifier), `output`, `if`, `while`, `repeat`, `for`, `loop`, `case`, `read`, `exit`,
`return` and a nested block (`begin`). -/
def statementStarts : List TokenType :=
  [TOK_IDENTIFIER, TOK_OUTPUT, TOK_IF, TOK_WHILE, TOK_REPEAT, TOK_FOR, TOK_LOOP, TOK_CASE,
   TOK_READ, TOK_EXIT, TOK_RETURN, TOK_BEGIN]

/-- Run from state `p`, `parseStatement` returns the node `node` and leaves the parser in
state `q`. -/
def StmtAt (p : Parser) (node : ASTNode) (q : Parser) : Prop :=
  ∃ fuel, parseStatement fuel p = some (some node, q)

/-- Run from state `p`, `parseExpression` returns the node `node` and leaves the parser in
state `q`. -/
def ExprAt (p : Parser) (node : ASTNode) (q : Parser) : Prop :=
  ∃ fuel, parseExpression fuel p = some (some node, q)

/-- A statement list `S1; ...; Sn` with `n ≥ 1`, read from state `p`: `parseStatement` turns the
statements into `nodes`, one after the other; each statement but the last ends at a `;` that is
not followed by the token `stop` (the terminator of the enclosing construct), and the next
statement starts right after that `;`.  The last statement leaves the parser in state `q`. -/
inductive StmtSeq (stop : TokenType) : Parser → List ASTNode → Parser → Prop
  | one {p q : Parser} {node : ASTNode} : StmtAt p node q → StmtSeq stop p [node] q
  | more {p m q : Parser} {node : ASTNode} {nodes : List ASTNode} :
      StmtAt p node m → m.currentToken.type = TOK_SEMICOLON →
      m.advance.currentToken.type ≠ stop → StmtSeq stop m.advance nodes q →
      StmtSeq stop p (node :: nodes) q

/-- An assignment `x := v` of a primary: `x` is an identifier spelling that is not a keyword and
`v` is an identifier that is not a keyword or an integer literal. -/
def isAssignment (xv : List Char × List Char) : Bool :=
  Lexer.isIdentifierText xv.1 && (keywords.lookup (String.mk xv.1)).isNone && isPrimaryText xv.2

/-- The text `x := v` of an assignment. -/
def assignText (xv : List Char × List Char) : List Char :=
  xv.1 ++ " := ".toList ++ xv.2

/-- The text `x1 := v1; x2 := v2; ...` of a list of assignments separated by `; `. -/
def assignsText : List (List Char × List Char) → List Char
  | [] => []
  | xv :: rest => assignText xv ++ (if rest.isEmpty then [] else "; ".toList ++ assignsText rest)

/-- The node of the assignment `x := v`: `assign` over the wrappers of `x` and of `v`. -/
def assignNode (xv : List Char × List Char) : ASTNode :=
  ASTNode.mk "assign" [createIdentifierNode (String.mk xv.1), primaryNode xv.2] ""

end Parser

open TokenType

/-- Kind and text of a token, its line and column left out. -/
def Token.key (t : Token) : TokenType × String := (t.type, t.value)

namespace Lexer

/-- The tokens returned by successive calls of `nextToken`, up to and including the first EOF
token; one unit of fuel per call. -/
def streamLoop : Nat → Lexer → List Token
  | 0, _ => []
  | fuel + 1, l =>
    if l.nextToken.1.type = TOK_EOF then [l.nextToken.1]
    else l.nextToken.1 :: streamLoop fuel l.nextToken.2

/-- The token stream of an input text: every token other than EOF consumes a character, so
`input.length + 1` calls reach the EOF token. -/
def stream (input : List Char) : List Token :=
  streamLoop (input.length + 1) (Lexer.new input)

/-- The (kind, text) pairs of the token stream of a lexer state, NEWLINE tokens deleted. -/
def significantFrom (fuel : Nat) (l : Lexer) : List (TokenType × String) :=
  ((streamLoop fuel l).filter (fun t => t.type != TOK_NEWLINE)).map Token.key

/-- The (kind, text) pairs of the token stream of an input text, NEWLINE tokens deleted. -/
def significant (input : List Char) : List (TokenType × String) :=
  ((stream input).filter (fun t => t.type != TOK_NEWLINE)).map Token.key

end Lexer

namespace Parser

/-- The two parser states show the same tokens, now and after any number of calls of
`advance`: same kind and same text, whatever the positions. -/
def Sim (p1 p2 : Parser) : Prop :=
  ∀ k, (advanceN k p1).currentToken.key = (advanceN k p2).currentToken.key

/-- Two results of a parsing routine agree: both ran out of fuel, or both returned the same
value and states that show the same tokens. -/
def SimRes {α : Type} (a b : Option (α × Parser)) : Prop :=
  (a = none ∧ b = none) ∨ ∃ v q1 q2, a = some (v, q1) ∧ b = some (v, q2) ∧ Sim q1 q2

/-- Two results of a routine without fuel agree: the same value and states that show the same
tokens. -/
def SimPair {α : Type} (a b : α × Parser) : Prop :=
  a.1 = b.1 ∧ Sim a.2 b.2

/-- Run from state `p`, `parseCaseclause` returns the node `node` and leaves the parser in
state `q`. -/
def ClauseAt (p : Parser) (node : ASTNode) (q : Parser) : Prop :=
  ∃ fuel, parseCaseclause fuel p = some (some node, q)

/-- The clauses of a case statement, read from state `p`: the list is over when the current
token is `end` or `otherwise`; before that `parseCaseclause` turns a clause into a node, and the
next clause starts after the `;` that follows it, if there is one. -/
inductive ClauseSeq : Parser → List ASTNode → Parser → Prop
  | done {p : Parser} :
      p.currentToken.type = TOK_END ∨ p.currentToken.type = TOK_OTHERWISE → ClauseSeq p [] p
  | more {p m q : Parser} {node : ASTNode} {nodes : List ASTNode} :
      p.currentToken.type ≠ TOK_END → p.currentToken.type ≠ TOK_OTHERWISE →
      ClauseAt p node m → ClauseSeq (m.consume TOK_SEMICOLON).2 nodes q →
      ClauseSeq p (node :: nodes) q

end Parser

open TokenType

namespace Parser

/-- The token kinds at which `parsePrimary` recognises a primary: the unary operators `-`, `+`
and `not`, the built-in functions `succ`, `pred`, `chr` and `ord`, `eof`, the literals, `true`
and `false`, an opening parenthesis and an identifier. -/
def primaryStarts : List TokenType :=
  [TOK_MINUS, TOK_PLUS, TOK_NOT, TOK_SUCC, TOK_PRED, TOK_CHR, TOK_ORD, TOK_EOF_KW, TOK_INTEGER,
   TOK_CHAR, TOK_STRING, TOK_TRUE, TOK_FALSE, TOK_LPAREN, TOK_IDENTIFIER]

/-- Run from state `p`, `parseName` returns the node `node` and leaves the parser in
state `q`. -/
def NameAt (p : Parser) (node : ASTNode) (q : Parser) : Prop :=
  parseName p = (some node, q)

/-- Run from state `p`, `parseOutExp` returns the node `node` and leaves the parser in
state `q`. -/
def OutExpAt (p : Parser) (node : ASTNode) (q : Parser) : Prop :=
  ∃ fuel, parseOutExp fuel p = some (some node, q)

/-- Run from state `p`, `parseDcln` returns the node `node` and leaves the parser in
state `q`. -/
def DclnAt (p : Parser) (node : ASTNode) (q : Parser) : Prop :=
  ∃ fuel, parseDcln fuel p = some (some node, q)

/-- Run from state `p`, `parseBody` returns the node `node` and leaves the parser in
state `q`. -/
def BodyAt (p : Parser) (node : ASTNode) (q : Parser) : Prop :=
  ∃ fuel, parseBody fuel p = some (some node, q)

/-- Run from state `p`, `parseFcn` returns the node `node` and leaves the parser in
state `q`. -/
def FcnAt (p : Parser) (node : ASTNode) (q : Parser) : Prop :=
  ∃ fuel, parseFcn fuel p = some (some node, q)

/-- A list `I1 sep I2 sep ... sep In` with `n ≥ 1`, read from state `p`: the routine described
by `item` turns the items into `nodes`, one after the other; each item but the last ends at the
token `sep`, and the next item starts right after it.  The last item leaves the parser in state
`q`, at a token other than `sep`. -/
inductive SepSeq (item : Parser → ASTNode → Parser → Prop) (sep : TokenType) :
    Parser → List ASTNode → Parser → Prop
  | one {p q : Parser} {node : ASTNode} :
      item p node q → q.currentToken.type ≠ sep → SepSeq item sep p [node] q
  | more {p m q : Parser} {node : ASTNode} {nodes : List ASTNode} :
      item p node m → m.currentToken.type = sep → SepSeq item sep m.advance nodes q →
      SepSeq item sep p (node :: nodes) q

/-- The declarations after `var`, read from state `p`: `parseDcln` turns them into `nodes`, one
after the other; after each declaration a `;` is consumed if there is one, and the list goes on
exactly while the token reached is an identifier.  The list leaves the parser in state `q`. -/
inductive DclnSeq : Parser → List ASTNode → Parser → Prop
  | one {p m : Parser} {node : ASTNode} :
      DclnAt p node m → (m.consume TOK_SEMICOLON).2.currentToken.type ≠ TOK_IDENTIFIER →
      DclnSeq p [node] (m.consume TOK_SEMICOLON).2
  | more {p m q : Parser} {node : ASTNode} {nodes : List ASTNode} :
      DclnAt p node m → (m.consume TOK_SEMICOLON).2.currentToken.type = TOK_IDENTIFIER →
      DclnSeq (m.consume TOK_SEMICOLON).2 nodes q → DclnSeq p (node :: nodes) q

/-- The function declarations read from state `p`: while the current token is `function`,
`parseFcn` turns the declaration into a node; the list ends in state `q`, at the first token
that is not `function`. -/
inductive FcnSeq : Parser → List ASTNode → Parser → Prop
  | done {p : Parser} : p.currentToken.type ≠ TOK_FUNCTION → FcnSeq p [] p
  | more {p m q : Parser} {node : ASTNode} {nodes : List ASTNode} :
      p.currentToken.type = TOK_FUNCTION → FcnAt p node m → FcnSeq m nodes q →
      FcnSeq p (node :: nodes) q

/-- The text `v1, v2, ..., vn` of a list of items separated by `, `. -/
def commaText : List (List Char) → List Char
  | [] => []
  | v :: rest => v ++ (if rest.isEmpty then [] else ", ".toList ++ commaText rest)

/-- A name that `parseName` accepts from an identifier token: an identifier spelling that is
not a keyword. -/
def isNameText (x : List Char) : Bool :=
  Lexer.isIdentifierText x && (keywords.lookup (String.mk x)).isNone

/-- The shape of the node of an argument of `output`: labeled `string` with one child, or
labeled `integer` with at most one child. -/
def isOutArg (c : ASTNode) : Bool :=
  (c.nodeType == "string" && c.children.length == 1)
    || (c.nodeType == "integer" && decide (c.children.length ≤ 1))

end Parser

namespace Lexer

/-- The line of offset `k` as the specification states it: 1 plus the number of line breaks
among the first `k` characters of the input. -/
def specLine (input : List Char) (k : Nat) : Int :=
  1 + ((input.take k).count '\n' : Nat)

/-- The column of offset `k` as the specification states it: 1 plus the number of characters
between the last line break before offset `k` (or the start of the input) and offset `k`. -/
def specColumn (input : List Char) (k : Nat) : Int :=
  1 + (((input.take k).reverse.takeWhile (fun c => c != '\n')).length : Nat)

/-- The position invariant: the cursor is inside the input or at its end, and the fields
`line` and `column` are the line and column of the cursor offset. -/
def PosOK (l : Lexer) : Prop :=
  l.pos ≤ l.input.length ∧ l.line = specLine l.input l.pos
    ∧ l.column = specColumn l.input l.pos

instance (l : Lexer) : Decidable (PosOK l) := by
  unfold PosOK
  infer_instance

/-- The loop of `nextToken` with the same steps, returning the state in which the token is read
(after white space and comments) in place of the token. -/
def tokenStartLoop : Nat → Lexer → Lexer
  | 0, l => l
  | fuel + 1, l0 =>
    if l0.pos < l0.input.length then
      let l := l0.skipWhitespace
      if l.pos ≥ l.input.length then l
      else if l.peek 0 = '#' || l.peek 0 = '\x7b' then tokenStartLoop fuel l.skipComment
      else l
    else l0

/-- The state in which `nextToken` starts to read the token it returns; its cursor is the
start offset of that token. -/
def tokenStart (l : Lexer) : Lexer :=
  tokenStartLoop (l.input.length - l.pos + 1) l

end Lexer

namespace ASTNode

mutual
/-- No label of the tree holds a line break. -/
def labelsClean : ASTNode → Bool
  | mk ty cs _ => ty.data.all (fun c => c != '\n') && labelsCleanList cs
/-- No label of the trees of the list holds a line break. -/
def labelsCleanList : List ASTNode → Bool
  | [] => true
  | c :: cs => labelsClean c && labelsCleanList cs
end

/-- The number of lines of a text that does not end in a line break: one more than the number
of its line breaks. -/
def lineCount (s : String) : Nat := s.data.count '\n' + 1

end ASTNode

namespace Parser

/-- The property `P` of trees is kept by the two ways the parser builds a tree: it holds of
every node made by the constructor, and of a node to which a child that has it is added. -/
def Builds (P : ASTNode → Prop) : Prop :=
  (∀ label : String, P (ASTNode.new label))
    ∧ ∀ (n c : ASTNode), P n → P c → P (n.addChild (some c))

/-- The property `P` holds of an optional tree when the tree is present. -/
def OptP (P : ASTNode → Prop) (o : Option ASTNode) : Prop :=
  ∀ t, o = some t → P t

/-- Every tree returned by the eight routines of the expression parser, at a given fuel, has
the property `P`. -/
def ExprBuilds (P : ASTNode → Prop) (n : Nat) : Prop :=
  (∀ s r, parseExpression n s = some r → OptP P r.1)
  ∧ (∀ left s r, parseExpressionLoop n left s = some r → OptP P left → OptP P r.1)
  ∧ (∀ s r, parseTerm n s = some r → OptP P r.1)
  ∧ (∀ left s r, parseTermLoop n left s = some r → OptP P left → OptP P r.1)
  ∧ (∀ s r, parseFactor n s = some r → OptP P r.1)
  ∧ (∀ left s r, parseFactorLoop n left s = some r → OptP P left → OptP P r.1)
  ∧ (∀ s r, parsePrimary n s = some r → OptP P r.1)
  ∧ (∀ node s r, parseCallArgsLoop n node s = some r → P node → P r.1)

/-- Every tree returned by the eight routines of the statement parser, at a given fuel, has the
property `P`. -/
def StmtBuilds (P : ASTNode → Prop) (n : Nat) : Prop :=
  (∀ s r, parseStatement n s = some r → OptP P r.1)
  ∧ (∀ node s r, parseRepeatLoop n node s = some r → P node → P r.1)
  ∧ (∀ node s r, parseLoopLoop n node s = some r → P node → P r.1)
  ∧ (∀ node s r, parseCaseLoop n node s = some r → P node → P r.1)
  ∧ (∀ s r, parseCaseclause n s = some r → OptP P r.1)
  ∧ (∀ s r, parseOtherwiseClause n s = some r → OptP P r.1)
  ∧ (∀ s r, parseBody n s = some r → OptP P r.1)
  ∧ (∀ node s r, parseBodyLoop n node s = some r → P node → P r.1)

end Parser

open TokenType

/-! # Theorems -/

/-! ## The serializer -/

namespace ASTNode

theorem join_cons (s : String) (l : List String) : String.join (s :: l) = s ++ String.join l := by
  apply String.ext
  simp [String.data_join]

theorem join_append (l1 l2 : List String) :
    String.join (l1 ++ l2) = String.join l1 ++ String.join l2 := by
  apply String.ext
  simp [String.data_join]

theorem join_nil : String.join [] = "" := rfl

theorem intercalate_go_eq (acc s : String) (l : List String) :
    String.intercalate.go acc s l = acc ++ String.join (l.map (fun a => s ++ a)) := by
  induction l generalizing acc with
  | nil => simp [String.intercalate.go, join_nil]
  | cons a l ih =>
    simp only [String.intercalate.go, ih, List.map_cons, join_cons]
    simp only [String.append_assoc]

theorem intercalate_cons (s a : String) (l : List String) :
    s.intercalate (a :: l) = a ++ String.join (l.map (fun b => s ++ b)) := by
  simp [String.intercalate, intercalate_go_eq]

theorem replicate_flatten_comm (m : List Char) (k : Nat) :
    (List.replicate k m).flatten ++ m = m ++ (List.replicate k m).flatten := by
  induction k with
  | zero => simp
  | succ k ih => simp [List.replicate_succ, ih]

theorem indent_eq (k : Nat) : indent k = String.join (List.replicate k ". ") := by
  induction k with
  | zero => rfl
  | succ k ih =>
    rw [indent, ih]
    apply String.ext
    simp only [String.data_append, String.data_join, List.map_replicate, List.replicate_succ,
      List.flatten_cons, List.map_cons]
    exact replicate_flatten_comm _ k

theorem printChildren_eq (cs : List ASTNode) (d : Int) :
    printChildren cs d = String.join (cs.map (fun c => "\n" ++ c.print (d + 1) false)) := by
  induction cs with
  | nil => simp [printChildren, join_nil]
  | cons c cs ih => simp [printChildren, ih, join_cons, String.append_assoc]

theorem print_eq (n : ASTNode) (d : Int) (isLast : Bool) (hv : n.value = "") :
    n.print d isLast =
      String.join (List.replicate d.toNat ". ") ++ n.nodeType ++ "("
        ++ toString n.children.length ++ ")"
        ++ String.join (n.children.map (fun c => "\n" ++ c.print (d + 1) false)) := by
  cases n with
  | mk ty cs v =>
    simp only [value] at hv
    subst hv
    simp [print, nodeType, children, indent_eq, printChildren_eq]

theorem print_mk_nat (ty : String) (cs : List ASTNode) (k : Nat) (isLast : Bool) :
    (mk ty cs "").print (k : Int) isLast =
      String.join (List.replicate k ". ") ++ ty ++ "(" ++ toString cs.length ++ ")"
        ++ printChildren cs (k : Int) := by
  simp [print, indent_eq]

mutual
theorem print_dumpLines : ∀ (n : ASTNode) (k : Nat) (isLast : Bool), n.valuesEmpty = true →
    n.print (k : Int) isLast = "\n".intercalate (n.dumpLines k)
  | mk ty cs v, k, isLast, h => by
    simp only [valuesEmpty, Bool.and_eq_true, beq_iff_eq] at h
    obtain ⟨hv, hcs⟩ := h
    subst hv
    rw [print_mk_nat, dumpLines, intercalate_cons, printChildren_dumpLines cs k hcs]
theorem printChildren_dumpLines : ∀ (cs : List ASTNode) (k : Nat), valuesEmptyList cs = true →
    printChildren cs (k : Int) = String.join ((dumpLinesList cs (k + 1)).map (fun b => "\n" ++ b))
  | [], _, _ => by simp [printChildren, dumpLinesList, join_nil]
  | c :: cs, k, h => by
    simp only [valuesEmptyList, Bool.and_eq_true] at h
    have h1 := print_dumpLines c (k + 1) false h.1
    have h2 := printChildren_dumpLines cs k h.2
    rw [printChildren, h2, dumpLinesList, List.map_append, join_append]
    have h3 : ((k : Int) + 1) = ((k + 1 : Nat) : Int) := by push_cast; rfl
    rw [h3, h1]
    cases c with
    | mk ty cs2 v =>
      rw [dumpLines, intercalate_cons, List.map_cons, join_cons]
      simp only [String.append_assoc]
end

end ASTNode

/-- Claim C1: for a tree `n` all of whose `value` fields are empty and a depth `d ≥ 0`,
`print(n, d)` writes `d` copies of the marker `". "`, the label, `(`, the decimal child count,
`)`, and then for each child in insertion order a `"\n"` followed by `print(child, d + 1)`;
the whole output is the preorder dump, one line per node, joined by `"\n"`. -/
theorem C1_print_preorder (n : ASTNode) (d : Int) (isLast : Bool) (hd : 0 ≤ d)
    (hv : n.valuesEmpty = true) :
    n.print d isLast =
        String.join (List.replicate d.toNat ". ") ++ n.nodeType ++ "("
          ++ toString n.children.length ++ ")"
          ++ String.join (n.children.map (fun c => "\n" ++ c.print (d + 1) false))
      ∧ n.print d isLast = "\n".intercalate (n.dumpLines d.toNat) := by
  have hval : n.value = "" := by
    cases n with
    | mk ty cs v =>
      simp only [ASTNode.valuesEmpty, Bool.and_eq_true, beq_iff_eq] at hv
      exact hv.1
  refine ⟨ASTNode.print_eq n d isLast hval, ?_⟩
  have := ASTNode.print_dumpLines n d.toNat isLast hv
  rwa [Int.toNat_of_nonneg hd] at this

theorem C1_print_preorder_witness :
    (0 : Int) ≤ 1
      ∧ (ASTNode.mk "a" [ASTNode.mk "b" [] "", ASTNode.mk "c" [ASTNode.mk "d" [] ""] ""]
          "").valuesEmpty = true
      ∧ (ASTNode.mk "a" [ASTNode.mk "b" [] "", ASTNode.mk "c" [ASTNode.mk "d" [] ""] ""]
          "").print 1 true = ". a(2)\n. . b(0)\n. . c(1)\n. . . d(0)" := by
  refine ⟨by decide, by decide, ?_⟩
  rw [(C1_print_preorder _ 1 true (by decide) (by decide)).2]
  decide

open TokenType

/-! ## The lexer: cursor movement -/

namespace Lexer

theorem rest_eq_nil_iff (l : Lexer) : l.rest = [] ↔ l.input.length ≤ l.pos := by
  simp [rest, List.drop_eq_nil_iff]

theorem rest_length (l : Lexer) : l.rest.length = l.input.length - l.pos := by
  simp [rest]

theorem pos_lt_iff (l : Lexer) : l.pos < l.input.length ↔ l.rest ≠ [] := by
  rw [Ne, rest_eq_nil_iff]; omega

theorem peek_eq (l : Lexer) (k : Nat) : l.peek k = l.rest.getD k '\x00' := by
  unfold peek rest
  split_ifs with h
  · rw [List.getD_eq_default]; simp; omega
  · simp [List.getD_eq_getElem?_getD, List.getElem?_drop]

theorem advance_of_rest_nil {l : Lexer} (h : l.rest = []) : l.advance = ('\x00', l) := by
  rw [rest_eq_nil_iff] at h
  simp [advance, h]

theorem advance_fst_of_rest {l : Lexer} {c : Char} {cs : List Char} (h : l.rest = c :: cs) :
    l.advance.1 = c := by
  have hlt : l.pos < l.input.length := by rw [pos_lt_iff, h]; simp
  have hc : l.input.getD l.pos '\x00' = c := by
    have := peek_eq l 0
    simp only [peek, Nat.add_zero, h, List.getD_cons_zero] at this
    rw [if_neg (by omega)] at this
    exact this
  simp only [advance]
  rw [if_neg (by omega)]
  simp only [hc]
  split_ifs <;> rfl

theorem advance_input (l : Lexer) : l.advance.2.input = l.input := by
  simp only [advance]
  split_ifs <;> rfl

theorem advance_pos_of_lt {l : Lexer} (h : l.pos < l.input.length) :
    l.advance.2.pos = l.pos + 1 := by
  simp only [advance]
  rw [if_neg (by omega)]
  split_ifs <;> rfl

theorem advance_snd_of_ge {l : Lexer} (h : l.input.length ≤ l.pos) : l.advance.2 = l := by
  simp [advance, h]

theorem rest_advance (l : Lexer) : l.advance.2.rest = l.rest.tail := by
  by_cases h : l.pos < l.input.length
  · simp only [rest, advance_input, advance_pos_of_lt h]
    rw [List.tail_drop]
  · have h1 : l.input.length ≤ l.pos := by omega
    rw [advance_snd_of_ge h1]
    have : l.rest = [] := (rest_eq_nil_iff l).2 h1
    simp [this]

theorem skip_input (k : Nat) (l : Lexer) : (l.skip k).input = l.input := by
  induction k generalizing l with
  | zero => rfl
  | succ k ih => rw [skip, ih, advance_input]

theorem rest_skip (k : Nat) (l : Lexer) : (l.skip k).rest = l.rest.drop k := by
  induction k generalizing l with
  | zero => rfl
  | succ k ih => rw [skip, ih, rest_advance, List.drop_tail]

theorem skip_pos (k : Nat) (l : Lexer) (h : k ≤ l.input.length - l.pos) :
    (l.skip k).pos = l.pos + k := by
  induction k generalizing l with
  | zero => rfl
  | succ k ih =>
    have hlt : l.pos < l.input.length := by omega
    rw [skip, ih, advance_pos_of_lt hlt]
    · omega
    · rw [advance_input, advance_pos_of_lt hlt]; omega

theorem skip_of_rest_nil (k : Nat) {l : Lexer} (h : l.rest = []) : l.skip k = l := by
  induction k with
  | zero => rfl
  | succ k ih =>
    rw [skip, advance_snd_of_ge ((rest_eq_nil_iff l).1 h), ih]

theorem skip_add (j k : Nat) (l : Lexer) : (l.skip j).skip k = l.skip (j + k) := by
  induction j generalizing l with
  | zero => simp [skip]
  | succ j ih => rw [skip, ih, Nat.succ_add, skip]

theorem skip_one (l : Lexer) : l.skip 1 = l.advance.2 := rfl

/-- Consuming more characters than are left stops at the end of the input. -/
theorem skip_pos_le (k : Nat) (l : Lexer) (h : l.pos ≤ l.input.length) :
    l.pos ≤ (l.skip k).pos ∧ (l.skip k).pos ≤ l.input.length := by
  induction k generalizing l with
  | zero => exact ⟨Nat.le_refl _, h⟩
  | succ k ih =>
    rw [skip]
    by_cases hlt : l.pos < l.input.length
    · have h1 := ih l.advance.2 (by rw [advance_input, advance_pos_of_lt hlt]; omega)
      rw [advance_input, advance_pos_of_lt hlt] at h1
      omega
    · rw [advance_snd_of_ge (by omega)]
      exact ih l h

end Lexer

open TokenType

/-! ## The lexer: the scanning loops -/

namespace Lexer

theorem peek_zero_of_rest {l : Lexer} {c : Char} {cs : List Char} (h : l.rest = c :: cs) :
    l.peek 0 = c := by
  rw [peek_eq, h]; rfl

/-- A loop `while (pos < input.length() && P(peek())) advance();` run with at least as much fuel
as there are characters left consumes exactly the longest prefix satisfying `P`. -/
theorem scan_loop_eq (P : Char → Bool) (loop : Nat → Lexer → Lexer)
    (h0 : ∀ l, loop 0 l = l)
    (hs : ∀ f l, loop (f + 1) l =
      if (decide (l.pos < l.input.length) && P (l.peek 0)) = true then loop f l.advance.2 else l) :
    ∀ (fuel : Nat) (l : Lexer), l.rest.length ≤ fuel →
      loop fuel l = l.skip (l.rest.takeWhile P).length := by
  intro fuel
  induction fuel with
  | zero =>
    intro l h
    have : l.rest = [] := List.length_eq_zero.mp (by omega)
    rw [h0, this]; rfl
  | succ f ih =>
    intro l h
    rw [hs]
    cases hr : l.rest with
    | nil =>
      have : ¬ l.pos < l.input.length := by rw [pos_lt_iff, hr]; simp
      simp [this, skip]
    | cons c cs =>
      have hlt : l.pos < l.input.length := by rw [pos_lt_iff, hr]; simp
      rw [peek_zero_of_rest hr]
      by_cases hp : P c = true
      · have hr2 : l.advance.2.rest = cs := by rw [rest_advance, hr]; rfl
        simp only [hlt, hp, decide_True, Bool.and_self, if_true, List.takeWhile_cons,
          List.length_cons, skip]
        rw [ih l.advance.2 (by rw [hr2]; rw [hr] at h; simpa using h), hr2]
      · simp [hlt, hp, List.takeWhile_cons, skip]

theorem string_append_mk_nil (v : String) : v ++ String.mk [] = v := by
  apply String.ext; simp [String.data_append]

/-- A loop `while (pos < input.length() && P(peek())) value += advance();` run with enough fuel
appends the longest prefix satisfying `P` to `value` and consumes it. -/
theorem read_loop_eq (P : Char → Bool) (loop : Nat → Lexer → String → String × Lexer)
    (h0 : ∀ l v, loop 0 l v = (v, l))
    (hs : ∀ f l v, loop (f + 1) l v =
      if (decide (l.pos < l.input.length) && P (l.peek 0)) = true then
        loop f l.advance.2 (v.push l.advance.1) else (v, l)) :
    ∀ (fuel : Nat) (l : Lexer) (v : String), l.rest.length ≤ fuel →
      loop fuel l v
        = (v ++ String.mk (l.rest.takeWhile P), l.skip (l.rest.takeWhile P).length) := by
  intro fuel
  induction fuel with
  | zero =>
    intro l v h
    have : l.rest = [] := List.length_eq_zero.mp (by omega)
    rw [h0, this]
    simp only [List.takeWhile_nil, List.length_nil, skip, string_append_mk_nil]
  | succ f ih =>
    intro l v h
    rw [hs]
    cases hr : l.rest with
    | nil =>
      have : ¬ l.pos < l.input.length := by rw [pos_lt_iff, hr]; simp
      simp only [this, decide_False, Bool.false_and, if_false, List.takeWhile_nil,
        List.length_nil, skip, Bool.false_eq_true, string_append_mk_nil]
    | cons c cs =>
      have hlt : l.pos < l.input.length := by rw [pos_lt_iff, hr]; simp
      rw [peek_zero_of_rest hr]
      by_cases hp : P c = true
      · have hr2 : l.advance.2.rest = cs := by rw [rest_advance, hr]; rfl
        simp only [hlt, hp, decide_True, Bool.and_self, if_true, List.takeWhile_cons,
          List.length_cons, skip]
        rw [ih l.advance.2 _ (by rw [hr2]; rw [hr] at h; simpa using h), hr2,
          advance_fst_of_rest hr]
        congr 1
        apply String.ext
        simp [String.data_append]
      · simp only [hlt, hp, decide_True, Bool.true_and, if_false, List.takeWhile_cons, skip,
          List.length_nil, Bool.false_eq_true, string_append_mk_nil]

theorem skipWhitespace_eq (l : Lexer) :
    l.skipWhitespace = l.skip (l.rest.takeWhile (fun c => isspace c && c != '\n')).length := by
  unfold skipWhitespace
  refine scan_loop_eq _ skipWhitespaceLoop (fun _ => rfl) (fun f l => ?_) _ l
    (by rw [rest_length])
  simp only [skipWhitespaceLoop, Bool.and_assoc]

theorem skipLineCommentLoop_eq (l : Lexer) :
    skipLineCommentLoop (l.input.length - l.pos) l
      = l.skip (l.rest.takeWhile (fun c => c != '\n')).length := by
  refine scan_loop_eq _ skipLineCommentLoop (fun _ => rfl) (fun f l => ?_) _ l
    (by rw [rest_length])
  simp only [skipLineCommentLoop]

theorem skipBlockCommentLoop_eq (fuel : Nat) (l : Lexer) (h : l.rest.length ≤ fuel) :
    skipBlockCommentLoop fuel l
      = l.skip ((l.rest.takeWhile (fun c => c != '\x7d')).length + 1) := by
  induction fuel generalizing l with
  | zero =>
    have hr : l.rest = [] := List.length_eq_zero.mp (by omega)
    rw [skipBlockCommentLoop, skip_of_rest_nil _ hr]
  | succ f ih =>
    rw [skipBlockCommentLoop]
    cases hr : l.rest with
    | nil =>
      have : ¬ l.pos < l.input.length := by rw [pos_lt_iff, hr]; simp
      rw [if_neg this, skip_of_rest_nil _ hr]
    | cons c cs =>
      have hlt : l.pos < l.input.length := by rw [pos_lt_iff, hr]; simp
      have hr2 : l.advance.2.rest = cs := by rw [rest_advance, hr]; rfl
      rw [if_pos hlt, peek_zero_of_rest hr]
      by_cases hc : c = '\x7d'
      · subst hc
        simp [List.takeWhile_cons, skip]
      · have hc2 : (c == '\x7d') = false := by simpa using hc
        have hc3 : (c != '\x7d') = true := by simpa using hc
        rw [hc2]
        simp only [Bool.false_eq_true, if_false, List.takeWhile_cons, hc3, if_true,
          List.length_cons]
        rw [ih l.advance.2 (by rw [hr2]; rw [hr] at h; simpa using h), hr2]
        rfl

theorem readIdentifierLoop_eq (l : Lexer) (v : String) :
    readIdentifierLoop (l.input.length - l.pos) l v
      = (v ++ String.mk (l.rest.takeWhile (fun c => isalnum c || c == '_')),
         l.skip (l.rest.takeWhile (fun c => isalnum c || c == '_')).length) := by
  refine read_loop_eq _ readIdentifierLoop (fun _ _ => rfl) (fun f l v => ?_) _ l v
    (by rw [rest_length])
  simp only [readIdentifierLoop]

theorem readNumberLoop_eq (l : Lexer) (v : String) :
    readNumberLoop (l.input.length - l.pos) l v
      = (v ++ String.mk (l.rest.takeWhile isdigit),
         l.skip (l.rest.takeWhile isdigit).length) := by
  refine read_loop_eq _ readNumberLoop (fun _ _ => rfl) (fun f l v => ?_) _ l v
    (by rw [rest_length])
  simp only [readNumberLoop]

theorem readStringLoop_eq (l : Lexer) (v : String) :
    readStringLoop (l.input.length - l.pos) l v
      = (v ++ String.mk (l.rest.takeWhile (fun c => c != '"')),
         l.skip (l.rest.takeWhile (fun c => c != '"')).length) := by
  refine read_loop_eq _ readStringLoop (fun _ _ => rfl) (fun f l v => ?_) _ l v
    (by rw [rest_length])
  simp only [readStringLoop]

end Lexer

open TokenType

/-! ## The lexer: token readers and `nextToken` -/

namespace Lexer

theorem string_empty_append (v : String) : "" ++ v = v := by
  apply String.ext; simp [String.data_append]

theorem readIdentifier_eq (l : Lexer) :
    l.readIdentifier =
      (⟨keywordType (String.mk (l.rest.takeWhile (fun c => isalnum c || c == '_'))),
        String.mk (l.rest.takeWhile (fun c => isalnum c || c == '_')), l.line, l.column⟩,
       l.skip (l.rest.takeWhile (fun c => isalnum c || c == '_')).length) := by
  simp only [readIdentifier, readIdentifierLoop_eq, string_empty_append]

theorem readNumber_eq (l : Lexer) :
    l.readNumber =
      (⟨TOK_INTEGER, String.mk (l.rest.takeWhile isdigit), l.line, l.column⟩,
       l.skip (l.rest.takeWhile isdigit).length) := by
  simp only [readNumber, readNumberLoop_eq, string_empty_append]

theorem lookup_mem_snd {α : Type} [BEq α] {s : α} {t : TokenType} :
    ∀ (tbl : List (α × TokenType)), tbl.lookup s = some t → t ∈ tbl.map Prod.snd := by
  intro tbl
  induction tbl with
  | nil => intro h; simp [List.lookup] at h
  | cons a tbl ih =>
    intro h
    obtain ⟨k, v⟩ := a
    simp only [List.lookup] at h
    split at h
    · simp only [Option.some.injEq] at h
      simp [h]
    · simp [ih h]

theorem keywordType_mem (s : String) :
    keywordType s ∈ TOK_IDENTIFIER :: keywords.map Prod.snd := by
  unfold keywordType
  cases h : keywords.lookup s with
  | none => exact List.mem_cons_self _ _
  | some t => exact List.mem_cons_of_mem _ (lookup_mem_snd _ h)

theorem keywordType_ne_eof (s : String) : keywordType s ≠ TOK_EOF := by
  intro h
  have hm := keywordType_mem s
  rw [h] at hm
  revert hm
  decide

theorem keywordType_ne_newline (s : String) : keywordType s ≠ TOK_NEWLINE := by
  intro h
  have hm := keywordType_mem s
  rw [h] at hm
  revert hm
  decide

theorem singleCharType_mem (c : Char) :
    singleCharType c ∈ TOK_UNKNOWN :: singleCharTable.map Prod.snd := by
  unfold singleCharType
  cases h : singleCharTable.lookup c with
  | none => exact List.mem_cons_self _ _
  | some t => exact List.mem_cons_of_mem _ (lookup_mem_snd _ h)

theorem singleCharType_ne_eof (c : Char) : singleCharType c ≠ TOK_EOF := by
  intro h
  have hm := singleCharType_mem c
  rw [h] at hm
  revert hm
  decide

theorem singleCharType_ne_newline (c : Char) : singleCharType c ≠ TOK_NEWLINE := by
  intro h
  have hm := singleCharType_mem c
  rw [h] at hm
  revert hm
  decide

theorem isalnum_of_isalpha {c : Char} (h : isalpha c = true) : isalnum c = true := by
  simp [isalnum, h]

theorem isalnum_of_isdigit {c : Char} (h : isdigit c = true) : isalnum c = true := by
  simp [isalnum, h]

theorem skip_two (l : Lexer) : l.advance.2.advance.2 = l.skip 2 := rfl

theorem skip_three (l : Lexer) : l.advance.2.advance.2.advance.2 = l.skip 3 := rfl

theorem readChar_spec (l : Lexer) :
    l.readChar.1.type ≠ TOK_EOF ∧ l.readChar.1.type ≠ TOK_NEWLINE
      ∧ ∃ k, 0 < k ∧ l.readChar.2 = l.skip k := by
  unfold readChar
  simp only
  split_ifs with h1 h2
  · exact ⟨by simp, by simp, 1, by omega, rfl⟩
  · exact ⟨by simp, by simp, 3, by omega, rfl⟩
  · exact ⟨by simp, by simp, 2, by omega, rfl⟩

theorem readString_spec (l : Lexer) :
    l.readString.1.type ≠ TOK_EOF ∧ l.readString.1.type ≠ TOK_NEWLINE
      ∧ ∃ k, 0 < k ∧ l.readString.2 = l.skip k := by
  unfold readString
  simp only [readStringLoop_eq]
  split_ifs with h1
  · refine ⟨by simp, by simp, 1 + (l.advance.2.rest.takeWhile (fun c => c != '"')).length + 1,
      by omega, ?_⟩
    rw [← skip_one, ← skip_one, skip_add, skip_add, Nat.add_assoc]
  · refine ⟨by simp, by simp, 1 + (l.advance.2.rest.takeWhile (fun c => c != '"')).length,
      by omega, ?_⟩
    rw [← skip_one, skip_add]

theorem scanToken_spec {l : Lexer} {c : Char} {cs : List Char} (h : l.rest = c :: cs) :
    l.scanToken.1.type ≠ TOK_EOF ∧ ∃ k, 0 < k ∧ l.scanToken.2 = l.skip k := by
  unfold scanToken
  simp only [peek_zero_of_rest h]
  by_cases h1 : c = '\n'
  · rw [if_pos h1]; exact ⟨by simp, 1, by omega, rfl⟩
  rw [if_neg h1]
  by_cases h2 : (isalpha c || decide (c = '_')) = true
  · rw [if_pos h2, readIdentifier_eq]
    refine ⟨keywordType_ne_eof _, _, ?_, rfl⟩
    have hc : (isalnum c || c == '_') = true := by
      rcases Bool.or_eq_true_iff.mp h2 with h | h
      · simp [isalnum_of_isalpha h]
      · simp at h; simp [h]
    simp [h, List.takeWhile_cons, hc]
  rw [if_neg h2]
  by_cases h3 : isdigit c = true
  · rw [if_pos h3, readNumber_eq]
    refine ⟨by simp, _, ?_, rfl⟩
    simp [h, List.takeWhile_cons, h3]
  rw [if_neg h3]
  by_cases h4 : c = '\''
  · rw [if_pos h4]; exact ⟨(readChar_spec l).1, (readChar_spec l).2.2⟩
  rw [if_neg h4]
  by_cases h5 : c = '"'
  · rw [if_pos h5]; exact ⟨(readString_spec l).1, (readString_spec l).2.2⟩
  rw [if_neg h5]
  by_cases h6 : (decide (c = ':') && decide (l.peek 1 = '=')) = true
  · rw [if_pos h6]
    by_cases h7 : l.peek 2 = ':'
    · rw [if_pos h7]; exact ⟨by simp, 3, by omega, rfl⟩
    · rw [if_neg h7]; exact ⟨by simp, 2, by omega, rfl⟩
  rw [if_neg h6]
  by_cases h8 : (decide (c = '<') && decide (l.peek 1 = '=')) = true
  · rw [if_pos h8]; exact ⟨by simp, 2, by omega, rfl⟩
  rw [if_neg h8]
  by_cases h9 : (decide (c = '>') && decide (l.peek 1 = '=')) = true
  · rw [if_pos h9]; exact ⟨by simp, 2, by omega, rfl⟩
  rw [if_neg h9]
  by_cases h10 : (decide (c = '<') && decide (l.peek 1 = '>')) = true
  · rw [if_pos h10]; exact ⟨by simp, 2, by omega, rfl⟩
  rw [if_neg h10]
  by_cases h11 : (decide (c = '.') && decide (l.peek 1 = '.')) = true
  · rw [if_pos h11]; exact ⟨by simp, 2, by omega, rfl⟩
  rw [if_neg h11]
  exact ⟨singleCharType_ne_eof c, 1, by omega, rfl⟩

theorem skipComment_spec {l : Lexer} {c : Char} {cs : List Char} (h : l.rest = c :: cs)
    (hc : c = '#' ∨ c = '\x7b') : ∃ k, 0 < k ∧ l.skipComment = l.skip k := by
  unfold skipComment
  rw [peek_zero_of_rest h]
  rcases hc with rfl | rfl
  · simp only [beq_self_eq_true, if_true, skipLineCommentLoop_eq]
    refine ⟨_, ?_, rfl⟩
    simp [h, List.takeWhile_cons]
  · have : (('\x7b' : Char) == '#') = false := by decide
    simp only [this, beq_self_eq_true, if_true, Bool.false_eq_true, if_false]
    rw [skipBlockCommentLoop_eq _ _ (by rw [rest_length])]
    refine ⟨1 + ((l.advance.2.rest.takeWhile (fun c => c != '\x7d')).length + 1), by omega, ?_⟩
    rw [← skip_one, skip_add]

end Lexer

open TokenType

/-! ## The lexer: progress of `nextToken` -/

namespace Lexer

theorem rest_skip_length (k : Nat) (l : Lexer) : (l.skip k).rest.length = l.rest.length - k := by
  rw [rest_skip]; simp

theorem rest_of_pos_lt {l : Lexer} (h : ¬ l.pos ≥ l.input.length) :
    l.rest = l.peek 0 :: l.rest.tail := by
  have hne : l.rest ≠ [] := (pos_lt_iff l).1 (by omega)
  cases hr : l.rest with
  | nil => exact absurd hr hne
  | cons c cs => rw [peek_zero_of_rest hr]; rfl

theorem skipWhitespace_rest_le (l : Lexer) : l.skipWhitespace.rest.length ≤ l.rest.length := by
  rw [skipWhitespace_eq, rest_skip_length]; omega

theorem skipComment_rest_lt {l : Lexer} (h : ¬ l.pos ≥ l.input.length)
    (hc : (decide (l.peek 0 = '#') || decide (l.peek 0 = '\x7b')) = true) :
    l.skipComment.rest.length < l.rest.length := by
  have hr := rest_of_pos_lt h
  have hc2 : l.peek 0 = '#' ∨ l.peek 0 = '\x7b' := by simpa using hc
  obtain ⟨k, hk, he⟩ := skipComment_spec hr hc2
  rw [he, rest_skip_length]
  have : 0 < l.rest.length := by rw [hr]; simp
  omega

/-- Fuel independence: any fuel above the number of characters left gives the same result, so
the loop of `nextToken` never stops for lack of fuel. -/
theorem nextTokenLoop_indep : ∀ (f1 f2 : Nat) (l : Lexer), l.rest.length < f1 →
    l.rest.length < f2 → nextTokenLoop f1 l = nextTokenLoop f2 l := by
  intro f1
  induction f1 with
  | zero => intro f2 l h; omega
  | succ a ih =>
    intro f2 l h1 h2
    cases f2 with
    | zero => omega
    | succ b =>
      simp only [nextTokenLoop]
      by_cases hlt : l.pos < l.input.length
      · rw [if_pos hlt, if_pos hlt]
        by_cases hge : l.skipWhitespace.pos ≥ l.skipWhitespace.input.length
        · rw [if_pos hge, if_pos hge]
        · rw [if_neg hge, if_neg hge]
          by_cases hc : (decide (l.skipWhitespace.peek 0 = '#')
              || decide (l.skipWhitespace.peek 0 = '\x7b')) = true
          · rw [if_pos hc, if_pos hc]
            have h3 := skipComment_rest_lt hge hc
            have h4 := skipWhitespace_rest_le l
            exact ih b _ (by omega) (by omega)
          · rw [if_neg hc, if_neg hc]
      · rw [if_neg hlt, if_neg hlt]

theorem nextToken_eq (l : Lexer) :
    l.nextToken =
      if l.pos < l.input.length then
        if l.skipWhitespace.pos ≥ l.skipWhitespace.input.length then
          (⟨TOK_EOF, "", l.skipWhitespace.line, l.skipWhitespace.column⟩, l.skipWhitespace)
        else if (decide (l.skipWhitespace.peek 0 = '#')
            || decide (l.skipWhitespace.peek 0 = '\x7b')) = true then
          l.skipWhitespace.skipComment.nextToken
        else l.skipWhitespace.scanToken
      else (⟨TOK_EOF, "", l.line, l.column⟩, l) := by
  conv_lhs => rw [nextToken, nextTokenLoop]
  by_cases hlt : l.pos < l.input.length
  · rw [if_pos hlt, if_pos hlt]
    by_cases hge : l.skipWhitespace.pos ≥ l.skipWhitespace.input.length
    · simp only [hge, if_true]
    · simp only [hge, if_false]
      by_cases hc : (decide (l.skipWhitespace.peek 0 = '#')
          || decide (l.skipWhitespace.peek 0 = '\x7b')) = true
      · rw [if_pos hc, if_pos hc]
        have h3 := skipComment_rest_lt hge hc
        have h4 := skipWhitespace_rest_le l
        rw [nextToken]
        apply nextTokenLoop_indep
        · rw [← rest_length]; omega
        · rw [← rest_length]; omega
      · rw [if_neg hc, if_neg hc]
  · rw [if_neg hlt, if_neg hlt]

theorem nextToken_of_rest_nil {l : Lexer} (h : l.rest = []) :
    l.nextToken = (⟨TOK_EOF, "", l.line, l.column⟩, l) := by
  rw [nextToken_eq, if_neg]
  rw [pos_lt_iff, h]; simp

/-- Shape of the result of `nextToken`: the new state is the old one advanced by some number `k`
of characters; a token other than EOF means `k > 0` with input left; EOF means that the
input is exhausted and the token is the EOF token at the final position. -/
theorem nextToken_spec : ∀ (n : Nat) (l : Lexer), l.rest.length = n →
    ∃ k, l.nextToken.2 = l.skip k
      ∧ (l.nextToken.1.type ≠ TOK_EOF → 0 < k ∧ l.rest ≠ [])
      ∧ (l.nextToken.1.type = TOK_EOF → l.nextToken.2.rest = []
          ∧ l.nextToken.1 = ⟨TOK_EOF, "", l.nextToken.2.line, l.nextToken.2.column⟩) := by
  intro n
  induction n using Nat.strong_induction_on with
  | _ n ih =>
    intro l hn
    rw [nextToken_eq]
    by_cases hlt : l.pos < l.input.length
    · have hne : l.rest ≠ [] := (pos_lt_iff l).1 hlt
      rw [if_pos hlt]
      by_cases hge : l.skipWhitespace.pos ≥ l.skipWhitespace.input.length
      · rw [if_pos hge]
        refine ⟨_, skipWhitespace_eq l, fun h => absurd rfl h, fun _ => ⟨?_, rfl⟩⟩
        exact (rest_eq_nil_iff _).2 hge
      · rw [if_neg hge]
        by_cases hc : (decide (l.skipWhitespace.peek 0 = '#')
            || decide (l.skipWhitespace.peek 0 = '\x7b')) = true
        · rw [if_pos hc]
          have h3 := skipComment_rest_lt hge hc
          have h4 := skipWhitespace_rest_le l
          obtain ⟨k3, hk3, hne3, heof3⟩ := ih _ (by omega) l.skipWhitespace.skipComment rfl
          have hc2 : l.skipWhitespace.peek 0 = '#' ∨ l.skipWhitespace.peek 0 = '\x7b' := by
            simpa using hc
          obtain ⟨k2, hk2, he2⟩ := skipComment_spec (rest_of_pos_lt hge) hc2
          refine ⟨(l.rest.takeWhile (fun c => isspace c && c != '\n')).length + k2 + k3, ?_,
            fun _ => ⟨by omega, hne⟩, heof3⟩
          rw [hk3, he2, skipWhitespace_eq, skip_add, skip_add, Nat.add_assoc]
        · rw [if_neg hc]
          obtain ⟨hty, k2, hk2, he2⟩ := scanToken_spec (rest_of_pos_lt hge)
          refine ⟨(l.rest.takeWhile (fun c => isspace c && c != '\n')).length + k2, ?_,
            fun _ => ⟨by omega, hne⟩, fun h => absurd h hty⟩
          rw [he2, skipWhitespace_eq, skip_add]
    · rw [if_neg hlt]
      refine ⟨0, rfl, fun h => absurd rfl h, fun _ => ⟨?_, rfl⟩⟩
      show l.rest = []
      exact (rest_eq_nil_iff _).2 (by omega)

theorem skip_pos_lt {k : Nat} {l : Lexer} (hk : 0 < k) (h : l.pos < l.input.length) :
    l.pos < (l.skip k).pos := by
  cases k with
  | zero => omega
  | succ k =>
    rw [skip]
    have := (skip_pos_le k l.advance.2 (by rw [advance_input, advance_pos_of_lt h]; omega)).1
    rw [advance_pos_of_lt h] at this
    omega

theorem nextToken_input (l : Lexer) : l.nextToken.2.input = l.input := by
  obtain ⟨k, hk, _⟩ := nextToken_spec _ l rfl
  rw [hk, skip_input]

theorem nextToken_pos_le (l : Lexer) (h : l.pos ≤ l.input.length) :
    l.pos ≤ l.nextToken.2.pos ∧ l.nextToken.2.pos ≤ l.input.length := by
  obtain ⟨k, hk, _⟩ := nextToken_spec _ l rfl
  rw [hk]
  exact skip_pos_le k l h

theorem nextToken_pos_lt (l : Lexer) (ht : l.nextToken.1.type ≠ TOK_EOF) :
    l.pos < l.nextToken.2.pos := by
  obtain ⟨k, hk, hne, _⟩ := nextToken_spec _ l rfl
  obtain ⟨hk0, hr⟩ := hne ht
  rw [hk]
  exact skip_pos_lt hk0 ((pos_lt_iff l).2 hr)

theorem nextToken_eof_pos (l : Lexer) (h : l.pos ≤ l.input.length)
    (ht : l.nextToken.1.type = TOK_EOF) : l.nextToken.2.pos = l.input.length := by
  obtain ⟨k, hk, _, heof⟩ := nextToken_spec _ l rfl
  have h1 := (rest_eq_nil_iff _).1 (heof ht).1
  have h2 := (nextToken_pos_le l h).2
  rw [nextToken_input] at h1
  omega

theorem tokenStream_bound : ∀ (k : Nat) (l : Lexer), l.pos ≤ l.input.length →
    ((tokenStream k l).filter (fun t => t.type != TOK_EOF)).length
      ≤ l.input.length - l.pos := by
  intro k
  induction k with
  | zero => intro l _; simp [tokenStream]
  | succ k ih =>
    intro l h
    have hle := nextToken_pos_le l h
    have hin := nextToken_input l
    have ih1 := ih l.nextToken.2 (by rw [hin]; exact hle.2)
    rw [hin] at ih1
    rw [tokenStream, List.filter_cons]
    by_cases ht : l.nextToken.1.type = TOK_EOF
    · have hb : (l.nextToken.1.type != TOK_EOF) = false := by simp [ht]
      rw [hb]
      simp only [Bool.false_eq_true, if_false]
      omega
    · have hlt := nextToken_pos_lt l ht
      have hb : (l.nextToken.1.type != TOK_EOF) = true := by simp [ht]
      rw [hb]
      simp only [if_true, List.length_cons]
      omega

end Lexer

/-- Claim C4 (lexer progress): from a state with `pos ≤ |input|`, `nextToken` returns a token
and a state over the same input with `pos ≤ pos' ≤ |input|`; a token other than EOF
means `pos' > pos`; EOF is returned only with `pos' = |input|`; at `pos = |input|` the call
returns the EOF token and leaves the state unchanged; the result does not depend on the fuel
given to the loop once it exceeds the number of characters left (the loop never stops for lack
of fuel); and any number of successive calls yields at most `|input| - pos` tokens other than
EOF. -/
theorem C4_lexer_progress (l : Lexer) (h : l.pos ≤ l.input.length) :
    l.nextToken.2.input = l.input
      ∧ l.pos ≤ l.nextToken.2.pos ∧ l.nextToken.2.pos ≤ l.input.length
      ∧ (l.nextToken.1.type ≠ TOK_EOF → l.pos < l.nextToken.2.pos)
      ∧ (l.nextToken.1.type = TOK_EOF → l.nextToken.2.pos = l.input.length)
      ∧ (l.pos = l.input.length → l.nextToken = (⟨TOK_EOF, "", l.line, l.column⟩, l))
      ∧ (∀ fuel, l.input.length - l.pos < fuel → Lexer.nextTokenLoop fuel l = l.nextToken)
      ∧ (∀ k, ((Lexer.tokenStream k l).filter (fun t => t.type != TOK_EOF)).length
            ≤ l.input.length - l.pos) := by
  refine ⟨Lexer.nextToken_input l, (Lexer.nextToken_pos_le l h).1, (Lexer.nextToken_pos_le l h).2,
    Lexer.nextToken_pos_lt l, Lexer.nextToken_eof_pos l h, ?_, ?_, ?_⟩
  · intro he
    exact Lexer.nextToken_of_rest_nil ((Lexer.rest_eq_nil_iff l).2 (by omega))
  · intro fuel hf
    exact Lexer.nextTokenLoop_indep _ _ l (by rw [Lexer.rest_length]; exact hf)
      (by rw [Lexer.rest_length]; omega)
  · intro k
    exact Lexer.tokenStream_bound k l h

theorem C4_lexer_progress_witness :
    (Lexer.new "x := \"ab".toList).pos ≤ (Lexer.new "x := \"ab".toList).input.length
      ∧ ((Lexer.tokenStream 9 (Lexer.new "x := \"ab".toList)).filter
          (fun t => t.type != TOK_EOF)).length ≤ 8 :=
  ⟨by decide, (C4_lexer_progress (Lexer.new "x := \"ab".toList) (by decide)).2.2.2.2.2.2.2 9⟩

open TokenType

/-! ## The lexer: what `nextToken` returns for each class of token -/

namespace Lexer

theorem takeWhile_append_of_all (P : Char → Bool) (p r : List Char) (hp : p.all P = true)
    (hr : r = [] ∨ ∃ c cs, r = c :: cs ∧ P c = false) : (p ++ r).takeWhile P = p := by
  induction p with
  | nil =>
    rcases hr with rfl | ⟨c, cs, rfl, hc⟩
    · rfl
    · simp [List.takeWhile_cons, hc]
  | cons a p ih =>
    simp only [List.all_cons, Bool.and_eq_true] at hp
    simp [List.takeWhile_cons, hp.1, ih hp.2]

theorem skipWhitespace_of_rest_nil {l : Lexer} (h : l.rest = []) : l.skipWhitespace = l := by
  rw [skipWhitespace_eq, h]; rfl

theorem skipWhitespace_of_not_space {l : Lexer} {c : Char} {cs : List Char} (h : l.rest = c :: cs)
    (hc : (isspace c && c != '\n') = false) : l.skipWhitespace = l := by
  rw [skipWhitespace_eq, h, List.takeWhile_cons, hc]; rfl

theorem skipWhitespace_space {l : Lexer} {c : Char} {cs : List Char} (h : l.rest = c :: cs)
    (hc : (isspace c && c != '\n') = true) : l.skipWhitespace = (l.skip 1).skipWhitespace := by
  rw [skipWhitespace_eq, skipWhitespace_eq, h, List.takeWhile_cons, hc, rest_skip, h, skip_add]
  simp [Nat.add_comm]

theorem skipWhitespace_idem (l : Lexer) : l.skipWhitespace.skipWhitespace = l.skipWhitespace := by
  have key : ∀ (n : Nat) (l : Lexer), l.rest.length = n →
      l.skipWhitespace.skipWhitespace = l.skipWhitespace := by
    intro n
    induction n with
    | zero =>
      intro l h
      have hr : l.rest = [] := List.length_eq_zero.mp h
      rw [skipWhitespace_of_rest_nil hr, skipWhitespace_of_rest_nil hr]
    | succ n ih =>
      intro l h
      cases hr : l.rest with
      | nil => rw [hr] at h; simp at h
      | cons c cs =>
        by_cases hc : (isspace c && c != '\n') = true
        · rw [skipWhitespace_space hr hc]
          apply ih
          rw [rest_skip, hr]
          rw [hr] at h
          simp only [List.length_cons] at h
          simp only [List.drop_succ_cons, List.drop_zero]
          omega
        · have hc2 : (isspace c && c != '\n') = false := by simpa using hc
          rw [skipWhitespace_of_not_space hr hc2, skipWhitespace_of_not_space hr hc2]
  exact key _ l rfl

theorem skipWhitespace_input (l : Lexer) : l.skipWhitespace.input = l.input := by
  rw [skipWhitespace_eq, skip_input]

theorem nextToken_skipWhitespace (l : Lexer) : l.nextToken = l.skipWhitespace.nextToken := by
  rw [nextToken_eq l, nextToken_eq l.skipWhitespace, skipWhitespace_idem]
  by_cases hlt : l.pos < l.input.length
  · rw [if_pos hlt]
    by_cases hge : l.skipWhitespace.pos ≥ l.skipWhitespace.input.length
    · rw [if_pos hge,
        if_neg (show ¬ l.skipWhitespace.pos < l.skipWhitespace.input.length by omega)]
    · rw [if_neg hge,
        if_pos (show l.skipWhitespace.pos < l.skipWhitespace.input.length by omega)]
  · have hr : l.rest = [] := (rest_eq_nil_iff l).2 (by omega)
    rw [if_neg hlt, skipWhitespace_of_rest_nil hr, if_neg hlt]

theorem nextToken_space {l : Lexer} {c : Char} {cs : List Char} (h : l.rest = c :: cs)
    (hc : (isspace c && c != '\n') = true) : l.nextToken = (l.skip 1).nextToken := by
  rw [nextToken_skipWhitespace l, nextToken_skipWhitespace (l.skip 1), skipWhitespace_space h hc]

theorem nextToken_scan {l : Lexer} {c : Char} {cs : List Char} (h : l.rest = c :: cs)
    (hs : (isspace c && c != '\n') = false) (h1 : c ≠ '#') (h2 : c ≠ '\x7b') :
    l.nextToken = l.scanToken := by
  have hlt : l.pos < l.input.length := by rw [pos_lt_iff, h]; simp
  rw [nextToken_eq, if_pos hlt, skipWhitespace_of_not_space h hs, if_neg (by omega),
    peek_zero_of_rest h, if_neg]
  simp [h1, h2]

theorem nextToken_newline {l : Lexer} {cs : List Char} (h : l.rest = '\n' :: cs) :
    l.nextToken = (⟨TOK_NEWLINE, "\\n", l.line, l.column⟩, l.skip 1) := by
  rw [nextToken_scan h (by decide) (by decide) (by decide)]
  unfold scanToken
  simp only [peek_zero_of_rest h, if_true]
  rfl

theorem nextToken_identifier {l : Lexer} {p r : List Char} (h : l.rest = p ++ r)
    (hp : isIdentifierText p = true) (hr : identifierEnd r = true) :
    l.nextToken = (⟨keywordType (String.mk p), String.mk p, l.line, l.column⟩,
      l.skip p.length) := by
  cases p with
  | nil => simp [isIdentifierText] at hp
  | cons c cs =>
    simp only [isIdentifierText, Bool.and_eq_true] at hp
    obtain ⟨hc, hcs⟩ := hp
    have hc' : (isalpha c || decide (c = '_')) = true := by simpa using hc
    have hidc : (isalnum c || c == '_') = true := by
      rcases Bool.or_eq_true_iff.mp hc with h | h
      · simp [isalnum_of_isalpha h]
      · simp [h]
    have hnl : c ≠ '\n' := by
      intro he; subst he
      revert hc; decide
    have hsp : (isspace c && c != '\n') = false := by
      by_cases hs : isspace c = true
      · exfalso
        simp only [isspace, isalpha, Bool.or_eq_true, Bool.and_eq_true, beq_iff_eq,
          decide_eq_true_eq] at hs hc
        rcases hc with hc | hc
        · omega
        · subst hc; revert hs; decide
      · simp [hs]
    have h1 : c ≠ '#' := by intro he; subst he; revert hc; decide
    have h2 : c ≠ '\x7b' := by intro he; subst he; revert hc; decide
    have hrest : l.rest = c :: (cs ++ r) := by rw [h]; rfl
    rw [nextToken_scan hrest hsp h1 h2]
    unfold scanToken
    simp only [peek_zero_of_rest hrest]
    rw [if_neg hnl, if_pos hc', readIdentifier_eq, h]
    have htw : (c :: cs ++ r).takeWhile (fun c => isalnum c || c == '_') = c :: cs := by
      apply takeWhile_append_of_all
      · simp only [List.all_cons, hidc, hcs, Bool.and_self]
      · cases r with
        | nil => exact Or.inl rfl
        | cons d ds =>
          refine Or.inr ⟨d, ds, rfl, ?_⟩
          simpa [identifierEnd] using hr
    rw [htw]

theorem nextToken_number {l : Lexer} {p r : List Char} (h : l.rest = p ++ r)
    (hp : isNumberText p = true) (hr : numberEnd r = true) :
    l.nextToken = (⟨TOK_INTEGER, String.mk p, l.line, l.column⟩, l.skip p.length) := by
  cases p with
  | nil => simp [isNumberText] at hp
  | cons c cs =>
    simp only [isNumberText, List.isEmpty_cons, Bool.not_false, Bool.true_and, List.all_cons,
      Bool.and_eq_true] at hp
    obtain ⟨hc, hcs⟩ := hp
    have hcn : 48 ≤ c.toNat ∧ c.toNat ≤ 57 := by simpa [isdigit] using hc
    have hnl : c ≠ '\n' := by intro he; subst he; revert hc; decide
    have hsp : (isspace c && c != '\n') = false := by
      have : isspace c = false := by
        simp only [isspace, Bool.or_eq_false_iff, beq_eq_false_iff_ne, ne_eq,
          Bool.and_eq_false_iff, decide_eq_false_iff_not]
        omega
      simp [this]
    have h1 : c ≠ '#' := by intro he; subst he; revert hc; decide
    have h2 : c ≠ '\x7b' := by intro he; subst he; revert hc; decide
    have hal : ¬ (isalpha c || decide (c = '_')) = true := by
      intro ha
      simp only [isalpha, Bool.or_eq_true, Bool.and_eq_true, decide_eq_true_eq] at ha
      rcases ha with ha | ha
      · omega
      · subst ha; revert hc; decide
    have hrest : l.rest = c :: (cs ++ r) := by rw [h]; rfl
    rw [nextToken_scan hrest hsp h1 h2]
    unfold scanToken
    simp only [peek_zero_of_rest hrest]
    rw [if_neg hnl, if_neg hal, if_pos hc, readNumber_eq, h]
    have htw : (c :: cs ++ r).takeWhile isdigit = c :: cs := by
      apply takeWhile_append_of_all
      · simp only [List.all_cons, hc, hcs, Bool.and_self]
      · cases r with
        | nil => exact Or.inl rfl
        | cons d ds =>
          refine Or.inr ⟨d, ds, rfl, ?_⟩
          simpa [numberEnd] using hr
    rw [htw]

theorem peek_one_of_rest {l : Lexer} {c : Char} {r : List Char} (h : l.rest = c :: r) :
    l.peek 1 = r.headD '\x00' := by
  rw [peek_eq, h]
  cases r <;> rfl

theorem nextToken_single {l : Lexer} {c : Char} {r : List Char} (h : l.rest = c :: r)
    (hc : isSingleCharToken c (r.headD '\x00') = true) :
    l.nextToken = (⟨singleCharType c, String.singleton c, l.line, l.column⟩, l.skip 1) := by
  simp only [isSingleCharToken, Bool.and_eq_true, Bool.not_eq_true', bne_iff_ne, ne_eq] at hc
  obtain ⟨⟨⟨⟨⟨⟨⟨⟨⟨⟨⟨⟨h1, h2⟩, h3⟩, h4⟩, h5⟩, h6⟩, h7⟩, h8⟩, h9⟩, h10⟩, h11⟩, h12⟩, h13⟩ := hc
  have hsp : (isspace c && c != '\n') = false := by simp [h1]
  have hnl : c ≠ '\n' := by intro he; subst he; revert h1; decide
  rw [nextToken_scan h hsp h2 h3]
  unfold scanToken
  simp only [peek_zero_of_rest h, peek_one_of_rest h]
  have e4 : ¬ (isalpha c || decide (c = '_')) = true := by simp [h4, h5]
  have e6 : ¬ isdigit c = true := by simp [h6]
  have e9 : ¬ (decide (c = ':') && decide (r.headD '\x00' = '=')) = true := by
    simpa [beq_iff_eq] using h9
  have e10 : ¬ (decide (c = '<') && decide (r.headD '\x00' = '=')) = true := by
    simpa [beq_iff_eq] using h10
  have e11 : ¬ (decide (c = '>') && decide (r.headD '\x00' = '=')) = true := by
    simpa [beq_iff_eq] using h11
  have e12 : ¬ (decide (c = '<') && decide (r.headD '\x00' = '>')) = true := by
    simpa [beq_iff_eq] using h12
  have e13 : ¬ (decide (c = '.') && decide (r.headD '\x00' = '.')) = true := by
    simpa [beq_iff_eq] using h13
  rw [if_neg hnl, if_neg e4, if_neg e6, if_neg h7, if_neg h8, if_neg e9, if_neg e10, if_neg e11,
    if_neg e12, if_neg e13]
  rfl

end Lexer

open TokenType

/-! ## The parser's token fetch -/

namespace Parser

theorem nextToken_rest_lt {l : Lexer} (h : l.nextToken.1.type ≠ TOK_EOF) :
    l.nextToken.2.rest.length < l.rest.length := by
  obtain ⟨k, hk, hne, _⟩ := Lexer.nextToken_spec _ l rfl
  obtain ⟨hk0, hr⟩ := hne h
  rw [hk, Lexer.rest_skip_length]
  have : 0 < l.rest.length := List.length_pos.mpr hr
  omega

theorem nextToken_rest_le (l : Lexer) : l.nextToken.2.rest.length ≤ l.rest.length := by
  obtain ⟨k, hk, _, _⟩ := Lexer.nextToken_spec _ l rfl
  rw [hk, Lexer.rest_skip_length]
  omega

/-- Fuel independence of the loop of `advance`: any fuel that is at least the number of
characters left gives the same result. -/
theorem advanceLoop_indep : ∀ (f1 f2 : Nat) (l : Lexer), l.rest.length ≤ f1 →
    l.rest.length ≤ f2 → advanceLoop f1 l = advanceLoop f2 l := by
  intro f1
  induction f1 with
  | zero =>
    intro f2 l h1 _
    have hr : l.rest = [] := List.length_eq_zero.mp (by omega)
    cases f2 with
    | zero => rfl
    | succ b =>
      simp only [advanceLoop]
      rw [if_neg]
      rw [Lexer.nextToken_of_rest_nil hr]
      exact TokenType.noConfusion
  | succ a ih =>
    intro f2 l h1 h2
    by_cases hnl : l.nextToken.1.type = TOK_NEWLINE
    · have hne : l.nextToken.1.type ≠ TOK_EOF := by rw [hnl]; decide
      have hlt := nextToken_rest_lt hne
      cases f2 with
      | zero => omega
      | succ b =>
        simp only [advanceLoop]
        rw [if_pos hnl, if_pos hnl]
        exact ih b _ (by omega) (by omega)
    · cases f2 with
      | zero => simp only [advanceLoop]; rw [if_neg hnl]
      | succ b => simp only [advanceLoop]; rw [if_neg hnl, if_neg hnl]

theorem advance_of_newline (p : Parser) (h : p.lexer.nextToken.1.type = TOK_NEWLINE) :
    p.advance = (⟨p.lexer.nextToken.2, p.currentToken⟩ : Parser).advance := by
  have hne : p.lexer.nextToken.1.type ≠ TOK_EOF := by rw [h]; decide
  have hlt := nextToken_rest_lt hne
  have hpos : 0 < p.lexer.rest.length := by omega
  simp only [advance]
  rw [← Lexer.rest_length, ← Lexer.rest_length]
  obtain ⟨n, hn⟩ : ∃ n, p.lexer.rest.length = n + 1 := ⟨p.lexer.rest.length - 1, by omega⟩
  rw [hn]
  simp only [advanceLoop]
  rw [if_pos h, advanceLoop_indep n _ _ (by omega) (Nat.le_refl _)]

theorem advance_of_not_newline (p : Parser) (h : p.lexer.nextToken.1.type ≠ TOK_NEWLINE) :
    p.advance = ⟨p.lexer.nextToken.2, p.lexer.nextToken.1⟩ := by
  simp only [advance]
  cases p.lexer.input.length - p.lexer.pos with
  | zero => rfl
  | succ n => simp only [advanceLoop]; rw [if_neg h]

/-- The current token is never a NEWLINE token after `advance`. -/
theorem advance_type_ne_newline (p : Parser) : p.advance.currentToken.type ≠ TOK_NEWLINE := by
  have key : ∀ (n : Nat) (p : Parser), p.lexer.rest.length = n →
      p.advance.currentToken.type ≠ TOK_NEWLINE := by
    intro n
    induction n using Nat.strong_induction_on with
    | _ n ih =>
      intro p hn
      by_cases hnl : p.lexer.nextToken.1.type = TOK_NEWLINE
      · rw [advance_of_newline p hnl]
        have hne : p.lexer.nextToken.1.type ≠ TOK_EOF := by rw [hnl]; decide
        have hlt := nextToken_rest_lt hne
        exact ih p.lexer.nextToken.2.rest.length (by omega)
          ⟨p.lexer.nextToken.2, p.currentToken⟩ rfl
      · rw [advance_of_not_newline p hnl]
        exact hnl
  exact key _ p rfl

theorem LexTo.of_nextToken {cs cs' : List Char} {ty : TokenType} {val : String}
    (hty : ty ≠ TOK_NEWLINE)
    (h : ∀ l : Lexer, l.rest = cs →
      l.nextToken.1.type = ty ∧ l.nextToken.1.value = val ∧ l.nextToken.2.rest = cs') :
    LexTo cs ty val cs' := by
  intro p hp
  obtain ⟨h1, h2, h3⟩ := h p.lexer hp
  rw [advance_of_not_newline p (by rw [h1]; exact hty)]
  exact ⟨h1, h2, h3⟩

/-- White space, line breaks included, before a token is skipped by `advance`. -/
theorem LexTo.space {c : Char} {cs cs' : List Char} {ty : TokenType} {val : String}
    (hc : isspace c = true) (h : LexTo cs ty val cs') : LexTo (c :: cs) ty val cs' := by
  intro p hp
  have hr1 : (p.lexer.skip 1).rest = cs := by rw [Lexer.rest_skip, hp]; rfl
  by_cases hnl : c = '\n'
  · subst hnl
    have hn := Lexer.nextToken_newline hp
    rw [advance_of_newline p (by rw [hn])]
    apply h
    rw [hn]
    exact hr1
  · have hsp : (isspace c && c != '\n') = true := by simp [hc, hnl]
    have hn := Lexer.nextToken_space hp hsp
    have key : p.advance = (⟨p.lexer.skip 1, p.currentToken⟩ : Parser).advance := by
      by_cases hnl2 : p.lexer.nextToken.1.type = TOK_NEWLINE
      · rw [advance_of_newline p hnl2,
          advance_of_newline ⟨p.lexer.skip 1, p.currentToken⟩ (by rw [← hn]; exact hnl2)]
        simp only [hn]
      · rw [advance_of_not_newline p hnl2,
          advance_of_not_newline ⟨p.lexer.skip 1, p.currentToken⟩ (by rw [← hn]; exact hnl2)]
        simp only [hn]
    rw [key]
    exact h _ hr1

theorem LexTo.identifier {p r : List Char} (hp : Lexer.isIdentifierText p = true)
    (hr : Lexer.identifierEnd r = true) :
    LexTo (p ++ r) (Lexer.keywordType (String.mk p)) (String.mk p) r := by
  apply LexTo.of_nextToken (Lexer.keywordType_ne_newline _)
  intro l hl
  rw [Lexer.nextToken_identifier hl hp hr]
  refine ⟨rfl, rfl, ?_⟩
  rw [Lexer.rest_skip, hl, List.drop_left]

theorem LexTo.number {p r : List Char} (hp : Lexer.isNumberText p = true)
    (hr : Lexer.numberEnd r = true) : LexTo (p ++ r) TOK_INTEGER (String.mk p) r := by
  apply LexTo.of_nextToken (by decide)
  intro l hl
  rw [Lexer.nextToken_number hl hp hr]
  refine ⟨rfl, rfl, ?_⟩
  rw [Lexer.rest_skip, hl, List.drop_left]

theorem LexTo.single {c : Char} {r : List Char}
    (hc : Lexer.isSingleCharToken c (r.headD '\x00') = true) :
    LexTo (c :: r) (Lexer.singleCharType c) (String.singleton c) r := by
  apply LexTo.of_nextToken (Lexer.singleCharType_ne_newline c)
  intro l hl
  rw [Lexer.nextToken_single hl hc]
  refine ⟨rfl, rfl, ?_⟩
  rw [Lexer.rest_skip, hl]
  rfl

theorem LexTo.eof : LexTo [] TOK_EOF "" [] := by
  apply LexTo.of_nextToken (by decide)
  intro l hl
  rw [Lexer.nextToken_of_rest_nil hl]
  exact ⟨rfl, rfl, hl⟩

theorem At.advance {p : Parser} {ty ty' : TokenType} {val val' : String} {cs cs' : List Char}
    (h : p.At ty val cs) (hl : LexTo cs ty' val' cs') : p.advance.At ty' val' cs' :=
  hl p h.2.2

theorem new_at {input cs' : List Char} {ty : TokenType} {val : String}
    (hl : LexTo input ty val cs') : (Parser.new input).At ty val cs' :=
  hl ⟨Lexer.new input, Token.default⟩ rfl

end Parser

open TokenType

namespace Parser

theorem keywordType_of_lookup_none {s : String} (h : keywords.lookup s = none) :
    Lexer.keywordType s = TOK_IDENTIFIER := by
  simp [Lexer.keywordType, h]

end Parser

open Parser in
/-- Claim C2: for every identifier spelling `p` that is not a keyword, parsing
`program p: begin end p.` returns the root `program` with exactly the 7 children
`<identifier>`(1) over leaf `p`, `consts`(0), `types`(0), `dclns`(0), `subprogs`(0), `block`(0),
`<identifier>`(1) over leaf `p`, and its serialization is the ten lines `program(7)`,
`. <identifier>(1)`, `. . p(0)`, `. consts(0)`, `. types(0)`, `. dclns(0)`, `. subprogs(0)`,
`. block(0)`, `. <identifier>(1)`, `. . p(0)`. -/
theorem C2_minimal_program (p : List Char) (hp : Lexer.isIdentifierText p = true)
    (hk : keywords.lookup (String.mk p) = none) (fuel : Nat) (hf : 1 ≤ fuel) :
    (∃ s, parseProgram fuel
        (Parser.new ("program ".toList ++ p ++ ": begin end ".toList ++ p ++ ".".toList))
        = some (some (ASTNode.mk "program"
            [ASTNode.mk "<identifier>" [ASTNode.mk (String.mk p) [] ""] "",
             ASTNode.mk "consts" [] "", ASTNode.mk "types" [] "", ASTNode.mk "dclns" [] "",
             ASTNode.mk "subprogs" [] "", ASTNode.mk "block" [] "",
             ASTNode.mk "<identifier>" [ASTNode.mk (String.mk p) [] ""] ""] ""), s))
    ∧ (ASTNode.mk "program"
            [ASTNode.mk "<identifier>" [ASTNode.mk (String.mk p) [] ""] "",
             ASTNode.mk "consts" [] "", ASTNode.mk "types" [] "", ASTNode.mk "dclns" [] "",
             ASTNode.mk "subprogs" [] "", ASTNode.mk "block" [] "",
             ASTNode.mk "<identifier>" [ASTNode.mk (String.mk p) [] ""] ""] "").print 0 true
        = "\n".intercalate ["program(7)", ". <identifier>(1)", ". . " ++ String.mk p ++ "(0)",
            ". consts(0)", ". types(0)", ". dclns(0)", ". subprogs(0)", ". block(0)",
            ". <identifier>(1)", ". . " ++ String.mk p ++ "(0)"] := by
  constructor
  · have hin : "program ".toList ++ p ++ ": begin end ".toList ++ p ++ ".".toList
        = "program".toList ++ (' ' :: (p ++ (':' :: ' ' :: ("begin".toList ++ (' ' ::
            ("end".toList ++ (' ' :: (p ++ ['.'])))))))) := by
      simp [String.toList]
    rw [hin]
    have hkt := keywordType_of_lookup_none hk
    have h0 := new_at (LexTo.identifier (p := "program".toList)
      (r := ' ' :: (p ++ (':' :: ' ' :: ("begin".toList ++ (' ' ::
            ("end".toList ++ (' ' :: (p ++ ['.']))))))))
      (by decide) rfl)
    generalize Parser.new _ = s0 at h0 ⊢
    have h1 := h0.advance (LexTo.space (by decide) (LexTo.identifier hp rfl))
    have h2 := h1.advance (LexTo.single rfl)
    have h3 := h2.advance (LexTo.space (by decide) (LexTo.identifier (p := "begin".toList)
      (by decide) rfl))
    have h4 := h3.advance (LexTo.space (by decide) (LexTo.identifier (p := "end".toList)
      (by decide) rfl))
    have h5 := h4.advance (LexTo.space (by decide) (LexTo.identifier hp rfl))
    have h6 := h5.advance (LexTo.single rfl)
    rw [hkt] at h1 h5
    have t0 : s0.currentToken.type = TOK_PROGRAM := h0.1
    have t1 := h1.1
    have v1 := h1.2.1
    have t2 : s0.advance.advance.currentToken.type = TOK_COLON := h2.1
    have t3 : s0.advance.advance.advance.currentToken.type = TOK_BEGIN := h3.1
    have t4 : s0.advance.advance.advance.advance.currentToken.type = TOK_END := h4.1
    have t5 := h5.1
    have v5 := h5.2.1
    have t6 : s0.advance.advance.advance.advance.advance.advance.currentToken.type = TOK_DOT :=
      h6.1
    obtain ⟨n, rfl⟩ : ∃ n, fuel = n + 1 := ⟨fuel - 1, by omega⟩
    simp [parseProgram, consume, matchTok, parseName, parseConsts, parseTypes, parseDclns,
      parseSubProgs, parseSubProgsLoop, parseBody, t0, t1, v1, t2, t3, t4, t5, v5, t6,
      createIdentifierNode, ASTNode.addChild, ASTNode.new, ASTNode.nodeType, ASTNode.children,
      ASTNode.value]
  · have h := ASTNode.print_dumpLines (ASTNode.mk "program"
            [ASTNode.mk "<identifier>" [ASTNode.mk (String.mk p) [] ""] "",
             ASTNode.mk "consts" [] "", ASTNode.mk "types" [] "", ASTNode.mk "dclns" [] "",
             ASTNode.mk "subprogs" [] "", ASTNode.mk "block" [] "",
             ASTNode.mk "<identifier>" [ASTNode.mk (String.mk p) [] ""] ""] "") 0 true
      (by simp [ASTNode.valuesEmpty, ASTNode.valuesEmptyList])
    rw [Nat.cast_zero] at h
    rw [h]
    simp only [ASTNode.dumpLines, ASTNode.dumpLinesList, List.length_cons, List.length_nil,
      List.append_nil, List.cons_append, List.nil_append]
    have hleaf : String.join (List.replicate (0 + 1 + 1) ". ") ++ String.mk p ++ "("
        ++ toString 0 ++ ")" = ". . " ++ String.mk p ++ "(0)" := by
      have e2 : String.join (List.replicate (0 + 1 + 1) ". ") = ". . " := by decide
      have e0 : (toString 0 : String) = "0" := by decide
      rw [e2, e0, String.append_assoc, String.append_assoc]
      rfl
    rw [hleaf]
    rfl

theorem C2_minimal_program_witness :
    Lexer.isIdentifierText "p".toList = true
      ∧ keywords.lookup (String.mk "p".toList) = none
      ∧ 1 ≤ 1
      ∧ (∃ s, Parser.parseProgram 1 (Parser.new "program p: begin end p.".toList)
          = some (some (ASTNode.mk "program"
              [ASTNode.mk "<identifier>" [ASTNode.mk "p" [] ""] "",
               ASTNode.mk "consts" [] "", ASTNode.mk "types" [] "", ASTNode.mk "dclns" [] "",
               ASTNode.mk "subprogs" [] "", ASTNode.mk "block" [] "",
               ASTNode.mk "<identifier>" [ASTNode.mk "p" [] ""] ""] ""), s))
      ∧ (ASTNode.mk "program"
              [ASTNode.mk "<identifier>" [ASTNode.mk "p" [] ""] "",
               ASTNode.mk "consts" [] "", ASTNode.mk "types" [] "", ASTNode.mk "dclns" [] "",
               ASTNode.mk "subprogs" [] "", ASTNode.mk "block" [] "",
               ASTNode.mk "<identifier>" [ASTNode.mk "p" [] ""] ""] "").print 0 true
          = "program(7)\n. <identifier>(1)\n. . p(0)\n. consts(0)\n. types(0)\n. dclns(0)\n. subprogs(0)\n. block(0)\n. <identifier>(1)\n. . p(0)" :=
  ⟨by decide, by decide, by decide,
    (C2_minimal_program "p".toList (by decide) (by decide) 1 (by decide)).1,
    (C2_minimal_program "p".toList (by decide) (by decide) 1 (by decide)).2⟩

open TokenType

namespace Parser

/-- At the end of the input a statement is the empty statement and nothing is consumed. -/
theorem parseStatement_eof (fuel : Nat) (s : Parser) (h : s.currentToken.type = TOK_EOF) :
    parseStatement (fuel + 1) s = some (some (ASTNode.new "<null>"), s) := by
  simp [parseStatement, matchTok, h]

theorem parseCaseExpression_eof (s : Parser) (h : s.currentToken.type = TOK_EOF) :
    parseCaseExpression s = (none, s) := by
  simp [parseCaseExpression, parseConstValue, matchTok, h]

/-- At the end of the input a case clause is built from nothing and nothing is consumed. -/
theorem parseCaseclause_eof (fuel : Nat) (s : Parser) (h : s.currentToken.type = TOK_EOF) :
    parseCaseclause (fuel + 2) s
      = some (some (((ASTNode.new "case_clause").addChild none).addChild
          (some (ASTNode.new "<null>"))), s) := by
  simp [parseCaseclause, parseCaseExpression_eof s h, consume, matchTok, h,
    parseStatement_eof fuel s h]

/-- The clause loop of a case statement never returns once the input is exhausted: each
iteration builds a clause without consuming anything, and the loop's exit test
`clause == nullptr` is never true. -/
theorem parseCaseLoop_eof_diverges (fuel : Nat) (caseNode : ASTNode) (s : Parser)
    (h : s.currentToken.type = TOK_EOF) : parseCaseLoop fuel caseNode s = none := by
  induction fuel using Nat.strong_induction_on generalizing caseNode with
  | _ fuel ih =>
    match fuel with
    | 0 => simp [parseCaseLoop]
    | 1 => simp [parseCaseLoop, parseCaseclause, matchTok, h]
    | 2 =>
      simp [parseCaseLoop, parseCaseclause, parseStatement, matchTok, h, consume,
        parseCaseExpression_eof s h]
    | f + 3 =>
      rw [parseCaseLoop]
      simp only [matchTok, h, parseCaseclause_eof f s h, consume]
      simp
      exact ih (f + 2) (by omega) _

end Parser

namespace Parser

theorem parsePrimary_identifier (n : Nat) (s : Parser)
    (ht : s.currentToken.type = TOK_IDENTIFIER) (hn : s.advance.currentToken.type ≠ TOK_LPAREN) :
    parsePrimary (n + 1) s = some (some (createIdentifierNode s.currentToken.value), s.advance) := by
  simp [parsePrimary, matchTok, ht, hn]

theorem parseFactorLoop_stop (n : Nat) (left : Option ASTNode) (s : Parser)
    (h : mulOp s.currentToken.type = none) : parseFactorLoop (n + 1) left s = some (left, s) := by
  simp [parseFactorLoop, h]

theorem parseTermLoop_stop (n : Nat) (left : Option ASTNode) (s : Parser)
    (h : addOp s.currentToken.type = none) : parseTermLoop (n + 1) left s = some (left, s) := by
  simp [parseTermLoop, h]

theorem parseExpressionLoop_stop (n : Nat) (left : Option ASTNode) (s : Parser)
    (h : relOp s.currentToken.type = none) :
    parseExpressionLoop (n + 1) left s = some (left, s) := by
  simp [parseExpressionLoop, h]

/-- An identifier followed by a token that is neither `(` nor a binary operator is a complete
expression: with any fuel `parseExpression` either runs out of fuel or returns the identifier's
wrapper and stops at the following token. -/
theorem parseExpression_identifier (fuel : Nat) (s : Parser)
    (ht : s.currentToken.type = TOK_IDENTIFIER) (hn : s.advance.currentToken.type ≠ TOK_LPAREN)
    (hm : mulOp s.advance.currentToken.type = none)
    (ha : addOp s.advance.currentToken.type = none)
    (hr : relOp s.advance.currentToken.type = none) :
    parseExpression fuel s = none
      ∨ parseExpression fuel s
          = some (some (createIdentifierNode s.currentToken.value), s.advance) := by
  rcases fuel with _ | _ | _ | _ | n
  · left; simp [parseExpression]
  · left; simp [parseExpression, parseTerm]
  · left; simp [parseExpression, parseTerm, parseFactor]
  · left; simp [parseExpression, parseTerm, parseFactor, parsePrimary]
  · right
    simp [parseExpression, parseTerm, parseFactor, parsePrimary_identifier _ s ht hn,
      parseFactorLoop_stop _ _ _ hm, parseTermLoop_stop _ _ _ ha,
      parseExpressionLoop_stop _ _ _ hr]

/-- A body `begin case x of` cut off by the end of the input never returns. -/
theorem parseBody_unclosed_case (s : Parser) (t3 : s.currentToken.type = TOK_BEGIN)
    (t4 : s.advance.currentToken.type = TOK_CASE)
    (t5 : s.advance.advance.currentToken.type = TOK_IDENTIFIER)
    (t6 : s.advance.advance.advance.currentToken.type = TOK_OF)
    (t7 : s.advance.advance.advance.advance.currentToken.type = TOK_EOF) (n : Nat) :
    parseBody n s = none := by
  rcases n with _ | _ | _ | n
  · simp [parseBody]
  · simp [parseBody, consume, matchTok, t3, t4, parseBodyLoop]
  · simp [parseBody, consume, matchTok, t3, t4, parseBodyLoop, parseStatement]
  · rcases parseExpression_identifier n s.advance.advance t5
      (by rw [t6]; decide) (by rw [t6]; rfl) (by rw [t6]; rfl) (by rw [t6]; rfl) with he | he
    · simp [parseBody, consume, matchTok, t3, t4, parseBodyLoop, parseStatement, he]
    · simp [parseBody, consume, matchTok, t3, t4, parseBodyLoop, parseStatement, he, t6,
        parseCaseLoop_eof_diverges _ _ _ t7]

end Parser

open Parser in
/-- Claim C3, evaluated on its own example: on the input `program p: begin case x of`, a case
statement that is never closed by `end`, `parseProgram` returns nothing whatever fuel it is
given: the clause loop of the case statement runs forever at the end of the input. -/
theorem C3_unclosed_case_never_returns (fuel : Nat) :
    parseProgram fuel (Parser.new "program p: begin case x of".toList) = none := by
  have hin : "program p: begin case x of".toList
      = "program".toList ++ (' ' :: ("p".toList ++ (':' :: ' ' :: ("begin".toList ++ (' ' ::
          ("case".toList ++ (' ' :: ("x".toList ++ (' ' :: ("of".toList ++ [])))))))))) := by
    decide
  rw [hin]
  have h0 := new_at (LexTo.identifier (p := "program".toList)
    (r := ' ' :: ("p".toList ++ (':' :: ' ' :: ("begin".toList ++ (' ' ::
          ("case".toList ++ (' ' :: ("x".toList ++ (' ' :: ("of".toList ++ [])))))))))) 
    (by decide) rfl)
  generalize Parser.new _ = s0 at h0 ⊢
  have h1 := h0.advance (LexTo.space (by decide) (LexTo.identifier (p := "p".toList)
    (by decide) rfl))
  have h2 := h1.advance (LexTo.single rfl)
  have h3 := h2.advance (LexTo.space (by decide) (LexTo.identifier (p := "begin".toList)
    (by decide) rfl))
  have h4 := h3.advance (LexTo.space (by decide) (LexTo.identifier (p := "case".toList)
    (by decide) rfl))
  have h5 := h4.advance (LexTo.space (by decide) (LexTo.identifier (p := "x".toList)
    (by decide) rfl))
  have h6 := h5.advance (LexTo.space (by decide) (LexTo.identifier (p := "of".toList)
    (by decide) rfl))
  have h7 := h6.advance LexTo.eof
  have t0 : s0.currentToken.type = TOK_PROGRAM := h0.1
  have t1 : s0.advance.currentToken.type = TOK_IDENTIFIER := h1.1
  have t2 : s0.advance.advance.currentToken.type = TOK_COLON := h2.1
  have t3 : s0.advance.advance.advance.currentToken.type = TOK_BEGIN := h3.1
  have t4 : s0.advance.advance.advance.advance.currentToken.type = TOK_CASE := h4.1
  have t5 : s0.advance.advance.advance.advance.advance.currentToken.type = TOK_IDENTIFIER := h5.1
  have t6 : s0.advance.advance.advance.advance.advance.advance.currentToken.type = TOK_OF := h6.1
  have t7 := h7.1
  have hbody := parseBody_unclosed_case s0.advance.advance.advance t3 t4 t5 t6 t7
  simp [parseProgram, consume, matchTok, parseName, parseConsts, parseTypes, parseDclns,
    parseSubProgs, t0, t1, t2, t3, hbody]
  cases fuel <;> simp [parseSubProgsLoop, matchTok, t3, hbody]

open TokenType

/-! ## Labels of the nodes built by the declaration and body sections -/

namespace Parser

theorem nodeType_addChild (n : ASTNode) (c : Option ASTNode) :
    (n.addChild c).nodeType = n.nodeType := by
  cases c <;> rfl

theorem children_addChild_some (n : ASTNode) (c : ASTNode) :
    (n.addChild (some c)).children = n.children ++ [c] := rfl

theorem children_addChild_none (n : ASTNode) : (n.addChild none).children = n.children := rfl

theorem value_addChild (n : ASTNode) (c : Option ASTNode) :
    (n.addChild c).value = n.value := by
  cases c <;> rfl

theorem parseConstsLoop_nodeType : ∀ (fuel : Nat) (node : ASTNode) (p : Parser)
    (r : ASTNode × Parser), parseConstsLoop fuel node p = some r →
    r.1.nodeType = node.nodeType := by
  intro fuel
  induction fuel with
  | zero => intro node p r h; simp [parseConstsLoop] at h
  | succ f ih =>
    intro node p r h
    simp only [parseConstsLoop] at h
    split at h
    · rw [ih _ _ _ h, nodeType_addChild]
    · simp only [Option.some.injEq] at h
      rw [← h, nodeType_addChild]

theorem parseTypesLoop_nodeType : ∀ (fuel : Nat) (node : ASTNode) (p : Parser)
    (r : ASTNode × Parser), parseTypesLoop fuel node p = some r →
    r.1.nodeType = node.nodeType := by
  intro fuel
  induction fuel with
  | zero => intro node p r h; simp [parseTypesLoop] at h
  | succ f ih =>
    intro node p r h
    simp only [parseTypesLoop] at h
    split at h
    · simp at h
    · split at h
      · rw [ih _ _ _ h, nodeType_addChild]
      · simp only [Option.some.injEq] at h
        rw [← h, nodeType_addChild]

theorem parseDclnsLoop_nodeType : ∀ (fuel : Nat) (node : ASTNode) (p : Parser)
    (r : ASTNode × Parser), parseDclnsLoop fuel node p = some r →
    r.1.nodeType = node.nodeType := by
  intro fuel
  induction fuel with
  | zero => intro node p r h; simp [parseDclnsLoop] at h
  | succ f ih =>
    intro node p r h
    simp only [parseDclnsLoop] at h
    split at h
    · simp at h
    · split at h
      · rw [ih _ _ _ h, nodeType_addChild]
      · simp only [Option.some.injEq] at h
        rw [← h, nodeType_addChild]

theorem parseSubProgsLoop_nodeType : ∀ (fuel : Nat) (node : ASTNode) (p : Parser)
    (r : ASTNode × Parser), parseSubProgsLoop fuel node p = some r →
    r.1.nodeType = node.nodeType := by
  intro fuel
  induction fuel with
  | zero => intro node p r h; simp [parseSubProgsLoop] at h
  | succ f ih =>
    intro node p r h
    simp only [parseSubProgsLoop] at h
    split at h
    · split at h
      · simp at h
      · rw [ih _ _ _ h, nodeType_addChild]
    · simp only [Option.some.injEq] at h
      rw [← h]

theorem parseBodyLoop_nodeType : ∀ (fuel : Nat) (node : ASTNode) (p : Parser)
    (r : ASTNode × Parser), parseBodyLoop fuel node p = some r →
    r.1.nodeType = node.nodeType := by
  intro fuel
  induction fuel with
  | zero => intro node p r h; simp [parseBodyLoop] at h
  | succ f ih =>
    intro node p r h
    simp only [parseBodyLoop] at h
    split at h
    · split at h
      · simp at h
      · rename_i r1 hr1
        cases hs : r1.1 with
        | none =>
          simp only [hs] at h
          split at h
          · split at h
            · simp only [Option.some.injEq] at h
              rw [← h, nodeType_addChild, nodeType_addChild]
            · simp only [Option.some.injEq] at h
              rw [← h, nodeType_addChild]
          · split at h
            · simp only [Option.some.injEq] at h
              rw [← h, nodeType_addChild, nodeType_addChild]
            · rw [ih _ _ _ h, nodeType_addChild]
        | some stmt =>
          simp only [hs] at h
          split at h
          · split at h
            · simp only [Option.some.injEq] at h
              rw [← h, nodeType_addChild, nodeType_addChild]
            · simp only [Option.some.injEq] at h
              rw [← h, nodeType_addChild]
          · split at h
            · simp only [Option.some.injEq] at h
              rw [← h, nodeType_addChild, nodeType_addChild]
            · rw [ih _ _ _ h, nodeType_addChild]
    · simp only [Option.some.injEq] at h
      rw [← h]

/-- When `parseConsts` returns, it returns a node labeled `consts`. -/
theorem parseConsts_some {fuel : Nat} {p : Parser} {r : Option ASTNode × Parser}
    (h : parseConsts fuel p = some r) : ∃ n, r.1 = some n ∧ n.nodeType = "consts" := by
  simp only [parseConsts] at h
  split at h
  · split at h
    · simp at h
    · rename_i r1 hr1
      simp only [Option.some.injEq] at h
      rw [← h]
      exact ⟨r1.1, rfl, parseConstsLoop_nodeType _ _ _ _ hr1⟩
  · simp only [Option.some.injEq] at h
    rw [← h]
    exact ⟨_, rfl, rfl⟩

/-- When `parseTypes` returns, it returns a node labeled `types`. -/
theorem parseTypes_some {fuel : Nat} {p : Parser} {r : Option ASTNode × Parser}
    (h : parseTypes fuel p = some r) : ∃ n, r.1 = some n ∧ n.nodeType = "types" := by
  simp only [parseTypes] at h
  split at h
  · split at h
    · simp at h
    · rename_i r1 hr1
      simp only [Option.some.injEq] at h
      rw [← h]
      exact ⟨r1.1, rfl, parseTypesLoop_nodeType _ _ _ _ hr1⟩
  · simp only [Option.some.injEq] at h
    rw [← h]
    exact ⟨_, rfl, rfl⟩

/-- When `parseDclns` returns, it returns a node labeled `dclns`. -/
theorem parseDclns_some {fuel : Nat} {p : Parser} {r : Option ASTNode × Parser}
    (h : parseDclns fuel p = some r) : ∃ n, r.1 = some n ∧ n.nodeType = "dclns" := by
  simp only [parseDclns] at h
  split at h
  · split at h
    · simp at h
    · rename_i r1 hr1
      simp only [Option.some.injEq] at h
      rw [← h]
      exact ⟨r1.1, rfl, parseDclnsLoop_nodeType _ _ _ _ hr1⟩
  · simp only [Option.some.injEq] at h
    rw [← h]
    exact ⟨_, rfl, rfl⟩

/-- When `parseSubProgs` returns, it returns a node labeled `subprogs`. -/
theorem parseSubProgs_some {fuel : Nat} {p : Parser} {r : Option ASTNode × Parser}
    (h : parseSubProgs fuel p = some r) : ∃ n, r.1 = some n ∧ n.nodeType = "subprogs" := by
  simp only [parseSubProgs] at h
  split at h
  · simp at h
  · rename_i r1 hr1
    simp only [Option.some.injEq] at h
    rw [← h]
    exact ⟨r1.1, rfl, parseSubProgsLoop_nodeType _ _ _ _ hr1⟩

/-- When `parseBody` returns, it returns a node labeled `block`. -/
theorem parseBody_some {fuel : Nat} {p : Parser} {r : Option ASTNode × Parser}
    (h : parseBody fuel p = some r) : ∃ n, r.1 = some n ∧ n.nodeType = "block" := by
  cases fuel with
  | zero => simp [parseBody] at h
  | succ f =>
    simp only [parseBody] at h
    split at h
    · split at h
      · simp at h
      · rename_i r1 hr1
        simp only [Option.some.injEq] at h
        rw [← h]
        exact ⟨r1.1, rfl, parseBodyLoop_nodeType _ _ _ _ hr1⟩
    · simp only [Option.some.injEq] at h
      rw [← h]
      exact ⟨_, rfl, rfl⟩

end Parser

open TokenType

namespace Parser

/-- Once the keyword `program` and the colon have been consumed, `parseProgram` returns a tree
whenever it returns. -/
theorem parseProgram_present {fuel : Nat} {s : Parser} {r : Option ASTNode × Parser}
    (h0 : s.currentToken.type = TOK_PROGRAM)
    (h2 : (parseName s.advance).2.currentToken.type = TOK_COLON)
    (hr : parseProgram fuel s = some r) : r.1.isSome = true := by
  simp only [parseProgram, consume, matchTok, h0, h2, decide_True, if_true, Bool.not_true,
    Bool.false_eq_true, if_false] at hr
  split at hr
  · simp at hr
  · split at hr
    · simp at hr
    · split at hr
      · simp at hr
      · split at hr
        · simp at hr
        · split at hr
          · simp at hr
          · simp only [Option.some.injEq] at hr
            rw [← hr]
            rfl

end Parser

open Parser in
/-- Claim C5, counterexample: on `program : begin end p.` the name between `program` and `:` is
missing, yet `parseProgram` returns a tree, the root `program` with six children. -/
theorem C5_missing_name_yields_tree :
    (parseProgram 1 (Parser.new "program : begin end p.".toList)).map (fun r => r.1)
      = some (some (ASTNode.mk "program"
          [ASTNode.mk "consts" [] "", ASTNode.mk "types" [] "", ASTNode.mk "dclns" [] "",
           ASTNode.mk "subprogs" [] "", ASTNode.mk "block" [] "",
           ASTNode.mk "<identifier>" [ASTNode.mk "p" [] ""] ""] "")) := by
  rfl

open Parser in
/-- Claim C5, amended: `parseProgram` yields no tree when the current token is not the keyword
`program`, and when, after the keyword and the program name if there is one, the current token
is not a colon; when the keyword and the colon are both consumed, with or without a name
between them, every result it returns is a tree. -/
theorem C5_no_tree_without_keyword_or_colon (fuel : Nat) (s : Parser) :
    (s.currentToken.type ≠ TOK_PROGRAM → parseProgram fuel s = some (none, s))
    ∧ (s.currentToken.type = TOK_PROGRAM →
        (parseName s.advance).2.currentToken.type ≠ TOK_COLON →
        parseProgram fuel s = some (none, (parseName s.advance).2))
    ∧ (s.currentToken.type = TOK_PROGRAM →
        (parseName s.advance).2.currentToken.type = TOK_COLON →
        ∀ r, parseProgram fuel s = some r → r.1.isSome = true) := by
  refine ⟨?_, ?_, ?_⟩
  · intro h
    simp [parseProgram, consume, matchTok, h]
  · intro h0 h2
    simp [parseProgram, consume, matchTok, h0, h2]
  · intro h0 h2 r hr
    exact parseProgram_present h0 h2 hr

open Parser in
theorem C5_no_tree_without_keyword_or_colon_witness :
    (Parser.new "begin end".toList).currentToken.type ≠ TOK_PROGRAM
    ∧ parseProgram 1 (Parser.new "begin end".toList) = some (none, Parser.new "begin end".toList)
    ∧ (Parser.new "program p begin".toList).currentToken.type = TOK_PROGRAM
    ∧ (parseName (Parser.new "program p begin".toList).advance).2.currentToken.type ≠ TOK_COLON
    ∧ parseProgram 1 (Parser.new "program p begin".toList)
        = some (none, (parseName (Parser.new "program p begin".toList).advance).2)
    ∧ (Parser.new "program : begin end p.".toList).currentToken.type = TOK_PROGRAM
    ∧ (parseName (Parser.new "program : begin end p.".toList).advance).2.currentToken.type
        = TOK_COLON
    ∧ (∀ r, parseProgram 1 (Parser.new "program : begin end p.".toList) = some r →
        r.1.isSome = true) :=
  ⟨by decide,
   (C5_no_tree_without_keyword_or_colon 1 (Parser.new "begin end".toList)).1 (by decide),
   by decide, by decide,
   (C5_no_tree_without_keyword_or_colon 1 (Parser.new "program p begin".toList)).2.1
     (by decide) (by decide),
   by decide, by decide,
   (C5_no_tree_without_keyword_or_colon 1 (Parser.new "program : begin end p.".toList)).2.2
     (by decide) (by decide)⟩

open TokenType

namespace Parser

theorem parseName_identifier {s : Parser} (h : s.currentToken.type = TOK_IDENTIFIER) :
    parseName s = (some (createIdentifierNode s.currentToken.value), s.advance) := by
  simp [parseName, matchTok, h]

/-- Shape of the root built by `parseProgram` after `program`, an identifier and a colon. -/
theorem parseProgram_shape {fuel : Nat} {s : Parser} {r : Option ASTNode × Parser}
    (h0 : s.currentToken.type = TOK_PROGRAM)
    (h1 : s.advance.currentToken.type = TOK_IDENTIFIER)
    (h2 : s.advance.advance.currentToken.type = TOK_COLON)
    (hr : parseProgram fuel s = some r) :
    ∃ (c t d sp b : ASTNode) (last : Option ASTNode),
      c.nodeType = "consts" ∧ t.nodeType = "types" ∧ d.nodeType = "dclns"
        ∧ sp.nodeType = "subprogs" ∧ b.nodeType = "block"
        ∧ r.1 = some (ASTNode.mk "program"
            ([createIdentifierNode s.advance.currentToken.value, c, t, d, sp, b]
              ++ last.toList) "") := by
  simp only [parseProgram, consume, matchTok, h0, parseName_identifier h1, h2, decide_True,
    if_true, Bool.not_true, Bool.false_eq_true, if_false] at hr
  split at hr
  · simp at hr
  · rename_i r2 hr2
    obtain ⟨c, hc, hcl⟩ := parseConsts_some hr2
    split at hr
    · simp at hr
    · rename_i r3 hr3
      obtain ⟨t, ht, htl⟩ := parseTypes_some hr3
      split at hr
      · simp at hr
      · rename_i r4 hr4
        obtain ⟨d, hd, hdl⟩ := parseDclns_some hr4
        split at hr
        · simp at hr
        · rename_i r5 hr5
          obtain ⟨sp, hsp, hspl⟩ := parseSubProgs_some hr5
          split at hr
          · simp at hr
          · rename_i r6 hr6
            obtain ⟨b, hb, hbl⟩ := parseBody_some hr6
            simp only [Option.some.injEq] at hr
            refine ⟨c, t, d, sp, b, (parseName r6.2).1, hcl, htl, hdl, hspl, hbl, ?_⟩
            rw [← hr, hc, ht, hd, hsp, hb]
            cases (parseName r6.2).1 <;> rfl

end Parser

open Parser in
/-- Claim C6: for every input whose first three non-newline tokens are the keyword `program`,
an identifier and `:`, whatever follows, every result `parseProgram` returns is a tree: its
root is labeled `program`, has 6 or 7 children, the first is the `<identifier>` wrapper of
the program name and the next five are labeled `consts`, `types`, `dclns`, `subprogs`,
`block`, in this order. -/
theorem C6_program_tree_after_header (input : List Char)
    (h0 : (Parser.new input).currentToken.type = TOK_PROGRAM)
    (h1 : (Parser.new input).advance.currentToken.type = TOK_IDENTIFIER)
    (h2 : (Parser.new input).advance.advance.currentToken.type = TOK_COLON)
    (fuel : Nat) (r : Option ASTNode × Parser)
    (hr : parseProgram fuel (Parser.new input) = some r) :
    ∃ root, r.1 = some root
      ∧ root.nodeType = "program"
      ∧ (root.children.length = 6 ∨ root.children.length = 7)
      ∧ root.children.head?
          = some (ASTNode.mk "<identifier>"
              [ASTNode.mk (Parser.new input).advance.currentToken.value [] ""] "")
      ∧ ((root.children.drop 1).take 5).map ASTNode.nodeType
          = ["consts", "types", "dclns", "subprogs", "block"] := by
  obtain ⟨c, t, d, sp, b, last, hc, ht, hd, hsp, hb, hroot⟩ := parseProgram_shape h0 h1 h2 hr
  refine ⟨_, hroot, rfl, ?_, rfl, ?_⟩
  · cases last with
    | none => left; rfl
    | some x => right; rfl
  · simp [ASTNode.children, hc, ht, hd, hsp, hb]

open Parser in
theorem C6_program_tree_after_header_witness :
    (Parser.new "program p: begin x := end".toList).currentToken.type = TOK_PROGRAM
    ∧ (Parser.new "program p: begin x := end".toList).advance.currentToken.type = TOK_IDENTIFIER
    ∧ (Parser.new "program p: begin x := end".toList).advance.advance.currentToken.type
        = TOK_COLON
    ∧ ∃ r, parseProgram 9 (Parser.new "program p: begin x := end".toList) = some r
      ∧ ∃ root, r.1 = some root
        ∧ root.nodeType = "program"
        ∧ (root.children.length = 6 ∨ root.children.length = 7)
        ∧ root.children.head? = some (ASTNode.mk "<identifier>"
            [ASTNode.mk (Parser.new "program p: begin x := end".toList).advance.currentToken.value
              [] ""] "")
        ∧ ((root.children.drop 1).take 5).map ASTNode.nodeType
            = ["consts", "types", "dclns", "subprogs", "block"] :=
  ⟨by decide, by decide, by decide, _, rfl,
   C6_program_tree_after_header "program p: begin x := end".toList (by decide) (by decide)
     (by decide) 9 _ rfl⟩

open TokenType

namespace Parser

/-! ## The declaration sections return on every state -/

theorem advance_rest : ∀ (n : Nat) (p : Parser), p.lexer.rest.length = n →
    p.advance.lexer.rest.length ≤ p.lexer.rest.length
    ∧ (p.advance.currentToken.type ≠ TOK_EOF →
        p.advance.lexer.rest.length < p.lexer.rest.length) := by
  intro n
  induction n using Nat.strong_induction_on with
  | _ n ih =>
    intro p hn
    by_cases hnl : p.lexer.nextToken.1.type = TOK_NEWLINE
    · have hne : p.lexer.nextToken.1.type ≠ TOK_EOF := by rw [hnl]; decide
      have hlt := nextToken_rest_lt hne
      rw [advance_of_newline p hnl]
      have := ih _ (by rw [← hn]; exact hlt) ⟨p.lexer.nextToken.2, p.currentToken⟩ rfl
      simp only at this
      constructor
      · omega
      · intro h
        have := this.2 h
        omega
    · rw [advance_of_not_newline p hnl]
      exact ⟨nextToken_rest_le _, fun h => nextToken_rest_lt h⟩

theorem remaining_advance (p : Parser) : p.advance.remaining ≤ p.lexer.rest.length := by
  have h := advance_rest _ p rfl
  unfold remaining
  by_cases he : p.advance.currentToken.type = TOK_EOF
  · rw [if_pos he]; omega
  · rw [if_neg he]
    have := h.2 he
    omega

theorem remaining_advance_le (p : Parser) : p.advance.remaining ≤ p.remaining := by
  have := remaining_advance p
  unfold remaining at this ⊢
  omega

theorem remaining_advance_lt (p : Parser) (h : p.currentToken.type ≠ TOK_EOF) :
    p.advance.remaining < p.remaining := by
  have := remaining_advance p
  unfold remaining at this ⊢
  rw [if_neg h]
  omega

theorem remaining_consume_le (p : Parser) (t : TokenType) :
    (p.consume t).2.remaining ≤ p.remaining := by
  unfold consume
  by_cases h : p.matchTok t = true
  · rw [if_pos h]; exact remaining_advance_le p
  · rw [if_neg h]

theorem remaining_consume_lt (p : Parser) (t : TokenType) (ht : t ≠ TOK_EOF)
    (h : (p.consume t).1 = true) : (p.consume t).2.remaining < p.remaining := by
  unfold consume at h ⊢
  by_cases hm : p.matchTok t = true
  · rw [if_pos hm]
    apply remaining_advance_lt
    have : p.currentToken.type = t := by simpa [matchTok] using hm
    rw [this]; exact ht
  · rw [if_neg hm] at h
    exact absurd h (by simp)

theorem remaining_parseName_le (p : Parser) : (parseName p).2.remaining ≤ p.remaining := by
  unfold parseName
  split
  · exact remaining_advance_le p
  · split
    · exact remaining_advance_le p
    · split
      · exact remaining_advance_le p
      · exact Nat.le_refl _

theorem remaining_parseName_lt (p : Parser) (h : p.currentToken.type = TOK_IDENTIFIER) :
    (parseName p).2.remaining < p.remaining := by
  unfold parseName
  rw [if_pos (by simp [matchTok, h])]
  exact remaining_advance_lt p (by rw [h]; decide)

theorem remaining_parseConstValue_le (p : Parser) :
    (parseConstValue p).2.remaining ≤ p.remaining := by
  unfold parseConstValue
  split
  · exact remaining_advance_le p
  · split
    · exact remaining_advance_le p
    · split
      · exact remaining_parseName_le p
      · split
        · exact remaining_advance_le p
        · split
          · exact remaining_advance_le p
          · exact Nat.le_refl _

theorem remaining_parseConst_le (p : Parser) : (parseConst p).2.remaining ≤ p.remaining := by
  have h1 := remaining_parseName_le p
  have h2 := remaining_consume_le (parseName p).2 TOK_EQUAL
  have h3 := remaining_parseConstValue_le ((parseName p).2.consume TOK_EQUAL).2
  simp only [parseConst]
  split
  · simp only; omega
  · simp only; omega

theorem parseConstsLoop_total : ∀ (fuel : Nat) (node : ASTNode) (p : Parser),
    p.remaining < fuel →
    ∃ r, parseConstsLoop fuel node p = some r ∧ r.2.remaining ≤ p.remaining := by
  intro fuel
  induction fuel with
  | zero => intro node p h; omega
  | succ f ih =>
    intro node p h
    have h1 := remaining_parseConst_le p
    have h2 := remaining_consume_le (parseConst p).2 TOK_COMMA
    simp only [parseConstsLoop]
    by_cases hc : ((parseConst p).2.consume TOK_COMMA).1 = true
    · rw [if_pos hc]
      have h3 := remaining_consume_lt _ _ (by decide) hc
      obtain ⟨r, hr, hle⟩ := ih (node.addChild (parseConst p).1)
        ((parseConst p).2.consume TOK_COMMA).2 (by omega)
      exact ⟨r, hr, by omega⟩
    · rw [if_neg hc]
      exact ⟨_, rfl, h2.trans h1⟩

/-- With more fuel than `remaining`, `parseConsts` returns, and what it returns is a node
labeled `consts`. -/
theorem parseConsts_total (fuel : Nat) (p : Parser) (h : p.remaining < fuel) :
    ∃ n s, parseConsts fuel p = some (some n, s) ∧ n.nodeType = "consts"
      ∧ s.remaining ≤ p.remaining := by
  have key : ∃ r, parseConsts fuel p = some r ∧ r.2.remaining ≤ p.remaining := by
    simp only [parseConsts]
    by_cases hm : p.matchTok TOK_CONST = true
    · rw [if_pos hm]
      have ha := remaining_advance_le p
      obtain ⟨r, hr, hle⟩ := parseConstsLoop_total fuel (ASTNode.new "consts") p.advance
        (by omega)
      rw [hr]
      have hc := remaining_consume_le r.2 TOK_SEMICOLON
      exact ⟨_, rfl, by simp only; omega⟩
    · rw [if_neg hm]
      exact ⟨_, rfl, Nat.le_refl _⟩
  obtain ⟨r, hr, hle⟩ := key
  obtain ⟨n, hn, hty⟩ := parseConsts_some hr
  refine ⟨n, r.2, ?_, hty, hle⟩
  rw [hr, ← hn]

theorem parseLitListLoop_total : ∀ (fuel : Nat) (node : ASTNode) (p : Parser),
    p.remaining < fuel →
    ∃ r, parseLitListLoop fuel node p = some r ∧ r.2.remaining ≤ p.remaining := by
  intro fuel
  induction fuel with
  | zero => intro node p h; omega
  | succ f ih =>
    intro node p h
    have h1 := remaining_parseName_le p
    have h2 := remaining_consume_le (parseName p).2 TOK_COMMA
    simp only [parseLitListLoop]
    by_cases hc : ((parseName p).2.consume TOK_COMMA).1 = true
    · rw [if_pos hc]
      have h3 := remaining_consume_lt _ _ (by decide) hc
      obtain ⟨r, hr, hle⟩ := ih (node.addChild (parseName p).1)
        ((parseName p).2.consume TOK_COMMA).2 (by omega)
      exact ⟨r, hr, by omega⟩
    · rw [if_neg hc]
      exact ⟨_, rfl, h2.trans h1⟩

theorem parseLitList_total (fuel : Nat) (p : Parser) (h : p.remaining < fuel) :
    ∃ r, parseLitList fuel p = some r ∧ r.2.remaining ≤ p.remaining := by
  have h1 := remaining_consume_le p TOK_LPAREN
  simp only [parseLitList]
  by_cases hc : (p.consume TOK_LPAREN).1 = true
  · rw [if_neg (by simp [hc])]
    obtain ⟨r, hr, hle⟩ := parseLitListLoop_total fuel (ASTNode.new "lit")
      (p.consume TOK_LPAREN).2 (by omega)
    rw [hr]
    have h2 := remaining_consume_le r.2 TOK_RPAREN
    exact ⟨_, rfl, by simp only; omega⟩
  · rw [if_pos (by simp [hc])]
    exact ⟨_, rfl, h1⟩

theorem parseType_total (fuel : Nat) (p : Parser) (h : p.remaining < fuel) :
    ∃ r, parseType fuel p = some r ∧ r.2.remaining ≤ p.remaining
      ∧ (p.currentToken.type = TOK_IDENTIFIER → r.2.remaining < p.remaining) := by
  have h1 := remaining_parseName_le p
  have h1s := remaining_parseName_lt p
  have h2 := remaining_consume_le (parseName p).2 TOK_EQUAL
  simp only [parseType]
  by_cases hc : ((parseName p).2.consume TOK_EQUAL).1 = true
  · rw [if_neg (by simp [hc])]
    obtain ⟨r, hr, hle⟩ := parseLitList_total fuel ((parseName p).2.consume TOK_EQUAL).2
      (by omega)
    rw [hr]
    refine ⟨_, rfl, by simp only; omega, fun hi => ?_⟩
    have := h1s hi
    simp only
    omega
  · rw [if_pos (by simp [hc])]
    refine ⟨_, rfl, by simp only; omega, fun hi => ?_⟩
    have := h1s hi
    simp only
    omega

theorem parseTypesLoop_total : ∀ (fuel : Nat) (node : ASTNode) (p : Parser),
    p.remaining + (if p.currentToken.type = TOK_IDENTIFIER then 0 else 1) + 1 < fuel →
    ∃ r, parseTypesLoop fuel node p = some r ∧ r.2.remaining ≤ p.remaining := by
  intro fuel
  induction fuel with
  | zero => intro node p h; omega
  | succ f ih =>
    intro node p h
    obtain ⟨r, hr, hle, hlt⟩ := parseType_total f p (by omega)
    have hc := remaining_consume_le r.2 TOK_SEMICOLON
    simp only [parseTypesLoop, hr]
    by_cases hm : (r.2.consume TOK_SEMICOLON).2.matchTok TOK_IDENTIFIER = true
    · rw [if_pos hm]
      have hid : (r.2.consume TOK_SEMICOLON).2.currentToken.type = TOK_IDENTIFIER := by
        simpa [matchTok] using hm
      have hfuel : (r.2.consume TOK_SEMICOLON).2.remaining
          + (if (r.2.consume TOK_SEMICOLON).2.currentToken.type = TOK_IDENTIFIER then 0 else 1)
          + 1 < f := by
        rw [if_pos hid]
        by_cases hp : p.currentToken.type = TOK_IDENTIFIER
        · have := hlt hp
          rw [if_pos hp] at h
          omega
        · rw [if_neg hp] at h
          omega
      obtain ⟨r2, hr2, hle2⟩ := ih (node.addChild r.1) _ hfuel
      exact ⟨r2, hr2, by omega⟩
    · rw [if_neg hm]
      exact ⟨_, rfl, by simp only; omega⟩

/-- With enough fuel, `parseTypes` returns, and what it returns is a node labeled `types`. -/
theorem parseTypes_total (fuel : Nat) (p : Parser) (h : p.remaining + 1 < fuel) :
    ∃ n s, parseTypes fuel p = some (some n, s) ∧ n.nodeType = "types"
      ∧ s.remaining ≤ p.remaining := by
  have key : ∃ r, parseTypes fuel p = some r ∧ r.2.remaining ≤ p.remaining := by
    simp only [parseTypes]
    by_cases hm : p.matchTok TOK_TYPE = true
    · rw [if_pos hm]
      have hty : p.currentToken.type = TOK_TYPE := by simpa [matchTok] using hm
      have ha := remaining_advance_lt p (by rw [hty]; decide)
      obtain ⟨r, hr, hle⟩ := parseTypesLoop_total fuel (ASTNode.new "types") p.advance
        (by split <;> omega)
      rw [hr]
      exact ⟨_, rfl, by simp only; omega⟩
    · rw [if_neg hm]
      exact ⟨_, rfl, Nat.le_refl _⟩
  obtain ⟨r, hr, hle⟩ := key
  obtain ⟨n, hn, hty⟩ := parseTypes_some hr
  refine ⟨n, r.2, ?_, hty, hle⟩
  rw [hr, ← hn]

theorem parseDclnLoop_total : ∀ (fuel : Nat) (node : ASTNode) (p : Parser),
    p.remaining < fuel →
    ∃ r, parseDclnLoop fuel node p = some r ∧ r.2.remaining ≤ p.remaining
      ∧ (p.currentToken.type = TOK_IDENTIFIER → r.2.remaining < p.remaining) := by
  intro fuel
  induction fuel with
  | zero => intro node p h; omega
  | succ f ih =>
    intro node p h
    have h1 := remaining_parseName_le p
    have h1s := remaining_parseName_lt p
    have h2 := remaining_consume_le (parseName p).2 TOK_COMMA
    simp only [parseDclnLoop]
    by_cases hc : ((parseName p).2.consume TOK_COMMA).1 = true
    · rw [if_pos hc]
      have h3 := remaining_consume_lt _ _ (by decide) hc
      obtain ⟨r, hr, hle, _⟩ := ih (node.addChild (parseName p).1)
        ((parseName p).2.consume TOK_COMMA).2 (by omega)
      exact ⟨r, hr, by omega, fun _ => by omega⟩
    · rw [if_neg hc]
      refine ⟨_, rfl, h2.trans h1, fun hi => ?_⟩
      have := h1s hi
      simp only
      omega

theorem parseDcln_total (fuel : Nat) (p : Parser) (h : p.remaining < fuel) :
    ∃ r, parseDcln fuel p = some r ∧ r.2.remaining ≤ p.remaining
      ∧ (p.currentToken.type = TOK_IDENTIFIER → r.2.remaining < p.remaining) := by
  obtain ⟨r, hr, hle, hlt⟩ := parseDclnLoop_total fuel (ASTNode.new "var") p h
  have h2 := remaining_consume_le r.2 TOK_COLON
  have h3 := remaining_parseName_le (r.2.consume TOK_COLON).2
  simp only [parseDcln, hr]
  by_cases hc : (r.2.consume TOK_COLON).1 = true
  · rw [if_neg (by simp [hc])]
    refine ⟨_, rfl, by simp only; omega, fun hi => ?_⟩
    have := hlt hi
    simp only
    omega
  · rw [if_pos (by simp [hc])]
    refine ⟨_, rfl, by simp only; omega, fun hi => ?_⟩
    have := hlt hi
    simp only
    omega

theorem parseDclnsLoop_total : ∀ (fuel : Nat) (node : ASTNode) (p : Parser),
    p.remaining + (if p.currentToken.type = TOK_IDENTIFIER then 0 else 1) + 1 < fuel →
    ∃ r, parseDclnsLoop fuel node p = some r ∧ r.2.remaining ≤ p.remaining := by
  intro fuel
  induction fuel with
  | zero => intro node p h; omega
  | succ f ih =>
    intro node p h
    obtain ⟨r, hr, hle, hlt⟩ := parseDcln_total f p (by omega)
    have hc := remaining_consume_le r.2 TOK_SEMICOLON
    simp only [parseDclnsLoop, hr]
    by_cases hm : ((r.2.consume TOK_SEMICOLON).2.matchTok TOK_IDENTIFIER
        && !(r.2.consume TOK_SEMICOLON).2.matchTok TOK_BEGIN
        && !(r.2.consume TOK_SEMICOLON).2.matchTok TOK_FUNCTION
        && !(r.2.consume TOK_SEMICOLON).2.matchTok TOK_END) = true
    · rw [if_pos hm]
      have hid : (r.2.consume TOK_SEMICOLON).2.currentToken.type = TOK_IDENTIFIER := by
        simp only [Bool.and_eq_true] at hm
        simpa [matchTok] using hm.1.1.1
      have hfuel : (r.2.consume TOK_SEMICOLON).2.remaining
          + (if (r.2.consume TOK_SEMICOLON).2.currentToken.type = TOK_IDENTIFIER then 0 else 1)
          + 1 < f := by
        rw [if_pos hid]
        by_cases hp : p.currentToken.type = TOK_IDENTIFIER
        · have := hlt hp
          rw [if_pos hp] at h
          omega
        · rw [if_neg hp] at h
          omega
      obtain ⟨r2, hr2, hle2⟩ := ih (node.addChild r.1) _ hfuel
      exact ⟨r2, hr2, by omega⟩
    · rw [if_neg hm]
      exact ⟨_, rfl, by simp only; omega⟩

/-- With enough fuel, `parseDclns` returns, and what it returns is a node labeled `dclns`. -/
theorem parseDclns_total (fuel : Nat) (p : Parser) (h : p.remaining + 1 < fuel) :
    ∃ n s, parseDclns fuel p = some (some n, s) ∧ n.nodeType = "dclns"
      ∧ s.remaining ≤ p.remaining := by
  have key : ∃ r, parseDclns fuel p = some r ∧ r.2.remaining ≤ p.remaining := by
    simp only [parseDclns]
    by_cases hm : p.matchTok TOK_VAR = true
    · rw [if_pos hm]
      have hty : p.currentToken.type = TOK_VAR := by simpa [matchTok] using hm
      have ha := remaining_advance_lt p (by rw [hty]; decide)
      obtain ⟨r, hr, hle⟩ := parseDclnsLoop_total fuel (ASTNode.new "dclns") p.advance
        (by split <;> omega)
      rw [hr]
      exact ⟨_, rfl, by simp only; omega⟩
    · rw [if_neg hm]
      exact ⟨_, rfl, Nat.le_refl _⟩
  obtain ⟨r, hr, hle⟩ := key
  obtain ⟨n, hn, hty⟩ := parseDclns_some hr
  refine ⟨n, r.2, ?_, hty, hle⟩
  rw [hr, ← hn]

end Parser

open TokenType

namespace Parser

/-- Without the keyword `const`, `parseConsts` returns an empty `consts` node and leaves the
parser state unchanged. -/
theorem parseConsts_absent (fuel : Nat) (p : Parser) (h : p.currentToken.type ≠ TOK_CONST) :
    parseConsts fuel p = some (some (ASTNode.mk "consts" [] ""), p) := by
  simp [parseConsts, matchTok, h, ASTNode.new]

/-- Without the keyword `type`, `parseTypes` returns an empty `types` node and leaves the
parser state unchanged. -/
theorem parseTypes_absent (fuel : Nat) (p : Parser) (h : p.currentToken.type ≠ TOK_TYPE) :
    parseTypes fuel p = some (some (ASTNode.mk "types" [] ""), p) := by
  simp [parseTypes, matchTok, h, ASTNode.new]

/-- Without the keyword `var`, `parseDclns` returns an empty `dclns` node and leaves the
parser state unchanged. -/
theorem parseDclns_absent (fuel : Nat) (p : Parser) (h : p.currentToken.type ≠ TOK_VAR) :
    parseDclns fuel p = some (some (ASTNode.mk "dclns" [] ""), p) := by
  simp [parseDclns, matchTok, h, ASTNode.new]

/-- Without the keyword `function`, `parseSubProgs` returns an empty `subprogs` node and leaves
the parser state unchanged. -/
theorem parseSubProgs_absent (fuel : Nat) (p : Parser)
    (h : p.currentToken.type ≠ TOK_FUNCTION) :
    parseSubProgs (fuel + 1) p = some (some (ASTNode.mk "subprogs" [] ""), p) := by
  simp [parseSubProgs, parseSubProgsLoop, matchTok, h, ASTNode.new]

end Parser

open Parser in
/-- Claim C8, evaluated at a state on which `parseSubProgs` returns no node: on the text
`function f(): integer; begin case x of`, whose function body holds a case statement that is
never closed, `parseSubProgs` does not return, whatever fuel it is given. -/
theorem C8_parseSubProgs_never_returns (fuel : Nat) :
    parseSubProgs fuel (Parser.new "function f(): integer; begin case x of".toList) = none := by
  have hin : "function f(): integer; begin case x of".toList
      = "function".toList ++ (' ' :: ("f".toList ++ ('(' :: ')' :: ':' :: ' ' ::
          ("integer".toList ++ (';' :: ' ' :: ("begin".toList ++ (' ' ::
          ("case".toList ++ (' ' :: ("x".toList ++ (' ' :: ("of".toList ++ [])))))))))))) := by
    decide
  rw [hin]
  have h0 := new_at (LexTo.identifier (p := "function".toList)
    (r := ' ' :: ("f".toList ++ ('(' :: ')' :: ':' :: ' ' ::
          ("integer".toList ++ (';' :: ' ' :: ("begin".toList ++ (' ' ::
          ("case".toList ++ (' ' :: ("x".toList ++ (' ' :: ("of".toList ++ []))))))))))))
    (by decide) rfl)
  generalize Parser.new _ = s0 at h0 ⊢
  have h1 := h0.advance (LexTo.space (by decide) (LexTo.identifier (p := "f".toList)
    (by decide) rfl))
  have h2 := h1.advance (LexTo.single rfl)
  have h3 := h2.advance (LexTo.single rfl)
  have h4 := h3.advance (LexTo.single rfl)
  have h5 := h4.advance (LexTo.space (by decide) (LexTo.identifier (p := "integer".toList)
    (by decide) rfl))
  have h6 := h5.advance (LexTo.single rfl)
  have h7 := h6.advance (LexTo.space (by decide) (LexTo.identifier (p := "begin".toList)
    (by decide) rfl))
  have h8 := h7.advance (LexTo.space (by decide) (LexTo.identifier (p := "case".toList)
    (by decide) rfl))
  have h9 := h8.advance (LexTo.space (by decide) (LexTo.identifier (p := "x".toList)
    (by decide) rfl))
  have h10 := h9.advance (LexTo.space (by decide) (LexTo.identifier (p := "of".toList)
    (by decide) rfl))
  have h11 := h10.advance LexTo.eof
  have t0 : s0.currentToken.type = TOK_FUNCTION := h0.1
  have t1 : s0.advance.currentToken.type = TOK_IDENTIFIER := h1.1
  have t2 : s0.advance.advance.currentToken.type = TOK_LPAREN := h2.1
  have t3 : s0.advance.advance.advance.currentToken.type = TOK_RPAREN := h3.1
  have t4 : s0.advance.advance.advance.advance.currentToken.type = TOK_COLON := h4.1
  have t5 : s0.advance.advance.advance.advance.advance.currentToken.type = TOK_INTEGER_TYPE :=
    h5.1
  have t6 : s0.advance.advance.advance.advance.advance.advance.currentToken.type
      = TOK_SEMICOLON := h6.1
  have t7 : s0.advance.advance.advance.advance.advance.advance.advance.currentToken.type
      = TOK_BEGIN := h7.1
  have hbody := parseBody_unclosed_case _ t7 h8.1 h9.1 h10.1 h11.1
  cases fuel with
  | zero => simp [parseSubProgs, parseSubProgsLoop]
  | succ n =>
    simp [parseSubProgs, parseSubProgsLoop, parseFcn, parseParams, consume, matchTok, parseName,
      parseConsts, parseTypes, parseDclns, t0, t1, t2, t3, t4, t5, t6, t7, hbody]

open TokenType

namespace Parser

theorem parseParamsLoop_nodeType : ∀ (fuel : Nat) (node : ASTNode) (p : Parser)
    (r : ASTNode × Parser), parseParamsLoop fuel node p = some r →
    r.1.nodeType = node.nodeType := by
  intro fuel
  induction fuel with
  | zero => intro node p r h; simp [parseParamsLoop] at h
  | succ f ih =>
    intro node p r h
    simp only [parseParamsLoop] at h
    split at h
    · simp at h
    · split at h
      · rw [ih _ _ _ h, nodeType_addChild]
      · simp only [Option.some.injEq] at h
        rw [← h, nodeType_addChild]

theorem children_addChild (n : ASTNode) (c : Option ASTNode) :
    (n.addChild c).children = n.children ++ c.toList := by
  cases c with
  | none => simp [ASTNode.addChild]
  | some x => rfl

/-- When `parseParams` returns, it returns a node labeled `params`; started at `)` it returns
the node without children and consumes nothing. -/
theorem parseParams_some {fuel : Nat} {p : Parser} {r : Option ASTNode × Parser}
    (h : parseParams fuel p = some r) :
    ∃ n, r.1 = some n ∧ n.nodeType = "params"
      ∧ (p.currentToken.type = TOK_RPAREN → n.children = [] ∧ r.2 = p) := by
  simp only [parseParams, matchTok] at h
  by_cases hp : p.currentToken.type = TOK_RPAREN
  · simp only [hp, decide_True, Bool.not_true, Bool.false_eq_true, if_false,
      Option.some.injEq] at h
    rw [← h]
    exact ⟨_, rfl, rfl, fun _ => ⟨rfl, rfl⟩⟩
  · simp only [hp, decide_False, Bool.not_false, if_true] at h
    split at h
    · simp at h
    · rename_i r1 hr1
      simp only [Option.some.injEq] at h
      rw [← h]
      exact ⟨r1.1, rfl, parseParamsLoop_nodeType _ _ _ _ hr1, fun h => absurd h hp⟩

end Parser

open Parser in
/-- Claim C9, counterexample: for `function f: integer; begin end f;`, which has no
parenthesized parameter list, the `params` node of the `fcn` node has one child, a `var` node
holding the wrapper of `integer`: the declaration parser takes `: integer` for a parameter
declaration. -/
theorem C9_params_not_empty_without_parentheses :
    (parseFcn 3 (Parser.new "function f: integer; begin end f;".toList)).map (fun r => r.1)
      = some (some (ASTNode.mk "fcn"
          [ASTNode.mk "<identifier>" [ASTNode.mk "f" [] ""] "",
           ASTNode.mk "params"
             [ASTNode.mk "var" [ASTNode.mk "<identifier>" [ASTNode.mk "integer" [] ""] ""] ""] "",
           ASTNode.mk "consts" [] "", ASTNode.mk "types" [] "", ASTNode.mk "dclns" [] "",
           ASTNode.mk "block" [] "",
           ASTNode.mk "<identifier>" [ASTNode.mk "f" [] ""] ""] "")) := by
  rfl

open Parser in
/-- Claim C9, amended: every node returned by `parseFcn` is labeled `fcn` and has a child labeled
`params`, its first child or the one after the function name; that `params` node has no
children when the parameter list is empty, that is when the token at which `parseParams`
starts (after the function name and the `(` if there is one) is `)`, as in
`function f(): integer; begin end f;`. -/
theorem C9_fcn_has_params (fuel : Nat) (s : Parser) (r : Option ASTNode × Parser)
    (hr : parseFcn fuel s = some r) :
    ∃ fcn params, r.1 = some fcn ∧ fcn.nodeType = "fcn"
      ∧ params.nodeType = "params"
      ∧ (fcn.children.head? = some params ∨ (fcn.children.drop 1).head? = some params)
      ∧ (((parseName (s.consume TOK_FUNCTION).2).2.consume TOK_LPAREN).2.currentToken.type
            = TOK_RPAREN → params.children = []) := by
  simp only [parseFcn] at hr
  split at hr
  · simp at hr
  · rename_i r2 hr2
    obtain ⟨params, hp, hpl, hpe⟩ := parseParams_some hr2
    split at hr
    · simp at hr
    · split at hr
      · simp at hr
      · split at hr
        · simp at hr
        · split at hr
          · simp at hr
          · simp only [Option.some.injEq] at hr
            refine ⟨_, params, by rw [← hr], ?_, hpl, ?_, fun h => (hpe h).1⟩
            · simp only [nodeType_addChild]; rfl
            · rw [hp]
              simp only [children_addChild, List.append_assoc]
              cases (parseName (s.consume TOK_FUNCTION).2).1 with
              | none => left; rfl
              | some nm => right; rfl

open Parser in
theorem C9_fcn_has_params_witness :
    ((parseName ((Parser.new "function f(): integer; begin end f;".toList).consume
        TOK_FUNCTION).2).2.consume TOK_LPAREN).2.currentToken.type = TOK_RPAREN
    ∧ ∃ r, parseFcn 3 (Parser.new "function f(): integer; begin end f;".toList) = some r
      ∧ ∃ fcn params, r.1 = some fcn ∧ fcn.nodeType = "fcn"
        ∧ params.nodeType = "params"
        ∧ (fcn.children.head? = some params ∨ (fcn.children.drop 1).head? = some params)
        ∧ (((parseName ((Parser.new "function f(): integer; begin end f;".toList).consume
              TOK_FUNCTION).2).2.consume TOK_LPAREN).2.currentToken.type = TOK_RPAREN →
            params.children = []) :=
  ⟨by decide, _, rfl,
   C9_fcn_has_params 3 (Parser.new "function f(): integer; begin end f;".toList) _ rfl⟩

open TokenType

namespace Parser

theorem addOp_some {t : TokenType} {o : String} (h : addOp t = some o) :
    t ≠ TOK_LPAREN ∧ mulOp t = none ∧ t ≠ TOK_INTEGER ∧ t ≠ TOK_IDENTIFIER := by
  cases t <;> simp [addOp, mulOp] at h ⊢

theorem mulOp_some {t : TokenType} {o : String} (h : mulOp t = some o) :
    t ≠ TOK_LPAREN ∧ addOp t = none ∧ relOp t = none := by
  cases t <;> simp [addOp, mulOp, relOp] at h ⊢

theorem relOp_some {t : TokenType} {o : String} (h : relOp t = some o) :
    t ≠ TOK_LPAREN ∧ addOp t = none ∧ mulOp t = none := by
  cases t <;> simp [addOp, mulOp, relOp] at h ⊢

theorem endsExpression_iff {t : TokenType} (h : endsExpression t = true) :
    relOp t = none ∧ addOp t = none ∧ mulOp t = none ∧ t ≠ TOK_LPAREN := by
  simpa [endsExpression, Option.isNone_iff_eq_none, and_assoc] using h

/-- A one-token operand not followed by `(` is parsed by `parsePrimary` into its wrapper. -/
theorem parsePrimary_operand (n : Nat) (s : Parser) (h : isOperand s.currentToken = true)
    (hn : s.advance.currentToken.type ≠ TOK_LPAREN) :
    parsePrimary (n + 1) s = some (some (operandNode s.currentToken), s.advance) := by
  simp only [isOperand, Bool.or_eq_true, beq_iff_eq] at h
  rcases h with h | h
  · simp [parsePrimary, matchTok, h, operandNode]
  · simp [parsePrimary, matchTok, h, hn, operandNode]

/-- Tokens `A op1 B op2 C` with `op1` additive and `op2` multiplicative: the multiplicative
operator takes `B` and `C`, the additive one takes `A` and the product. -/
theorem parseExpression_add_mul (n : Nat) (s : Parser) (o1 o2 : String)
    (h0 : isOperand s.currentToken = true)
    (h1 : addOp s.advance.currentToken.type = some o1)
    (h2 : isOperand s.advance.advance.currentToken = true)
    (h3 : mulOp s.advance.advance.advance.currentToken.type = some o2)
    (h4 : isOperand s.advance.advance.advance.advance.currentToken = true)
    (h5 : endsExpression s.advance.advance.advance.advance.advance.currentToken.type = true) :
    parseExpression (n + 6) s
      = some (some (mkOpNode o1 (some (operandNode s.currentToken))
          (some (mkOpNode o2 (some (operandNode s.advance.advance.currentToken))
            (some (operandNode s.advance.advance.advance.advance.currentToken))))),
          s.advance.advance.advance.advance.advance) := by
  obtain ⟨a1, a2, _, _⟩ := addOp_some h1
  obtain ⟨m1, m2, m3⟩ := mulOp_some h3
  obtain ⟨e1, e2, e3, e4⟩ := endsExpression_iff h5
  simp [parseExpression, parseTerm, parseFactor, parseExpressionLoop, parseTermLoop,
    parseFactorLoop, parsePrimary_operand _ _ h0 a1, parsePrimary_operand _ _ h2 m1,
    parsePrimary_operand _ _ h4 e4, h1, h3, a2, m2, m3, e1, e2, e3]

/-- Tokens `A op1 B op2 C` with `op1` multiplicative and `op2` additive: the multiplicative
operator takes `A` and `B`, the additive one takes the product and `C`. -/
theorem parseExpression_mul_add (n : Nat) (s : Parser) (o1 o2 : String)
    (h0 : isOperand s.currentToken = true)
    (h1 : mulOp s.advance.currentToken.type = some o1)
    (h2 : isOperand s.advance.advance.currentToken = true)
    (h3 : addOp s.advance.advance.advance.currentToken.type = some o2)
    (h4 : isOperand s.advance.advance.advance.advance.currentToken = true)
    (h5 : endsExpression s.advance.advance.advance.advance.advance.currentToken.type = true) :
    parseExpression (n + 6) s
      = some (some (mkOpNode o2
          (some (mkOpNode o1 (some (operandNode s.currentToken))
            (some (operandNode s.advance.advance.currentToken))))
          (some (operandNode s.advance.advance.advance.advance.currentToken))),
          s.advance.advance.advance.advance.advance) := by
  obtain ⟨m1, m2, m3⟩ := mulOp_some h1
  obtain ⟨a1, a2, _, _⟩ := addOp_some h3
  obtain ⟨e1, e2, e3, e4⟩ := endsExpression_iff h5
  simp [parseExpression, parseTerm, parseFactor, parseExpressionLoop, parseTermLoop,
    parseFactorLoop, parsePrimary_operand _ _ h0 m1, parsePrimary_operand _ _ h2 a1,
    parsePrimary_operand _ _ h4 e4, h1, h3, a2, m2, m3, e1, e2, e3]

/-- Tokens `A op1 B op2 C` with `op1` relational and `op2` additive: the additive operator takes
`B` and `C`, the relational one takes `A` and the sum. -/
theorem parseExpression_rel_add (n : Nat) (s : Parser) (o1 o2 : String)
    (h0 : isOperand s.currentToken = true)
    (h1 : relOp s.advance.currentToken.type = some o1)
    (h2 : isOperand s.advance.advance.currentToken = true)
    (h3 : addOp s.advance.advance.advance.currentToken.type = some o2)
    (h4 : isOperand s.advance.advance.advance.advance.currentToken = true)
    (h5 : endsExpression s.advance.advance.advance.advance.advance.currentToken.type = true) :
    parseExpression (n + 6) s
      = some (some (mkOpNode o1 (some (operandNode s.currentToken))
          (some (mkOpNode o2 (some (operandNode s.advance.advance.currentToken))
            (some (operandNode s.advance.advance.advance.advance.currentToken))))),
          s.advance.advance.advance.advance.advance) := by
  obtain ⟨r1, r2, r3⟩ := relOp_some h1
  obtain ⟨a1, a2, _, _⟩ := addOp_some h3
  obtain ⟨e1, e2, e3, e4⟩ := endsExpression_iff h5
  simp [parseExpression, parseTerm, parseFactor, parseExpressionLoop, parseTermLoop,
    parseFactorLoop, parsePrimary_operand _ _ h0 r1, parsePrimary_operand _ _ h2 a1,
    parsePrimary_operand _ _ h4 e4, h1, h3, a2, r2, r3, e1, e2, e3]

/-- Tokens `A op1 B op2 C` with `op1` additive and `op2` relational: the additive operator
takes `A` and `B`, the relational one takes the sum and `C`. -/
theorem parseExpression_add_rel (n : Nat) (s : Parser) (o1 o2 : String)
    (h0 : isOperand s.currentToken = true)
    (h1 : addOp s.advance.currentToken.type = some o1)
    (h2 : isOperand s.advance.advance.currentToken = true)
    (h3 : relOp s.advance.advance.advance.currentToken.type = some o2)
    (h4 : isOperand s.advance.advance.advance.advance.currentToken = true)
    (h5 : endsExpression s.advance.advance.advance.advance.advance.currentToken.type = true) :
    parseExpression (n + 6) s
      = some (some (mkOpNode o2
          (some (mkOpNode o1 (some (operandNode s.currentToken))
            (some (operandNode s.advance.advance.currentToken))))
          (some (operandNode s.advance.advance.advance.advance.currentToken))),
          s.advance.advance.advance.advance.advance) := by
  obtain ⟨a1, a2, _, _⟩ := addOp_some h1
  obtain ⟨r1, r2, r3⟩ := relOp_some h3
  obtain ⟨e1, e2, e3, e4⟩ := endsExpression_iff h5
  simp [parseExpression, parseTerm, parseFactor, parseExpressionLoop, parseTermLoop,
    parseFactorLoop, parsePrimary_operand _ _ h0 a1, parsePrimary_operand _ _ h2 r1,
    parsePrimary_operand _ _ h4 e4, h1, h3, a2, r2, r3, e1, e2, e3]

/-- Tokens `A op1 B op2 C` with `op1` relational and `op2` multiplicative: the multiplicative
operator takes `B` and `C`, the relational one takes `A` and the product. -/
theorem parseExpression_rel_mul (n : Nat) (s : Parser) (o1 o2 : String)
    (h0 : isOperand s.currentToken = true)
    (h1 : relOp s.advance.currentToken.type = some o1)
    (h2 : isOperand s.advance.advance.currentToken = true)
    (h3 : mulOp s.advance.advance.advance.currentToken.type = some o2)
    (h4 : isOperand s.advance.advance.advance.advance.currentToken = true)
    (h5 : endsExpression s.advance.advance.advance.advance.advance.currentToken.type = true) :
    parseExpression (n + 6) s
      = some (some (mkOpNode o1 (some (operandNode s.currentToken))
          (some (mkOpNode o2 (some (operandNode s.advance.advance.currentToken))
            (some (operandNode s.advance.advance.advance.advance.currentToken))))),
          s.advance.advance.advance.advance.advance) := by
  obtain ⟨r1, r2, r3⟩ := relOp_some h1
  obtain ⟨m1, m2, m3⟩ := mulOp_some h3
  obtain ⟨e1, e2, e3, e4⟩ := endsExpression_iff h5
  simp [parseExpression, parseTerm, parseFactor, parseExpressionLoop, parseTermLoop,
    parseFactorLoop, parsePrimary_operand _ _ h0 r1, parsePrimary_operand _ _ h2 m1,
    parsePrimary_operand _ _ h4 e4, h1, h3, r2, r3, m2, m3, e1, e2, e3]

/-- Tokens `A op1 B op2 C` with `op1` multiplicative and `op2` relational: the multiplicative
operator takes `A` and `B`, the relational one takes the product and `C`. -/
theorem parseExpression_mul_rel (n : Nat) (s : Parser) (o1 o2 : String)
    (h0 : isOperand s.currentToken = true)
    (h1 : mulOp s.advance.currentToken.type = some o1)
    (h2 : isOperand s.advance.advance.currentToken = true)
    (h3 : relOp s.advance.advance.advance.currentToken.type = some o2)
    (h4 : isOperand s.advance.advance.advance.advance.currentToken = true)
    (h5 : endsExpression s.advance.advance.advance.advance.advance.currentToken.type = true) :
    parseExpression (n + 6) s
      = some (some (mkOpNode o2
          (some (mkOpNode o1 (some (operandNode s.currentToken))
            (some (operandNode s.advance.advance.currentToken))))
          (some (operandNode s.advance.advance.advance.advance.currentToken))),
          s.advance.advance.advance.advance.advance) := by
  obtain ⟨m1, m2, m3⟩ := mulOp_some h1
  obtain ⟨r1, r2, r3⟩ := relOp_some h3
  obtain ⟨e1, e2, e3, e4⟩ := endsExpression_iff h5
  simp [parseExpression, parseTerm, parseFactor, parseExpressionLoop, parseTermLoop,
    parseFactorLoop, parsePrimary_operand _ _ h0 m1, parsePrimary_operand _ _ h2 r1,
    parsePrimary_operand _ _ h4 e4, h1, h3, r2, r3, m2, m3, e1, e2, e3]

end Parser

namespace Parser

theorem LexTo.primary {x r : List Char} (hx : isPrimaryText x = true)
    (hr : r = [] ∨ ∃ cs, r = ' ' :: cs) :
    LexTo (x ++ r) (if Lexer.isNumberText x = true then TOK_INTEGER else TOK_IDENTIFIER)
      (String.mk x) r := by
  have hie : Lexer.identifierEnd r = true := by
    rcases hr with rfl | ⟨cs, rfl⟩ <;> rfl
  have hne : Lexer.numberEnd r = true := by
    rcases hr with rfl | ⟨cs, rfl⟩ <;> rfl
  by_cases hnum : Lexer.isNumberText x = true
  · rw [if_pos hnum]
    exact LexTo.number hnum hne
  · rw [if_neg hnum]
    simp only [isPrimaryText, Bool.or_eq_true, Bool.and_eq_true, Option.isNone_iff_eq_none,
      hnum, or_false, Bool.false_eq_true] at hx
    have := LexTo.identifier (r := r) hx.1 hie
    rwa [keywordType_of_lookup_none hx.2] at this

/-- The token of a primary operand is an operand token whose wrapper is `primaryNode`. -/
theorem At.operand {s : Parser} {x cs : List Char}
    (h : s.At (if Lexer.isNumberText x = true then TOK_INTEGER else TOK_IDENTIFIER)
      (String.mk x) cs) :
    isOperand s.currentToken = true ∧ operandNode s.currentToken = primaryNode x := by
  obtain ⟨ht, hv, _⟩ := h
  by_cases hnum : Lexer.isNumberText x = true
  · rw [if_pos hnum] at ht
    simp [isOperand, operandNode, primaryNode, ht, hv, hnum]
  · rw [if_neg hnum] at ht
    simp [isOperand, operandNode, primaryNode, ht, hv, hnum]

/-- Parsing the text `a c1 b c2 c`, for primaries `a`, `b`, `c` and one-character operators
`c1`, `c2`, reaches the six tokens `a`, `c1`, `b`, `c2`, `c` and the end of the input. -/
theorem lex_three_operands (a b c : List Char) (c1 c2 : Char)
    (ha : isPrimaryText a = true) (hb : isPrimaryText b = true) (hc : isPrimaryText c = true)
    (h1 : Lexer.isSingleCharToken c1 ' ' = true) (h2 : Lexer.isSingleCharToken c2 ' ' = true)
    (s : Parser)
    (hs : s = Parser.new (a ++ (' ' :: c1 :: ' ' :: (b ++ (' ' :: c2 :: ' ' :: (c ++ [])))))) :
    (isOperand s.currentToken = true ∧ operandNode s.currentToken = primaryNode a)
    ∧ s.advance.currentToken.type = Lexer.singleCharType c1
    ∧ (isOperand s.advance.advance.currentToken = true
        ∧ operandNode s.advance.advance.currentToken = primaryNode b)
    ∧ s.advance.advance.advance.currentToken.type = Lexer.singleCharType c2
    ∧ (isOperand s.advance.advance.advance.advance.currentToken = true
        ∧ operandNode s.advance.advance.advance.advance.currentToken = primaryNode c)
    ∧ s.advance.advance.advance.advance.advance.currentToken.type = TOK_EOF := by
  subst hs
  have k0 := new_at (LexTo.primary (x := a)
    (r := ' ' :: c1 :: ' ' :: (b ++ (' ' :: c2 :: ' ' :: (c ++ []))))
    ha (Or.inr ⟨_, rfl⟩))
  have k1 := k0.advance (LexTo.space (by decide) (LexTo.single h1))
  have k2 := k1.advance (LexTo.space (by decide) (LexTo.primary hb (Or.inr ⟨_, rfl⟩)))
  have k3 := k2.advance (LexTo.space (by decide) (LexTo.single h2))
  have k4 := k3.advance (LexTo.space (by decide) (LexTo.primary hc (Or.inl rfl)))
  have k5 := k4.advance LexTo.eof
  exact ⟨k0.operand, k1.1, k2.operand, k3.1, k4.operand, k5.1⟩

end Parser

open TokenType

/-! ## The wrapper pattern: invariants of the tree builders -/

namespace Parser

theorem mem_subtreesList {m : ASTNode} : ∀ {cs : List ASTNode},
    m ∈ ASTNode.subtreesList cs ↔ ∃ c ∈ cs, m ∈ c.subtrees := by
  intro cs
  induction cs with
  | nil => simp [ASTNode.subtreesList]
  | cons c cs ih => simp [ASTNode.subtreesList, ih]

theorem subtrees_eq (n : ASTNode) : n.subtrees = n :: ASTNode.subtreesList n.children := by
  cases n with
  | mk ty cs v => simp [ASTNode.subtrees, ASTNode.children]

theorem reach_refl (s0 : Parser) : Reach s0 s0 := ⟨0, rfl⟩

theorem advanceN_succ (k : Nat) (s : Parser) : advanceN (k + 1) s = (advanceN k s).advance := by
  induction k generalizing s with
  | zero => rfl
  | succ k ih => rw [advanceN, ih]; rfl

theorem reach_advance {s0 s : Parser} (h : Reach s0 s) : Reach s0 s.advance := by
  obtain ⟨k, rfl⟩ := h
  exact ⟨k + 1, (advanceN_succ k s0).symm⟩

theorem reach_consume {s0 s : Parser} (t : TokenType) (h : Reach s0 s) :
    Reach s0 (s.consume t).2 := by
  unfold consume
  split
  · exact reach_advance h
  · exact h

theorem optOK_none (s0 : Parser) : OptOK s0 none := by
  intro t h; cases h

theorem good_treeOK {s0 : Parser} {n : ASTNode} (h : Good s0 n) : TreeOK s0 n := by
  intro m hm
  rw [subtrees_eq] at hm
  rcases List.mem_cons.mp hm with rfl | hm
  · intro hw
    rw [h.1] at hw
    cases hw
  · obtain ⟨c, hc, hmc⟩ := mem_subtreesList.mp hm
    exact h.2 c hc m hmc

theorem optOK_some_good {s0 : Parser} {n : ASTNode} (h : Good s0 n) : OptOK s0 (some n) := by
  intro t ht
  cases ht
  exact good_treeOK h

theorem optOK_some {s0 : Parser} {n : ASTNode} (h : TreeOK s0 n) : OptOK s0 (some n) := by
  intro t ht
  cases ht
  exact h

theorem good_new (s0 : Parser) (label : String) (h : isWrapperLabel label = false) :
    Good s0 (ASTNode.new label) :=
  ⟨h, fun c hc => by simp [ASTNode.new, ASTNode.children] at hc⟩

theorem good_addChild {s0 : Parser} {n : ASTNode} {c : Option ASTNode} (hn : Good s0 n)
    (hc : OptOK s0 c) : Good s0 (n.addChild c) := by
  refine ⟨by rw [nodeType_addChild]; exact hn.1, ?_⟩
  intro x hx
  rw [children_addChild] at hx
  rcases List.mem_append.mp hx with hx | hx
  · exact hn.2 x hx
  · cases c with
    | none => simp at hx
    | some y =>
      simp only [Option.toList_some, List.mem_singleton] at hx
      subst hx
      exact hc _ rfl

/-- The wrapper built over the text of a literal token has the wrapper pattern. -/
theorem treeOK_wrapper {s0 s : Parser} (label : String) (hs : Reach s0 s) (hk : s.currentToken.type ∈ wrapperKinds label)
    (ht : TokenTextOK s.currentToken) :
    TreeOK s0 (ASTNode.mk label [ASTNode.mk s.currentToken.value [] ""] "") := by
  obtain ⟨k, rfl⟩ := hs
  have hkinds : (advanceN k s0).currentToken.type ∈ [TOK_IDENTIFIER, TOK_INTEGER_TYPE,
      TOK_BOOLEAN, TOK_TRUE, TOK_FALSE, TOK_INTEGER, TOK_CHAR, TOK_STRING] := by
    unfold wrapperKinds at hk
    split at hk
    · simp only [List.mem_cons, List.mem_singleton, List.not_mem_nil, or_false] at hk ⊢
      tauto
    split at hk
    · simp only [List.mem_cons, List.mem_singleton, List.not_mem_nil, or_false] at hk ⊢
      tauto
    split at hk
    · simp only [List.mem_cons, List.mem_singleton, List.not_mem_nil, or_false] at hk ⊢
      tauto
    split at hk
    · simp only [List.mem_cons, List.mem_singleton, List.not_mem_nil, or_false] at hk ⊢
      tauto
    · simp at hk
  intro m hm
  simp only [ASTNode.subtrees, ASTNode.subtreesList, List.append_nil, List.mem_cons,
    List.mem_singleton, List.not_mem_nil, or_false] at hm
  rcases hm with rfl | rfl
  · intro _
    exact ⟨k, hk, rfl⟩
  · intro hw
    have := ht hkinds
    simp only [ASTNode.nodeType] at hw
    rw [this] at hw
    cases hw

theorem treeOK_identifier {s0 s : Parser} (hT : ∀ s, Reach s0 s → TokenTextOK s.currentToken)
    (hs : Reach s0 s)
    (hk : s.currentToken.type ∈
      [TOK_IDENTIFIER, TOK_INTEGER_TYPE, TOK_BOOLEAN, TOK_TRUE, TOK_FALSE]) :
    TreeOK s0 (createIdentifierNode s.currentToken.value) :=
  treeOK_wrapper "<identifier>" hs hk (hT s hs)

theorem treeOK_integer {s0 s : Parser} (hT : ∀ s, Reach s0 s → TokenTextOK s.currentToken)
    (hs : Reach s0 s) (hk : s.currentToken.type = TOK_INTEGER) :
    TreeOK s0 (createIntegerNode s.currentToken.value) :=
  treeOK_wrapper "<integer>" hs (by rw [hk]; decide) (hT s hs)

theorem treeOK_char {s0 s : Parser} (hT : ∀ s, Reach s0 s → TokenTextOK s.currentToken)
    (hs : Reach s0 s) (hk : s.currentToken.type = TOK_CHAR) :
    TreeOK s0 (createCharNode s.currentToken.value) :=
  treeOK_wrapper "<char>" hs (by rw [hk]; decide) (hT s hs)

theorem treeOK_string {s0 s : Parser} (hT : ∀ s, Reach s0 s → TokenTextOK s.currentToken)
    (hs : Reach s0 s) (hk : s.currentToken.type = TOK_STRING) :
    TreeOK s0 (createStringNode s.currentToken.value) :=
  treeOK_wrapper "<string>" hs (by rw [hk]; decide) (hT s hs)

theorem parseName_ok {s0 s : Parser} (hT : ∀ s, Reach s0 s → TokenTextOK s.currentToken)
    (hs : Reach s0 s) : ResOK s0 (parseName s) := by
  unfold parseName
  simp only [matchTok, decide_eq_true_eq]
  split
  · next h => exact ⟨reach_advance hs, optOK_some (treeOK_identifier hT hs (by rw [h]; decide))⟩
  split
  · next h => exact ⟨reach_advance hs, optOK_some (treeOK_identifier hT hs (by rw [h]; decide))⟩
  split
  · next h => exact ⟨reach_advance hs, optOK_some (treeOK_identifier hT hs (by rw [h]; decide))⟩
  · exact ⟨hs, optOK_none s0⟩

theorem parseConstValue_ok {s0 s : Parser}
    (hT : ∀ s, Reach s0 s → TokenTextOK s.currentToken) (hs : Reach s0 s) :
    ResOK s0 (parseConstValue s) := by
  unfold parseConstValue
  simp only [matchTok, decide_eq_true_eq]
  split
  · next h => exact ⟨reach_advance hs, optOK_some (treeOK_integer hT hs h)⟩
  split
  · next h => exact ⟨reach_advance hs, optOK_some (treeOK_char hT hs h)⟩
  split
  · exact parseName_ok hT hs
  split
  · next h => exact ⟨reach_advance hs, optOK_some (treeOK_identifier hT hs (by rw [h]; decide))⟩
  split
  · next h => exact ⟨reach_advance hs, optOK_some (treeOK_identifier hT hs (by rw [h]; decide))⟩
  · exact ⟨hs, optOK_none s0⟩

theorem parseConst_ok {s0 s : Parser} (hT : ∀ s, Reach s0 s → TokenTextOK s.currentToken)
    (hs : Reach s0 s) : ResOK s0 (parseConst s) := by
  unfold parseConst
  simp only
  have h1 := parseName_ok hT hs
  split
  · exact ⟨reach_consume _ h1.1, optOK_none s0⟩
  · have h2 := parseConstValue_ok hT (reach_consume TOK_EQUAL h1.1)
    exact ⟨h2.1, optOK_some_good (good_addChild (good_addChild (good_new s0 _ rfl) h1.2) h2.2)⟩

theorem parseCaseExpression_ok {s0 s : Parser}
    (hT : ∀ s, Reach s0 s → TokenTextOK s.currentToken) (hs : Reach s0 s) :
    ResOK s0 (parseCaseExpression s) := by
  unfold parseCaseExpression
  simp only
  have h1 := parseConstValue_ok hT hs
  split
  · have h2 := parseConstValue_ok hT (reach_advance h1.1)
    exact ⟨h2.1, optOK_some_good (good_addChild (good_addChild (good_new s0 _ rfl) h1.2) h2.2)⟩
  · exact h1

/-- Invariant of the list loops that only call `parseName`. -/
theorem nameLoop_ok {s0 : Parser} (hT : ∀ s, Reach s0 s → TokenTextOK s.currentToken)
    (loop : Nat → ASTNode → Parser → Option (ASTNode × Parser))
    (h0 : ∀ n p, loop 0 n p = none)
    (hstep : ∀ f n p, loop (f + 1) n p =
      if ((parseName p).2.consume TOK_COMMA).1 = true then
        loop f (n.addChild (parseName p).1) ((parseName p).2.consume TOK_COMMA).2
      else some (n.addChild (parseName p).1, ((parseName p).2.consume TOK_COMMA).2)) :
    ∀ (fuel : Nat) (n : ASTNode) (p : Parser) (r : ASTNode × Parser),
      loop fuel n p = some r → Reach s0 p → Good s0 n → NodeOK s0 r := by
  intro fuel
  induction fuel with
  | zero => intro n p r h; rw [h0] at h; cases h
  | succ f ih =>
    intro n p r h hp hn
    rw [hstep] at h
    have h1 := parseName_ok hT hp
    split at h
    · exact ih _ _ _ h (reach_consume _ h1.1) (good_addChild hn h1.2)
    · cases h
      exact ⟨reach_consume _ h1.1, good_addChild hn h1.2⟩

theorem parseLitListLoop_ok {s0 : Parser} (hT : ∀ s, Reach s0 s → TokenTextOK s.currentToken) :
    ∀ (fuel : Nat) (n : ASTNode) (p : Parser) (r : ASTNode × Parser),
      parseLitListLoop fuel n p = some r → Reach s0 p → Good s0 n → NodeOK s0 r :=
  nameLoop_ok hT parseLitListLoop (fun _ _ => rfl) (fun _ _ _ => rfl)

theorem parseDclnLoop_ok {s0 : Parser} (hT : ∀ s, Reach s0 s → TokenTextOK s.currentToken) :
    ∀ (fuel : Nat) (n : ASTNode) (p : Parser) (r : ASTNode × Parser),
      parseDclnLoop fuel n p = some r → Reach s0 p → Good s0 n → NodeOK s0 r :=
  nameLoop_ok hT parseDclnLoop (fun _ _ => rfl) (fun _ _ _ => rfl)

theorem parseReadLoop_ok {s0 : Parser} (hT : ∀ s, Reach s0 s → TokenTextOK s.currentToken) :
    ∀ (fuel : Nat) (n : ASTNode) (p : Parser) (r : ASTNode × Parser),
      parseReadLoop fuel n p = some r → Reach s0 p → Good s0 n → NodeOK s0 r :=
  nameLoop_ok hT parseReadLoop (fun _ _ => rfl) (fun _ _ _ => rfl)

end Parser

open TokenType

namespace Parser

theorem relOp_label {t : TokenType} {op : String} (h : relOp t = some op) :
    isWrapperLabel op = false := by
  cases t <;> simp [relOp] at h <;> subst h <;> decide

theorem addOp_label {t : TokenType} {op : String} (h : addOp t = some op) :
    isWrapperLabel op = false := by
  cases t <;> simp [addOp] at h <;> subst h <;> decide

theorem mulOp_label {t : TokenType} {op : String} (h : mulOp t = some op) :
    isWrapperLabel op = false := by
  cases t <;> simp [mulOp] at h <;> subst h <;> decide

theorem good_mkOpNode {s0 : Parser} {op : String} {l r : Option ASTNode}
    (h : isWrapperLabel op = false) (hl : OptOK s0 l) (hr : OptOK s0 r) :
    Good s0 (mkOpNode op l r) :=
  good_addChild (good_addChild (good_new s0 op h) hl) hr

theorem exprInv_zero (s0 : Parser) : ExprInv s0 0 := by
  refine ⟨?_, ?_, ?_, ?_, ?_, ?_, ?_, ?_⟩
  · intro s r h; simp [parseExpression] at h
  · intro l s r h; simp [parseExpressionLoop] at h
  · intro s r h; simp [parseTerm] at h
  · intro l s r h; simp [parseTermLoop] at h
  · intro s r h; simp [parseFactor] at h
  · intro l s r h; simp [parseFactorLoop] at h
  · intro s r h; simp [parsePrimary] at h
  · intro l s r h; simp [parseCallArgsLoop] at h

theorem parsePrimary_step {s0 : Parser} (hT : ∀ s, Reach s0 s → TokenTextOK s.currentToken)
    (n : Nat) (ih : ExprInv s0 n) :
    ∀ s r, parsePrimary (n + 1) s = some r → Reach s0 s → ResOK s0 r := by
  obtain ⟨ihE, _, _, _, _, _, ihP, ihC⟩ := ih
  intro s r h hs
  -- a builtin call `name(expression)`
  have builtin : ∀ (label : String), isWrapperLabel label = false →
      (match parseExpression n (s.advance.consume TOK_LPAREN).2 with
        | none => none
        | some r => some (some ((ASTNode.new label).addChild r.1), (r.2.consume TOK_RPAREN).2))
        = some r → ResOK s0 r := by
    intro label hl h
    split at h
    · cases h
    · next r1 hr1 =>
      cases h
      have h1 := ihE _ _ hr1 (reach_consume _ (reach_advance hs))
      exact ⟨reach_consume _ h1.1, optOK_some_good (good_addChild (good_new s0 _ hl) h1.2)⟩
  -- a unary operator
  have unary : ∀ (label : String), isWrapperLabel label = false →
      (match parsePrimary n s.advance with
        | none => none
        | some r => some (some ((ASTNode.new label).addChild r.1), r.2)) = some r →
      ResOK s0 r := by
    intro label hl h
    split at h
    · cases h
    · next r1 hr1 =>
      cases h
      have h1 := ihP _ _ hr1 (reach_advance hs)
      exact ⟨h1.1, optOK_some_good (good_addChild (good_new s0 _ hl) h1.2)⟩
  simp only [parsePrimary, matchTok, decide_eq_true_eq, Bool.or_eq_true] at h
  by_cases c1 : s.currentToken.type = TOK_MINUS
  · rw [if_pos c1] at h; exact unary "-" rfl h
  rw [if_neg c1] at h
  by_cases c2 : s.currentToken.type = TOK_PLUS
  · rw [if_pos c2] at h; exact ihP _ _ h (reach_advance hs)
  rw [if_neg c2] at h
  by_cases c3 : s.currentToken.type = TOK_NOT
  · rw [if_pos c3] at h; exact unary "not" rfl h
  rw [if_neg c3] at h
  by_cases c4 : s.currentToken.type = TOK_SUCC
  · rw [if_pos c4] at h; exact builtin "succ" rfl h
  rw [if_neg c4] at h
  by_cases c5 : s.currentToken.type = TOK_PRED
  · rw [if_pos c5] at h; exact builtin "pred" rfl h
  rw [if_neg c5] at h
  by_cases c6 : s.currentToken.type = TOK_CHR
  · rw [if_pos c6] at h; exact builtin "chr" rfl h
  rw [if_neg c6] at h
  by_cases c7 : s.currentToken.type = TOK_ORD
  · rw [if_pos c7] at h; exact builtin "ord" rfl h
  rw [if_neg c7] at h
  by_cases c8 : s.currentToken.type = TOK_EOF_KW
  · rw [if_pos c8] at h; cases h
    exact ⟨reach_advance hs, optOK_some_good (good_new s0 _ rfl)⟩
  rw [if_neg c8] at h
  by_cases c9 : s.currentToken.type = TOK_INTEGER
  · rw [if_pos c9] at h; cases h
    exact ⟨reach_advance hs, optOK_some (treeOK_integer hT hs c9)⟩
  rw [if_neg c9] at h
  by_cases c10 : s.currentToken.type = TOK_CHAR
  · rw [if_pos c10] at h; cases h
    exact ⟨reach_advance hs, optOK_some (treeOK_char hT hs c10)⟩
  rw [if_neg c10] at h
  by_cases c11 : s.currentToken.type = TOK_STRING
  · rw [if_pos c11] at h; cases h
    exact ⟨reach_advance hs, optOK_some (treeOK_string hT hs c11)⟩
  rw [if_neg c11] at h
  by_cases c12 : s.currentToken.type = TOK_TRUE ∨ s.currentToken.type = TOK_FALSE
  · rw [if_pos c12] at h; cases h
    refine ⟨reach_advance hs, optOK_some (treeOK_identifier hT hs ?_)⟩
    rcases c12 with c | c <;> rw [c] <;> decide
  rw [if_neg c12] at h
  by_cases c13 : s.currentToken.type = TOK_LPAREN
  · rw [if_pos c13] at h
    split at h
    · cases h
    · next r1 hr1 =>
      cases h
      have h1 := ihE _ _ hr1 (reach_advance hs)
      exact ⟨reach_consume _ h1.1, h1.2⟩
  rw [if_neg c13] at h
  by_cases c14 : s.currentToken.type = TOK_IDENTIFIER
  · rw [if_pos c14] at h
    have hid : OptOK s0 (some (createIdentifierNode s.currentToken.value)) :=
      optOK_some (treeOK_identifier hT hs (by rw [c14]; decide))
    have hcall : Good s0 ((ASTNode.new "call").addChild
        (some (createIdentifierNode s.currentToken.value))) :=
      good_addChild (good_new s0 _ rfl) hid
    split at h
    · split at h
      · split at h
        · cases h
        · next r1 hr1 =>
          cases h
          have h1 := ihC _ _ _ hr1 (reach_advance (reach_advance hs)) hcall
          exact ⟨reach_consume _ h1.1, optOK_some_good h1.2⟩
      · cases h
        exact ⟨reach_consume _ (reach_advance (reach_advance hs)), optOK_some_good hcall⟩
    · cases h
      exact ⟨reach_advance hs, hid⟩
  rw [if_neg c14] at h
  cases h
  exact ⟨hs, optOK_none s0⟩

/-- The invariant holds at every fuel for the expression parser. -/
theorem exprInv {s0 : Parser} (hT : ∀ s, Reach s0 s → TokenTextOK s.currentToken) :
    ∀ n, ExprInv s0 n := by
  intro n
  induction n with
  | zero => exact exprInv_zero s0
  | succ n ih =>
    have hP := parsePrimary_step hT n ih
    obtain ⟨ihE, ihEL, ihT, ihTL, ihF, ihFL, ihP, ihC⟩ := ih
    refine ⟨?_, ?_, ?_, ?_, ?_, ?_, hP, ?_⟩
    · intro s r h hs
      simp only [parseExpression] at h
      split at h
      · cases h
      · next r1 hr1 =>
        have h1 := ihT _ _ hr1 hs
        exact ihEL _ _ _ h h1.1 h1.2
    · intro left s r h hs hl
      simp only [parseExpressionLoop] at h
      split at h
      · cases h; exact ⟨hs, hl⟩
      · next op hop =>
        split at h
        · cases h
        · next r1 hr1 =>
          have h1 := ihT _ _ hr1 (reach_advance hs)
          exact ihEL _ _ _ h h1.1 (optOK_some_good (good_mkOpNode (relOp_label hop) hl h1.2))
    · intro s r h hs
      simp only [parseTerm] at h
      split at h
      · cases h
      · next r1 hr1 =>
        have h1 := ihF _ _ hr1 hs
        exact ihTL _ _ _ h h1.1 h1.2
    · intro left s r h hs hl
      simp only [parseTermLoop] at h
      split at h
      · cases h; exact ⟨hs, hl⟩
      · next op hop =>
        split at h
        · cases h
        · next r1 hr1 =>
          have h1 := ihF _ _ hr1 (reach_advance hs)
          exact ihTL _ _ _ h h1.1 (optOK_some_good (good_mkOpNode (addOp_label hop) hl h1.2))
    · intro s r h hs
      simp only [parseFactor] at h
      split at h
      · cases h
      · next r1 hr1 =>
        have h1 := ihP _ _ hr1 hs
        exact ihFL _ _ _ h h1.1 h1.2
    · intro left s r h hs hl
      simp only [parseFactorLoop] at h
      split at h
      · cases h; exact ⟨hs, hl⟩
      · next op hop =>
        split at h
        · cases h
        · next r1 hr1 =>
          have h1 := ihP _ _ hr1 (reach_advance hs)
          exact ihFL _ _ _ h h1.1 (optOK_some_good (good_mkOpNode (mulOp_label hop) hl h1.2))
    · intro node s r h hs hn
      simp only [parseCallArgsLoop] at h
      split at h
      · cases h
      · next r1 hr1 =>
        have h1 := ihE _ _ hr1 hs
        split at h
        · exact ihC _ _ _ h (reach_consume _ h1.1) (good_addChild hn h1.2)
        · cases h
          exact ⟨reach_consume _ h1.1, good_addChild hn h1.2⟩

theorem parseExpression_ok {s0 : Parser} (hT : ∀ s, Reach s0 s → TokenTextOK s.currentToken)
    {n : Nat} {s : Parser} {r : Option ASTNode × Parser} (h : parseExpression n s = some r)
    (hs : Reach s0 s) : ResOK s0 r :=
  (exprInv hT n).1 s r h hs

theorem parseAssignment_ok {s0 : Parser} (hT : ∀ s, Reach s0 s → TokenTextOK s.currentToken)
    {n : Nat} {s : Parser} {r : Option ASTNode × Parser} (h : parseAssignment n s = some r)
    (hs : Reach s0 s) : ResOK s0 r := by
  simp only [parseAssignment, matchTok, decide_eq_true_eq] at h
  split at h
  · next c =>
    have hid : OptOK s0 (some (createIdentifierNode s.currentToken.value)) :=
      optOK_some (treeOK_identifier hT hs (by rw [c]; decide))
    split at h
    · split at h
      · cases h
      · next r1 hr1 =>
        cases h
        have h1 := parseExpression_ok hT hr1 (reach_advance (reach_advance hs))
        exact ⟨h1.1, optOK_some_good
          (good_addChild (good_addChild (good_new s0 _ rfl) hid) h1.2)⟩
    · split at h
      · cases h
        have h1 := parseName_ok hT (reach_advance (reach_advance hs))
        exact ⟨h1.1, optOK_some_good
          (good_addChild (good_addChild (good_new s0 _ rfl) hid) h1.2)⟩
      · cases h
        exact ⟨reach_advance hs, optOK_none s0⟩
  · cases h
    exact ⟨hs, optOK_none s0⟩

theorem parseForStat_ok {s0 : Parser} (hT : ∀ s, Reach s0 s → TokenTextOK s.currentToken)
    {n : Nat} {s : Parser} {r : Option ASTNode × Parser} (h : parseForStat n s = some r)
    (hs : Reach s0 s) : ResOK s0 r := by
  simp only [parseForStat] at h
  split at h
  · exact parseAssignment_ok hT h hs
  · cases h
    exact ⟨hs, optOK_some_good (good_new s0 _ rfl)⟩

theorem parseForExp_ok {s0 : Parser} (hT : ∀ s, Reach s0 s → TokenTextOK s.currentToken)
    {n : Nat} {s : Parser} {r : Option ASTNode × Parser} (h : parseForExp n s = some r)
    (hs : Reach s0 s) : ResOK s0 r := by
  simp only [parseForExp] at h
  split at h
  · exact parseExpression_ok hT h hs
  · cases h
    exact ⟨hs, optOK_some_good (good_new s0 _ rfl)⟩

theorem parseOutExp_ok {s0 : Parser} (hT : ∀ s, Reach s0 s → TokenTextOK s.currentToken)
    {n : Nat} {s : Parser} {r : Option ASTNode × Parser} (h : parseOutExp n s = some r)
    (hs : Reach s0 s) : ResOK s0 r := by
  simp only [parseOutExp, matchTok, decide_eq_true_eq] at h
  split at h
  · next c =>
    cases h
    exact ⟨reach_advance hs, optOK_some_good
      (good_addChild (good_new s0 _ rfl) (optOK_some (treeOK_string hT hs c)))⟩
  · split at h
    · cases h
    · next r1 hr1 =>
      cases h
      have h1 := parseExpression_ok hT hr1 hs
      exact ⟨h1.1, optOK_some_good (good_addChild (good_new s0 _ rfl) h1.2)⟩

theorem parseOutputLoop_ok {s0 : Parser} (hT : ∀ s, Reach s0 s → TokenTextOK s.currentToken) :
    ∀ (fuel : Nat) (n : ASTNode) (p : Parser) (r : ASTNode × Parser),
      parseOutputLoop fuel n p = some r → Reach s0 p → Good s0 n → NodeOK s0 r := by
  intro fuel
  induction fuel with
  | zero => intro n p r h; simp [parseOutputLoop] at h
  | succ f ih =>
    intro n p r h hp hn
    simp only [parseOutputLoop] at h
    split at h
    · cases h
    · next r1 hr1 =>
      have h1 := parseOutExp_ok hT hr1 hp
      split at h
      · exact ih _ _ _ h (reach_consume _ h1.1) (good_addChild hn h1.2)
      · cases h
        exact ⟨reach_consume _ h1.1, good_addChild hn h1.2⟩

end Parser

open TokenType

namespace Parser

theorem stmtInv_zero (s0 : Parser) : StmtInv s0 0 := by
  refine ⟨?_, ?_, ?_, ?_, ?_, ?_, ?_, ?_⟩
  · intro s r h; simp [parseStatement] at h
  · intro l s r h; simp [parseRepeatLoop] at h
  · intro l s r h; simp [parseLoopLoop] at h
  · intro l s r h; simp [parseCaseLoop] at h
  · intro s r h; simp [parseCaseclause] at h
  · intro s r h; simp [parseOtherwiseClause] at h
  · intro s r h; simp [parseBody] at h
  · intro l s r h; simp [parseBodyLoop] at h

theorem parseStatement_step {s0 : Parser} (hT : ∀ s, Reach s0 s → TokenTextOK s.currentToken)
    (n : Nat) (ih : StmtInv s0 n) :
    ∀ s r, parseStatement (n + 1) s = some r → Reach s0 s → ResOK s0 r := by
  obtain ⟨ihS, ihR, ihL, ihC, _, ihO, ihB, _⟩ := ih
  intro s r h hs
  simp only [parseStatement, matchTok, decide_eq_true_eq] at h
  by_cases c1 : s.currentToken.type = TOK_IDENTIFIER
  · rw [if_pos c1] at h
    have hid : OptOK s0 (some (createIdentifierNode s.currentToken.value)) :=
      optOK_some (treeOK_identifier hT hs (by rw [c1]; decide))
    split at h
    · split at h
      · cases h
      · next r1 hr1 =>
        cases h
        have h1 := parseExpression_ok hT hr1 (reach_advance (reach_advance hs))
        exact ⟨h1.1, optOK_some_good
          (good_addChild (good_addChild (good_new s0 _ rfl) hid) h1.2)⟩
    · split at h
      · cases h
        have h1 := parseName_ok hT (reach_advance (reach_advance hs))
        exact ⟨h1.1, optOK_some_good
          (good_addChild (good_addChild (good_new s0 _ rfl) hid) h1.2)⟩
      · cases h
        exact ⟨reach_advance hs, optOK_none s0⟩
  rw [if_neg c1] at h
  by_cases c2 : s.currentToken.type = TOK_OUTPUT
  · rw [if_pos c2] at h
    split at h
    · cases h
    · next r1 hr1 =>
      cases h
      have h1 := parseOutputLoop_ok hT _ _ _ _ hr1 (reach_consume _ (reach_advance hs))
        (good_new s0 _ rfl)
      exact ⟨reach_consume _ h1.1, optOK_some_good h1.2⟩
  rw [if_neg c2] at h
  by_cases c3 : s.currentToken.type = TOK_IF
  · rw [if_pos c3] at h
    split at h
    · cases h
    · next rc hrc =>
      have h1 := parseExpression_ok hT hrc (reach_advance hs)
      split at h
      · cases h
      · next rt hrt =>
        have h2 := ihS _ _ hrt (reach_consume _ h1.1)
        have hif : Good s0 (((ASTNode.new "if").addChild rc.1).addChild rt.1) :=
          good_addChild (good_addChild (good_new s0 _ rfl) h1.2) h2.2
        split at h
        · split at h
          · cases h
          · next re hre =>
            cases h
            have h3 := ihS _ _ hre (reach_advance h2.1)
            exact ⟨h3.1, optOK_some_good (good_addChild hif h3.2)⟩
        · cases h
          exact ⟨h2.1, optOK_some_good hif⟩
  rw [if_neg c3] at h
  by_cases c4 : s.currentToken.type = TOK_WHILE
  · rw [if_pos c4] at h
    split at h
    · cases h
    · next rc hrc =>
      have h1 := parseExpression_ok hT hrc (reach_advance hs)
      split at h
      · cases h
      · next rb hrb =>
        cases h
        have h2 := ihS _ _ hrb (reach_consume _ h1.1)
        exact ⟨h2.1, optOK_some_good
          (good_addChild (good_addChild (good_new s0 _ rfl) h1.2) h2.2)⟩
  rw [if_neg c4] at h
  by_cases c5 : s.currentToken.type = TOK_REPEAT
  · rw [if_pos c5] at h
    split at h
    · cases h
    · next rl hrl =>
      have h1 := ihR _ _ _ hrl (reach_advance hs) (good_new s0 _ rfl)
      split at h
      · cases h
      · next rc hrc =>
        cases h
        have h2 := parseExpression_ok hT hrc (reach_consume _ h1.1)
        exact ⟨h2.1, optOK_some_good (good_addChild h1.2 h2.2)⟩
  rw [if_neg c5] at h
  by_cases c6 : s.currentToken.type = TOK_FOR
  · rw [if_pos c6] at h
    split at h
    · cases h
    · next r1 hr1 =>
      have h1 := parseForStat_ok hT hr1 (reach_consume _ (reach_advance hs))
      split at h
      · cases h
      · next r2 hr2 =>
        have h2 := parseForExp_ok hT hr2 (reach_consume _ h1.1)
        split at h
        · cases h
        · next r3 hr3 =>
          have h3 := parseForStat_ok hT hr3 (reach_consume _ h2.1)
          split at h
          · cases h
          · next r4 hr4 =>
            cases h
            have h4 := ihS _ _ hr4 (reach_consume _ h3.1)
            exact ⟨h4.1, optOK_some_good (good_addChild (good_addChild (good_addChild
              (good_addChild (good_new s0 _ rfl) h1.2) h2.2) h3.2) h4.2)⟩
  rw [if_neg c6] at h
  by_cases c7 : s.currentToken.type = TOK_LOOP
  · rw [if_pos c7] at h
    split at h
    · cases h
    · next rl hrl =>
      cases h
      have h1 := ihL _ _ _ hrl (reach_advance hs) (good_new s0 _ rfl)
      exact ⟨reach_consume _ h1.1, optOK_some_good h1.2⟩
  rw [if_neg c7] at h
  by_cases c8 : s.currentToken.type = TOK_CASE
  · rw [if_pos c8] at h
    split at h
    · cases h
    · next re hre =>
      have h1 := parseExpression_ok hT hre (reach_advance hs)
      split at h
      · cases h
      · next rl hrl =>
        have h2 := ihC _ _ _ hrl (reach_consume _ h1.1)
          (good_addChild (good_new s0 _ rfl) h1.2)
        split at h
        · split at h
          · cases h
          · next ro hro =>
            cases h
            have h3 := ihO _ _ hro h2.1
            exact ⟨reach_consume _ h3.1, optOK_some_good (good_addChild h2.2 h3.2)⟩
        · cases h
          exact ⟨reach_consume _ h2.1, optOK_some_good h2.2⟩
  rw [if_neg c8] at h
  by_cases c9 : s.currentToken.type = TOK_READ
  · rw [if_pos c9] at h
    split at h
    · cases h
    · next r1 hr1 =>
      cases h
      have h1 := parseReadLoop_ok hT _ _ _ _ hr1 (reach_consume _ (reach_advance hs))
        (good_new s0 _ rfl)
      exact ⟨reach_consume _ h1.1, optOK_some_good h1.2⟩
  rw [if_neg c9] at h
  by_cases c10 : s.currentToken.type = TOK_EXIT
  · rw [if_pos c10] at h
    cases h
    exact ⟨reach_advance hs, optOK_some_good (good_new s0 _ rfl)⟩
  rw [if_neg c10] at h
  by_cases c11 : s.currentToken.type = TOK_RETURN
  · rw [if_pos c11] at h
    split at h
    · cases h
    · next r1 hr1 =>
      cases h
      have h1 := parseExpression_ok hT hr1 (reach_advance hs)
      exact ⟨h1.1, optOK_some_good (good_addChild (good_new s0 _ rfl) h1.2)⟩
  rw [if_neg c11] at h
  by_cases c12 : s.currentToken.type = TOK_BEGIN
  · rw [if_pos c12] at h
    exact ihB _ _ h hs
  rw [if_neg c12] at h
  cases h
  exact ⟨hs, optOK_some_good (good_new s0 _ rfl)⟩

/-- The invariant holds at every fuel for the statement parser. -/
theorem stmtInv {s0 : Parser} (hT : ∀ s, Reach s0 s → TokenTextOK s.currentToken) :
    ∀ n, StmtInv s0 n := by
  intro n
  induction n with
  | zero => exact stmtInv_zero s0
  | succ n ih =>
    have hS := parseStatement_step hT n ih
    obtain ⟨ihS, ihR, ihL, ihC, ihCc, ihO, ihB, ihBL⟩ := ih
    refine ⟨hS, ?_, ?_, ?_, ?_, ?_, ?_, ?_⟩
    · intro node s r h hs hn
      simp only [parseRepeatLoop] at h
      split at h
      · cases h
      · next r1 hr1 =>
        have h1 := ihS _ _ hr1 hs
        split at h
        · exact ihR _ _ _ h (reach_consume _ h1.1) (good_addChild hn h1.2)
        · cases h
          exact ⟨reach_consume _ h1.1, good_addChild hn h1.2⟩
    · intro node s r h hs hn
      simp only [parseLoopLoop] at h
      split at h
      · cases h
      · next r1 hr1 =>
        have h1 := ihS _ _ hr1 hs
        split at h
        · exact ihL _ _ _ h (reach_consume _ h1.1) (good_addChild hn h1.2)
        · cases h
          exact ⟨reach_consume _ h1.1, good_addChild hn h1.2⟩
    · intro node s r h hs hn
      simp only [parseCaseLoop] at h
      split at h
      · split at h
        · cases h
        · next r1 hr1 =>
          have h1 := ihCc _ _ hr1 hs
          split at h
          · cases h
            exact ⟨reach_consume _ h1.1, good_addChild hn h1.2⟩
          · exact ihC _ _ _ h (reach_consume _ h1.1) (good_addChild hn h1.2)
      · cases h
        exact ⟨hs, hn⟩
    · intro s r h hs
      simp only [parseCaseclause] at h
      have h1 := parseCaseExpression_ok hT hs
      split at h
      · cases h
      · next r2 hr2 =>
        cases h
        have h2 := ihS _ _ hr2 (reach_consume _ h1.1)
        exact ⟨h2.1, optOK_some_good
          (good_addChild (good_addChild (good_new s0 _ rfl) h1.2) h2.2)⟩
    · intro s r h hs
      simp only [parseOtherwiseClause] at h
      split at h
      · cases h
      · next r1 hr1 =>
        cases h
        have h1 := ihS _ _ hr1 (reach_advance hs)
        exact ⟨h1.1, optOK_some_good (good_addChild (good_new s0 _ rfl) h1.2)⟩
    · intro s r h hs
      simp only [parseBody] at h
      split at h
      · split at h
        · cases h
        · next r1 hr1 =>
          cases h
          have h1 := ihBL _ _ _ hr1 (reach_consume _ hs) (good_new s0 _ rfl)
          exact ⟨reach_consume _ h1.1, optOK_some_good h1.2⟩
      · cases h
        exact ⟨reach_consume _ (reach_consume _ hs), optOK_some_good (good_new s0 _ rfl)⟩
    · intro node s r h hs hn
      simp only [parseBodyLoop] at h
      split at h
      · split at h
        · cases h
        · next r1 hr1 =>
          have h1 := ihS _ _ hr1 hs
          have hnull : OptOK s0 (some (ASTNode.new "<null>")) :=
            optOK_some_good (good_new s0 _ rfl)
          cases hst : r1.1 with
          | none =>
            simp only [hst] at h
            have hb := good_addChild hn hnull
            split at h
            · split at h
              · cases h
                exact ⟨reach_consume _ h1.1, good_addChild hb hnull⟩
              · cases h
                exact ⟨reach_consume _ h1.1, hb⟩
            · split at h
              · cases h
                exact ⟨reach_consume _ h1.1, good_addChild hb hnull⟩
              · exact ihBL _ _ _ h (reach_consume _ h1.1) hb
          | some stmt =>
            simp only [hst] at h
            have hb : Good s0 (node.addChild (some stmt)) :=
              good_addChild hn (by rw [← hst]; exact h1.2)
            split at h
            · split at h
              · cases h
                exact ⟨reach_consume _ h1.1, good_addChild hb hnull⟩
              · cases h
                exact ⟨reach_consume _ h1.1, hb⟩
            · split at h
              · cases h
                exact ⟨reach_consume _ h1.1, good_addChild hb hnull⟩
              · exact ihBL _ _ _ h (reach_consume _ h1.1) hb
      · cases h
        exact ⟨hs, hn⟩

theorem parseBody_ok {s0 : Parser} (hT : ∀ s, Reach s0 s → TokenTextOK s.currentToken)
    {n : Nat} {s : Parser} {r : Option ASTNode × Parser} (h : parseBody n s = some r)
    (hs : Reach s0 s) : ResOK s0 r :=
  (stmtInv hT n).2.2.2.2.2.2.1 s r h hs

theorem parseConstsLoop_ok {s0 : Parser} (hT : ∀ s, Reach s0 s → TokenTextOK s.currentToken) :
    ∀ (fuel : Nat) (n : ASTNode) (p : Parser) (r : ASTNode × Parser),
      parseConstsLoop fuel n p = some r → Reach s0 p → Good s0 n → NodeOK s0 r := by
  intro fuel
  induction fuel with
  | zero => intro n p r h; simp [parseConstsLoop] at h
  | succ f ih =>
    intro n p r h hp hn
    simp only [parseConstsLoop] at h
    have h1 := parseConst_ok hT hp
    split at h
    · exact ih _ _ _ h (reach_consume _ h1.1) (good_addChild hn h1.2)
    · cases h
      exact ⟨reach_consume _ h1.1, good_addChild hn h1.2⟩

theorem parseConsts_ok {s0 : Parser} (hT : ∀ s, Reach s0 s → TokenTextOK s.currentToken)
    {n : Nat} {s : Parser} {r : Option ASTNode × Parser} (h : parseConsts n s = some r)
    (hs : Reach s0 s) : ResOK s0 r := by
  simp only [parseConsts] at h
  split at h
  · split at h
    · cases h
    · next r1 hr1 =>
      cases h
      have h1 := parseConstsLoop_ok hT _ _ _ _ hr1 (reach_advance hs) (good_new s0 _ rfl)
      exact ⟨reach_consume _ h1.1, optOK_some_good h1.2⟩
  · cases h
    exact ⟨hs, optOK_some_good (good_new s0 _ rfl)⟩

theorem parseLitList_ok {s0 : Parser} (hT : ∀ s, Reach s0 s → TokenTextOK s.currentToken)
    {n : Nat} {s : Parser} {r : Option ASTNode × Parser} (h : parseLitList n s = some r)
    (hs : Reach s0 s) : ResOK s0 r := by
  simp only [parseLitList] at h
  split at h
  · cases h
    exact ⟨reach_consume _ hs, optOK_none s0⟩
  · split at h
    · cases h
    · next r1 hr1 =>
      cases h
      have h1 := parseLitListLoop_ok hT _ _ _ _ hr1 (reach_consume _ hs) (good_new s0 _ rfl)
      exact ⟨reach_consume _ h1.1, optOK_some_good h1.2⟩

theorem parseType_ok {s0 : Parser} (hT : ∀ s, Reach s0 s → TokenTextOK s.currentToken)
    {n : Nat} {s : Parser} {r : Option ASTNode × Parser} (h : parseType n s = some r)
    (hs : Reach s0 s) : ResOK s0 r := by
  simp only [parseType] at h
  have h1 := parseName_ok hT hs
  split at h
  · cases h
    exact ⟨reach_consume _ h1.1, optOK_none s0⟩
  · split at h
    · cases h
    · next r2 hr2 =>
      cases h
      have h2 := parseLitList_ok hT hr2 (reach_consume _ h1.1)
      exact ⟨h2.1, optOK_some_good
        (good_addChild (good_addChild (good_new s0 _ rfl) h1.2) h2.2)⟩

theorem parseTypesLoop_ok {s0 : Parser} (hT : ∀ s, Reach s0 s → TokenTextOK s.currentToken) :
    ∀ (fuel : Nat) (n : ASTNode) (p : Parser) (r : ASTNode × Parser),
      parseTypesLoop fuel n p = some r → Reach s0 p → Good s0 n → NodeOK s0 r := by
  intro fuel
  induction fuel with
  | zero => intro n p r h; simp [parseTypesLoop] at h
  | succ f ih =>
    intro n p r h hp hn
    simp only [parseTypesLoop] at h
    split at h
    · cases h
    · next r1 hr1 =>
      have h1 := parseType_ok hT hr1 hp
      split at h
      · exact ih _ _ _ h (reach_consume _ h1.1) (good_addChild hn h1.2)
      · cases h
        exact ⟨reach_consume _ h1.1, good_addChild hn h1.2⟩

theorem parseTypes_ok {s0 : Parser} (hT : ∀ s, Reach s0 s → TokenTextOK s.currentToken)
    {n : Nat} {s : Parser} {r : Option ASTNode × Parser} (h : parseTypes n s = some r)
    (hs : Reach s0 s) : ResOK s0 r := by
  simp only [parseTypes] at h
  split at h
  · split at h
    · cases h
    · next r1 hr1 =>
      cases h
      have h1 := parseTypesLoop_ok hT _ _ _ _ hr1 (reach_advance hs) (good_new s0 _ rfl)
      exact ⟨h1.1, optOK_some_good h1.2⟩
  · cases h
    exact ⟨hs, optOK_some_good (good_new s0 _ rfl)⟩

theorem parseDcln_ok {s0 : Parser} (hT : ∀ s, Reach s0 s → TokenTextOK s.currentToken)
    {n : Nat} {s : Parser} {r : Option ASTNode × Parser} (h : parseDcln n s = some r)
    (hs : Reach s0 s) : ResOK s0 r := by
  simp only [parseDcln] at h
  split at h
  · cases h
  · next r1 hr1 =>
    have h1 := parseDclnLoop_ok hT _ _ _ _ hr1 hs (good_new s0 _ rfl)
    split at h
    · cases h
      exact ⟨reach_consume _ h1.1, optOK_none s0⟩
    · cases h
      have h2 := parseName_ok hT (reach_consume TOK_COLON h1.1)
      exact ⟨h2.1, optOK_some_good (good_addChild h1.2 h2.2)⟩

theorem parseDclnsLoop_ok {s0 : Parser} (hT : ∀ s, Reach s0 s → TokenTextOK s.currentToken) :
    ∀ (fuel : Nat) (n : ASTNode) (p : Parser) (r : ASTNode × Parser),
      parseDclnsLoop fuel n p = some r → Reach s0 p → Good s0 n → NodeOK s0 r := by
  intro fuel
  induction fuel with
  | zero => intro n p r h; simp [parseDclnsLoop] at h
  | succ f ih =>
    intro n p r h hp hn
    simp only [parseDclnsLoop] at h
    split at h
    · cases h
    · next r1 hr1 =>
      have h1 := parseDcln_ok hT hr1 hp
      split at h
      · exact ih _ _ _ h (reach_consume _ h1.1) (good_addChild hn h1.2)
      · cases h
        exact ⟨reach_consume _ h1.1, good_addChild hn h1.2⟩

theorem parseDclns_ok {s0 : Parser} (hT : ∀ s, Reach s0 s → TokenTextOK s.currentToken)
    {n : Nat} {s : Parser} {r : Option ASTNode × Parser} (h : parseDclns n s = some r)
    (hs : Reach s0 s) : ResOK s0 r := by
  simp only [parseDclns] at h
  split at h
  · split at h
    · cases h
    · next r1 hr1 =>
      cases h
      have h1 := parseDclnsLoop_ok hT _ _ _ _ hr1 (reach_advance hs) (good_new s0 _ rfl)
      exact ⟨h1.1, optOK_some_good h1.2⟩
  · cases h
    exact ⟨hs, optOK_some_good (good_new s0 _ rfl)⟩

theorem parseParamsLoop_ok {s0 : Parser} (hT : ∀ s, Reach s0 s → TokenTextOK s.currentToken) :
    ∀ (fuel : Nat) (n : ASTNode) (p : Parser) (r : ASTNode × Parser),
      parseParamsLoop fuel n p = some r → Reach s0 p → Good s0 n → NodeOK s0 r := by
  intro fuel
  induction fuel with
  | zero => intro n p r h; simp [parseParamsLoop] at h
  | succ f ih =>
    intro n p r h hp hn
    simp only [parseParamsLoop] at h
    split at h
    · cases h
    · next r1 hr1 =>
      have h1 := parseDcln_ok hT hr1 hp
      split at h
      · exact ih _ _ _ h (reach_consume _ h1.1) (good_addChild hn h1.2)
      · cases h
        exact ⟨reach_consume _ h1.1, good_addChild hn h1.2⟩

theorem parseParams_ok {s0 : Parser} (hT : ∀ s, Reach s0 s → TokenTextOK s.currentToken)
    {n : Nat} {s : Parser} {r : Option ASTNode × Parser} (h : parseParams n s = some r)
    (hs : Reach s0 s) : ResOK s0 r := by
  simp only [parseParams] at h
  split at h
  · split at h
    · cases h
    · next r1 hr1 =>
      cases h
      have h1 := parseParamsLoop_ok hT _ _ _ _ hr1 hs (good_new s0 _ rfl)
      exact ⟨h1.1, optOK_some_good h1.2⟩
  · cases h
    exact ⟨hs, optOK_some_good (good_new s0 _ rfl)⟩

theorem parseFcn_ok {s0 : Parser} (hT : ∀ s, Reach s0 s → TokenTextOK s.currentToken)
    {n : Nat} {s : Parser} {r : Option ASTNode × Parser} (h : parseFcn n s = some r)
    (hs : Reach s0 s) : ResOK s0 r := by
  simp only [parseFcn] at h
  have h1 := parseName_ok hT (reach_consume TOK_FUNCTION hs)
  split at h
  · cases h
  · next r2 hr2 =>
    have h2 := parseParams_ok hT hr2 (reach_consume _ h1.1)
    have h3 := parseName_ok hT (reach_consume TOK_COLON (reach_consume TOK_RPAREN h2.1))
    split at h
    · cases h
    · next r4 hr4 =>
      have h4 := parseConsts_ok hT hr4 (reach_consume _ h3.1)
      split at h
      · cases h
      · next r5 hr5 =>
        have h5 := parseTypes_ok hT hr5 h4.1
        split at h
        · cases h
        · next r6 hr6 =>
          have h6 := parseDclns_ok hT hr6 h5.1
          split at h
          · cases h
          · next r7 hr7 =>
            cases h
            have h7 := parseBody_ok hT hr7 h6.1
            have h8 := parseName_ok hT h7.1
            exact ⟨reach_consume _ h8.1, optOK_some_good (good_addChild (good_addChild
              (good_addChild (good_addChild (good_addChild (good_addChild (good_addChild
              (good_addChild (good_new s0 _ rfl) h1.2) h2.2) h3.2) h4.2) h5.2) h6.2) h7.2)
              h8.2)⟩

theorem parseSubProgsLoop_ok {s0 : Parser}
    (hT : ∀ s, Reach s0 s → TokenTextOK s.currentToken) :
    ∀ (fuel : Nat) (n : ASTNode) (p : Parser) (r : ASTNode × Parser),
      parseSubProgsLoop fuel n p = some r → Reach s0 p → Good s0 n → NodeOK s0 r := by
  intro fuel
  induction fuel with
  | zero => intro n p r h; simp [parseSubProgsLoop] at h
  | succ f ih =>
    intro n p r h hp hn
    simp only [parseSubProgsLoop] at h
    split at h
    · split at h
      · cases h
      · next r1 hr1 =>
        have h1 := parseFcn_ok hT hr1 hp
        exact ih _ _ _ h h1.1 (good_addChild hn h1.2)
    · cases h
      exact ⟨hp, hn⟩

theorem parseSubProgs_ok {s0 : Parser} (hT : ∀ s, Reach s0 s → TokenTextOK s.currentToken)
    {n : Nat} {s : Parser} {r : Option ASTNode × Parser} (h : parseSubProgs n s = some r)
    (hs : Reach s0 s) : ResOK s0 r := by
  simp only [parseSubProgs] at h
  split at h
  · cases h
  · next r1 hr1 =>
    cases h
    have h1 := parseSubProgsLoop_ok hT _ _ _ _ hr1 hs (good_new s0 _ rfl)
    exact ⟨h1.1, optOK_some_good h1.2⟩

/-- Every tree returned by `parseProgram` has the wrapper pattern at every node. -/
theorem parseProgram_ok {s0 : Parser} (hT : ∀ s, Reach s0 s → TokenTextOK s.currentToken)
    {n : Nat} {r : Option ASTNode × Parser} (h : parseProgram n s0 = some r) :
    ResOK s0 r := by
  have hs := reach_refl s0
  simp only [parseProgram] at h
  split at h
  · cases h
    exact ⟨reach_consume _ hs, optOK_none s0⟩
  · have h1 := parseName_ok hT (reach_consume TOK_PROGRAM hs)
    split at h
    · cases h
      exact ⟨reach_consume _ h1.1, optOK_none s0⟩
    · split at h
      · cases h
      · next r2 hr2 =>
        have h2 := parseConsts_ok hT hr2 (reach_consume _ h1.1)
        split at h
        · cases h
        · next r3 hr3 =>
          have h3 := parseTypes_ok hT hr3 h2.1
          split at h
          · cases h
          · next r4 hr4 =>
            have h4 := parseDclns_ok hT hr4 h3.1
            split at h
            · cases h
            · next r5 hr5 =>
              have h5 := parseSubProgs_ok hT hr5 h4.1
              split at h
              · cases h
              · next r6 hr6 =>
                cases h
                have h6 := parseBody_ok hT hr6 h5.1
                have h7 := parseName_ok hT h6.1
                exact ⟨reach_consume _ h7.1, optOK_some_good (good_addChild (good_addChild
                  (good_addChild (good_addChild (good_addChild (good_addChild (good_addChild
                  (good_new s0 _ rfl) h1.2) h2.2) h3.2) h4.2) h5.2) h6.2) h7.2)⟩

end Parser

open TokenType

/-! ## The lexical class of literal tokens -/

namespace Parser

theorem takeWhile_all (P : Char → Bool) (l : List Char) : (l.takeWhile P).all P = true := by
  induction l with
  | nil => rfl
  | cons a l ih =>
    rw [List.takeWhile_cons]
    split
    · next h => simp only [List.all_cons, h, ih, Bool.and_self]
    · rfl

theorem readIdentifier_class {l : Lexer} {c : Char} {cs : List Char} (h : l.rest = c :: cs)
    (hc : (isalpha c || decide (c = '_')) = true) : TokenClassOK l.readIdentifier.1 := by
  rw [Lexer.readIdentifier_eq, h]
  have hidc : (isalnum c || c == '_') = true := by
    rcases Bool.or_eq_true_iff.mp hc with h | h
    · simp [Lexer.isalnum_of_isalpha h]
    · simp at h; simp [h]
  have hrun : (c :: cs).takeWhile (fun c => isalnum c || c == '_')
      = c :: cs.takeWhile (fun c => isalnum c || c == '_') := by
    rw [List.takeWhile_cons, hidc]; rfl
  rw [hrun]
  refine ⟨fun _ => ?_, fun ht => ?_, fun ht => ?_, fun ht => ?_⟩
  · simp only [Lexer.isIdentifierText, Bool.and_eq_true]
    refine ⟨?_, takeWhile_all _ cs⟩
    simpa using hc
  · exfalso
    have hm := Lexer.keywordType_mem (String.mk (c :: cs.takeWhile (fun c => isalnum c || c == '_')))
    simp only at ht
    rw [ht] at hm
    revert hm; decide
  · exfalso
    have hm := Lexer.keywordType_mem (String.mk (c :: cs.takeWhile (fun c => isalnum c || c == '_')))
    simp only at ht
    rw [ht] at hm
    revert hm; decide
  · exfalso
    have hm := Lexer.keywordType_mem (String.mk (c :: cs.takeWhile (fun c => isalnum c || c == '_')))
    simp only at ht
    rw [ht] at hm
    revert hm; decide

theorem readNumber_class {l : Lexer} {c : Char} {cs : List Char} (h : l.rest = c :: cs)
    (hc : isdigit c = true) : TokenClassOK l.readNumber.1 := by
  rw [Lexer.readNumber_eq, h]
  have hrun : (c :: cs).takeWhile isdigit = c :: cs.takeWhile isdigit := by
    rw [List.takeWhile_cons, hc]; rfl
  rw [hrun]
  refine ⟨fun ht => ?_, fun _ => ?_, fun ht => ?_, fun ht => ?_⟩
  · simp at ht
  · simp only [Lexer.isNumberText, List.isEmpty_cons, Bool.not_false, Bool.true_and,
      List.all_cons, hc]
    exact takeWhile_all _ cs
  · simp at ht
  · simp at ht

theorem readChar_class (l : Lexer) : TokenClassOK l.readChar.1 := by
  unfold Lexer.readChar
  simp only
  split
  · refine ⟨fun ht => ?_, fun ht => ?_, fun ht => ?_, fun ht => ?_⟩ <;> simp at ht
  · refine ⟨fun ht => ?_, fun ht => ?_, fun _ => ⟨_, rfl⟩, fun ht => ?_⟩ <;> simp at ht

theorem string_push_quote_append (body : List Char) :
    ("".push '"') ++ String.mk body = String.mk ('"' :: body) := by
  apply String.ext
  simp [String.data_append]

theorem string_mk_push (body : List Char) (c : Char) :
    (String.mk body).push c = String.mk (body ++ [c]) := rfl

theorem readString_class (l : Lexer) : TokenClassOK l.readString.1 := by
  unfold Lexer.readString
  simp only [Lexer.readStringLoop_eq, string_push_quote_append]
  split
  · refine ⟨fun ht => ?_, fun ht => ?_, fun ht => ?_, fun _ => ?_⟩
    · simp at ht
    · simp at ht
    · simp at ht
    · simp only [string_mk_push, List.cons_append]
      exact ⟨_, rfl⟩
  · refine ⟨fun ht => ?_, fun ht => ?_, fun ht => ?_, fun _ => ⟨_, rfl⟩⟩ <;> simp at ht

theorem tokenClassOK_of_type {t : Token}
    (h : t.type ∉ [TOK_IDENTIFIER, TOK_INTEGER_TYPE, TOK_BOOLEAN, TOK_TRUE, TOK_FALSE, TOK_INTEGER,
      TOK_CHAR, TOK_STRING]) : TokenClassOK t := by
  refine ⟨fun ht => ?_, fun ht => ?_, fun ht => ?_, fun ht => ?_⟩
  · exfalso; apply h
    simp only [List.mem_cons, List.mem_singleton, List.not_mem_nil, or_false] at ht ⊢
    tauto
  · exfalso; apply h; rw [ht]; decide
  · exfalso; apply h; rw [ht]; decide
  · exfalso; apply h; rw [ht]; decide

theorem tokenClassOK_of_kind (t : Token) (ty : TokenType) (h : t.type = ty)
    (hty : ty ∉ [TOK_IDENTIFIER, TOK_INTEGER_TYPE, TOK_BOOLEAN, TOK_TRUE, TOK_FALSE, TOK_INTEGER,
      TOK_CHAR, TOK_STRING]) : TokenClassOK t :=
  tokenClassOK_of_type (by rw [h]; exact hty)

theorem not_identifierText_lt (cs : List Char) : Lexer.isIdentifierText ('<' :: cs) = false := by
  have h : (isalpha '<' || '<' == '_') = false := by decide
  simp only [Lexer.isIdentifierText, h, Bool.false_and]

theorem not_numberText_lt (cs : List Char) : Lexer.isNumberText ('<' :: cs) = false := by
  have h : isdigit '<' = false := by decide
  simp [Lexer.isNumberText, h]

theorem scanToken_class {l : Lexer} {c : Char} {cs : List Char} (h : l.rest = c :: cs) :
    TokenClassOK l.scanToken.1 := by
  unfold Lexer.scanToken
  simp only [Lexer.peek_zero_of_rest h]
  by_cases h1 : c = '\n'
  · rw [if_pos h1]; exact tokenClassOK_of_kind _ TOK_NEWLINE rfl (by decide)
  rw [if_neg h1]
  by_cases h2 : (isalpha c || decide (c = '_')) = true
  · rw [if_pos h2]; exact readIdentifier_class h h2
  rw [if_neg h2]
  by_cases h3 : isdigit c = true
  · rw [if_pos h3]; exact readNumber_class h h3
  rw [if_neg h3]
  by_cases h4 : c = '\''
  · rw [if_pos h4]; exact readChar_class l
  rw [if_neg h4]
  by_cases h5 : c = '"'
  · rw [if_pos h5]; exact readString_class l
  rw [if_neg h5]
  by_cases h6 : (decide (c = ':') && decide (l.peek 1 = '=')) = true
  · rw [if_pos h6]
    by_cases h7 : l.peek 2 = ':'
    · rw [if_pos h7]; exact tokenClassOK_of_kind _ TOK_SWAP rfl (by decide)
    · rw [if_neg h7]; exact tokenClassOK_of_kind _ TOK_ASSIGN rfl (by decide)
  rw [if_neg h6]
  by_cases h8 : (decide (c = '<') && decide (l.peek 1 = '=')) = true
  · rw [if_pos h8]; exact tokenClassOK_of_kind _ TOK_LESS_EQUAL rfl (by decide)
  rw [if_neg h8]
  by_cases h9 : (decide (c = '>') && decide (l.peek 1 = '=')) = true
  · rw [if_pos h9]; exact tokenClassOK_of_kind _ TOK_GREATER_EQUAL rfl (by decide)
  rw [if_neg h9]
  by_cases h10 : (decide (c = '<') && decide (l.peek 1 = '>')) = true
  · rw [if_pos h10]; exact tokenClassOK_of_kind _ TOK_NOT_EQUAL rfl (by decide)
  rw [if_neg h10]
  by_cases h11 : (decide (c = '.') && decide (l.peek 1 = '.')) = true
  · rw [if_pos h11]; exact tokenClassOK_of_kind _ TOK_DOTS rfl (by decide)
  rw [if_neg h11]
  apply tokenClassOK_of_type
  intro hm
  have hs := Lexer.singleCharType_mem c
  generalize Lexer.singleCharType c = t at hm hs
  revert hs
  simp only [List.mem_cons, List.mem_singleton, List.not_mem_nil, or_false] at hm
  rcases hm with rfl | rfl | rfl | rfl | rfl | rfl | rfl | rfl <;> decide

/-- Every token returned by `nextToken` has a text of the lexical class of its kind. -/
theorem nextToken_class : ∀ (n : Nat) (l : Lexer), l.rest.length = n →
    TokenClassOK l.nextToken.1 := by
  intro n
  induction n using Nat.strong_induction_on with
  | _ n ih =>
    intro l hn
    rw [Lexer.nextToken_eq]
    by_cases hlt : l.pos < l.input.length
    · rw [if_pos hlt]
      by_cases hge : l.skipWhitespace.pos ≥ l.skipWhitespace.input.length
      · rw [if_pos hge]; exact tokenClassOK_of_kind _ TOK_EOF rfl (by decide)
      · rw [if_neg hge]
        by_cases hc : (decide (l.skipWhitespace.peek 0 = '#')
            || decide (l.skipWhitespace.peek 0 = '\x7b')) = true
        · rw [if_pos hc]
          have h3 := Lexer.skipComment_rest_lt hge hc
          have h4 := Lexer.skipWhitespace_rest_le l
          exact ih _ (by omega) _ rfl
        · rw [if_neg hc]
          exact scanToken_class (Lexer.rest_of_pos_lt hge)
    · rw [if_neg hlt]; exact tokenClassOK_of_kind _ TOK_EOF rfl (by decide)

/-- The current token after `advance` is a token returned by `nextToken`. -/
theorem advance_token (p : Parser) : ∃ l : Lexer, p.advance.currentToken = l.nextToken.1 := by
  have key : ∀ (f : Nat) (l : Lexer), ∃ l2 : Lexer, (advanceLoop f l).1 = l2.nextToken.1 := by
    intro f
    induction f with
    | zero => intro l; exact ⟨l, rfl⟩
    | succ f ih =>
      intro l
      simp only [advanceLoop]
      split
      · exact ih _
      · exact ⟨l, rfl⟩
  exact key _ _

theorem advance_class (p : Parser) : TokenClassOK p.advance.currentToken := by
  obtain ⟨l, hl⟩ := advance_token p
  rw [hl]
  exact nextToken_class _ l rfl

theorem tokenTextOK_of_class {t : Token} (h : TokenClassOK t) : TokenTextOK t := by
  obtain ⟨h1, h2, h3, h4⟩ := h
  intro hm
  cases hw : isWrapperLabel t.value with
  | false => rfl
  | true =>
    exfalso
    simp only [isWrapperLabel, Bool.or_eq_true, beq_iff_eq] at hw
    simp only [List.mem_cons, List.mem_singleton, List.not_mem_nil, or_false] at hm
    have hfirst : t.value.data.head? = some '<' := by
      rcases hw with ((hw | hw) | hw) | hw <;> rw [hw] <;> rfl
    rcases hm with hm | hm | hm | hm | hm | hm | hm | hm
    · have := h1 (by rw [hm]; decide)
      cases hd : t.value.data with
      | nil => rw [hd] at hfirst; cases hfirst
      | cons c cs =>
        rw [hd] at hfirst this
        simp only [List.head?_cons, Option.some.injEq] at hfirst
        subst hfirst
        rw [not_identifierText_lt] at this
        cases this
    · have := h1 (by rw [hm]; decide)
      cases hd : t.value.data with
      | nil => rw [hd] at hfirst; cases hfirst
      | cons c cs =>
        rw [hd] at hfirst this
        simp only [List.head?_cons, Option.some.injEq] at hfirst
        subst hfirst
        rw [not_identifierText_lt] at this
        cases this
    · have := h1 (by rw [hm]; decide)
      cases hd : t.value.data with
      | nil => rw [hd] at hfirst; cases hfirst
      | cons c cs =>
        rw [hd] at hfirst this
        simp only [List.head?_cons, Option.some.injEq] at hfirst
        subst hfirst
        rw [not_identifierText_lt] at this
        cases this
    · have := h1 (by rw [hm]; decide)
      cases hd : t.value.data with
      | nil => rw [hd] at hfirst; cases hfirst
      | cons c cs =>
        rw [hd] at hfirst this
        simp only [List.head?_cons, Option.some.injEq] at hfirst
        subst hfirst
        rw [not_identifierText_lt] at this
        cases this
    · have := h1 (by rw [hm]; decide)
      cases hd : t.value.data with
      | nil => rw [hd] at hfirst; cases hfirst
      | cons c cs =>
        rw [hd] at hfirst this
        simp only [List.head?_cons, Option.some.injEq] at hfirst
        subst hfirst
        rw [not_identifierText_lt] at this
        cases this
    · have := h2 hm
      cases hd : t.value.data with
      | nil => rw [hd] at hfirst; cases hfirst
      | cons c cs =>
        rw [hd] at hfirst this
        simp only [List.head?_cons, Option.some.injEq] at hfirst
        subst hfirst
        rw [not_numberText_lt] at this
        cases this
    · obtain ⟨c, hc⟩ := h3 hm
      rw [hc] at hfirst
      revert hfirst
      simp [String.data_append, String.data_push]
    · obtain ⟨body, hb⟩ := h4 hm
      rw [hb] at hfirst
      revert hfirst
      simp

end Parser

open TokenType

namespace Parser

/-- Every token the parser makes current, from `Parser.new` on, has a text of the lexical
class of its kind. -/
theorem advanceN_new_class (input : List Char) (k : Nat) :
    TokenClassOK (advanceN k (Parser.new input)).currentToken := by
  cases k with
  | zero => exact advance_class _
  | succ k => rw [advanceN_succ]; exact advance_class _

theorem new_tokenTextOK (input : List Char) :
    ∀ s, Reach (Parser.new input) s → TokenTextOK s.currentToken := by
  intro s hs
  obtain ⟨k, rfl⟩ := hs
  exact tokenTextOK_of_class (advanceN_new_class input k)

/-- The text under a wrapper is of the lexical class of the wrapper. -/
theorem wrapperText_of_class {label : String} {t : Token} (hk : t.type ∈ wrapperKinds label)
    (hc : TokenClassOK t) : wrapperText label t.value := by
  obtain ⟨h1, h2, h3, h4⟩ := hc
  refine ⟨fun hl => ?_, fun hl => ?_, fun hl => ?_, fun hl => ?_⟩
  · subst hl
    exact h1 hk
  · subst hl
    refine h2 ?_
    have : wrapperKinds "<integer>" = [TOK_INTEGER] := by decide
    rw [this] at hk
    simpa using hk
  · subst hl
    refine h3 ?_
    have : wrapperKinds "<char>" = [TOK_CHAR] := by decide
    rw [this] at hk
    simpa using hk
  · subst hl
    refine h4 ?_
    have : wrapperKinds "<string>" = [TOK_STRING] := by decide
    rw [this] at hk
    simpa using hk

/-- A wrapper over a leaf is printed on two lines. -/
theorem print_wrapper (label text : String) (d : Int) (isLast : Bool) (hd : 0 ≤ d) :
    (ASTNode.mk label [ASTNode.mk text [] ""] "").print d isLast
      = "\n".intercalate
          [String.join (List.replicate d.toNat ". ") ++ label ++ "(1)",
           String.join (List.replicate (d.toNat + 1) ". ") ++ text ++ "(0)"] := by
  have h := ASTNode.print_dumpLines (ASTNode.mk label [ASTNode.mk text [] ""] "") d.toNat isLast
    (by simp [ASTNode.valuesEmpty, ASTNode.valuesEmptyList])
  rw [Int.toNat_of_nonneg hd] at h
  rw [h]
  simp only [ASTNode.dumpLines, ASTNode.dumpLinesList, List.length_cons, List.length_nil,
    List.append_nil]
  have e1 : (toString (0 + 1) : String) = "1" := by decide
  have e0 : (toString 0 : String) = "0" := by decide
  rw [e1, e0]
  simp only [String.append_assoc]
  rfl

end Parser

open TokenType

/-! ## The lexer: operators of more than one character -/

namespace Lexer

theorem advance_of_rest_ne_newline {l : Lexer} {c : Char} {cs : List Char}
    (h : l.rest = c :: cs) (hc : c ≠ '\n') :
    l.advance.2 = ⟨l.input, l.pos + 1, l.line, l.column + 1⟩ := by
  have hlt : l.pos < l.input.length := by rw [pos_lt_iff, h]; simp
  have h1 : l.advance.1 = c := advance_fst_of_rest h
  simp only [advance] at h1 ⊢
  rw [if_neg (by omega)] at h1 ⊢
  by_cases hn : l.input.getD l.pos '\x00' = '\n'
  · simp only [hn, if_true] at h1
    exact absurd h1.symm hc
  · simp only [hn, if_false]

theorem peek_two_of_rest {l : Lexer} {a b : Char} {r : List Char} (h : l.rest = a :: b :: r) :
    l.peek 2 = r.headD '\x00' := by
  rw [peek_eq, h]
  cases r <;> rfl

/-- Two characters other than a line break are consumed by two calls of `advance`, which move
the column by two. -/
theorem skip_two_eq {l : Lexer} {a b : Char} {r : List Char} (h : l.rest = a :: b :: r)
    (ha : a ≠ '\n') (hb : b ≠ '\n') :
    l.skip 2 = ⟨l.input, l.pos + 2, l.line, l.column + 2⟩ := by
  have h1 := advance_of_rest_ne_newline h ha
  have hr1 : l.advance.2.rest = b :: r := by rw [rest_advance, h]; rfl
  have h2 := advance_of_rest_ne_newline hr1 hb
  show l.advance.2.advance.2 = _
  rw [h2, h1]
  simp only [Lexer.mk.injEq, true_and]
  omega

theorem skip_three_eq {l : Lexer} {a b c : Char} {r : List Char} (h : l.rest = a :: b :: c :: r)
    (ha : a ≠ '\n') (hb : b ≠ '\n') (hc : c ≠ '\n') :
    l.skip 3 = ⟨l.input, l.pos + 3, l.line, l.column + 3⟩ := by
  have h2 := skip_two_eq h ha hb
  have hr2 : (l.skip 2).rest = c :: r := by rw [rest_skip, h]; rfl
  have h3 := advance_of_rest_ne_newline hr2 hc
  show (l.skip 2).advance.2 = _
  rw [h3, h2]
  simp only [Lexer.mk.injEq, true_and]
  omega

theorem nextToken_swap {l : Lexer} {r : List Char} (h : l.rest = ':' :: '=' :: ':' :: r) :
    l.nextToken = (⟨TOK_SWAP, ":=:", l.line, l.column⟩, l.skip 3) := by
  rw [nextToken_scan h (by decide) (by decide) (by decide)]
  unfold scanToken
  simp only [peek_zero_of_rest h, peek_one_of_rest h, peek_two_of_rest h, skip_three,
    skip_three_eq h (by decide) (by decide) (by decide)]
  simp [show isalpha ':' = false by decide, show isdigit ':' = false by decide]

theorem nextToken_assign {l : Lexer} {r : List Char} (h : l.rest = ':' :: '=' :: r)
    (hr : r.head? ≠ some ':') :
    l.nextToken = (⟨TOK_ASSIGN, ":=", l.line, l.column⟩, l.skip 2) := by
  have hd : ¬ r.head?.getD '\x00' = ':' := by
    cases r with
    | nil => decide
    | cons c cs => simpa using hr
  rw [nextToken_scan h (by decide) (by decide) (by decide)]
  unfold scanToken
  simp only [peek_zero_of_rest h, peek_one_of_rest h, peek_two_of_rest h, skip_two,
    skip_two_eq h (by decide) (by decide)]
  simp [show isalpha ':' = false by decide, show isdigit ':' = false by decide, hd]

theorem nextToken_less_equal {l : Lexer} {r : List Char} (h : l.rest = '<' :: '=' :: r) :
    l.nextToken = (⟨TOK_LESS_EQUAL, "<=", l.line, l.column⟩, l.skip 2) := by
  rw [nextToken_scan h (by decide) (by decide) (by decide)]
  unfold scanToken
  simp only [peek_zero_of_rest h, peek_one_of_rest h, skip_two,
    skip_two_eq h (by decide) (by decide)]
  simp [show isalpha '<' = false by decide, show isdigit '<' = false by decide]

theorem nextToken_greater_equal {l : Lexer} {r : List Char} (h : l.rest = '>' :: '=' :: r) :
    l.nextToken = (⟨TOK_GREATER_EQUAL, ">=", l.line, l.column⟩, l.skip 2) := by
  rw [nextToken_scan h (by decide) (by decide) (by decide)]
  unfold scanToken
  simp only [peek_zero_of_rest h, peek_one_of_rest h, skip_two,
    skip_two_eq h (by decide) (by decide)]
  simp [show isalpha '>' = false by decide, show isdigit '>' = false by decide]

theorem nextToken_not_equal {l : Lexer} {r : List Char} (h : l.rest = '<' :: '>' :: r) :
    l.nextToken = (⟨TOK_NOT_EQUAL, "<>", l.line, l.column⟩, l.skip 2) := by
  rw [nextToken_scan h (by decide) (by decide) (by decide)]
  unfold scanToken
  simp only [peek_zero_of_rest h, peek_one_of_rest h, skip_two,
    skip_two_eq h (by decide) (by decide)]
  simp [show isalpha '<' = false by decide, show isdigit '<' = false by decide]

theorem nextToken_dots {l : Lexer} {r : List Char} (h : l.rest = '.' :: '.' :: r) :
    l.nextToken = (⟨TOK_DOTS, "..", l.line, l.column⟩, l.skip 2) := by
  rw [nextToken_scan h (by decide) (by decide) (by decide)]
  unfold scanToken
  simp only [peek_zero_of_rest h, peek_one_of_rest h, skip_two,
    skip_two_eq h (by decide) (by decide)]
  simp [show isalpha '.' = false by decide, show isdigit '.' = false by decide]

/-- The character `c` is lexed as a one-character token whenever the character after it, if
any, is not `x` nor `y`: for `:` before anything but `=`, `<` before anything but `=` and `>`,
`>` before anything but `=`, `.` before anything but `.`. -/
theorem isSingleCharToken_of_head {c : Char} {r : List Char} (x y : Char)
    (hc : ∀ n, n ≠ x → n ≠ y → isSingleCharToken c n = true)
    (hx : r.head? ≠ some x) (hy : r.head? ≠ some y) (h0 : isSingleCharToken c '\x00' = true) :
    isSingleCharToken c (r.headD '\x00') = true := by
  cases r with
  | nil => exact h0
  | cons d ds =>
    apply hc
    · simpa using hx
    · simpa using hy

end Lexer

open TokenType

/-! ## More fuel never changes a result: the expression parser -/

namespace Parser

theorem parsePrimary_mono_step (n : Nat)
    (ihE : ∀ s r, parseExpression n s = some r → parseExpression (n + 1) s = some r)
    (ihP : ∀ s r, parsePrimary n s = some r → parsePrimary (n + 1) s = some r)
    (ihC : ∀ l s r, parseCallArgsLoop n l s = some r → parseCallArgsLoop (n + 1) l s = some r) :
    ∀ s r, parsePrimary (n + 1) s = some r → parsePrimary (n + 2) s = some r := by
  intro s r h
  have builtin : ∀ (label : String),
      (match parseExpression n (s.advance.consume TOK_LPAREN).2 with
        | none => none
        | some r => some (some ((ASTNode.new label).addChild r.1), (r.2.consume TOK_RPAREN).2))
        = some r →
      (match parseExpression (n + 1) (s.advance.consume TOK_LPAREN).2 with
        | none => none
        | some r => some (some ((ASTNode.new label).addChild r.1), (r.2.consume TOK_RPAREN).2))
        = some r := by
    intro label h
    split at h
    · cases h
    · next r1 hr1 => rw [ihE _ _ hr1]; exact h
  have unary : ∀ (label : String),
      (match parsePrimary n s.advance with
        | none => none
        | some r => some (some ((ASTNode.new label).addChild r.1), r.2)) = some r →
      (match parsePrimary (n + 1) s.advance with
        | none => none
        | some r => some (some ((ASTNode.new label).addChild r.1), r.2)) = some r := by
    intro label h
    split at h
    · cases h
    · next r1 hr1 => rw [ihP _ _ hr1]; exact h
  rw [parsePrimary]
  simp only [parsePrimary, matchTok, decide_eq_true_eq, Bool.or_eq_true] at h
  simp only [matchTok, decide_eq_true_eq, Bool.or_eq_true]
  by_cases c1 : s.currentToken.type = TOK_MINUS
  · rw [if_pos c1] at h ⊢; exact unary "-" h
  rw [if_neg c1] at h ⊢
  by_cases c2 : s.currentToken.type = TOK_PLUS
  · rw [if_pos c2] at h ⊢; exact ihP _ _ h
  rw [if_neg c2] at h ⊢
  by_cases c3 : s.currentToken.type = TOK_NOT
  · rw [if_pos c3] at h ⊢; exact unary "not" h
  rw [if_neg c3] at h ⊢
  by_cases c4 : s.currentToken.type = TOK_SUCC
  · rw [if_pos c4] at h ⊢; exact builtin "succ" h
  rw [if_neg c4] at h ⊢
  by_cases c5 : s.currentToken.type = TOK_PRED
  · rw [if_pos c5] at h ⊢; exact builtin "pred" h
  rw [if_neg c5] at h ⊢
  by_cases c6 : s.currentToken.type = TOK_CHR
  · rw [if_pos c6] at h ⊢; exact builtin "chr" h
  rw [if_neg c6] at h ⊢
  by_cases c7 : s.currentToken.type = TOK_ORD
  · rw [if_pos c7] at h ⊢; exact builtin "ord" h
  rw [if_neg c7] at h ⊢
  by_cases c8 : s.currentToken.type = TOK_EOF_KW
  · rw [if_pos c8] at h ⊢; exact h
  rw [if_neg c8] at h ⊢
  by_cases c9 : s.currentToken.type = TOK_INTEGER
  · rw [if_pos c9] at h ⊢; exact h
  rw [if_neg c9] at h ⊢
  by_cases c10 : s.currentToken.type = TOK_CHAR
  · rw [if_pos c10] at h ⊢; exact h
  rw [if_neg c10] at h ⊢
  by_cases c11 : s.currentToken.type = TOK_STRING
  · rw [if_pos c11] at h ⊢; exact h
  rw [if_neg c11] at h ⊢
  by_cases c12 : s.currentToken.type = TOK_TRUE ∨ s.currentToken.type = TOK_FALSE
  · rw [if_pos c12] at h ⊢; exact h
  rw [if_neg c12] at h ⊢
  by_cases c13 : s.currentToken.type = TOK_LPAREN
  · rw [if_pos c13] at h ⊢
    split at h
    · cases h
    · next r1 hr1 => rw [ihE _ _ hr1]; exact h
  rw [if_neg c13] at h ⊢
  by_cases c14 : s.currentToken.type = TOK_IDENTIFIER
  · rw [if_pos c14] at h ⊢
    by_cases d1 : s.advance.currentToken.type = TOK_LPAREN
    · simp only [d1, if_true] at h ⊢
      by_cases d2 : s.advance.advance.currentToken.type = TOK_RPAREN
      · simp only [d2, decide_True, Bool.not_true, Bool.false_eq_true, if_false] at h ⊢
        exact h
      · simp only [d2, decide_False, Bool.not_false, if_true] at h ⊢
        split at h
        · cases h
        · next r1 hr1 => rw [ihC _ _ _ hr1]; exact h
    · simp only [d1, if_false] at h ⊢
      exact h
  rw [if_neg c14] at h ⊢
  exact h

/-- One more unit of fuel keeps every result of the eight routines of the expression parser. -/
theorem expr_mono_succ : ∀ n,
    (∀ s r, parseExpression n s = some r → parseExpression (n + 1) s = some r)
    ∧ (∀ l s r, parseExpressionLoop n l s = some r → parseExpressionLoop (n + 1) l s = some r)
    ∧ (∀ s r, parseTerm n s = some r → parseTerm (n + 1) s = some r)
    ∧ (∀ l s r, parseTermLoop n l s = some r → parseTermLoop (n + 1) l s = some r)
    ∧ (∀ s r, parseFactor n s = some r → parseFactor (n + 1) s = some r)
    ∧ (∀ l s r, parseFactorLoop n l s = some r → parseFactorLoop (n + 1) l s = some r)
    ∧ (∀ s r, parsePrimary n s = some r → parsePrimary (n + 1) s = some r)
    ∧ (∀ l s r, parseCallArgsLoop n l s = some r → parseCallArgsLoop (n + 1) l s = some r) := by
  intro n
  induction n with
  | zero =>
    refine ⟨?_, ?_, ?_, ?_, ?_, ?_, ?_, ?_⟩
    · intro s r h; simp [parseExpression] at h
    · intro l s r h; simp [parseExpressionLoop] at h
    · intro s r h; simp [parseTerm] at h
    · intro l s r h; simp [parseTermLoop] at h
    · intro s r h; simp [parseFactor] at h
    · intro l s r h; simp [parseFactorLoop] at h
    · intro s r h; simp [parsePrimary] at h
    · intro l s r h; simp [parseCallArgsLoop] at h
  | succ n ih =>
    obtain ⟨ihE, ihEL, ihT, ihTL, ihF, ihFL, ihP, ihC⟩ := ih
    refine ⟨?_, ?_, ?_, ?_, ?_, ?_, parsePrimary_mono_step n ihE ihP ihC, ?_⟩
    · intro s r h
      rw [parseExpression]
      simp only [parseExpression] at h
      split at h
      · cases h
      · next r1 hr1 =>
        rw [ihT _ _ hr1]
        exact ihEL _ _ _ h
    · intro left s r h
      rw [parseExpressionLoop]
      simp only [parseExpressionLoop] at h
      split at h
      · exact h
      · split at h
        · cases h
        · next r1 hr1 =>
          rw [ihT _ _ hr1]
          exact ihEL _ _ _ h
    · intro s r h
      rw [parseTerm]
      simp only [parseTerm] at h
      split at h
      · cases h
      · next r1 hr1 =>
        rw [ihF _ _ hr1]
        exact ihTL _ _ _ h
    · intro left s r h
      rw [parseTermLoop]
      simp only [parseTermLoop] at h
      split at h
      · exact h
      · split at h
        · cases h
        · next r1 hr1 =>
          rw [ihF _ _ hr1]
          exact ihTL _ _ _ h
    · intro s r h
      rw [parseFactor]
      simp only [parseFactor] at h
      split at h
      · cases h
      · next r1 hr1 =>
        rw [ihP _ _ hr1]
        exact ihFL _ _ _ h
    · intro left s r h
      rw [parseFactorLoop]
      simp only [parseFactorLoop] at h
      split at h
      · exact h
      · split at h
        · cases h
        · next r1 hr1 =>
          rw [ihP _ _ hr1]
          exact ihFL _ _ _ h
    · intro node s r h
      rw [parseCallArgsLoop]
      simp only [parseCallArgsLoop] at h
      split at h
      · cases h
      · next r1 hr1 =>
        rw [ihE _ _ hr1]
        simp only
        split at h
        · next hc => rw [if_pos hc]; exact ihC _ _ _ h
        · next hc => rw [if_neg hc]; exact h

/-- A result of `parseExpression` is kept by every larger fuel. -/
theorem parseExpression_mono {n m : Nat} {s : Parser} {r : Option ASTNode × Parser}
    (h : parseExpression n s = some r) (hnm : n ≤ m) : parseExpression m s = some r := by
  induction hnm with
  | refl => exact h
  | step _ ih => exact (expr_mono_succ _).1 _ _ ih

end Parser

open TokenType

/-! ## More fuel never changes a result: the statement parser -/

namespace Parser

theorem parseAssignment_mono_succ {n : Nat} {s : Parser} {r : Option ASTNode × Parser}
    (h : parseAssignment n s = some r) : parseAssignment (n + 1) s = some r := by
  simp only [parseAssignment] at h ⊢
  by_cases c1 : s.matchTok TOK_IDENTIFIER = true
  · rw [if_pos c1] at h ⊢
    by_cases c2 : s.advance.matchTok TOK_ASSIGN = true
    · rw [if_pos c2] at h ⊢
      split at h
      · cases h
      · next r1 hr1 =>
        rw [parseExpression_mono hr1 (Nat.le_succ n)]
        exact h
    · rw [if_neg c2] at h ⊢
      exact h
  · rw [if_neg c1] at h ⊢
    exact h

theorem parseForStat_mono_succ {n : Nat} {s : Parser} {r : Option ASTNode × Parser}
    (h : parseForStat n s = some r) : parseForStat (n + 1) s = some r := by
  simp only [parseForStat] at h ⊢
  by_cases c1 : s.matchTok TOK_IDENTIFIER = true
  · rw [if_pos c1] at h ⊢
    exact parseAssignment_mono_succ h
  · rw [if_neg c1] at h ⊢
    exact h

theorem parseForExp_mono_succ {n : Nat} {s : Parser} {r : Option ASTNode × Parser}
    (h : parseForExp n s = some r) : parseForExp (n + 1) s = some r := by
  simp only [parseForExp] at h ⊢
  by_cases c1 : (!s.matchTok TOK_SEMICOLON) = true
  · rw [if_pos c1] at h ⊢
    exact parseExpression_mono h (Nat.le_succ n)
  · rw [if_neg c1] at h ⊢
    exact h

theorem parseOutExp_mono_succ {n : Nat} {s : Parser} {r : Option ASTNode × Parser}
    (h : parseOutExp n s = some r) : parseOutExp (n + 1) s = some r := by
  simp only [parseOutExp] at h ⊢
  by_cases c1 : s.matchTok TOK_STRING = true
  · rw [if_pos c1] at h ⊢
    exact h
  · rw [if_neg c1] at h ⊢
    split at h
    · cases h
    · next r1 hr1 =>
      rw [parseExpression_mono hr1 (Nat.le_succ n)]
      exact h

theorem parseOutputLoop_mono_succ : ∀ (n : Nat) (node : ASTNode) (p : Parser)
    (r : ASTNode × Parser), parseOutputLoop n node p = some r →
    parseOutputLoop (n + 1) node p = some r := by
  intro n
  induction n with
  | zero => intro node p r h; simp [parseOutputLoop] at h
  | succ n ih =>
    intro node p r h
    rw [parseOutputLoop]
    simp only [parseOutputLoop] at h
    split at h
    · cases h
    · next r1 hr1 =>
      rw [parseOutExp_mono_succ hr1]
      simp only
      split at h
      · next hc => rw [if_pos hc]; exact ih _ _ _ h
      · next hc => rw [if_neg hc]; exact h

theorem parseReadLoop_mono_succ : ∀ (n : Nat) (node : ASTNode) (p : Parser)
    (r : ASTNode × Parser), parseReadLoop n node p = some r →
    parseReadLoop (n + 1) node p = some r := by
  intro n
  induction n with
  | zero => intro node p r h; simp [parseReadLoop] at h
  | succ n ih =>
    intro node p r h
    rw [parseReadLoop]
    simp only [parseReadLoop] at h
    split at h
    · next hc => rw [if_pos hc]; exact ih _ _ _ h
    · next hc => rw [if_neg hc]; exact h

theorem parseStatement_mono_step (n : Nat)
    (ihS : ∀ s r, parseStatement n s = some r → parseStatement (n + 1) s = some r)
    (ihR : ∀ l s r, parseRepeatLoop n l s = some r → parseRepeatLoop (n + 1) l s = some r)
    (ihL : ∀ l s r, parseLoopLoop n l s = some r → parseLoopLoop (n + 1) l s = some r)
    (ihC : ∀ l s r, parseCaseLoop n l s = some r → parseCaseLoop (n + 1) l s = some r)
    (ihO : ∀ s r, parseOtherwiseClause n s = some r → parseOtherwiseClause (n + 1) s = some r)
    (ihB : ∀ s r, parseBody n s = some r → parseBody (n + 1) s = some r) :
    ∀ s r, parseStatement (n + 1) s = some r → parseStatement (n + 2) s = some r := by
  intro s r h
  have hE : ∀ {s : Parser} {r : Option ASTNode × Parser}, parseExpression n s = some r →
      parseExpression (n + 1) s = some r := fun h => parseExpression_mono h (Nat.le_succ n)
  rw [parseStatement]
  simp only [parseStatement, matchTok, decide_eq_true_eq] at h
  simp only [matchTok, decide_eq_true_eq]
  by_cases c1 : s.currentToken.type = TOK_IDENTIFIER
  · rw [if_pos c1] at h ⊢
    by_cases d1 : s.advance.currentToken.type = TOK_ASSIGN
    · rw [if_pos d1] at h ⊢
      split at h
      · cases h
      · next r1 hr1 => rw [hE hr1]; exact h
    · rw [if_neg d1] at h ⊢
      exact h
  rw [if_neg c1] at h ⊢
  by_cases c2 : s.currentToken.type = TOK_OUTPUT
  · rw [if_pos c2] at h ⊢
    split at h
    · cases h
    · next r1 hr1 => rw [parseOutputLoop_mono_succ _ _ _ _ hr1]; exact h
  rw [if_neg c2] at h ⊢
  by_cases c3 : s.currentToken.type = TOK_IF
  · rw [if_pos c3] at h ⊢
    split at h
    · cases h
    · next rc hrc =>
      rw [hE hrc]
      simp only
      split at h
      · cases h
      · next rt hrt =>
        rw [ihS _ _ hrt]
        simp only
        by_cases d3 : rt.2.currentToken.type = TOK_ELSE
        · rw [if_pos d3] at h ⊢
          split at h
          · cases h
          · next re hre => rw [ihS _ _ hre]; exact h
        · rw [if_neg d3] at h ⊢
          exact h
  rw [if_neg c3] at h ⊢
  by_cases c4 : s.currentToken.type = TOK_WHILE
  · rw [if_pos c4] at h ⊢
    split at h
    · cases h
    · next rc hrc =>
      rw [hE hrc]
      simp only
      split at h
      · cases h
      · next rb hrb => rw [ihS _ _ hrb]; exact h
  rw [if_neg c4] at h ⊢
  by_cases c5 : s.currentToken.type = TOK_REPEAT
  · rw [if_pos c5] at h ⊢
    split at h
    · cases h
    · next rl hrl =>
      rw [ihR _ _ _ hrl]
      simp only
      split at h
      · cases h
      · next rc hrc => rw [hE hrc]; exact h
  rw [if_neg c5] at h ⊢
  by_cases c6 : s.currentToken.type = TOK_FOR
  · rw [if_pos c6] at h ⊢
    split at h
    · cases h
    · next r1 hr1 =>
      rw [parseForStat_mono_succ hr1]
      simp only
      split at h
      · cases h
      · next r2 hr2 =>
        rw [parseForExp_mono_succ hr2]
        simp only
        split at h
        · cases h
        · next r3 hr3 =>
          rw [parseForStat_mono_succ hr3]
          simp only
          split at h
          · cases h
          · next r4 hr4 => rw [ihS _ _ hr4]; exact h
  rw [if_neg c6] at h ⊢
  by_cases c7 : s.currentToken.type = TOK_LOOP
  · rw [if_pos c7] at h ⊢
    split at h
    · cases h
    · next rl hrl => rw [ihL _ _ _ hrl]; exact h
  rw [if_neg c7] at h ⊢
  by_cases c8 : s.currentToken.type = TOK_CASE
  · rw [if_pos c8] at h ⊢
    split at h
    · cases h
    · next re hre =>
      rw [hE hre]
      simp only
      split at h
      · cases h
      · next rl hrl =>
        rw [ihC _ _ _ hrl]
        simp only
        by_cases d8 : rl.2.currentToken.type = TOK_OTHERWISE
        · rw [if_pos d8] at h ⊢
          split at h
          · cases h
          · next ro hro => rw [ihO _ _ hro]; exact h
        · rw [if_neg d8] at h ⊢
          exact h
  rw [if_neg c8] at h ⊢
  by_cases c9 : s.currentToken.type = TOK_READ
  · rw [if_pos c9] at h ⊢
    split at h
    · cases h
    · next r1 hr1 => rw [parseReadLoop_mono_succ _ _ _ _ hr1]; exact h
  rw [if_neg c9] at h ⊢
  by_cases c10 : s.currentToken.type = TOK_EXIT
  · rw [if_pos c10] at h ⊢; exact h
  rw [if_neg c10] at h ⊢
  by_cases c11 : s.currentToken.type = TOK_RETURN
  · rw [if_pos c11] at h ⊢
    split at h
    · cases h
    · next r1 hr1 => rw [hE hr1]; exact h
  rw [if_neg c11] at h ⊢
  by_cases c12 : s.currentToken.type = TOK_BEGIN
  · rw [if_pos c12] at h ⊢
    exact ihB _ _ h
  rw [if_neg c12] at h ⊢
  exact h

/-- One more unit of fuel keeps every result of the eight routines of the statement parser. -/
theorem stmt_mono_succ : ∀ n,
    (∀ s r, parseStatement n s = some r → parseStatement (n + 1) s = some r)
    ∧ (∀ l s r, parseRepeatLoop n l s = some r → parseRepeatLoop (n + 1) l s = some r)
    ∧ (∀ l s r, parseLoopLoop n l s = some r → parseLoopLoop (n + 1) l s = some r)
    ∧ (∀ l s r, parseCaseLoop n l s = some r → parseCaseLoop (n + 1) l s = some r)
    ∧ (∀ s r, parseCaseclause n s = some r → parseCaseclause (n + 1) s = some r)
    ∧ (∀ s r, parseOtherwiseClause n s = some r → parseOtherwiseClause (n + 1) s = some r)
    ∧ (∀ s r, parseBody n s = some r → parseBody (n + 1) s = some r)
    ∧ (∀ l s r, parseBodyLoop n l s = some r → parseBodyLoop (n + 1) l s = some r) := by
  intro n
  induction n with
  | zero =>
    refine ⟨?_, ?_, ?_, ?_, ?_, ?_, ?_, ?_⟩
    · intro s r h; simp [parseStatement] at h
    · intro l s r h; simp [parseRepeatLoop] at h
    · intro l s r h; simp [parseLoopLoop] at h
    · intro l s r h; simp [parseCaseLoop] at h
    · intro s r h; simp [parseCaseclause] at h
    · intro s r h; simp [parseOtherwiseClause] at h
    · intro s r h; simp [parseBody] at h
    · intro l s r h; simp [parseBodyLoop] at h
  | succ n ih =>
    obtain ⟨ihS, ihR, ihL, ihC, ihCc, ihO, ihB, ihBL⟩ := ih
    refine ⟨parseStatement_mono_step n ihS ihR ihL ihC ihO ihB, ?_, ?_, ?_, ?_, ?_, ?_, ?_⟩
    · intro node s r h
      rw [parseRepeatLoop]
      simp only [parseRepeatLoop] at h
      split at h
      · cases h
      · next r1 hr1 =>
        rw [ihS _ _ hr1]
        simp only
        split at h
        · next hc => rw [if_pos hc]; exact ihR _ _ _ h
        · next hc => rw [if_neg hc]; exact h
    · intro node s r h
      rw [parseLoopLoop]
      simp only [parseLoopLoop] at h
      split at h
      · cases h
      · next r1 hr1 =>
        rw [ihS _ _ hr1]
        simp only
        split at h
        · next hc => rw [if_pos hc]; exact ihL _ _ _ h
        · next hc => rw [if_neg hc]; exact h
    · intro node s r h
      rw [parseCaseLoop]
      simp only [parseCaseLoop] at h
      split at h
      · next hc =>
        rw [if_pos hc]
        split at h
        · cases h
        · next r1 hr1 =>
          rw [ihCc _ _ hr1]
          simp only
          split at h
          · next hd => rw [if_pos hd]; exact h
          · next hd => rw [if_neg hd]; exact ihC _ _ _ h
      · next hc => rw [if_neg hc]; exact h
    · intro s r h
      rw [parseCaseclause]
      simp only [parseCaseclause] at h
      split at h
      · cases h
      · next r2 hr2 => rw [ihS _ _ hr2]; exact h
    · intro s r h
      rw [parseOtherwiseClause]
      simp only [parseOtherwiseClause] at h
      split at h
      · cases h
      · next r1 hr1 => rw [ihS _ _ hr1]; exact h
    · intro s r h
      rw [parseBody]
      simp only [parseBody] at h
      split at h
      · next hc =>
        rw [if_pos hc]
        split at h
        · cases h
        · next r1 hr1 => rw [ihBL _ _ _ hr1]; exact h
      · next hc =>
        rw [if_neg hc]
        exact h
    · intro node s r h
      rw [parseBodyLoop]
      simp only [parseBodyLoop] at h
      split at h
      · next hc =>
        rw [if_pos hc]
        split at h
        · cases h
        · next r1 hr1 =>
          rw [ihS _ _ hr1]
          simp only
          split at h
          · next h1 =>
            rw [if_pos h1]
            exact h
          · next h1 =>
            rw [if_neg h1]
            split at h
            · next h2 => rw [if_pos h2]; exact h
            · next h2 => rw [if_neg h2]; exact ihBL _ _ _ h
      · next hc => rw [if_neg hc]; exact h

/-- A result of `parseStatement` is kept by every larger fuel. -/
theorem parseStatement_mono {n m : Nat} {s : Parser} {r : Option ASTNode × Parser}
    (h : parseStatement n s = some r) (hnm : n ≤ m) : parseStatement m s = some r := by
  induction hnm with
  | refl => exact h
  | step _ ih => exact (stmt_mono_succ _).1 _ _ ih

/-- A result of `parseBody` is kept by every larger fuel. -/
theorem parseBody_mono {n m : Nat} {s : Parser} {r : Option ASTNode × Parser}
    (h : parseBody n s = some r) (hnm : n ≤ m) : parseBody m s = some r := by
  induction hnm with
  | refl => exact h
  | step _ ih => exact (stmt_mono_succ _).2.2.2.2.2.2.1 _ _ ih

theorem parseBodyLoop_mono {n m : Nat} {node : ASTNode} {s : Parser} {r : ASTNode × Parser}
    (h : parseBodyLoop n node s = some r) (hnm : n ≤ m) : parseBodyLoop m node s = some r := by
  induction hnm with
  | refl => exact h
  | step _ ih => exact (stmt_mono_succ _).2.2.2.2.2.2.2 _ _ _ ih

theorem parseRepeatLoop_mono {n m : Nat} {node : ASTNode} {s : Parser} {r : ASTNode × Parser}
    (h : parseRepeatLoop n node s = some r) (hnm : n ≤ m) :
    parseRepeatLoop m node s = some r := by
  induction hnm with
  | refl => exact h
  | step _ ih => exact (stmt_mono_succ _).2.1 _ _ _ ih

end Parser

open TokenType

namespace Parser

/-! ## Lexing the operators -/

theorem LexTo.assign {r : List Char} (hr : r.head? ≠ some ':') :
    LexTo (':' :: '=' :: r) TOK_ASSIGN ":=" r := by
  apply LexTo.of_nextToken (by decide)
  intro l hl
  rw [Lexer.nextToken_assign hl hr]
  refine ⟨rfl, rfl, ?_⟩
  rw [Lexer.rest_skip, hl]
  rfl

theorem LexTo.swap {r : List Char} : LexTo (':' :: '=' :: ':' :: r) TOK_SWAP ":=:" r := by
  apply LexTo.of_nextToken (by decide)
  intro l hl
  rw [Lexer.nextToken_swap hl]
  refine ⟨rfl, rfl, ?_⟩
  rw [Lexer.rest_skip, hl]
  rfl

theorem LexTo.less_equal {r : List Char} : LexTo ('<' :: '=' :: r) TOK_LESS_EQUAL "<=" r := by
  apply LexTo.of_nextToken (by decide)
  intro l hl
  rw [Lexer.nextToken_less_equal hl]
  refine ⟨rfl, rfl, ?_⟩
  rw [Lexer.rest_skip, hl]
  rfl

theorem LexTo.greater_equal {r : List Char} :
    LexTo ('>' :: '=' :: r) TOK_GREATER_EQUAL ">=" r := by
  apply LexTo.of_nextToken (by decide)
  intro l hl
  rw [Lexer.nextToken_greater_equal hl]
  refine ⟨rfl, rfl, ?_⟩
  rw [Lexer.rest_skip, hl]
  rfl

theorem LexTo.not_equal {r : List Char} : LexTo ('<' :: '>' :: r) TOK_NOT_EQUAL "<>" r := by
  apply LexTo.of_nextToken (by decide)
  intro l hl
  rw [Lexer.nextToken_not_equal hl]
  refine ⟨rfl, rfl, ?_⟩
  rw [Lexer.rest_skip, hl]
  rfl

theorem LexTo.dots {r : List Char} : LexTo ('.' :: '.' :: r) TOK_DOTS ".." r := by
  apply LexTo.of_nextToken (by decide)
  intro l hl
  rw [Lexer.nextToken_dots hl]
  refine ⟨rfl, rfl, ?_⟩
  rw [Lexer.rest_skip, hl]
  rfl

/-- Every relational operator followed by a blank is lexed as one token, of the kind under
which `parseExpression` builds the node labeled with the operator. -/
theorem lexTo_relOp {o : String} (h : o ∈ relOps) :
    ∃ ty, relOp ty = some o ∧ ∀ r, LexTo (o.toList ++ ' ' :: r) ty o (' ' :: r) := by
  simp only [relOps, List.mem_cons, List.mem_singleton, List.not_mem_nil, or_false] at h
  rcases h with rfl | rfl | rfl | rfl | rfl | rfl
  · exact ⟨TOK_EQUAL, rfl, fun r => LexTo.single (c := '=') (r := ' ' :: r)
      (show Lexer.isSingleCharToken '=' ' ' = true by decide)⟩
  · exact ⟨TOK_NOT_EQUAL, rfl, fun r => LexTo.not_equal⟩
  · exact ⟨TOK_LESS, rfl, fun r => LexTo.single (c := '<') (r := ' ' :: r)
      (show Lexer.isSingleCharToken '<' ' ' = true by decide)⟩
  · exact ⟨TOK_LESS_EQUAL, rfl, fun r => LexTo.less_equal⟩
  · exact ⟨TOK_GREATER, rfl, fun r => LexTo.single (c := '>') (r := ' ' :: r)
      (show Lexer.isSingleCharToken '>' ' ' = true by decide)⟩
  · exact ⟨TOK_GREATER_EQUAL, rfl, fun r => LexTo.greater_equal⟩

/-- Every additive operator followed by a blank is lexed as one token, of the kind under which
`parseTerm` builds the node labeled with the operator. -/
theorem lexTo_addOp {o : String} (h : o ∈ addOps) :
    ∃ ty, addOp ty = some o ∧ ∀ r, LexTo (o.toList ++ ' ' :: r) ty o (' ' :: r) := by
  simp only [addOps, List.mem_cons, List.mem_singleton, List.not_mem_nil, or_false] at h
  rcases h with rfl | rfl | rfl
  · exact ⟨TOK_PLUS, rfl, fun r => LexTo.single (c := '+') (r := ' ' :: r)
      (show Lexer.isSingleCharToken '+' ' ' = true by decide)⟩
  · exact ⟨TOK_MINUS, rfl, fun r => LexTo.single (c := '-') (r := ' ' :: r)
      (show Lexer.isSingleCharToken '-' ' ' = true by decide)⟩
  · exact ⟨TOK_OR, rfl, fun r => LexTo.identifier (p := "or".toList) (r := ' ' :: r)
      (by decide) rfl⟩

/-- Every multiplicative operator followed by a blank is lexed as one token, of the kind under
which `parseFactor` builds the node labeled with the operator. -/
theorem lexTo_mulOp {o : String} (h : o ∈ mulOps) :
    ∃ ty, mulOp ty = some o ∧ ∀ r, LexTo (o.toList ++ ' ' :: r) ty o (' ' :: r) := by
  simp only [mulOps, List.mem_cons, List.mem_singleton, List.not_mem_nil, or_false] at h
  rcases h with rfl | rfl | rfl | rfl
  · exact ⟨TOK_MULTIPLY, rfl, fun r => LexTo.single (c := '*') (r := ' ' :: r)
      (show Lexer.isSingleCharToken '*' ' ' = true by decide)⟩
  · exact ⟨TOK_DIVIDE, rfl, fun r => LexTo.single (c := '/') (r := ' ' :: r)
      (show Lexer.isSingleCharToken '/' ' ' = true by decide)⟩
  · exact ⟨TOK_AND, rfl, fun r => LexTo.identifier (p := "and".toList) (r := ' ' :: r)
      (by decide) rfl⟩
  · exact ⟨TOK_MOD, rfl, fun r => LexTo.identifier (p := "mod".toList) (r := ' ' :: r)
      (by decide) rfl⟩

/-! ## Two operators of the same level -/

/-- Tokens `A op1 B op2 C` with both operators relational: the loop of `parseExpression` folds
to the left. -/
theorem parseExpression_rel_rel (n : Nat) (s : Parser) (o1 o2 : String)
    (h0 : isOperand s.currentToken = true)
    (h1 : relOp s.advance.currentToken.type = some o1)
    (h2 : isOperand s.advance.advance.currentToken = true)
    (h3 : relOp s.advance.advance.advance.currentToken.type = some o2)
    (h4 : isOperand s.advance.advance.advance.advance.currentToken = true)
    (h5 : endsExpression s.advance.advance.advance.advance.advance.currentToken.type = true) :
    parseExpression (n + 6) s
      = some (some (mkOpNode o2
          (some (mkOpNode o1 (some (operandNode s.currentToken))
            (some (operandNode s.advance.advance.currentToken))))
          (some (operandNode s.advance.advance.advance.advance.currentToken))),
          s.advance.advance.advance.advance.advance) := by
  obtain ⟨r1, r2, r3⟩ := relOp_some h1
  obtain ⟨q1, q2, q3⟩ := relOp_some h3
  obtain ⟨e1, e2, e3, e4⟩ := endsExpression_iff h5
  simp [parseExpression, parseTerm, parseFactor, parseExpressionLoop, parseTermLoop,
    parseFactorLoop, parsePrimary_operand _ _ h0 r1, parsePrimary_operand _ _ h2 q1,
    parsePrimary_operand _ _ h4 e4, h1, h3, r2, r3, q2, q3, e1, e2, e3]

/-- Tokens `A op1 B op2 C` with both operators additive: the loop of `parseTerm` folds to the
left. -/
theorem parseExpression_add_add (n : Nat) (s : Parser) (o1 o2 : String)
    (h0 : isOperand s.currentToken = true)
    (h1 : addOp s.advance.currentToken.type = some o1)
    (h2 : isOperand s.advance.advance.currentToken = true)
    (h3 : addOp s.advance.advance.advance.currentToken.type = some o2)
    (h4 : isOperand s.advance.advance.advance.advance.currentToken = true)
    (h5 : endsExpression s.advance.advance.advance.advance.advance.currentToken.type = true) :
    parseExpression (n + 6) s
      = some (some (mkOpNode o2
          (some (mkOpNode o1 (some (operandNode s.currentToken))
            (some (operandNode s.advance.advance.currentToken))))
          (some (operandNode s.advance.advance.advance.advance.currentToken))),
          s.advance.advance.advance.advance.advance) := by
  obtain ⟨r1, r2, _, _⟩ := addOp_some h1
  obtain ⟨q1, q2, _, _⟩ := addOp_some h3
  obtain ⟨e1, e2, e3, e4⟩ := endsExpression_iff h5
  simp [parseExpression, parseTerm, parseFactor, parseExpressionLoop, parseTermLoop,
    parseFactorLoop, parsePrimary_operand _ _ h0 r1, parsePrimary_operand _ _ h2 q1,
    parsePrimary_operand _ _ h4 e4, h1, h3, r2, q2, e1, e2, e3]

/-- Tokens `A op1 B op2 C` with both operators multiplicative: the loop of `parseFactor` folds
to the left. -/
theorem parseExpression_mul_mul (n : Nat) (s : Parser) (o1 o2 : String)
    (h0 : isOperand s.currentToken = true)
    (h1 : mulOp s.advance.currentToken.type = some o1)
    (h2 : isOperand s.advance.advance.currentToken = true)
    (h3 : mulOp s.advance.advance.advance.currentToken.type = some o2)
    (h4 : isOperand s.advance.advance.advance.advance.currentToken = true)
    (h5 : endsExpression s.advance.advance.advance.advance.advance.currentToken.type = true) :
    parseExpression (n + 6) s
      = some (some (mkOpNode o2
          (some (mkOpNode o1 (some (operandNode s.currentToken))
            (some (operandNode s.advance.advance.currentToken))))
          (some (operandNode s.advance.advance.advance.advance.currentToken))),
          s.advance.advance.advance.advance.advance) := by
  obtain ⟨r1, _, _⟩ := mulOp_some h1
  obtain ⟨q1, _, _⟩ := mulOp_some h3
  obtain ⟨e1, e2, e3, e4⟩ := endsExpression_iff h5
  simp [parseExpression, parseTerm, parseFactor, parseExpressionLoop, parseTermLoop,
    parseFactorLoop, parsePrimary_operand _ _ h0 r1, parsePrimary_operand _ _ h2 q1,
    parsePrimary_operand _ _ h4 e4, h1, h3, e1, e2, e3]

/-- Parsing the text `a o1 b o2 c`, for primaries `a`, `b`, `c` and operator spellings `o1`,
`o2`, reaches the six tokens `a`, `o1`, `b`, `o2`, `c` and the end of the input. -/
theorem lex_operands_operators (a b c o1 o2 : List Char) (t1 t2 : TokenType) (v1 v2 : String)
    (ha : isPrimaryText a = true) (hb : isPrimaryText b = true) (hc : isPrimaryText c = true)
    (h1 : ∀ r, LexTo (o1 ++ ' ' :: r) t1 v1 (' ' :: r))
    (h2 : ∀ r, LexTo (o2 ++ ' ' :: r) t2 v2 (' ' :: r))
    (s : Parser)
    (hs : s = Parser.new (a ++ (' ' :: (o1 ++ (' ' :: (b ++ (' ' :: (o2 ++ (' ' :: c))))))))) :
    (isOperand s.currentToken = true ∧ operandNode s.currentToken = primaryNode a)
    ∧ s.advance.currentToken.type = t1
    ∧ (isOperand s.advance.advance.currentToken = true
        ∧ operandNode s.advance.advance.currentToken = primaryNode b)
    ∧ s.advance.advance.advance.currentToken.type = t2
    ∧ (isOperand s.advance.advance.advance.advance.currentToken = true
        ∧ operandNode s.advance.advance.advance.advance.currentToken = primaryNode c)
    ∧ s.advance.advance.advance.advance.advance.currentToken.type = TOK_EOF := by
  subst hs
  have hc0 : c = c ++ [] := (List.append_nil c).symm
  have k0 := new_at (LexTo.primary (x := a)
    (r := ' ' :: (o1 ++ (' ' :: (b ++ (' ' :: (o2 ++ (' ' :: c)))))))
    ha (Or.inr ⟨_, rfl⟩))
  have k1 := k0.advance (LexTo.space (by decide) (h1 _))
  have k2 := k1.advance (LexTo.space (by decide) (LexTo.primary hb (Or.inr ⟨_, rfl⟩)))
  have k3 := k2.advance (LexTo.space (by decide) (h2 _))
  have k4 := k3.advance (LexTo.space (by decide)
    (by rw [hc0]; exact LexTo.primary hc (Or.inl rfl)))
  have k5 := k4.advance LexTo.eof
  exact ⟨k0.operand, k1.1, k2.operand, k3.1, k4.operand, k5.1⟩

end Parser

open Parser in
/-- Claim C11: left fold at every binary level.  For all primaries `a`, `b`, `c` (identifiers
that are not keywords, or integer literals) and any two operators `o1`, `o2` of the same level,
both relational, both additive or both multiplicative, the text `a o1 b o2 c` parses to
`o2`(`o1`(a, b), c), each operand being its wrapper node; so `a < b < c` parses to
`<`(`<`(a, b), c). -/
theorem C11_left_fold (a b c : List Char) (o1 o2 : String)
    (ha : isPrimaryText a = true) (hb : isPrimaryText b = true) (hc : isPrimaryText c = true)
    (ho : (o1 ∈ relOps ∧ o2 ∈ relOps) ∨ (o1 ∈ addOps ∧ o2 ∈ addOps)
      ∨ (o1 ∈ mulOps ∧ o2 ∈ mulOps))
    (fuel : Nat) (hf : 6 ≤ fuel) :
    (parseExpression fuel (Parser.new (a ++ " ".toList ++ o1.toList ++ " ".toList ++ b
        ++ " ".toList ++ o2.toList ++ " ".toList ++ c))).map (fun r => r.1)
      = some (some (ASTNode.mk o2
          [ASTNode.mk o1 [primaryNode a, primaryNode b] "", primaryNode c] "")) := by
  obtain ⟨n, rfl⟩ : ∃ n, fuel = n + 6 := ⟨fuel - 6, by omega⟩
  have hin : a ++ " ".toList ++ o1.toList ++ " ".toList ++ b ++ " ".toList ++ o2.toList
      ++ " ".toList ++ c
      = a ++ (' ' :: (o1.toList ++ (' ' :: (b ++ (' ' :: (o2.toList ++ (' ' :: c))))))) := by
    simp
  rw [hin]
  rcases ho with ⟨h1, h2⟩ | ⟨h1, h2⟩ | ⟨h1, h2⟩
  · obtain ⟨t1, ht1, l1⟩ := lexTo_relOp h1
    obtain ⟨t2, ht2, l2⟩ := lexTo_relOp h2
    obtain ⟨⟨o0, n0⟩, k1, ⟨p2, n2⟩, k3, ⟨p4, n4⟩, k5⟩ :=
      lex_operands_operators a b c o1.toList o2.toList t1 t2 o1 o2 ha hb hc l1 l2 _ rfl
    rw [parseExpression_rel_rel n _ o1 o2 o0 (by rw [k1]; exact ht1) p2 (by rw [k3]; exact ht2)
      p4 (by rw [k5]; rfl), n0, n2, n4]
    rfl
  · obtain ⟨t1, ht1, l1⟩ := lexTo_addOp h1
    obtain ⟨t2, ht2, l2⟩ := lexTo_addOp h2
    obtain ⟨⟨o0, n0⟩, k1, ⟨p2, n2⟩, k3, ⟨p4, n4⟩, k5⟩ :=
      lex_operands_operators a b c o1.toList o2.toList t1 t2 o1 o2 ha hb hc l1 l2 _ rfl
    rw [parseExpression_add_add n _ o1 o2 o0 (by rw [k1]; exact ht1) p2 (by rw [k3]; exact ht2)
      p4 (by rw [k5]; rfl), n0, n2, n4]
    rfl
  · obtain ⟨t1, ht1, l1⟩ := lexTo_mulOp h1
    obtain ⟨t2, ht2, l2⟩ := lexTo_mulOp h2
    obtain ⟨⟨o0, n0⟩, k1, ⟨p2, n2⟩, k3, ⟨p4, n4⟩, k5⟩ :=
      lex_operands_operators a b c o1.toList o2.toList t1 t2 o1 o2 ha hb hc l1 l2 _ rfl
    rw [parseExpression_mul_mul n _ o1 o2 o0 (by rw [k1]; exact ht1) p2 (by rw [k3]; exact ht2)
      p4 (by rw [k5]; rfl), n0, n2, n4]
    rfl

open Parser in
theorem C11_left_fold_witness :
    isPrimaryText "a".toList = true ∧ isPrimaryText "b".toList = true
      ∧ isPrimaryText "c".toList = true ∧ ("<" ∈ relOps ∧ "<" ∈ relOps) ∧ 6 ≤ 6
      ∧ (parseExpression 6 (Parser.new "a < b < c".toList)).map (fun r => r.1)
          = some (some (ASTNode.mk "<"
              [ASTNode.mk "<" [ASTNode.mk "<identifier>" [ASTNode.mk "a" [] ""] "",
                 ASTNode.mk "<identifier>" [ASTNode.mk "b" [] ""] ""] "",
               ASTNode.mk "<identifier>" [ASTNode.mk "c" [] ""] ""] "")) :=
  ⟨by decide, by decide, by decide, ⟨by decide, by decide⟩, by decide,
   C11_left_fold "a".toList "b".toList "c".toList "<" "<" (by decide) (by decide) (by decide)
     (Or.inl ⟨by decide, by decide⟩) 6 (by decide)⟩

open TokenType

namespace Parser

/-- The three expressions `a + b * c`, `a * b + c` and `a < b + c`, for all primaries. -/
theorem precedence_examples (a b c : List Char) (ha : isPrimaryText a = true)
    (hb : isPrimaryText b = true) (hc : isPrimaryText c = true) (fuel : Nat) (hf : 6 ≤ fuel) :
    (parseExpression fuel (Parser.new (a ++ " + ".toList ++ b ++ " * ".toList ++ c))).map
        (fun r => r.1)
      = some (some (ASTNode.mk "+"
          [primaryNode a, ASTNode.mk "*" [primaryNode b, primaryNode c] ""] ""))
    ∧ (parseExpression fuel (Parser.new (a ++ " * ".toList ++ b ++ " + ".toList ++ c))).map
        (fun r => r.1)
      = some (some (ASTNode.mk "+"
          [ASTNode.mk "*" [primaryNode a, primaryNode b] "", primaryNode c] ""))
    ∧ (parseExpression fuel (Parser.new (a ++ " < ".toList ++ b ++ " + ".toList ++ c))).map
        (fun r => r.1)
      = some (some (ASTNode.mk "<"
          [primaryNode a, ASTNode.mk "+" [primaryNode b, primaryNode c] ""] "")) := by
  obtain ⟨n, rfl⟩ : ∃ n, fuel = n + 6 := ⟨fuel - 6, by omega⟩
  have hin : ∀ (c1 c2 : Char), a ++ [' ', c1, ' '] ++ b ++ [' ', c2, ' '] ++ c
      = a ++ (' ' :: c1 :: ' ' :: (b ++ (' ' :: c2 :: ' ' :: (c ++ [])))) := by
    intro c1 c2; simp
  refine ⟨?_, ?_, ?_⟩
  · obtain ⟨⟨o0, n0⟩, t1, ⟨o2, n2⟩, t3, ⟨o4, n4⟩, t5⟩ :=
      lex_three_operands a b c '+' '*' ha hb hc (by decide) (by decide) _ rfl
    show (parseExpression (n + 6) (Parser.new (a ++ [' ', '+', ' '] ++ b ++ [' ', '*', ' '] ++ c))).map
        (fun r => r.1) = _
    rw [hin, parseExpression_add_mul n _ "+" "*" o0 (by rw [t1]; rfl) o2 (by rw [t3]; rfl) o4
      (by rw [t5]; rfl), n0, n2, n4]
    rfl
  · obtain ⟨⟨o0, n0⟩, t1, ⟨o2, n2⟩, t3, ⟨o4, n4⟩, t5⟩ :=
      lex_three_operands a b c '*' '+' ha hb hc (by decide) (by decide) _ rfl
    show (parseExpression (n + 6) (Parser.new (a ++ [' ', '*', ' '] ++ b ++ [' ', '+', ' '] ++ c))).map
        (fun r => r.1) = _
    rw [hin, parseExpression_mul_add n _ "*" "+" o0 (by rw [t1]; rfl) o2 (by rw [t3]; rfl) o4
      (by rw [t5]; rfl), n0, n2, n4]
    rfl
  · obtain ⟨⟨o0, n0⟩, t1, ⟨o2, n2⟩, t3, ⟨o4, n4⟩, t5⟩ :=
      lex_three_operands a b c '<' '+' ha hb hc (by decide) (by decide) _ rfl
    show (parseExpression (n + 6) (Parser.new (a ++ [' ', '<', ' '] ++ b ++ [' ', '+', ' '] ++ c))).map
        (fun r => r.1) = _
    rw [hin, parseExpression_rel_add n _ "<" "+" o0 (by rw [t1]; rfl) o2 (by rw [t3]; rfl) o4
      (by rw [t5]; rfl), n0, n2, n4]
    rfl

/-- Precedence at the level of texts, for every pair of operators of two different levels: with
`lo` of the weaker level and `hi` of the tighter one (additive and multiplicative, relational and
additive, or relational and multiplicative), `a lo b hi c` parses to `lo`(a, `hi`(b, c)) and
`a hi b lo c` to `lo`(`hi`(a, b), c). -/
theorem precedence_text (a b c : List Char) (ha : isPrimaryText a = true)
    (hb : isPrimaryText b = true) (hc : isPrimaryText c = true) (n : Nat) (lo hi : String)
    (ho : (lo ∈ addOps ∧ hi ∈ mulOps) ∨ (lo ∈ relOps ∧ hi ∈ addOps)
      ∨ (lo ∈ relOps ∧ hi ∈ mulOps)) :
    (parseExpression (n + 6) (Parser.new (a ++ " ".toList ++ lo.toList ++ " ".toList ++ b
        ++ " ".toList ++ hi.toList ++ " ".toList ++ c))).map (fun r => r.1)
      = some (some (ASTNode.mk lo
          [primaryNode a, ASTNode.mk hi [primaryNode b, primaryNode c] ""] ""))
    ∧ (parseExpression (n + 6) (Parser.new (a ++ " ".toList ++ hi.toList ++ " ".toList ++ b
        ++ " ".toList ++ lo.toList ++ " ".toList ++ c))).map (fun r => r.1)
      = some (some (ASTNode.mk lo
          [ASTNode.mk hi [primaryNode a, primaryNode b] "", primaryNode c] "")) := by
  have hin : ∀ o1 o2 : String, a ++ " ".toList ++ o1.toList ++ " ".toList ++ b ++ " ".toList
      ++ o2.toList ++ " ".toList ++ c
      = a ++ (' ' :: (o1.toList ++ (' ' :: (b ++ (' ' :: (o2.toList ++ (' ' :: c))))))) := by
    intro o1 o2
    simp
  rcases ho with ⟨h1, h2⟩ | ⟨h1, h2⟩ | ⟨h1, h2⟩
  · obtain ⟨t1, ht1, l1⟩ := lexTo_addOp h1
    obtain ⟨t2, ht2, l2⟩ := lexTo_mulOp h2
    refine ⟨?_, ?_⟩
    · rw [hin]
      obtain ⟨⟨o0, n0⟩, k1, ⟨p2, n2⟩, k3, ⟨p4, n4⟩, k5⟩ :=
        lex_operands_operators a b c lo.toList hi.toList t1 t2 lo hi ha hb hc l1 l2 _ rfl
      rw [parseExpression_add_mul n _ lo hi o0 (by rw [k1]; exact ht1) p2 (by rw [k3]; exact ht2)
        p4 (by rw [k5]; rfl), n0, n2, n4]
      rfl
    · rw [hin]
      obtain ⟨⟨o0, n0⟩, k1, ⟨p2, n2⟩, k3, ⟨p4, n4⟩, k5⟩ :=
        lex_operands_operators a b c hi.toList lo.toList t2 t1 hi lo ha hb hc l2 l1 _ rfl
      rw [parseExpression_mul_add n _ hi lo o0 (by rw [k1]; exact ht2) p2 (by rw [k3]; exact ht1)
        p4 (by rw [k5]; rfl), n0, n2, n4]
      rfl
  · obtain ⟨t1, ht1, l1⟩ := lexTo_relOp h1
    obtain ⟨t2, ht2, l2⟩ := lexTo_addOp h2
    refine ⟨?_, ?_⟩
    · rw [hin]
      obtain ⟨⟨o0, n0⟩, k1, ⟨p2, n2⟩, k3, ⟨p4, n4⟩, k5⟩ :=
        lex_operands_operators a b c lo.toList hi.toList t1 t2 lo hi ha hb hc l1 l2 _ rfl
      rw [parseExpression_rel_add n _ lo hi o0 (by rw [k1]; exact ht1) p2 (by rw [k3]; exact ht2)
        p4 (by rw [k5]; rfl), n0, n2, n4]
      rfl
    · rw [hin]
      obtain ⟨⟨o0, n0⟩, k1, ⟨p2, n2⟩, k3, ⟨p4, n4⟩, k5⟩ :=
        lex_operands_operators a b c hi.toList lo.toList t2 t1 hi lo ha hb hc l2 l1 _ rfl
      rw [parseExpression_add_rel n _ hi lo o0 (by rw [k1]; exact ht2) p2 (by rw [k3]; exact ht1)
        p4 (by rw [k5]; rfl), n0, n2, n4]
      rfl
  · obtain ⟨t1, ht1, l1⟩ := lexTo_relOp h1
    obtain ⟨t2, ht2, l2⟩ := lexTo_mulOp h2
    refine ⟨?_, ?_⟩
    · rw [hin]
      obtain ⟨⟨o0, n0⟩, k1, ⟨p2, n2⟩, k3, ⟨p4, n4⟩, k5⟩ :=
        lex_operands_operators a b c lo.toList hi.toList t1 t2 lo hi ha hb hc l1 l2 _ rfl
      rw [parseExpression_rel_mul n _ lo hi o0 (by rw [k1]; exact ht1) p2 (by rw [k3]; exact ht2)
        p4 (by rw [k5]; rfl), n0, n2, n4]
      rfl
    · rw [hin]
      obtain ⟨⟨o0, n0⟩, k1, ⟨p2, n2⟩, k3, ⟨p4, n4⟩, k5⟩ :=
        lex_operands_operators a b c hi.toList lo.toList t2 t1 hi lo ha hb hc l2 l1 _ rfl
      rw [parseExpression_mul_rel n _ hi lo o0 (by rw [k1]; exact ht2) p2 (by rw [k3]; exact ht1)
        p4 (by rw [k5]; rfl), n0, n2, n4]
      rfl

end Parser

open Parser in
/-- Claim C10: multiplicative operators (`*`, `/`, `and`, `mod`) bind tighter than additive ones
(`+`, `-`, `or`), which bind tighter than relational ones (`=`, `<>`, `<`, `<=`, `>`, `>=`).
For all primaries `a`, `b`, `c` (identifiers that are not keywords, or integer literals) and
enough fuel, `a + b * c` parses to `+`(a, `*`(b, c)), `a * b + c` to `+`(`*`(a, b), c) and
`a < b + c` to `<`(a, `+`(b, c)), each operand being its wrapper node; and for every operator
`lo` of a weaker level and every operator `hi` of a tighter level, `a lo b hi c` parses to
`lo`(a, `hi`(b, c)) and `a hi b lo c` to `lo`(`hi`(a, b), c). -/
theorem C10_operator_precedence (a b c : List Char) (ha : isPrimaryText a = true)
    (hb : isPrimaryText b = true) (hc : isPrimaryText c = true) (fuel : Nat) (hf : 6 ≤ fuel) :
    (parseExpression fuel (Parser.new (a ++ " + ".toList ++ b ++ " * ".toList ++ c))).map
        (fun r => r.1)
      = some (some (ASTNode.mk "+"
          [primaryNode a, ASTNode.mk "*" [primaryNode b, primaryNode c] ""] ""))
    ∧ (parseExpression fuel (Parser.new (a ++ " * ".toList ++ b ++ " + ".toList ++ c))).map
        (fun r => r.1)
      = some (some (ASTNode.mk "+"
          [ASTNode.mk "*" [primaryNode a, primaryNode b] "", primaryNode c] ""))
    ∧ (parseExpression fuel (Parser.new (a ++ " < ".toList ++ b ++ " + ".toList ++ c))).map
        (fun r => r.1)
      = some (some (ASTNode.mk "<"
          [primaryNode a, ASTNode.mk "+" [primaryNode b, primaryNode c] ""] ""))
    ∧ (∀ lo hi : String,
        ((lo ∈ addOps ∧ hi ∈ mulOps) ∨ (lo ∈ relOps ∧ hi ∈ addOps)
          ∨ (lo ∈ relOps ∧ hi ∈ mulOps)) →
        (parseExpression fuel (Parser.new (a ++ " ".toList ++ lo.toList ++ " ".toList ++ b
            ++ " ".toList ++ hi.toList ++ " ".toList ++ c))).map (fun r => r.1)
          = some (some (ASTNode.mk lo
              [primaryNode a, ASTNode.mk hi [primaryNode b, primaryNode c] ""] ""))
        ∧ (parseExpression fuel (Parser.new (a ++ " ".toList ++ hi.toList ++ " ".toList ++ b
            ++ " ".toList ++ lo.toList ++ " ".toList ++ c))).map (fun r => r.1)
          = some (some (ASTNode.mk lo
              [ASTNode.mk hi [primaryNode a, primaryNode b] "", primaryNode c] ""))) := by
  obtain ⟨e1, e2, e3⟩ := precedence_examples a b c ha hb hc fuel hf
  refine ⟨e1, e2, e3, ?_⟩
  intro lo hi ho
  obtain ⟨n, rfl⟩ : ∃ n, fuel = n + 6 := ⟨fuel - 6, by omega⟩
  exact precedence_text a b c ha hb hc n lo hi ho

open Parser in
theorem C10_operator_precedence_witness :
    isPrimaryText "x".toList = true ∧ isPrimaryText "2".toList = true
      ∧ isPrimaryText "y".toList = true ∧ 6 ≤ 6
      ∧ (parseExpression 6 (Parser.new "x + 2 * y".toList)).map (fun r => r.1)
          = some (some (ASTNode.mk "+"
              [ASTNode.mk "<identifier>" [ASTNode.mk "x" [] ""] "",
               ASTNode.mk "*" [ASTNode.mk "<integer>" [ASTNode.mk "2" [] ""] "",
                 ASTNode.mk "<identifier>" [ASTNode.mk "y" [] ""] ""] ""] ""))
      ∧ ("<=" ∈ relOps ∧ "mod" ∈ mulOps)
      ∧ (parseExpression 6 (Parser.new "x <= 2 mod y".toList)).map (fun r => r.1)
          = some (some (ASTNode.mk "<="
              [ASTNode.mk "<identifier>" [ASTNode.mk "x" [] ""] "",
               ASTNode.mk "mod" [ASTNode.mk "<integer>" [ASTNode.mk "2" [] ""] "",
                 ASTNode.mk "<identifier>" [ASTNode.mk "y" [] ""] ""] ""] ""))
      ∧ (parseExpression 6 (Parser.new "x mod 2 <= y".toList)).map (fun r => r.1)
          = some (some (ASTNode.mk "<="
              [ASTNode.mk "mod" [ASTNode.mk "<identifier>" [ASTNode.mk "x" [] ""] "",
                 ASTNode.mk "<integer>" [ASTNode.mk "2" [] ""] ""] "",
               ASTNode.mk "<identifier>" [ASTNode.mk "y" [] ""] ""] "")) :=
  ⟨by decide, by decide, by decide, by decide,
   (C10_operator_precedence "x".toList "2".toList "y".toList (by decide) (by decide) (by decide)
     6 (by decide)).1,
   ⟨by decide, by decide⟩,
   ((C10_operator_precedence "x".toList "2".toList "y".toList (by decide) (by decide) (by decide)
     6 (by decide)).2.2.2 "<=" "mod" (Or.inr (Or.inr ⟨by decide, by decide⟩))).1,
   ((C10_operator_precedence "x".toList "2".toList "y".toList (by decide) (by decide) (by decide)
     6 (by decide)).2.2.2 "<=" "mod" (Or.inr (Or.inr ⟨by decide, by decide⟩))).2⟩

open TokenType

namespace Parser

/-! ## Unary prefix operators -/

/-- Unary plus before a one-token operand: `parsePrimary` returns the operand alone. -/
theorem parsePrimary_plus_operand (n : Nat) (s : Parser) (h0 : s.currentToken.type = TOK_PLUS)
    (h1 : isOperand s.advance.currentToken = true)
    (hn : s.advance.advance.currentToken.type ≠ TOK_LPAREN) :
    parsePrimary (n + 2) s
      = some (some (operandNode s.advance.currentToken), s.advance.advance) := by
  rw [parsePrimary]
  simp [matchTok, h0, parsePrimary_operand _ _ h1 hn]

/-- Unary minus before a one-token operand: a node `-` over the operand. -/
theorem parsePrimary_minus_operand (n : Nat) (s : Parser)
    (h0 : s.currentToken.type = TOK_MINUS) (h1 : isOperand s.advance.currentToken = true)
    (hn : s.advance.advance.currentToken.type ≠ TOK_LPAREN) :
    parsePrimary (n + 2) s
      = some (some ((ASTNode.new "-").addChild (some (operandNode s.advance.currentToken))),
          s.advance.advance) := by
  rw [parsePrimary]
  simp [matchTok, h0, parsePrimary_operand _ _ h1 hn]

/-- The operator `not` before a one-token operand: a node `not` over the operand. -/
theorem parsePrimary_not_operand (n : Nat) (s : Parser) (h0 : s.currentToken.type = TOK_NOT)
    (h1 : isOperand s.advance.currentToken = true)
    (hn : s.advance.advance.currentToken.type ≠ TOK_LPAREN) :
    parsePrimary (n + 2) s
      = some (some ((ASTNode.new "not").addChild (some (operandNode s.advance.currentToken))),
          s.advance.advance) := by
  rw [parsePrimary]
  simp [matchTok, h0, parsePrimary_operand _ _ h1 hn]

/-- An expression made of one primary: what `parsePrimary` returns, when the token after it
continues no expression. -/
theorem parseExpression_of_primary (n : Nat) (s s1 : Parser) (x : Option ASTNode)
    (h : parsePrimary (n + 1) s = some (x, s1))
    (he : endsExpression s1.currentToken.type = true) :
    parseExpression (n + 4) s = some (x, s1) := by
  obtain ⟨e1, e2, e3, _⟩ := endsExpression_iff he
  simp [parseExpression, parseTerm, parseFactor, parseExpressionLoop, parseTermLoop,
    parseFactorLoop, h, e1, e2, e3]

/-- A primary, a multiplicative operator and a one-token operand: the operator node takes what
`parsePrimary` returned as its left child. -/
theorem parseExpression_primary_mul (n : Nat) (s s1 : Parser) (x : Option ASTNode) (o : String)
    (h : parsePrimary (n + 3) s = some (x, s1))
    (h2 : mulOp s1.currentToken.type = some o)
    (h3 : isOperand s1.advance.currentToken = true)
    (h4 : endsExpression s1.advance.advance.currentToken.type = true) :
    parseExpression (n + 6) s
      = some (some (mkOpNode o x (some (operandNode s1.advance.currentToken))),
          s1.advance.advance) := by
  obtain ⟨e1, e2, e3, e4⟩ := endsExpression_iff h4
  simp [parseExpression, parseTerm, parseFactor, parseExpressionLoop, parseTermLoop,
    parseFactorLoop, h, h2, parsePrimary_operand _ _ h3 e4, e1, e2, e3]

/-- A primary, a relational operator and a one-token operand: the operator node takes what
`parsePrimary` returned as its left child. -/
theorem parseExpression_primary_rel (n : Nat) (s s1 : Parser) (x : Option ASTNode) (o : String)
    (h : parsePrimary (n + 3) s = some (x, s1))
    (h2 : relOp s1.currentToken.type = some o)
    (h3 : isOperand s1.advance.currentToken = true)
    (h4 : endsExpression s1.advance.advance.currentToken.type = true) :
    parseExpression (n + 6) s
      = some (some (mkOpNode o x (some (operandNode s1.advance.currentToken))),
          s1.advance.advance) := by
  obtain ⟨r1, r2, r3⟩ := relOp_some h2
  obtain ⟨e1, e2, e3, e4⟩ := endsExpression_iff h4
  simp [parseExpression, parseTerm, parseFactor, parseExpressionLoop, parseTermLoop,
    parseFactorLoop, h, h2, r2, r3, parsePrimary_operand _ _ h3 e4, e1, e2, e3]

/-- Unary plus: `parsePrimary` skips the `+` and returns whatever the primary after it gives. -/
theorem parsePrimary_plus (k : Nat) (s : Parser) (h : s.currentToken.type = TOK_PLUS) :
    parsePrimary (k + 1) s = parsePrimary k s.advance := by
  rw [parsePrimary]
  simp [matchTok, h]

/-- Unary minus: a node `-` over the one primary that follows. -/
theorem parsePrimary_minus (k : Nat) (s : Parser) (h : s.currentToken.type = TOK_MINUS) :
    parsePrimary (k + 1) s
      = (parsePrimary k s.advance).map
          (fun r => (some ((ASTNode.new "-").addChild r.1), r.2)) := by
  rw [parsePrimary]
  simp only [matchTok, h, decide_True, if_true]
  cases parsePrimary k s.advance <;> rfl

/-- The operator `not`: a node `not` over the one primary that follows. -/
theorem parsePrimary_not (k : Nat) (s : Parser) (h : s.currentToken.type = TOK_NOT) :
    parsePrimary (k + 1) s
      = (parsePrimary k s.advance).map
          (fun r => (some ((ASTNode.new "not").addChild r.1), r.2)) := by
  rw [parsePrimary]
  simp only [matchTok, h, decide_True, if_true]
  simp only [show (decide (TOK_NOT = TOK_MINUS)) = false by decide,
    show (decide (TOK_NOT = TOK_PLUS)) = false by decide, Bool.false_eq_true, if_false]
  cases parsePrimary k s.advance <;> rfl

theorem isSingleCharToken_plus (n : Char) : Lexer.isSingleCharToken '+' n = true := by
  simp [Lexer.isSingleCharToken, show isspace '+' = false by decide,
    show isalpha '+' = false by decide, show isdigit '+' = false by decide]

theorem isSingleCharToken_minus (n : Char) : Lexer.isSingleCharToken '-' n = true := by
  simp [Lexer.isSingleCharToken, show isspace '-' = false by decide,
    show isalpha '-' = false by decide, show isdigit '-' = false by decide]

end Parser

open Parser in
/-- Claim C12: unary prefix operators bind to a single primary.  For all primaries `p`, `a`,
`b` (identifiers that are not keywords, or integer literals): `+p` parses to the same tree as
`p`, the wrapper of `p`, with no node for the plus; `-p` and `not p` parse to a one-child node
labeled `-`, `not` over the wrapper of `p`; `-a * b` parses to `*`(`-`(a), b) and `not a = b`
to `=`(`not`(a), b).  For a primary of any form: at `+`, `parsePrimary` returns what
`parsePrimary` returns after the `+`; at `-` and at `not` it wraps that result, the one primary
that follows, in a node labeled `-`, `not`. -/
theorem C12_unary_operators (p a b : List Char) (hp : isPrimaryText p = true)
    (ha : isPrimaryText a = true) (hb : isPrimaryText b = true) (fuel : Nat) (hf : 6 ≤ fuel) :
    (parseExpression fuel (Parser.new ("+".toList ++ p))).map (fun r => r.1)
      = some (some (primaryNode p))
    ∧ (parseExpression fuel (Parser.new p)).map (fun r => r.1) = some (some (primaryNode p))
    ∧ (parseExpression fuel (Parser.new ("-".toList ++ p))).map (fun r => r.1)
      = some (some (ASTNode.mk "-" [primaryNode p] ""))
    ∧ (parseExpression fuel (Parser.new ("not ".toList ++ p))).map (fun r => r.1)
      = some (some (ASTNode.mk "not" [primaryNode p] ""))
    ∧ (parseExpression fuel (Parser.new ("-".toList ++ a ++ " * ".toList ++ b))).map
        (fun r => r.1)
      = some (some (ASTNode.mk "*" [ASTNode.mk "-" [primaryNode a] "", primaryNode b] ""))
    ∧ (parseExpression fuel (Parser.new ("not ".toList ++ a ++ " = ".toList ++ b))).map
        (fun r => r.1)
      = some (some (ASTNode.mk "=" [ASTNode.mk "not" [primaryNode a] "", primaryNode b] ""))
    ∧ (∀ (k : Nat) (s : Parser), s.currentToken.type = TOK_PLUS →
      parsePrimary (k + 1) s = parsePrimary k s.advance)
    ∧ (∀ (k : Nat) (s : Parser), s.currentToken.type = TOK_MINUS →
      parsePrimary (k + 1) s
        = (parsePrimary k s.advance).map
            (fun r => (some ((ASTNode.new "-").addChild r.1), r.2)))
    ∧ (∀ (k : Nat) (s : Parser), s.currentToken.type = TOK_NOT →
      parsePrimary (k + 1) s
        = (parsePrimary k s.advance).map
            (fun r => (some ((ASTNode.new "not").addChild r.1), r.2))) := by
  obtain ⟨n, rfl⟩ : ∃ n, fuel = n + 6 := ⟨fuel - 6, by omega⟩
  have hp0 : p = p ++ [] := (List.append_nil p).symm
  have hb0 : b = b ++ [] := (List.append_nil b).symm
  refine ⟨?_, ?_, ?_, ?_, ?_, ?_, parsePrimary_plus, parsePrimary_minus, parsePrimary_not⟩
  · have k0 := new_at (LexTo.single (c := '+') (r := p) (isSingleCharToken_plus _))
    have k1 := k0.advance (by rw [hp0]; exact LexTo.primary hp (Or.inl rfl))
    have k2 := k1.advance LexTo.eof
    show (parseExpression (n + 2 + 4) (Parser.new ('+' :: p))).map (fun r => r.1) = _
    rw [parseExpression_of_primary (n + 2) _ _ _
      (parsePrimary_plus_operand (n + 1) _ k0.1 k1.operand.1 (by rw [k2.1]; decide))
      (by rw [k2.1]; rfl), k1.operand.2]
    rfl
  · have k0 : (Parser.new p).At (if Lexer.isNumberText p = true then TOK_INTEGER
        else TOK_IDENTIFIER) (String.mk p) [] :=
      by
        have h := new_at (LexTo.primary (x := p) (r := []) hp (Or.inl rfl))
        rwa [List.append_nil] at h
    have k1 := k0.advance LexTo.eof
    show (parseExpression (n + 2 + 4) (Parser.new p)).map (fun r => r.1) = _
    rw [parseExpression_of_primary (n + 2) _ _ _
      (parsePrimary_operand (n + 2) _ k0.operand.1 (by rw [k1.1]; decide))
      (by rw [k1.1]; rfl), k0.operand.2]
    rfl
  · have k0 := new_at (LexTo.single (c := '-') (r := p) (isSingleCharToken_minus _))
    have k1 := k0.advance (by rw [hp0]; exact LexTo.primary hp (Or.inl rfl))
    have k2 := k1.advance LexTo.eof
    show (parseExpression (n + 2 + 4) (Parser.new ('-' :: p))).map (fun r => r.1) = _
    rw [parseExpression_of_primary (n + 2) _ _ _
      (parsePrimary_minus_operand (n + 1) _ k0.1 k1.operand.1 (by rw [k2.1]; decide))
      (by rw [k2.1]; rfl), k1.operand.2]
    rfl
  · have k0 := new_at (LexTo.identifier (p := "not".toList) (r := ' ' :: p) (by decide) rfl)
    have k1 := k0.advance (LexTo.space (by decide)
      (by rw [hp0]; exact LexTo.primary hp (Or.inl rfl)))
    have k2 := k1.advance LexTo.eof
    show (parseExpression (n + 2 + 4) (Parser.new ("not".toList ++ ' ' :: p))).map
      (fun r => r.1) = _
    rw [parseExpression_of_primary (n + 2) _ _ _
      (parsePrimary_not_operand (n + 1) _ k0.1 k1.operand.1 (by rw [k2.1]; decide))
      (by rw [k2.1]; rfl), k1.operand.2]
    rfl
  · have hin : "-".toList ++ a ++ " * ".toList ++ b = '-' :: (a ++ ' ' :: '*' :: ' ' :: b) := by
      simp
    rw [hin]
    have k0 := new_at (LexTo.single (c := '-') (r := a ++ ' ' :: '*' :: ' ' :: b)
      (isSingleCharToken_minus _))
    have k1 := k0.advance (LexTo.primary ha (Or.inr ⟨_, rfl⟩))
    have k2 := k1.advance (LexTo.space (by decide) (LexTo.single (c := '*') (r := ' ' :: b)
      (show Lexer.isSingleCharToken '*' ' ' = true by decide)))
    have k3 := k2.advance (LexTo.space (by decide)
      (by rw [hb0]; exact LexTo.primary hb (Or.inl rfl)))
    have k4 := k3.advance LexTo.eof
    rw [parseExpression_primary_mul n _ _ _ "*"
      (parsePrimary_minus_operand (n + 1) _ k0.1 k1.operand.1 (by rw [k2.1]; decide))
      (by rw [k2.1]; rfl) k3.operand.1 (by rw [k4.1]; rfl), k1.operand.2, k3.operand.2]
    rfl
  · have hin : "not ".toList ++ a ++ " = ".toList ++ b
        = "not".toList ++ ' ' :: (a ++ ' ' :: '=' :: ' ' :: b) := by
      simp
    rw [hin]
    have k0 := new_at (LexTo.identifier (p := "not".toList)
      (r := ' ' :: (a ++ ' ' :: '=' :: ' ' :: b)) (by decide) rfl)
    have k1 := k0.advance (LexTo.space (by decide) (LexTo.primary ha (Or.inr ⟨_, rfl⟩)))
    have k2 := k1.advance (LexTo.space (by decide) (LexTo.single (c := '=') (r := ' ' :: b)
      (show Lexer.isSingleCharToken '=' ' ' = true by decide)))
    have k3 := k2.advance (LexTo.space (by decide)
      (by rw [hb0]; exact LexTo.primary hb (Or.inl rfl)))
    have k4 := k3.advance LexTo.eof
    rw [parseExpression_primary_rel n _ _ _ "="
      (parsePrimary_not_operand (n + 1) _ k0.1 k1.operand.1 (by rw [k2.1]; decide))
      (by rw [k2.1]; rfl) k3.operand.1 (by rw [k4.1]; rfl), k1.operand.2, k3.operand.2]
    rfl

open Parser in
theorem C12_unary_operators_witness :
    isPrimaryText "x".toList = true ∧ isPrimaryText "a".toList = true
      ∧ isPrimaryText "7".toList = true ∧ 6 ≤ 6
      ∧ (parseExpression 6 (Parser.new "+x".toList)).map (fun r => r.1)
          = some (some (ASTNode.mk "<identifier>" [ASTNode.mk "x" [] ""] ""))
      ∧ (parseExpression 6 (Parser.new "-a * 7".toList)).map (fun r => r.1)
          = some (some (ASTNode.mk "*"
              [ASTNode.mk "-" [ASTNode.mk "<identifier>" [ASTNode.mk "a" [] ""] ""] "",
               ASTNode.mk "<integer>" [ASTNode.mk "7" [] ""] ""] "")) :=
  ⟨by decide, by decide, by decide, by decide,
   (C12_unary_operators "x".toList "a".toList "7".toList (by decide) (by decide) (by decide)
     6 (by decide)).1,
   (C12_unary_operators "x".toList "a".toList "7".toList (by decide) (by decide) (by decide)
     6 (by decide)).2.2.2.2.1⟩

open TokenType

/-! ## Statement lists -/

namespace Parser

theorem consume_of_type {p : Parser} {t : TokenType} (h : p.currentToken.type = t) :
    p.consume t = (true, p.advance) := by
  simp [consume, matchTok, h]

theorem consume_of_ne {p : Parser} {t : TokenType} (h : p.currentToken.type ≠ t) :
    p.consume t = (false, p) := by
  simp [consume, matchTok, h]

/-- At a token that starts no statement form, `parseStatement` returns a `<null>` node and
consumes nothing. -/
theorem parseStatement_null (k : Nat) (s : Parser)
    (h : s.currentToken.type ∉ statementStarts) :
    parseStatement (k + 1) s = some (some (ASTNode.mk "<null>" [] ""), s) := by
  simp only [statementStarts, List.mem_cons, List.mem_singleton, List.not_mem_nil, or_false,
    not_or] at h
  obtain ⟨h1, h2, h3, h4, h5, h6, h7, h8, h9, h10, h11, h12⟩ := h
  rw [parseStatement]
  simp only [matchTok, decide_eq_true_eq]
  rw [if_neg h1, if_neg h2, if_neg h3, if_neg h4, if_neg h5, if_neg h6, if_neg h7, if_neg h8,
    if_neg h9, if_neg h10, if_neg h11, if_neg h12]
  rfl

/-- One iteration of the statement loop of `parseBody` that ends the loop: the statement is
followed by `end`. -/
theorem parseBodyLoop_last (k : Nat) (block node : ASTNode) (p q : Parser)
    (hp : p.currentToken.type ≠ TOK_END)
    (hs : parseStatement k p = some (some node, q))
    (hq : q.currentToken.type = TOK_END) :
    parseBodyLoop (k + 1) block p = some (block.addChild (some node), q) := by
  have hne : q.currentToken.type ≠ TOK_SEMICOLON := by rw [hq]; decide
  rw [parseBodyLoop]
  simp [matchTok, hp, hs, consume_of_ne hne, hq]

/-- One iteration of the statement loop of `parseBody` that ends the loop: the statement is
followed by `;` and `end`, and a `<null>` node is added after it. -/
theorem parseBodyLoop_trailing (k : Nat) (block node : ASTNode) (p q : Parser)
    (hp : p.currentToken.type ≠ TOK_END)
    (hs : parseStatement k p = some (some node, q))
    (hq : q.currentToken.type = TOK_SEMICOLON)
    (hq2 : q.advance.currentToken.type = TOK_END) :
    parseBodyLoop (k + 1) block p
      = some ((block.addChild (some node)).addChild (some (ASTNode.new "<null>")),
          q.advance) := by
  rw [parseBodyLoop]
  simp [matchTok, hp, hs, consume_of_type hq, hq2]

/-- One iteration of the statement loop of `parseBody` that goes on: the statement is followed
by `;` and something other than `end`. -/
theorem parseBodyLoop_next (k : Nat) (block node : ASTNode) (p q : Parser)
    (hp : p.currentToken.type ≠ TOK_END)
    (hs : parseStatement k p = some (some node, q))
    (hq : q.currentToken.type = TOK_SEMICOLON)
    (hq2 : q.advance.currentToken.type ≠ TOK_END) :
    parseBodyLoop (k + 1) block p = parseBodyLoop k (block.addChild (some node)) q.advance := by
  rw [parseBodyLoop]
  simp [matchTok, hp, hs, consume_of_type hq, hq2]

theorem addChild_some_eq (b n : ASTNode) :
    b.addChild (some n) = ASTNode.mk b.nodeType (b.children ++ [n]) b.value := rfl

/-- The statement loop of `parseBody` on a statement list: the nodes of the statements are
appended in order; a list that ends at `end` adds nothing more, a list that ends at `;` followed
by `end` adds one `<null>` node. -/
theorem parseBodyLoop_seq {p q : Parser} {nodes : List ASTNode}
    (hs : StmtSeq TOK_END p nodes q) :
    ∀ block : ASTNode, p.currentToken.type ≠ TOK_END →
      (q.currentToken.type = TOK_END →
        ∃ N, ∀ fuel, N ≤ fuel → parseBodyLoop fuel block p
          = some (ASTNode.mk block.nodeType (block.children ++ nodes) block.value, q))
      ∧ (q.currentToken.type = TOK_SEMICOLON → q.advance.currentToken.type = TOK_END →
        ∃ N, ∀ fuel, N ≤ fuel → parseBodyLoop fuel block p
          = some (ASTNode.mk block.nodeType
              (block.children ++ nodes ++ [ASTNode.mk "<null>" [] ""]) block.value,
              q.advance)) := by
  induction hs with
  | @one p q node h1 =>
    intro block hp
    obtain ⟨f0, hf0⟩ := h1
    constructor
    · intro hq
      refine ⟨f0 + 1, fun fuel hf => ?_⟩
      obtain ⟨k, rfl⟩ : ∃ k, fuel = k + 1 := ⟨fuel - 1, by omega⟩
      rw [parseBodyLoop_last k block node p q hp (parseStatement_mono hf0 (by omega)) hq]
      rfl
    · intro hq hq2
      refine ⟨f0 + 1, fun fuel hf => ?_⟩
      obtain ⟨k, rfl⟩ : ∃ k, fuel = k + 1 := ⟨fuel - 1, by omega⟩
      rw [parseBodyLoop_trailing k block node p q hp (parseStatement_mono hf0 (by omega)) hq
        hq2]
      rfl
  | @more p m q node nodes h1 hm hm2 _ ih =>
    intro block hp
    obtain ⟨f0, hf0⟩ := h1
    obtain ⟨ihA, ihB⟩ := ih (block.addChild (some node)) hm2
    constructor
    · intro hq
      obtain ⟨N, hN⟩ := ihA hq
      refine ⟨max f0 N + 1, fun fuel hf => ?_⟩
      obtain ⟨k, rfl⟩ : ∃ k, fuel = k + 1 := ⟨fuel - 1, by omega⟩
      rw [parseBodyLoop_next k block node p m hp (parseStatement_mono hf0 (by omega)) hm hm2,
        hN k (by omega)]
      simp [addChild_some_eq, ASTNode.nodeType, ASTNode.children, ASTNode.value]
    · intro hq hq2
      obtain ⟨N, hN⟩ := ihB hq hq2
      refine ⟨max f0 N + 1, fun fuel hf => ?_⟩
      obtain ⟨k, rfl⟩ : ∃ k, fuel = k + 1 := ⟨fuel - 1, by omega⟩
      rw [parseBodyLoop_next k block node p m hp (parseStatement_mono hf0 (by omega)) hm hm2,
        hN k (by omega)]
      simp [addChild_some_eq, ASTNode.nodeType, ASTNode.children, ASTNode.value]

/-- The body `begin ... end` around a non-empty statement loop. -/
theorem parseBody_of_loop (k : Nat) (p : Parser) (r : ASTNode × Parser)
    (hb : p.currentToken.type = TOK_BEGIN) (h1 : p.advance.currentToken.type ≠ TOK_END)
    (h : parseBodyLoop k (ASTNode.new "block") p.advance = some r) :
    parseBody (k + 1) p = some (some r.1, (r.2.consume TOK_END).2) := by
  rw [parseBody]
  simp [consume_of_type hb, matchTok, h1, h]

/-- The empty body `begin end`. -/
theorem parseBody_empty (k : Nat) (p : Parser)
    (hb : p.currentToken.type = TOK_BEGIN) (h1 : p.advance.currentToken.type = TOK_END) :
    parseBody (k + 1) p = some (some (ASTNode.mk "block" [] ""), p.advance.advance) := by
  rw [parseBody]
  simp [consume_of_type hb, matchTok, h1, consume_of_type h1, ASTNode.new]

/-- A body whose statement list ends at `end`: the children of the block are the nodes of the
statements. -/
theorem parseBody_seq {p q : Parser} {nodes : List ASTNode}
    (hb : p.currentToken.type = TOK_BEGIN) (h1 : p.advance.currentToken.type ≠ TOK_END)
    (hs : StmtSeq TOK_END p.advance nodes q) (hq : q.currentToken.type = TOK_END) :
    ∃ N, ∀ fuel, N ≤ fuel →
      parseBody fuel p = some (some (ASTNode.mk "block" nodes ""), q.advance) := by
  obtain ⟨N, hN⟩ := (parseBodyLoop_seq hs (ASTNode.new "block") h1).1 hq
  refine ⟨N + 1, fun fuel hf => ?_⟩
  obtain ⟨k, rfl⟩ : ∃ k, fuel = k + 1 := ⟨fuel - 1, by omega⟩
  rw [parseBody_of_loop k p _ hb h1 (hN k (by omega))]
  simp [consume_of_type hq, ASTNode.new, ASTNode.nodeType, ASTNode.children, ASTNode.value]

/-- A body whose statement list ends at `;` followed by `end`: one `<null>` node follows the
nodes of the statements. -/
theorem parseBody_seq_trailing {p q : Parser} {nodes : List ASTNode}
    (hb : p.currentToken.type = TOK_BEGIN) (h1 : p.advance.currentToken.type ≠ TOK_END)
    (hs : StmtSeq TOK_END p.advance nodes q) (hq : q.currentToken.type = TOK_SEMICOLON)
    (hq2 : q.advance.currentToken.type = TOK_END) :
    ∃ N, ∀ fuel, N ≤ fuel →
      parseBody fuel p
        = some (some (ASTNode.mk "block" (nodes ++ [ASTNode.mk "<null>" [] ""]) ""),
            q.advance.advance) := by
  obtain ⟨N, hN⟩ := (parseBodyLoop_seq hs (ASTNode.new "block") h1).2 hq hq2
  refine ⟨N + 1, fun fuel hf => ?_⟩
  obtain ⟨k, rfl⟩ : ∃ k, fuel = k + 1 := ⟨fuel - 1, by omega⟩
  rw [parseBody_of_loop k p _ hb h1 (hN k (by omega))]
  simp [consume_of_type hq2, ASTNode.new, ASTNode.nodeType, ASTNode.children, ASTNode.value]

end Parser

open TokenType

namespace Parser

/-- An assignment statement: an identifier, `:=` and an expression. -/
theorem parseStatement_assign (k : Nat) (s : Parser) (r : Option ASTNode × Parser)
    (h0 : s.currentToken.type = TOK_IDENTIFIER)
    (h1 : s.advance.currentToken.type = TOK_ASSIGN)
    (h : parseExpression k s.advance.advance = some r) :
    parseStatement (k + 1) s
      = some (some (((ASTNode.new "assign").addChild
          (some (createIdentifierNode s.currentToken.value))).addChild r.1), r.2) := by
  rw [parseStatement]
  simp [matchTok, h0, h1, h]

/-- Tokens `A op B` with `op` additive: the operator node over the two operands. -/
theorem parseExpression_operand_add (n : Nat) (s : Parser) (o : String)
    (h0 : isOperand s.currentToken = true)
    (h1 : addOp s.advance.currentToken.type = some o)
    (h2 : isOperand s.advance.advance.currentToken = true)
    (h3 : endsExpression s.advance.advance.advance.currentToken.type = true) :
    parseExpression (n + 5) s
      = some (some (mkOpNode o (some (operandNode s.currentToken))
          (some (operandNode s.advance.advance.currentToken))),
          s.advance.advance.advance) := by
  obtain ⟨a1, a2, _, _⟩ := addOp_some h1
  obtain ⟨e1, e2, e3, e4⟩ := endsExpression_iff h3
  simp [parseExpression, parseTerm, parseFactor, parseExpressionLoop, parseTermLoop,
    parseFactorLoop, parsePrimary_operand _ _ h0 a1, parsePrimary_operand _ _ h2 e4, h1, a2,
    e1, e2, e3]

/-- The statement `x := m + n` read from the tokens: an identifier, `:=`, an integer literal,
`+`, an integer literal, and a token that continues no expression. -/
theorem parseStatement_assign_sum (k : Nat) (s : Parser)
    (h0 : s.currentToken.type = TOK_IDENTIFIER)
    (h1 : s.advance.currentToken.type = TOK_ASSIGN)
    (h2 : s.advance.advance.currentToken.type = TOK_INTEGER)
    (h3 : s.advance.advance.advance.currentToken.type = TOK_PLUS)
    (h4 : s.advance.advance.advance.advance.currentToken.type = TOK_INTEGER)
    (h5 : endsExpression s.advance.advance.advance.advance.advance.currentToken.type = true) :
    parseStatement (k + 6) s
      = some (some (ASTNode.mk "assign"
          [ASTNode.mk "<identifier>" [ASTNode.mk s.currentToken.value [] ""] "",
           ASTNode.mk "+"
             [ASTNode.mk "<integer>" [ASTNode.mk s.advance.advance.currentToken.value [] ""] "",
              ASTNode.mk "<integer>"
                [ASTNode.mk s.advance.advance.advance.advance.currentToken.value [] ""] ""]
             ""] ""),
          s.advance.advance.advance.advance.advance) := by
  rw [parseStatement_assign (k + 5) s _ h0 h1
    (parseExpression_operand_add k _ "+" (by simp [isOperand, h2]) (by rw [h3]; rfl)
      (by simp [isOperand, h4]) h5)]
  simp [operandNode, h2, h4, mkOpNode, createIntegerNode, createIdentifierNode, ASTNode.new,
    ASTNode.addChild, ASTNode.nodeType, ASTNode.children, ASTNode.value]

end Parser

open Parser in
/-- Claim C13: for every identifier `x` that is not a keyword and all integer literals `m`, `n`,
the statement `x := m + n` parses to an `assign` node with exactly two children: the
`<identifier>` wrapper of `x`, then a `+` node over the `<integer>` wrappers of `m` and `n`, in
this order; inside a body, `begin x := m + n end` gives a `block` holding that node. -/
theorem C13_assign_sum (x m n : List Char) (hx : Lexer.isIdentifierText x = true)
    (hk : keywords.lookup (String.mk x) = none) (hm : Lexer.isNumberText m = true)
    (hn : Lexer.isNumberText n = true) (fuel : Nat) (hf : 8 ≤ fuel) :
    (parseStatement fuel (Parser.new (x ++ " := ".toList ++ m ++ " + ".toList ++ n))).map
        (fun r => r.1)
      = some (some (ASTNode.mk "assign"
          [ASTNode.mk "<identifier>" [ASTNode.mk (String.mk x) [] ""] "",
           ASTNode.mk "+"
             [ASTNode.mk "<integer>" [ASTNode.mk (String.mk m) [] ""] "",
              ASTNode.mk "<integer>" [ASTNode.mk (String.mk n) [] ""] ""] ""] ""))
    ∧ (parseBody fuel (Parser.new ("begin ".toList ++ x ++ " := ".toList ++ m ++ " + ".toList
          ++ n ++ " end".toList))).map (fun r => r.1)
      = some (some (ASTNode.mk "block"
          [ASTNode.mk "assign"
            [ASTNode.mk "<identifier>" [ASTNode.mk (String.mk x) [] ""] "",
             ASTNode.mk "+"
               [ASTNode.mk "<integer>" [ASTNode.mk (String.mk m) [] ""] "",
                ASTNode.mk "<integer>" [ASTNode.mk (String.mk n) [] ""] ""] ""] ""] "")) := by
  obtain ⟨k, rfl⟩ : ∃ k, fuel = k + 8 := ⟨fuel - 8, by omega⟩
  have hkw := keywordType_of_lookup_none hk
  constructor
  · have hin : x ++ " := ".toList ++ m ++ " + ".toList ++ n
        = x ++ (' ' :: ':' :: '=' :: ' ' :: (m ++ (' ' :: '+' :: ' ' :: (n ++ [])))) := by
      simp
    rw [hin]
    have k0 := new_at (LexTo.identifier (p := x)
      (r := ' ' :: ':' :: '=' :: ' ' :: (m ++ (' ' :: '+' :: ' ' :: (n ++ [])))) hx rfl)
    rw [hkw] at k0
    have k1 := k0.advance (LexTo.space (by decide) (LexTo.assign (by simp)))
    have k2 := k1.advance (LexTo.space (by decide) (LexTo.number hm rfl))
    have k3 := k2.advance (LexTo.space (by decide) (LexTo.single (c := '+')
      (r := ' ' :: (n ++ [])) (show Lexer.isSingleCharToken '+' ' ' = true by decide)))
    have k4 := k3.advance (LexTo.space (by decide) (LexTo.number hn rfl))
    have k5 := k4.advance LexTo.eof
    show (parseStatement (k + 2 + 6) _).map (fun r => r.1) = _
    rw [parseStatement_assign_sum (k + 2) _ k0.1 k1.1 k2.1 k3.1 k4.1 (by rw [k5.1]; rfl),
      k0.2.1, k2.2.1, k4.2.1]
    rfl
  · have hin : "begin ".toList ++ x ++ " := ".toList ++ m ++ " + ".toList ++ n ++ " end".toList
        = "begin".toList ++ (' ' :: (x ++ (' ' :: ':' :: '=' :: ' ' ::
            (m ++ (' ' :: '+' :: ' ' :: (n ++ (' ' :: ("end".toList ++ [])))))))) := by
      simp
    rw [hin]
    have b0 := new_at (LexTo.identifier (p := "begin".toList)
      (r := ' ' :: (x ++ (' ' :: ':' :: '=' :: ' ' ::
            (m ++ (' ' :: '+' :: ' ' :: (n ++ (' ' :: ("end".toList ++ []))))))))
      (by decide) rfl)
    have k0 := b0.advance (LexTo.space (by decide) (LexTo.identifier hx rfl))
    rw [hkw] at k0
    have k1 := k0.advance (LexTo.space (by decide) (LexTo.assign (by simp)))
    have k2 := k1.advance (LexTo.space (by decide) (LexTo.number hm rfl))
    have k3 := k2.advance (LexTo.space (by decide) (LexTo.single (c := '+')
      (r := ' ' :: (n ++ (' ' :: ("end".toList ++ []))))
      (show Lexer.isSingleCharToken '+' ' ' = true by decide)))
    have k4 := k3.advance (LexTo.space (by decide) (LexTo.number hn rfl))
    have k5 := k4.advance (LexTo.space (by decide) (LexTo.identifier (p := "end".toList)
      (r := []) (by decide) rfl))
    have hb : (Parser.new ("begin".toList ++ (' ' :: (x ++ (' ' :: ':' :: '=' :: ' ' ::
        (m ++ (' ' :: '+' :: ' ' :: (n ++ (' ' :: ("end".toList ++ []))))))))
        )).currentToken.type = TOK_BEGIN := by rw [b0.1]; rfl
    have he : ∀ s : Parser, s.currentToken.type = Lexer.keywordType (String.mk "end".toList) →
        s.currentToken.type = TOK_END := fun s h => by rw [h]; rfl
    have h5 := he _ k5.1
    have hst := parseStatement_assign_sum k _ k0.1 k1.1 k2.1 k3.1 k4.1 (by rw [h5]; rfl)
    have hl := parseBodyLoop_last (k + 6) (ASTNode.new "block") _ _ _
      (by rw [k0.1]; decide) hst h5
    show (parseBody (k + 7 + 1) _).map (fun r => r.1) = _
    rw [parseBody_of_loop (k + 7) _ _ hb (by rw [k0.1]; decide) hl, k0.2.1, k2.2.1, k4.2.1]
    rfl

open Parser in
theorem C13_assign_sum_witness :
    Lexer.isIdentifierText "x".toList = true ∧ keywords.lookup (String.mk "x".toList) = none
      ∧ Lexer.isNumberText "1".toList = true ∧ Lexer.isNumberText "2".toList = true ∧ 8 ≤ 8
      ∧ (parseStatement 8 (Parser.new "x := 1 + 2".toList)).map (fun r => r.1)
          = some (some (ASTNode.mk "assign"
              [ASTNode.mk "<identifier>" [ASTNode.mk "x" [] ""] "",
               ASTNode.mk "+"
                 [ASTNode.mk "<integer>" [ASTNode.mk "1" [] ""] "",
                  ASTNode.mk "<integer>" [ASTNode.mk "2" [] ""] ""] ""] "")) :=
  ⟨by decide, by decide, by decide, by decide, by decide,
   (C13_assign_sum "x".toList "1".toList "2".toList (by decide) (by decide) (by decide)
     (by decide) 8 (by decide)).1⟩

open TokenType

/-! ## The statement loop of `repeat` -/

namespace Parser

/-- One iteration of the statement loop of `repeat` that ends the loop: the statement is not
followed by `;`. -/
theorem parseRepeatLoop_last (k : Nat) (rep node : ASTNode) (p q : Parser)
    (hs : parseStatement k p = some (some node, q))
    (hq : q.currentToken.type ≠ TOK_SEMICOLON) :
    parseRepeatLoop (k + 1) rep p = some (rep.addChild (some node), q) := by
  rw [parseRepeatLoop]
  simp [hs, consume_of_ne hq]

/-- One iteration of the statement loop of `repeat` that goes on: the statement is followed by
`;` and something other than `until`. -/
theorem parseRepeatLoop_next (k : Nat) (rep node : ASTNode) (p q : Parser)
    (hs : parseStatement k p = some (some node, q))
    (hq : q.currentToken.type = TOK_SEMICOLON)
    (hq2 : q.advance.currentToken.type ≠ TOK_UNTIL) :
    parseRepeatLoop (k + 1) rep p = parseRepeatLoop k (rep.addChild (some node)) q.advance := by
  rw [parseRepeatLoop]
  simp [hs, consume_of_type hq, matchTok, hq2]

/-- The statement loop of `repeat` on a statement list: the nodes of the statements are
appended in order. -/
theorem parseRepeatLoop_seq {p q : Parser} {nodes : List ASTNode}
    (hs : StmtSeq TOK_UNTIL p nodes q) :
    ∀ rep : ASTNode, q.currentToken.type ≠ TOK_SEMICOLON →
      ∃ N, ∀ fuel, N ≤ fuel → parseRepeatLoop fuel rep p
        = some (ASTNode.mk rep.nodeType (rep.children ++ nodes) rep.value, q) := by
  induction hs with
  | @one p q node h1 =>
    intro rep hq
    obtain ⟨f0, hf0⟩ := h1
    refine ⟨f0 + 1, fun fuel hf => ?_⟩
    obtain ⟨k, rfl⟩ : ∃ k, fuel = k + 1 := ⟨fuel - 1, by omega⟩
    rw [parseRepeatLoop_last k rep node p q (parseStatement_mono hf0 (by omega)) hq]
    rfl
  | @more p m q node nodes h1 hm hm2 _ ih =>
    intro rep hq
    obtain ⟨f0, hf0⟩ := h1
    obtain ⟨N, hN⟩ := ih (rep.addChild (some node)) hq
    refine ⟨max f0 N + 1, fun fuel hf => ?_⟩
    obtain ⟨k, rfl⟩ : ∃ k, fuel = k + 1 := ⟨fuel - 1, by omega⟩
    rw [parseRepeatLoop_next k rep node p m (parseStatement_mono hf0 (by omega)) hm hm2,
      hN k (by omega)]
    simp [addChild_some_eq, ASTNode.nodeType, ASTNode.children, ASTNode.value]

/-- The statement `repeat ... until condition` around its statement loop. -/
theorem parseStatement_repeat (k : Nat) (p : Parser) (rl : ASTNode × Parser)
    (rc : Option ASTNode × Parser)
    (hr : p.currentToken.type = TOK_REPEAT)
    (hl : parseRepeatLoop k (ASTNode.new "repeat") p.advance = some rl)
    (hc : parseExpression k (rl.2.consume TOK_UNTIL).2 = some rc) :
    parseStatement (k + 1) p = some (some (rl.1.addChild rc.1), rc.2) := by
  rw [parseStatement]
  simp [matchTok, hr, hl, hc]

end Parser

open TokenType

/-! ## Lists of assignment statements, as text -/

namespace Parser

theorem numberEnd_of_identifierEnd {r : List Char} (h : Lexer.identifierEnd r = true) :
    Lexer.numberEnd r = true := by
  cases r with
  | nil => rfl
  | cons c cs =>
    simp only [Lexer.identifierEnd, Bool.not_eq_true', Bool.or_eq_false_iff] at h
    simp only [Lexer.numberEnd, Bool.not_eq_true']
    cases hd : isdigit c with
    | false => rfl
    | true =>
      have := Lexer.isalnum_of_isdigit hd
      rw [this] at h
      exact absurd h.1 (by decide)

/-- A primary is lexed as one token whenever the text after it cannot continue an identifier. -/
theorem LexTo.primary_end {x r : List Char} (hx : isPrimaryText x = true)
    (hr : Lexer.identifierEnd r = true) :
    LexTo (x ++ r) (if Lexer.isNumberText x = true then TOK_INTEGER else TOK_IDENTIFIER)
      (String.mk x) r := by
  by_cases hnum : Lexer.isNumberText x = true
  · rw [if_pos hnum]
    exact LexTo.number hnum (numberEnd_of_identifierEnd hr)
  · rw [if_neg hnum]
    simp only [isPrimaryText, Bool.or_eq_true, Bool.and_eq_true, Option.isNone_iff_eq_none,
      hnum, or_false, Bool.false_eq_true] at hx
    have := LexTo.identifier (r := r) hx.1 hr
    rwa [keywordType_of_lookup_none hx.2] at this

/-- An assignment of a one-token operand: tokens identifier, `:=`, operand, and a token that
continues no expression. -/
theorem parseStatement_assign_operand (k : Nat) (s : Parser)
    (h0 : s.currentToken.type = TOK_IDENTIFIER)
    (h1 : s.advance.currentToken.type = TOK_ASSIGN)
    (h2 : isOperand s.advance.advance.currentToken = true)
    (h3 : endsExpression s.advance.advance.advance.currentToken.type = true) :
    parseStatement (k + 5) s
      = some (some (ASTNode.mk "assign"
          [createIdentifierNode s.currentToken.value,
           operandNode s.advance.advance.currentToken] ""),
          s.advance.advance.advance) := by
  rw [parseStatement_assign (k + 4) s _ h0 h1
    (parseExpression_of_primary k _ _ _
      (parsePrimary_operand k _ h2 (endsExpression_iff h3).2.2.2) h3)]
  rfl

/-- White space before a token does not change what `advance` returns: the same state is
reached from a lexer placed after the white space. -/
theorem advance_skip_space {p : Parser} {c : Char} {cs : List Char}
    (hp : p.lexer.rest = c :: cs) (hc : isspace c = true) :
    ∃ p1 : Parser, p1.lexer.rest = cs ∧ p.advance = p1.advance := by
  have hr1 : (p.lexer.skip 1).rest = cs := by rw [Lexer.rest_skip, hp]; rfl
  by_cases hnl : c = '\n'
  · subst hnl
    have hn := Lexer.nextToken_newline hp
    refine ⟨⟨p.lexer.nextToken.2, p.currentToken⟩, ?_, advance_of_newline p (by rw [hn])⟩
    rw [hn]
    exact hr1
  · have hsp : (isspace c && c != '\n') = true := by simp [hc, hnl]
    have hn := Lexer.nextToken_space hp hsp
    refine ⟨⟨p.lexer.skip 1, p.currentToken⟩, hr1, ?_⟩
    by_cases hnl2 : p.lexer.nextToken.1.type = TOK_NEWLINE
    · rw [advance_of_newline p hnl2,
        advance_of_newline ⟨p.lexer.skip 1, p.currentToken⟩ (by rw [← hn]; exact hnl2)]
      simp only [hn]
    · rw [advance_of_not_newline p hnl2,
        advance_of_not_newline ⟨p.lexer.skip 1, p.currentToken⟩ (by rw [← hn]; exact hnl2)]
      simp only [hn]

/-- One assignment read from its text: the statement node, and the state at the token that
follows the assignment. -/
theorem stmtAt_assignText {xv : List Char × List Char} {r r1 : List Char} {ty : TokenType}
    {val : String} (hxv : isAssignment xv = true) (hr : Lexer.identifierEnd r = true)
    (hl : LexTo r ty val r1) (hty : endsExpression ty = true)
    (p : Parser) (hp : p.lexer.rest = assignText xv ++ r) :
    p.advance.currentToken.type = TOK_IDENTIFIER
    ∧ ∃ q, StmtAt p.advance (assignNode xv) q ∧ q.At ty val r1 := by
  obtain ⟨x, v⟩ := xv
  simp only [isAssignment, Bool.and_eq_true, Option.isNone_iff_eq_none] at hxv
  obtain ⟨⟨hx, hk⟩, hv⟩ := hxv
  have hin : assignText (x, v) ++ r = x ++ (' ' :: ':' :: '=' :: ' ' :: (v ++ r)) := by
    simp [assignText]
  rw [hin] at hp
  have k0 := LexTo.identifier (p := x) (r := ' ' :: ':' :: '=' :: ' ' :: (v ++ r)) hx rfl p hp
  rw [keywordType_of_lookup_none hk] at k0
  have k1 := k0.advance (LexTo.space (by decide) (LexTo.assign (by simp)))
  have k2 := k1.advance (LexTo.space (by decide) (LexTo.primary_end hv hr))
  have k3 := k2.advance hl
  refine ⟨k0.1, _, ⟨5, ?_⟩, k3⟩
  rw [parseStatement_assign_operand 0 _ k0.1 k1.1 k2.operand.1 (by rw [k3.1]; exact hty),
    k0.2.1, k2.operand.2]
  rfl

/-- A list of assignments read from its text `x1 := v1; ...; xn := vn`: the statement list and
the state at the token that follows the last assignment. -/
theorem stmtSeq_assignsText (stop : TokenType) (hstop : stop ≠ TOK_IDENTIFIER)
    {r r1 : List Char} {ty : TokenType} {val : String} (hr : Lexer.identifierEnd r = true)
    (hl : LexTo r ty val r1) (hty : endsExpression ty = true) :
    ∀ L : List (List Char × List Char), L ≠ [] → (∀ xv ∈ L, isAssignment xv = true) →
      ∀ p : Parser, p.lexer.rest = assignsText L ++ r →
        p.advance.currentToken.type = TOK_IDENTIFIER
        ∧ ∃ q, StmtSeq stop p.advance (L.map assignNode) q ∧ q.At ty val r1 := by
  intro L
  induction L with
  | nil => intro h; exact absurd rfl h
  | cons xv rest ih =>
    intro _ hall p hp
    have hxv := hall xv (List.mem_cons_self _ _)
    cases rest with
    | nil =>
      have hin : assignsText [xv] ++ r = assignText xv ++ r := by simp [assignsText]
      rw [hin] at hp
      obtain ⟨h0, q, hq, hat⟩ := stmtAt_assignText hxv hr hl hty p hp
      exact ⟨h0, q, StmtSeq.one hq, hat⟩
    | cons y rest2 =>
      have hin : assignsText (xv :: y :: rest2) ++ r
          = assignText xv ++ (';' :: ' ' :: (assignsText (y :: rest2) ++ r)) := by
        simp [assignsText]
      rw [hin] at hp
      have hsemi : LexTo (';' :: ' ' :: (assignsText (y :: rest2) ++ r)) TOK_SEMICOLON ";"
          (' ' :: (assignsText (y :: rest2) ++ r)) :=
        LexTo.single (c := ';') (r := ' ' :: (assignsText (y :: rest2) ++ r))
          (show Lexer.isSingleCharToken ';' ' ' = true by decide)
      have hend : Lexer.identifierEnd (';' :: ' ' :: (assignsText (y :: rest2) ++ r)) = true :=
        rfl
      obtain ⟨h0, m, hm, hat⟩ := stmtAt_assignText hxv hend hsemi (by decide) p hp
      obtain ⟨p1, hp1, hadv⟩ := advance_skip_space hat.2.2 (by decide)
      obtain ⟨h1, q, hq, hatq⟩ := ih (List.cons_ne_nil _ _)
        (fun z hz => hall z (List.mem_cons_of_mem _ hz)) p1 hp1
      rw [← hadv] at h1 hq
      refine ⟨h0, q, ?_, hatq⟩
      exact StmtSeq.more hm hat.1 (by rw [h1]; exact hstop.symm) hq

theorem lexTo_end : LexTo (' ' :: "end".toList) TOK_END "end" [] :=
  LexTo.space (by decide) (LexTo.identifier (p := "end".toList) (r := []) (by decide) rfl)

/-- For every `n ≥ 1` assignments of primaries, the text `begin x1 := v1; ...; xn := vn end`
parses to a `block` whose children are the `n` `assign` nodes, in order; and with a `;` before
`end`, to a `block` with one more child, a `<null>` node. -/
theorem parseBody_assignsText (L : List (List Char × List Char)) (hL : L ≠ [])
    (hall : ∀ xv ∈ L, isAssignment xv = true) :
    (∃ N, ∀ fuel, N ≤ fuel →
      (parseBody fuel (Parser.new ("begin ".toList ++ assignsText L ++ " end".toList))).map
          (fun r => r.1)
        = some (some (ASTNode.mk "block" (L.map assignNode) "")))
    ∧ (∃ N, ∀ fuel, N ≤ fuel →
      (parseBody fuel (Parser.new ("begin ".toList ++ assignsText L ++ "; end".toList))).map
          (fun r => r.1)
        = some (some (ASTNode.mk "block"
            (L.map assignNode ++ [ASTNode.mk "<null>" [] ""]) ""))) := by
  constructor
  · have hin : "begin ".toList ++ assignsText L ++ " end".toList
        = "begin".toList ++ ' ' :: (assignsText L ++ ' ' :: "end".toList) := by simp
    rw [hin]
    have b0 := new_at (LexTo.identifier (p := "begin".toList)
      (r := ' ' :: (assignsText L ++ ' ' :: "end".toList)) (by decide) rfl)
    obtain ⟨p1, hp1, hadv⟩ := advance_skip_space b0.2.2 (by decide)
    obtain ⟨h1, q, hs, hq⟩ := stmtSeq_assignsText TOK_END (by decide)
      (r := ' ' :: "end".toList) rfl lexTo_end (by decide) L hL hall p1 hp1
    rw [← hadv] at h1 hs
    obtain ⟨N, hN⟩ := parseBody_seq (by rw [b0.1]; rfl) (by rw [h1]; decide) hs hq.1
    exact ⟨N, fun fuel hf => by rw [hN fuel hf]; rfl⟩
  · have hin : "begin ".toList ++ assignsText L ++ "; end".toList
        = "begin".toList ++ ' ' :: (assignsText L ++ ';' :: ' ' :: "end".toList) := by simp
    rw [hin]
    have b0 := new_at (LexTo.identifier (p := "begin".toList)
      (r := ' ' :: (assignsText L ++ ';' :: ' ' :: "end".toList)) (by decide) rfl)
    obtain ⟨p1, hp1, hadv⟩ := advance_skip_space b0.2.2 (by decide)
    obtain ⟨h1, q, hs, hq⟩ := stmtSeq_assignsText TOK_END (by decide)
      (r := ';' :: ' ' :: "end".toList) rfl
      (LexTo.single (c := ';') (r := ' ' :: "end".toList)
        (show Lexer.isSingleCharToken ';' ' ' = true by decide))
      (by decide) L hL hall p1 hp1
    rw [← hadv] at h1 hs
    have hq2 := hq.advance lexTo_end
    obtain ⟨N, hN⟩ := parseBody_seq_trailing (by rw [b0.1]; rfl) (by rw [h1]; decide) hs hq.1
      hq2.1
    exact ⟨N, fun fuel hf => by rw [hN fuel hf]; rfl⟩

/-- For every `n ≥ 1` assignments of primaries and every primary `c`, the text
`repeat x1 := v1; ...; xn := vn until c` parses to a `repeat` node with `n + 1` children: the
`n` `assign` nodes in order, then the wrapper of `c`. -/
theorem parseStatement_repeat_assignsText (L : List (List Char × List Char)) (hL : L ≠ [])
    (hall : ∀ xv ∈ L, isAssignment xv = true) (c : List Char) (hc : isPrimaryText c = true) :
    ∃ N, ∀ fuel, N ≤ fuel →
      (parseStatement fuel (Parser.new ("repeat ".toList ++ assignsText L ++ " until ".toList
          ++ c))).map (fun r => r.1)
        = some (some (ASTNode.mk "repeat" (L.map assignNode ++ [primaryNode c]) "")) := by
  have hin : "repeat ".toList ++ assignsText L ++ " until ".toList ++ c
      = "repeat".toList ++ ' ' :: (assignsText L ++ ' ' :: ("until".toList ++ ' ' :: (c ++ [])))
      := by simp
  rw [hin]
  have b0 := new_at (LexTo.identifier (p := "repeat".toList)
    (r := ' ' :: (assignsText L ++ ' ' :: ("until".toList ++ ' ' :: (c ++ [])))) (by decide) rfl)
  obtain ⟨p1, hp1, hadv⟩ := advance_skip_space b0.2.2 (by decide)
  have hu : LexTo (' ' :: ("until".toList ++ ' ' :: (c ++ []))) TOK_UNTIL "until"
      (' ' :: (c ++ [])) :=
    LexTo.space (by decide) (LexTo.identifier (p := "until".toList) (r := ' ' :: (c ++ []))
      (by decide) rfl)
  obtain ⟨h1, q, hs, hq⟩ := stmtSeq_assignsText TOK_UNTIL (by decide)
    (r := ' ' :: ("until".toList ++ ' ' :: (c ++ []))) rfl hu (by decide) L hL hall p1 hp1
  rw [← hadv] at h1 hs
  have k1 := hq.advance (LexTo.space (by decide) (LexTo.primary hc (Or.inl rfl)))
  have k2 := k1.advance LexTo.eof
  have hcond : parseExpression 4 q.advance = some (some (primaryNode c), q.advance.advance) := by
    rw [parseExpression_of_primary 0 _ _ _
      (parsePrimary_operand 0 _ k1.operand.1 (by rw [k2.1]; decide)) (by rw [k2.1]; rfl),
      k1.operand.2]
  obtain ⟨N, hN⟩ := parseRepeatLoop_seq hs (ASTNode.new "repeat") (by rw [hq.1]; decide)
  refine ⟨max N 4 + 1, fun fuel hf => ?_⟩
  obtain ⟨k, rfl⟩ : ∃ k, fuel = k + 1 := ⟨fuel - 1, by omega⟩
  rw [parseStatement_repeat k _ _ (some (primaryNode c), q.advance.advance)
    (by rw [b0.1]; rfl) (hN k (by omega))
    (by simp only [consume_of_type hq.1]; exact parseExpression_mono hcond (by omega))]
  rfl

/-- A body `begin S1;; S2 end`: between the two `;` the statement parser returns `<null>`
without consuming anything, so the block holds `S1`, `<null>`, `S2`. -/
theorem parseBody_double_separator {p q1 q2 : Parser} {n1 n2 : ASTNode}
    (hb : p.currentToken.type = TOK_BEGIN)
    (h1 : p.advance.currentToken.type ≠ TOK_END)
    (hs1 : StmtAt p.advance n1 q1)
    (hq1 : q1.currentToken.type = TOK_SEMICOLON)
    (hq1b : q1.advance.currentToken.type = TOK_SEMICOLON)
    (h2 : q1.advance.advance.currentToken.type ≠ TOK_END)
    (hs2 : StmtAt q1.advance.advance n2 q2)
    (hq2 : q2.currentToken.type = TOK_END) :
    ∃ N, ∀ fuel, N ≤ fuel →
      parseBody fuel p
        = some (some (ASTNode.mk "block" [n1, ASTNode.mk "<null>" [] "", n2] ""),
            q2.advance) := by
  have hnull : StmtAt q1.advance (ASTNode.mk "<null>" [] "") q1.advance :=
    ⟨1, parseStatement_null 0 _ (by rw [hq1b]; decide)⟩
  exact parseBody_seq hb h1
    (StmtSeq.more hs1 hq1 (by rw [hq1b]; decide)
      (StmtSeq.more hnull hq1b h2 (StmtSeq.one hs2))) hq2

/-- For all assignments `a`, `b` of primaries, the text `begin a;; b end` parses to a `block`
with the three children `assign`, `<null>`, `assign`. -/
theorem parseBody_double_separator_text (a b : List Char × List Char)
    (ha : isAssignment a = true) (hb : isAssignment b = true) :
    ∃ N, ∀ fuel, N ≤ fuel →
      (parseBody fuel (Parser.new ("begin ".toList ++ assignText a ++ ";; ".toList
          ++ assignText b ++ " end".toList))).map (fun r => r.1)
        = some (some (ASTNode.mk "block"
            [assignNode a, ASTNode.mk "<null>" [] "", assignNode b] "")) := by
  have hin : "begin ".toList ++ assignText a ++ ";; ".toList ++ assignText b ++ " end".toList
      = "begin".toList ++ ' ' :: (assignText a ++ ';' :: ';' :: ' ' ::
          (assignText b ++ ' ' :: "end".toList)) := by simp
  rw [hin]
  have b0 := new_at (LexTo.identifier (p := "begin".toList)
    (r := ' ' :: (assignText a ++ ';' :: ';' :: ' ' :: (assignText b ++ ' ' :: "end".toList)))
    (by decide) rfl)
  obtain ⟨p1, hp1, hadv⟩ := advance_skip_space b0.2.2 (by decide)
  have hend1 : Lexer.identifierEnd
      (';' :: ';' :: ' ' :: (assignText b ++ ' ' :: "end".toList)) = true := rfl
  obtain ⟨h0, q1, hs1, hat1⟩ := stmtAt_assignText ha hend1
    (LexTo.single (c := ';') (r := ';' :: ' ' :: (assignText b ++ ' ' :: "end".toList))
      (show Lexer.isSingleCharToken ';' ';' = true by decide))
    (by decide) p1 hp1
  rw [← hadv] at h0 hs1
  have hat2 := hat1.advance (LexTo.single (c := ';')
    (r := ' ' :: (assignText b ++ ' ' :: "end".toList))
    (show Lexer.isSingleCharToken ';' ' ' = true by decide))
  obtain ⟨p2, hp2, hadv2⟩ := advance_skip_space hat2.2.2 (by decide)
  have hend2 : Lexer.identifierEnd (' ' :: "end".toList) = true := rfl
  obtain ⟨h3, q2, hs2, hat3⟩ := stmtAt_assignText hb hend2 lexTo_end (by decide) p2 hp2
  rw [← hadv2] at h3 hs2
  obtain ⟨N, hN⟩ := parseBody_double_separator (by rw [b0.1]; rfl) (by rw [h0]; decide) hs1
    hat1.1 hat2.1 (by rw [h3]; decide) hs2 hat3.1
  exact ⟨N, fun fuel hf => by rw [hN fuel hf]; rfl⟩

end Parser

open TokenType

open Parser in
/-- Claim C14: the condition of `repeat` comes last.  Let the parser be at `repeat`, followed
by a statement list `S1; ...; Sn` (`n ≥ 1`, each statement parsed by `parseStatement` into a
node), the keyword `until` and a condition parsed by `parseExpression` into the node `cond`.
`parseStatement` returns a `repeat` node with `n + 1` children: the `n` statement nodes in
source order, then the condition.  In particular, for every `n ≥ 1` assignments of primaries
and every primary `c`, the text `repeat x1 := v1; ...; xn := vn until c` parses to the `repeat`
node over the `n` `assign` nodes followed by the wrapper of `c`. -/
theorem C14_repeat_condition_last :
    (∀ (p q q2 : Parser) (nodes : List ASTNode) (cond : ASTNode),
      p.currentToken.type = TOK_REPEAT → StmtSeq TOK_UNTIL p.advance nodes q →
      q.currentToken.type = TOK_UNTIL → ExprAt q.advance cond q2 →
      (∃ N, ∀ fuel, N ≤ fuel →
        parseStatement fuel p = some (some (ASTNode.mk "repeat" (nodes ++ [cond]) ""), q2))
      ∧ (nodes ++ [cond]).length = nodes.length + 1
      ∧ (nodes ++ [cond]).getLast? = some cond)
    ∧ (∀ (L : List (List Char × List Char)) (c : List Char), L ≠ [] →
      (∀ xv ∈ L, isAssignment xv = true) → isPrimaryText c = true →
      ∃ N, ∀ fuel, N ≤ fuel →
        (parseStatement fuel (Parser.new ("repeat ".toList ++ assignsText L ++ " until ".toList
            ++ c))).map (fun r => r.1)
          = some (some (ASTNode.mk "repeat" (L.map assignNode ++ [primaryNode c]) ""))) := by
  refine ⟨?_, fun L c hL hall hc => parseStatement_repeat_assignsText L hL hall c hc⟩
  intro p q q2 nodes cond hr hs hu hc
  refine ⟨?_, by simp, by simp⟩
  obtain ⟨N, hN⟩ := parseRepeatLoop_seq hs (ASTNode.new "repeat") (by rw [hu]; decide)
  obtain ⟨f0, hf0⟩ := hc
  refine ⟨max N f0 + 1, fun fuel hf => ?_⟩
  obtain ⟨k, rfl⟩ : ∃ k, fuel = k + 1 := ⟨fuel - 1, by omega⟩
  rw [parseStatement_repeat k p _ (some cond, q2) hr (hN k (by omega))
    (by simp only [consume_of_type hu]; exact parseExpression_mono hf0 (by omega))]
  rfl

open Parser in
theorem C14_repeat_condition_last_witness :
    (Parser.new "repeat x := 1; y := 2 until c".toList).currentToken.type = TOK_REPEAT
    ∧ (Parser.new "repeat x := 1; y := 2 until c".toList).advance.advance.advance.advance.advance.advance.advance.advance.currentToken.type = TOK_UNTIL
    ∧ (∃ N, ∀ fuel, N ≤ fuel →
        parseStatement fuel (Parser.new "repeat x := 1; y := 2 until c".toList)
          = some (some (ASTNode.mk "repeat"
              ([ASTNode.mk "assign" [ASTNode.mk "<identifier>" [ASTNode.mk "x" [] ""] "",
               ASTNode.mk "<integer>" [ASTNode.mk "1" [] ""] ""] "",
                ASTNode.mk "assign" [ASTNode.mk "<identifier>" [ASTNode.mk "y" [] ""] "",
               ASTNode.mk "<integer>" [ASTNode.mk "2" [] ""] ""] ""]
                ++ [ASTNode.mk "<identifier>" [ASTNode.mk "c" [] ""] ""]) ""),
              (Parser.new "repeat x := 1; y := 2 until c".toList).advance.advance.advance.advance.advance.advance.advance.advance.advance.advance))
    ∧ ∃ N, ∀ fuel, N ≤ fuel →
        (parseStatement fuel (Parser.new "repeat x := 1; y := 2 until c".toList)).map
            (fun r => r.1)
          = some (some (ASTNode.mk "repeat"
              [ASTNode.mk "assign" [ASTNode.mk "<identifier>" [ASTNode.mk "x" [] ""] "",
               ASTNode.mk "<integer>" [ASTNode.mk "1" [] ""] ""] "",
               ASTNode.mk "assign" [ASTNode.mk "<identifier>" [ASTNode.mk "y" [] ""] "",
               ASTNode.mk "<integer>" [ASTNode.mk "2" [] ""] ""] "",
               ASTNode.mk "<identifier>" [ASTNode.mk "c" [] ""] ""] "")) :=
  ⟨by decide, by decide,
   (C14_repeat_condition_last.1 (Parser.new "repeat x := 1; y := 2 until c".toList)
     (Parser.new "repeat x := 1; y := 2 until c".toList).advance.advance.advance.advance.advance.advance.advance.advance
     (Parser.new "repeat x := 1; y := 2 until c".toList).advance.advance.advance.advance.advance.advance.advance.advance.advance.advance _ _
     (by decide)
     (StmtSeq.more (m := (Parser.new "repeat x := 1; y := 2 until c".toList).advance.advance.advance.advance) ⟨5, rfl⟩ (by decide) (by decide)
       (StmtSeq.one ⟨5, rfl⟩))
     (by decide) ⟨4, rfl⟩).1,
   C14_repeat_condition_last.2 [("x".toList, "1".toList), ("y".toList, "2".toList)]
     "c".toList (by decide) (by decide) (by decide)⟩

open TokenType

open Parser in
/-- Claim C15: the compensating null after a trailing separator.  Let the parser be at `begin`.
If a statement list `S1; ...; Sn` (`n ≥ 1`, each statement parsed by `parseStatement` into a
node) follows and ends at `end`, `parseBody` returns a `block` whose children are exactly the
`n` statement nodes, in order.  If the list ends at a `;` that is followed by `end`, the block
has `n + 1` children, the last one `<null>` with no children.  If `end` follows `begin`
directly, the block has no children.  In each case the body is consumed up to and including
`end`.  In particular, for every `n ≥ 1` assignments of primaries, the text
`begin x1 := v1; ...; xn := vn end` gives the `block` over the `n` `assign` nodes and
`begin x1 := v1; ...; xn := vn; end` the `block` over these and a last `<null>`; `begin end`
gives a `block` without children. -/
theorem C15_trailing_separator :
    (∀ p : Parser, p.currentToken.type = TOK_BEGIN →
      (∀ (nodes : List ASTNode) (q : Parser), p.advance.currentToken.type ≠ TOK_END →
        StmtSeq TOK_END p.advance nodes q → q.currentToken.type = TOK_END →
        ∃ N, ∀ fuel, N ≤ fuel →
          parseBody fuel p = some (some (ASTNode.mk "block" nodes ""), q.advance))
      ∧ (∀ (nodes : List ASTNode) (q : Parser), p.advance.currentToken.type ≠ TOK_END →
        StmtSeq TOK_END p.advance nodes q → q.currentToken.type = TOK_SEMICOLON →
        q.advance.currentToken.type = TOK_END →
        ∃ N, ∀ fuel, N ≤ fuel →
          parseBody fuel p
            = some (some (ASTNode.mk "block" (nodes ++ [ASTNode.mk "<null>" [] ""]) ""),
                q.advance.advance))
      ∧ (p.advance.currentToken.type = TOK_END →
        ∀ fuel, 1 ≤ fuel →
          parseBody fuel p = some (some (ASTNode.mk "block" [] ""), p.advance.advance)))
    ∧ (∀ L : List (List Char × List Char), L ≠ [] → (∀ xv ∈ L, isAssignment xv = true) →
      (∃ N, ∀ fuel, N ≤ fuel →
        (parseBody fuel (Parser.new ("begin ".toList ++ assignsText L ++ " end".toList))).map
            (fun r => r.1)
          = some (some (ASTNode.mk "block" (L.map assignNode) "")))
      ∧ (∃ N, ∀ fuel, N ≤ fuel →
        (parseBody fuel (Parser.new ("begin ".toList ++ assignsText L ++ "; end".toList))).map
            (fun r => r.1)
          = some (some (ASTNode.mk "block"
              (L.map assignNode ++ [ASTNode.mk "<null>" [] ""]) ""))))
    ∧ (∀ fuel, 1 ≤ fuel →
      (parseBody fuel (Parser.new "begin end".toList)).map (fun r => r.1)
        = some (some (ASTNode.mk "block" [] ""))) := by
  refine ⟨fun p hb => ⟨?_, ?_, ?_⟩, fun L hL hall => parseBody_assignsText L hL hall, ?_⟩
  · intro nodes q h1 hs hq
    exact parseBody_seq hb h1 hs hq
  · intro nodes q h1 hs hq hq2
    exact parseBody_seq_trailing hb h1 hs hq hq2
  · intro h1 fuel hf
    obtain ⟨k, rfl⟩ : ∃ k, fuel = k + 1 := ⟨fuel - 1, by omega⟩
    exact parseBody_empty k p hb h1
  · intro fuel hf
    obtain ⟨k, rfl⟩ : ∃ k, fuel = k + 1 := ⟨fuel - 1, by omega⟩
    rw [parseBody_empty k _ (by decide) (by decide)]
    rfl

open Parser in
theorem C15_trailing_separator_witness :
    (Parser.new "begin x := 1; y := 2 end".toList).currentToken.type = TOK_BEGIN
    ∧ (∃ N, ∀ fuel, N ≤ fuel →
        parseBody fuel (Parser.new "begin x := 1; y := 2 end".toList)
          = some (some (ASTNode.mk "block"
              [ASTNode.mk "assign" [ASTNode.mk "<identifier>" [ASTNode.mk "x" [] ""] "",
            ASTNode.mk "<integer>" [ASTNode.mk "1" [] ""] ""] "",
               ASTNode.mk "assign" [ASTNode.mk "<identifier>" [ASTNode.mk "y" [] ""] "",
            ASTNode.mk "<integer>" [ASTNode.mk "2" [] ""] ""] ""] ""),
              (Parser.new "begin x := 1; y := 2 end".toList).advance.advance.advance.advance.advance.advance.advance.advance.advance))
    ∧ (Parser.new "begin x := 1; y := 2; end".toList).currentToken.type = TOK_BEGIN
    ∧ (∃ N, ∀ fuel, N ≤ fuel →
        parseBody fuel (Parser.new "begin x := 1; y := 2; end".toList)
          = some (some (ASTNode.mk "block"
              ([ASTNode.mk "assign" [ASTNode.mk "<identifier>" [ASTNode.mk "x" [] ""] "",
            ASTNode.mk "<integer>" [ASTNode.mk "1" [] ""] ""] "",
               ASTNode.mk "assign" [ASTNode.mk "<identifier>" [ASTNode.mk "y" [] ""] "",
            ASTNode.mk "<integer>" [ASTNode.mk "2" [] ""] ""] ""] ++ [ASTNode.mk "<null>" [] ""]) ""),
              (Parser.new "begin x := 1; y := 2; end".toList).advance.advance.advance.advance.advance.advance.advance.advance.advance.advance))
    ∧ (Parser.new "begin end".toList).currentToken.type = TOK_BEGIN
    ∧ (∀ fuel, 1 ≤ fuel →
        parseBody fuel (Parser.new "begin end".toList)
          = some (some (ASTNode.mk "block" [] ""), (Parser.new "begin end".toList).advance.advance))
    ∧ (∃ N, ∀ fuel, N ≤ fuel →
        (parseBody fuel (Parser.new "begin x := 1; y := 2; end".toList)).map (fun r => r.1)
          = some (some (ASTNode.mk "block"
              [ASTNode.mk "assign" [ASTNode.mk "<identifier>" [ASTNode.mk "x" [] ""] "",
               ASTNode.mk "<integer>" [ASTNode.mk "1" [] ""] ""] "",
               ASTNode.mk "assign" [ASTNode.mk "<identifier>" [ASTNode.mk "y" [] ""] "",
               ASTNode.mk "<integer>" [ASTNode.mk "2" [] ""] ""] "",
               ASTNode.mk "<null>" [] ""] ""))) :=
  ⟨by decide,
   (C15_trailing_separator.1 (Parser.new "begin x := 1; y := 2 end".toList) (by decide)).1 _
     (Parser.new "begin x := 1; y := 2 end".toList).advance.advance.advance.advance.advance.advance.advance.advance
     (by decide)
     (StmtSeq.more (m := (Parser.new "begin x := 1; y := 2 end".toList).advance.advance.advance.advance) ⟨5, rfl⟩ (by decide) (by decide)
       (StmtSeq.one ⟨5, rfl⟩))
     (by decide),
   by decide,
   (C15_trailing_separator.1 (Parser.new "begin x := 1; y := 2; end".toList) (by decide)).2.1 _
     (Parser.new "begin x := 1; y := 2; end".toList).advance.advance.advance.advance.advance.advance.advance.advance
     (by decide)
     (StmtSeq.more (m := (Parser.new "begin x := 1; y := 2; end".toList).advance.advance.advance.advance) ⟨5, rfl⟩ (by decide) (by decide)
       (StmtSeq.one ⟨5, rfl⟩))
     (by decide) (by decide),
   by decide,
   (C15_trailing_separator.1 (Parser.new "begin end".toList) (by decide)).2.2 (by decide),
   (C15_trailing_separator.2.1 [("x".toList, "1".toList), ("y".toList, "2".toList)]
     (by decide) (by decide)).2⟩

open TokenType

open Parser in
/-- Claim C16: two consecutive separators.  Let the parser be at `begin`, followed by a
statement `S1` (parsed by `parseStatement` into the node `n1`), two tokens `;`, a statement `S2`
(parsed into `n2`) and `end`.  `parseBody` returns a `block` with exactly three children: `n1`,
a `<null>` node with no children, and `n2`.  In particular, for all assignments `a`, `b` of
primaries the text `begin a;; b end` parses to the `block` over `assign`, `<null>`, `assign`. -/
theorem C16_double_separator :
    (∀ (p q1 q2 : Parser) (n1 n2 : ASTNode),
      p.currentToken.type = TOK_BEGIN → p.advance.currentToken.type ≠ TOK_END →
      StmtAt p.advance n1 q1 → q1.currentToken.type = TOK_SEMICOLON →
      q1.advance.currentToken.type = TOK_SEMICOLON →
      q1.advance.advance.currentToken.type ≠ TOK_END →
      StmtAt q1.advance.advance n2 q2 → q2.currentToken.type = TOK_END →
      ∃ N, ∀ fuel, N ≤ fuel →
        parseBody fuel p
          = some (some (ASTNode.mk "block" [n1, ASTNode.mk "<null>" [] "", n2] ""),
              q2.advance))
    ∧ (∀ a b : List Char × List Char, isAssignment a = true → isAssignment b = true →
      ∃ N, ∀ fuel, N ≤ fuel →
        (parseBody fuel (Parser.new ("begin ".toList ++ assignText a ++ ";; ".toList
            ++ assignText b ++ " end".toList))).map (fun r => r.1)
          = some (some (ASTNode.mk "block"
              [assignNode a, ASTNode.mk "<null>" [] "", assignNode b] ""))) :=
  ⟨fun _ _ _ _ _ hb h1 hs1 hq1 hq1b h2 hs2 hq2 =>
      parseBody_double_separator hb h1 hs1 hq1 hq1b h2 hs2 hq2,
   fun a b ha hb => parseBody_double_separator_text a b ha hb⟩

open Parser in
theorem C16_double_separator_witness :
    (Parser.new "begin x := 1;; y := 2 end".toList).currentToken.type = TOK_BEGIN
    ∧ (Parser.new "begin x := 1;; y := 2 end".toList).advance.currentToken.type ≠ TOK_END
    ∧ (Parser.new "begin x := 1;; y := 2 end".toList).advance.advance.advance.advance.currentToken.type = TOK_SEMICOLON
    ∧ (Parser.new "begin x := 1;; y := 2 end".toList).advance.advance.advance.advance.advance.currentToken.type = TOK_SEMICOLON
    ∧ (Parser.new "begin x := 1;; y := 2 end".toList).advance.advance.advance.advance.advance.advance.currentToken.type ≠ TOK_END
    ∧ (Parser.new "begin x := 1;; y := 2 end".toList).advance.advance.advance.advance.advance.advance.advance.advance.advance.currentToken.type = TOK_END
    ∧ ∃ N, ∀ fuel, N ≤ fuel →
        parseBody fuel (Parser.new "begin x := 1;; y := 2 end".toList)
          = some (some (ASTNode.mk "block"
              [ASTNode.mk "assign" [ASTNode.mk "<identifier>" [ASTNode.mk "x" [] ""] "",
              ASTNode.mk "<integer>" [ASTNode.mk "1" [] ""] ""] "",
               ASTNode.mk "<null>" [] "",
               ASTNode.mk "assign" [ASTNode.mk "<identifier>" [ASTNode.mk "y" [] ""] "",
              ASTNode.mk "<integer>" [ASTNode.mk "2" [] ""] ""] ""] ""),
              (Parser.new "begin x := 1;; y := 2 end".toList).advance.advance.advance.advance.advance.advance.advance.advance.advance.advance) :=
  ⟨by decide, by decide, by decide, by decide, by decide, by decide,
   C16_double_separator.1 (Parser.new "begin x := 1;; y := 2 end".toList)
     (Parser.new "begin x := 1;; y := 2 end".toList).advance.advance.advance.advance
     (Parser.new "begin x := 1;; y := 2 end".toList).advance.advance.advance.advance.advance.advance.advance.advance.advance _ _
     (by decide) (by decide) ⟨5, rfl⟩ (by decide) (by decide) (by decide) ⟨5, rfl⟩ (by decide)⟩

open TokenType

open Parser in
/-- Claim C17: the compensating null for a missing separator.  In the statement loop of
`parseBody`, when the token after a parsed statement is neither `;` nor `end`, the statement
node (or `<null>` in its place when `parseStatement` returned no node) and exactly one extra
`<null>` node are appended, and the loop stops in the state the statement left: nothing more is
consumed, not even by the `consume(TOK_END)` that closes the body.  So
`begin x := 1 y := 2 end` yields a `block` with two children, the `assign` and `<null>`, and the
tokens from `y` on are left unread. -/
theorem C17_missing_separator (fuel : Nat) (block : ASTNode) (p : Parser)
    (r : Option ASTNode × Parser)
    (hp : p.currentToken.type ≠ TOK_END)
    (hs : parseStatement fuel p = some r)
    (h1 : r.2.currentToken.type ≠ TOK_SEMICOLON) (h2 : r.2.currentToken.type ≠ TOK_END) :
    (∀ f, fuel + 1 ≤ f →
      parseBodyLoop f block p
        = some ((block.addChild (some (r.1.getD (ASTNode.mk "<null>" [] "")))).addChild
            (some (ASTNode.mk "<null>" [] "")), r.2))
    ∧ (∀ b : Parser, b.currentToken.type = TOK_BEGIN → b.advance = p →
      ∀ f, fuel + 2 ≤ f →
        parseBody f b
          = some (some (ASTNode.mk "block"
              [r.1.getD (ASTNode.mk "<null>" [] ""), ASTNode.mk "<null>" [] ""] ""), r.2))
    ∧ (∀ f, 7 ≤ f →
      parseBody f (Parser.new "begin x := 1 y := 2 end".toList)
        = some (some (ASTNode.mk "block"
            [ASTNode.mk "assign" [ASTNode.mk "<identifier>" [ASTNode.mk "x" [] ""] "",
               ASTNode.mk "<integer>" [ASTNode.mk "1" [] ""] ""] "",
             ASTNode.mk "<null>" [] ""] ""),
            (Parser.new "begin x := 1 y := 2 end".toList).advance.advance.advance.advance))
    ∧ (Parser.new "begin x := 1 y := 2 end".toList).advance.advance.advance.advance.currentToken.type
        = TOK_IDENTIFIER
    ∧ (Parser.new "begin x := 1 y := 2 end".toList).advance.advance.advance.advance.currentToken.value
        = "y"
    ∧ (Parser.new "begin x := 1 y := 2 end".toList).advance.advance.advance.advance.lexer.rest
        = " := 2 end".toList := by
  have hloop : ∀ blk : ASTNode, parseBodyLoop (fuel + 1) blk p
      = some ((blk.addChild (some (r.1.getD (ASTNode.mk "<null>" [] "")))).addChild
          (some (ASTNode.mk "<null>" [] "")), r.2) := by
    intro blk
    rw [parseBodyLoop]
    cases hr : r.1 with
    | none => simp [matchTok, hp, hs, hr, consume_of_ne h1, h2, ASTNode.new]
    | some node => simp [matchTok, hp, hs, hr, consume_of_ne h1, h2, ASTNode.new]
  refine ⟨fun f hf => parseBodyLoop_mono (hloop block) hf, ?_, ?_, by decide, by decide,
    by decide⟩
  · intro b hb hbp f hf
    subst hbp
    have hbody := parseBody_of_loop (fuel + 1) b _ hb hp (hloop (ASTNode.new "block"))
    rw [parseBody_mono hbody hf]
    simp only [consume_of_ne h2]
    rfl
  · intro f hf
    exact parseBody_mono (n := 7) rfl hf

open Parser in
theorem C17_missing_separator_witness :
    (Parser.new "begin x := 1 y := 2 end".toList).advance.currentToken.type ≠ TOK_END
    ∧ parseStatement 5 (Parser.new "begin x := 1 y := 2 end".toList).advance
        = some (some (ASTNode.mk "assign" [ASTNode.mk "<identifier>" [ASTNode.mk "x" [] ""] "",
          ASTNode.mk "<integer>" [ASTNode.mk "1" [] ""] ""] ""),
            (Parser.new "begin x := 1 y := 2 end".toList).advance.advance.advance.advance)
    ∧ (Parser.new "begin x := 1 y := 2 end".toList).advance.advance.advance.advance.currentToken.type
        ≠ TOK_SEMICOLON
    ∧ (Parser.new "begin x := 1 y := 2 end".toList).advance.advance.advance.advance.currentToken.type
        ≠ TOK_END
    ∧ ∀ f, 5 + 1 ≤ f →
        parseBodyLoop f (ASTNode.mk "block" [] "") (Parser.new "begin x := 1 y := 2 end".toList).advance
          = some (((ASTNode.mk "block" [] "").addChild
              (some ((some (ASTNode.mk "assign" [ASTNode.mk "<identifier>" [ASTNode.mk "x" [] ""] "",
          ASTNode.mk "<integer>" [ASTNode.mk "1" [] ""] ""] "")).getD
                (ASTNode.mk "<null>" [] "")))).addChild (some (ASTNode.mk "<null>" [] "")),
              (Parser.new "begin x := 1 y := 2 end".toList).advance.advance.advance.advance) :=
  ⟨by decide, rfl, by decide, by decide,
   (C17_missing_separator 5 (ASTNode.mk "block" [] "") (Parser.new "begin x := 1 y := 2 end".toList).advance
     (some (ASTNode.mk "assign" [ASTNode.mk "<identifier>" [ASTNode.mk "x" [] ""] "",
          ASTNode.mk "<integer>" [ASTNode.mk "1" [] ""] ""] ""),
       (Parser.new "begin x := 1 y := 2 end".toList).advance.advance.advance.advance)
     (by decide) rfl (by decide) (by decide)).1⟩

open TokenType

namespace Parser

/-- An identifier that is followed neither by `:=` nor by `:=:` is consumed by
`parseStatement`, which returns no node. -/
theorem parseStatement_identifier_alone (k : Nat) (s : Parser)
    (h0 : s.currentToken.type = TOK_IDENTIFIER)
    (h1 : s.advance.currentToken.type ≠ TOK_ASSIGN)
    (h2 : s.advance.currentToken.type ≠ TOK_SWAP) :
    parseStatement (k + 1) s = some (none, s.advance) := by
  rw [parseStatement]
  simp [matchTok, h0, h1, h2]

/-- Away from the identifier branch, every result of `parseStatement` holds a node. -/
theorem parseStatement_present (n : Nat) (s : Parser) (r : Option ASTNode × Parser)
    (c1 : s.currentToken.type ≠ TOK_IDENTIFIER) (h : parseStatement n s = some r) :
    r.1.isSome = true := by
  cases n with
  | zero => simp [parseStatement] at h
  | succ n =>
    simp only [parseStatement, matchTok, decide_eq_true_eq] at h
    rw [if_neg c1] at h
    by_cases c2 : s.currentToken.type = TOK_OUTPUT
    · rw [if_pos c2] at h
      split at h
      · cases h
      · cases h; rfl
    rw [if_neg c2] at h
    by_cases c3 : s.currentToken.type = TOK_IF
    · rw [if_pos c3] at h
      split at h
      · cases h
      · split at h
        · cases h
        · split at h
          · split at h
            · cases h
            · cases h; rfl
          · cases h; rfl
    rw [if_neg c3] at h
    by_cases c4 : s.currentToken.type = TOK_WHILE
    · rw [if_pos c4] at h
      split at h
      · cases h
      · split at h
        · cases h
        · cases h; rfl
    rw [if_neg c4] at h
    by_cases c5 : s.currentToken.type = TOK_REPEAT
    · rw [if_pos c5] at h
      split at h
      · cases h
      · split at h
        · cases h
        · cases h; rfl
    rw [if_neg c5] at h
    by_cases c6 : s.currentToken.type = TOK_FOR
    · rw [if_pos c6] at h
      split at h
      · cases h
      · split at h
        · cases h
        · split at h
          · cases h
          · split at h
            · cases h
            · cases h; rfl
    rw [if_neg c6] at h
    by_cases c7 : s.currentToken.type = TOK_LOOP
    · rw [if_pos c7] at h
      split at h
      · cases h
      · cases h; rfl
    rw [if_neg c7] at h
    by_cases c8 : s.currentToken.type = TOK_CASE
    · rw [if_pos c8] at h
      split at h
      · cases h
      · split at h
        · cases h
        · split at h
          · split at h
            · cases h
            · cases h; rfl
          · cases h; rfl
    rw [if_neg c8] at h
    by_cases c9 : s.currentToken.type = TOK_READ
    · rw [if_pos c9] at h
      split at h
      · cases h
      · cases h; rfl
    rw [if_neg c9] at h
    by_cases c10 : s.currentToken.type = TOK_EXIT
    · rw [if_pos c10] at h
      cases h; rfl
    rw [if_neg c10] at h
    by_cases c11 : s.currentToken.type = TOK_RETURN
    · rw [if_pos c11] at h
      split at h
      · cases h
      · cases h; rfl
    rw [if_neg c11] at h
    by_cases c12 : s.currentToken.type = TOK_BEGIN
    · rw [if_pos c12] at h
      obtain ⟨b, hb, _⟩ := parseBody_some h
      rw [hb]; rfl
    rw [if_neg c12] at h
    cases h; rfl

/-- In the identifier branch, the result of `parseStatement` holds a node exactly when `:=` or
`:=:` follows the identifier. -/
theorem parseStatement_identifier (n : Nat) (s : Parser) (r : Option ASTNode × Parser)
    (c1 : s.currentToken.type = TOK_IDENTIFIER) (h : parseStatement n s = some r) :
    r.1 = none ↔ (s.advance.currentToken.type ≠ TOK_ASSIGN
      ∧ s.advance.currentToken.type ≠ TOK_SWAP) := by
  cases n with
  | zero => simp [parseStatement] at h
  | succ n =>
    simp only [parseStatement, matchTok, decide_eq_true_eq] at h
    rw [if_pos c1] at h
    by_cases d1 : s.advance.currentToken.type = TOK_ASSIGN
    · rw [if_pos d1] at h
      split at h
      · cases h
      · cases h
        simp [d1]
    rw [if_neg d1] at h
    by_cases d2 : s.advance.currentToken.type = TOK_SWAP
    · rw [if_pos d2] at h
      cases h
      simp [d2]
    rw [if_neg d2] at h
    cases h
    simp [d1, d2]

end Parser

open Parser in
/-- Claim C18, counterexample: on `x y` the statement parser meets an identifier that is
followed neither by `:=` nor by `:=:`; it consumes the identifier and returns an absent result,
not a `<null>` node. -/
theorem C18_identifier_alone_is_absent :
    parseStatement 1 (Parser.new "x y".toList)
      = some (none, (Parser.new "x y".toList).advance) := by
  rfl

open Parser in
/-- Claim C18, amended: `parseStatement` returns an absent result in exactly one case, an
identifier that is followed neither by `:=` nor by `:=:`, and it consumes that identifier; every
other result it returns holds a node; and at a token that starts no statement form (no
identifier, `output`, `if`, `while`, `repeat`, `for`, `loop`, `case`, `read`, `exit`, `return`
or `begin`) it returns the node `<null>` with zero children and consumes nothing. -/
theorem C18_statement_result (fuel : Nat) (s : Parser) :
    (∀ r, parseStatement fuel s = some r →
      (r.1 = none ↔ (s.currentToken.type = TOK_IDENTIFIER
        ∧ s.advance.currentToken.type ≠ TOK_ASSIGN ∧ s.advance.currentToken.type ≠ TOK_SWAP)))
    ∧ (s.currentToken.type = TOK_IDENTIFIER → s.advance.currentToken.type ≠ TOK_ASSIGN →
        s.advance.currentToken.type ≠ TOK_SWAP → 1 ≤ fuel →
        parseStatement fuel s = some (none, s.advance))
    ∧ (s.currentToken.type ∉ statementStarts → 1 ≤ fuel →
        parseStatement fuel s = some (some (ASTNode.mk "<null>" [] ""), s)) := by
  refine ⟨?_, ?_, ?_⟩
  · intro r h
    by_cases c1 : s.currentToken.type = TOK_IDENTIFIER
    · rw [parseStatement_identifier fuel s r c1 h]
      simp [c1]
    · have hp := parseStatement_present fuel s r c1 h
      constructor
      · intro hn
        rw [hn] at hp
        cases hp
      · intro hc
        exact absurd hc.1 c1
  · intro h0 h1 h2 hf
    obtain ⟨k, rfl⟩ : ∃ k, fuel = k + 1 := ⟨fuel - 1, by omega⟩
    exact parseStatement_identifier_alone k s h0 h1 h2
  · intro h hf
    obtain ⟨k, rfl⟩ : ∃ k, fuel = k + 1 := ⟨fuel - 1, by omega⟩
    exact parseStatement_null k s h

open Parser in
theorem C18_statement_result_witness :
    (Parser.new "x y".toList).currentToken.type = TOK_IDENTIFIER
    ∧ (Parser.new "x y".toList).advance.currentToken.type ≠ TOK_ASSIGN
    ∧ (Parser.new "x y".toList).advance.currentToken.type ≠ TOK_SWAP
    ∧ 1 ≤ 3
    ∧ parseStatement 3 (Parser.new "x y".toList)
        = some (none, (Parser.new "x y".toList).advance)
    ∧ (Parser.new "; end".toList).currentToken.type ∉ statementStarts
    ∧ parseStatement 3 (Parser.new "; end".toList)
        = some (some (ASTNode.mk "<null>" [] ""), Parser.new "; end".toList)
    ∧ (parseStatement 3 (Parser.new "exit".toList)
        = some (some (ASTNode.mk "exit" [] ""), (Parser.new "exit".toList).advance)
      ∧ ((some (ASTNode.mk "exit" [] "") : Option ASTNode) = none ↔
        ((Parser.new "exit".toList).currentToken.type = TOK_IDENTIFIER
          ∧ (Parser.new "exit".toList).advance.currentToken.type ≠ TOK_ASSIGN
          ∧ (Parser.new "exit".toList).advance.currentToken.type ≠ TOK_SWAP))) :=
  ⟨by decide, by decide, by decide, by decide,
   (C18_statement_result 3 (Parser.new "x y".toList)).2.1 (by decide) (by decide) (by decide)
     (by decide),
   by decide,
   (C18_statement_result 3 (Parser.new "; end".toList)).2.2 (by decide) (by decide),
   rfl,
   (C18_statement_result 3 (Parser.new "exit".toList)).1
     (some (ASTNode.mk "exit" [] ""), (Parser.new "exit".toList).advance) rfl⟩

open TokenType

namespace Lexer

/-- In a table without repeated keys, `lookup` finds the value of every entry. -/
theorem lookup_of_mem {k : String} {v : TokenType} :
    ∀ (tbl : List (String × TokenType)), (tbl.map Prod.fst).Nodup → (k, v) ∈ tbl →
      tbl.lookup k = some v := by
  intro tbl
  induction tbl with
  | nil => intro _ h; simp at h
  | cons e tbl ih =>
    intro hnd hm
    obtain ⟨k1, v1⟩ := e
    simp only [List.map_cons, List.nodup_cons, List.mem_map, Prod.exists, exists_and_right,
      exists_eq_right, not_exists] at hnd
    simp only [List.mem_cons, Prod.mk.injEq] at hm
    rcases hm with ⟨rfl, rfl⟩ | hm
    · simp [List.lookup]
    · have hne : k ≠ k1 := by
        intro he
        subst he
        exact hnd.1 v hm
      simp only [List.lookup, beq_eq_false_iff_ne.mpr hne]
      exact ih hnd.2 hm

theorem keywords_keys_nodup : (keywords.map Prod.fst).Nodup := by decide

/-- The text of a keyword gets the kind the table lists for it. -/
theorem keywordType_of_mem {s : String} {t : TokenType} (h : (s, t) ∈ keywords) :
    keywordType s = t := by
  simp [keywordType, lookup_of_mem keywords keywords_keys_nodup h]

/-- A text that is no keyword gets the kind IDENTIFIER. -/
theorem keywordType_of_not_mem {s : String} (h : s ∉ keywords.map Prod.fst) :
    keywordType s = TOK_IDENTIFIER := by
  have hl : keywords.lookup s = none := by
    rw [List.lookup_eq_none_iff]
    intro e he
    rw [bne_iff_ne]
    intro hs
    apply h
    rw [List.mem_map]
    exact ⟨e, he, hs.symm⟩
  simp [keywordType, hl]

end Lexer

open Lexer in
/-- Claim C19: identifier and keyword lexing.  With the cursor at a letter or an underscore,
`nextToken` returns a token whose text is the longest run of characters of `[A-Za-z0-9_]` that
starts there.  Its kind is the kind the keyword table gives to that exact text when the text is
one of the 37 keywords, and IDENTIFIER otherwise; the keywords have pairwise distinct kinds, none
of them IDENTIFIER.  So `Program`, `beginx` and `_end` are identifiers. -/
theorem C19_identifier_or_keyword (l : Lexer) (c : Char) (cs : List Char)
    (h : l.rest = c :: cs) (hc : isalpha c = true ∨ c = '_') :
    (∃ txt r : List Char,
      c :: cs = txt ++ r
      ∧ txt ≠ []
      ∧ (∀ x ∈ txt, isalnum x = true ∨ x = '_')
      ∧ (∀ d ds, r = d :: ds → ¬ (isalnum d = true ∨ d = '_'))
      ∧ l.nextToken.1.value = String.mk txt
      ∧ l.nextToken.2 = l.skip txt.length
      ∧ l.nextToken.2.rest = r
      ∧ (∀ t, (String.mk txt, t) ∈ keywords → l.nextToken.1.type = t)
      ∧ (String.mk txt ∉ keywords.map Prod.fst → l.nextToken.1.type = TOK_IDENTIFIER))
    ∧ keywords.map Prod.fst
        = ["program", "var", "const", "type", "function", "return", "begin", "end", "if", "then",
           "else", "while", "do", "case", "of", "otherwise", "repeat", "until", "for", "loop",
           "pool", "exit", "read", "output", "and", "or", "not", "mod", "succ", "pred", "chr",
           "ord", "eof", "true", "false", "boolean", "integer"]
    ∧ (keywords.map Prod.snd).Nodup
    ∧ TOK_IDENTIFIER ∉ keywords.map Prod.snd
    ∧ ((Lexer.new "Program".toList).nextToken.1.type = TOK_IDENTIFIER
        ∧ (Lexer.new "Program".toList).nextToken.1.value = "Program")
    ∧ ((Lexer.new "beginx".toList).nextToken.1.type = TOK_IDENTIFIER
        ∧ (Lexer.new "beginx".toList).nextToken.1.value = "beginx")
    ∧ ((Lexer.new "_end".toList).nextToken.1.type = TOK_IDENTIFIER
        ∧ (Lexer.new "_end".toList).nextToken.1.value = "_end") := by
  refine ⟨?_, rfl, by decide, by decide, by decide, by decide, by decide⟩
  have hP : ∀ x, (isalnum x || x == '_') = true ↔ (isalnum x = true ∨ x = '_') := by
    intro x; simp
  have hcP : (isalnum c || c == '_') = true := by
    rcases hc with hc | hc
    · simp [isalnum_of_isalpha hc]
    · simp [hc]
  have hsplit : c :: cs = (c :: cs).takeWhile (fun x => isalnum x || x == '_')
      ++ (c :: cs).dropWhile (fun x => isalnum x || x == '_') :=
    (List.takeWhile_append_dropWhile _ _).symm
  have hne : (c :: cs).takeWhile (fun x => isalnum x || x == '_') ≠ [] := by
    rw [List.takeWhile_cons, if_pos hcP]
    exact List.cons_ne_nil _ _
  have hid : isIdentifierText ((c :: cs).takeWhile (fun x => isalnum x || x == '_')) = true := by
    rw [List.takeWhile_cons, if_pos hcP]
    simp only [isIdentifierText, Bool.and_eq_true]
    refine ⟨?_, Parser.takeWhile_all _ _⟩
    rcases hc with hc | hc
    · simp [hc]
    · simp [hc]
  have hmax : ∀ d ds, (c :: cs).dropWhile (fun x => isalnum x || x == '_') = d :: ds →
      ¬ (isalnum d = true ∨ d = '_') := by
    intro d ds hd hcon
    have h1 := List.head_dropWhile_not (fun x => isalnum x || x == '_') (c :: cs)
      (by rw [hd]; exact List.cons_ne_nil _ _)
    simp only [hd, List.head_cons] at h1
    rw [← hP] at hcon
    rw [hcon] at h1
    exact absurd h1 (by decide)
  have hend : identifierEnd ((c :: cs).dropWhile (fun x => isalnum x || x == '_')) = true := by
    cases hd : (c :: cs).dropWhile (fun x => isalnum x || x == '_') with
    | nil => rfl
    | cons d ds =>
      have := hmax d ds hd
      rw [← hP] at this
      simp only [identifierEnd]
      simpa using this
  have hnt := nextToken_identifier (h.trans hsplit) hid hend
  refine ⟨_, _, hsplit, hne, ?_, hmax, ?_, ?_, ?_, ?_, ?_⟩
  · intro x hx
    have hx2 := List.mem_takeWhile_imp hx
    exact (hP x).1 hx2
  · rw [hnt]
  · rw [hnt]
  · rw [hnt, rest_skip, h]
    conv_lhs => arg 2; rw [hsplit]
    rw [List.drop_left]
  · intro t ht
    rw [hnt]
    exact keywordType_of_mem ht
  · intro hn
    rw [hnt]
    exact keywordType_of_not_mem hn

open Lexer in
theorem C19_identifier_or_keyword_witness :
    (Lexer.new "while_1 do".toList).rest = 'w' :: "hile_1 do".toList
    ∧ (isalpha 'w' = true ∨ 'w' = '_')
    ∧ ∃ txt r : List Char,
      'w' :: "hile_1 do".toList = txt ++ r
      ∧ txt ≠ []
      ∧ (∀ x ∈ txt, isalnum x = true ∨ x = '_')
      ∧ (∀ d ds, r = d :: ds → ¬ (isalnum d = true ∨ d = '_'))
      ∧ (Lexer.new "while_1 do".toList).nextToken.1.value = String.mk txt
      ∧ (Lexer.new "while_1 do".toList).nextToken.2
          = (Lexer.new "while_1 do".toList).skip txt.length
      ∧ (Lexer.new "while_1 do".toList).nextToken.2.rest = r
      ∧ (∀ t, (String.mk txt, t) ∈ keywords →
          (Lexer.new "while_1 do".toList).nextToken.1.type = t)
      ∧ (String.mk txt ∉ keywords.map Prod.fst →
          (Lexer.new "while_1 do".toList).nextToken.1.type = TOK_IDENTIFIER) :=
  ⟨rfl, Or.inl (by decide),
   (C19_identifier_or_keyword (Lexer.new "while_1 do".toList) 'w' "hile_1 do".toList rfl
     (Or.inl (by decide))).1⟩

open TokenType

namespace Lexer

theorem nextToken_single_eq {l : Lexer} {c : Char} {r : List Char} (h : l.rest = c :: r)
    (hc : isSingleCharToken c (r.headD '\x00') = true) :
    l.nextToken = (⟨singleCharType c, String.singleton c, l.line, l.column⟩,
      ⟨l.input, l.pos + 1, l.line, l.column + 1⟩) := by
  have hnl : c ≠ '\n' := by
    intro he
    subst he
    simp [isSingleCharToken, show isspace '\n' = true by decide] at hc
  rw [nextToken_single h hc, skip_one, advance_of_rest_ne_newline h hnl]

theorem isSingleCharToken_colon {n : Char} (h : n ≠ '=') : isSingleCharToken ':' n = true := by
  simp [isSingleCharToken, h, show isspace ':' = false by decide,
    show isalpha ':' = false by decide, show isdigit ':' = false by decide]

theorem isSingleCharToken_less {n : Char} (h1 : n ≠ '=') (h2 : n ≠ '>') :
    isSingleCharToken '<' n = true := by
  simp [isSingleCharToken, h1, h2, show isspace '<' = false by decide,
    show isalpha '<' = false by decide, show isdigit '<' = false by decide]

theorem isSingleCharToken_greater {n : Char} (h : n ≠ '=') : isSingleCharToken '>' n = true := by
  simp [isSingleCharToken, h, show isspace '>' = false by decide,
    show isalpha '>' = false by decide, show isdigit '>' = false by decide]

theorem isSingleCharToken_dot {n : Char} (h : n ≠ '.') : isSingleCharToken '.' n = true := by
  simp [isSingleCharToken, h, show isspace '.' = false by decide,
    show isalpha '.' = false by decide, show isdigit '.' = false by decide]

end Lexer

open Lexer in
/-- Claim C20: maximal munch for the operators of more than one character.  Where the text left
starts with `:=:`, `nextToken` returns one SWAP token of text `:=:` and consumes three
characters; with `:=` not followed by `:`, one ASSIGN token; with `<=`, `>=`, `<>`, `..`, one
LESS_EQUAL, GREATER_EQUAL, NOT_EQUAL, DOTS token, two characters consumed; and `:`, `<`, `>`,
`.` are lexed alone, as COLON, LESS, GREATER, DOT, only when no longer operator starts there.
So `...` lexes as DOTS then DOT and `:=:=` as SWAP then EQUAL. -/
theorem C20_maximal_munch (l : Lexer) (r : List Char) :
    (l.rest = ':' :: '=' :: ':' :: r →
      l.nextToken = (⟨TOK_SWAP, ":=:", l.line, l.column⟩,
        ⟨l.input, l.pos + 3, l.line, l.column + 3⟩))
    ∧ (l.rest = ':' :: '=' :: r → r.head? ≠ some ':' →
      l.nextToken = (⟨TOK_ASSIGN, ":=", l.line, l.column⟩,
        ⟨l.input, l.pos + 2, l.line, l.column + 2⟩))
    ∧ (l.rest = '<' :: '=' :: r →
      l.nextToken = (⟨TOK_LESS_EQUAL, "<=", l.line, l.column⟩,
        ⟨l.input, l.pos + 2, l.line, l.column + 2⟩))
    ∧ (l.rest = '>' :: '=' :: r →
      l.nextToken = (⟨TOK_GREATER_EQUAL, ">=", l.line, l.column⟩,
        ⟨l.input, l.pos + 2, l.line, l.column + 2⟩))
    ∧ (l.rest = '<' :: '>' :: r →
      l.nextToken = (⟨TOK_NOT_EQUAL, "<>", l.line, l.column⟩,
        ⟨l.input, l.pos + 2, l.line, l.column + 2⟩))
    ∧ (l.rest = '.' :: '.' :: r →
      l.nextToken = (⟨TOK_DOTS, "..", l.line, l.column⟩,
        ⟨l.input, l.pos + 2, l.line, l.column + 2⟩))
    ∧ (l.rest = ':' :: r → r.head? ≠ some '=' →
      l.nextToken = (⟨TOK_COLON, ":", l.line, l.column⟩,
        ⟨l.input, l.pos + 1, l.line, l.column + 1⟩))
    ∧ (l.rest = '<' :: r → r.head? ≠ some '=' → r.head? ≠ some '>' →
      l.nextToken = (⟨TOK_LESS, "<", l.line, l.column⟩,
        ⟨l.input, l.pos + 1, l.line, l.column + 1⟩))
    ∧ (l.rest = '>' :: r → r.head? ≠ some '=' →
      l.nextToken = (⟨TOK_GREATER, ">", l.line, l.column⟩,
        ⟨l.input, l.pos + 1, l.line, l.column + 1⟩))
    ∧ (l.rest = '.' :: r → r.head? ≠ some '.' →
      l.nextToken = (⟨TOK_DOT, ".", l.line, l.column⟩,
        ⟨l.input, l.pos + 1, l.line, l.column + 1⟩))
    ∧ ((Lexer.new "...".toList).tokenStream 3).map (fun t => (t.type, t.value))
        = [(TOK_DOTS, ".."), (TOK_DOT, "."), (TOK_EOF, "")]
    ∧ ((Lexer.new ":=:=".toList).tokenStream 3).map (fun t => (t.type, t.value))
        = [(TOK_SWAP, ":=:"), (TOK_EQUAL, "="), (TOK_EOF, "")] := by
  refine ⟨?_, ?_, ?_, ?_, ?_, ?_, ?_, ?_, ?_, ?_, by decide, by decide⟩
  · intro h
    rw [nextToken_swap h, skip_three_eq h (by decide) (by decide) (by decide)]
  · intro h hr
    rw [nextToken_assign h hr, skip_two_eq h (by decide) (by decide)]
  · intro h
    rw [nextToken_less_equal h, skip_two_eq h (by decide) (by decide)]
  · intro h
    rw [nextToken_greater_equal h, skip_two_eq h (by decide) (by decide)]
  · intro h
    rw [nextToken_not_equal h, skip_two_eq h (by decide) (by decide)]
  · intro h
    rw [nextToken_dots h, skip_two_eq h (by decide) (by decide)]
  · intro h hr
    rw [nextToken_single_eq h (isSingleCharToken_of_head '=' '='
      (fun n h1 _ => isSingleCharToken_colon h1) hr hr (by decide))]
    rfl
  · intro h hr1 hr2
    rw [nextToken_single_eq h (isSingleCharToken_of_head '=' '>'
      (fun n h1 h2 => isSingleCharToken_less h1 h2) hr1 hr2 (by decide))]
    rfl
  · intro h hr
    rw [nextToken_single_eq h (isSingleCharToken_of_head '=' '='
      (fun n h1 _ => isSingleCharToken_greater h1) hr hr (by decide))]
    rfl
  · intro h hr
    rw [nextToken_single_eq h (isSingleCharToken_of_head '.' '.'
      (fun n h1 _ => isSingleCharToken_dot h1) hr hr (by decide))]
    rfl

open Lexer in
theorem C20_maximal_munch_witness :
    ((Lexer.new ":=:=".toList).rest = ':' :: '=' :: ':' :: "=".toList
      ∧ (Lexer.new ":=:=".toList).nextToken
          = (⟨TOK_SWAP, ":=:", 1, 1⟩, ⟨":=:=".toList, 3, 1, 4⟩))
    ∧
    ((Lexer.new ":= x".toList).rest = ':' :: '=' :: " x".toList
      ∧ (" x".toList).head? ≠ some ':'
      ∧ (Lexer.new ":= x".toList).nextToken
          = (⟨TOK_ASSIGN, ":=", 1, 1⟩, ⟨":= x".toList, 2, 1, 3⟩))
    ∧
    ((Lexer.new "<=1".toList).rest = '<' :: '=' :: "1".toList
      ∧ (Lexer.new "<=1".toList).nextToken
          = (⟨TOK_LESS_EQUAL, "<=", 1, 1⟩, ⟨"<=1".toList, 2, 1, 3⟩))
    ∧
    ((Lexer.new ">=1".toList).rest = '>' :: '=' :: "1".toList
      ∧ (Lexer.new ">=1".toList).nextToken
          = (⟨TOK_GREATER_EQUAL, ">=", 1, 1⟩, ⟨">=1".toList, 2, 1, 3⟩))
    ∧
    ((Lexer.new "<>1".toList).rest = '<' :: '>' :: "1".toList
      ∧ (Lexer.new "<>1".toList).nextToken
          = (⟨TOK_NOT_EQUAL, "<>", 1, 1⟩, ⟨"<>1".toList, 2, 1, 3⟩))
    ∧
    ((Lexer.new "..5".toList).rest = '.' :: '.' :: "5".toList
      ∧ (Lexer.new "..5".toList).nextToken
          = (⟨TOK_DOTS, "..", 1, 1⟩, ⟨"..5".toList, 2, 1, 3⟩))
    ∧
    ((Lexer.new ": x".toList).rest = ':' :: " x".toList
      ∧ (" x".toList).head? ≠ some '='
      ∧ (Lexer.new ": x".toList).nextToken
          = (⟨TOK_COLON, ":", 1, 1⟩, ⟨": x".toList, 1, 1, 2⟩))
    ∧
    ((Lexer.new "< 1".toList).rest = '<' :: " 1".toList
      ∧ (" 1".toList).head? ≠ some '='
      ∧ (" 1".toList).head? ≠ some '>'
      ∧ (Lexer.new "< 1".toList).nextToken
          = (⟨TOK_LESS, "<", 1, 1⟩, ⟨"< 1".toList, 1, 1, 2⟩))
    ∧
    ((Lexer.new "> 1".toList).rest = '>' :: " 1".toList
      ∧ (" 1".toList).head? ≠ some '='
      ∧ (Lexer.new "> 1".toList).nextToken
          = (⟨TOK_GREATER, ">", 1, 1⟩, ⟨"> 1".toList, 1, 1, 2⟩))
    ∧
    ((Lexer.new ". x".toList).rest = '.' :: " x".toList
      ∧ (" x".toList).head? ≠ some '.'
      ∧ (Lexer.new ". x".toList).nextToken
          = (⟨TOK_DOT, ".", 1, 1⟩, ⟨". x".toList, 1, 1, 2⟩)) :=
  ⟨⟨rfl, (C20_maximal_munch (Lexer.new ":=:=".toList) ("=".toList)).1 rfl⟩,
   ⟨rfl, by decide, (C20_maximal_munch (Lexer.new ":= x".toList) (" x".toList)).2.1 rfl (by decide)⟩,
   ⟨rfl, (C20_maximal_munch (Lexer.new "<=1".toList) ("1".toList)).2.2.1 rfl⟩,
   ⟨rfl, (C20_maximal_munch (Lexer.new ">=1".toList) ("1".toList)).2.2.2.1 rfl⟩,
   ⟨rfl, (C20_maximal_munch (Lexer.new "<>1".toList) ("1".toList)).2.2.2.2.1 rfl⟩,
   ⟨rfl, (C20_maximal_munch (Lexer.new "..5".toList) ("5".toList)).2.2.2.2.2.1 rfl⟩,
   ⟨rfl, by decide, (C20_maximal_munch (Lexer.new ": x".toList) (" x".toList)).2.2.2.2.2.2.1 rfl (by decide)⟩,
   ⟨rfl, by decide, by decide, (C20_maximal_munch (Lexer.new "< 1".toList) (" 1".toList)).2.2.2.2.2.2.2.1 rfl (by decide) (by decide)⟩,
   ⟨rfl, by decide, (C20_maximal_munch (Lexer.new "> 1".toList) (" 1".toList)).2.2.2.2.2.2.2.2.1 rfl (by decide)⟩,
   ⟨rfl, by decide, (C20_maximal_munch (Lexer.new ". x".toList) (" x".toList)).2.2.2.2.2.2.2.2.2.1 rfl (by decide)⟩⟩

open TokenType

/-! ## Tree construction and the end of the output -/

namespace ASTNode

theorem getLast?_append_of_last {a b : List Char} {c : Char}
    (hb : b = [] ∨ b.getLast? = some c) (ha : a.getLast? = some c) :
    (a ++ b).getLast? = some c := by
  rcases hb with rfl | hb
  · rw [List.append_nil]; exact ha
  · rw [List.getLast?_append, hb]; rfl

mutual
theorem print_getLast : ∀ (n : ASTNode) (d : Int) (isLast : Bool),
    (n.print d isLast).data.getLast? = some ')'
  | mk ty cs v, d, b => by
    rw [print]
    rw [String.data_append]
    refine getLast?_append_of_last (printChildren_getLast cs d) ?_
    rw [String.data_append]
    by_cases hv : (cs.isEmpty && v != "") = true
    · rw [if_pos hv]
      refine getLast?_append_of_last (Or.inr ?_) ?_
      · simp only [String.data_append]
        rw [List.getLast?_append]; rfl
      · rw [String.data_append, List.getLast?_append]; rfl
    · rw [if_neg hv]
      refine getLast?_append_of_last (Or.inl rfl) ?_
      rw [String.data_append, List.getLast?_append]; rfl
theorem printChildren_getLast : ∀ (cs : List ASTNode) (d : Int),
    (printChildren cs d).data = [] ∨ (printChildren cs d).data.getLast? = some ')'
  | [], _ => Or.inl rfl
  | c :: cs, d => by
    right
    rw [printChildren, String.data_append]
    refine getLast?_append_of_last (printChildren_getLast cs d) ?_
    rw [String.data_append, List.getLast?_append, print_getLast c (d + 1) false]; rfl
end

end ASTNode

/-- Claim C26: for every node `n` and present child `c`, `addChild` makes the children of `n`
the old children followed by `c` (so `c` is the last child, the old children are the first
ones in their old order, and the count grows by exactly 1) and leaves the label and the value
of `n` unchanged; for an absent child `addChild` returns `n` unchanged. -/
theorem C26_addChild_frame (n c : ASTNode) :
    (n.addChild (some c)).children = n.children ++ [c]
    ∧ (n.addChild (some c)).children.getLast? = some c
    ∧ (n.addChild (some c)).children.take n.children.length = n.children
    ∧ (n.addChild (some c)).children.length = n.children.length + 1
    ∧ (n.addChild (some c)).nodeType = n.nodeType
    ∧ (n.addChild (some c)).value = n.value
    ∧ n.addChild none = n := by
  refine ⟨rfl, ?_, ?_, ?_, rfl, rfl, rfl⟩
  · show (n.children ++ [c]).getLast? = some c
    simp
  · show (n.children ++ [c]).take n.children.length = n.children
    simp
  · show (n.children ++ [c]).length = n.children.length + 1
    simp

/-- Claim C27: for every tree, every depth and either flag, the text written by `print` ends
with the character `)`, so it does not end with a line terminator; and whenever `main`
succeeds (exit status 0) its standard output is the text of `print(0, true)` of the tree
returned by `parseProgram` followed by one `\n`: the output ends with `)` then `\n`, hence with
exactly one line terminator and no blank line. -/
theorem C27_single_trailing_newline (n : ASTNode) (d : Int) (isLast : Bool) (fuel : Nat)
    (input : List Char) :
    (n.print d isLast).data.getLast? = some ')'
    ∧ (n.print d isLast).data.getLast? ≠ some '\n'
    ∧ ∀ out, runMain fuel input = some (out, 0) →
        ∃ ast q, Parser.parseProgram fuel (Parser.new input) = some (some ast, q)
          ∧ out = ast.print 0 true ++ "\n"
          ∧ out.data.getLast? = some '\n'
          ∧ out.data.dropLast.getLast? = some ')' := by
  refine ⟨ASTNode.print_getLast n d isLast, ?_, ?_⟩
  · rw [ASTNode.print_getLast n d isLast]; decide
  · intro out h
    unfold runMain at h
    cases hp : Parser.parseProgram fuel (Parser.new input) with
    | none => rw [hp] at h; simp at h
    | some r =>
      obtain ⟨t, q⟩ := r
      cases t with
      | none => rw [hp] at h; simp at h
      | some ast =>
        rw [hp] at h
        simp only [Option.some.injEq, Prod.mk.injEq, and_true] at h
        subst h
        refine ⟨ast, q, rfl, rfl, ?_, ?_⟩
        · rw [String.data_append, List.getLast?_append]; rfl
        · rw [String.data_append]
          show ((ast.print 0 true).data ++ ['\n']).dropLast.getLast? = some ')'
          rw [List.dropLast_concat]
          exact ASTNode.print_getLast ast 0 true

theorem C27_single_trailing_newline_witness :
    runMain 5 "program x: begin end x.".toList
        = some ("program(7)\n. <identifier>(1)\n. . x(0)\n. consts(0)\n. types(0)\n. dclns(0)\n"
            ++ ". subprogs(0)\n. block(0)\n. <identifier>(1)\n. . x(0)\n", 0)
      ∧ ∃ ast q, Parser.parseProgram 5 (Parser.new "program x: begin end x.".toList)
            = some (some ast, q)
          ∧ ("program(7)\n. <identifier>(1)\n. . x(0)\n. consts(0)\n. types(0)\n. dclns(0)\n"
            ++ ". subprogs(0)\n. block(0)\n. <identifier>(1)\n. . x(0)\n")
              = ast.print 0 true ++ "\n"
          ∧ ("program(7)\n. <identifier>(1)\n. . x(0)\n. consts(0)\n. types(0)\n. dclns(0)\n"
            ++ ". subprogs(0)\n. block(0)\n. <identifier>(1)\n. . x(0)\n").data.getLast?
              = some '\n'
          ∧ ("program(7)\n. <identifier>(1)\n. . x(0)\n. consts(0)\n. types(0)\n. dclns(0)\n"
            ++ ". subprogs(0)\n. block(0)\n. <identifier>(1)\n. . x(0)\n").data.dropLast.getLast?
              = some ')' :=
  ⟨by decide,
   (C27_single_trailing_newline (ASTNode.new "x") 0 true 5
      "program x: begin end x.".toList).2.2 _ (by decide)⟩

open TokenType

/-! ## The lexer: literals, comments and the single-character branch -/

namespace Lexer

theorem takeWhile_append_stop {P : Char → Bool} {body : List Char} {c : Char} {r : List Char}
    (hb : ∀ x ∈ body, P x = true) (hc : P c = false) :
    (body ++ c :: r).takeWhile P = body := by
  induction body with
  | nil => simp [List.takeWhile_cons, hc]
  | cons b body ih =>
    rw [List.cons_append, List.takeWhile_cons, hb b (List.mem_cons_self _ _)]
    simp only [if_true]
    rw [ih (fun x hx => hb x (List.mem_cons_of_mem _ hx))]

theorem takeWhile_of_all {P : Char → Bool} {s : List Char} (hb : ∀ x ∈ s, P x = true) :
    s.takeWhile P = s := by
  induction s with
  | nil => rfl
  | cons b s ih =>
    rw [List.takeWhile_cons, hb b (List.mem_cons_self _ _)]
    simp only [if_true]
    rw [ih (fun x hx => hb x (List.mem_cons_of_mem _ hx))]

theorem scanToken_quote {l : Lexer} {cs : List Char} (h : l.rest = '\'' :: cs) :
    l.scanToken = l.readChar := by
  unfold scanToken
  simp only [peek_zero_of_rest h]
  rw [if_neg (by decide), if_neg (by decide), if_neg (by decide), if_pos trivial]

theorem scanToken_double_quote {l : Lexer} {cs : List Char} (h : l.rest = '"' :: cs) :
    l.scanToken = l.readString := by
  unfold scanToken
  simp only [peek_zero_of_rest h]
  rw [if_neg (by decide), if_neg (by decide), if_neg (by decide), if_neg (by decide),
    if_pos trivial]

/-- At a quote followed by a character `c` the lexer returns a CHAR token whose text is the
quote, `c` and a quote; it consumes the closing quote when it is the next character. -/
theorem nextToken_char {l : Lexer} {c : Char} {r : List Char} (h : l.rest = '\'' :: c :: r) :
    l.nextToken = (⟨TOK_CHAR, ("'".push c) ++ "'", l.line, l.column⟩,
        if r.head? = some '\'' then l.skip 3 else l.skip 2) := by
  rw [nextToken_scan h (by decide) (by decide) (by decide), scanToken_quote h]
  have h1 : l.advance.2.rest = c :: r := by rw [rest_advance, h]; rfl
  have h2 : l.advance.2.advance.2.rest = r := by rw [rest_advance, h1]; rfl
  have hlt1 : ¬ l.advance.2.pos ≥ l.advance.2.input.length := by
    have := (pos_lt_iff l.advance.2).2 (by rw [h1]; simp)
    omega
  unfold readChar
  simp only [if_neg hlt1, advance_fst_of_rest h1]
  cases r with
  | nil =>
    have hn : ¬ l.advance.2.advance.2.pos < l.advance.2.advance.2.input.length := by
      rw [pos_lt_iff, h2]; simp
    simp only [hn, decide_False, Bool.false_and, Bool.false_eq_true, if_false, List.head?_nil]
    rfl
  | cons d r2 =>
    have hp : l.advance.2.advance.2.pos < l.advance.2.advance.2.input.length := by
      rw [pos_lt_iff, h2]; simp
    simp only [hp, decide_True, Bool.true_and, peek_zero_of_rest h2, List.head?_cons,
      Option.some.injEq, beq_iff_eq]
    by_cases hd : d = '\''
    · rw [if_pos hd, if_pos hd]; rfl
    · rw [if_neg hd, if_neg hd]; rfl

theorem string_push_mk (a : List Char) (c : Char) : (String.mk a).push c = String.mk (a ++ [c]) :=
  rfl

theorem string_quote_append (body : List Char) :
    ("".push '"') ++ String.mk body = String.mk ('"' :: body) := by
  apply String.ext; simp [String.data_append]

/-- A string literal that is closed: the text is the opening quote, the characters up to the
next double quote, and that quote. -/
theorem nextToken_string_closed {l : Lexer} {body r : List Char}
    (h : l.rest = '"' :: (body ++ '"' :: r)) (hb : ∀ x ∈ body, x ≠ '"') :
    l.nextToken = (⟨TOK_STRING, String.mk ('"' :: (body ++ ['"'])), l.line, l.column⟩,
        l.skip (body.length + 2)) := by
  rw [nextToken_scan h (by decide) (by decide) (by decide), scanToken_double_quote h]
  have h1 : l.advance.2.rest = body ++ '"' :: r := by rw [rest_advance, h]; rfl
  have htw : (body ++ '"' :: r).takeWhile (fun c => c != '"') = body :=
    takeWhile_append_stop (fun x hx => by simpa using hb x hx) (by decide)
  have h2 : (l.advance.2.skip body.length).rest = '"' :: r := by
    rw [rest_skip, h1, List.drop_left]
  have hp : (l.advance.2.skip body.length).pos < (l.advance.2.skip body.length).input.length := by
    rw [pos_lt_iff, h2]; simp
  unfold readString
  simp only [readStringLoop_eq, h1, htw, hp, decide_True, Bool.true_and, peek_zero_of_rest h2,
    beq_self_eq_true, if_true, advance_fst_of_rest h2, string_quote_append, string_push_mk]
  rw [← skip_one, ← skip_one, skip_add, skip_add]
  have e : 1 + (body.length + 1) = body.length + 2 := by omega
  rw [e]
  rfl

/-- A string literal that is not closed: the text is the opening quote and the whole rest of
the input, which is consumed. -/
theorem nextToken_string_open {l : Lexer} {s : List Char}
    (h : l.rest = '"' :: s) (hb : ∀ x ∈ s, x ≠ '"') :
    l.nextToken = (⟨TOK_STRING, String.mk ('"' :: s), l.line, l.column⟩,
        l.skip (s.length + 1)) := by
  rw [nextToken_scan h (by decide) (by decide) (by decide), scanToken_double_quote h]
  have h1 : l.advance.2.rest = s := by rw [rest_advance, h]; rfl
  have htw : s.takeWhile (fun c => c != '"') = s :=
    takeWhile_of_all (fun x hx => by simpa using hb x hx)
  have h2 : (l.advance.2.skip s.length).rest = [] := by
    rw [rest_skip, h1, List.drop_length]
  have hp : ¬ (l.advance.2.skip s.length).pos < (l.advance.2.skip s.length).input.length := by
    rw [pos_lt_iff, h2]; simp
  unfold readString
  simp only [readStringLoop_eq, h1, htw, hp, decide_False, Bool.false_and, Bool.false_eq_true,
    if_false, string_quote_append]
  rw [← skip_one, skip_add]
  have e : 1 + s.length = s.length + 1 := by omega
  rw [e]

/-- At `#` the lexer skips to the next newline (or to the end of the input) and goes on. -/
theorem nextToken_line_comment {l : Lexer} {r : List Char} (h : l.rest = '#' :: r) :
    l.nextToken = (l.skip ((r.takeWhile (fun c => c != '\n')).length + 1)).nextToken := by
  have hlt : l.pos < l.input.length := by rw [pos_lt_iff, h]; simp
  rw [nextToken_eq, if_pos hlt, skipWhitespace_of_not_space h (by decide), if_neg (by omega),
    peek_zero_of_rest h, if_pos (by decide)]
  unfold skipComment
  rw [peek_zero_of_rest h]
  simp only [beq_self_eq_true, if_true, skipLineCommentLoop_eq]
  rw [h, List.takeWhile_cons]
  rfl

/-- At an opening brace the lexer skips up to and including the first closing brace (or to the
end of the input) and goes on. -/
theorem nextToken_block_comment {l : Lexer} {r : List Char} (h : l.rest = '\x7b' :: r) :
    l.nextToken
      = (l.skip ((r.takeWhile (fun c => c != '\x7d')).length + 2)).nextToken := by
  have hlt : l.pos < l.input.length := by rw [pos_lt_iff, h]; simp
  rw [nextToken_eq, if_pos hlt, skipWhitespace_of_not_space h (by decide), if_neg (by omega),
    peek_zero_of_rest h, if_pos (by decide)]
  have h1 : l.advance.2.rest = r := by rw [rest_advance, h]; rfl
  unfold skipComment
  rw [peek_zero_of_rest h]
  have : (('\x7b' : Char) == '#') = false := by decide
  simp only [this, beq_self_eq_true, if_true, Bool.false_eq_true, if_false]
  rw [skipBlockCommentLoop_eq _ _ (by rw [rest_length]), h1, ← skip_one, skip_add]
  have e : 1 + ((r.takeWhile (fun c => c != '\x7d')).length + 1)
      = (r.takeWhile (fun c => c != '\x7d')).length + 2 := by omega
  rw [e]

end Lexer

open TokenType

namespace Lexer

theorem isSingleCharToken_split (c n : Char) :
    isSingleCharToken c n
      = (isSingleCharToken c '\x00' && !(c == ':' && n == '=') && !(c == '<' && n == '=')
          && !(c == '>' && n == '=') && !(c == '<' && n == '>') && !(c == '.' && n == '.')) := by
  simp only [isSingleCharToken, show (('\x00' : Char) == '=') = false by decide,
    show (('\x00' : Char) == '>') = false by decide,
    show (('\x00' : Char) == '.') = false by decide, Bool.and_false, Bool.not_false,
    Bool.and_true, Bool.and_assoc]

theorem isSingleCharToken_iff (c n : Char) :
    isSingleCharToken c n = true ↔
      isSingleCharToken c '\x00' = true ∧ ¬ (c = ':' ∧ n = '=') ∧ ¬ (c = '<' ∧ n = '=')
        ∧ ¬ (c = '>' ∧ n = '=') ∧ ¬ (c = '<' ∧ n = '>') ∧ ¬ (c = '.' ∧ n = '.') := by
  rw [isSingleCharToken_split]
  simp only [Bool.and_eq_true, Bool.not_eq_true', Bool.and_eq_false_imp, beq_iff_eq,
    beq_eq_false_iff_ne, ne_eq, not_and, and_assoc]

theorem singleCharTable_spec : ∀ e ∈ singleCharTable, e.1 ≠ '\x7b' →
    (isSingleCharToken e.1 '\x00' = true ∧ singleCharType e.1 = e.2) := by
  decide

/-- A character of the `switch` other than the opening brace is lexed by the last branch of
`nextToken` when it starts no longer operator, and its kind is the one of its `case`. -/
theorem isSingleCharToken_table {c n : Char} {t : TokenType} (hm : (c, t) ∈ singleCharTable)
    (hb : c ≠ '\x7b')
    (h1 : ¬ (c = ':' ∧ n = '=')) (h2 : ¬ (c = '<' ∧ n = '=')) (h3 : ¬ (c = '>' ∧ n = '='))
    (h4 : ¬ (c = '<' ∧ n = '>')) (h5 : ¬ (c = '.' ∧ n = '.')) :
    isSingleCharToken c n = true ∧ singleCharType c = t := by
  rw [isSingleCharToken_iff]
  have key := singleCharTable_spec (c, t) hm hb
  exact ⟨⟨key.1, h1, h2, h3, h4, h5⟩, key.2⟩

end Lexer

open TokenType

/-- Claim C22, counterexample: for the input `'a;`, where the closing quote is missing, the
CHAR token has the text `'a'`, with a closing quote that is not in the input (only two
characters are consumed); for `'a'` the text is the same and three characters are consumed. -/
theorem C22_closing_quote_always_stored :
    (Lexer.new "'a;".toList).nextToken = (⟨TOK_CHAR, "'a'", 1, 1⟩, ⟨"'a;".toList, 2, 1, 3⟩)
    ∧ (Lexer.new "'a'".toList).nextToken = (⟨TOK_CHAR, "'a'", 1, 1⟩, ⟨"'a'".toList, 3, 1, 4⟩) := by
  decide

open Lexer in
/-- Claim C22, amended.  For every character `c` (the quote itself included), when the text at
the cursor is a quote followed by `c`, `nextToken` returns a CHAR token, at the line and column
of the opening quote, whose text is always the three characters quote, `c`, quote, whether or
not the input has the closing quote.  It consumes the opening quote, `c` and the closing quote
when that is the next character (three characters), and only the first two otherwise. -/
theorem C22_char_literal (l : Lexer) (c : Char) (r : List Char)
    (h : l.rest = '\'' :: c :: r) :
    l.nextToken.1 = ⟨TOK_CHAR, String.mk ['\'', c, '\''], l.line, l.column⟩
    ∧ (r.head? = some '\'' → l.nextToken.2 = l.skip 3 ∧ l.nextToken.2.rest = r.tail)
    ∧ (r.head? ≠ some '\'' → l.nextToken.2 = l.skip 2 ∧ l.nextToken.2.rest = r) := by
  rw [nextToken_char h]
  refine ⟨rfl, ?_, ?_⟩
  · intro hq
    rw [if_pos hq]
    refine ⟨rfl, ?_⟩
    show (l.skip 3).rest = r.tail
    rw [rest_skip, h]
    cases r <;> rfl
  · intro hq
    rw [if_neg hq]
    refine ⟨rfl, ?_⟩
    show (l.skip 2).rest = r
    rw [rest_skip, h]
    rfl

theorem C22_char_literal_witness :
    ((Lexer.new "'a'".toList).nextToken.1 = ⟨TOK_CHAR, String.mk ['\'', 'a', '\''], 1, 1⟩
      ∧ (Lexer.new "'a'".toList).nextToken.2 = (Lexer.new "'a'".toList).skip 3
      ∧ (Lexer.new "'a'".toList).nextToken.2.rest = [])
    ∧ ((Lexer.new "'a;".toList).nextToken.1 = ⟨TOK_CHAR, String.mk ['\'', 'a', '\''], 1, 1⟩
      ∧ (Lexer.new "'a;".toList).nextToken.2 = (Lexer.new "'a;".toList).skip 2
      ∧ (Lexer.new "'a;".toList).nextToken.2.rest = [';'])
    ∧ ((Lexer.new "'''".toList).nextToken.1 = ⟨TOK_CHAR, String.mk ['\'', '\'', '\''], 1, 1⟩
      ∧ (Lexer.new "'''".toList).nextToken.2 = (Lexer.new "'''".toList).skip 3) :=
  ⟨⟨(C22_char_literal (Lexer.new "'a'".toList) 'a' ['\''] rfl).1,
    (C22_char_literal (Lexer.new "'a'".toList) 'a' ['\''] rfl).2.1 rfl⟩,
   ⟨(C22_char_literal (Lexer.new "'a;".toList) 'a' [';'] rfl).1,
    (C22_char_literal (Lexer.new "'a;".toList) 'a' [';'] rfl).2.2 (by decide)⟩,
   ⟨(C22_char_literal (Lexer.new "'''".toList) '\'' ['\''] rfl).1,
    ((C22_char_literal (Lexer.new "'''".toList) '\'' ['\''] rfl).2.1 rfl).1⟩⟩

open TokenType

namespace Parser

theorem LexTo.string_open {s : List Char} (hs : ∀ x ∈ s, x ≠ '"') :
    LexTo ('"' :: s) TOK_STRING (String.mk ('"' :: s)) [] := by
  apply LexTo.of_nextToken (by decide)
  intro l hl
  rw [Lexer.nextToken_string_open hl hs]
  refine ⟨rfl, rfl, ?_⟩
  show (l.skip (s.length + 1)).rest = []
  rw [Lexer.rest_skip, hl]
  simp

theorem LexTo.string_closed {body r : List Char} (hb : ∀ x ∈ body, x ≠ '"') :
    LexTo ('"' :: (body ++ '"' :: r)) TOK_STRING (String.mk ('"' :: (body ++ ['"']))) r := by
  apply LexTo.of_nextToken (by decide)
  intro l hl
  rw [Lexer.nextToken_string_closed hl hb]
  refine ⟨rfl, rfl, ?_⟩
  show (l.skip (body.length + 2)).rest = r
  rw [Lexer.rest_skip, hl]
  show List.drop (body.length + 1) (body ++ '"' :: r) = r
  rw [List.drop_append_eq_append_drop]
  simp

theorem parsePrimary_string {p : Parser} (fuel : Nat) (h : p.currentToken.type = TOK_STRING) :
    parsePrimary (fuel + 1) p
      = some (some (ASTNode.mk "<string>" [ASTNode.mk p.currentToken.value [] ""] ""),
          p.advance) := by
  rw [parsePrimary]
  simp [matchTok, h, createStringNode, ASTNode.addChild, ASTNode.new, ASTNode.nodeType,
    ASTNode.children, ASTNode.value]

end Parser

open Lexer Parser in
/-- Claim C23: when the text at the cursor is a double quote followed by `s`, `nextToken`
returns a STRING token at the position of the opening quote.  If `s` is `body`, a double quote
and `r`, with no double quote in `body`, the text is the opening quote, `body` verbatim and the
closing quote, and exactly `r` is left.  If `s` has no double quote, the text is the opening
quote and `s` verbatim with no closing quote, the whole input is consumed and the next token
is EOF.  `parsePrimary`, with enough fuel for one call, turns a STRING token into the wrapper
`<string>` with exactly one child, a leaf labeled with the text of the token; so an input that
is an unterminated string literal parses to that wrapper, and the token after it is EOF. -/
theorem C23_string_literal (l : Lexer) (body r s : List Char) (p : Parser) (fuel : Nat) :
    (l.rest = '"' :: (body ++ '"' :: r) → (∀ x ∈ body, x ≠ '"') →
        l.nextToken = (⟨TOK_STRING, String.mk ('"' :: (body ++ ['"'])), l.line, l.column⟩,
            l.skip (body.length + 2))
          ∧ l.nextToken.2.rest = r)
    ∧ (l.rest = '"' :: s → (∀ x ∈ s, x ≠ '"') →
        l.nextToken = (⟨TOK_STRING, String.mk ('"' :: s), l.line, l.column⟩,
            l.skip (s.length + 1))
          ∧ l.nextToken.2.rest = []
          ∧ l.nextToken.2.nextToken.1
              = ⟨TOK_EOF, "", l.nextToken.2.line, l.nextToken.2.column⟩)
    ∧ (p.currentToken.type = TOK_STRING →
        parsePrimary (fuel + 1) p
          = some (some (ASTNode.mk "<string>" [ASTNode.mk p.currentToken.value [] ""] ""),
              p.advance))
    ∧ ((∀ x ∈ s, x ≠ '"') →
        ∃ q, parsePrimary (fuel + 1) (Parser.new ('"' :: s))
            = some (some (ASTNode.mk "<string>" [ASTNode.mk (String.mk ('"' :: s)) [] ""] ""), q)
          ∧ q.currentToken.type = TOK_EOF) := by
  refine ⟨?_, ?_, parsePrimary_string fuel, ?_⟩
  · intro h hb
    rw [nextToken_string_closed h hb]
    refine ⟨rfl, ?_⟩
    show (l.skip (body.length + 2)).rest = r
    rw [rest_skip, h]
    show List.drop (body.length + 1) (body ++ '"' :: r) = r
    rw [List.drop_append_eq_append_drop]
    simp
  · intro h hb
    rw [nextToken_string_open h hb]
    have hr : (l.skip (s.length + 1)).rest = [] := by
      rw [rest_skip, h]; simp
    refine ⟨rfl, hr, ?_⟩
    show (l.skip (s.length + 1)).nextToken.1 = _
    rw [nextToken_of_rest_nil hr]
  · intro hb
    have h0 := new_at (LexTo.string_open hb)
    have h1 := h0.advance LexTo.eof
    refine ⟨_, ?_, h1.1⟩
    rw [parsePrimary_string fuel h0.1, h0.2.1]

theorem C23_string_literal_witness :
    ((Lexer.new "\"a\\n\" x".toList).nextToken
        = (⟨TOK_STRING, String.mk ('"' :: ("a\\n".toList ++ ['"'])), 1, 1⟩,
            (Lexer.new "\"a\\n\" x".toList).skip ("a\\n".toList.length + 2))
      ∧ (Lexer.new "\"a\\n\" x".toList).nextToken.2.rest = " x".toList)
    ∧ ((Lexer.new "\"ab\nc".toList).nextToken
        = (⟨TOK_STRING, String.mk ('"' :: "ab\nc".toList), 1, 1⟩,
            (Lexer.new "\"ab\nc".toList).skip ("ab\nc".toList.length + 1))
      ∧ (Lexer.new "\"ab\nc".toList).nextToken.2.rest = []
      ∧ (Lexer.new "\"ab\nc".toList).nextToken.2.nextToken.1
          = ⟨TOK_EOF, "", (Lexer.new "\"ab\nc".toList).nextToken.2.line,
              (Lexer.new "\"ab\nc".toList).nextToken.2.column⟩)
    ∧ (Parser.parsePrimary (0 + 1) (Parser.new "\"ab\" x".toList)
        = some (some (ASTNode.mk "<string>"
            [ASTNode.mk (Parser.new "\"ab\" x".toList).currentToken.value [] ""] ""),
            (Parser.new "\"ab\" x".toList).advance))
    ∧ (∃ q, Parser.parsePrimary (0 + 1) (Parser.new ('"' :: "ab\nc".toList))
            = some (some (ASTNode.mk "<string>"
                [ASTNode.mk (String.mk ('"' :: "ab\nc".toList)) [] ""] ""), q)
          ∧ q.currentToken.type = TOK_EOF) :=
  ⟨(C23_string_literal (Lexer.new "\"a\\n\" x".toList) "a\\n".toList " x".toList []
      (Parser.new []) 0).1 rfl (by decide),
   (C23_string_literal (Lexer.new "\"ab\nc".toList) [] [] "ab\nc".toList
      (Parser.new []) 0).2.1 rfl (by decide),
   (C23_string_literal (Lexer.new []) [] [] [] (Parser.new "\"ab\" x".toList) 0).2.2.1
      (by decide),
   (C23_string_literal (Lexer.new []) [] [] "ab\nc".toList (Parser.new []) 0).2.2.2
      (by decide)⟩

open TokenType

namespace Lexer

theorem drop_length_append (body : List Char) (c : Char) (r : List Char) (k : Nat) :
    (body ++ c :: r).drop (body.length + k) = (c :: r).drop k := by
  rw [List.drop_append_eq_append_drop]
  simp

end Lexer

open Lexer in
/-- Claim C24: comments produce no token.  With the cursor at `#`: if the text after it is
`body`, a newline and `r`, with no newline in `body`, `nextToken` returns the NEWLINE token of
that newline (at the position reached after `#` and `body`) and consumes through the newline,
leaving `r`; if the text after `#` has no newline, `nextToken` consumes it all and returns EOF.
With the cursor at an opening brace: if the text after it is `body`, a closing brace and `r`,
with no closing brace in `body` (opening braces in `body` do not count), `nextToken` returns
what it returns from the state where exactly `r` is left; if the text after it has no closing
brace, `nextToken` consumes it all and returns EOF. -/
theorem C24_comments (l : Lexer) (body r : List Char) :
    (l.rest = '#' :: (body ++ '\n' :: r) → (∀ x ∈ body, x ≠ '\n') →
        l.nextToken = (⟨TOK_NEWLINE, "\\n", (l.skip (body.length + 1)).line,
            (l.skip (body.length + 1)).column⟩, l.skip (body.length + 2))
          ∧ (l.skip (body.length + 1)).rest = '\n' :: r
          ∧ (l.skip (body.length + 2)).rest = r)
    ∧ (l.rest = '#' :: body → (∀ x ∈ body, x ≠ '\n') →
        l.nextToken = (⟨TOK_EOF, "", (l.skip (body.length + 1)).line,
            (l.skip (body.length + 1)).column⟩, l.skip (body.length + 1))
          ∧ (l.skip (body.length + 1)).rest = [])
    ∧ (l.rest = '\x7b' :: (body ++ '\x7d' :: r) → (∀ x ∈ body, x ≠ '\x7d') →
        l.nextToken = (l.skip (body.length + 2)).nextToken
          ∧ (l.skip (body.length + 2)).rest = r)
    ∧ (l.rest = '\x7b' :: body → (∀ x ∈ body, x ≠ '\x7d') →
        l.nextToken = (⟨TOK_EOF, "", (l.skip (body.length + 1)).line,
            (l.skip (body.length + 1)).column⟩, l.skip (body.length + 1))
          ∧ (l.skip (body.length + 1)).rest = []) := by
  refine ⟨?_, ?_, ?_, ?_⟩
  · intro h hb
    have htw : (body ++ '\n' :: r).takeWhile (fun c => c != '\n') = body :=
      takeWhile_append_stop (fun x hx => by simpa using hb x hx) (by decide)
    have h1 : (l.skip (body.length + 1)).rest = '\n' :: r := by
      rw [rest_skip, h]
      show List.drop (body.length + 0) (body ++ '\n' :: r) = '\n' :: r
      rw [drop_length_append]; rfl
    have h2 : (l.skip (body.length + 2)).rest = r := by
      rw [rest_skip, h]
      show List.drop (body.length + 1) (body ++ '\n' :: r) = r
      rw [drop_length_append]; rfl
    refine ⟨?_, h1, h2⟩
    rw [nextToken_line_comment h, htw, nextToken_newline h1, skip_add]
  · intro h hb
    have htw : body.takeWhile (fun c => c != '\n') = body :=
      takeWhile_of_all (fun x hx => by simpa using hb x hx)
    have h1 : (l.skip (body.length + 1)).rest = [] := by
      rw [rest_skip, h]; simp
    refine ⟨?_, h1⟩
    rw [nextToken_line_comment h, htw, nextToken_of_rest_nil h1]
  · intro h hb
    have htw : (body ++ '\x7d' :: r).takeWhile (fun c => c != '\x7d') = body :=
      takeWhile_append_stop (fun x hx => by simpa using hb x hx) (by decide)
    have h2 : (l.skip (body.length + 2)).rest = r := by
      rw [rest_skip, h]
      show List.drop (body.length + 1) (body ++ '\x7d' :: r) = r
      rw [drop_length_append]; rfl
    refine ⟨?_, h2⟩
    rw [nextToken_block_comment h, htw]
  · intro h hb
    have htw : body.takeWhile (fun c => c != '\x7d') = body :=
      takeWhile_of_all (fun x hx => by simpa using hb x hx)
    have h1 : (l.skip (body.length + 1)).rest = [] := by
      rw [rest_skip, h]; simp
    have h2 : l.skip (body.length + 2) = l.skip (body.length + 1) := by
      rw [← skip_add (body.length + 1) 1 l, skip_of_rest_nil 1 h1]
    refine ⟨?_, h1⟩
    rw [nextToken_block_comment h, htw, h2, nextToken_of_rest_nil h1]

theorem C24_comments_witness :
    ((Lexer.new "# a b\nx".toList).nextToken
        = (⟨TOK_NEWLINE, "\\n", ((Lexer.new "# a b\nx".toList).skip (" a b".toList.length + 1)).line,
            ((Lexer.new "# a b\nx".toList).skip (" a b".toList.length + 1)).column⟩,
            (Lexer.new "# a b\nx".toList).skip (" a b".toList.length + 2))
      ∧ ((Lexer.new "# a b\nx".toList).skip (" a b".toList.length + 1)).rest = '\n' :: "x".toList
      ∧ ((Lexer.new "# a b\nx".toList).skip (" a b".toList.length + 2)).rest = "x".toList)
    ∧ ((Lexer.new "# a b".toList).nextToken
        = (⟨TOK_EOF, "", ((Lexer.new "# a b".toList).skip (" a b".toList.length + 1)).line,
            ((Lexer.new "# a b".toList).skip (" a b".toList.length + 1)).column⟩,
            (Lexer.new "# a b".toList).skip (" a b".toList.length + 1))
      ∧ ((Lexer.new "# a b".toList).skip (" a b".toList.length + 1)).rest = [])
    ∧ ((Lexer.new "\x7ba \x7b b\x7d c \x7d".toList).nextToken
        = ((Lexer.new "\x7ba \x7b b\x7d c \x7d".toList).skip ("a \x7b b".toList.length + 2)).nextToken
      ∧ ((Lexer.new "\x7ba \x7b b\x7d c \x7d".toList).skip ("a \x7b b".toList.length + 2)).rest
          = " c \x7d".toList)
    ∧ ((Lexer.new "\x7ba b".toList).nextToken
        = (⟨TOK_EOF, "", ((Lexer.new "\x7ba b".toList).skip ("a b".toList.length + 1)).line,
            ((Lexer.new "\x7ba b".toList).skip ("a b".toList.length + 1)).column⟩,
            (Lexer.new "\x7ba b".toList).skip ("a b".toList.length + 1))
      ∧ ((Lexer.new "\x7ba b".toList).skip ("a b".toList.length + 1)).rest = [])
    ∧ (Lexer.new "# a b\nx".toList).nextToken
        = (⟨TOK_NEWLINE, "\\n", 1, 6⟩, ⟨"# a b\nx".toList, 6, 2, 1⟩)
    ∧ (Lexer.new "\x7ba \x7b b\x7d c \x7d".toList).nextToken
        = (⟨TOK_IDENTIFIER, "c", 1, 9⟩, ⟨"\x7ba \x7b b\x7d c \x7d".toList, 9, 1, 10⟩) :=
  ⟨(C24_comments (Lexer.new "# a b\nx".toList) " a b".toList "x".toList).1 rfl (by decide),
   (C24_comments (Lexer.new "# a b".toList) " a b".toList []).2.1 rfl (by decide),
   (C24_comments (Lexer.new "\x7ba \x7b b\x7d c \x7d".toList) "a \x7b b".toList
      " c \x7d".toList).2.2.1 rfl (by decide),
   (C24_comments (Lexer.new "\x7ba b".toList) "a b".toList []).2.2.2 rfl (by decide),
   by decide, by decide⟩

open TokenType

/-! ## The statement forms `for`, `if` and `case` -/

namespace Parser

theorem parseForStat_mono {n m : Nat} {s : Parser} {r : Option ASTNode × Parser}
    (h : parseForStat n s = some r) (hnm : n ≤ m) : parseForStat m s = some r := by
  induction hnm with
  | refl => exact h
  | step _ ih => exact parseForStat_mono_succ ih

theorem parseForExp_mono {n m : Nat} {s : Parser} {r : Option ASTNode × Parser}
    (h : parseForExp n s = some r) (hnm : n ≤ m) : parseForExp m s = some r := by
  induction hnm with
  | refl => exact h
  | step _ ih => exact parseForExp_mono_succ ih

/-- At an identifier `parseForStat` does what `parseStatement` does: both read an assignment
or a swap with the same steps. -/
theorem parseForStat_eq_statement (k : Nat) {s : Parser}
    (h : s.currentToken.type = TOK_IDENTIFIER) :
    parseForStat k s = parseStatement (k + 1) s := by
  rw [parseStatement, parseForStat, parseAssignment]
  simp only [matchTok, h, decide_True, if_true]

/-- An empty slot of `parseForStat`: the token is no identifier. -/
theorem parseForStat_empty (k : Nat) {s : Parser} (h : s.currentToken.type ≠ TOK_IDENTIFIER) :
    parseForStat k s = some (some (ASTNode.mk "<null>" [] ""), s) := by
  rw [parseForStat]
  simp only [matchTok, h, decide_False, Bool.false_eq_true, if_false]
  rfl

/-- An empty slot of `parseForExp`: the token is the `;` that ends the slot. -/
theorem parseForExp_empty (k : Nat) {s : Parser} (h : s.currentToken.type = TOK_SEMICOLON) :
    parseForExp k s = some (some (ASTNode.mk "true" [] ""), s) := by
  rw [parseForExp]
  simp only [matchTok, h, decide_True, Bool.not_true, Bool.false_eq_true, if_false]
  rfl

theorem parseForExp_eq_expression (k : Nat) {s : Parser}
    (h : s.currentToken.type ≠ TOK_SEMICOLON) : parseForExp k s = parseExpression k s := by
  rw [parseForExp]
  simp only [matchTok, h, decide_False, Bool.not_false, if_true]

/-- The statement `for (init; condition; step) body` around its four parts. -/
theorem parseStatement_for (k : Nat) (p : Parser) (r1 r2 r3 r4 : Option ASTNode × Parser)
    (hf : p.currentToken.type = TOK_FOR)
    (h1 : parseForStat k (p.advance.consume TOK_LPAREN).2 = some r1)
    (h2 : parseForExp k (r1.2.consume TOK_SEMICOLON).2 = some r2)
    (h3 : parseForStat k (r2.2.consume TOK_SEMICOLON).2 = some r3)
    (h4 : parseStatement k (r3.2.consume TOK_RPAREN).2 = some r4) :
    parseStatement (k + 1) p
      = some (some (((((ASTNode.new "for").addChild r1.1).addChild r2.1).addChild r3.1).addChild
          r4.1), r4.2) := by
  rw [parseStatement]
  simp [matchTok, hf, h1, h2, h3, h4]

/-- The statement `if condition then statement` with no `else` after it. -/
theorem parseStatement_if_then (k : Nat) (p : Parser) (rc rt : Option ASTNode × Parser)
    (hi : p.currentToken.type = TOK_IF)
    (h1 : parseExpression k p.advance = some rc)
    (h2 : parseStatement k (rc.2.consume TOK_THEN).2 = some rt)
    (h3 : rt.2.currentToken.type ≠ TOK_ELSE) :
    parseStatement (k + 1) p
      = some (some (((ASTNode.new "if").addChild rc.1).addChild rt.1), rt.2) := by
  rw [parseStatement]
  simp [matchTok, hi, h1, h2, h3]

/-- The statement `if condition then statement else statement`. -/
theorem parseStatement_if_else (k : Nat) (p : Parser) (rc rt re : Option ASTNode × Parser)
    (hi : p.currentToken.type = TOK_IF)
    (h1 : parseExpression k p.advance = some rc)
    (h2 : parseStatement k (rc.2.consume TOK_THEN).2 = some rt)
    (h3 : rt.2.currentToken.type = TOK_ELSE)
    (h4 : parseStatement k rt.2.advance = some re) :
    parseStatement (k + 1) p
      = some (some ((((ASTNode.new "if").addChild rc.1).addChild rt.1).addChild re.1), re.2) := by
  rw [parseStatement]
  simp [matchTok, hi, h1, h2, h3, h4]

/-- The statement `case expression of clauses end`, with no `otherwise`. -/
theorem parseStatement_case (k : Nat) (p : Parser) (re : Option ASTNode × Parser)
    (rl : ASTNode × Parser)
    (hc : p.currentToken.type = TOK_CASE)
    (h1 : parseExpression k p.advance = some re)
    (h2 : parseCaseLoop k ((ASTNode.new "case").addChild re.1) (re.2.consume TOK_OF).2 = some rl)
    (h3 : rl.2.currentToken.type ≠ TOK_OTHERWISE) :
    parseStatement (k + 1) p = some (some rl.1, (rl.2.consume TOK_END).2) := by
  rw [parseStatement]
  simp [matchTok, hc, h1, h2, h3]

/-- The statement `case expression of clauses otherwise statement end`. -/
theorem parseStatement_case_otherwise (k : Nat) (p : Parser) (re ro : Option ASTNode × Parser)
    (rl : ASTNode × Parser)
    (hc : p.currentToken.type = TOK_CASE)
    (h1 : parseExpression k p.advance = some re)
    (h2 : parseCaseLoop k ((ASTNode.new "case").addChild re.1) (re.2.consume TOK_OF).2 = some rl)
    (h3 : rl.2.currentToken.type = TOK_OTHERWISE)
    (h4 : parseOtherwiseClause k rl.2 = some ro) :
    parseStatement (k + 1) p = some (some (rl.1.addChild ro.1), (ro.2.consume TOK_END).2) := by
  rw [parseStatement]
  simp [matchTok, hc, h1, h2, h3, h4]

theorem parseCaseLoop_mono {n m : Nat} {node : ASTNode} {s : Parser} {r : ASTNode × Parser}
    (h : parseCaseLoop n node s = some r) (hnm : n ≤ m) : parseCaseLoop m node s = some r := by
  induction hnm with
  | refl => exact h
  | step _ ih => exact (stmt_mono_succ _).2.2.2.1 _ _ _ ih

theorem parseCaseclause_mono {n m : Nat} {s : Parser} {r : Option ASTNode × Parser}
    (h : parseCaseclause n s = some r) (hnm : n ≤ m) : parseCaseclause m s = some r := by
  induction hnm with
  | refl => exact h
  | step _ ih => exact (stmt_mono_succ _).2.2.2.2.1 _ _ ih

theorem parseOtherwiseClause_mono {n m : Nat} {s : Parser} {r : Option ASTNode × Parser}
    (h : parseOtherwiseClause n s = some r) (hnm : n ≤ m) :
    parseOtherwiseClause m s = some r := by
  induction hnm with
  | refl => exact h
  | step _ ih => exact (stmt_mono_succ _).2.2.2.2.2.1 _ _ ih

/-- The clause loop at `end` or `otherwise`: no clause is read. -/
theorem parseCaseLoop_done (k : Nat) (caseNode : ASTNode) {p : Parser}
    (h : p.currentToken.type = TOK_END ∨ p.currentToken.type = TOK_OTHERWISE) :
    parseCaseLoop (k + 1) caseNode p = some (caseNode, p) := by
  rw [parseCaseLoop]
  rcases h with h | h <;> simp [matchTok, h]

/-- The clause loop at a clause: the node of the clause is added and the loop goes on after
the optional `;`. -/
theorem parseCaseLoop_next (k : Nat) (caseNode node : ASTNode) {p m : Parser}
    (h1 : p.currentToken.type ≠ TOK_END) (h2 : p.currentToken.type ≠ TOK_OTHERWISE)
    (hc : parseCaseclause k p = some (some node, m)) :
    parseCaseLoop (k + 1) caseNode p
      = parseCaseLoop k (caseNode.addChild (some node)) (m.consume TOK_SEMICOLON).2 := by
  rw [parseCaseLoop]
  simp [matchTok, h1, h2, hc]

/-- The clause loop over a list of clauses adds their nodes in order and stops at the `end` or
`otherwise` that follows them. -/
theorem parseCaseLoop_seq {p q : Parser} {nodes : List ASTNode} (hs : ClauseSeq p nodes q) :
    ∀ caseNode : ASTNode, ∃ N, ∀ fuel, N ≤ fuel →
      parseCaseLoop fuel caseNode p
        = some (ASTNode.mk caseNode.nodeType (caseNode.children ++ nodes) caseNode.value, q) := by
  induction hs with
  | done h =>
    intro caseNode
    refine ⟨1, fun fuel hf => ?_⟩
    obtain ⟨k, rfl⟩ : ∃ k, fuel = k + 1 := ⟨fuel - 1, by omega⟩
    rw [parseCaseLoop_done k caseNode h]
    cases caseNode
    simp [ASTNode.nodeType, ASTNode.children, ASTNode.value]
  | more h1 h2 hc _ ih =>
    intro caseNode
    obtain ⟨f0, hf0⟩ := hc
    obtain ⟨N, hN⟩ := ih (caseNode.addChild (some _))
    refine ⟨max N f0 + 1, fun fuel hf => ?_⟩
    obtain ⟨k, rfl⟩ : ∃ k, fuel = k + 1 := ⟨fuel - 1, by omega⟩
    rw [parseCaseLoop_next k caseNode _ h1 h2 (parseCaseclause_mono hf0 (by omega)),
      hN k (by omega)]
    simp [ASTNode.addChild, ASTNode.nodeType, ASTNode.children, ASTNode.value]

theorem clauseSeq_done_end {p q : Parser} {nodes : List ASTNode} (hs : ClauseSeq p nodes q) :
    q.currentToken.type = TOK_END ∨ q.currentToken.type = TOK_OTHERWISE := by
  induction hs with
  | done h => exact h
  | more _ _ _ _ ih => exact ih

/-- A clause with one value: `value : statement`. -/
theorem clauseAt_value {p q : Parser} {v s : ASTNode}
    (hv : (parseConstValue p).1 = some v)
    (hc : (parseConstValue p).2.currentToken.type = TOK_COLON)
    (hs : StmtAt (parseConstValue p).2.advance s q) :
    ClauseAt p (ASTNode.mk "case_clause" [v, s] "") q := by
  obtain ⟨f, hf⟩ := hs
  refine ⟨f + 1, ?_⟩
  rw [parseCaseclause]
  simp [parseCaseExpression, matchTok, hc, consume, hf, hv, ASTNode.addChild, ASTNode.new,
    ASTNode.nodeType, ASTNode.children, ASTNode.value]

/-- A clause with a range: `low .. high : statement`. -/
theorem clauseAt_range {p q : Parser} {lo hi s : ASTNode}
    (hlo : (parseConstValue p).1 = some lo)
    (hd : (parseConstValue p).2.currentToken.type = TOK_DOTS)
    (hhi : (parseConstValue (parseConstValue p).2.advance).1 = some hi)
    (hc : (parseConstValue (parseConstValue p).2.advance).2.currentToken.type = TOK_COLON)
    (hs : StmtAt (parseConstValue (parseConstValue p).2.advance).2.advance s q) :
    ClauseAt p (ASTNode.mk "case_clause" [ASTNode.mk ".." [lo, hi] "", s] "") q := by
  obtain ⟨f, hf⟩ := hs
  refine ⟨f + 1, ?_⟩
  rw [parseCaseclause]
  simp [parseCaseExpression, matchTok, hd, hc, consume, hf, hlo, hhi, ASTNode.addChild,
    ASTNode.new, ASTNode.nodeType, ASTNode.children, ASTNode.value]

/-- Every node returned by `parseCaseclause` is labeled `case_clause`. -/
theorem clauseAt_label {p q : Parser} {node : ASTNode} (h : ClauseAt p node q) :
    node.nodeType = "case_clause" := by
  obtain ⟨f, hf⟩ := h
  cases f with
  | zero => simp [parseCaseclause] at hf
  | succ k =>
    rw [parseCaseclause] at hf
    split at hf
    · cases hf
    · simp only [Option.some.injEq, Prod.mk.injEq] at hf
      rw [← hf.1, nodeType_addChild, nodeType_addChild]
      rfl

/-- The `otherwise` part, read from the keyword. -/
theorem parseOtherwiseClause_stmt (k : Nat) {p q : Parser} {s : ASTNode}
    (hs : parseStatement k p.advance = some (some s, q)) :
    parseOtherwiseClause (k + 1) p = some (some (ASTNode.mk "otherwise" [s] ""), q) := by
  rw [parseOtherwiseClause]
  simp [hs, ASTNode.addChild, ASTNode.new, ASTNode.nodeType, ASTNode.children, ASTNode.value]

end Parser

open TokenType

namespace Parser

/-- A slot of `parseForStat`: an assignment read as `parseStatement` reads it, or nothing. -/
theorem forStat_slot {s q : Parser} {node : ASTNode}
    (h : (s.currentToken.type = TOK_IDENTIFIER ∧ StmtAt s node q)
      ∨ (s.currentToken.type ≠ TOK_IDENTIFIER ∧ node = ASTNode.mk "<null>" [] "" ∧ q = s)) :
    ∃ N, ∀ k, N ≤ k → parseForStat k s = some (some node, q) := by
  rcases h with ⟨hi, f, hf⟩ | ⟨hn, rfl, rfl⟩
  · cases f with
    | zero => simp [parseStatement] at hf
    | succ f =>
      rw [← parseForStat_eq_statement f hi] at hf
      exact ⟨f, fun k hk => parseForStat_mono hf hk⟩
  · exact ⟨0, fun k _ => parseForStat_empty k hn⟩

/-- The condition slot of `parseForExp`: an expression, or nothing before the `;`. -/
theorem forExp_slot {s q : Parser} {node : ASTNode}
    (h : (s.currentToken.type ≠ TOK_SEMICOLON ∧ ExprAt s node q)
      ∨ (s.currentToken.type = TOK_SEMICOLON ∧ node = ASTNode.mk "true" [] "" ∧ q = s)) :
    ∃ N, ∀ k, N ≤ k → parseForExp k s = some (some node, q) := by
  rcases h with ⟨hi, f, hf⟩ | ⟨hn, rfl, rfl⟩
  · rw [← parseForExp_eq_expression f hi] at hf
    exact ⟨f, fun k hk => parseForExp_mono hf hk⟩
  · exact ⟨0, fun k _ => parseForExp_empty k hn⟩

/-- The four children of `for`: what the init slot, the condition slot, the step slot and the
body give, in this order. -/
theorem parseStatement_for_slots (p q1 q2 q3 q4 : Parser) (init cond step body : ASTNode)
    (hf : p.currentToken.type = TOK_FOR) (hl : p.advance.currentToken.type = TOK_LPAREN)
    (h1 : (p.advance.advance.currentToken.type = TOK_IDENTIFIER
          ∧ StmtAt p.advance.advance init q1)
      ∨ (p.advance.advance.currentToken.type ≠ TOK_IDENTIFIER
          ∧ init = ASTNode.mk "<null>" [] "" ∧ q1 = p.advance.advance))
    (hs1 : q1.currentToken.type = TOK_SEMICOLON)
    (h2 : (q1.advance.currentToken.type ≠ TOK_SEMICOLON ∧ ExprAt q1.advance cond q2)
      ∨ (q1.advance.currentToken.type = TOK_SEMICOLON
          ∧ cond = ASTNode.mk "true" [] "" ∧ q2 = q1.advance))
    (hs2 : q2.currentToken.type = TOK_SEMICOLON)
    (h3 : (q2.advance.currentToken.type = TOK_IDENTIFIER ∧ StmtAt q2.advance step q3)
      ∨ (q2.advance.currentToken.type ≠ TOK_IDENTIFIER
          ∧ step = ASTNode.mk "<null>" [] "" ∧ q3 = q2.advance))
    (hr : q3.currentToken.type = TOK_RPAREN)
    (h4 : StmtAt q3.advance body q4) :
    ∃ N, ∀ fuel, N ≤ fuel →
      parseStatement fuel p = some (some (ASTNode.mk "for" [init, cond, step, body] ""), q4) := by
  obtain ⟨N1, hN1⟩ := forStat_slot h1
  obtain ⟨N2, hN2⟩ := forExp_slot h2
  obtain ⟨N3, hN3⟩ := forStat_slot h3
  obtain ⟨N4, hN4⟩ := h4
  refine ⟨max (max N1 N2) (max N3 N4) + 1, fun fuel hfu => ?_⟩
  obtain ⟨k, rfl⟩ : ∃ k, fuel = k + 1 := ⟨fuel - 1, by omega⟩
  rw [parseStatement_for k p (some init, q1) (some cond, q2) (some step, q3) (some body, q4) hf
    (by rw [consume_of_type hl]; exact hN1 k (by omega))
    (by simp only [consume_of_type hs1]; exact hN2 k (by omega))
    (by simp only [consume_of_type hs2]; exact hN3 k (by omega))
    (by simp only [consume_of_type hr]; exact parseStatement_mono hN4 (by omega))]
  rfl

theorem isSingleCharToken_lparen (n : Char) : Lexer.isSingleCharToken '(' n = true :=
  (Lexer.isSingleCharToken_table (c := '(') (t := TOK_LPAREN) (by decide) (by decide)
    (fun h => absurd h.1 (by decide)) (fun h => absurd h.1 (by decide))
    (fun h => absurd h.1 (by decide)) (fun h => absurd h.1 (by decide))
    (fun h => absurd h.1 (by decide))).1

theorem isSingleCharToken_rparen (n : Char) : Lexer.isSingleCharToken ')' n = true :=
  (Lexer.isSingleCharToken_table (c := ')') (t := TOK_RPAREN) (by decide) (by decide)
    (fun h => absurd h.1 (by decide)) (fun h => absurd h.1 (by decide))
    (fun h => absurd h.1 (by decide)) (fun h => absurd h.1 (by decide))
    (fun h => absurd h.1 (by decide))).1

theorem isSingleCharToken_semicolon (n : Char) : Lexer.isSingleCharToken ';' n = true :=
  (Lexer.isSingleCharToken_table (c := ';') (t := TOK_SEMICOLON) (by decide) (by decide)
    (fun h => absurd h.1 (by decide)) (fun h => absurd h.1 (by decide))
    (fun h => absurd h.1 (by decide)) (fun h => absurd h.1 (by decide))
    (fun h => absurd h.1 (by decide))).1

theorem LexTo.lparen {r : List Char} : LexTo ('(' :: r) TOK_LPAREN "(" r :=
  LexTo.single (c := '(') (isSingleCharToken_lparen _)

theorem LexTo.rparen {r : List Char} : LexTo (')' :: r) TOK_RPAREN ")" r :=
  LexTo.single (c := ')') (isSingleCharToken_rparen _)

theorem LexTo.semicolon {r : List Char} : LexTo (';' :: r) TOK_SEMICOLON ";" r :=
  LexTo.single (c := ';') (isSingleCharToken_semicolon _)

/-- A primary read as an expression, when the token after it continues no expression. -/
theorem exprAt_primary {s : Parser} {x cs cs2 : List Char} {ty : TokenType} {val : String}
    (h : s.At (if Lexer.isNumberText x = true then TOK_INTEGER else TOK_IDENTIFIER)
      (String.mk x) cs)
    (hl : LexTo cs ty val cs2) (hty : endsExpression ty = true) :
    ExprAt s (primaryNode x) s.advance ∧ s.advance.At ty val cs2 := by
  have k := h.advance hl
  refine ⟨⟨4, ?_⟩, k⟩
  have hnl : s.advance.currentToken.type ≠ TOK_LPAREN := by
    rw [k.1]; intro e; rw [e] at hty; revert hty; decide
  rw [parseExpression_of_primary 0 _ _ _ (parsePrimary_operand 0 _ h.operand.1 hnl)
    (by rw [k.1]; exact hty), h.operand.2]

/-- The text `for (i; c; u) b` for assignments of primaries `i`, `u`, `b` and a primary `c`. -/
theorem parseStatement_for_text (i u b : List Char × List Char) (c : List Char)
    (hi : isAssignment i = true) (hu : isAssignment u = true) (hb : isAssignment b = true)
    (hc : isPrimaryText c = true) :
    ∃ N, ∀ fuel, N ≤ fuel →
      (parseStatement fuel (Parser.new ("for (".toList ++ assignText i ++ "; ".toList ++ c
          ++ "; ".toList ++ assignText u ++ ") ".toList ++ assignText b))).map (fun r => r.1)
        = some (some (ASTNode.mk "for"
            [assignNode i, primaryNode c, assignNode u, assignNode b] "")) := by
  have hin : "for (".toList ++ assignText i ++ "; ".toList ++ c ++ "; ".toList ++ assignText u
        ++ ") ".toList ++ assignText b
      = "for".toList ++ ' ' :: '(' :: (assignText i ++ ';' :: ' ' :: (c ++ ';' :: ' ' ::
          (assignText u ++ ')' :: ' ' :: (assignText b ++ [])))) := by
    simp
  rw [hin]
  have b0 := new_at (LexTo.identifier (p := "for".toList)
    (r := ' ' :: '(' :: (assignText i ++ ';' :: ' ' :: (c ++ ';' :: ' ' ::
          (assignText u ++ ')' :: ' ' :: (assignText b ++ []))))) (by decide) rfl)
  generalize Parser.new _ = p at b0 ⊢
  have b1 := b0.advance (LexTo.space (by decide) LexTo.lparen)
  obtain ⟨t1, q1, s1, a1⟩ := stmtAt_assignText hi
    (r := ';' :: ' ' :: (c ++ ';' :: ' ' :: (assignText u ++ ')' :: ' ' :: (assignText b ++ []))))
    rfl LexTo.semicolon (by decide) p.advance b1.2.2
  have a2 := a1.advance (LexTo.space (by decide) (LexTo.primary_end hc
    (r := ';' :: ' ' :: (assignText u ++ ')' :: ' ' :: (assignText b ++ []))) rfl))
  obtain ⟨e2, a3⟩ := exprAt_primary a2 LexTo.semicolon (by decide)
  obtain ⟨p3, hp3, hadv3⟩ := advance_skip_space a3.2.2 (by decide)
  obtain ⟨t3, q3, s3, a4⟩ := stmtAt_assignText hu
    (r := ')' :: ' ' :: (assignText b ++ [])) rfl LexTo.rparen (by decide) p3 hp3
  rw [← hadv3] at t3 s3
  obtain ⟨p4, hp4, hadv4⟩ := advance_skip_space a4.2.2 (by decide)
  obtain ⟨_, q4, s4, _⟩ := stmtAt_assignText hb (r := []) rfl LexTo.eof (by decide) p4 hp4
  rw [← hadv4] at s4
  have hne : q1.advance.currentToken.type ≠ TOK_SEMICOLON := by
    rw [a2.1]; split <;> decide
  obtain ⟨N, hN⟩ := parseStatement_for_slots p q1 q1.advance.advance q3 q4 _ _ _ _ b0.1 b1.1
    (Or.inl ⟨t1, s1⟩) a1.1 (Or.inl ⟨hne, e2⟩) a3.1 (Or.inl ⟨t3, s3⟩) a4.1 s4
  exact ⟨N, fun fuel hf => by rw [hN fuel hf]; rfl⟩

/-- The text `for (;;) b` for an assignment of primaries `b`. -/
theorem parseStatement_for_empty_text (b : List Char × List Char)
    (hb : isAssignment b = true) :
    ∃ N, ∀ fuel, N ≤ fuel →
      (parseStatement fuel (Parser.new ("for (;;) ".toList ++ assignText b))).map (fun r => r.1)
        = some (some (ASTNode.mk "for" [ASTNode.mk "<null>" [] "", ASTNode.mk "true" [] "",
            ASTNode.mk "<null>" [] "", assignNode b] "")) := by
  have hin : "for (;;) ".toList ++ assignText b
      = "for".toList ++ ' ' :: '(' :: ';' :: ';' :: ')' :: ' ' :: (assignText b ++ []) := by
    simp
  rw [hin]
  have b0 := new_at (LexTo.identifier (p := "for".toList)
    (r := ' ' :: '(' :: ';' :: ';' :: ')' :: ' ' :: (assignText b ++ [])) (by decide) rfl)
  generalize Parser.new _ = p at b0 ⊢
  have b1 := b0.advance (LexTo.space (by decide) LexTo.lparen)
  have b2 := b1.advance LexTo.semicolon
  have b3 := b2.advance LexTo.semicolon
  have b4 := b3.advance LexTo.rparen
  obtain ⟨p4, hp4, hadv4⟩ := advance_skip_space b4.2.2 (by decide)
  obtain ⟨_, q4, s4, _⟩ := stmtAt_assignText hb (r := []) rfl LexTo.eof (by decide) p4 hp4
  rw [← hadv4] at s4
  obtain ⟨N, hN⟩ := parseStatement_for_slots p p.advance.advance p.advance.advance.advance
    p.advance.advance.advance.advance q4 _ _ _ _ b0.1 b1.1
    (Or.inr ⟨by rw [b2.1]; decide, rfl, rfl⟩) b2.1 (Or.inr ⟨b3.1, rfl, rfl⟩) b3.1
    (Or.inr ⟨by rw [b4.1]; decide, rfl, rfl⟩) b4.1 s4
  exact ⟨N, fun fuel hf => by rw [hN fuel hf]; rfl⟩

end Parser

open Parser in
/-- Claim C28: the `for` statement.  Let the parser be at `for`, followed by `(`, an init slot,
`;`, a condition slot, `;`, a step slot, `)` and a statement that `parseStatement` turns into
the node `body`.  An init or step slot is either an assignment (starting at an identifier)
that `parseStatement` turns into a node, or empty (the next token is no identifier), which
gives a `<null>` node with no child; the condition slot is either an expression that
`parseExpression` turns into a node, or empty (the next token is the `;`), which gives a node
labeled `true` with no child.  `parseStatement` returns a `for` node with exactly the four
children init, condition, step, body, in this order.  In particular the text
`for (i; c; u) b`, for assignments of primaries `i`, `u`, `b` and a primary `c`, gives
`for` over their four nodes, and `for (;;) b` gives `for`(`<null>`, `true`, `<null>`, `b`). -/
theorem C28_for_statement :
    (∀ (p q1 q2 q3 q4 : Parser) (init cond step body : ASTNode),
      p.currentToken.type = TOK_FOR → p.advance.currentToken.type = TOK_LPAREN →
      ((p.advance.advance.currentToken.type = TOK_IDENTIFIER
          ∧ StmtAt p.advance.advance init q1)
        ∨ (p.advance.advance.currentToken.type ≠ TOK_IDENTIFIER
          ∧ init = ASTNode.mk "<null>" [] "" ∧ q1 = p.advance.advance)) →
      q1.currentToken.type = TOK_SEMICOLON →
      ((q1.advance.currentToken.type ≠ TOK_SEMICOLON ∧ ExprAt q1.advance cond q2)
        ∨ (q1.advance.currentToken.type = TOK_SEMICOLON
          ∧ cond = ASTNode.mk "true" [] "" ∧ q2 = q1.advance)) →
      q2.currentToken.type = TOK_SEMICOLON →
      ((q2.advance.currentToken.type = TOK_IDENTIFIER ∧ StmtAt q2.advance step q3)
        ∨ (q2.advance.currentToken.type ≠ TOK_IDENTIFIER
          ∧ step = ASTNode.mk "<null>" [] "" ∧ q3 = q2.advance)) →
      q3.currentToken.type = TOK_RPAREN →
      StmtAt q3.advance body q4 →
      (∃ N, ∀ fuel, N ≤ fuel →
        parseStatement fuel p
          = some (some (ASTNode.mk "for" [init, cond, step, body] ""), q4))
      ∧ (ASTNode.mk "for" [init, cond, step, body] "").children.length = 4)
    ∧ (∀ (i u b : List Char × List Char) (c : List Char),
      isAssignment i = true → isAssignment u = true → isAssignment b = true →
      isPrimaryText c = true →
      ∃ N, ∀ fuel, N ≤ fuel →
        (parseStatement fuel (Parser.new ("for (".toList ++ assignText i ++ "; ".toList ++ c
            ++ "; ".toList ++ assignText u ++ ") ".toList ++ assignText b))).map (fun r => r.1)
          = some (some (ASTNode.mk "for"
              [assignNode i, primaryNode c, assignNode u, assignNode b] "")))
    ∧ (∀ b : List Char × List Char, isAssignment b = true →
      ∃ N, ∀ fuel, N ≤ fuel →
        (parseStatement fuel (Parser.new ("for (;;) ".toList ++ assignText b))).map
            (fun r => r.1)
          = some (some (ASTNode.mk "for" [ASTNode.mk "<null>" [] "", ASTNode.mk "true" [] "",
              ASTNode.mk "<null>" [] "", assignNode b] ""))) :=
  ⟨fun p q1 q2 q3 q4 init cond step body hf hl h1 hs1 h2 hs2 h3 hr h4 =>
      ⟨parseStatement_for_slots p q1 q2 q3 q4 init cond step body hf hl h1 hs1 h2 hs2 h3 hr h4,
        rfl⟩,
   fun i u b c hi hu hb hc => parseStatement_for_text i u b c hi hu hb hc,
   fun b hb => parseStatement_for_empty_text b hb⟩

open Parser in
theorem C28_for_statement_witness :
    ((∃ N, ∀ fuel, N ≤ fuel →
        parseStatement fuel (Parser.new "for (i := 0; c; i := n) x := i".toList)
          = some (some (ASTNode.mk "for" [ASTNode.mk "assign" [ASTNode.mk "<identifier>" [ASTNode.mk "i" [] ""] "",
            ASTNode.mk "<integer>" [ASTNode.mk "0" [] ""] ""] "",
            ASTNode.mk "<identifier>" [ASTNode.mk "c" [] ""] "",
            ASTNode.mk "assign" [ASTNode.mk "<identifier>" [ASTNode.mk "i" [] ""] "",
            ASTNode.mk "<identifier>" [ASTNode.mk "n" [] ""] ""] "",
            ASTNode.mk "assign" [ASTNode.mk "<identifier>" [ASTNode.mk "x" [] ""] "",
            ASTNode.mk "<identifier>" [ASTNode.mk "i" [] ""] ""] ""] ""),
              (Parser.new "for (i := 0; c; i := n) x := i".toList).advance.advance.advance.advance.advance.advance.advance.advance.advance.advance.advance.advance.advance.advance.advance))
      ∧ (ASTNode.mk "for" [ASTNode.mk "assign" [ASTNode.mk "<identifier>" [ASTNode.mk "i" [] ""] "",
            ASTNode.mk "<integer>" [ASTNode.mk "0" [] ""] ""] "",
            ASTNode.mk "<identifier>" [ASTNode.mk "c" [] ""] "",
            ASTNode.mk "assign" [ASTNode.mk "<identifier>" [ASTNode.mk "i" [] ""] "",
            ASTNode.mk "<identifier>" [ASTNode.mk "n" [] ""] ""] "",
            ASTNode.mk "assign" [ASTNode.mk "<identifier>" [ASTNode.mk "x" [] ""] "",
            ASTNode.mk "<identifier>" [ASTNode.mk "i" [] ""] ""] ""] "").children.length = 4)
    ∧ ((∃ N, ∀ fuel, N ≤ fuel →
        parseStatement fuel (Parser.new "for (;;) x := 1".toList)
          = some (some (ASTNode.mk "for" [ASTNode.mk "<null>" [] "", ASTNode.mk "true" [] "",
            ASTNode.mk "<null>" [] "",
            ASTNode.mk "assign" [ASTNode.mk "<identifier>" [ASTNode.mk "x" [] ""] "",
            ASTNode.mk "<integer>" [ASTNode.mk "1" [] ""] ""] ""] ""),
              (Parser.new "for (;;) x := 1".toList).advance.advance.advance.advance.advance.advance.advance.advance))
      ∧ (ASTNode.mk "for" [ASTNode.mk "<null>" [] "", ASTNode.mk "true" [] "",
            ASTNode.mk "<null>" [] "",
            ASTNode.mk "assign" [ASTNode.mk "<identifier>" [ASTNode.mk "x" [] ""] "",
            ASTNode.mk "<integer>" [ASTNode.mk "1" [] ""] ""] ""] "").children.length = 4)
    ∧ (∃ N, ∀ fuel, N ≤ fuel →
        (parseStatement fuel (Parser.new ("for (".toList ++ assignText ("i".toList, "0".toList)
            ++ "; ".toList ++ "c".toList ++ "; ".toList ++ assignText ("i".toList, "n".toList)
            ++ ") ".toList ++ assignText ("x".toList, "i".toList)))).map (fun r => r.1)
          = some (some (ASTNode.mk "for"
              [assignNode ("i".toList, "0".toList), primaryNode "c".toList,
               assignNode ("i".toList, "n".toList), assignNode ("x".toList, "i".toList)] "")))
    ∧ (∃ N, ∀ fuel, N ≤ fuel →
        (parseStatement fuel (Parser.new ("for (;;) ".toList
            ++ assignText ("x".toList, "1".toList)))).map (fun r => r.1)
          = some (some (ASTNode.mk "for" [ASTNode.mk "<null>" [] "", ASTNode.mk "true" [] "",
              ASTNode.mk "<null>" [] "", assignNode ("x".toList, "1".toList)] ""))) :=
  ⟨C28_for_statement.1 (Parser.new "for (i := 0; c; i := n) x := i".toList)
      (Parser.new "for (i := 0; c; i := n) x := i".toList).advance.advance.advance.advance.advance
      (Parser.new "for (i := 0; c; i := n) x := i".toList).advance.advance.advance.advance.advance.advance.advance
      (Parser.new "for (i := 0; c; i := n) x := i".toList).advance.advance.advance.advance.advance.advance.advance.advance.advance.advance.advance
      (Parser.new "for (i := 0; c; i := n) x := i".toList).advance.advance.advance.advance.advance.advance.advance.advance.advance.advance.advance.advance.advance.advance.advance _ _ _ _
      (by decide) (by decide) (Or.inl ⟨by decide, ⟨5, rfl⟩⟩) (by decide)
      (Or.inl ⟨by decide, ⟨4, rfl⟩⟩) (by decide) (Or.inl ⟨by decide, ⟨5, rfl⟩⟩) (by decide)
      ⟨5, rfl⟩,
   C28_for_statement.1 (Parser.new "for (;;) x := 1".toList)
      (Parser.new "for (;;) x := 1".toList).advance.advance
      (Parser.new "for (;;) x := 1".toList).advance.advance.advance
      (Parser.new "for (;;) x := 1".toList).advance.advance.advance.advance
      (Parser.new "for (;;) x := 1".toList).advance.advance.advance.advance.advance.advance.advance.advance _ _ _ _
      (by decide) (by decide) (Or.inr ⟨by decide, rfl, rfl⟩) (by decide)
      (Or.inr ⟨by decide, rfl, rfl⟩) (by decide) (Or.inr ⟨by decide, rfl, rfl⟩) (by decide)
      ⟨5, rfl⟩,
   C28_for_statement.2.1 ("i".toList, "0".toList) ("i".toList, "n".toList)
      ("x".toList, "i".toList) "c".toList (by decide) (by decide) (by decide) (by decide),
   C28_for_statement.2.2 ("x".toList, "1".toList) (by decide)⟩

open TokenType

namespace Parser

/-- The statement `if c then s1`, not followed by `else`: two children. -/
theorem parseStatement_if_then_at (p q1 q2 : Parser) (c s1 : ASTNode)
    (hi : p.currentToken.type = TOK_IF) (hc : ExprAt p.advance c q1)
    (ht : q1.currentToken.type = TOK_THEN) (hs : StmtAt q1.advance s1 q2)
    (hn : q2.currentToken.type ≠ TOK_ELSE) :
    ∃ N, ∀ fuel, N ≤ fuel →
      parseStatement fuel p = some (some (ASTNode.mk "if" [c, s1] ""), q2) := by
  obtain ⟨f1, h1⟩ := hc
  obtain ⟨f2, h2⟩ := hs
  refine ⟨max f1 f2 + 1, fun fuel hf => ?_⟩
  obtain ⟨k, rfl⟩ : ∃ k, fuel = k + 1 := ⟨fuel - 1, by omega⟩
  rw [parseStatement_if_then k p (some c, q1) (some s1, q2) hi
    (parseExpression_mono h1 (by omega))
    (by simp only [consume_of_type ht]; exact parseStatement_mono h2 (by omega)) hn]
  rfl

/-- The statement `if c then s1 else s2`: three children. -/
theorem parseStatement_if_else_at (p q1 q2 q3 : Parser) (c s1 s2 : ASTNode)
    (hi : p.currentToken.type = TOK_IF) (hc : ExprAt p.advance c q1)
    (ht : q1.currentToken.type = TOK_THEN) (hs : StmtAt q1.advance s1 q2)
    (he : q2.currentToken.type = TOK_ELSE) (hs2 : StmtAt q2.advance s2 q3) :
    ∃ N, ∀ fuel, N ≤ fuel →
      parseStatement fuel p = some (some (ASTNode.mk "if" [c, s1, s2] ""), q3) := by
  obtain ⟨f1, h1⟩ := hc
  obtain ⟨f2, h2⟩ := hs
  obtain ⟨f3, h3⟩ := hs2
  refine ⟨max (max f1 f2) f3 + 1, fun fuel hf => ?_⟩
  obtain ⟨k, rfl⟩ : ∃ k, fuel = k + 1 := ⟨fuel - 1, by omega⟩
  rw [parseStatement_if_else k p (some c, q1) (some s1, q2) (some s2, q3) hi
    (parseExpression_mono h1 (by omega))
    (by simp only [consume_of_type ht]; exact parseStatement_mono h2 (by omega)) he
    (parseStatement_mono h3 (by omega))]
  rfl

/-- The statement `if a then if b then s1 else s2`: the `else` goes to the inner `if`. -/
theorem parseStatement_dangling_else (p q1 m1 m2 m3 : Parser) (a b s1 s2 : ASTNode)
    (hi : p.currentToken.type = TOK_IF) (hc : ExprAt p.advance a q1)
    (ht : q1.currentToken.type = TOK_THEN)
    (hi2 : q1.advance.currentToken.type = TOK_IF) (hc2 : ExprAt q1.advance.advance b m1)
    (ht2 : m1.currentToken.type = TOK_THEN) (hs : StmtAt m1.advance s1 m2)
    (he : m2.currentToken.type = TOK_ELSE) (hs2 : StmtAt m2.advance s2 m3)
    (hn : m3.currentToken.type ≠ TOK_ELSE) :
    ∃ N, ∀ fuel, N ≤ fuel →
      parseStatement fuel p
        = some (some (ASTNode.mk "if" [a, ASTNode.mk "if" [b, s1, s2] ""] ""), m3) := by
  obtain ⟨N, hN⟩ := parseStatement_if_else_at q1.advance m1 m2 m3 b s1 s2 hi2 hc2 ht2 hs he hs2
  exact parseStatement_if_then_at p q1 m3 a _ hi hc ht ⟨N, hN N (Nat.le_refl _)⟩ hn

theorem lexTo_then {r : List Char} :
    LexTo (' ' :: ("then".toList ++ ' ' :: r)) TOK_THEN "then" (' ' :: r) :=
  LexTo.space (by decide) (LexTo.identifier (p := "then".toList) (r := ' ' :: r) (by decide) rfl)

theorem lexTo_else {r : List Char} :
    LexTo (' ' :: ("else".toList ++ ' ' :: r)) TOK_ELSE "else" (' ' :: r) :=
  LexTo.space (by decide) (LexTo.identifier (p := "else".toList) (r := ' ' :: r) (by decide) rfl)

/-- The head `if c then` of an `if` statement, read from its text: the condition and the state
at `then`. -/
theorem if_head_text (c r : List Char) (hc : isPrimaryText c = true) (p : Parser)
    (hp : p.At TOK_IF "if" (' ' :: (c ++ ' ' :: ("then".toList ++ ' ' :: r)))) :
    ∃ q1, ExprAt p.advance (primaryNode c) q1 ∧ q1.At TOK_THEN "then" (' ' :: r) := by
  have a1 := hp.advance (LexTo.space (by decide) (LexTo.primary hc
    (r := ' ' :: ("then".toList ++ ' ' :: r)) (Or.inr ⟨_, rfl⟩)))
  obtain ⟨e1, a2⟩ := exprAt_primary a1 (lexTo_then (r := r)) (by decide)
  exact ⟨_, e1, a2⟩

/-- The text `if c then s1`. -/
theorem parseStatement_if_then_text (c : List Char) (s1 : List Char × List Char)
    (hc : isPrimaryText c = true) (h1 : isAssignment s1 = true) :
    ∃ N, ∀ fuel, N ≤ fuel →
      (parseStatement fuel (Parser.new ("if ".toList ++ c ++ " then ".toList
          ++ assignText s1))).map (fun r => r.1)
        = some (some (ASTNode.mk "if" [primaryNode c, assignNode s1] "")) := by
  have hin : "if ".toList ++ c ++ " then ".toList ++ assignText s1
      = "if".toList ++ ' ' :: (c ++ ' ' :: ("then".toList ++ ' ' :: (assignText s1 ++ []))) := by
    simp
  rw [hin]
  have b0 := new_at (LexTo.identifier (p := "if".toList)
    (r := ' ' :: (c ++ ' ' :: ("then".toList ++ ' ' :: (assignText s1 ++ [])))) (by decide) rfl)
  generalize Parser.new _ = p at b0 ⊢
  obtain ⟨q1, e1, a2⟩ := if_head_text c _ hc p b0
  obtain ⟨p2, hp2, hadv2⟩ := advance_skip_space a2.2.2 (by decide)
  obtain ⟨_, q2, s2, a3⟩ := stmtAt_assignText h1 (r := []) rfl LexTo.eof (by decide) p2 hp2
  rw [← hadv2] at s2
  obtain ⟨N, hN⟩ := parseStatement_if_then_at p q1 q2 _ _ b0.1 e1 a2.1 s2
    (by rw [a3.1]; decide)
  exact ⟨N, fun fuel hf => by rw [hN fuel hf]; rfl⟩

/-- The text `if c then s1 else s2`. -/
theorem parseStatement_if_else_text (c : List Char) (s1 s2 : List Char × List Char)
    (hc : isPrimaryText c = true) (h1 : isAssignment s1 = true) (h2 : isAssignment s2 = true) :
    ∃ N, ∀ fuel, N ≤ fuel →
      (parseStatement fuel (Parser.new ("if ".toList ++ c ++ " then ".toList
          ++ assignText s1 ++ " else ".toList ++ assignText s2))).map (fun r => r.1)
        = some (some (ASTNode.mk "if" [primaryNode c, assignNode s1, assignNode s2] "")) := by
  have hin : "if ".toList ++ c ++ " then ".toList ++ assignText s1 ++ " else ".toList
        ++ assignText s2
      = "if".toList ++ ' ' :: (c ++ ' ' :: ("then".toList ++ ' ' :: (assignText s1
          ++ ' ' :: ("else".toList ++ ' ' :: (assignText s2 ++ []))))) := by
    simp
  rw [hin]
  have b0 := new_at (LexTo.identifier (p := "if".toList)
    (r := ' ' :: (c ++ ' ' :: ("then".toList ++ ' ' :: (assignText s1
          ++ ' ' :: ("else".toList ++ ' ' :: (assignText s2 ++ [])))))) (by decide) rfl)
  generalize Parser.new _ = p at b0 ⊢
  obtain ⟨q1, e1, a2⟩ := if_head_text c _ hc p b0
  obtain ⟨p2, hp2, hadv2⟩ := advance_skip_space a2.2.2 (by decide)
  obtain ⟨_, q2, s2, a3⟩ := stmtAt_assignText h1
    (r := ' ' :: ("else".toList ++ ' ' :: (assignText s2 ++ []))) rfl lexTo_else (by decide)
    p2 hp2
  rw [← hadv2] at s2
  obtain ⟨p3, hp3, hadv3⟩ := advance_skip_space a3.2.2 (by decide)
  obtain ⟨_, q3, s3, _⟩ := stmtAt_assignText h2 (r := []) rfl LexTo.eof (by decide) p3 hp3
  rw [← hadv3] at s3
  obtain ⟨N, hN⟩ := parseStatement_if_else_at p q1 q2 q3 _ _ _ b0.1 e1 a2.1 s2 a3.1 s3
  exact ⟨N, fun fuel hf => by rw [hN fuel hf]; rfl⟩

/-- The text `if a then if b then s1 else s2`. -/
theorem parseStatement_dangling_else_text (a b : List Char) (s1 s2 : List Char × List Char)
    (ha : isPrimaryText a = true) (hb : isPrimaryText b = true)
    (h1 : isAssignment s1 = true) (h2 : isAssignment s2 = true) :
    ∃ N, ∀ fuel, N ≤ fuel →
      (parseStatement fuel (Parser.new ("if ".toList ++ a ++ " then if ".toList ++ b
          ++ " then ".toList ++ assignText s1 ++ " else ".toList ++ assignText s2))).map
          (fun r => r.1)
        = some (some (ASTNode.mk "if" [primaryNode a,
            ASTNode.mk "if" [primaryNode b, assignNode s1, assignNode s2] ""] "")) := by
  have hin : "if ".toList ++ a ++ " then if ".toList ++ b ++ " then ".toList ++ assignText s1
        ++ " else ".toList ++ assignText s2
      = "if".toList ++ ' ' :: (a ++ ' ' :: ("then".toList ++ ' ' :: ("if".toList ++ ' ' :: (b
          ++ ' ' :: ("then".toList ++ ' ' :: (assignText s1
          ++ ' ' :: ("else".toList ++ ' ' :: (assignText s2 ++ [])))))))) := by
    simp
  rw [hin]
  have b0 := new_at (LexTo.identifier (p := "if".toList)
    (r := ' ' :: (a ++ ' ' :: ("then".toList ++ ' ' :: ("if".toList ++ ' ' :: (b
          ++ ' ' :: ("then".toList ++ ' ' :: (assignText s1
          ++ ' ' :: ("else".toList ++ ' ' :: (assignText s2 ++ []))))))))) (by decide) rfl)
  generalize Parser.new _ = p at b0 ⊢
  obtain ⟨q1, e1, a2⟩ := if_head_text a _ ha p b0
  have b1 := a2.advance (LexTo.space (by decide) (LexTo.identifier (p := "if".toList)
    (r := ' ' :: (b ++ ' ' :: ("then".toList ++ ' ' :: (assignText s1
          ++ ' ' :: ("else".toList ++ ' ' :: (assignText s2 ++ [])))))) (by decide) rfl))
  obtain ⟨m1, e2, a3⟩ := if_head_text b _ hb q1.advance b1
  obtain ⟨p2, hp2, hadv2⟩ := advance_skip_space a3.2.2 (by decide)
  obtain ⟨_, m2, s2, a4⟩ := stmtAt_assignText h1
    (r := ' ' :: ("else".toList ++ ' ' :: (assignText s2 ++ []))) rfl lexTo_else (by decide)
    p2 hp2
  rw [← hadv2] at s2
  obtain ⟨p3, hp3, hadv3⟩ := advance_skip_space a4.2.2 (by decide)
  obtain ⟨_, m3, s3, a5⟩ := stmtAt_assignText h2 (r := []) rfl LexTo.eof (by decide) p3 hp3
  rw [← hadv3] at s3
  obtain ⟨N, hN⟩ := parseStatement_dangling_else p q1 m1 m2 m3 _ _ _ _ b0.1 e1 a2.1 b1.1 e2
    a3.1 s2 a4.1 s3 (by rw [a5.1]; decide)
  exact ⟨N, fun fuel hf => by rw [hN fuel hf]; rfl⟩

end Parser

open Parser in
/-- Claim C29: the `if` statement.  Let the parser be at `if`, followed by a condition that
`parseExpression` turns into the node `c`, the keyword `then` and a statement that
`parseStatement` turns into the node `s1`.  If the next token is not `else`, `parseStatement`
returns an `if` node with exactly the 2 children `c`, `s1`; if it is `else`, followed by a
statement of node `s2`, an `if` node with exactly the 3 children `c`, `s1`, `s2`.  An `else`
goes to the nearest `if`: `if a then if b then s1 else s2`, not followed by another `else`,
gives an outer `if` with the 2 children `a` and the inner `if` of 3 children `b`, `s1`, `s2`.
The same holds of the texts `if c then s1`, `if c then s1 else s2` and
`if a then if b then s1 else s2` for primaries `a`, `b`, `c` and assignments of primaries `s1`,
`s2`. -/
theorem C29_if_statement :
    (∀ (p q1 q2 : Parser) (c s1 : ASTNode),
      p.currentToken.type = TOK_IF → ExprAt p.advance c q1 →
      q1.currentToken.type = TOK_THEN → StmtAt q1.advance s1 q2 →
      q2.currentToken.type ≠ TOK_ELSE →
      (∃ N, ∀ fuel, N ≤ fuel →
        parseStatement fuel p = some (some (ASTNode.mk "if" [c, s1] ""), q2))
      ∧ (ASTNode.mk "if" [c, s1] "").children.length = 2)
    ∧ (∀ (p q1 q2 q3 : Parser) (c s1 s2 : ASTNode),
      p.currentToken.type = TOK_IF → ExprAt p.advance c q1 →
      q1.currentToken.type = TOK_THEN → StmtAt q1.advance s1 q2 →
      q2.currentToken.type = TOK_ELSE → StmtAt q2.advance s2 q3 →
      (∃ N, ∀ fuel, N ≤ fuel →
        parseStatement fuel p = some (some (ASTNode.mk "if" [c, s1, s2] ""), q3))
      ∧ (ASTNode.mk "if" [c, s1, s2] "").children.length = 3)
    ∧ (∀ (p q1 m1 m2 m3 : Parser) (a b s1 s2 : ASTNode),
      p.currentToken.type = TOK_IF → ExprAt p.advance a q1 →
      q1.currentToken.type = TOK_THEN →
      q1.advance.currentToken.type = TOK_IF → ExprAt q1.advance.advance b m1 →
      m1.currentToken.type = TOK_THEN → StmtAt m1.advance s1 m2 →
      m2.currentToken.type = TOK_ELSE → StmtAt m2.advance s2 m3 →
      m3.currentToken.type ≠ TOK_ELSE →
      ∃ N, ∀ fuel, N ≤ fuel →
        parseStatement fuel p
          = some (some (ASTNode.mk "if" [a, ASTNode.mk "if" [b, s1, s2] ""] ""), m3))
    ∧ (∀ (a b : List Char) (s1 s2 : List Char × List Char),
      isPrimaryText a = true → isPrimaryText b = true →
      isAssignment s1 = true → isAssignment s2 = true →
      (∃ N, ∀ fuel, N ≤ fuel →
        (parseStatement fuel (Parser.new ("if ".toList ++ a ++ " then ".toList
            ++ assignText s1))).map (fun r => r.1)
          = some (some (ASTNode.mk "if" [primaryNode a, assignNode s1] "")))
      ∧ (∃ N, ∀ fuel, N ≤ fuel →
        (parseStatement fuel (Parser.new ("if ".toList ++ a ++ " then ".toList
            ++ assignText s1 ++ " else ".toList ++ assignText s2))).map (fun r => r.1)
          = some (some (ASTNode.mk "if" [primaryNode a, assignNode s1, assignNode s2] "")))
      ∧ (∃ N, ∀ fuel, N ≤ fuel →
        (parseStatement fuel (Parser.new ("if ".toList ++ a ++ " then if ".toList ++ b
            ++ " then ".toList ++ assignText s1 ++ " else ".toList ++ assignText s2))).map
            (fun r => r.1)
          = some (some (ASTNode.mk "if" [primaryNode a,
              ASTNode.mk "if" [primaryNode b, assignNode s1, assignNode s2] ""] "")))) :=
  ⟨fun p q1 q2 c s1 hi hc ht hs hn =>
      ⟨parseStatement_if_then_at p q1 q2 c s1 hi hc ht hs hn, rfl⟩,
   fun p q1 q2 q3 c s1 s2 hi hc ht hs he hs2 =>
      ⟨parseStatement_if_else_at p q1 q2 q3 c s1 s2 hi hc ht hs he hs2, rfl⟩,
   fun p q1 m1 m2 m3 a b s1 s2 hi hc ht hi2 hc2 ht2 hs he hs2 hn =>
      parseStatement_dangling_else p q1 m1 m2 m3 a b s1 s2 hi hc ht hi2 hc2 ht2 hs he hs2 hn,
   fun a b s1 s2 ha hb h1 h2 =>
      ⟨parseStatement_if_then_text a s1 ha h1, parseStatement_if_else_text a s1 s2 ha h1 h2,
        parseStatement_dangling_else_text a b s1 s2 ha hb h1 h2⟩⟩

open Parser in
theorem C29_if_statement_witness :
    ((∃ N, ∀ fuel, N ≤ fuel →
        parseStatement fuel (Parser.new "if c then x := 1".toList)
          = some (some (ASTNode.mk "if" [ASTNode.mk "<identifier>" [ASTNode.mk "c" [] ""] "",
            ASTNode.mk "assign" [ASTNode.mk "<identifier>" [ASTNode.mk "x" [] ""] "",
            ASTNode.mk "<integer>" [ASTNode.mk "1" [] ""] ""] ""] ""),
              (Parser.new "if c then x := 1".toList).advance.advance.advance.advance.advance.advance))
      ∧ (ASTNode.mk "if" [ASTNode.mk "<identifier>" [ASTNode.mk "c" [] ""] "",
            ASTNode.mk "assign" [ASTNode.mk "<identifier>" [ASTNode.mk "x" [] ""] "",
            ASTNode.mk "<integer>" [ASTNode.mk "1" [] ""] ""] ""] "").children.length = 2)
    ∧ ((∃ N, ∀ fuel, N ≤ fuel →
        parseStatement fuel (Parser.new "if c then x := 1 else y := 2".toList)
          = some (some (ASTNode.mk "if" [ASTNode.mk "<identifier>" [ASTNode.mk "c" [] ""] "",
            ASTNode.mk "assign" [ASTNode.mk "<identifier>" [ASTNode.mk "x" [] ""] "",
            ASTNode.mk "<integer>" [ASTNode.mk "1" [] ""] ""] "",
            ASTNode.mk "assign" [ASTNode.mk "<identifier>" [ASTNode.mk "y" [] ""] "",
            ASTNode.mk "<integer>" [ASTNode.mk "2" [] ""] ""] ""] ""),
              (Parser.new "if c then x := 1 else y := 2".toList).advance.advance.advance.advance.advance.advance.advance.advance.advance.advance))
      ∧ (ASTNode.mk "if" [ASTNode.mk "<identifier>" [ASTNode.mk "c" [] ""] "",
            ASTNode.mk "assign" [ASTNode.mk "<identifier>" [ASTNode.mk "x" [] ""] "",
            ASTNode.mk "<integer>" [ASTNode.mk "1" [] ""] ""] "",
            ASTNode.mk "assign" [ASTNode.mk "<identifier>" [ASTNode.mk "y" [] ""] "",
            ASTNode.mk "<integer>" [ASTNode.mk "2" [] ""] ""] ""] "").children.length = 3)
    ∧ (∃ N, ∀ fuel, N ≤ fuel →
        parseStatement fuel (Parser.new "if a then if b then x := 1 else y := 2".toList)
          = some (some (ASTNode.mk "if" [ASTNode.mk "<identifier>" [ASTNode.mk "a" [] ""] "",
            ASTNode.mk "if" [ASTNode.mk "<identifier>" [ASTNode.mk "b" [] ""] "",
            ASTNode.mk "assign" [ASTNode.mk "<identifier>" [ASTNode.mk "x" [] ""] "",
            ASTNode.mk "<integer>" [ASTNode.mk "1" [] ""] ""] "",
            ASTNode.mk "assign" [ASTNode.mk "<identifier>" [ASTNode.mk "y" [] ""] "",
            ASTNode.mk "<integer>" [ASTNode.mk "2" [] ""] ""] ""] ""] ""),
              (Parser.new "if a then if b then x := 1 else y := 2".toList).advance.advance.advance.advance.advance.advance.advance.advance.advance.advance.advance.advance.advance))
    ∧ ((∃ N, ∀ fuel, N ≤ fuel →
        (parseStatement fuel (Parser.new ("if ".toList ++ "a".toList ++ " then ".toList
            ++ assignText ("x".toList, "1".toList)))).map (fun r => r.1)
          = some (some (ASTNode.mk "if" [primaryNode "a".toList,
              assignNode ("x".toList, "1".toList)] "")))
      ∧ (∃ N, ∀ fuel, N ≤ fuel →
        (parseStatement fuel (Parser.new ("if ".toList ++ "a".toList ++ " then ".toList
            ++ assignText ("x".toList, "1".toList) ++ " else ".toList
            ++ assignText ("y".toList, "2".toList)))).map (fun r => r.1)
          = some (some (ASTNode.mk "if" [primaryNode "a".toList,
              assignNode ("x".toList, "1".toList), assignNode ("y".toList, "2".toList)] "")))
      ∧ (∃ N, ∀ fuel, N ≤ fuel →
        (parseStatement fuel (Parser.new ("if ".toList ++ "a".toList ++ " then if ".toList
            ++ "b".toList ++ " then ".toList ++ assignText ("x".toList, "1".toList)
            ++ " else ".toList ++ assignText ("y".toList, "2".toList)))).map
            (fun r => r.1)
          = some (some (ASTNode.mk "if" [primaryNode "a".toList,
              ASTNode.mk "if" [primaryNode "b".toList, assignNode ("x".toList, "1".toList),
                assignNode ("y".toList, "2".toList)] ""] "")))) :=
  ⟨C29_if_statement.1 (Parser.new "if c then x := 1".toList)
      (Parser.new "if c then x := 1".toList).advance.advance
      (Parser.new "if c then x := 1".toList).advance.advance.advance.advance.advance.advance _ _
      (by decide) ⟨4, rfl⟩ (by decide) ⟨5, rfl⟩ (by decide),
   C29_if_statement.2.1 (Parser.new "if c then x := 1 else y := 2".toList)
      (Parser.new "if c then x := 1 else y := 2".toList).advance.advance
      (Parser.new "if c then x := 1 else y := 2".toList).advance.advance.advance.advance.advance.advance
      (Parser.new "if c then x := 1 else y := 2".toList).advance.advance.advance.advance.advance.advance.advance.advance.advance.advance _ _ _
      (by decide) ⟨4, rfl⟩ (by decide) ⟨5, rfl⟩ (by decide) ⟨5, rfl⟩,
   C29_if_statement.2.2.1 (Parser.new "if a then if b then x := 1 else y := 2".toList)
      (Parser.new "if a then if b then x := 1 else y := 2".toList).advance.advance
      (Parser.new "if a then if b then x := 1 else y := 2".toList).advance.advance.advance.advance.advance
      (Parser.new "if a then if b then x := 1 else y := 2".toList).advance.advance.advance.advance.advance.advance.advance.advance.advance
      (Parser.new "if a then if b then x := 1 else y := 2".toList).advance.advance.advance.advance.advance.advance.advance.advance.advance.advance.advance.advance.advance _ _ _ _
      (by decide) ⟨4, rfl⟩ (by decide) (by decide) ⟨4, rfl⟩ (by decide) ⟨5, rfl⟩ (by decide)
      ⟨5, rfl⟩ (by decide),
   C29_if_statement.2.2.2 "a".toList "b".toList ("x".toList, "1".toList)
      ("y".toList, "2".toList) (by decide) (by decide) (by decide) (by decide)⟩

open TokenType

namespace Parser

/-- A constant made of one operand token: `parseConstValue` returns its wrapper. -/
theorem parseConstValue_operand {s : Parser} (h : isOperand s.currentToken = true) :
    parseConstValue s = (some (operandNode s.currentToken), s.advance) := by
  simp only [isOperand, Bool.or_eq_true, beq_iff_eq] at h
  rcases h with h | h
  · simp [parseConstValue, matchTok, h, operandNode]
  · simp [parseConstValue, parseName, matchTok, h, operandNode]

/-- What `parseConstValue` returns at each kind of constant token. -/
theorem parseConstValue_kinds (s : Parser) :
    (s.currentToken.type = TOK_INTEGER →
      parseConstValue s
        = (some (ASTNode.mk "<integer>" [ASTNode.mk s.currentToken.value [] ""] ""), s.advance))
    ∧ (s.currentToken.type = TOK_CHAR →
      parseConstValue s
        = (some (ASTNode.mk "<char>" [ASTNode.mk s.currentToken.value [] ""] ""), s.advance))
    ∧ (s.currentToken.type = TOK_IDENTIFIER ∨ s.currentToken.type = TOK_TRUE
        ∨ s.currentToken.type = TOK_FALSE →
      parseConstValue s
        = (some (ASTNode.mk "<identifier>" [ASTNode.mk s.currentToken.value [] ""] ""),
            s.advance)) := by
  refine ⟨fun h => ?_, fun h => ?_, fun h => ?_⟩
  · simp [parseConstValue, matchTok, h, createIntegerNode, ASTNode.addChild, ASTNode.new,
      ASTNode.nodeType, ASTNode.children, ASTNode.value]
  · simp [parseConstValue, matchTok, h, createCharNode, ASTNode.addChild, ASTNode.new,
      ASTNode.nodeType, ASTNode.children, ASTNode.value]
  · rcases h with h | h | h <;>
      simp [parseConstValue, parseName, matchTok, h, createIdentifierNode, ASTNode.addChild,
        ASTNode.new, ASTNode.nodeType, ASTNode.children, ASTNode.value]

/-- A constant is read only at a token that is neither `end` nor `otherwise`. -/
theorem parseConstValue_some_type {s : Parser} {v : ASTNode}
    (h : (parseConstValue s).1 = some v) :
    s.currentToken.type ≠ TOK_END ∧ s.currentToken.type ≠ TOK_OTHERWISE := by
  constructor <;> intro e <;> simp [parseConstValue, parseName, matchTok, e] at h

/-- The case statement without `otherwise`: the expression, then the clauses in order. -/
theorem parseStatement_case_at (p q1 q2 : Parser) (e : ASTNode) (clauses : List ASTNode)
    (hc : p.currentToken.type = TOK_CASE) (he : ExprAt p.advance e q1)
    (ho : q1.currentToken.type = TOK_OF) (hs : ClauseSeq q1.advance clauses q2)
    (hend : q2.currentToken.type = TOK_END) :
    ∃ N, ∀ fuel, N ≤ fuel →
      parseStatement fuel p = some (some (ASTNode.mk "case" (e :: clauses) ""), q2.advance) := by
  obtain ⟨f1, h1⟩ := he
  obtain ⟨N, hN⟩ := parseCaseLoop_seq hs ((ASTNode.new "case").addChild (some e))
  refine ⟨max f1 N + 1, fun fuel hf => ?_⟩
  obtain ⟨k, rfl⟩ : ∃ k, fuel = k + 1 := ⟨fuel - 1, by omega⟩
  rw [parseStatement_case k p (some e, q1) _ hc (parseExpression_mono h1 (by omega))
    (by simp only [consume_of_type ho]; exact hN k (by omega)) (by rw [hend]; decide)]
  simp only [consume_of_type hend]
  rfl

/-- The case statement with `otherwise`: the expression, the clauses in order, then the
`otherwise` node. -/
theorem parseStatement_case_otherwise_at (p q1 q2 q3 : Parser) (e s3 : ASTNode)
    (clauses : List ASTNode)
    (hc : p.currentToken.type = TOK_CASE) (he : ExprAt p.advance e q1)
    (ho : q1.currentToken.type = TOK_OF) (hs : ClauseSeq q1.advance clauses q2)
    (hoth : q2.currentToken.type = TOK_OTHERWISE) (hs3 : StmtAt q2.advance s3 q3)
    (hend : q3.currentToken.type = TOK_END) :
    ∃ N, ∀ fuel, N ≤ fuel →
      parseStatement fuel p
        = some (some (ASTNode.mk "case" (e :: clauses ++ [ASTNode.mk "otherwise" [s3] ""]) ""),
            q3.advance) := by
  obtain ⟨f1, h1⟩ := he
  obtain ⟨f3, h3⟩ := hs3
  obtain ⟨N, hN⟩ := parseCaseLoop_seq hs ((ASTNode.new "case").addChild (some e))
  refine ⟨max (max f1 N) f3 + 2, fun fuel hf => ?_⟩
  obtain ⟨k, rfl⟩ : ∃ k, fuel = k + 2 := ⟨fuel - 2, by omega⟩
  rw [parseStatement_case_otherwise (k + 1) p (some e, q1)
    (some (ASTNode.mk "otherwise" [s3] ""), q3) _ hc (parseExpression_mono h1 (by omega))
    (by simp only [consume_of_type ho]; exact hN (k + 1) (by omega)) hoth
    (parseOtherwiseClause_stmt k (parseStatement_mono h3 (by omega)))]
  simp only [consume_of_type hend]
  simp [ASTNode.addChild, ASTNode.new, ASTNode.nodeType, ASTNode.children, ASTNode.value]

/-- The statement `case E of v1: S1; lo..hi: S2; otherwise S3 end`, token by token. -/
theorem parseStatement_case_example (p q1 m1 m2 m3 : Parser) (e v1 s1 lo hi s2 s3 : ASTNode)
    (hc : p.currentToken.type = TOK_CASE) (he : ExprAt p.advance e q1)
    (ho : q1.currentToken.type = TOK_OF)
    (hv1 : (parseConstValue q1.advance).1 = some v1)
    (hc1 : (parseConstValue q1.advance).2.currentToken.type = TOK_COLON)
    (hs1 : StmtAt (parseConstValue q1.advance).2.advance s1 m1)
    (hm1 : m1.currentToken.type = TOK_SEMICOLON)
    (hlo : (parseConstValue m1.advance).1 = some lo)
    (hd : (parseConstValue m1.advance).2.currentToken.type = TOK_DOTS)
    (hhi : (parseConstValue (parseConstValue m1.advance).2.advance).1 = some hi)
    (hc2 : (parseConstValue (parseConstValue m1.advance).2.advance).2.currentToken.type
      = TOK_COLON)
    (hs2 : StmtAt (parseConstValue (parseConstValue m1.advance).2.advance).2.advance s2 m2)
    (hm2 : m2.currentToken.type = TOK_SEMICOLON)
    (hoth : m2.advance.currentToken.type = TOK_OTHERWISE)
    (hs3 : StmtAt m2.advance.advance s3 m3)
    (hend : m3.currentToken.type = TOK_END) :
    ∃ N, ∀ fuel, N ≤ fuel →
      parseStatement fuel p
        = some (some (ASTNode.mk "case" [e, ASTNode.mk "case_clause" [v1, s1] "",
            ASTNode.mk "case_clause" [ASTNode.mk ".." [lo, hi] "", s2] "",
            ASTNode.mk "otherwise" [s3] ""] ""), m3.advance) := by
  have t1 := parseConstValue_some_type hv1
  have t2 := parseConstValue_some_type hlo
  have hseq : ClauseSeq q1.advance [ASTNode.mk "case_clause" [v1, s1] "",
      ASTNode.mk "case_clause" [ASTNode.mk ".." [lo, hi] "", s2] ""] m2.advance := by
    refine ClauseSeq.more t1.1 t1.2 (clauseAt_value hv1 hc1 hs1) ?_
    rw [consume_of_type hm1]
    refine ClauseSeq.more t2.1 t2.2 (clauseAt_range hlo hd hhi hc2 hs2) ?_
    rw [consume_of_type hm2]
    exact ClauseSeq.done (Or.inr hoth)
  exact parseStatement_case_otherwise_at p q1 m2.advance m3 e s3 _ hc he ho hseq hoth hs3 hend

theorem isSingleCharToken_colon_space : Lexer.isSingleCharToken ':' ' ' = true := by decide

/-- A clause `v: s` read from its text, `v` a primary and `s` an assignment of primaries. -/
theorem clauseAt_value_text {v : List Char} {s : List Char × List Char} {r r1 : List Char}
    {ty : TokenType} {val : String} (hv : isPrimaryText v = true) (hs : isAssignment s = true)
    (hr : Lexer.identifierEnd r = true) (hl : LexTo r ty val r1) (hty : endsExpression ty = true)
    (p : Parser) (hp : p.lexer.rest = v ++ ':' :: ' ' :: (assignText s ++ r)) :
    (parseConstValue p.advance).1 = some (primaryNode v)
    ∧ ∃ q, ClauseAt p.advance (ASTNode.mk "case_clause" [primaryNode v, assignNode s] "") q
        ∧ q.At ty val r1 := by
  have a0 := LexTo.primary_end hv (r := ':' :: ' ' :: (assignText s ++ r)) rfl p hp
  have a1 := a0.advance (LexTo.single (c := ':') (r := ' ' :: (assignText s ++ r))
    isSingleCharToken_colon_space)
  have hcv := parseConstValue_operand a0.operand.1
  rw [a0.operand.2] at hcv
  obtain ⟨p2, hp2, hadv2⟩ := advance_skip_space a1.2.2 (by decide)
  obtain ⟨_, q, s2, a3⟩ := stmtAt_assignText hs hr hl hty p2 hp2
  rw [← hadv2] at s2
  refine ⟨by rw [hcv], q, ?_, a3⟩
  exact clauseAt_value (by rw [hcv]) (by rw [hcv]; exact a1.1) (by rw [hcv]; exact s2)

/-- A clause `lo..hi: s` read from its text. -/
theorem clauseAt_range_text {lo hi : List Char} {s : List Char × List Char} {r r1 : List Char}
    {ty : TokenType} {val : String} (hlo : isPrimaryText lo = true)
    (hhi : isPrimaryText hi = true) (hs : isAssignment s = true)
    (hr : Lexer.identifierEnd r = true) (hl : LexTo r ty val r1) (hty : endsExpression ty = true)
    (p : Parser)
    (hp : p.lexer.rest = lo ++ '.' :: '.' :: (hi ++ ':' :: ' ' :: (assignText s ++ r))) :
    (parseConstValue p.advance).1 = some (primaryNode lo)
    ∧ ∃ q, ClauseAt p.advance (ASTNode.mk "case_clause"
          [ASTNode.mk ".." [primaryNode lo, primaryNode hi] "", assignNode s] "") q
        ∧ q.At ty val r1 := by
  have a0 := LexTo.primary_end hlo
    (r := '.' :: '.' :: (hi ++ ':' :: ' ' :: (assignText s ++ r))) rfl p hp
  have a1 := a0.advance (LexTo.dots (r := hi ++ ':' :: ' ' :: (assignText s ++ r)))
  have a2 := a1.advance (LexTo.primary_end hhi (r := ':' :: ' ' :: (assignText s ++ r)) rfl)
  have a3 := a2.advance (LexTo.single (c := ':') (r := ' ' :: (assignText s ++ r))
    isSingleCharToken_colon_space)
  have hcv := parseConstValue_operand a0.operand.1
  rw [a0.operand.2] at hcv
  have hcv2 := parseConstValue_operand a2.operand.1
  rw [a2.operand.2] at hcv2
  obtain ⟨p2, hp2, hadv2⟩ := advance_skip_space a3.2.2 (by decide)
  obtain ⟨_, q, s2, a4⟩ := stmtAt_assignText hs hr hl hty p2 hp2
  rw [← hadv2] at s2
  refine ⟨by rw [hcv], q, ?_, a4⟩
  exact clauseAt_range (by rw [hcv]) (by rw [hcv]; exact a1.1) (by rw [hcv, hcv2])
    (by rw [hcv, hcv2]; exact a3.1) (by rw [hcv, hcv2]; exact s2)

/-- The text `case e of v1: s1; lo..hi: s2; otherwise s3 end` for primaries `e`, `v1`, `lo`,
`hi` and assignments of primaries `s1`, `s2`, `s3`. -/
theorem parseStatement_case_text (e v1 lo hi : List Char) (s1 s2 s3 : List Char × List Char)
    (he : isPrimaryText e = true) (hv1 : isPrimaryText v1 = true)
    (hlo : isPrimaryText lo = true) (hhi : isPrimaryText hi = true)
    (h1 : isAssignment s1 = true) (h2 : isAssignment s2 = true) (h3 : isAssignment s3 = true) :
    ∃ N, ∀ fuel, N ≤ fuel →
      (parseStatement fuel (Parser.new ("case ".toList ++ e ++ " of ".toList ++ v1
          ++ ": ".toList ++ assignText s1 ++ "; ".toList ++ lo ++ "..".toList ++ hi
          ++ ": ".toList ++ assignText s2 ++ "; otherwise ".toList ++ assignText s3
          ++ " end".toList))).map (fun r => r.1)
        = some (some (ASTNode.mk "case" [primaryNode e,
            ASTNode.mk "case_clause" [primaryNode v1, assignNode s1] "",
            ASTNode.mk "case_clause"
              [ASTNode.mk ".." [primaryNode lo, primaryNode hi] "", assignNode s2] "",
            ASTNode.mk "otherwise" [assignNode s3] ""] "")) := by
  have hin : "case ".toList ++ e ++ " of ".toList ++ v1 ++ ": ".toList ++ assignText s1
        ++ "; ".toList ++ lo ++ "..".toList ++ hi ++ ": ".toList ++ assignText s2
        ++ "; otherwise ".toList ++ assignText s3 ++ " end".toList
      = "case".toList ++ ' ' :: (e ++ ' ' :: ("of".toList ++ ' ' :: (v1 ++ ':' :: ' ' ::
        (assignText s1 ++ ';' :: ' ' :: (lo ++ '.' :: '.' :: (hi ++ ':' :: ' ' :: (assignText s2
        ++ ';' :: ' ' :: ("otherwise".toList ++ ' ' :: (assignText s3 ++ ' ' ::
        "end".toList))))))))) := by
    simp
  rw [hin]
  have b0 := new_at (LexTo.identifier (p := "case".toList)
    (r := ' ' :: (e ++ ' ' :: ("of".toList ++ ' ' :: (v1 ++ ':' :: ' ' :: (assignText s1 ++ ';' ::
      ' ' :: (lo ++ '.' :: '.' :: (hi ++ ':' :: ' ' :: (assignText s2 ++ ';' :: ' ' ::
      ("otherwise".toList ++ ' ' :: (assignText s3 ++ ' ' :: "end".toList)))))))))) (by decide) rfl)
  generalize Parser.new _ = p at b0 ⊢
  have a1 := b0.advance (LexTo.space (by decide) (LexTo.primary he
    (r := ' ' :: ("of".toList ++ ' ' :: (v1 ++ ':' :: ' ' :: (assignText s1 ++ ';' :: ' ' :: (lo ++
      '.' :: '.' :: (hi ++ ':' :: ' ' :: (assignText s2 ++ ';' :: ' ' :: ("otherwise".toList ++
      ' ' :: (assignText s3 ++ ' ' :: "end".toList))))))))) (Or.inr ⟨_, rfl⟩)))
  obtain ⟨e1, a2⟩ := exprAt_primary a1 (LexTo.space (by decide)
    (LexTo.identifier (p := "of".toList)
      (r := ' ' :: (v1 ++ ':' :: ' ' :: (assignText s1 ++ ';' :: ' ' :: (lo ++ '.' :: '.' :: (hi ++
        ':' :: ' ' :: (assignText s2 ++ ';' :: ' ' :: ("otherwise".toList ++ ' ' :: (assignText
        s3 ++ ' ' :: "end".toList)))))))) (by decide) rfl)) (by decide)
  obtain ⟨p2, hp2, hadv2⟩ := advance_skip_space a2.2.2 (by decide)
  obtain ⟨cv1, m1, c1, a3⟩ := clauseAt_value_text hv1 h1
    (r := ';' :: ' ' :: (lo ++ '.' :: '.' :: (hi ++ ':' :: ' ' :: (assignText s2 ++ ';' :: ' ' ::
      ("otherwise".toList ++ ' ' :: (assignText s3 ++ ' ' :: "end".toList)))))) rfl LexTo.semicolon (by decide) p2 hp2
  rw [← hadv2] at cv1 c1
  obtain ⟨p3, hp3, hadv3⟩ := advance_skip_space a3.2.2 (by decide)
  obtain ⟨cv2, m2, c2, a4⟩ := clauseAt_range_text hlo hhi h2
    (r := ';' :: ' ' :: ("otherwise".toList ++ ' ' :: (assignText s3 ++ ' ' :: "end".toList))) rfl LexTo.semicolon (by decide) p3 hp3
  rw [← hadv3] at cv2 c2
  have a5 := a4.advance (LexTo.space (by decide) (LexTo.identifier (p := "otherwise".toList)
    (r := ' ' :: (assignText s3 ++ ' ' :: "end".toList)) (by decide) rfl))
  obtain ⟨p4, hp4, hadv4⟩ := advance_skip_space a5.2.2 (by decide)
  obtain ⟨_, m3, s4, a6⟩ := stmtAt_assignText h3 (r := ' ' :: "end".toList) rfl lexTo_end
    (by decide) p4 hp4
  rw [← hadv4] at s4
  have t1 := parseConstValue_some_type cv1
  have t2 := parseConstValue_some_type cv2
  have hseq : ClauseSeq p.advance.advance.advance
      [ASTNode.mk "case_clause" [primaryNode v1, assignNode s1] "",
       ASTNode.mk "case_clause"
        [ASTNode.mk ".." [primaryNode lo, primaryNode hi] "", assignNode s2] ""]
      m2.advance := by
    refine ClauseSeq.more t1.1 t1.2 c1 ?_
    rw [consume_of_type a3.1]
    refine ClauseSeq.more t2.1 t2.2 c2 ?_
    rw [consume_of_type a4.1]
    exact ClauseSeq.done (Or.inr a5.1)
  obtain ⟨N, hN⟩ := parseStatement_case_otherwise_at p _ m2.advance m3 _ _ _ b0.1 e1 a2.1 hseq
    a5.1 s4 a6.1
  exact ⟨N, fun fuel hf => by rw [hN fuel hf]; rfl⟩

end Parser

namespace Parser

theorem clauseSeq_labels {p q : Parser} {nodes : List ASTNode} (hs : ClauseSeq p nodes q) :
    ∀ n ∈ nodes, n.nodeType = "case_clause" := by
  induction hs with
  | done _ => intro n hn; cases hn
  | more _ _ hc _ ih =>
    intro n hn
    rcases List.mem_cons.1 hn with rfl | hn
    · exact clauseAt_label hc
    · exact ih n hn

end Parser

open Parser in
/-- Claim C30: the `case` statement.  (1) Let the parser be at `case`, followed by an expression
of node `e`, `of`, a constant of wrapper `v1`, `:`, a statement of node `s1`, `;`, a constant of
wrapper `lo`, `..`, a constant of wrapper `hi`, `:`, a statement of node `s2`, `;`, `otherwise`,
a statement of node `s3` and `end`.  `parseStatement` returns a `case` node with exactly 4
children: `e`; `case_clause` over `v1` and `s1`; `case_clause` over the node `..` (children `lo`,
`hi`) and `s2`; `otherwise` over `s3`.  (2), (3) In general, for clauses that `parseCaseclause`
turns into the nodes `clauses`, each followed by an optional `;`, the `case` node has the child
`e`, then the nodes of the clauses in source order, then an `otherwise` node exactly when the
keyword `otherwise` follows the clauses.  (4) Every node of a clause is labeled `case_clause`.
(5) A constant is the wrapper `<integer>`, `<char>` or `<identifier>` (for an identifier, `true`
or `false`) over the text of its token.  (6) The text
`case e of v1: s1; lo..hi: s2; otherwise s3 end`, for primaries `e`, `v1`, `lo`, `hi` and
assignments of primaries `s1`, `s2`, `s3`, gives the tree of (1). -/
theorem C30_case_statement :
    (∀ (p q1 m1 m2 m3 : Parser) (e v1 s1 lo hi s2 s3 : ASTNode),
      p.currentToken.type = TOK_CASE → ExprAt p.advance e q1 →
      q1.currentToken.type = TOK_OF →
      (parseConstValue q1.advance).1 = some v1 →
      (parseConstValue q1.advance).2.currentToken.type = TOK_COLON →
      StmtAt (parseConstValue q1.advance).2.advance s1 m1 →
      m1.currentToken.type = TOK_SEMICOLON →
      (parseConstValue m1.advance).1 = some lo →
      (parseConstValue m1.advance).2.currentToken.type = TOK_DOTS →
      (parseConstValue (parseConstValue m1.advance).2.advance).1 = some hi →
      (parseConstValue (parseConstValue m1.advance).2.advance).2.currentToken.type
        = TOK_COLON →
      StmtAt (parseConstValue (parseConstValue m1.advance).2.advance).2.advance s2 m2 →
      m2.currentToken.type = TOK_SEMICOLON →
      m2.advance.currentToken.type = TOK_OTHERWISE →
      StmtAt m2.advance.advance s3 m3 →
      m3.currentToken.type = TOK_END →
      (∃ N, ∀ fuel, N ≤ fuel →
        parseStatement fuel p
          = some (some (ASTNode.mk "case" [e, ASTNode.mk "case_clause" [v1, s1] "",
              ASTNode.mk "case_clause" [ASTNode.mk ".." [lo, hi] "", s2] "",
              ASTNode.mk "otherwise" [s3] ""] ""), m3.advance))
      ∧ (ASTNode.mk "case" [e, ASTNode.mk "case_clause" [v1, s1] "",
              ASTNode.mk "case_clause" [ASTNode.mk ".." [lo, hi] "", s2] "",
              ASTNode.mk "otherwise" [s3] ""] "").children.length = 4)
    ∧ (∀ (p q1 q2 : Parser) (e : ASTNode) (clauses : List ASTNode),
      p.currentToken.type = TOK_CASE → ExprAt p.advance e q1 →
      q1.currentToken.type = TOK_OF → ClauseSeq q1.advance clauses q2 →
      q2.currentToken.type = TOK_END →
      ∃ N, ∀ fuel, N ≤ fuel →
        parseStatement fuel p
          = some (some (ASTNode.mk "case" (e :: clauses) ""), q2.advance))
    ∧ (∀ (p q1 q2 q3 : Parser) (e s3 : ASTNode) (clauses : List ASTNode),
      p.currentToken.type = TOK_CASE → ExprAt p.advance e q1 →
      q1.currentToken.type = TOK_OF → ClauseSeq q1.advance clauses q2 →
      q2.currentToken.type = TOK_OTHERWISE → StmtAt q2.advance s3 q3 →
      q3.currentToken.type = TOK_END →
      ∃ N, ∀ fuel, N ≤ fuel →
        parseStatement fuel p
          = some (some (ASTNode.mk "case"
              (e :: clauses ++ [ASTNode.mk "otherwise" [s3] ""]) ""), q3.advance))
    ∧ (∀ (p q : Parser) (nodes : List ASTNode), ClauseSeq p nodes q →
      ∀ n ∈ nodes, n.nodeType = "case_clause")
    ∧ (∀ s : Parser,
      (s.currentToken.type = TOK_INTEGER →
        parseConstValue s
          = (some (ASTNode.mk "<integer>" [ASTNode.mk s.currentToken.value [] ""] ""),
              s.advance))
      ∧ (s.currentToken.type = TOK_CHAR →
        parseConstValue s
          = (some (ASTNode.mk "<char>" [ASTNode.mk s.currentToken.value [] ""] ""), s.advance))
      ∧ (s.currentToken.type = TOK_IDENTIFIER ∨ s.currentToken.type = TOK_TRUE
          ∨ s.currentToken.type = TOK_FALSE →
        parseConstValue s
          = (some (ASTNode.mk "<identifier>" [ASTNode.mk s.currentToken.value [] ""] ""),
              s.advance)))
    ∧ (∀ (e v1 lo hi : List Char) (s1 s2 s3 : List Char × List Char),
      isPrimaryText e = true → isPrimaryText v1 = true → isPrimaryText lo = true →
      isPrimaryText hi = true → isAssignment s1 = true → isAssignment s2 = true →
      isAssignment s3 = true →
      ∃ N, ∀ fuel, N ≤ fuel →
        (parseStatement fuel (Parser.new ("case ".toList ++ e ++ " of ".toList ++ v1
            ++ ": ".toList ++ assignText s1 ++ "; ".toList ++ lo ++ "..".toList ++ hi
            ++ ": ".toList ++ assignText s2 ++ "; otherwise ".toList ++ assignText s3
            ++ " end".toList))).map (fun r => r.1)
          = some (some (ASTNode.mk "case" [primaryNode e,
              ASTNode.mk "case_clause" [primaryNode v1, assignNode s1] "",
              ASTNode.mk "case_clause"
                [ASTNode.mk ".." [primaryNode lo, primaryNode hi] "", assignNode s2] "",
              ASTNode.mk "otherwise" [assignNode s3] ""] ""))) :=
  ⟨fun p q1 m1 m2 m3 e v1 s1 lo hi s2 s3 hc he ho hv1 hc1 hs1 hm1 hlo hd hhi hc2 hs2 hm2 hoth
      hs3 hend =>
      ⟨parseStatement_case_example p q1 m1 m2 m3 e v1 s1 lo hi s2 s3 hc he ho hv1 hc1 hs1 hm1
        hlo hd hhi hc2 hs2 hm2 hoth hs3 hend, rfl⟩,
   fun p q1 q2 e clauses hc he ho hs hend =>
      parseStatement_case_at p q1 q2 e clauses hc he ho hs hend,
   fun p q1 q2 q3 e s3 clauses hc he ho hs hoth hs3 hend =>
      parseStatement_case_otherwise_at p q1 q2 q3 e s3 clauses hc he ho hs hoth hs3 hend,
   fun _ _ _ hs => clauseSeq_labels hs,
   parseConstValue_kinds,
   fun e v1 lo hi s1 s2 s3 he hv1 hlo hhi h1 h2 h3 =>
      parseStatement_case_text e v1 lo hi s1 s2 s3 he hv1 hlo hhi h1 h2 h3⟩

open Parser in
theorem C30_case_statement_witness :
    ((∃ N, ∀ fuel, N ≤ fuel →
        parseStatement fuel (Parser.new "case x of 1: a := 1; 2..3: b := 2; otherwise c := 3 end".toList)
          = some (some (ASTNode.mk "case" [ASTNode.mk "<identifier>" [ASTNode.mk "x" [] ""] "",
            ASTNode.mk "case_clause" [ASTNode.mk "<integer>" [ASTNode.mk "1" [] ""] "",
            ASTNode.mk "assign" [ASTNode.mk "<identifier>" [ASTNode.mk "a" [] ""] "",
              ASTNode.mk "<integer>" [ASTNode.mk "1" [] ""] ""] ""] "",
            ASTNode.mk "case_clause" [ASTNode.mk ".." [ASTNode.mk "<integer>" [ASTNode.mk "2" [] ""] "",
              ASTNode.mk "<integer>" [ASTNode.mk "3" [] ""] ""] "",
            ASTNode.mk "assign" [ASTNode.mk "<identifier>" [ASTNode.mk "b" [] ""] "",
              ASTNode.mk "<integer>" [ASTNode.mk "2" [] ""] ""] ""] "",
            ASTNode.mk "otherwise" [ASTNode.mk "assign" [ASTNode.mk "<identifier>" [ASTNode.mk "c" [] ""] "",
              ASTNode.mk "<integer>" [ASTNode.mk "3" [] ""] ""] ""] ""] ""),
              (Parser.new "case x of 1: a := 1; 2..3: b := 2; otherwise c := 3 end".toList).advance.advance.advance.advance.advance.advance.advance.advance.advance.advance.advance.advance.advance.advance.advance.advance.advance.advance.advance.advance.advance.advance))
      ∧ (ASTNode.mk "case" [ASTNode.mk "<identifier>" [ASTNode.mk "x" [] ""] "",
            ASTNode.mk "case_clause" [ASTNode.mk "<integer>" [ASTNode.mk "1" [] ""] "",
            ASTNode.mk "assign" [ASTNode.mk "<identifier>" [ASTNode.mk "a" [] ""] "",
              ASTNode.mk "<integer>" [ASTNode.mk "1" [] ""] ""] ""] "",
            ASTNode.mk "case_clause" [ASTNode.mk ".." [ASTNode.mk "<integer>" [ASTNode.mk "2" [] ""] "",
              ASTNode.mk "<integer>" [ASTNode.mk "3" [] ""] ""] "",
            ASTNode.mk "assign" [ASTNode.mk "<identifier>" [ASTNode.mk "b" [] ""] "",
              ASTNode.mk "<integer>" [ASTNode.mk "2" [] ""] ""] ""] "",
            ASTNode.mk "otherwise" [ASTNode.mk "assign" [ASTNode.mk "<identifier>" [ASTNode.mk "c" [] ""] "",
              ASTNode.mk "<integer>" [ASTNode.mk "3" [] ""] ""] ""] ""] "").children.length = 4)
    ∧ (∃ N, ∀ fuel, N ≤ fuel →
        parseStatement fuel (Parser.new "case x of 1: a := 1 end".toList)
          = some (some (ASTNode.mk "case" (ASTNode.mk "<identifier>" [ASTNode.mk "x" [] ""] "" ::
            [ASTNode.mk "case_clause" [ASTNode.mk "<integer>" [ASTNode.mk "1" [] ""] "",
            ASTNode.mk "assign" [ASTNode.mk "<identifier>" [ASTNode.mk "a" [] ""] "",
              ASTNode.mk "<integer>" [ASTNode.mk "1" [] ""] ""] ""] ""]) ""),
              ((Parser.new "case x of 1: a := 1 end".toList).advance.advance.advance.advance.advance.advance.advance.advance.consume TOK_SEMICOLON).2.advance))
    ∧ (∃ N, ∀ fuel, N ≤ fuel →
        parseStatement fuel (Parser.new "case x of otherwise c := 3 end".toList)
          = some (some (ASTNode.mk "case" (ASTNode.mk "<identifier>" [ASTNode.mk "x" [] ""] "" :: []
            ++ [ASTNode.mk "otherwise" [ASTNode.mk "assign" [ASTNode.mk "<identifier>" [ASTNode.mk "c" [] ""] "",
              ASTNode.mk "<integer>" [ASTNode.mk "3" [] ""] ""] ""] ""]) ""),
              (Parser.new "case x of otherwise c := 3 end".toList).advance.advance.advance.advance.advance.advance.advance.advance))
    ∧ (∀ n ∈ [ASTNode.mk "case_clause" [ASTNode.mk "<integer>" [ASTNode.mk "1" [] ""] "",
            ASTNode.mk "assign" [ASTNode.mk "<identifier>" [ASTNode.mk "a" [] ""] "",
              ASTNode.mk "<integer>" [ASTNode.mk "1" [] ""] ""] ""] ""], n.nodeType = "case_clause")
    ∧ (Parser.parseConstValue (Parser.new "case x of 1: a := 1; 2..3: b := 2; otherwise c := 3 end".toList).advance.advance.advance
        = (some (ASTNode.mk "<integer>"
              [ASTNode.mk (Parser.new "case x of 1: a := 1; 2..3: b := 2; otherwise c := 3 end".toList).advance.advance.advance.currentToken.value [] ""] ""),
            (Parser.new "case x of 1: a := 1; 2..3: b := 2; otherwise c := 3 end".toList).advance.advance.advance.advance))
    ∧ (∃ N, ∀ fuel, N ≤ fuel →
        (parseStatement fuel (Parser.new ("case ".toList ++ "x".toList ++ " of ".toList
            ++ "1".toList ++ ": ".toList ++ assignText ("a".toList, "1".toList) ++ "; ".toList
            ++ "2".toList ++ "..".toList ++ "3".toList ++ ": ".toList
            ++ assignText ("b".toList, "2".toList) ++ "; otherwise ".toList
            ++ assignText ("c".toList, "3".toList) ++ " end".toList))).map (fun r => r.1)
          = some (some (ASTNode.mk "case" [primaryNode "x".toList,
              ASTNode.mk "case_clause"
                [primaryNode "1".toList, assignNode ("a".toList, "1".toList)] "",
              ASTNode.mk "case_clause"
                [ASTNode.mk ".." [primaryNode "2".toList, primaryNode "3".toList] "",
                 assignNode ("b".toList, "2".toList)] "",
              ASTNode.mk "otherwise" [assignNode ("c".toList, "3".toList)] ""] ""))) :=
  ⟨C30_case_statement.1 (Parser.new "case x of 1: a := 1; 2..3: b := 2; otherwise c := 3 end".toList)
      (Parser.new "case x of 1: a := 1; 2..3: b := 2; otherwise c := 3 end".toList).advance.advance
      (Parser.new "case x of 1: a := 1; 2..3: b := 2; otherwise c := 3 end".toList).advance.advance.advance.advance.advance.advance.advance.advance
      (Parser.new "case x of 1: a := 1; 2..3: b := 2; otherwise c := 3 end".toList).advance.advance.advance.advance.advance.advance.advance.advance.advance.advance.advance.advance.advance.advance.advance.advance
      (Parser.new "case x of 1: a := 1; 2..3: b := 2; otherwise c := 3 end".toList).advance.advance.advance.advance.advance.advance.advance.advance.advance.advance.advance.advance.advance.advance.advance.advance.advance.advance.advance.advance.advance _ _ _ _ _ _ _
      (by decide) ⟨4, rfl⟩ (by decide) rfl (by decide) ⟨5, rfl⟩ (by decide) rfl (by decide) rfl
      (by decide) ⟨5, rfl⟩ (by decide) (by decide) ⟨5, rfl⟩ (by decide),
   C30_case_statement.2.1 (Parser.new "case x of 1: a := 1 end".toList)
      (Parser.new "case x of 1: a := 1 end".toList).advance.advance _ _ _
      (by decide) ⟨4, rfl⟩ (by decide)
      (ClauseSeq.more (m := (Parser.new "case x of 1: a := 1 end".toList).advance.advance.advance.advance.advance.advance.advance.advance)
        (by decide) (by decide) ⟨6, rfl⟩ (ClauseSeq.done (Or.inl (by decide))))
      (by decide),
   C30_case_statement.2.2.1 (Parser.new "case x of otherwise c := 3 end".toList)
      (Parser.new "case x of otherwise c := 3 end".toList).advance.advance
      (Parser.new "case x of otherwise c := 3 end".toList).advance.advance.advance
      (Parser.new "case x of otherwise c := 3 end".toList).advance.advance.advance.advance.advance.advance.advance _ _ _
      (by decide) ⟨4, rfl⟩ (by decide) (ClauseSeq.done (Or.inr (by decide))) (by decide)
      ⟨5, rfl⟩ (by decide),
   C30_case_statement.2.2.2.1 (Parser.new "case x of 1: a := 1 end".toList).advance.advance.advance _ _
      (ClauseSeq.more (m := (Parser.new "case x of 1: a := 1 end".toList).advance.advance.advance.advance.advance.advance.advance.advance)
        (by decide) (by decide) ⟨6, rfl⟩ (ClauseSeq.done (Or.inl (by decide)))),
   (C30_case_statement.2.2.2.2.1 (Parser.new "case x of 1: a := 1; 2..3: b := 2; otherwise c := 3 end".toList).advance.advance.advance).1 (by decide),
   C30_case_statement.2.2.2.2.2 "x".toList "1".toList "2".toList "3".toList
      ("a".toList, "1".toList) ("b".toList, "2".toList) ("c".toList, "3".toList)
      (by decide) (by decide) (by decide) (by decide) (by decide) (by decide) (by decide)⟩

open TokenType

/-! ## The parser sees only the kinds and texts of the tokens other than NEWLINE -/

namespace Parser

theorem Sim.refl (p : Parser) : Sim p p := fun _ => rfl

theorem Sim.type {p1 p2 : Parser} (h : Sim p1 p2) :
    p1.currentToken.type = p2.currentToken.type :=
  congrArg Prod.fst (h 0)

theorem Sim.value {p1 p2 : Parser} (h : Sim p1 p2) :
    p1.currentToken.value = p2.currentToken.value :=
  congrArg Prod.snd (h 0)

theorem Sim.next {p1 p2 : Parser} (h : Sim p1 p2) : Sim p1.advance p2.advance :=
  fun k => h (k + 1)

theorem Sim.matchTok {p1 p2 : Parser} (h : Sim p1 p2) (t : TokenType) :
    p1.matchTok t = p2.matchTok t := by
  simp only [Parser.matchTok, h.type]

theorem Sim.consume {p1 p2 : Parser} (h : Sim p1 p2) (t : TokenType) :
    (p1.consume t).1 = (p2.consume t).1 ∧ Sim (p1.consume t).2 (p2.consume t).2 := by
  simp only [Parser.consume, h.matchTok t]
  by_cases c : p2.matchTok t = true
  · rw [if_pos c, if_pos c]; exact ⟨rfl, h.next⟩
  · rw [if_neg c, if_neg c]; exact ⟨rfl, h⟩

theorem Sim.consume_snd {p1 p2 : Parser} (h : Sim p1 p2) (t : TokenType) :
    Sim (p1.consume t).2 (p2.consume t).2 :=
  (h.consume t).2

theorem SimRes.none {α : Type} : SimRes (Option.none : Option (α × Parser)) Option.none :=
  Or.inl ⟨rfl, rfl⟩

theorem SimRes.some {α : Type} {v : α} {q1 q2 : Parser} (h : Sim q1 q2) :
    SimRes (Option.some (v, q1)) (Option.some (v, q2)) :=
  Or.inr ⟨v, q1, q2, rfl, rfl, h⟩

theorem SimRes.of_pair {α : Type} {a b : α × Parser} (h : SimPair a b) :
    SimRes (Option.some a) (Option.some b) := by
  obtain ⟨v1, q1⟩ := a
  obtain ⟨v2, q2⟩ := b
  obtain ⟨hv, hq⟩ := h
  simp only at hv hq
  subst hv
  exact SimRes.some hq

theorem parseName_sim {p1 p2 : Parser} (h : Sim p1 p2) :
    SimPair (parseName p1) (parseName p2) := by
  simp only [parseName, h.matchTok, h.value]
  by_cases c1 : p2.matchTok TOK_IDENTIFIER = true
  · rw [if_pos c1, if_pos c1]; exact ⟨rfl, h.next⟩
  rw [if_neg c1, if_neg c1]
  by_cases c2 : p2.matchTok TOK_INTEGER_TYPE = true
  · rw [if_pos c2, if_pos c2]; exact ⟨rfl, h.next⟩
  rw [if_neg c2, if_neg c2]
  by_cases c3 : p2.matchTok TOK_BOOLEAN = true
  · rw [if_pos c3, if_pos c3]; exact ⟨rfl, h.next⟩
  rw [if_neg c3, if_neg c3]
  exact ⟨rfl, h⟩

theorem parseConstValue_sim {p1 p2 : Parser} (h : Sim p1 p2) :
    SimPair (parseConstValue p1) (parseConstValue p2) := by
  simp only [parseConstValue, h.matchTok, h.value]
  by_cases c1 : p2.matchTok TOK_INTEGER = true
  · rw [if_pos c1, if_pos c1]; exact ⟨rfl, h.next⟩
  rw [if_neg c1, if_neg c1]
  by_cases c2 : p2.matchTok TOK_CHAR = true
  · rw [if_pos c2, if_pos c2]; exact ⟨rfl, h.next⟩
  rw [if_neg c2, if_neg c2]
  by_cases c3 : p2.matchTok TOK_IDENTIFIER = true
  · rw [if_pos c3, if_pos c3]; exact parseName_sim h
  rw [if_neg c3, if_neg c3]
  by_cases c4 : p2.matchTok TOK_TRUE = true
  · rw [if_pos c4, if_pos c4]; exact ⟨rfl, h.next⟩
  rw [if_neg c4, if_neg c4]
  by_cases c5 : p2.matchTok TOK_FALSE = true
  · rw [if_pos c5, if_pos c5]; exact ⟨rfl, h.next⟩
  rw [if_neg c5, if_neg c5]
  exact ⟨rfl, h⟩

theorem parseConst_sim {p1 p2 : Parser} (h : Sim p1 p2) :
    SimPair (parseConst p1) (parseConst p2) := by
  obtain ⟨hn, hq⟩ := parseName_sim h
  obtain ⟨hc, hcq⟩ := hq.consume TOK_EQUAL
  obtain ⟨hv, hvq⟩ := parseConstValue_sim hcq
  simp only [parseConst, hn, hc]
  by_cases c : (!((parseName p2).2.consume TOK_EQUAL).1) = true
  · rw [if_pos c, if_pos c]; exact ⟨rfl, hcq⟩
  · rw [if_neg c, if_neg c]
    exact ⟨by simp only [hv], hvq⟩

theorem parseCaseExpression_sim {p1 p2 : Parser} (h : Sim p1 p2) :
    SimPair (parseCaseExpression p1) (parseCaseExpression p2) := by
  obtain ⟨hv, hq⟩ := parseConstValue_sim h
  obtain ⟨hv2, hq2⟩ := parseConstValue_sim hq.next
  simp only [parseCaseExpression, hq.matchTok, hv]
  by_cases c : (parseConstValue p2).2.matchTok TOK_DOTS = true
  · rw [if_pos c, if_pos c]
    exact ⟨by simp only [hv2], hq2⟩
  · rw [if_neg c, if_neg c]
    exact ⟨hv, hq⟩

/-- A loop `do { node->addChild(parseName()); } while (consume(TOK_COMMA));` gives results that
agree from states that show the same tokens. -/
theorem nameLoop_sim (loop : Nat → ASTNode → Parser → Option (ASTNode × Parser))
    (h0 : ∀ node p, loop 0 node p = Option.none)
    (hs : ∀ f node p, loop (f + 1) node p =
      if ((parseName p).2.consume TOK_COMMA).1 = true then
        loop f (node.addChild (parseName p).1) ((parseName p).2.consume TOK_COMMA).2
      else Option.some (node.addChild (parseName p).1, ((parseName p).2.consume TOK_COMMA).2)) :
    ∀ (n : Nat) (node : ASTNode) (p1 p2 : Parser), Sim p1 p2 →
      SimRes (loop n node p1) (loop n node p2) := by
  intro n
  induction n with
  | zero => intro node p1 p2 _; rw [h0, h0]; exact SimRes.none
  | succ n ih =>
    intro node p1 p2 h
    obtain ⟨hn, hq⟩ := parseName_sim h
    obtain ⟨hc, hcq⟩ := hq.consume TOK_COMMA
    rw [hs, hs, hn, hc]
    by_cases c : ((parseName p2).2.consume TOK_COMMA).1 = true
    · rw [if_pos c, if_pos c]; exact ih _ _ _ hcq
    · rw [if_neg c, if_neg c]; exact SimRes.some hcq

theorem parseReadLoop_sim : ∀ (n : Nat) (node : ASTNode) (p1 p2 : Parser), Sim p1 p2 →
    SimRes (parseReadLoop n node p1) (parseReadLoop n node p2) :=
  nameLoop_sim parseReadLoop (fun _ _ => rfl) (fun _ _ _ => by simp only [parseReadLoop])

theorem parseLitListLoop_sim : ∀ (n : Nat) (node : ASTNode) (p1 p2 : Parser), Sim p1 p2 →
    SimRes (parseLitListLoop n node p1) (parseLitListLoop n node p2) :=
  nameLoop_sim parseLitListLoop (fun _ _ => rfl) (fun _ _ _ => by simp only [parseLitListLoop])

theorem parseDclnLoop_sim : ∀ (n : Nat) (node : ASTNode) (p1 p2 : Parser), Sim p1 p2 →
    SimRes (parseDclnLoop n node p1) (parseDclnLoop n node p2) :=
  nameLoop_sim parseDclnLoop (fun _ _ => rfl) (fun _ _ _ => by simp only [parseDclnLoop])

end Parser

open TokenType

namespace Parser

theorem parsePrimary_sim_step (n : Nat)
    (ihE : ∀ p1 p2, Sim p1 p2 → SimRes (parseExpression n p1) (parseExpression n p2))
    (ihP : ∀ p1 p2, Sim p1 p2 → SimRes (parsePrimary n p1) (parsePrimary n p2))
    (ihC : ∀ l p1 p2, Sim p1 p2 →
      SimRes (parseCallArgsLoop n l p1) (parseCallArgsLoop n l p2)) :
    ∀ p1 p2, Sim p1 p2 → SimRes (parsePrimary (n + 1) p1) (parsePrimary (n + 1) p2) := by
  intro p1 p2 hs
  have builtin : ∀ (label : String),
      SimRes
        (match parseExpression n (p1.advance.consume TOK_LPAREN).2 with
          | none => none
          | some r => some (some ((ASTNode.new label).addChild r.1), (r.2.consume TOK_RPAREN).2))
        (match parseExpression n (p2.advance.consume TOK_LPAREN).2 with
          | none => none
          | some r =>
            some (some ((ASTNode.new label).addChild r.1), (r.2.consume TOK_RPAREN).2)) := by
    intro label
    rcases ihE _ _ (hs.next.consume_snd TOK_LPAREN) with ⟨e1, e2⟩ | ⟨v, q1, q2, e1, e2, hq⟩
    · simp only [e1, e2]; exact SimRes.none
    · simp only [e1, e2]; exact SimRes.some (hq.consume_snd TOK_RPAREN)
  have unary : ∀ (label : String),
      SimRes
        (match parsePrimary n p1.advance with
          | none => none
          | some r => some (some ((ASTNode.new label).addChild r.1), r.2))
        (match parsePrimary n p2.advance with
          | none => none
          | some r => some (some ((ASTNode.new label).addChild r.1), r.2)) := by
    intro label
    rcases ihP _ _ hs.next with ⟨e1, e2⟩ | ⟨v, q1, q2, e1, e2, hq⟩
    · simp only [e1, e2]; exact SimRes.none
    · simp only [e1, e2]; exact SimRes.some hq
  rw [parsePrimary, parsePrimary]
  simp only [matchTok, decide_eq_true_eq, Bool.or_eq_true, hs.type, hs.value, hs.next.type]
  by_cases c1 : p2.currentToken.type = TOK_MINUS
  · rw [if_pos c1, if_pos c1]; exact unary "-"
  rw [if_neg c1, if_neg c1]
  by_cases c2 : p2.currentToken.type = TOK_PLUS
  · rw [if_pos c2, if_pos c2]; exact ihP _ _ hs.next
  rw [if_neg c2, if_neg c2]
  by_cases c3 : p2.currentToken.type = TOK_NOT
  · rw [if_pos c3, if_pos c3]; exact unary "not"
  rw [if_neg c3, if_neg c3]
  by_cases c4 : p2.currentToken.type = TOK_SUCC
  · rw [if_pos c4, if_pos c4]; exact builtin "succ"
  rw [if_neg c4, if_neg c4]
  by_cases c5 : p2.currentToken.type = TOK_PRED
  · rw [if_pos c5, if_pos c5]; exact builtin "pred"
  rw [if_neg c5, if_neg c5]
  by_cases c6 : p2.currentToken.type = TOK_CHR
  · rw [if_pos c6, if_pos c6]; exact builtin "chr"
  rw [if_neg c6, if_neg c6]
  by_cases c7 : p2.currentToken.type = TOK_ORD
  · rw [if_pos c7, if_pos c7]; exact builtin "ord"
  rw [if_neg c7, if_neg c7]
  by_cases c8 : p2.currentToken.type = TOK_EOF_KW
  · rw [if_pos c8, if_pos c8]; exact SimRes.some hs.next
  rw [if_neg c8, if_neg c8]
  by_cases c9 : p2.currentToken.type = TOK_INTEGER
  · rw [if_pos c9, if_pos c9]; exact SimRes.some hs.next
  rw [if_neg c9, if_neg c9]
  by_cases c10 : p2.currentToken.type = TOK_CHAR
  · rw [if_pos c10, if_pos c10]; exact SimRes.some hs.next
  rw [if_neg c10, if_neg c10]
  by_cases c11 : p2.currentToken.type = TOK_STRING
  · rw [if_pos c11, if_pos c11]; exact SimRes.some hs.next
  rw [if_neg c11, if_neg c11]
  by_cases c12 : p2.currentToken.type = TOK_TRUE ∨ p2.currentToken.type = TOK_FALSE
  · rw [if_pos c12, if_pos c12]; exact SimRes.some hs.next
  rw [if_neg c12, if_neg c12]
  by_cases c13 : p2.currentToken.type = TOK_LPAREN
  · rw [if_pos c13, if_pos c13]
    rcases ihE _ _ hs.next with ⟨e1, e2⟩ | ⟨v, q1, q2, e1, e2, hq⟩
    · simp only [e1, e2]; exact SimRes.none
    · simp only [e1, e2]; exact SimRes.some (hq.consume_snd TOK_RPAREN)
  rw [if_neg c13, if_neg c13]
  by_cases c14 : p2.currentToken.type = TOK_IDENTIFIER
  · rw [if_pos c14, if_pos c14]
    by_cases d1 : p2.advance.currentToken.type = TOK_LPAREN
    · simp only [d1, if_true, hs.next.next.type]
      by_cases d2 : p2.advance.advance.currentToken.type = TOK_RPAREN
      · simp only [d2, decide_True, Bool.not_true, Bool.false_eq_true, if_false]
        exact SimRes.some (hs.next.next.consume_snd TOK_RPAREN)
      · simp only [d2, decide_False, Bool.not_false, if_true]
        rcases ihC ((ASTNode.new "call").addChild
            (some (createIdentifierNode p2.currentToken.value))) _ _ hs.next.next
          with ⟨e1, e2⟩ | ⟨v, q1, q2, e1, e2, hq⟩
        · simp only [e1, e2]; exact SimRes.none
        · simp only [e1, e2]; exact SimRes.some (hq.consume_snd TOK_RPAREN)
    · simp only [d1, if_false]
      exact SimRes.some hs.next
  rw [if_neg c14, if_neg c14]
  exact SimRes.some hs

/-- From states that show the same tokens, the eight routines of the expression parser give
results that agree, for every fuel. -/
theorem expr_sim : ∀ n,
    (∀ p1 p2, Sim p1 p2 → SimRes (parseExpression n p1) (parseExpression n p2))
    ∧ (∀ l p1 p2, Sim p1 p2 →
        SimRes (parseExpressionLoop n l p1) (parseExpressionLoop n l p2))
    ∧ (∀ p1 p2, Sim p1 p2 → SimRes (parseTerm n p1) (parseTerm n p2))
    ∧ (∀ l p1 p2, Sim p1 p2 → SimRes (parseTermLoop n l p1) (parseTermLoop n l p2))
    ∧ (∀ p1 p2, Sim p1 p2 → SimRes (parseFactor n p1) (parseFactor n p2))
    ∧ (∀ l p1 p2, Sim p1 p2 → SimRes (parseFactorLoop n l p1) (parseFactorLoop n l p2))
    ∧ (∀ p1 p2, Sim p1 p2 → SimRes (parsePrimary n p1) (parsePrimary n p2))
    ∧ (∀ l p1 p2, Sim p1 p2 →
        SimRes (parseCallArgsLoop n l p1) (parseCallArgsLoop n l p2)) := by
  intro n
  induction n with
  | zero =>
    refine ⟨?_, ?_, ?_, ?_, ?_, ?_, ?_, ?_⟩
    · intro p1 p2 _; simp only [parseExpression]; exact SimRes.none
    · intro l p1 p2 _; simp only [parseExpressionLoop]; exact SimRes.none
    · intro p1 p2 _; simp only [parseTerm]; exact SimRes.none
    · intro l p1 p2 _; simp only [parseTermLoop]; exact SimRes.none
    · intro p1 p2 _; simp only [parseFactor]; exact SimRes.none
    · intro l p1 p2 _; simp only [parseFactorLoop]; exact SimRes.none
    · intro p1 p2 _; simp only [parsePrimary]; exact SimRes.none
    · intro l p1 p2 _; simp only [parseCallArgsLoop]; exact SimRes.none
  | succ n ih =>
    obtain ⟨ihE, ihEL, ihT, ihTL, ihF, ihFL, ihP, ihC⟩ := ih
    refine ⟨?_, ?_, ?_, ?_, ?_, ?_, parsePrimary_sim_step n ihE ihP ihC, ?_⟩
    · intro p1 p2 hs
      rw [parseExpression, parseExpression]
      rcases ihT _ _ hs with ⟨e1, e2⟩ | ⟨v, q1, q2, e1, e2, hq⟩
      · simp only [e1, e2]; exact SimRes.none
      · simp only [e1, e2]; exact ihEL _ _ _ hq
    · intro left p1 p2 hs
      rw [parseExpressionLoop, parseExpressionLoop, hs.type]
      cases relOp p2.currentToken.type with
      | none => exact SimRes.some hs
      | some op =>
        simp only
        rcases ihT _ _ hs.next with ⟨e1, e2⟩ | ⟨v, q1, q2, e1, e2, hq⟩
        · simp only [e1, e2]; exact SimRes.none
        · simp only [e1, e2]; exact ihEL _ _ _ hq
    · intro p1 p2 hs
      rw [parseTerm, parseTerm]
      rcases ihF _ _ hs with ⟨e1, e2⟩ | ⟨v, q1, q2, e1, e2, hq⟩
      · simp only [e1, e2]; exact SimRes.none
      · simp only [e1, e2]; exact ihTL _ _ _ hq
    · intro left p1 p2 hs
      rw [parseTermLoop, parseTermLoop, hs.type]
      cases addOp p2.currentToken.type with
      | none => exact SimRes.some hs
      | some op =>
        simp only
        rcases ihF _ _ hs.next with ⟨e1, e2⟩ | ⟨v, q1, q2, e1, e2, hq⟩
        · simp only [e1, e2]; exact SimRes.none
        · simp only [e1, e2]; exact ihTL _ _ _ hq
    · intro p1 p2 hs
      rw [parseFactor, parseFactor]
      rcases ihP _ _ hs with ⟨e1, e2⟩ | ⟨v, q1, q2, e1, e2, hq⟩
      · simp only [e1, e2]; exact SimRes.none
      · simp only [e1, e2]; exact ihFL _ _ _ hq
    · intro left p1 p2 hs
      rw [parseFactorLoop, parseFactorLoop, hs.type]
      cases mulOp p2.currentToken.type with
      | none => exact SimRes.some hs
      | some op =>
        simp only
        rcases ihP _ _ hs.next with ⟨e1, e2⟩ | ⟨v, q1, q2, e1, e2, hq⟩
        · simp only [e1, e2]; exact SimRes.none
        · simp only [e1, e2]; exact ihFL _ _ _ hq
    · intro node p1 p2 hs
      rw [parseCallArgsLoop, parseCallArgsLoop]
      rcases ihE _ _ hs with ⟨e1, e2⟩ | ⟨v, q1, q2, e1, e2, hq⟩
      · simp only [e1, e2]; exact SimRes.none
      · obtain ⟨hc, hcq⟩ := hq.consume TOK_COMMA
        simp only [e1, e2, hc]
        by_cases c : (q2.consume TOK_COMMA).1 = true
        · rw [if_pos c, if_pos c]; exact ihC _ _ _ hcq
        · rw [if_neg c, if_neg c]; exact SimRes.some hcq

theorem parseExpression_sim (n : Nat) {p1 p2 : Parser} (h : Sim p1 p2) :
    SimRes (parseExpression n p1) (parseExpression n p2) :=
  (expr_sim n).1 p1 p2 h

end Parser

open TokenType

namespace Parser

theorem parseAssignment_sim (n : Nat) {p1 p2 : Parser} (hs : Sim p1 p2) :
    SimRes (parseAssignment n p1) (parseAssignment n p2) := by
  simp only [parseAssignment, matchTok, decide_eq_true_eq, hs.type, hs.value, hs.next.type]
  by_cases c1 : p2.currentToken.type = TOK_IDENTIFIER
  · rw [if_pos c1, if_pos c1]
    by_cases c2 : p2.advance.currentToken.type = TOK_ASSIGN
    · rw [if_pos c2, if_pos c2]
      rcases parseExpression_sim n hs.next.next with ⟨e1, e2⟩ | ⟨v, q1, q2, e1, e2, hq⟩
      · simp only [e1, e2]; exact SimRes.none
      · simp only [e1, e2]; exact SimRes.some hq
    rw [if_neg c2, if_neg c2]
    by_cases c3 : p2.advance.currentToken.type = TOK_SWAP
    · rw [if_pos c3, if_pos c3]
      obtain ⟨hn, hq⟩ := parseName_sim hs.next.next
      rw [hn]; exact SimRes.some hq
    rw [if_neg c3, if_neg c3]
    exact SimRes.some hs.next
  rw [if_neg c1, if_neg c1]
  exact SimRes.some hs

theorem parseForStat_sim (n : Nat) {p1 p2 : Parser} (hs : Sim p1 p2) :
    SimRes (parseForStat n p1) (parseForStat n p2) := by
  simp only [parseForStat, hs.matchTok]
  by_cases c1 : p2.matchTok TOK_IDENTIFIER = true
  · rw [if_pos c1, if_pos c1]; exact parseAssignment_sim n hs
  · rw [if_neg c1, if_neg c1]; exact SimRes.some hs

theorem parseForExp_sim (n : Nat) {p1 p2 : Parser} (hs : Sim p1 p2) :
    SimRes (parseForExp n p1) (parseForExp n p2) := by
  simp only [parseForExp, hs.matchTok]
  by_cases c1 : (!p2.matchTok TOK_SEMICOLON) = true
  · rw [if_pos c1, if_pos c1]; exact parseExpression_sim n hs
  · rw [if_neg c1, if_neg c1]; exact SimRes.some hs

theorem parseOutExp_sim (n : Nat) {p1 p2 : Parser} (hs : Sim p1 p2) :
    SimRes (parseOutExp n p1) (parseOutExp n p2) := by
  simp only [parseOutExp, hs.matchTok, hs.value]
  by_cases c1 : p2.matchTok TOK_STRING = true
  · rw [if_pos c1, if_pos c1]; exact SimRes.some hs.next
  · rw [if_neg c1, if_neg c1]
    rcases parseExpression_sim n hs with ⟨e1, e2⟩ | ⟨v, q1, q2, e1, e2, hq⟩
    · simp only [e1, e2]; exact SimRes.none
    · simp only [e1, e2]; exact SimRes.some hq

theorem parseOutputLoop_sim : ∀ (n : Nat) (node : ASTNode) (p1 p2 : Parser), Sim p1 p2 →
    SimRes (parseOutputLoop n node p1) (parseOutputLoop n node p2) := by
  intro n
  induction n with
  | zero => intro node p1 p2 _; simp only [parseOutputLoop]; exact SimRes.none
  | succ n ih =>
    intro node p1 p2 hs
    rw [parseOutputLoop, parseOutputLoop]
    rcases parseOutExp_sim n hs with ⟨e1, e2⟩ | ⟨v, q1, q2, e1, e2, hq⟩
    · simp only [e1, e2]; exact SimRes.none
    · obtain ⟨hc, hcq⟩ := hq.consume TOK_COMMA
      simp only [e1, e2, hc]
      by_cases c : (q2.consume TOK_COMMA).1 = true
      · rw [if_pos c, if_pos c]; exact ih _ _ _ hcq
      · rw [if_neg c, if_neg c]; exact SimRes.some hcq

theorem parseStatement_sim_step (n : Nat)
    (ihS : ∀ p1 p2, Sim p1 p2 → SimRes (parseStatement n p1) (parseStatement n p2))
    (ihR : ∀ l p1 p2, Sim p1 p2 → SimRes (parseRepeatLoop n l p1) (parseRepeatLoop n l p2))
    (ihL : ∀ l p1 p2, Sim p1 p2 → SimRes (parseLoopLoop n l p1) (parseLoopLoop n l p2))
    (ihC : ∀ l p1 p2, Sim p1 p2 → SimRes (parseCaseLoop n l p1) (parseCaseLoop n l p2))
    (ihO : ∀ p1 p2, Sim p1 p2 →
      SimRes (parseOtherwiseClause n p1) (parseOtherwiseClause n p2))
    (ihB : ∀ p1 p2, Sim p1 p2 → SimRes (parseBody n p1) (parseBody n p2)) :
    ∀ p1 p2, Sim p1 p2 → SimRes (parseStatement (n + 1) p1) (parseStatement (n + 1) p2) := by
  intro p1 p2 hs
  rw [parseStatement, parseStatement]
  simp only [matchTok, decide_eq_true_eq, hs.type, hs.value, hs.next.type]
  by_cases c1 : p2.currentToken.type = TOK_IDENTIFIER
  · rw [if_pos c1, if_pos c1]
    by_cases d1 : p2.advance.currentToken.type = TOK_ASSIGN
    · rw [if_pos d1, if_pos d1]
      rcases parseExpression_sim n hs.next.next with ⟨e1, e2⟩ | ⟨v, q1, q2, e1, e2, hq⟩
      · simp only [e1, e2]; exact SimRes.none
      · simp only [e1, e2]; exact SimRes.some hq
    rw [if_neg d1, if_neg d1]
    by_cases d2 : p2.advance.currentToken.type = TOK_SWAP
    · rw [if_pos d2, if_pos d2]
      obtain ⟨hn, hq⟩ := parseName_sim hs.next.next
      rw [hn]; exact SimRes.some hq
    rw [if_neg d2, if_neg d2]
    exact SimRes.some hs.next
  rw [if_neg c1, if_neg c1]
  by_cases c2 : p2.currentToken.type = TOK_OUTPUT
  · rw [if_pos c2, if_pos c2]
    rcases parseOutputLoop_sim n (ASTNode.new "output") _ _ (hs.next.consume_snd TOK_LPAREN)
      with ⟨e1, e2⟩ | ⟨v, q1, q2, e1, e2, hq⟩
    · simp only [e1, e2]; exact SimRes.none
    · simp only [e1, e2]; exact SimRes.some (hq.consume_snd TOK_RPAREN)
  rw [if_neg c2, if_neg c2]
  by_cases c3 : p2.currentToken.type = TOK_IF
  · rw [if_pos c3, if_pos c3]
    rcases parseExpression_sim n hs.next with ⟨e1, e2⟩ | ⟨v, q1, q2, e1, e2, hq⟩
    · simp only [e1, e2]; exact SimRes.none
    simp only [e1, e2]
    rcases ihS _ _ (hq.consume_snd TOK_THEN) with ⟨f1, f2⟩ | ⟨w, m1, m2, f1, f2, hm⟩
    · simp only [f1, f2]; exact SimRes.none
    simp only [f1, f2, hm.type]
    by_cases d3 : m2.currentToken.type = TOK_ELSE
    · rw [if_pos d3, if_pos d3]
      rcases ihS _ _ hm.next with ⟨g1, g2⟩ | ⟨x, k1, k2, g1, g2, hk⟩
      · simp only [g1, g2]; exact SimRes.none
      · simp only [g1, g2]; exact SimRes.some hk
    · rw [if_neg d3, if_neg d3]; exact SimRes.some hm
  rw [if_neg c3, if_neg c3]
  by_cases c4 : p2.currentToken.type = TOK_WHILE
  · rw [if_pos c4, if_pos c4]
    rcases parseExpression_sim n hs.next with ⟨e1, e2⟩ | ⟨v, q1, q2, e1, e2, hq⟩
    · simp only [e1, e2]; exact SimRes.none
    simp only [e1, e2]
    rcases ihS _ _ (hq.consume_snd TOK_DO) with ⟨f1, f2⟩ | ⟨w, m1, m2, f1, f2, hm⟩
    · simp only [f1, f2]; exact SimRes.none
    · simp only [f1, f2]; exact SimRes.some hm
  rw [if_neg c4, if_neg c4]
  by_cases c5 : p2.currentToken.type = TOK_REPEAT
  · rw [if_pos c5, if_pos c5]
    rcases ihR (ASTNode.new "repeat") _ _ hs.next with ⟨e1, e2⟩ | ⟨v, q1, q2, e1, e2, hq⟩
    · simp only [e1, e2]; exact SimRes.none
    simp only [e1, e2]
    rcases parseExpression_sim n (hq.consume_snd TOK_UNTIL)
      with ⟨f1, f2⟩ | ⟨w, m1, m2, f1, f2, hm⟩
    · simp only [f1, f2]; exact SimRes.none
    · simp only [f1, f2]; exact SimRes.some hm
  rw [if_neg c5, if_neg c5]
  by_cases c6 : p2.currentToken.type = TOK_FOR
  · rw [if_pos c6, if_pos c6]
    rcases parseForStat_sim n (hs.next.consume_snd TOK_LPAREN)
      with ⟨e1, e2⟩ | ⟨v, q1, q2, e1, e2, hq⟩
    · simp only [e1, e2]; exact SimRes.none
    simp only [e1, e2]
    rcases parseForExp_sim n (hq.consume_snd TOK_SEMICOLON)
      with ⟨f1, f2⟩ | ⟨w, m1, m2, f1, f2, hm⟩
    · simp only [f1, f2]; exact SimRes.none
    simp only [f1, f2]
    rcases parseForStat_sim n (hm.consume_snd TOK_SEMICOLON)
      with ⟨g1, g2⟩ | ⟨x, k1, k2, g1, g2, hk⟩
    · simp only [g1, g2]; exact SimRes.none
    simp only [g1, g2]
    rcases ihS _ _ (hk.consume_snd TOK_RPAREN) with ⟨i1, i2⟩ | ⟨y, j1, j2, i1, i2, hj⟩
    · simp only [i1, i2]; exact SimRes.none
    · simp only [i1, i2]; exact SimRes.some hj
  rw [if_neg c6, if_neg c6]
  by_cases c7 : p2.currentToken.type = TOK_LOOP
  · rw [if_pos c7, if_pos c7]
    rcases ihL (ASTNode.new "loop") _ _ hs.next with ⟨e1, e2⟩ | ⟨v, q1, q2, e1, e2, hq⟩
    · simp only [e1, e2]; exact SimRes.none
    · simp only [e1, e2]; exact SimRes.some (hq.consume_snd TOK_POOL)
  rw [if_neg c7, if_neg c7]
  by_cases c8 : p2.currentToken.type = TOK_CASE
  · rw [if_pos c8, if_pos c8]
    rcases parseExpression_sim n hs.next with ⟨e1, e2⟩ | ⟨v, q1, q2, e1, e2, hq⟩
    · simp only [e1, e2]; exact SimRes.none
    simp only [e1, e2]
    rcases ihC ((ASTNode.new "case").addChild v) _ _ (hq.consume_snd TOK_OF)
      with ⟨f1, f2⟩ | ⟨w, m1, m2, f1, f2, hm⟩
    · simp only [f1, f2]; exact SimRes.none
    simp only [f1, f2, hm.type]
    by_cases d8 : m2.currentToken.type = TOK_OTHERWISE
    · rw [if_pos d8, if_pos d8]
      rcases ihO _ _ hm with ⟨g1, g2⟩ | ⟨x, k1, k2, g1, g2, hk⟩
      · simp only [g1, g2]; exact SimRes.none
      · simp only [g1, g2]; exact SimRes.some (hk.consume_snd TOK_END)
    · rw [if_neg d8, if_neg d8]; exact SimRes.some (hm.consume_snd TOK_END)
  rw [if_neg c8, if_neg c8]
  by_cases c9 : p2.currentToken.type = TOK_READ
  · rw [if_pos c9, if_pos c9]
    rcases parseReadLoop_sim n (ASTNode.new "read") _ _ (hs.next.consume_snd TOK_LPAREN)
      with ⟨e1, e2⟩ | ⟨v, q1, q2, e1, e2, hq⟩
    · simp only [e1, e2]; exact SimRes.none
    · simp only [e1, e2]; exact SimRes.some (hq.consume_snd TOK_RPAREN)
  rw [if_neg c9, if_neg c9]
  by_cases c10 : p2.currentToken.type = TOK_EXIT
  · rw [if_pos c10, if_pos c10]; exact SimRes.some hs.next
  rw [if_neg c10, if_neg c10]
  by_cases c11 : p2.currentToken.type = TOK_RETURN
  · rw [if_pos c11, if_pos c11]
    rcases parseExpression_sim n hs.next with ⟨e1, e2⟩ | ⟨v, q1, q2, e1, e2, hq⟩
    · simp only [e1, e2]; exact SimRes.none
    · simp only [e1, e2]; exact SimRes.some hq
  rw [if_neg c11, if_neg c11]
  by_cases c12 : p2.currentToken.type = TOK_BEGIN
  · rw [if_pos c12, if_pos c12]; exact ihB _ _ hs
  rw [if_neg c12, if_neg c12]
  exact SimRes.some hs

/-- From states that show the same tokens, the eight routines of the statement parser give
results that agree, for every fuel. -/
theorem stmt_sim : ∀ n,
    (∀ p1 p2, Sim p1 p2 → SimRes (parseStatement n p1) (parseStatement n p2))
    ∧ (∀ l p1 p2, Sim p1 p2 → SimRes (parseRepeatLoop n l p1) (parseRepeatLoop n l p2))
    ∧ (∀ l p1 p2, Sim p1 p2 → SimRes (parseLoopLoop n l p1) (parseLoopLoop n l p2))
    ∧ (∀ l p1 p2, Sim p1 p2 → SimRes (parseCaseLoop n l p1) (parseCaseLoop n l p2))
    ∧ (∀ p1 p2, Sim p1 p2 → SimRes (parseCaseclause n p1) (parseCaseclause n p2))
    ∧ (∀ p1 p2, Sim p1 p2 →
        SimRes (parseOtherwiseClause n p1) (parseOtherwiseClause n p2))
    ∧ (∀ p1 p2, Sim p1 p2 → SimRes (parseBody n p1) (parseBody n p2))
    ∧ (∀ l p1 p2, Sim p1 p2 → SimRes (parseBodyLoop n l p1) (parseBodyLoop n l p2)) := by
  intro n
  induction n with
  | zero =>
    refine ⟨?_, ?_, ?_, ?_, ?_, ?_, ?_, ?_⟩
    · intro p1 p2 _; simp only [parseStatement]; exact SimRes.none
    · intro l p1 p2 _; simp only [parseRepeatLoop]; exact SimRes.none
    · intro l p1 p2 _; simp only [parseLoopLoop]; exact SimRes.none
    · intro l p1 p2 _; simp only [parseCaseLoop]; exact SimRes.none
    · intro p1 p2 _; simp only [parseCaseclause]; exact SimRes.none
    · intro p1 p2 _; simp only [parseOtherwiseClause]; exact SimRes.none
    · intro p1 p2 _; simp only [parseBody]; exact SimRes.none
    · intro l p1 p2 _; simp only [parseBodyLoop]; exact SimRes.none
  | succ n ih =>
    obtain ⟨ihS, ihR, ihL, ihC, ihCC, ihO, ihB, ihBL⟩ := ih
    refine ⟨parseStatement_sim_step n ihS ihR ihL ihC ihO ihB, ?_, ?_, ?_, ?_, ?_, ?_, ?_⟩
    · intro node p1 p2 hs
      rw [parseRepeatLoop, parseRepeatLoop]
      rcases ihS _ _ hs with ⟨e1, e2⟩ | ⟨v, q1, q2, e1, e2, hq⟩
      · simp only [e1, e2]; exact SimRes.none
      · obtain ⟨hc, hcq⟩ := hq.consume TOK_SEMICOLON
        simp only [e1, e2, hc, hcq.matchTok]
        by_cases c : ((q2.consume TOK_SEMICOLON).1
            && !(q2.consume TOK_SEMICOLON).2.matchTok TOK_UNTIL) = true
        · rw [if_pos c, if_pos c]; exact ihR _ _ _ hcq
        · rw [if_neg c, if_neg c]; exact SimRes.some hcq
    · intro node p1 p2 hs
      rw [parseLoopLoop, parseLoopLoop]
      rcases ihS _ _ hs with ⟨e1, e2⟩ | ⟨v, q1, q2, e1, e2, hq⟩
      · simp only [e1, e2]; exact SimRes.none
      · obtain ⟨hc, hcq⟩ := hq.consume TOK_SEMICOLON
        simp only [e1, e2, hc, hcq.matchTok]
        by_cases c : ((q2.consume TOK_SEMICOLON).1
            && !(q2.consume TOK_SEMICOLON).2.matchTok TOK_POOL) = true
        · rw [if_pos c, if_pos c]; exact ihL _ _ _ hcq
        · rw [if_neg c, if_neg c]; exact SimRes.some hcq
    · intro node p1 p2 hs
      rw [parseCaseLoop, parseCaseLoop]
      simp only [hs.matchTok]
      by_cases c : (!p2.matchTok TOK_END && !p2.matchTok TOK_OTHERWISE) = true
      · rw [if_pos c, if_pos c]
        rcases ihCC _ _ hs with ⟨e1, e2⟩ | ⟨v, q1, q2, e1, e2, hq⟩
        · simp only [e1, e2]; exact SimRes.none
        · have hcq := hq.consume_snd TOK_SEMICOLON
          simp only [e1, e2, hcq.matchTok]
          by_cases d : (!(q2.consume TOK_SEMICOLON).2.matchTok TOK_END
              && !(q2.consume TOK_SEMICOLON).2.matchTok TOK_OTHERWISE && v.isNone) = true
          · rw [if_pos d, if_pos d]; exact SimRes.some hcq
          · rw [if_neg d, if_neg d]; exact ihC _ _ _ hcq
      · rw [if_neg c, if_neg c]; exact SimRes.some hs
    · intro p1 p2 hs
      rw [parseCaseclause, parseCaseclause]
      obtain ⟨hv, hq⟩ := parseCaseExpression_sim hs
      simp only [hv]
      rcases ihS _ _ (hq.consume_snd TOK_COLON) with ⟨e1, e2⟩ | ⟨v, q1, q2, e1, e2, hq2⟩
      · simp only [e1, e2]; exact SimRes.none
      · simp only [e1, e2]; exact SimRes.some hq2
    · intro p1 p2 hs
      rw [parseOtherwiseClause, parseOtherwiseClause]
      rcases ihS _ _ hs.next with ⟨e1, e2⟩ | ⟨v, q1, q2, e1, e2, hq⟩
      · simp only [e1, e2]; exact SimRes.none
      · simp only [e1, e2]; exact SimRes.some hq
    · intro p1 p2 hs
      rw [parseBody, parseBody]
      have hb := hs.consume_snd TOK_BEGIN
      simp only [hb.matchTok]
      by_cases c : (!(p2.consume TOK_BEGIN).2.matchTok TOK_END) = true
      · rw [if_pos c, if_pos c]
        rcases ihBL (ASTNode.new "block") _ _ hb with ⟨e1, e2⟩ | ⟨v, q1, q2, e1, e2, hq⟩
        · simp only [e1, e2]; exact SimRes.none
        · simp only [e1, e2]; exact SimRes.some (hq.consume_snd TOK_END)
      · rw [if_neg c, if_neg c]; exact SimRes.some (hb.consume_snd TOK_END)
    · intro node p1 p2 hs
      rw [parseBodyLoop, parseBodyLoop]
      simp only [hs.matchTok]
      by_cases c : (!p2.matchTok TOK_END) = true
      · rw [if_pos c, if_pos c]
        rcases ihS _ _ hs with ⟨e1, e2⟩ | ⟨v, q1, q2, e1, e2, hq⟩
        · simp only [e1, e2]; exact SimRes.none
        · obtain ⟨hc, hcq⟩ := hq.consume TOK_SEMICOLON
          simp only [e1, e2, hc, hcq.matchTok]
          by_cases d1 : (!(q2.consume TOK_SEMICOLON).1) = true
          · rw [if_pos d1, if_pos d1]
            by_cases d2 : (!(q2.consume TOK_SEMICOLON).2.matchTok TOK_END) = true
            · rw [if_pos d2, if_pos d2]; exact SimRes.some hcq
            · rw [if_neg d2, if_neg d2]; exact SimRes.some hcq
          · rw [if_neg d1, if_neg d1]
            by_cases d3 : (q2.consume TOK_SEMICOLON).2.matchTok TOK_END = true
            · rw [if_pos d3, if_pos d3]; exact SimRes.some hcq
            · rw [if_neg d3, if_neg d3]; exact ihBL _ _ _ hcq
      · rw [if_neg c, if_neg c]; exact SimRes.some hs

theorem parseBody_sim (n : Nat) {p1 p2 : Parser} (h : Sim p1 p2) :
    SimRes (parseBody n p1) (parseBody n p2) :=
  (stmt_sim n).2.2.2.2.2.2.1 p1 p2 h

end Parser

open TokenType

namespace Parser

theorem parseConstsLoop_sim : ∀ (n : Nat) (node : ASTNode) (p1 p2 : Parser), Sim p1 p2 →
    SimRes (parseConstsLoop n node p1) (parseConstsLoop n node p2) := by
  intro n
  induction n with
  | zero => intro node p1 p2 _; simp only [parseConstsLoop]; exact SimRes.none
  | succ n ih =>
    intro node p1 p2 hs
    obtain ⟨hv, hq⟩ := parseConst_sim hs
    obtain ⟨hc, hcq⟩ := hq.consume TOK_COMMA
    rw [parseConstsLoop, parseConstsLoop]
    simp only [hv, hc]
    by_cases c : ((parseConst p2).2.consume TOK_COMMA).1 = true
    · rw [if_pos c, if_pos c]; exact ih _ _ _ hcq
    · rw [if_neg c, if_neg c]; exact SimRes.some hcq

theorem parseConsts_sim (n : Nat) {p1 p2 : Parser} (hs : Sim p1 p2) :
    SimRes (parseConsts n p1) (parseConsts n p2) := by
  simp only [parseConsts, hs.matchTok]
  by_cases c : p2.matchTok TOK_CONST = true
  · rw [if_pos c, if_pos c]
    rcases parseConstsLoop_sim n (ASTNode.new "consts") _ _ hs.next
      with ⟨e1, e2⟩ | ⟨v, q1, q2, e1, e2, hq⟩
    · simp only [e1, e2]; exact SimRes.none
    · simp only [e1, e2]; exact SimRes.some (hq.consume_snd TOK_SEMICOLON)
  · rw [if_neg c, if_neg c]; exact SimRes.some hs

theorem parseLitList_sim (n : Nat) {p1 p2 : Parser} (hs : Sim p1 p2) :
    SimRes (parseLitList n p1) (parseLitList n p2) := by
  obtain ⟨hc, hcq⟩ := hs.consume TOK_LPAREN
  simp only [parseLitList, hc]
  by_cases c : (!(p2.consume TOK_LPAREN).1) = true
  · rw [if_pos c, if_pos c]; exact SimRes.some hcq
  · rw [if_neg c, if_neg c]
    rcases parseLitListLoop_sim n (ASTNode.new "lit") _ _ hcq
      with ⟨e1, e2⟩ | ⟨v, q1, q2, e1, e2, hq⟩
    · simp only [e1, e2]; exact SimRes.none
    · simp only [e1, e2]; exact SimRes.some (hq.consume_snd TOK_RPAREN)

theorem parseType_sim (n : Nat) {p1 p2 : Parser} (hs : Sim p1 p2) :
    SimRes (parseType n p1) (parseType n p2) := by
  obtain ⟨hv, hq⟩ := parseName_sim hs
  obtain ⟨hc, hcq⟩ := hq.consume TOK_EQUAL
  simp only [parseType, hv, hc]
  by_cases c : (!((parseName p2).2.consume TOK_EQUAL).1) = true
  · rw [if_pos c, if_pos c]; exact SimRes.some hcq
  · rw [if_neg c, if_neg c]
    rcases parseLitList_sim n hcq with ⟨e1, e2⟩ | ⟨v, q1, q2, e1, e2, hq2⟩
    · simp only [e1, e2]; exact SimRes.none
    · simp only [e1, e2]; exact SimRes.some hq2

theorem parseTypesLoop_sim : ∀ (n : Nat) (node : ASTNode) (p1 p2 : Parser), Sim p1 p2 →
    SimRes (parseTypesLoop n node p1) (parseTypesLoop n node p2) := by
  intro n
  induction n with
  | zero => intro node p1 p2 _; simp only [parseTypesLoop]; exact SimRes.none
  | succ n ih =>
    intro node p1 p2 hs
    rw [parseTypesLoop, parseTypesLoop]
    rcases parseType_sim n hs with ⟨e1, e2⟩ | ⟨v, q1, q2, e1, e2, hq⟩
    · simp only [e1, e2]; exact SimRes.none
    · have hcq := hq.consume_snd TOK_SEMICOLON
      simp only [e1, e2, hcq.matchTok]
      by_cases c : (q2.consume TOK_SEMICOLON).2.matchTok TOK_IDENTIFIER = true
      · rw [if_pos c, if_pos c]; exact ih _ _ _ hcq
      · rw [if_neg c, if_neg c]; exact SimRes.some hcq

theorem parseTypes_sim (n : Nat) {p1 p2 : Parser} (hs : Sim p1 p2) :
    SimRes (parseTypes n p1) (parseTypes n p2) := by
  simp only [parseTypes, hs.matchTok]
  by_cases c : p2.matchTok TOK_TYPE = true
  · rw [if_pos c, if_pos c]
    rcases parseTypesLoop_sim n (ASTNode.new "types") _ _ hs.next
      with ⟨e1, e2⟩ | ⟨v, q1, q2, e1, e2, hq⟩
    · simp only [e1, e2]; exact SimRes.none
    · simp only [e1, e2]; exact SimRes.some hq
  · rw [if_neg c, if_neg c]; exact SimRes.some hs

theorem parseDcln_sim (n : Nat) {p1 p2 : Parser} (hs : Sim p1 p2) :
    SimRes (parseDcln n p1) (parseDcln n p2) := by
  simp only [parseDcln]
  rcases parseDclnLoop_sim n (ASTNode.new "var") _ _ hs with ⟨e1, e2⟩ | ⟨v, q1, q2, e1, e2, hq⟩
  · simp only [e1, e2]; exact SimRes.none
  · obtain ⟨hc, hcq⟩ := hq.consume TOK_COLON
    obtain ⟨hv, hq2⟩ := parseName_sim hcq
    simp only [e1, e2, hc, hv]
    by_cases c : (!(q2.consume TOK_COLON).1) = true
    · rw [if_pos c, if_pos c]; exact SimRes.some hcq
    · rw [if_neg c, if_neg c]; exact SimRes.some hq2

theorem parseDclnsLoop_sim : ∀ (n : Nat) (node : ASTNode) (p1 p2 : Parser), Sim p1 p2 →
    SimRes (parseDclnsLoop n node p1) (parseDclnsLoop n node p2) := by
  intro n
  induction n with
  | zero => intro node p1 p2 _; simp only [parseDclnsLoop]; exact SimRes.none
  | succ n ih =>
    intro node p1 p2 hs
    rw [parseDclnsLoop, parseDclnsLoop]
    rcases parseDcln_sim n hs with ⟨e1, e2⟩ | ⟨v, q1, q2, e1, e2, hq⟩
    · simp only [e1, e2]; exact SimRes.none
    · have hcq := hq.consume_snd TOK_SEMICOLON
      simp only [e1, e2, hcq.matchTok]
      by_cases c : ((q2.consume TOK_SEMICOLON).2.matchTok TOK_IDENTIFIER
          && !(q2.consume TOK_SEMICOLON).2.matchTok TOK_BEGIN
          && !(q2.consume TOK_SEMICOLON).2.matchTok TOK_FUNCTION
          && !(q2.consume TOK_SEMICOLON).2.matchTok TOK_END) = true
      · rw [if_pos c, if_pos c]; exact ih _ _ _ hcq
      · rw [if_neg c, if_neg c]; exact SimRes.some hcq

theorem parseDclns_sim (n : Nat) {p1 p2 : Parser} (hs : Sim p1 p2) :
    SimRes (parseDclns n p1) (parseDclns n p2) := by
  simp only [parseDclns, hs.matchTok]
  by_cases c : p2.matchTok TOK_VAR = true
  · rw [if_pos c, if_pos c]
    rcases parseDclnsLoop_sim n (ASTNode.new "dclns") _ _ hs.next
      with ⟨e1, e2⟩ | ⟨v, q1, q2, e1, e2, hq⟩
    · simp only [e1, e2]; exact SimRes.none
    · simp only [e1, e2]; exact SimRes.some hq
  · rw [if_neg c, if_neg c]; exact SimRes.some hs

theorem parseParamsLoop_sim : ∀ (n : Nat) (node : ASTNode) (p1 p2 : Parser), Sim p1 p2 →
    SimRes (parseParamsLoop n node p1) (parseParamsLoop n node p2) := by
  intro n
  induction n with
  | zero => intro node p1 p2 _; simp only [parseParamsLoop]; exact SimRes.none
  | succ n ih =>
    intro node p1 p2 hs
    rw [parseParamsLoop, parseParamsLoop]
    rcases parseDcln_sim n hs with ⟨e1, e2⟩ | ⟨v, q1, q2, e1, e2, hq⟩
    · simp only [e1, e2]; exact SimRes.none
    · obtain ⟨hc, hcq⟩ := hq.consume TOK_SEMICOLON
      simp only [e1, e2, hc]
      by_cases c : (q2.consume TOK_SEMICOLON).1 = true
      · rw [if_pos c, if_pos c]; exact ih _ _ _ hcq
      · rw [if_neg c, if_neg c]; exact SimRes.some hcq

theorem parseParams_sim (n : Nat) {p1 p2 : Parser} (hs : Sim p1 p2) :
    SimRes (parseParams n p1) (parseParams n p2) := by
  simp only [parseParams, hs.matchTok]
  by_cases c : (!p2.matchTok TOK_RPAREN) = true
  · rw [if_pos c, if_pos c]
    rcases parseParamsLoop_sim n (ASTNode.new "params") _ _ hs
      with ⟨e1, e2⟩ | ⟨v, q1, q2, e1, e2, hq⟩
    · simp only [e1, e2]; exact SimRes.none
    · simp only [e1, e2]; exact SimRes.some hq
  · rw [if_neg c, if_neg c]; exact SimRes.some hs

theorem parseFcn_sim (n : Nat) {p1 p2 : Parser} (hs : Sim p1 p2) :
    SimRes (parseFcn n p1) (parseFcn n p2) := by
  obtain ⟨hv1, hq1⟩ := parseName_sim (hs.consume_snd TOK_FUNCTION)
  simp only [parseFcn, hv1]
  rcases parseParams_sim n (hq1.consume_snd TOK_LPAREN) with ⟨e1, e2⟩ | ⟨v, q1, q2, e1, e2, hq⟩
  · simp only [e1, e2]; exact SimRes.none
  obtain ⟨hv3, hq3⟩ := parseName_sim ((hq.consume_snd TOK_RPAREN).consume_snd TOK_COLON)
  simp only [e1, e2, hv3]
  rcases parseConsts_sim n (hq3.consume_snd TOK_SEMICOLON)
    with ⟨f1, f2⟩ | ⟨w, m1, m2, f1, f2, hm⟩
  · simp only [f1, f2]; exact SimRes.none
  simp only [f1, f2]
  rcases parseTypes_sim n hm with ⟨g1, g2⟩ | ⟨x, k1, k2, g1, g2, hk⟩
  · simp only [g1, g2]; exact SimRes.none
  simp only [g1, g2]
  rcases parseDclns_sim n hk with ⟨i1, i2⟩ | ⟨y, j1, j2, i1, i2, hj⟩
  · simp only [i1, i2]; exact SimRes.none
  simp only [i1, i2]
  rcases parseBody_sim n hj with ⟨b1, b2⟩ | ⟨z, t1, t2, b1, b2, ht⟩
  · simp only [b1, b2]; exact SimRes.none
  obtain ⟨hv8, hq8⟩ := parseName_sim ht
  simp only [b1, b2, hv8]
  exact SimRes.some (hq8.consume_snd TOK_SEMICOLON)

theorem parseSubProgsLoop_sim : ∀ (n : Nat) (node : ASTNode) (p1 p2 : Parser), Sim p1 p2 →
    SimRes (parseSubProgsLoop n node p1) (parseSubProgsLoop n node p2) := by
  intro n
  induction n with
  | zero => intro node p1 p2 _; simp only [parseSubProgsLoop]; exact SimRes.none
  | succ n ih =>
    intro node p1 p2 hs
    rw [parseSubProgsLoop, parseSubProgsLoop]
    simp only [hs.matchTok]
    by_cases c : p2.matchTok TOK_FUNCTION = true
    · rw [if_pos c, if_pos c]
      rcases parseFcn_sim n hs with ⟨e1, e2⟩ | ⟨v, q1, q2, e1, e2, hq⟩
      · simp only [e1, e2]; exact SimRes.none
      · simp only [e1, e2]; exact ih _ _ _ hq
    · rw [if_neg c, if_neg c]; exact SimRes.some hs

theorem parseSubProgs_sim (n : Nat) {p1 p2 : Parser} (hs : Sim p1 p2) :
    SimRes (parseSubProgs n p1) (parseSubProgs n p2) := by
  simp only [parseSubProgs]
  rcases parseSubProgsLoop_sim n (ASTNode.new "subprogs") _ _ hs
    with ⟨e1, e2⟩ | ⟨v, q1, q2, e1, e2, hq⟩
  · simp only [e1, e2]; exact SimRes.none
  · simp only [e1, e2]; exact SimRes.some hq

/-- From states that show the same tokens, `parseProgram` gives results that agree: with the
same fuel both run out of fuel, or both return the same tree (or both no tree) and states that
show the same tokens. -/
theorem parseProgram_sim (n : Nat) {p1 p2 : Parser} (hs : Sim p1 p2) :
    SimRes (parseProgram n p1) (parseProgram n p2) := by
  obtain ⟨hc1, hq1⟩ := hs.consume TOK_PROGRAM
  obtain ⟨hv1, hn1⟩ := parseName_sim hq1
  obtain ⟨hc2, hq2⟩ := hn1.consume TOK_COLON
  simp only [parseProgram, hc1, hv1, hc2]
  by_cases c1 : (!(p2.consume TOK_PROGRAM).1) = true
  · rw [if_pos c1, if_pos c1]; exact SimRes.some hq1
  rw [if_neg c1, if_neg c1]
  by_cases c2 : (!((parseName (p2.consume TOK_PROGRAM).2).2.consume TOK_COLON).1) = true
  · rw [if_pos c2, if_pos c2]; exact SimRes.some hq2
  rw [if_neg c2, if_neg c2]
  rcases parseConsts_sim n hq2 with ⟨f1, f2⟩ | ⟨w, m1, m2, f1, f2, hm⟩
  · simp only [f1, f2]; exact SimRes.none
  simp only [f1, f2]
  rcases parseTypes_sim n hm with ⟨g1, g2⟩ | ⟨x, k1, k2, g1, g2, hk⟩
  · simp only [g1, g2]; exact SimRes.none
  simp only [g1, g2]
  rcases parseDclns_sim n hk with ⟨i1, i2⟩ | ⟨y, j1, j2, i1, i2, hj⟩
  · simp only [i1, i2]; exact SimRes.none
  simp only [i1, i2]
  rcases parseSubProgs_sim n hj with ⟨s1, s2⟩ | ⟨u, r1, r2, s1, s2, hr⟩
  · simp only [s1, s2]; exact SimRes.none
  simp only [s1, s2]
  rcases parseBody_sim n hr with ⟨b1, b2⟩ | ⟨z, t1, t2, b1, b2, ht⟩
  · simp only [b1, b2]; exact SimRes.none
  obtain ⟨hv8, hq8⟩ := parseName_sim ht
  simp only [b1, b2, hv8]
  exact SimRes.some (hq8.consume_snd TOK_DOT)

end Parser

open TokenType

/-! ## The tokens the parser sees are the token stream without its NEWLINE tokens -/

namespace Parser

/-- Any fuel larger than the number of characters left gives the same token stream. -/
theorem streamLoop_indep : ∀ (n m : Nat) (l : Lexer), l.rest.length < n → l.rest.length < m →
    Lexer.streamLoop n l = Lexer.streamLoop m l := by
  intro n
  induction n with
  | zero => intro m l h _; omega
  | succ n ih =>
    intro m l hn hm
    obtain ⟨m, rfl⟩ : ∃ k, m = k + 1 := ⟨m - 1, by omega⟩
    rw [Lexer.streamLoop, Lexer.streamLoop]
    by_cases he : l.nextToken.1.type = TOK_EOF
    · rw [if_pos he, if_pos he]
    · rw [if_neg he, if_neg he]
      have hlt := nextToken_rest_lt he
      rw [ih m _ (by omega) (by omega)]

theorem nextToken_eof_value {l : Lexer} (h : l.nextToken.1.type = TOK_EOF) :
    l.nextToken.1.key = (TOK_EOF, "") ∧ l.nextToken.2.rest = [] := by
  obtain ⟨_, _, _, heof⟩ := Lexer.nextToken_spec _ l rfl
  obtain ⟨hr, ht⟩ := heof h
  refine ⟨?_, hr⟩
  rw [ht]
  rfl

/-- The significant tokens from a lexer state, by the kind of the next token. -/
theorem significantFrom_step (n : Nat) (l : Lexer) (hn : l.rest.length < n) :
    Lexer.significantFrom n l =
      if l.nextToken.1.type = TOK_EOF then [(TOK_EOF, "")]
      else if l.nextToken.1.type = TOK_NEWLINE then Lexer.significantFrom n l.nextToken.2
      else l.nextToken.1.key :: Lexer.significantFrom n l.nextToken.2 := by
  obtain ⟨k, rfl⟩ : ∃ k, n = k + 1 := ⟨n - 1, by omega⟩
  by_cases he : l.nextToken.1.type = TOK_EOF
  · rw [if_pos he]
    have hk := (nextToken_eof_value he).1
    simp [Lexer.significantFrom, Lexer.streamLoop, he, hk]
  · rw [if_neg he]
    have hlt := nextToken_rest_lt he
    have hind : Lexer.streamLoop k l.nextToken.2 = Lexer.streamLoop (k + 1) l.nextToken.2 :=
      streamLoop_indep _ _ _ (by omega) (by omega)
    by_cases hnl : l.nextToken.1.type = TOK_NEWLINE
    · rw [if_pos hnl]
      conv_lhs => rw [Lexer.significantFrom, Lexer.streamLoop, if_neg he, hind]
      rw [List.filter_cons, hnl, if_neg (by decide)]
      rfl
    · rw [if_neg hnl]
      conv_lhs => rw [Lexer.significantFrom, Lexer.streamLoop, if_neg he, hind]
      have hb : (l.nextToken.1.type != TOK_NEWLINE) = true := by simpa using hnl
      rw [List.filter_cons, hb, if_pos rfl, List.map_cons]
      rfl

/-- One call of `advance` makes the first significant token of the lexer's stream current and
leaves the lexer at the rest of the stream. -/
theorem advance_significant : ∀ (N : Nat) (p : Parser), p.lexer.rest.length = N →
    ∀ n, p.lexer.rest.length < n →
      Lexer.significantFrom n p.lexer
        = p.advance.currentToken.key ::
            (if p.advance.currentToken.type = TOK_EOF then []
             else Lexer.significantFrom n p.advance.lexer)
      ∧ (p.advance.currentToken.type = TOK_EOF → p.advance.lexer.rest = []) := by
  intro N
  induction N using Nat.strong_induction_on with
  | _ N ih =>
    intro p hN n hn
    rw [significantFrom_step n p.lexer hn]
    by_cases he : p.lexer.nextToken.1.type = TOK_EOF
    · have hnl : p.lexer.nextToken.1.type ≠ TOK_NEWLINE := by rw [he]; decide
      rw [if_pos he, advance_of_not_newline p hnl]
      simp only [he, if_true]
      exact ⟨by rw [(nextToken_eof_value he).1], fun _ => (nextToken_eof_value he).2⟩
    · rw [if_neg he]
      have hlt := nextToken_rest_lt he
      by_cases hnl : p.lexer.nextToken.1.type = TOK_NEWLINE
      · rw [if_pos hnl, advance_of_newline p hnl]
        exact ih p.lexer.nextToken.2.rest.length (by omega)
          ⟨p.lexer.nextToken.2, p.currentToken⟩ rfl n
          (by show p.lexer.nextToken.2.rest.length < n; omega)
      · rw [if_neg hnl, advance_of_not_newline p hnl]
        simp only [he, if_false]
        exact ⟨trivial, fun h => absurd h (by simp)⟩

theorem significantFrom_of_rest_nil {l : Lexer} (h : l.rest = []) (n : Nat) (hn : 0 < n) :
    Lexer.significantFrom n l = [(TOK_EOF, "")] := by
  rw [significantFrom_step n l (by rw [h]; exact hn), Lexer.nextToken_of_rest_nil h]
  rfl

/-- The token that is current after `k + 1` calls of `advance` is the `k`-th significant token
of the lexer's stream, and the EOF token past its end. -/
theorem advanceN_significant : ∀ (k : Nat) (p : Parser) (n : Nat), p.lexer.rest.length < n →
    (advanceN k p.advance).currentToken.key
      = (Lexer.significantFrom n p.lexer).getD k (TOK_EOF, "") := by
  intro k
  induction k with
  | zero =>
    intro p n hn
    rw [(advance_significant _ p rfl n hn).1]
    rfl
  | succ k ih =>
    intro p n hn
    obtain ⟨h1, h2⟩ := advance_significant _ p rfl n hn
    have hle := (advance_rest _ p rfl).1
    have hih := ih p.advance n (by omega)
    rw [h1]
    show (advanceN k p.advance.advance).currentToken.key = _
    rw [hih, List.getD_cons_succ]
    by_cases he : p.advance.currentToken.type = TOK_EOF
    · rw [if_pos he, significantFrom_of_rest_nil (h2 he) n (by omega)]
      cases k <;> rfl
    · rw [if_neg he]

/-- The tokens the parser sees from its initial state are the significant tokens of the input
text. -/
theorem advanceN_new (input : List Char) (k : Nat) :
    (advanceN k (Parser.new input)).currentToken.key
      = (Lexer.significant input).getD k (TOK_EOF, "") :=
  advanceN_significant k ⟨Lexer.new input, Token.default⟩ (input.length + 1)
    (by show (input.drop 0).length < input.length + 1; simp)

/-- Two input texts with the same significant tokens give initial parser states that show the
same tokens. -/
theorem sim_of_significant {i1 i2 : List Char}
    (h : Lexer.significant i1 = Lexer.significant i2) : Sim (Parser.new i1) (Parser.new i2) := by
  intro k
  rw [advanceN_new, advanceN_new, h]

end Parser

open TokenType

namespace Parser

theorem SimRes.map_fst {α : Type} {a b : Option (α × Parser)} (h : SimRes a b) :
    a.map (fun r => r.1) = b.map (fun r => r.1) := by
  rcases h with ⟨e1, e2⟩ | ⟨v, q1, q2, e1, e2, _⟩
  · rw [e1, e2]
  · rw [e1, e2]; rfl

/-- The current token is never a NEWLINE token, in the initial state and after any number of
calls of `advance`. -/
theorem advanceN_new_ne_newline (input : List Char) (k : Nat) :
    (advanceN k (Parser.new input)).currentToken.type ≠ TOK_NEWLINE := by
  cases k with
  | zero => exact advance_type_ne_newline _
  | succ k => rw [advanceN_succ]; exact advance_type_ne_newline _

theorem runMain_eq_of_tree {fuel : Nat} {i1 i2 : List Char}
    (h : (parseProgram fuel (Parser.new i1)).map (fun r => r.1)
      = (parseProgram fuel (Parser.new i2)).map (fun r => r.1)) :
    runMain fuel i1 = runMain fuel i2 := by
  unfold runMain
  cases h1 : parseProgram fuel (Parser.new i1) with
  | none =>
    cases h2 : parseProgram fuel (Parser.new i2) with
    | none => rfl
    | some r2 => rw [h1, h2] at h; cases h
  | some r1 =>
    cases h2 : parseProgram fuel (Parser.new i2) with
    | none => rw [h1, h2] at h; cases h
    | some r2 =>
      rw [h1, h2] at h
      obtain ⟨t1, q1⟩ := r1
      obtain ⟨t2, q2⟩ := r2
      simp only [Option.map_some', Option.some.injEq] at h
      subst h
      cases t1 <;> rfl

end Parser

open Parser in
/-- Claim C25: the tree depends only on the tokens other than NEWLINE.  The parser's current
token is never a NEWLINE token: not in the initial state built from an input text, not after
any number of calls of `advance`, and not after a call of `advance` from any state.  For two
input texts whose token streams (the tokens returned by `nextToken` up to the EOF token) have
the same sequence of (kind, text) pairs once the NEWLINE tokens are deleted, lines and columns
ignored, `parseProgram` returns identical results with every fuel: no result for both, or the
same tree, or no tree for both; and `main` then writes the same output with the same exit
status. -/
theorem C25_newline_independence (i1 i2 : List Char) (fuel : Nat) :
    (∀ k, (advanceN k (Parser.new i1)).currentToken.type ≠ TOK_NEWLINE)
    ∧ (∀ p : Parser, p.advance.currentToken.type ≠ TOK_NEWLINE)
    ∧ (Lexer.significant i1 = Lexer.significant i2 →
        (parseProgram fuel (Parser.new i1)).map (fun r => r.1)
            = (parseProgram fuel (Parser.new i2)).map (fun r => r.1)
          ∧ runMain fuel i1 = runMain fuel i2) := by
  refine ⟨advanceN_new_ne_newline i1, advance_type_ne_newline, fun h => ?_⟩
  have hs := (parseProgram_sim fuel (sim_of_significant h)).map_fst
  exact ⟨hs, runMain_eq_of_tree hs⟩

theorem C25_newline_independence_witness :
    Lexer.significant "program x: begin y := 1 end x.".toList
        = Lexer.significant "program x:\n\nbegin\n  y := 1 # one\nend   x.\n".toList
    ∧ (Parser.parseProgram 9 (Parser.new "program x: begin y := 1 end x.".toList)).map
          (fun r => r.1)
        = (Parser.parseProgram 9
            (Parser.new "program x:\n\nbegin\n  y := 1 # one\nend   x.\n".toList)).map
          (fun r => r.1)
    ∧ runMain 9 "program x: begin y := 1 end x.".toList
        = runMain 9 "program x:\n\nbegin\n  y := 1 # one\nend   x.\n".toList :=
  ⟨by decide,
   (C25_newline_independence "program x: begin y := 1 end x.".toList
      "program x:\n\nbegin\n  y := 1 # one\nend   x.\n".toList 9).2.2 (by decide)⟩

open TokenType

/-! ## A statement that is only an identifier -/

namespace Parser

/-- One iteration of the statement loop of `parseBody`: whatever `parseStatement` returns, one
child is added for the statement, its node or a `<null>` node when the result is absent; then
a missing `;` ends the loop, with a further `<null>` unless `end` follows, a `;` before `end`
ends it with a further `<null>`, and any other `;` starts the next iteration. -/
theorem parseBodyLoop_iteration (k : Nat) (block : ASTNode) (p : Parser)
    (r : Option ASTNode × Parser) (hp : p.currentToken.type ≠ TOK_END)
    (hs : parseStatement k p = some r) :
    parseBodyLoop (k + 1) block p
      = if r.2.currentToken.type ≠ TOK_SEMICOLON then
          (if r.2.currentToken.type ≠ TOK_END then
            some ((block.addChild (some (r.1.getD (ASTNode.new "<null>")))).addChild
              (some (ASTNode.new "<null>")), r.2)
          else some (block.addChild (some (r.1.getD (ASTNode.new "<null>"))), r.2))
        else if r.2.advance.currentToken.type = TOK_END then
          some ((block.addChild (some (r.1.getD (ASTNode.new "<null>")))).addChild
            (some (ASTNode.new "<null>")), r.2.advance)
        else parseBodyLoop k (block.addChild (some (r.1.getD (ASTNode.new "<null>"))))
          r.2.advance := by
  obtain ⟨x, q⟩ := r
  rw [parseBodyLoop]
  by_cases h1 : q.currentToken.type = TOK_SEMICOLON
  · cases x <;> simp [matchTok, hp, hs, consume_of_type h1, h1]
  · cases x <;> simp [matchTok, hp, hs, consume_of_ne h1, h1]

/-- A body that holds one identifier and nothing else: the identifier is consumed, the
statement parser returns no node, and the block gets a `<null>` node in its place. -/
theorem parseBody_identifier_alone (p : Parser) (hb : p.currentToken.type = TOK_BEGIN)
    (h0 : p.advance.currentToken.type = TOK_IDENTIFIER)
    (h1 : p.advance.advance.currentToken.type = TOK_END) :
    ∀ fuel, 3 ≤ fuel →
      parseBody fuel p
        = some (some (ASTNode.mk "block" [ASTNode.mk "<null>" [] ""] ""),
            p.advance.advance.advance) := by
  intro fuel hf
  obtain ⟨k, rfl⟩ : ∃ k, fuel = k + 3 := ⟨fuel - 3, by omega⟩
  have hs := parseStatement_identifier_alone k p.advance h0 (by rw [h1]; decide)
    (by rw [h1]; decide)
  have hl := parseBodyLoop_iteration (k + 1) (ASTNode.new "block") p.advance _
    (by rw [h0]; decide) hs
  rw [if_pos (by rw [h1]; decide), if_neg (by rw [h1]; decide)] at hl
  rw [parseBody_of_loop (k + 2) p _ hb (by rw [h0]; decide) hl]
  simp [consume_of_type h1, ASTNode.new, ASTNode.addChild, ASTNode.nodeType, ASTNode.children,
    ASTNode.value]

/-- The text `begin f end` for an identifier `f` that is not a keyword. -/
theorem parseBody_identifier_alone_text (f : List Char)
    (hf : Lexer.isIdentifierText f = true) (hk : keywords.lookup (String.mk f) = none) :
    ∀ fuel, 3 ≤ fuel →
      (parseBody fuel (Parser.new ("begin ".toList ++ f ++ " end".toList))).map (fun r => r.1)
        = some (some (ASTNode.mk "block" [ASTNode.mk "<null>" [] ""] "")) := by
  intro fuel hfuel
  have hin : "begin ".toList ++ f ++ " end".toList
      = "begin".toList ++ ' ' :: (f ++ ' ' :: "end".toList) := by simp
  rw [hin]
  have b0 := new_at (LexTo.identifier (p := "begin".toList)
    (r := ' ' :: (f ++ ' ' :: "end".toList)) (by decide) rfl)
  have b1 := b0.advance (LexTo.space (by decide)
    (LexTo.identifier (p := f) (r := ' ' :: "end".toList) hf rfl))
  rw [keywordType_of_lookup_none hk] at b1
  have b2 := b1.advance lexTo_end
  rw [parseBody_identifier_alone _ b0.1 b1.1 b2.1 fuel hfuel]
  rfl

end Parser

open Parser in
/-- Claim C38: a statement that is only an identifier.  At an identifier that is followed
neither by `:=` nor by `:=:`, `parseStatement` consumes the identifier and returns an absent
result.  In the statement loop of `parseBody` every iteration adds one child for its statement:
the node `parseStatement` returned, or a `<null>` node when the result is absent.  So a body
made of `begin`, one identifier and `end` gives a `block` with exactly one child, `<null>` with
no children; in particular the text `begin f end` does, for every identifier `f` that is not a
keyword. -/
theorem C38_identifier_statement_is_null :
    (∀ (s : Parser) (fuel : Nat), s.currentToken.type = TOK_IDENTIFIER →
      s.advance.currentToken.type ≠ TOK_ASSIGN → s.advance.currentToken.type ≠ TOK_SWAP →
      1 ≤ fuel → parseStatement fuel s = some (none, s.advance))
    ∧ (∀ (k : Nat) (block : ASTNode) (p : Parser) (r : Option ASTNode × Parser),
      p.currentToken.type ≠ TOK_END → parseStatement k p = some r →
      parseBodyLoop (k + 1) block p
        = if r.2.currentToken.type ≠ TOK_SEMICOLON then
            (if r.2.currentToken.type ≠ TOK_END then
              some ((block.addChild (some (r.1.getD (ASTNode.new "<null>")))).addChild
                (some (ASTNode.new "<null>")), r.2)
            else some (block.addChild (some (r.1.getD (ASTNode.new "<null>"))), r.2))
          else if r.2.advance.currentToken.type = TOK_END then
            some ((block.addChild (some (r.1.getD (ASTNode.new "<null>")))).addChild
              (some (ASTNode.new "<null>")), r.2.advance)
          else parseBodyLoop k (block.addChild (some (r.1.getD (ASTNode.new "<null>"))))
            r.2.advance)
    ∧ (∀ (p : Parser) (fuel : Nat), p.currentToken.type = TOK_BEGIN →
      p.advance.currentToken.type = TOK_IDENTIFIER →
      p.advance.advance.currentToken.type = TOK_END → 3 ≤ fuel →
      parseBody fuel p
        = some (some (ASTNode.mk "block" [ASTNode.mk "<null>" [] ""] ""),
            p.advance.advance.advance))
    ∧ (∀ (f : List Char) (fuel : Nat), Lexer.isIdentifierText f = true →
      keywords.lookup (String.mk f) = none → 3 ≤ fuel →
      (parseBody fuel (Parser.new ("begin ".toList ++ f ++ " end".toList))).map (fun r => r.1)
        = some (some (ASTNode.mk "block" [ASTNode.mk "<null>" [] ""] "")))
    ∧ (ASTNode.mk "block" [ASTNode.mk "<null>" [] ""] "").children.length = 1
    ∧ (ASTNode.mk "<null>" [] "").children.length = 0 :=
  ⟨fun s fuel h0 h1 h2 hf => by
      obtain ⟨k, rfl⟩ : ∃ k, fuel = k + 1 := ⟨fuel - 1, by omega⟩
      exact parseStatement_identifier_alone k s h0 h1 h2,
   fun k block p r hp hs => parseBodyLoop_iteration k block p r hp hs,
   fun p fuel hb h0 h1 hf => parseBody_identifier_alone p hb h0 h1 fuel hf,
   fun f fuel hf hk hfuel => parseBody_identifier_alone_text f hf hk fuel hfuel,
   rfl, rfl⟩

open Parser in
theorem C38_identifier_statement_is_null_witness :
    parseStatement 1 (Parser.new "f end".toList)
        = some (none, (Parser.new "f end".toList).advance)
    ∧ parseBodyLoop 2 (ASTNode.new "block") (Parser.new "begin f end".toList).advance
        = some (ASTNode.mk "block" [ASTNode.mk "<null>" [] ""] "",
            (Parser.new "begin f end".toList).advance.advance)
    ∧ parseBody 3 (Parser.new "begin f end".toList)
        = some (some (ASTNode.mk "block" [ASTNode.mk "<null>" [] ""] ""),
            (Parser.new "begin f end".toList).advance.advance.advance)
    ∧ (parseBody 3 (Parser.new ("begin ".toList ++ "f".toList ++ " end".toList))).map
          (fun r => r.1)
        = some (some (ASTNode.mk "block" [ASTNode.mk "<null>" [] ""] "")) :=
  ⟨C38_identifier_statement_is_null.1 (Parser.new "f end".toList) 1 (by decide) (by decide)
      (by decide) (by decide),
   (C38_identifier_statement_is_null.2.1 1 (ASTNode.new "block")
      (Parser.new "begin f end".toList).advance
      (none, (Parser.new "begin f end".toList).advance.advance) (by decide) rfl).trans rfl,
   C38_identifier_statement_is_null.2.2.1 (Parser.new "begin f end".toList) 3 (by decide)
      (by decide) (by decide) (by decide),
   C38_identifier_statement_is_null.2.2.2.1 "f".toList 3 (by decide) (by decide) (by decide)⟩

open TokenType

/-! ## Operator nodes with a missing operand -/

namespace Parser

/-- At a token that starts no primary, `parsePrimary` returns an absent result and consumes
nothing. -/
theorem parsePrimary_absent (k : Nat) (s : Parser) (h : s.currentToken.type ∉ primaryStarts) :
    parsePrimary (k + 1) s = some (none, s) := by
  simp only [primaryStarts, List.mem_cons, List.mem_singleton, List.not_mem_nil, or_false,
    not_or] at h
  obtain ⟨h1, h2, h3, h4, h5, h6, h7, h8, h9, h10, h11, h12, h13, h14, h15⟩ := h
  rw [parsePrimary]
  simp only [matchTok, decide_eq_true_eq, Bool.or_eq_true]
  rw [if_neg h1, if_neg h2, if_neg h3, if_neg h4, if_neg h5, if_neg h6, if_neg h7, if_neg h8,
    if_neg h9, if_neg h10, if_neg h11, if_neg (not_or.2 ⟨h12, h13⟩), if_neg h14, if_neg h15]

/-- The children of an operator node are the operands that are present, the left one first. -/
theorem mkOpNode_children (op : String) (l r : Option ASTNode) :
    (mkOpNode op l r).children = l.toList ++ r.toList := by
  cases l <;> cases r <;> rfl

theorem mkOpNode_nodeType (op : String) (l r : Option ASTNode) :
    (mkOpNode op l r).nodeType = op := by
  cases l <;> cases r <;> rfl

/-- An operator node has two children exactly when both operands are present. -/
theorem mkOpNode_two_children (op : String) (l r : Option ASTNode) :
    (mkOpNode op l r).children.length = 2 ↔ (l.isSome = true ∧ r.isSome = true) := by
  cases l <;> cases r <;> simp [mkOpNode_children]

/-- One iteration of the loop of `parseExpression`: the node of the relational operator is
built from the left operand and the result of `parseTerm`, present or not. -/
theorem parseExpressionLoop_step (k : Nat) (left : Option ASTNode) (p : Parser) (op : String)
    (r : Option ASTNode × Parser) (h : relOp p.currentToken.type = some op)
    (hr : parseTerm k p.advance = some r) :
    parseExpressionLoop (k + 1) left p
      = parseExpressionLoop k (some (mkOpNode op left r.1)) r.2 := by
  rw [parseExpressionLoop]
  simp only [h, hr]

/-- One iteration of the loop of `parseTerm`. -/
theorem parseTermLoop_step (k : Nat) (left : Option ASTNode) (p : Parser) (op : String)
    (r : Option ASTNode × Parser) (h : addOp p.currentToken.type = some op)
    (hr : parseFactor k p.advance = some r) :
    parseTermLoop (k + 1) left p = parseTermLoop k (some (mkOpNode op left r.1)) r.2 := by
  rw [parseTermLoop]
  simp only [h, hr]

/-- One iteration of the loop of `parseFactor`. -/
theorem parseFactorLoop_step (k : Nat) (left : Option ASTNode) (p : Parser) (op : String)
    (r : Option ASTNode × Parser) (h : mulOp p.currentToken.type = some op)
    (hr : parsePrimary k p.advance = some r) :
    parseFactorLoop (k + 1) left p = parseFactorLoop k (some (mkOpNode op left r.1)) r.2 := by
  rw [parseFactorLoop]
  simp only [h, hr]

/-- Tokens `A op` followed by a token that starts no primary and continues no expression: the
operator node is built over `A` alone. -/
theorem parseExpression_right_missing (n : Nat) (s : Parser) (o : String)
    (h0 : isOperand s.currentToken = true)
    (h1 : relOp s.advance.currentToken.type = some o
      ∨ addOp s.advance.currentToken.type = some o
      ∨ mulOp s.advance.currentToken.type = some o)
    (h2 : s.advance.advance.currentToken.type ∉ primaryStarts)
    (h3 : endsExpression s.advance.advance.currentToken.type = true) :
    parseExpression (n + 5) s
      = some (some (ASTNode.mk o [operandNode s.currentToken] ""), s.advance.advance) := by
  obtain ⟨e1, e2, e3, e4⟩ := endsExpression_iff h3
  rcases h1 with h1 | h1 | h1
  · obtain ⟨r1, r2, r3⟩ := relOp_some h1
    simp [parseExpression, parseTerm, parseFactor, parseExpressionLoop, parseTermLoop,
      parseFactorLoop, parsePrimary_operand _ _ h0 r1, parsePrimary_absent _ _ h2, h1, r2, r3,
      e1, e2, e3, mkOpNode, ASTNode.new, ASTNode.addChild, ASTNode.nodeType, ASTNode.children,
      ASTNode.value]
  · obtain ⟨a1, a2, _, _⟩ := addOp_some h1
    simp [parseExpression, parseTerm, parseFactor, parseExpressionLoop, parseTermLoop,
      parseFactorLoop, parsePrimary_operand _ _ h0 a1, parsePrimary_absent _ _ h2, h1, a2,
      e1, e2, e3, mkOpNode, ASTNode.new, ASTNode.addChild, ASTNode.nodeType, ASTNode.children,
      ASTNode.value]
  · obtain ⟨m1, m2, m3⟩ := mulOp_some h1
    simp [parseExpression, parseTerm, parseFactor, parseExpressionLoop, parseTermLoop,
      parseFactorLoop, parsePrimary_operand _ _ h0 m1, parsePrimary_absent _ _ h2, h1, m2, m3,
      e1, e2, e3, mkOpNode, ASTNode.new, ASTNode.addChild, ASTNode.nodeType, ASTNode.children,
      ASTNode.value]

/-- Every binary operator followed by a blank is lexed as one token, of a kind under which one
of the three loops builds the node labeled with the operator. -/
theorem lexTo_binaryOp {o : String} (h : o ∈ relOps ++ addOps ++ mulOps) :
    ∃ ty, (relOp ty = some o ∨ addOp ty = some o ∨ mulOp ty = some o)
      ∧ ∀ r, LexTo (o.toList ++ ' ' :: r) ty o (' ' :: r) := by
  rw [List.append_assoc, List.mem_append, List.mem_append] at h
  rcases h with h | h | h
  · obtain ⟨ty, h1, h2⟩ := lexTo_relOp h
    exact ⟨ty, Or.inl h1, h2⟩
  · obtain ⟨ty, h1, h2⟩ := lexTo_addOp h
    exact ⟨ty, Or.inr (Or.inl h1), h2⟩
  · obtain ⟨ty, h1, h2⟩ := lexTo_mulOp h
    exact ⟨ty, Or.inr (Or.inr h1), h2⟩

/-- A body `begin x := A op end`, as tokens: the assignment has two children, the second one
the operator node over `A` alone. -/
theorem parseBody_right_missing (p : Parser) (o : String)
    (hb : p.currentToken.type = TOK_BEGIN)
    (h0 : p.advance.currentToken.type = TOK_IDENTIFIER)
    (h1 : p.advance.advance.currentToken.type = TOK_ASSIGN)
    (h2 : isOperand p.advance.advance.advance.currentToken = true)
    (h3 : relOp p.advance.advance.advance.advance.currentToken.type = some o
      ∨ addOp p.advance.advance.advance.advance.currentToken.type = some o
      ∨ mulOp p.advance.advance.advance.advance.currentToken.type = some o)
    (h4 : p.advance.advance.advance.advance.advance.currentToken.type = TOK_END) :
    ∃ N, ∀ fuel, N ≤ fuel →
      parseBody fuel p
        = some (some (ASTNode.mk "block" [ASTNode.mk "assign"
            [createIdentifierNode p.advance.currentToken.value,
             ASTNode.mk o [operandNode p.advance.advance.advance.currentToken] ""] ""] ""),
            p.advance.advance.advance.advance.advance.advance) := by
  have hs : StmtAt p.advance (ASTNode.mk "assign"
      [createIdentifierNode p.advance.currentToken.value,
       ASTNode.mk o [operandNode p.advance.advance.advance.currentToken] ""] "")
      p.advance.advance.advance.advance.advance := by
    refine ⟨6, ?_⟩
    rw [parseStatement_assign 5 p.advance _ h0 h1
      (parseExpression_right_missing 0 _ o h2 h3 (by rw [h4]; decide) (by rw [h4]; rfl))]
    rfl
  exact parseBody_seq hb (by rw [h0]; decide) (StmtSeq.one hs) h4

/-- The text `begin x := v o end` for an identifier `x` that is not a keyword, a primary `v`
and a binary operator `o`. -/
theorem parseBody_right_missing_text (x v : List Char) (o : String)
    (hx : Lexer.isIdentifierText x = true) (hk : keywords.lookup (String.mk x) = none)
    (hv : isPrimaryText v = true) (ho : o ∈ relOps ++ addOps ++ mulOps) :
    ∃ N, ∀ fuel, N ≤ fuel →
      (parseBody fuel (Parser.new ("begin ".toList ++ x ++ " := ".toList ++ v ++ " ".toList
          ++ o.toList ++ " end".toList))).map (fun r => r.1)
        = some (some (ASTNode.mk "block" [ASTNode.mk "assign"
            [createIdentifierNode (String.mk x), ASTNode.mk o [primaryNode v] ""] ""] "")) := by
  obtain ⟨ty, hty, hl⟩ := lexTo_binaryOp ho
  have hin : "begin ".toList ++ x ++ " := ".toList ++ v ++ " ".toList ++ o.toList
        ++ " end".toList
      = "begin".toList ++ ' ' :: (x ++ ' ' :: ':' :: '=' :: ' ' :: (v ++ ' ' :: (o.toList
          ++ ' ' :: "end".toList))) := by simp
  rw [hin]
  have b0 := new_at (LexTo.identifier (p := "begin".toList)
    (r := ' ' :: (x ++ ' ' :: ':' :: '=' :: ' ' :: (v ++ ' ' :: (o.toList
      ++ ' ' :: "end".toList)))) (by decide) rfl)
  have b1 := b0.advance (LexTo.space (by decide) (LexTo.identifier (p := x)
    (r := ' ' :: ':' :: '=' :: ' ' :: (v ++ ' ' :: (o.toList ++ ' ' :: "end".toList))) hx rfl))
  rw [keywordType_of_lookup_none hk] at b1
  have b2 := b1.advance (LexTo.space (by decide) (LexTo.assign (by simp)))
  have b3 := b2.advance (LexTo.space (by decide) (LexTo.primary hv (Or.inr ⟨_, rfl⟩)))
  have b4 := b3.advance (LexTo.space (by decide) (hl _))
  have b5 := b4.advance lexTo_end
  obtain ⟨N, hN⟩ := parseBody_right_missing _ o b0.1 b1.1 b2.1 b3.operand.1
    (by rw [b4.1]; exact hty) b5.1
  refine ⟨N, fun fuel hf => ?_⟩
  rw [hN fuel hf, b1.2.1, b3.operand.2]
  rfl

end Parser

open Parser in
/-- Claim C39: binary operator nodes and missing operands.  In each of the three
binary-operator loops (of `parseExpression`, `parseTerm` and `parseFactor`) an iteration builds
the operator node from the left operand and the result of the sub-parse of the right operand,
whether present or not.  That node carries the operator as label and the present operands as
children, so it has exactly two children if and only if both operands are present, and with a
missing right operand it is the operator over the left operand alone.  Tokens `A op` followed by
a token that starts no primary give such a node with one child, and the parse still returns a
result: `begin x := A op end` gives a `block` over an `assign` with two children, the second
one `op` over the wrapper of `A` alone; so does the text `begin x := v o end` for every
identifier `x`, primary `v` and binary operator `o`, for example `begin x := 1 + end`. -/
theorem C39_operator_node_children :
    (∀ (k : Nat) (left : Option ASTNode) (p : Parser) (op : String)
        (r : Option ASTNode × Parser),
      (relOp p.currentToken.type = some op → parseTerm k p.advance = some r →
        parseExpressionLoop (k + 1) left p
          = parseExpressionLoop k (some (mkOpNode op left r.1)) r.2)
      ∧ (addOp p.currentToken.type = some op → parseFactor k p.advance = some r →
        parseTermLoop (k + 1) left p = parseTermLoop k (some (mkOpNode op left r.1)) r.2)
      ∧ (mulOp p.currentToken.type = some op → parsePrimary k p.advance = some r →
        parseFactorLoop (k + 1) left p
          = parseFactorLoop k (some (mkOpNode op left r.1)) r.2))
    ∧ (∀ (op : String) (l r : Option ASTNode),
      (mkOpNode op l r).nodeType = op
      ∧ (mkOpNode op l r).children = l.toList ++ r.toList
      ∧ ((mkOpNode op l r).children.length = 2 ↔ (l.isSome = true ∧ r.isSome = true)))
    ∧ (∀ (op : String) (l : ASTNode), mkOpNode op (some l) none = ASTNode.mk op [l] "")
    ∧ (∀ (n : Nat) (s : Parser) (o : String), isOperand s.currentToken = true →
      (relOp s.advance.currentToken.type = some o ∨ addOp s.advance.currentToken.type = some o
        ∨ mulOp s.advance.currentToken.type = some o) →
      s.advance.advance.currentToken.type ∉ primaryStarts →
      endsExpression s.advance.advance.currentToken.type = true →
      parseExpression (n + 5) s
        = some (some (ASTNode.mk o [operandNode s.currentToken] ""), s.advance.advance))
    ∧ (∀ (p : Parser) (o : String), p.currentToken.type = TOK_BEGIN →
      p.advance.currentToken.type = TOK_IDENTIFIER →
      p.advance.advance.currentToken.type = TOK_ASSIGN →
      isOperand p.advance.advance.advance.currentToken = true →
      (relOp p.advance.advance.advance.advance.currentToken.type = some o
        ∨ addOp p.advance.advance.advance.advance.currentToken.type = some o
        ∨ mulOp p.advance.advance.advance.advance.currentToken.type = some o) →
      p.advance.advance.advance.advance.advance.currentToken.type = TOK_END →
      ∃ N, ∀ fuel, N ≤ fuel →
        parseBody fuel p
          = some (some (ASTNode.mk "block" [ASTNode.mk "assign"
              [createIdentifierNode p.advance.currentToken.value,
               ASTNode.mk o [operandNode p.advance.advance.advance.currentToken] ""] ""] ""),
              p.advance.advance.advance.advance.advance.advance))
    ∧ (∀ (x v : List Char) (o : String), Lexer.isIdentifierText x = true →
      keywords.lookup (String.mk x) = none → isPrimaryText v = true →
      o ∈ relOps ++ addOps ++ mulOps →
      ∃ N, ∀ fuel, N ≤ fuel →
        (parseBody fuel (Parser.new ("begin ".toList ++ x ++ " := ".toList ++ v ++ " ".toList
            ++ o.toList ++ " end".toList))).map (fun r => r.1)
          = some (some (ASTNode.mk "block" [ASTNode.mk "assign"
              [createIdentifierNode (String.mk x), ASTNode.mk o [primaryNode v] ""] ""] "")))
    ∧ (parseBody 8 (Parser.new "begin x := 1 + end".toList)).map (fun r => r.1)
        = some (some (ASTNode.mk "block" [ASTNode.mk "assign"
            [ASTNode.mk "<identifier>" [ASTNode.mk "x" [] ""] "",
             ASTNode.mk "+" [ASTNode.mk "<integer>" [ASTNode.mk "1" [] ""] ""] ""] ""] "")) :=
  ⟨fun k left p op r =>
      ⟨fun h hr => parseExpressionLoop_step k left p op r h hr,
       fun h hr => parseTermLoop_step k left p op r h hr,
       fun h hr => parseFactorLoop_step k left p op r h hr⟩,
   fun op l r => ⟨mkOpNode_nodeType op l r, mkOpNode_children op l r,
      mkOpNode_two_children op l r⟩,
   fun _ _ => rfl,
   fun n s o h0 h1 h2 h3 => parseExpression_right_missing n s o h0 h1 h2 h3,
   fun p o hb h0 h1 h2 h3 h4 => parseBody_right_missing p o hb h0 h1 h2 h3 h4,
   fun x v o hx hk hv ho => parseBody_right_missing_text x v o hx hk hv ho,
   by rfl⟩

open Parser in
theorem C39_operator_node_children_witness :
    parseTermLoop 3 (some (ASTNode.mk "<integer>" [ASTNode.mk "1" [] ""] ""))
        (Parser.new "1 + end".toList).advance
      = parseTermLoop 2 (some (mkOpNode "+"
          (some (ASTNode.mk "<integer>" [ASTNode.mk "1" [] ""] "")) none))
          (Parser.new "1 + end".toList).advance.advance
    ∧ parseExpression 5 (Parser.new "1 + end".toList)
      = some (some (ASTNode.mk "+" [operandNode (Parser.new "1 + end".toList).currentToken] ""),
          (Parser.new "1 + end".toList).advance.advance)
    ∧ (∃ N, ∀ fuel, N ≤ fuel →
        parseBody fuel (Parser.new "begin x := 1 + end".toList)
          = some (some (ASTNode.mk "block" [ASTNode.mk "assign"
              [createIdentifierNode (Parser.new "begin x := 1 + end".toList).advance.currentToken.value,
               ASTNode.mk "+" [operandNode
                 (Parser.new "begin x := 1 + end".toList).advance.advance.advance.currentToken]
                 ""] ""] ""),
              (Parser.new "begin x := 1 + end".toList).advance.advance.advance.advance.advance.advance))
    ∧ (∃ N, ∀ fuel, N ≤ fuel →
        (parseBody fuel (Parser.new ("begin ".toList ++ "x".toList ++ " := ".toList
            ++ "1".toList ++ " ".toList ++ "+".toList ++ " end".toList))).map (fun r => r.1)
          = some (some (ASTNode.mk "block" [ASTNode.mk "assign"
              [createIdentifierNode (String.mk "x".toList),
               ASTNode.mk "+" [primaryNode "1".toList] ""] ""] ""))) :=
  ⟨(C39_operator_node_children.1 2 (some (ASTNode.mk "<integer>" [ASTNode.mk "1" [] ""] ""))
      (Parser.new "1 + end".toList).advance "+"
      (none, (Parser.new "1 + end".toList).advance.advance)).2.1 rfl rfl,
   C39_operator_node_children.2.2.2.1 0 (Parser.new "1 + end".toList) "+" (by decide)
      (Or.inr (Or.inl rfl)) (by decide) (by decide),
   C39_operator_node_children.2.2.2.2.1 (Parser.new "begin x := 1 + end".toList) "+"
      (by decide) (by decide) (by decide) (by decide) (Or.inr (Or.inl rfl)) (by decide),
   C39_operator_node_children.2.2.2.2.2.1 "x".toList "1".toList "+" (by decide) (by decide)
      (by decide) (by decide)⟩

open TokenType

/-! ## A trailing separator in `repeat` and `loop` -/

namespace Parser

theorem parseLoopLoop_mono {n m : Nat} {node : ASTNode} {s : Parser} {r : ASTNode × Parser}
    (h : parseLoopLoop n node s = some r) (hnm : n ≤ m) : parseLoopLoop m node s = some r := by
  induction hnm with
  | refl => exact h
  | step _ ih => exact (stmt_mono_succ _).2.2.1 _ _ _ ih

/-- One iteration of the statement loop of `repeat` that ends the loop after a separator: the
statement is followed by `;` and `until`; the `;` is consumed and no node is added for it. -/
theorem parseRepeatLoop_stop (k : Nat) (rep node : ASTNode) (p q : Parser)
    (hs : parseStatement k p = some (some node, q))
    (hq : q.currentToken.type = TOK_SEMICOLON)
    (hq2 : q.advance.currentToken.type = TOK_UNTIL) :
    parseRepeatLoop (k + 1) rep p = some (rep.addChild (some node), q.advance) := by
  rw [parseRepeatLoop]
  simp [hs, consume_of_type hq, matchTok, hq2]

/-- The statement loop of `repeat` on a statement list that ends at `;` followed by `until`:
the nodes of the statements are appended in order, and nothing else. -/
theorem parseRepeatLoop_seq_trailing {p q : Parser} {nodes : List ASTNode}
    (hs : StmtSeq TOK_UNTIL p nodes q) :
    ∀ rep : ASTNode, q.currentToken.type = TOK_SEMICOLON →
      q.advance.currentToken.type = TOK_UNTIL →
      ∃ N, ∀ fuel, N ≤ fuel → parseRepeatLoop fuel rep p
        = some (ASTNode.mk rep.nodeType (rep.children ++ nodes) rep.value, q.advance) := by
  induction hs with
  | @one p q node h1 =>
    intro rep hq hq2
    obtain ⟨f0, hf0⟩ := h1
    refine ⟨f0 + 1, fun fuel hf => ?_⟩
    obtain ⟨k, rfl⟩ : ∃ k, fuel = k + 1 := ⟨fuel - 1, by omega⟩
    rw [parseRepeatLoop_stop k rep node p q (parseStatement_mono hf0 (by omega)) hq hq2]
    rfl
  | @more p m q node nodes h1 hm hm2 _ ih =>
    intro rep hq hq2
    obtain ⟨f0, hf0⟩ := h1
    obtain ⟨N, hN⟩ := ih (rep.addChild (some node)) hq hq2
    refine ⟨max f0 N + 1, fun fuel hf => ?_⟩
    obtain ⟨k, rfl⟩ : ∃ k, fuel = k + 1 := ⟨fuel - 1, by omega⟩
    rw [parseRepeatLoop_next k rep node p m (parseStatement_mono hf0 (by omega)) hm hm2,
      hN k (by omega)]
    simp [addChild_some_eq, ASTNode.nodeType, ASTNode.children, ASTNode.value]

/-- One iteration of the statement loop of `loop` that ends the loop: the statement is not
followed by `;`. -/
theorem parseLoopLoop_last (k : Nat) (lp node : ASTNode) (p q : Parser)
    (hs : parseStatement k p = some (some node, q))
    (hq : q.currentToken.type ≠ TOK_SEMICOLON) :
    parseLoopLoop (k + 1) lp p = some (lp.addChild (some node), q) := by
  rw [parseLoopLoop]
  simp [hs, consume_of_ne hq]

/-- One iteration of the statement loop of `loop` that ends the loop after a separator: the
statement is followed by `;` and `pool`. -/
theorem parseLoopLoop_stop (k : Nat) (lp node : ASTNode) (p q : Parser)
    (hs : parseStatement k p = some (some node, q))
    (hq : q.currentToken.type = TOK_SEMICOLON)
    (hq2 : q.advance.currentToken.type = TOK_POOL) :
    parseLoopLoop (k + 1) lp p = some (lp.addChild (some node), q.advance) := by
  rw [parseLoopLoop]
  simp [hs, consume_of_type hq, matchTok, hq2]

/-- One iteration of the statement loop of `loop` that goes on: the statement is followed by
`;` and something other than `pool`. -/
theorem parseLoopLoop_next (k : Nat) (lp node : ASTNode) (p q : Parser)
    (hs : parseStatement k p = some (some node, q))
    (hq : q.currentToken.type = TOK_SEMICOLON)
    (hq2 : q.advance.currentToken.type ≠ TOK_POOL) :
    parseLoopLoop (k + 1) lp p = parseLoopLoop k (lp.addChild (some node)) q.advance := by
  rw [parseLoopLoop]
  simp [hs, consume_of_type hq, matchTok, hq2]

/-- The statement loop of `loop` on a statement list: the nodes of the statements are appended
in order, whether the list ends without `;` or at `;` followed by `pool`. -/
theorem parseLoopLoop_seq {p q : Parser} {nodes : List ASTNode}
    (hs : StmtSeq TOK_POOL p nodes q) :
    ∀ lp : ASTNode,
      (q.currentToken.type ≠ TOK_SEMICOLON →
        ∃ N, ∀ fuel, N ≤ fuel → parseLoopLoop fuel lp p
          = some (ASTNode.mk lp.nodeType (lp.children ++ nodes) lp.value, q))
      ∧ (q.currentToken.type = TOK_SEMICOLON → q.advance.currentToken.type = TOK_POOL →
        ∃ N, ∀ fuel, N ≤ fuel → parseLoopLoop fuel lp p
          = some (ASTNode.mk lp.nodeType (lp.children ++ nodes) lp.value, q.advance)) := by
  induction hs with
  | @one p q node h1 =>
    intro lp
    obtain ⟨f0, hf0⟩ := h1
    constructor
    · intro hq
      refine ⟨f0 + 1, fun fuel hf => ?_⟩
      obtain ⟨k, rfl⟩ : ∃ k, fuel = k + 1 := ⟨fuel - 1, by omega⟩
      rw [parseLoopLoop_last k lp node p q (parseStatement_mono hf0 (by omega)) hq]
      rfl
    · intro hq hq2
      refine ⟨f0 + 1, fun fuel hf => ?_⟩
      obtain ⟨k, rfl⟩ : ∃ k, fuel = k + 1 := ⟨fuel - 1, by omega⟩
      rw [parseLoopLoop_stop k lp node p q (parseStatement_mono hf0 (by omega)) hq hq2]
      rfl
  | @more p m q node nodes h1 hm hm2 _ ih =>
    intro lp
    obtain ⟨f0, hf0⟩ := h1
    obtain ⟨ihA, ihB⟩ := ih (lp.addChild (some node))
    constructor
    · intro hq
      obtain ⟨N, hN⟩ := ihA hq
      refine ⟨max f0 N + 1, fun fuel hf => ?_⟩
      obtain ⟨k, rfl⟩ : ∃ k, fuel = k + 1 := ⟨fuel - 1, by omega⟩
      rw [parseLoopLoop_next k lp node p m (parseStatement_mono hf0 (by omega)) hm hm2,
        hN k (by omega)]
      simp [addChild_some_eq, ASTNode.nodeType, ASTNode.children, ASTNode.value]
    · intro hq hq2
      obtain ⟨N, hN⟩ := ihB hq hq2
      refine ⟨max f0 N + 1, fun fuel hf => ?_⟩
      obtain ⟨k, rfl⟩ : ∃ k, fuel = k + 1 := ⟨fuel - 1, by omega⟩
      rw [parseLoopLoop_next k lp node p m (parseStatement_mono hf0 (by omega)) hm hm2,
        hN k (by omega)]
      simp [addChild_some_eq, ASTNode.nodeType, ASTNode.children, ASTNode.value]

/-- The statement `loop ... pool` around its statement loop. -/
theorem parseStatement_loop (k : Nat) (p : Parser) (rl : ASTNode × Parser)
    (hl : p.currentToken.type = TOK_LOOP)
    (h : parseLoopLoop k (ASTNode.new "loop") p.advance = some rl) :
    parseStatement (k + 1) p = some (some rl.1, (rl.2.consume TOK_POOL).2) := by
  rw [parseStatement]
  simp [matchTok, hl, h]

/-- A `repeat` statement whose statement list ends right before `until`. -/
theorem parseStatement_repeat_at (p q qc : Parser) (nodes : List ASTNode) (c : ASTNode)
    (hr : p.currentToken.type = TOK_REPEAT) (hs : StmtSeq TOK_UNTIL p.advance nodes q)
    (hq : q.currentToken.type = TOK_UNTIL) (hc : ExprAt q.advance c qc) :
    ∃ N, ∀ fuel, N ≤ fuel →
      parseStatement fuel p = some (some (ASTNode.mk "repeat" (nodes ++ [c]) ""), qc) := by
  obtain ⟨N, hN⟩ := parseRepeatLoop_seq hs (ASTNode.new "repeat") (by rw [hq]; decide)
  obtain ⟨f, hf⟩ := hc
  refine ⟨max N f + 1, fun fuel hfuel => ?_⟩
  obtain ⟨k, rfl⟩ : ∃ k, fuel = k + 1 := ⟨fuel - 1, by omega⟩
  rw [parseStatement_repeat k p _ (some c, qc) hr (hN k (by omega))
    (by simp only [consume_of_type hq]; exact parseExpression_mono hf (by omega))]
  rfl

/-- A `repeat` statement whose statement list ends with a `;` before `until`: the same node. -/
theorem parseStatement_repeat_trailing (p q qc : Parser) (nodes : List ASTNode) (c : ASTNode)
    (hr : p.currentToken.type = TOK_REPEAT) (hs : StmtSeq TOK_UNTIL p.advance nodes q)
    (hq : q.currentToken.type = TOK_SEMICOLON) (hq2 : q.advance.currentToken.type = TOK_UNTIL)
    (hc : ExprAt q.advance.advance c qc) :
    ∃ N, ∀ fuel, N ≤ fuel →
      parseStatement fuel p = some (some (ASTNode.mk "repeat" (nodes ++ [c]) ""), qc) := by
  obtain ⟨N, hN⟩ := parseRepeatLoop_seq_trailing hs (ASTNode.new "repeat") hq hq2
  obtain ⟨f, hf⟩ := hc
  refine ⟨max N f + 1, fun fuel hfuel => ?_⟩
  obtain ⟨k, rfl⟩ : ∃ k, fuel = k + 1 := ⟨fuel - 1, by omega⟩
  rw [parseStatement_repeat k p _ (some c, qc) hr (hN k (by omega))
    (by simp only [consume_of_type hq2]; exact parseExpression_mono hf (by omega))]
  rfl

/-- A `loop` statement whose statement list ends right before `pool`. -/
theorem parseStatement_loop_at (p q : Parser) (nodes : List ASTNode)
    (hl : p.currentToken.type = TOK_LOOP) (hs : StmtSeq TOK_POOL p.advance nodes q)
    (hq : q.currentToken.type = TOK_POOL) :
    ∃ N, ∀ fuel, N ≤ fuel →
      parseStatement fuel p = some (some (ASTNode.mk "loop" nodes ""), q.advance) := by
  obtain ⟨N, hN⟩ := (parseLoopLoop_seq hs (ASTNode.new "loop")).1 (by rw [hq]; decide)
  refine ⟨N + 1, fun fuel hfuel => ?_⟩
  obtain ⟨k, rfl⟩ : ∃ k, fuel = k + 1 := ⟨fuel - 1, by omega⟩
  rw [parseStatement_loop k p _ hl (hN k (by omega))]
  simp [consume_of_type hq, ASTNode.new, ASTNode.nodeType, ASTNode.children, ASTNode.value]

/-- A `loop` statement whose statement list ends with a `;` before `pool`: the same node. -/
theorem parseStatement_loop_trailing (p q : Parser) (nodes : List ASTNode)
    (hl : p.currentToken.type = TOK_LOOP) (hs : StmtSeq TOK_POOL p.advance nodes q)
    (hq : q.currentToken.type = TOK_SEMICOLON) (hq2 : q.advance.currentToken.type = TOK_POOL) :
    ∃ N, ∀ fuel, N ≤ fuel →
      parseStatement fuel p
        = some (some (ASTNode.mk "loop" nodes ""), q.advance.advance) := by
  obtain ⟨N, hN⟩ := (parseLoopLoop_seq hs (ASTNode.new "loop")).2 hq hq2
  refine ⟨N + 1, fun fuel hfuel => ?_⟩
  obtain ⟨k, rfl⟩ : ∃ k, fuel = k + 1 := ⟨fuel - 1, by omega⟩
  rw [parseStatement_loop k p _ hl (hN k (by omega))]
  simp [consume_of_type hq2, ASTNode.new, ASTNode.nodeType, ASTNode.children, ASTNode.value]

theorem lexTo_until {r : List Char} :
    LexTo (' ' :: ("until".toList ++ ' ' :: r)) TOK_UNTIL "until" (' ' :: r) :=
  LexTo.space (by decide) (LexTo.identifier (p := "until".toList) (r := ' ' :: r) (by decide) rfl)

theorem lexTo_pool : LexTo (' ' :: "pool".toList) TOK_POOL "pool" [] :=
  LexTo.space (by decide) (LexTo.identifier (p := "pool".toList) (r := []) (by decide) rfl)

/-- The text `repeat x1 := v1; ...; xn := vn; until c`, with a `;` before `until`: the same
node as without that `;`. -/
theorem parseStatement_repeat_trailing_text (L : List (List Char × List Char)) (hL : L ≠ [])
    (hall : ∀ xv ∈ L, isAssignment xv = true) (c : List Char) (hc : isPrimaryText c = true) :
    ∃ N, ∀ fuel, N ≤ fuel →
      (parseStatement fuel (Parser.new ("repeat ".toList ++ assignsText L ++ "; until ".toList
          ++ c))).map (fun r => r.1)
        = some (some (ASTNode.mk "repeat" (L.map assignNode ++ [primaryNode c]) "")) := by
  have hin : "repeat ".toList ++ assignsText L ++ "; until ".toList ++ c
      = "repeat".toList ++ ' ' :: (assignsText L ++ ';' :: ' ' :: ("until".toList
          ++ ' ' :: (c ++ []))) := by simp
  rw [hin]
  have b0 := new_at (LexTo.identifier (p := "repeat".toList)
    (r := ' ' :: (assignsText L ++ ';' :: ' ' :: ("until".toList ++ ' ' :: (c ++ []))))
    (by decide) rfl)
  generalize Parser.new _ = p at b0 ⊢
  obtain ⟨p1, hp1, hadv⟩ := advance_skip_space b0.2.2 (by decide)
  obtain ⟨h1, q, hs, hq⟩ := stmtSeq_assignsText TOK_UNTIL (by decide)
    (r := ';' :: ' ' :: ("until".toList ++ ' ' :: (c ++ []))) rfl
    (LexTo.single (c := ';') (r := ' ' :: ("until".toList ++ ' ' :: (c ++ [])))
      (show Lexer.isSingleCharToken ';' ' ' = true by decide))
    (by decide) L hL hall p1 hp1
  rw [← hadv] at h1 hs
  have k0 := hq.advance (lexTo_until (r := c ++ []))
  have k1 := k0.advance (LexTo.space (by decide) (LexTo.primary hc (Or.inl rfl)))
  obtain ⟨e1, _⟩ := exprAt_primary k1 LexTo.eof (by decide)
  obtain ⟨N, hN⟩ := parseStatement_repeat_trailing p q _ _ _ b0.1 hs hq.1 k0.1 e1
  exact ⟨N, fun fuel hf => by rw [hN fuel hf]; rfl⟩

/-- The texts `loop x1 := v1; ...; xn := vn pool` and `loop x1 := v1; ...; xn := vn; pool`:
both give the `loop` node over the `n` assignments. -/
theorem parseStatement_loop_text (L : List (List Char × List Char)) (hL : L ≠ [])
    (hall : ∀ xv ∈ L, isAssignment xv = true) :
    (∃ N, ∀ fuel, N ≤ fuel →
      (parseStatement fuel (Parser.new ("loop ".toList ++ assignsText L ++ " pool".toList))).map
          (fun r => r.1)
        = some (some (ASTNode.mk "loop" (L.map assignNode) "")))
    ∧ (∃ N, ∀ fuel, N ≤ fuel →
      (parseStatement fuel (Parser.new ("loop ".toList ++ assignsText L
          ++ "; pool".toList))).map (fun r => r.1)
        = some (some (ASTNode.mk "loop" (L.map assignNode) ""))) := by
  constructor
  · have hin : "loop ".toList ++ assignsText L ++ " pool".toList
        = "loop".toList ++ ' ' :: (assignsText L ++ ' ' :: "pool".toList) := by simp
    rw [hin]
    have b0 := new_at (LexTo.identifier (p := "loop".toList)
      (r := ' ' :: (assignsText L ++ ' ' :: "pool".toList)) (by decide) rfl)
    generalize Parser.new _ = p at b0 ⊢
    obtain ⟨p1, hp1, hadv⟩ := advance_skip_space b0.2.2 (by decide)
    obtain ⟨h1, q, hs, hq⟩ := stmtSeq_assignsText TOK_POOL (by decide)
      (r := ' ' :: "pool".toList) rfl lexTo_pool (by decide) L hL hall p1 hp1
    rw [← hadv] at h1 hs
    obtain ⟨N, hN⟩ := parseStatement_loop_at p q _ b0.1 hs hq.1
    exact ⟨N, fun fuel hf => by rw [hN fuel hf]; rfl⟩
  · have hin : "loop ".toList ++ assignsText L ++ "; pool".toList
        = "loop".toList ++ ' ' :: (assignsText L ++ ';' :: ' ' :: "pool".toList) := by simp
    rw [hin]
    have b0 := new_at (LexTo.identifier (p := "loop".toList)
      (r := ' ' :: (assignsText L ++ ';' :: ' ' :: "pool".toList)) (by decide) rfl)
    generalize Parser.new _ = p at b0 ⊢
    obtain ⟨p1, hp1, hadv⟩ := advance_skip_space b0.2.2 (by decide)
    obtain ⟨h1, q, hs, hq⟩ := stmtSeq_assignsText TOK_POOL (by decide)
      (r := ';' :: ' ' :: "pool".toList) rfl
      (LexTo.single (c := ';') (r := ' ' :: "pool".toList)
        (show Lexer.isSingleCharToken ';' ' ' = true by decide))
      (by decide) L hL hall p1 hp1
    rw [← hadv] at h1 hs
    have k0 := hq.advance lexTo_pool
    obtain ⟨N, hN⟩ := parseStatement_loop_trailing p q _ b0.1 hs hq.1 k0.1
    exact ⟨N, fun fuel hf => by rw [hN fuel hf]; rfl⟩

end Parser

open Parser in
/-- Claim C40: no compensating `<null>` in `repeat` and `loop`.  Let the parser be at `repeat`,
followed by a statement list that `parseStatement` turns into `nodes`, and let `c` be the node
of the condition.  Whether the list ends right before `until` or with a `;` before `until`,
`parseStatement` returns the same `repeat` node, whose children are `nodes` followed by `c`
(one more than the statements).  Likewise after `loop`: whether the list ends right before
`pool` or with a `;` before `pool`, the result is the same `loop` node with children `nodes`.
A body `begin ... end` differs: with a `;` before `end` its block gets one more child, a
`<null>` node.  The same holds of the texts, for every list of `n ≥ 1` assignments of
primaries and every primary `c`. -/
theorem C40_no_null_in_repeat_and_loop :
    (∀ (p q qc : Parser) (nodes : List ASTNode) (c : ASTNode),
      p.currentToken.type = TOK_REPEAT → StmtSeq TOK_UNTIL p.advance nodes q →
      (q.currentToken.type = TOK_UNTIL → ExprAt q.advance c qc →
        ∃ N, ∀ fuel, N ≤ fuel →
          parseStatement fuel p = some (some (ASTNode.mk "repeat" (nodes ++ [c]) ""), qc))
      ∧ (q.currentToken.type = TOK_SEMICOLON → q.advance.currentToken.type = TOK_UNTIL →
        ExprAt q.advance.advance c qc →
        ∃ N, ∀ fuel, N ≤ fuel →
          parseStatement fuel p = some (some (ASTNode.mk "repeat" (nodes ++ [c]) ""), qc))
      ∧ (ASTNode.mk "repeat" (nodes ++ [c]) "").children.length = nodes.length + 1)
    ∧ (∀ (p q : Parser) (nodes : List ASTNode),
      p.currentToken.type = TOK_LOOP → StmtSeq TOK_POOL p.advance nodes q →
      (q.currentToken.type = TOK_POOL →
        ∃ N, ∀ fuel, N ≤ fuel →
          parseStatement fuel p = some (some (ASTNode.mk "loop" nodes ""), q.advance))
      ∧ (q.currentToken.type = TOK_SEMICOLON → q.advance.currentToken.type = TOK_POOL →
        ∃ N, ∀ fuel, N ≤ fuel →
          parseStatement fuel p
            = some (some (ASTNode.mk "loop" nodes ""), q.advance.advance)))
    ∧ (∀ (p q : Parser) (nodes : List ASTNode),
      p.currentToken.type = TOK_BEGIN → p.advance.currentToken.type ≠ TOK_END →
      StmtSeq TOK_END p.advance nodes q → q.currentToken.type = TOK_SEMICOLON →
      q.advance.currentToken.type = TOK_END →
      ∃ N, ∀ fuel, N ≤ fuel →
        parseBody fuel p
          = some (some (ASTNode.mk "block" (nodes ++ [ASTNode.mk "<null>" [] ""]) ""),
              q.advance.advance))
    ∧ (∀ (L : List (List Char × List Char)) (c : List Char), L ≠ [] →
      (∀ xv ∈ L, isAssignment xv = true) → isPrimaryText c = true →
      (∃ N, ∀ fuel, N ≤ fuel →
        (parseStatement fuel (Parser.new ("repeat ".toList ++ assignsText L
            ++ "; until ".toList ++ c))).map (fun r => r.1)
          = some (some (ASTNode.mk "repeat" (L.map assignNode ++ [primaryNode c]) ""))
        ∧ (parseStatement fuel (Parser.new ("repeat ".toList ++ assignsText L
            ++ " until ".toList ++ c))).map (fun r => r.1)
          = some (some (ASTNode.mk "repeat" (L.map assignNode ++ [primaryNode c]) "")))
      ∧ (∃ N, ∀ fuel, N ≤ fuel →
        (parseStatement fuel (Parser.new ("loop ".toList ++ assignsText L
            ++ "; pool".toList))).map (fun r => r.1)
          = some (some (ASTNode.mk "loop" (L.map assignNode) ""))
        ∧ (parseStatement fuel (Parser.new ("loop ".toList ++ assignsText L
            ++ " pool".toList))).map (fun r => r.1)
          = some (some (ASTNode.mk "loop" (L.map assignNode) "")))) :=
  ⟨fun p q qc nodes c hr hs =>
      ⟨fun hq hc => parseStatement_repeat_at p q qc nodes c hr hs hq hc,
       fun hq hq2 hc => parseStatement_repeat_trailing p q qc nodes c hr hs hq hq2 hc,
       by simp [ASTNode.children]⟩,
   fun p q nodes hl hs =>
      ⟨fun hq => parseStatement_loop_at p q nodes hl hs hq,
       fun hq hq2 => parseStatement_loop_trailing p q nodes hl hs hq hq2⟩,
   fun _ _ _ hb h1 hs hq hq2 => parseBody_seq_trailing hb h1 hs hq hq2,
   fun L c hL hall hc => by
      obtain ⟨N1, h1⟩ := parseStatement_repeat_trailing_text L hL hall c hc
      obtain ⟨N2, h2⟩ := parseStatement_repeat_assignsText L hL hall c hc
      obtain ⟨⟨N3, h3⟩, ⟨N4, h4⟩⟩ := parseStatement_loop_text L hL hall
      exact ⟨⟨max N1 N2, fun fuel hf => ⟨h1 fuel (by omega), h2 fuel (by omega)⟩⟩,
        ⟨max N3 N4, fun fuel hf => ⟨h4 fuel (by omega), h3 fuel (by omega)⟩⟩⟩⟩

open Parser in
theorem C40_no_null_in_repeat_and_loop_witness :
    (∃ N, ∀ fuel, N ≤ fuel →
        parseStatement fuel (Parser.new "repeat x := 1; y := 2 until c".toList)
          = some (some (ASTNode.mk "repeat" ([ASTNode.mk "assign" [ASTNode.mk "<identifier>" [ASTNode.mk "x" [] ""] "",
            ASTNode.mk "<integer>" [ASTNode.mk "1" [] ""] ""] "",
            ASTNode.mk "assign" [ASTNode.mk "<identifier>" [ASTNode.mk "y" [] ""] "",
            ASTNode.mk "<integer>" [ASTNode.mk "2" [] ""] ""] ""] ++ [ASTNode.mk "<identifier>" [ASTNode.mk "c" [] ""] ""]) ""),
              (Parser.new "repeat x := 1; y := 2 until c".toList).advance.advance.advance.advance.advance.advance.advance.advance.advance.advance))
    ∧ (∃ N, ∀ fuel, N ≤ fuel →
        parseStatement fuel (Parser.new "repeat x := 1; y := 2; until c".toList)
          = some (some (ASTNode.mk "repeat" ([ASTNode.mk "assign" [ASTNode.mk "<identifier>" [ASTNode.mk "x" [] ""] "",
            ASTNode.mk "<integer>" [ASTNode.mk "1" [] ""] ""] "",
            ASTNode.mk "assign" [ASTNode.mk "<identifier>" [ASTNode.mk "y" [] ""] "",
            ASTNode.mk "<integer>" [ASTNode.mk "2" [] ""] ""] ""] ++ [ASTNode.mk "<identifier>" [ASTNode.mk "c" [] ""] ""]) ""),
              (Parser.new "repeat x := 1; y := 2; until c".toList).advance.advance.advance.advance.advance.advance.advance.advance.advance.advance.advance))
    ∧ (∃ N, ∀ fuel, N ≤ fuel →
        parseStatement fuel (Parser.new "loop x := 1; y := 2 pool".toList)
          = some (some (ASTNode.mk "loop" [ASTNode.mk "assign" [ASTNode.mk "<identifier>" [ASTNode.mk "x" [] ""] "",
            ASTNode.mk "<integer>" [ASTNode.mk "1" [] ""] ""] "",
            ASTNode.mk "assign" [ASTNode.mk "<identifier>" [ASTNode.mk "y" [] ""] "",
            ASTNode.mk "<integer>" [ASTNode.mk "2" [] ""] ""] ""] ""),
              (Parser.new "loop x := 1; y := 2 pool".toList).advance.advance.advance.advance.advance.advance.advance.advance.advance))
    ∧ (∃ N, ∀ fuel, N ≤ fuel →
        parseStatement fuel (Parser.new "loop x := 1; y := 2; pool".toList)
          = some (some (ASTNode.mk "loop" [ASTNode.mk "assign" [ASTNode.mk "<identifier>" [ASTNode.mk "x" [] ""] "",
            ASTNode.mk "<integer>" [ASTNode.mk "1" [] ""] ""] "",
            ASTNode.mk "assign" [ASTNode.mk "<identifier>" [ASTNode.mk "y" [] ""] "",
            ASTNode.mk "<integer>" [ASTNode.mk "2" [] ""] ""] ""] ""),
              (Parser.new "loop x := 1; y := 2; pool".toList).advance.advance.advance.advance.advance.advance.advance.advance.advance.advance))
    ∧ (∃ N, ∀ fuel, N ≤ fuel →
        parseBody fuel (Parser.new "begin x := 1; end".toList)
          = some (some (ASTNode.mk "block" ([ASTNode.mk "assign" [ASTNode.mk "<identifier>" [ASTNode.mk "x" [] ""] "",
            ASTNode.mk "<integer>" [ASTNode.mk "1" [] ""] ""] ""] ++ [ASTNode.mk "<null>" [] ""]) ""),
              (Parser.new "begin x := 1; end".toList).advance.advance.advance.advance.advance.advance))
    ∧ ((∃ N, ∀ fuel, N ≤ fuel →
        (parseStatement fuel (Parser.new ("repeat ".toList ++ assignsText [("x".toList, "1".toList), ("y".toList, "2".toList)]
            ++ "; until ".toList ++ "c".toList))).map (fun r => r.1)
          = some (some (ASTNode.mk "repeat" ([("x".toList, "1".toList), ("y".toList, "2".toList)].map assignNode ++ [primaryNode "c".toList]) ""))
        ∧ (parseStatement fuel (Parser.new ("repeat ".toList ++ assignsText [("x".toList, "1".toList), ("y".toList, "2".toList)]
            ++ " until ".toList ++ "c".toList))).map (fun r => r.1)
          = some (some (ASTNode.mk "repeat" ([("x".toList, "1".toList), ("y".toList, "2".toList)].map assignNode ++ [primaryNode "c".toList]) "")))
      ∧ (∃ N, ∀ fuel, N ≤ fuel →
        (parseStatement fuel (Parser.new ("loop ".toList ++ assignsText [("x".toList, "1".toList), ("y".toList, "2".toList)]
            ++ "; pool".toList))).map (fun r => r.1)
          = some (some (ASTNode.mk "loop" ([("x".toList, "1".toList), ("y".toList, "2".toList)].map assignNode) ""))
        ∧ (parseStatement fuel (Parser.new ("loop ".toList ++ assignsText [("x".toList, "1".toList), ("y".toList, "2".toList)]
            ++ " pool".toList))).map (fun r => r.1)
          = some (some (ASTNode.mk "loop" ([("x".toList, "1".toList), ("y".toList, "2".toList)].map assignNode) "")))) :=
  ⟨(C40_no_null_in_repeat_and_loop.1 (Parser.new "repeat x := 1; y := 2 until c".toList)
      (Parser.new "repeat x := 1; y := 2 until c".toList).advance.advance.advance.advance.advance.advance.advance.advance
      (Parser.new "repeat x := 1; y := 2 until c".toList).advance.advance.advance.advance.advance.advance.advance.advance.advance.advance _ _ (by decide)
      (StmtSeq.more (m := (Parser.new "repeat x := 1; y := 2 until c".toList).advance.advance.advance.advance) ⟨5, rfl⟩ (by decide) (by decide)
        (StmtSeq.one ⟨5, rfl⟩))).1 (by decide) ⟨4, rfl⟩,
   (C40_no_null_in_repeat_and_loop.1 (Parser.new "repeat x := 1; y := 2; until c".toList)
      (Parser.new "repeat x := 1; y := 2; until c".toList).advance.advance.advance.advance.advance.advance.advance.advance
      (Parser.new "repeat x := 1; y := 2; until c".toList).advance.advance.advance.advance.advance.advance.advance.advance.advance.advance.advance _ _ (by decide)
      (StmtSeq.more (m := (Parser.new "repeat x := 1; y := 2; until c".toList).advance.advance.advance.advance) ⟨5, rfl⟩ (by decide) (by decide)
        (StmtSeq.one ⟨5, rfl⟩))).2.1 (by decide) (by decide) ⟨4, rfl⟩,
   (C40_no_null_in_repeat_and_loop.2.1 (Parser.new "loop x := 1; y := 2 pool".toList)
      (Parser.new "loop x := 1; y := 2 pool".toList).advance.advance.advance.advance.advance.advance.advance.advance _ (by decide)
      (StmtSeq.more (m := (Parser.new "loop x := 1; y := 2 pool".toList).advance.advance.advance.advance) ⟨5, rfl⟩ (by decide) (by decide)
        (StmtSeq.one ⟨5, rfl⟩))).1 (by decide),
   (C40_no_null_in_repeat_and_loop.2.1 (Parser.new "loop x := 1; y := 2; pool".toList)
      (Parser.new "loop x := 1; y := 2; pool".toList).advance.advance.advance.advance.advance.advance.advance.advance _ (by decide)
      (StmtSeq.more (m := (Parser.new "loop x := 1; y := 2; pool".toList).advance.advance.advance.advance) ⟨5, rfl⟩ (by decide) (by decide)
        (StmtSeq.one ⟨5, rfl⟩))).2 (by decide) (by decide),
   C40_no_null_in_repeat_and_loop.2.2.1 (Parser.new "begin x := 1; end".toList)
      (Parser.new "begin x := 1; end".toList).advance.advance.advance.advance _ (by decide) (by decide)
      (StmtSeq.one ⟨5, rfl⟩) (by decide) (by decide),
   C40_no_null_in_repeat_and_loop.2.2.2 [("x".toList, "1".toList), ("y".toList, "2".toList)] "c".toList (by decide) (by decide) (by decide)⟩

open TokenType

/-! ## More fuel never changes a result: declarations, functions and the program -/

namespace Parser

theorem parseConstsLoop_mono_succ : ∀ (n : Nat) (node : ASTNode) (p : Parser)
    (r : ASTNode × Parser), parseConstsLoop n node p = some r →
    parseConstsLoop (n + 1) node p = some r := by
  intro n
  induction n with
  | zero => intro node p r h; simp [parseConstsLoop] at h
  | succ n ih =>
    intro node p r h
    rw [parseConstsLoop]
    simp only [parseConstsLoop] at h
    split at h
    · next hc => rw [if_pos hc]; exact ih _ _ _ h
    · next hc => rw [if_neg hc]; exact h

theorem parseConsts_mono_succ {n : Nat} {s : Parser} {r : Option ASTNode × Parser}
    (h : parseConsts n s = some r) : parseConsts (n + 1) s = some r := by
  simp only [parseConsts] at h ⊢
  by_cases c1 : s.matchTok TOK_CONST = true
  · rw [if_pos c1] at h ⊢
    split at h
    · cases h
    · next r1 hr1 =>
      rw [parseConstsLoop_mono_succ _ _ _ _ hr1]
      exact h
  · rw [if_neg c1] at h ⊢
    exact h

theorem parseLitListLoop_mono_succ : ∀ (n : Nat) (node : ASTNode) (p : Parser)
    (r : ASTNode × Parser), parseLitListLoop n node p = some r →
    parseLitListLoop (n + 1) node p = some r := by
  intro n
  induction n with
  | zero => intro node p r h; simp [parseLitListLoop] at h
  | succ n ih =>
    intro node p r h
    rw [parseLitListLoop]
    simp only [parseLitListLoop] at h
    split at h
    · next hc => rw [if_pos hc]; exact ih _ _ _ h
    · next hc => rw [if_neg hc]; exact h

theorem parseLitList_mono_succ {n : Nat} {s : Parser} {r : Option ASTNode × Parser}
    (h : parseLitList n s = some r) : parseLitList (n + 1) s = some r := by
  simp only [parseLitList] at h ⊢
  by_cases c1 : (!(s.consume TOK_LPAREN).1) = true
  · rw [if_pos c1] at h ⊢
    exact h
  · rw [if_neg c1] at h ⊢
    split at h
    · cases h
    · next r1 hr1 =>
      rw [parseLitListLoop_mono_succ _ _ _ _ hr1]
      exact h

theorem parseType_mono_succ {n : Nat} {s : Parser} {r : Option ASTNode × Parser}
    (h : parseType n s = some r) : parseType (n + 1) s = some r := by
  simp only [parseType] at h ⊢
  by_cases c1 : (!((parseName s).2.consume TOK_EQUAL).1) = true
  · rw [if_pos c1] at h ⊢
    exact h
  · rw [if_neg c1] at h ⊢
    split at h
    · cases h
    · next r1 hr1 =>
      rw [parseLitList_mono_succ hr1]
      exact h

theorem parseTypesLoop_mono_succ : ∀ (n : Nat) (node : ASTNode) (p : Parser)
    (r : ASTNode × Parser), parseTypesLoop n node p = some r →
    parseTypesLoop (n + 1) node p = some r := by
  intro n
  induction n with
  | zero => intro node p r h; simp [parseTypesLoop] at h
  | succ n ih =>
    intro node p r h
    rw [parseTypesLoop]
    simp only [parseTypesLoop] at h
    split at h
    · cases h
    · next r1 hr1 =>
      rw [parseType_mono_succ hr1]
      simp only
      split at h
      · next hc => rw [if_pos hc]; exact ih _ _ _ h
      · next hc => rw [if_neg hc]; exact h

theorem parseTypes_mono_succ {n : Nat} {s : Parser} {r : Option ASTNode × Parser}
    (h : parseTypes n s = some r) : parseTypes (n + 1) s = some r := by
  simp only [parseTypes] at h ⊢
  by_cases c1 : s.matchTok TOK_TYPE = true
  · rw [if_pos c1] at h ⊢
    split at h
    · cases h
    · next r1 hr1 =>
      rw [parseTypesLoop_mono_succ _ _ _ _ hr1]
      exact h
  · rw [if_neg c1] at h ⊢
    exact h

theorem parseDclnLoop_mono_succ : ∀ (n : Nat) (node : ASTNode) (p : Parser)
    (r : ASTNode × Parser), parseDclnLoop n node p = some r →
    parseDclnLoop (n + 1) node p = some r := by
  intro n
  induction n with
  | zero => intro node p r h; simp [parseDclnLoop] at h
  | succ n ih =>
    intro node p r h
    rw [parseDclnLoop]
    simp only [parseDclnLoop] at h
    split at h
    · next hc => rw [if_pos hc]; exact ih _ _ _ h
    · next hc => rw [if_neg hc]; exact h

theorem parseDcln_mono_succ {n : Nat} {s : Parser} {r : Option ASTNode × Parser}
    (h : parseDcln n s = some r) : parseDcln (n + 1) s = some r := by
  simp only [parseDcln] at h ⊢
  split at h
  · cases h
  · next r1 hr1 =>
    rw [parseDclnLoop_mono_succ _ _ _ _ hr1]
    exact h

theorem parseDclnsLoop_mono_succ : ∀ (n : Nat) (node : ASTNode) (p : Parser)
    (r : ASTNode × Parser), parseDclnsLoop n node p = some r →
    parseDclnsLoop (n + 1) node p = some r := by
  intro n
  induction n with
  | zero => intro node p r h; simp [parseDclnsLoop] at h
  | succ n ih =>
    intro node p r h
    rw [parseDclnsLoop]
    simp only [parseDclnsLoop] at h
    split at h
    · cases h
    · next r1 hr1 =>
      rw [parseDcln_mono_succ hr1]
      simp only
      split at h
      · next hc => rw [if_pos hc]; exact ih _ _ _ h
      · next hc => rw [if_neg hc]; exact h

theorem parseDclns_mono_succ {n : Nat} {s : Parser} {r : Option ASTNode × Parser}
    (h : parseDclns n s = some r) : parseDclns (n + 1) s = some r := by
  simp only [parseDclns] at h ⊢
  by_cases c1 : s.matchTok TOK_VAR = true
  · rw [if_pos c1] at h ⊢
    split at h
    · cases h
    · next r1 hr1 =>
      rw [parseDclnsLoop_mono_succ _ _ _ _ hr1]
      exact h
  · rw [if_neg c1] at h ⊢
    exact h

theorem parseParamsLoop_mono_succ : ∀ (n : Nat) (node : ASTNode) (p : Parser)
    (r : ASTNode × Parser), parseParamsLoop n node p = some r →
    parseParamsLoop (n + 1) node p = some r := by
  intro n
  induction n with
  | zero => intro node p r h; simp [parseParamsLoop] at h
  | succ n ih =>
    intro node p r h
    rw [parseParamsLoop]
    simp only [parseParamsLoop] at h
    split at h
    · cases h
    · next r1 hr1 =>
      rw [parseDcln_mono_succ hr1]
      simp only
      split at h
      · next hc => rw [if_pos hc]; exact ih _ _ _ h
      · next hc => rw [if_neg hc]; exact h

theorem parseParams_mono_succ {n : Nat} {s : Parser} {r : Option ASTNode × Parser}
    (h : parseParams n s = some r) : parseParams (n + 1) s = some r := by
  simp only [parseParams] at h ⊢
  by_cases c1 : (!s.matchTok TOK_RPAREN) = true
  · rw [if_pos c1] at h ⊢
    split at h
    · cases h
    · next r1 hr1 =>
      rw [parseParamsLoop_mono_succ _ _ _ _ hr1]
      exact h
  · rw [if_neg c1] at h ⊢
    exact h

theorem parseFcn_mono_succ {n : Nat} {s : Parser} {r : Option ASTNode × Parser}
    (h : parseFcn n s = some r) : parseFcn (n + 1) s = some r := by
  simp only [parseFcn] at h ⊢
  split at h
  · cases h
  · next r2 hr2 =>
    rw [parseParams_mono_succ hr2]
    simp only
    split at h
    · cases h
    · next r4 hr4 =>
      rw [parseConsts_mono_succ hr4]
      simp only
      split at h
      · cases h
      · next r5 hr5 =>
        rw [parseTypes_mono_succ hr5]
        simp only
        split at h
        · cases h
        · next r6 hr6 =>
          rw [parseDclns_mono_succ hr6]
          simp only
          split at h
          · cases h
          · next r7 hr7 =>
            rw [parseBody_mono hr7 (Nat.le_succ n)]
            exact h

theorem parseSubProgsLoop_mono_succ : ∀ (n : Nat) (node : ASTNode) (p : Parser)
    (r : ASTNode × Parser), parseSubProgsLoop n node p = some r →
    parseSubProgsLoop (n + 1) node p = some r := by
  intro n
  induction n with
  | zero => intro node p r h; simp [parseSubProgsLoop] at h
  | succ n ih =>
    intro node p r h
    rw [parseSubProgsLoop]
    simp only [parseSubProgsLoop] at h
    by_cases c1 : p.matchTok TOK_FUNCTION = true
    · rw [if_pos c1] at h ⊢
      split at h
      · cases h
      · next r1 hr1 =>
        rw [parseFcn_mono_succ hr1]
        exact ih _ _ _ h
    · rw [if_neg c1] at h ⊢
      exact h

theorem parseSubProgs_mono_succ {n : Nat} {s : Parser} {r : Option ASTNode × Parser}
    (h : parseSubProgs n s = some r) : parseSubProgs (n + 1) s = some r := by
  simp only [parseSubProgs] at h ⊢
  split at h
  · cases h
  · next r1 hr1 =>
    rw [parseSubProgsLoop_mono_succ _ _ _ _ hr1]
    exact h

theorem parseProgram_mono_succ {n : Nat} {s : Parser} {r : Option ASTNode × Parser}
    (h : parseProgram n s = some r) : parseProgram (n + 1) s = some r := by
  simp only [parseProgram] at h ⊢
  by_cases c1 : (!(s.consume TOK_PROGRAM).1) = true
  · rw [if_pos c1] at h ⊢
    exact h
  rw [if_neg c1] at h ⊢
  by_cases c2 : (!((parseName (s.consume TOK_PROGRAM).2).2.consume TOK_COLON).1) = true
  · rw [if_pos c2] at h ⊢
    exact h
  rw [if_neg c2] at h ⊢
  split at h
  · cases h
  · next r2 hr2 =>
    rw [parseConsts_mono_succ hr2]
    simp only
    split at h
    · cases h
    · next r3 hr3 =>
      rw [parseTypes_mono_succ hr3]
      simp only
      split at h
      · cases h
      · next r4 hr4 =>
        rw [parseDclns_mono_succ hr4]
        simp only
        split at h
        · cases h
        · next r5 hr5 =>
          rw [parseSubProgs_mono_succ hr5]
          simp only
          split at h
          · cases h
          · next r6 hr6 =>
            rw [parseBody_mono hr6 (Nat.le_succ n)]
            exact h

theorem parseOutExp_mono {n m : Nat} {s : Parser} {r : Option ASTNode × Parser}
    (h : parseOutExp n s = some r) (hnm : n ≤ m) : parseOutExp m s = some r := by
  induction hnm with
  | refl => exact h
  | step _ ih => exact parseOutExp_mono_succ ih

theorem parseConsts_mono {n m : Nat} {s : Parser} {r : Option ASTNode × Parser}
    (h : parseConsts n s = some r) (hnm : n ≤ m) : parseConsts m s = some r := by
  induction hnm with
  | refl => exact h
  | step _ ih => exact parseConsts_mono_succ ih

theorem parseTypes_mono {n m : Nat} {s : Parser} {r : Option ASTNode × Parser}
    (h : parseTypes n s = some r) (hnm : n ≤ m) : parseTypes m s = some r := by
  induction hnm with
  | refl => exact h
  | step _ ih => exact parseTypes_mono_succ ih

theorem parseDcln_mono {n m : Nat} {s : Parser} {r : Option ASTNode × Parser}
    (h : parseDcln n s = some r) (hnm : n ≤ m) : parseDcln m s = some r := by
  induction hnm with
  | refl => exact h
  | step _ ih => exact parseDcln_mono_succ ih

theorem parseDclns_mono {n m : Nat} {s : Parser} {r : Option ASTNode × Parser}
    (h : parseDclns n s = some r) (hnm : n ≤ m) : parseDclns m s = some r := by
  induction hnm with
  | refl => exact h
  | step _ ih => exact parseDclns_mono_succ ih

theorem parseParams_mono {n m : Nat} {s : Parser} {r : Option ASTNode × Parser}
    (h : parseParams n s = some r) (hnm : n ≤ m) : parseParams m s = some r := by
  induction hnm with
  | refl => exact h
  | step _ ih => exact parseParams_mono_succ ih

theorem parseFcn_mono {n m : Nat} {s : Parser} {r : Option ASTNode × Parser}
    (h : parseFcn n s = some r) (hnm : n ≤ m) : parseFcn m s = some r := by
  induction hnm with
  | refl => exact h
  | step _ ih => exact parseFcn_mono_succ ih

theorem parseSubProgs_mono {n m : Nat} {s : Parser} {r : Option ASTNode × Parser}
    (h : parseSubProgs n s = some r) (hnm : n ≤ m) : parseSubProgs m s = some r := by
  induction hnm with
  | refl => exact h
  | step _ ih => exact parseSubProgs_mono_succ ih

theorem parseProgram_mono {n m : Nat} {s : Parser} {r : Option ASTNode × Parser}
    (h : parseProgram n s = some r) (hnm : n ≤ m) : parseProgram m s = some r := by
  induction hnm with
  | refl => exact h
  | step _ ih => exact parseProgram_mono_succ ih

end Parser

open TokenType

/-! ## Lists separated by commas, as text -/

namespace Parser

theorem lexTo_comma {r : List Char} : LexTo (',' :: ' ' :: r) TOK_COMMA "," (' ' :: r) :=
  LexTo.single (c := ',') (r := ' ' :: r) (show Lexer.isSingleCharToken ',' ' ' = true by decide)

/-- A list `x1, x2, ..., xn` of one-token items read from its text: the list of their nodes and
the state at the token that follows the last item. -/
theorem sepSeq_commaText (item : Parser → ASTNode → Parser → Prop) (ok : List Char → Bool)
    (tyOf : List Char → TokenType) (f : List Char → ASTNode)
    (hlex : ∀ x r, ok x = true → Lexer.identifierEnd r = true →
      LexTo (x ++ r) (tyOf x) (String.mk x) r)
    (hitem : ∀ (s : Parser) (x cs : List Char), ok x = true →
      s.At (tyOf x) (String.mk x) cs → endsExpression s.advance.currentToken.type = true →
      item s (f x) s.advance)
    {r r1 : List Char} {ty : TokenType} {val : String}
    (hr : Lexer.identifierEnd r = true) (hl : LexTo r ty val r1)
    (hty : endsExpression ty = true) (hne : ty ≠ TOK_COMMA) :
    ∀ L : List (List Char), L ≠ [] → (∀ x ∈ L, ok x = true) →
      ∀ p : Parser, p.lexer.rest = commaText L ++ r →
        (∀ x, L.head? = some x → p.advance.currentToken.type = tyOf x)
        ∧ ∃ q, SepSeq item TOK_COMMA p.advance (L.map f) q ∧ q.At ty val r1 := by
  intro L
  induction L with
  | nil => intro h; exact absurd rfl h
  | cons x rest ih =>
    intro _ hall p hp
    have hx := hall x (List.mem_cons_self _ _)
    cases rest with
    | nil =>
      have hin : commaText [x] ++ r = x ++ r := by simp [commaText]
      rw [hin] at hp
      have k0 := hlex x r hx hr p hp
      have k1 := k0.advance hl
      refine ⟨fun y hy => ?_, _, SepSeq.one (hitem _ x r hx k0 (by rw [k1.1]; exact hty))
        (by rw [k1.1]; exact hne), k1⟩
      cases hy
      exact k0.1
    | cons y rest2 =>
      have hin : commaText (x :: y :: rest2) ++ r
          = x ++ (',' :: ' ' :: (commaText (y :: rest2) ++ r)) := by
        simp [commaText]
      rw [hin] at hp
      have k0 := hlex x (',' :: ' ' :: (commaText (y :: rest2) ++ r)) hx rfl p hp
      have k1 := k0.advance lexTo_comma
      obtain ⟨p1, hp1, hadv⟩ := advance_skip_space k1.2.2 (by decide)
      obtain ⟨_, q, hq, hat⟩ := ih (List.cons_ne_nil _ _)
        (fun z hz => hall z (List.mem_cons_of_mem _ hz)) p1 hp1
      rw [← hadv] at hq
      refine ⟨fun z hz => ?_, q, SepSeq.more (hitem _ x _ hx k0 (by rw [k1.1]; rfl)) k1.1 hq,
        hat⟩
      cases hz
      exact k0.1

/-- The kind of the token of a primary: an integer literal or an identifier. -/
theorem lexTo_primary_kind (x r : List Char) (hx : isPrimaryText x = true)
    (hr : Lexer.identifierEnd r = true) :
    LexTo (x ++ r) (if Lexer.isNumberText x = true then TOK_INTEGER else TOK_IDENTIFIER)
      (String.mk x) r :=
  LexTo.primary_end hx hr

/-- A name is lexed as an identifier token. -/
theorem lexTo_name (x r : List Char) (hx : isNameText x = true)
    (hr : Lexer.identifierEnd r = true) : LexTo (x ++ r) TOK_IDENTIFIER (String.mk x) r := by
  simp only [isNameText, Bool.and_eq_true, Option.isNone_iff_eq_none] at hx
  have := LexTo.identifier (r := r) hx.1 hr
  rwa [keywordType_of_lookup_none hx.2] at this

/-- At an identifier token `parseName` returns the wrapper of its text. -/
theorem nameAt_identifier {s : Parser} (h : s.currentToken.type = TOK_IDENTIFIER) :
    NameAt s (createIdentifierNode s.currentToken.value) s.advance := by
  simp [NameAt, parseName, matchTok, h]

end Parser

open TokenType

/-! ## The output statement -/

namespace Parser

/-- An argument of `output` that starts with a string literal: a `string` node over the
`<string>` wrapper of the literal; only the literal is consumed. -/
theorem parseOutExp_string (fuel : Nat) (p : Parser) (h : p.currentToken.type = TOK_STRING) :
    parseOutExp fuel p
      = some (some (ASTNode.mk "string" [createStringNode p.currentToken.value] ""),
          p.advance) := by
  simp [parseOutExp, matchTok, h, ASTNode.new, ASTNode.addChild, ASTNode.nodeType,
    ASTNode.children, ASTNode.value]

/-- Any other argument of `output`: an `integer` node over the tree of the expression, with no
child when the expression parser returns no tree. -/
theorem parseOutExp_expression (fuel : Nat) (p : Parser) (r : Option ASTNode × Parser)
    (h : p.currentToken.type ≠ TOK_STRING) (he : parseExpression fuel p = some r) :
    parseOutExp fuel p = some (some (ASTNode.mk "integer" r.1.toList ""), r.2) := by
  obtain ⟨x, q⟩ := r
  cases x <;> simp [parseOutExp, matchTok, h, he, ASTNode.new, ASTNode.addChild,
    ASTNode.nodeType, ASTNode.children, ASTNode.value]

/-- Every result of `parseOutExp` is a node: `string` over one child exactly when the argument
starts with a string literal, `integer` over the tree of the expression otherwise. -/
theorem parseOutExp_result (fuel : Nat) (p : Parser) (r : Option ASTNode × Parser)
    (h : parseOutExp fuel p = some r) :
    ∃ node, r.1 = some node ∧ isOutArg node = true
      ∧ (node.nodeType = "string" ↔ p.currentToken.type = TOK_STRING)
      ∧ (node.nodeType = "integer" ↔ p.currentToken.type ≠ TOK_STRING)
      ∧ (p.currentToken.type = TOK_STRING →
          node.children = [createStringNode p.currentToken.value])
      ∧ (p.currentToken.type ≠ TOK_STRING →
          ∃ e, parseExpression fuel p = some (e, r.2) ∧ node.children = e.toList) := by
  by_cases c : p.currentToken.type = TOK_STRING
  · rw [parseOutExp_string fuel p c] at h
    cases h
    exact ⟨_, rfl, rfl, by simp [c, ASTNode.nodeType], by simp [c, ASTNode.nodeType],
      fun _ => rfl, fun hn => absurd c hn⟩
  · cases he : parseExpression fuel p with
    | none => simp [parseOutExp, matchTok, c, he] at h
    | some re =>
      rw [parseOutExp_expression fuel p re c he] at h
      cases h
      obtain ⟨e, q⟩ := re
      refine ⟨_, rfl, ?_, by simp [c, ASTNode.nodeType], by simp [c, ASTNode.nodeType],
        fun hs => absurd hs c, fun _ => ⟨e, rfl, rfl⟩⟩
      cases e <;> rfl

/-- The loop of the output statement only adds nodes of arguments. -/
theorem parseOutputLoop_children : ∀ (fuel : Nat) (node : ASTNode) (p : Parser)
    (r : ASTNode × Parser), parseOutputLoop fuel node p = some r →
    r.1.nodeType = node.nodeType ∧ r.1.value = node.value
      ∧ ∃ added, r.1.children = node.children ++ added ∧ added ≠ []
        ∧ ∀ c ∈ added, isOutArg c = true := by
  intro fuel
  induction fuel with
  | zero => intro node p r h; simp [parseOutputLoop] at h
  | succ n ih =>
    intro node p r h
    rw [parseOutputLoop] at h
    split at h
    · cases h
    · next r1 hr1 =>
      obtain ⟨arg, ha, hok, _⟩ := parseOutExp_result n p r1 hr1
      simp only [ha] at h
      split at h
      · obtain ⟨h1, h2, added, h3, _, h4⟩ := ih _ _ _ h
        refine ⟨h1, h2, arg :: added, ?_, List.cons_ne_nil _ _, ?_⟩
        · rw [h3]; simp [addChild_some_eq, ASTNode.children]
        · intro c hc
          rcases List.mem_cons.1 hc with rfl | hc
          · exact hok
          · exact h4 c hc
      · cases h
        exact ⟨rfl, rfl, [arg], rfl, List.cons_ne_nil _ _,
          fun c hc => by rw [List.mem_singleton.1 hc]; exact hok⟩

/-- The statement `output ( ... )` around its argument loop. -/
theorem parseStatement_output (k : Nat) (p : Parser) (r : ASTNode × Parser)
    (ho : p.currentToken.type = TOK_OUTPUT)
    (h : parseOutputLoop k (ASTNode.new "output") (p.advance.consume TOK_LPAREN).2 = some r) :
    parseStatement (k + 1) p = some (some r.1, (r.2.consume TOK_RPAREN).2) := by
  rw [parseStatement]
  simp [matchTok, ho, h]

/-- Every node that `parseStatement` returns at the keyword `output` is labeled `output`, and
each of its children, at least one, is the node of an argument: `string` over one child, or
`integer` over at most one child. -/
theorem parseStatement_output_children (fuel : Nat) (p : Parser) (r : Option ASTNode × Parser)
    (ho : p.currentToken.type = TOK_OUTPUT) (h : parseStatement fuel p = some r) :
    ∃ node, r.1 = some node ∧ node.nodeType = "output" ∧ node.children ≠ []
      ∧ ∀ c ∈ node.children, isOutArg c = true := by
  cases fuel with
  | zero => simp [parseStatement] at h
  | succ k =>
    cases hl : parseOutputLoop k (ASTNode.new "output") (p.advance.consume TOK_LPAREN).2 with
    | none =>
      rw [parseStatement] at h
      simp [matchTok, ho, hl] at h
    | some rl =>
      rw [parseStatement_output k p rl ho hl] at h
      cases h
      obtain ⟨h1, _, added, h3, h4, h5⟩ := parseOutputLoop_children k _ _ _ hl
      refine ⟨_, rfl, h1, ?_, ?_⟩
      · rw [h3]; simpa [ASTNode.new, ASTNode.children] using h4
      · intro c hc
        rw [h3] at hc
        exact h5 c (by simpa [ASTNode.new, ASTNode.children] using hc)

/-- One iteration of the argument loop that ends the loop: no `,` after the argument. -/
theorem parseOutputLoop_last (k : Nat) (out node : ASTNode) (p q : Parser)
    (hs : parseOutExp k p = some (some node, q)) (hq : q.currentToken.type ≠ TOK_COMMA) :
    parseOutputLoop (k + 1) out p = some (out.addChild (some node), q) := by
  rw [parseOutputLoop]
  simp [hs, consume_of_ne hq]

/-- One iteration of the argument loop that goes on: a `,` after the argument. -/
theorem parseOutputLoop_next (k : Nat) (out node : ASTNode) (p q : Parser)
    (hs : parseOutExp k p = some (some node, q)) (hq : q.currentToken.type = TOK_COMMA) :
    parseOutputLoop (k + 1) out p = parseOutputLoop k (out.addChild (some node)) q.advance := by
  rw [parseOutputLoop]
  simp [hs, consume_of_type hq]

/-- The argument loop on a list of arguments: their nodes are appended in order. -/
theorem parseOutputLoop_seq {p q : Parser} {nodes : List ASTNode}
    (hs : SepSeq OutExpAt TOK_COMMA p nodes q) :
    ∀ out : ASTNode, ∃ N, ∀ fuel, N ≤ fuel → parseOutputLoop fuel out p
      = some (ASTNode.mk out.nodeType (out.children ++ nodes) out.value, q) := by
  induction hs with
  | @one p q node h1 hq =>
    intro out
    obtain ⟨f0, hf0⟩ := h1
    refine ⟨f0 + 1, fun fuel hf => ?_⟩
    obtain ⟨k, rfl⟩ : ∃ k, fuel = k + 1 := ⟨fuel - 1, by omega⟩
    rw [parseOutputLoop_last k out node p q (parseOutExp_mono hf0 (by omega)) hq]
    rfl
  | @more p m q node nodes h1 hm _ ih =>
    intro out
    obtain ⟨f0, hf0⟩ := h1
    obtain ⟨N, hN⟩ := ih (out.addChild (some node))
    refine ⟨max f0 N + 1, fun fuel hf => ?_⟩
    obtain ⟨k, rfl⟩ : ∃ k, fuel = k + 1 := ⟨fuel - 1, by omega⟩
    rw [parseOutputLoop_next k out node p m (parseOutExp_mono hf0 (by omega)) hm,
      hN k (by omega)]
    simp [addChild_some_eq, ASTNode.nodeType, ASTNode.children, ASTNode.value]

/-- The statement `output(a1, ..., an)`: one child per argument, in order. -/
theorem parseStatement_output_at (p q : Parser) (nodes : List ASTNode)
    (ho : p.currentToken.type = TOK_OUTPUT) (hl : p.advance.currentToken.type = TOK_LPAREN)
    (hs : SepSeq OutExpAt TOK_COMMA p.advance.advance nodes q)
    (hq : q.currentToken.type = TOK_RPAREN) :
    ∃ N, ∀ fuel, N ≤ fuel →
      parseStatement fuel p = some (some (ASTNode.mk "output" nodes ""), q.advance) := by
  obtain ⟨N, hN⟩ := parseOutputLoop_seq hs (ASTNode.new "output")
  refine ⟨N + 1, fun fuel hf => ?_⟩
  obtain ⟨k, rfl⟩ : ∃ k, fuel = k + 1 := ⟨fuel - 1, by omega⟩
  rw [parseStatement_output k p _ ho
    (by simp only [consume_of_type hl]; exact hN k (by omega))]
  simp [consume_of_type hq, ASTNode.new, ASTNode.nodeType, ASTNode.children, ASTNode.value]

/-- An argument that starts with a string literal, as an item of the argument list. -/
theorem outExpAt_string {p : Parser} (h : p.currentToken.type = TOK_STRING) :
    OutExpAt p (ASTNode.mk "string" [createStringNode p.currentToken.value] "") p.advance :=
  ⟨0, parseOutExp_string 0 p h⟩

/-- An argument that is an expression, as an item of the argument list. -/
theorem outExpAt_expression {p q : Parser} {e : ASTNode}
    (h : p.currentToken.type ≠ TOK_STRING) (he : ExprAt p e q) :
    OutExpAt p (ASTNode.mk "integer" [e] "") q := by
  obtain ⟨f, hf⟩ := he
  exact ⟨f, parseOutExp_expression f p _ h hf⟩

/-- The text `output(v1, ..., vn)` for primaries `v1`, ..., `vn`. -/
theorem parseStatement_output_text (L : List (List Char)) (hL : L ≠ [])
    (hall : ∀ v ∈ L, isPrimaryText v = true) :
    ∃ N, ∀ fuel, N ≤ fuel →
      (parseStatement fuel (Parser.new ("output(".toList ++ commaText L ++ ")".toList))).map
          (fun r => r.1)
        = some (some (ASTNode.mk "output"
            (L.map (fun v => ASTNode.mk "integer" [primaryNode v] "")) "")) := by
  have hin : "output(".toList ++ commaText L ++ ")".toList
      = "output".toList ++ '(' :: (commaText L ++ ')' :: []) := by simp
  rw [hin]
  have b0 := new_at (LexTo.identifier (p := "output".toList)
    (r := '(' :: (commaText L ++ ')' :: [])) (by decide) rfl)
  generalize Parser.new _ = p at b0 ⊢
  have b1 := b0.advance (LexTo.lparen (r := commaText L ++ ')' :: []))
  obtain ⟨_, q, hs, hq⟩ := sepSeq_commaText OutExpAt isPrimaryText _
    (fun v => ASTNode.mk "integer" [primaryNode v] "") lexTo_primary_kind
    (fun s x cs hx hat hends => by
      have hne : s.currentToken.type ≠ TOK_STRING := by
        rw [hat.1]; split <;> decide
      have hnl : s.advance.currentToken.type ≠ TOK_LPAREN := (endsExpression_iff hends).2.2.2
      refine outExpAt_expression hne ⟨4, ?_⟩
      rw [parseExpression_of_primary 0 _ _ _ (parsePrimary_operand 0 _ hat.operand.1 hnl)
        hends, hat.operand.2])
    (r := ')' :: []) rfl (LexTo.rparen (r := [])) (by decide) (by decide) L hL hall p.advance
    b1.2.2
  obtain ⟨N, hN⟩ := parseStatement_output_at p q _ b0.1 b1.1 hs hq.1
  exact ⟨N, fun fuel hf => by rw [hN fuel hf]; rfl⟩

end Parser

open Parser in
/-- Claim C31, counterexample: `output()` has no argument; the argument loop still runs once,
the expression parser returns no tree at `)`, and the `output` node gets an `integer` child
that has no child at all. -/
theorem C31_output_without_argument :
    (parseStatement 6 (Parser.new "output()".toList)).map (fun r => r.1)
        = some (some (ASTNode.mk "output" [ASTNode.mk "integer" [] ""] ""))
    ∧ (ASTNode.mk "integer" [] "").children.length = 0 := by
  constructor <;> rfl

open Parser in
/-- Claim C31, amended: the output statement.  Every node `parseStatement` returns at the
keyword `output` is labeled `output`, has at least one child, and each child is the node of an
argument: labeled `string` with exactly one child, or labeled `integer` with at most one child.
An argument that starts with a string-literal token gives `string` over the `<string>` wrapper
of the literal; any other argument gives `integer` over the tree of the parsed expression, with
exactly one child when the expression parser returns a tree and none when it returns nothing.
For a list of arguments separated by `,` between `(` and `)`, the `output` node has their nodes
as children, in order; so `output(v1, ..., vn)` for primaries gives `n` children `integer`,
each over one wrapper, and `output("hi", x + 1)` gives `output` with the two children `string`
(one child) and `integer` (one child). -/
theorem C31_output_arguments :
    (∀ (fuel : Nat) (p : Parser) (r : Option ASTNode × Parser),
      p.currentToken.type = TOK_OUTPUT → parseStatement fuel p = some r →
      ∃ node, r.1 = some node ∧ node.nodeType = "output" ∧ node.children ≠ []
        ∧ ∀ c ∈ node.children, isOutArg c = true)
    ∧ (∀ (fuel : Nat) (p : Parser) (r : Option ASTNode × Parser),
      parseOutExp fuel p = some r →
      ∃ node, r.1 = some node ∧ isOutArg node = true
        ∧ (node.nodeType = "string" ↔ p.currentToken.type = TOK_STRING)
        ∧ (node.nodeType = "integer" ↔ p.currentToken.type ≠ TOK_STRING)
        ∧ (p.currentToken.type = TOK_STRING →
            node.children = [createStringNode p.currentToken.value])
        ∧ (p.currentToken.type ≠ TOK_STRING →
            ∃ e, parseExpression fuel p = some (e, r.2) ∧ node.children = e.toList))
    ∧ (∀ (p : Parser), p.currentToken.type = TOK_STRING →
      OutExpAt p (ASTNode.mk "string" [createStringNode p.currentToken.value] "") p.advance)
    ∧ (∀ (p q : Parser) (e : ASTNode), p.currentToken.type ≠ TOK_STRING → ExprAt p e q →
      OutExpAt p (ASTNode.mk "integer" [e] "") q)
    ∧ (∀ (p q : Parser) (nodes : List ASTNode), p.currentToken.type = TOK_OUTPUT →
      p.advance.currentToken.type = TOK_LPAREN →
      SepSeq OutExpAt TOK_COMMA p.advance.advance nodes q → q.currentToken.type = TOK_RPAREN →
      ∃ N, ∀ fuel, N ≤ fuel →
        parseStatement fuel p = some (some (ASTNode.mk "output" nodes ""), q.advance))
    ∧ (∀ (L : List (List Char)), L ≠ [] → (∀ v ∈ L, isPrimaryText v = true) →
      ∃ N, ∀ fuel, N ≤ fuel →
        (parseStatement fuel (Parser.new ("output(".toList ++ commaText L ++ ")".toList))).map
            (fun r => r.1)
          = some (some (ASTNode.mk "output"
              (L.map (fun v => ASTNode.mk "integer" [primaryNode v] "")) "")))
    ∧ (parseStatement 8 (Parser.new "output(\"hi\", x + 1)".toList)).map (fun r => r.1)
        = some (some (ASTNode.mk "output" [ASTNode.mk "string" [ASTNode.mk "<string>" [ASTNode.mk "\"hi\"" [] ""] ""] "",
          ASTNode.mk "integer" [ASTNode.mk "+" [ASTNode.mk "<identifier>" [ASTNode.mk "x" [] ""] "",
            ASTNode.mk "<integer>" [ASTNode.mk "1" [] ""] ""] ""] ""] "")) :=
  ⟨fun fuel p r ho h => parseStatement_output_children fuel p r ho h,
   fun fuel p r h => parseOutExp_result fuel p r h,
   fun _ h => outExpAt_string h,
   fun _ _ _ h he => outExpAt_expression h he,
   fun p q nodes ho hl hs hq => parseStatement_output_at p q nodes ho hl hs hq,
   fun L hL hall => parseStatement_output_text L hL hall,
   by rfl⟩

open Parser in
theorem C31_output_arguments_witness :
    (∃ node, (some (ASTNode.mk "output" [ASTNode.mk "string" [ASTNode.mk "<string>" [ASTNode.mk "\"hi\"" [] ""] ""] "",
          ASTNode.mk "integer" [ASTNode.mk "+" [ASTNode.mk "<identifier>" [ASTNode.mk "x" [] ""] "",
            ASTNode.mk "<integer>" [ASTNode.mk "1" [] ""] ""] ""] ""] "") : Option ASTNode) = some node
        ∧ node.nodeType = "output" ∧ node.children ≠ []
        ∧ ∀ c ∈ node.children, isOutArg c = true)
    ∧ (∃ node, (some (ASTNode.mk "integer" [] "") : Option ASTNode) = some node
        ∧ isOutArg node = true
        ∧ (node.nodeType = "string"
            ↔ (Parser.new "output()".toList).advance.advance.currentToken.type = TOK_STRING)
        ∧ (node.nodeType = "integer"
            ↔ (Parser.new "output()".toList).advance.advance.currentToken.type ≠ TOK_STRING)
        ∧ ((Parser.new "output()".toList).advance.advance.currentToken.type = TOK_STRING →
            node.children = [createStringNode
              (Parser.new "output()".toList).advance.advance.currentToken.value])
        ∧ ((Parser.new "output()".toList).advance.advance.currentToken.type ≠ TOK_STRING →
            ∃ e, parseExpression 4 (Parser.new "output()".toList).advance.advance
                = some (e, (Parser.new "output()".toList).advance.advance)
              ∧ node.children = e.toList))
    ∧ OutExpAt (Parser.new "output(\"hi\", x + 1)".toList).advance.advance
        (ASTNode.mk "string" [createStringNode (Parser.new "output(\"hi\", x + 1)".toList).advance.advance.currentToken.value] "")
        (Parser.new "output(\"hi\", x + 1)".toList).advance.advance.advance
    ∧ OutExpAt (Parser.new "output(\"hi\", x + 1)".toList).advance.advance.advance.advance
        (ASTNode.mk "integer" [ASTNode.mk "+" [ASTNode.mk "<identifier>" [ASTNode.mk "x" [] ""] "",
            ASTNode.mk "<integer>" [ASTNode.mk "1" [] ""] ""] ""] "")
        (Parser.new "output(\"hi\", x + 1)".toList).advance.advance.advance.advance.advance.advance.advance
    ∧ (∃ N, ∀ fuel, N ≤ fuel →
        parseStatement fuel (Parser.new "output(\"hi\", x + 1)".toList)
          = some (some (ASTNode.mk "output" [ASTNode.mk "string" [ASTNode.mk "<string>" [ASTNode.mk "\"hi\"" [] ""] ""] "",
          ASTNode.mk "integer" [ASTNode.mk "+" [ASTNode.mk "<identifier>" [ASTNode.mk "x" [] ""] "",
            ASTNode.mk "<integer>" [ASTNode.mk "1" [] ""] ""] ""] ""] ""),
              (Parser.new "output(\"hi\", x + 1)".toList).advance.advance.advance.advance.advance.advance.advance.advance))
    ∧ (∃ N, ∀ fuel, N ≤ fuel →
        (parseStatement fuel (Parser.new ("output(".toList
            ++ commaText ["x".toList, "1".toList] ++ ")".toList))).map (fun r => r.1)
          = some (some (ASTNode.mk "output"
              (["x".toList, "1".toList].map
                (fun v => ASTNode.mk "integer" [primaryNode v] "")) ""))) :=
  ⟨C31_output_arguments.1 8 (Parser.new "output(\"hi\", x + 1)".toList)
      (some (ASTNode.mk "output" [ASTNode.mk "string" [ASTNode.mk "<string>" [ASTNode.mk "\"hi\"" [] ""] ""] "",
          ASTNode.mk "integer" [ASTNode.mk "+" [ASTNode.mk "<identifier>" [ASTNode.mk "x" [] ""] "",
            ASTNode.mk "<integer>" [ASTNode.mk "1" [] ""] ""] ""] ""] ""),
        (Parser.new "output(\"hi\", x + 1)".toList).advance.advance.advance.advance.advance.advance.advance.advance) (by decide) rfl,
   C31_output_arguments.2.1 4 (Parser.new "output()".toList).advance.advance
      (some (ASTNode.mk "integer" [] ""), (Parser.new "output()".toList).advance.advance) rfl,
   C31_output_arguments.2.2.1 (Parser.new "output(\"hi\", x + 1)".toList).advance.advance (by decide),
   C31_output_arguments.2.2.2.1 (Parser.new "output(\"hi\", x + 1)".toList).advance.advance.advance.advance
      (Parser.new "output(\"hi\", x + 1)".toList).advance.advance.advance.advance.advance.advance.advance _ (by decide) ⟨5, rfl⟩,
   C31_output_arguments.2.2.2.2.1 (Parser.new "output(\"hi\", x + 1)".toList)
      (Parser.new "output(\"hi\", x + 1)".toList).advance.advance.advance.advance.advance.advance.advance _ (by decide) (by decide)
      (SepSeq.more (m := (Parser.new "output(\"hi\", x + 1)".toList).advance.advance.advance) ⟨0, rfl⟩ (by decide)
        (SepSeq.one ⟨5, rfl⟩ (by decide))) (by decide),
   C31_output_arguments.2.2.2.2.2.1 ["x".toList, "1".toList] (by decide) (by decide)⟩

open TokenType

/-! ## Calls, identifiers and parenthesized expressions -/

namespace Parser

theorem parsePrimary_mono {n m : Nat} {s : Parser} {r : Option ASTNode × Parser}
    (h : parsePrimary n s = some r) (hnm : n ≤ m) : parsePrimary m s = some r := by
  induction hnm with
  | refl => exact h
  | step _ ih => exact (expr_mono_succ _).2.2.2.2.2.2.1 _ _ ih

/-- One iteration of the argument loop of a call that ends the loop: no `,` after the
argument. -/
theorem parseCallArgsLoop_last (k : Nat) (call node : ASTNode) (p q : Parser)
    (hs : parseExpression k p = some (some node, q)) (hq : q.currentToken.type ≠ TOK_COMMA) :
    parseCallArgsLoop (k + 1) call p = some (call.addChild (some node), q) := by
  rw [parseCallArgsLoop]
  simp [hs, consume_of_ne hq]

/-- One iteration of the argument loop of a call that goes on: a `,` after the argument. -/
theorem parseCallArgsLoop_next (k : Nat) (call node : ASTNode) (p q : Parser)
    (hs : parseExpression k p = some (some node, q)) (hq : q.currentToken.type = TOK_COMMA) :
    parseCallArgsLoop (k + 1) call p
      = parseCallArgsLoop k (call.addChild (some node)) q.advance := by
  rw [parseCallArgsLoop]
  simp [hs, consume_of_type hq]

/-- The argument loop of a call on a list of arguments: their trees are appended in order. -/
theorem parseCallArgsLoop_seq {p q : Parser} {nodes : List ASTNode}
    (hs : SepSeq ExprAt TOK_COMMA p nodes q) :
    ∀ call : ASTNode, ∃ N, ∀ fuel, N ≤ fuel → parseCallArgsLoop fuel call p
      = some (ASTNode.mk call.nodeType (call.children ++ nodes) call.value, q) := by
  induction hs with
  | @one p q node h1 hq =>
    intro call
    obtain ⟨f0, hf0⟩ := h1
    refine ⟨f0 + 1, fun fuel hf => ?_⟩
    obtain ⟨k, rfl⟩ : ∃ k, fuel = k + 1 := ⟨fuel - 1, by omega⟩
    rw [parseCallArgsLoop_last k call node p q (parseExpression_mono hf0 (by omega)) hq]
    rfl
  | @more p m q node nodes h1 hm _ ih =>
    intro call
    obtain ⟨f0, hf0⟩ := h1
    obtain ⟨N, hN⟩ := ih (call.addChild (some node))
    refine ⟨max f0 N + 1, fun fuel hf => ?_⟩
    obtain ⟨k, rfl⟩ : ∃ k, fuel = k + 1 := ⟨fuel - 1, by omega⟩
    rw [parseCallArgsLoop_next k call node p m (parseExpression_mono hf0 (by omega)) hm,
      hN k (by omega)]
    simp [addChild_some_eq, ASTNode.nodeType, ASTNode.children, ASTNode.value]

/-- A call with arguments, around its argument loop. -/
theorem parsePrimary_call (k : Nat) (p : Parser) (r : ASTNode × Parser)
    (h0 : p.currentToken.type = TOK_IDENTIFIER)
    (h1 : p.advance.currentToken.type = TOK_LPAREN)
    (h2 : p.advance.advance.currentToken.type ≠ TOK_RPAREN)
    (h : parseCallArgsLoop k
      ((ASTNode.new "call").addChild (some (createIdentifierNode p.currentToken.value)))
      p.advance.advance = some r) :
    parsePrimary (k + 1) p = some (some r.1, (r.2.consume TOK_RPAREN).2) := by
  simp [parsePrimary, matchTok, h0, h1, h2, h]

/-- A call without arguments, `f()`: a `call` node over the wrapper of the name alone. -/
theorem parsePrimary_call_empty (k : Nat) (p : Parser)
    (h0 : p.currentToken.type = TOK_IDENTIFIER)
    (h1 : p.advance.currentToken.type = TOK_LPAREN)
    (h2 : p.advance.advance.currentToken.type = TOK_RPAREN) :
    parsePrimary (k + 1) p
      = some (some (ASTNode.mk "call" [createIdentifierNode p.currentToken.value] ""),
          p.advance.advance.advance) := by
  simp [parsePrimary, matchTok, h0, h1, h2, consume_of_type h2, ASTNode.new, ASTNode.addChild,
    ASTNode.nodeType, ASTNode.children, ASTNode.value]

/-- A parenthesized expression: what `parseExpression` returns for the inside, and no node for
the parentheses. -/
theorem parsePrimary_paren (k : Nat) (p : Parser) (r : Option ASTNode × Parser)
    (h0 : p.currentToken.type = TOK_LPAREN) (h : parseExpression k p.advance = some r) :
    parsePrimary (k + 1) p = some (r.1, (r.2.consume TOK_RPAREN).2) := by
  simp [parsePrimary, matchTok, h0, h]

/-- No expression starts at `)`. -/
theorem exprAt_not_rparen {p q : Parser} {e : ASTNode} (h : ExprAt p e q) :
    p.currentToken.type ≠ TOK_RPAREN := by
  intro hp
  obtain ⟨f, hf⟩ := h
  have h1 := parseExpression_of_primary 0 p p none
    (parsePrimary_absent 0 p (by rw [hp]; decide)) (by rw [hp]; rfl)
  have h2 := parseExpression_mono hf (Nat.le_max_left f 4)
  have h3 := parseExpression_mono h1 (Nat.le_max_right f 4)
  rw [h2] at h3
  cases h3

/-- A call `f(e1, ..., en)`: the wrapper of `f`, then the trees of the arguments in order. -/
theorem parsePrimary_call_at (p q : Parser) (args : List ASTNode)
    (h0 : p.currentToken.type = TOK_IDENTIFIER)
    (h1 : p.advance.currentToken.type = TOK_LPAREN)
    (hs : SepSeq ExprAt TOK_COMMA p.advance.advance args q)
    (hq : q.currentToken.type = TOK_RPAREN) :
    ∃ N, ∀ fuel, N ≤ fuel →
      parsePrimary fuel p
        = some (some (ASTNode.mk "call" (createIdentifierNode p.currentToken.value :: args) ""),
            q.advance) := by
  have h2 : p.advance.advance.currentToken.type ≠ TOK_RPAREN := by
    cases hs with
    | one h _ => exact exprAt_not_rparen h
    | more h _ _ => exact exprAt_not_rparen h
  obtain ⟨N, hN⟩ := parseCallArgsLoop_seq hs
    ((ASTNode.new "call").addChild (some (createIdentifierNode p.currentToken.value)))
  refine ⟨N + 1, fun fuel hf => ?_⟩
  obtain ⟨k, rfl⟩ : ∃ k, fuel = k + 1 := ⟨fuel - 1, by omega⟩
  rw [parsePrimary_call k p _ h0 h1 h2 (hN k (by omega))]
  simp [consume_of_type hq, ASTNode.new, ASTNode.addChild, ASTNode.nodeType, ASTNode.children,
    ASTNode.value]

/-- A parenthesized expression `(e)`: exactly the tree of `e`. -/
theorem parsePrimary_paren_at (p q : Parser) (e : ASTNode)
    (h0 : p.currentToken.type = TOK_LPAREN) (he : ExprAt p.advance e q)
    (hq : q.currentToken.type = TOK_RPAREN) :
    ∃ N, ∀ fuel, N ≤ fuel → parsePrimary fuel p = some (some e, q.advance) := by
  obtain ⟨f, hf⟩ := he
  refine ⟨f + 1, fun fuel hfuel => ?_⟩
  obtain ⟨k, rfl⟩ : ∃ k, fuel = k + 1 := ⟨fuel - 1, by omega⟩
  rw [parsePrimary_paren k p _ h0 (parseExpression_mono hf (by omega))]
  simp [consume_of_type hq]

/-- What `parsePrimary` returns is the whole expression when the token after it continues no
expression. -/
theorem exprAt_of_primary {p q : Parser} {e : ASTNode}
    (h : ∃ N, ∀ fuel, N ≤ fuel → parsePrimary fuel p = some (some e, q))
    (he : endsExpression q.currentToken.type = true) :
    ∃ N, ∀ fuel, N ≤ fuel → parseExpression fuel p = some (some e, q) := by
  obtain ⟨N, hN⟩ := h
  refine ⟨N + 4, fun fuel hf => ?_⟩
  obtain ⟨k, rfl⟩ : ∃ k, fuel = k + 4 := ⟨fuel - 4, by omega⟩
  exact parseExpression_of_primary k p q _ (hN (k + 1) (by omega)) he

/-- A primary read as an expression, with fuel 4. -/
theorem parseExpression_item (s : Parser) (x cs : List Char)
    (hat : s.At (if Lexer.isNumberText x = true then TOK_INTEGER else TOK_IDENTIFIER)
      (String.mk x) cs)
    (hends : endsExpression s.advance.currentToken.type = true) :
    parseExpression 4 s = some (some (primaryNode x), s.advance) := by
  rw [parseExpression_of_primary 0 _ _ _
    (parsePrimary_operand 0 _ hat.operand.1 (endsExpression_iff hends).2.2.2) hends,
    hat.operand.2]

/-- A primary as an item of an argument list. -/
theorem exprAt_item (s : Parser) (x cs : List Char) (_ : isPrimaryText x = true)
    (hat : s.At (if Lexer.isNumberText x = true then TOK_INTEGER else TOK_IDENTIFIER)
      (String.mk x) cs)
    (hends : endsExpression s.advance.currentToken.type = true) :
    ExprAt s (primaryNode x) s.advance :=
  ⟨4, parseExpression_item s x cs hat hends⟩

/-- The text `f(v1, ..., vn)` for a name `f` and primaries `v1`, ..., `vn`. -/
theorem parseExpression_call_text (f : List Char) (L : List (List Char))
    (hf : isNameText f = true) (hL : L ≠ []) (hall : ∀ v ∈ L, isPrimaryText v = true) :
    ∃ N, ∀ fuel, N ≤ fuel →
      (parseExpression fuel (Parser.new (f ++ "(".toList ++ commaText L ++ ")".toList))).map
          (fun r => r.1)
        = some (some (ASTNode.mk "call"
            (createIdentifierNode (String.mk f) :: L.map primaryNode) "")) := by
  have hin : f ++ "(".toList ++ commaText L ++ ")".toList
      = f ++ '(' :: (commaText L ++ ')' :: []) := by simp
  rw [hin]
  have b0 := new_at (lexTo_name f ('(' :: (commaText L ++ ')' :: [])) hf rfl)
  generalize Parser.new _ = p at b0 ⊢
  have b1 := b0.advance (LexTo.lparen (r := commaText L ++ ')' :: []))
  obtain ⟨_, q, hs, hq⟩ := sepSeq_commaText ExprAt isPrimaryText _ primaryNode
    lexTo_primary_kind exprAt_item
    (r := ')' :: []) rfl (LexTo.rparen (r := [])) (by decide) (by decide) L hL hall p.advance
    b1.2.2
  have k := hq.advance LexTo.eof
  obtain ⟨N, hN⟩ := exprAt_of_primary (parsePrimary_call_at p q _ b0.1 b1.1 hs hq.1)
    (by rw [k.1]; rfl)
  exact ⟨N, fun fuel hfuel => by rw [hN fuel hfuel, b0.2.1]; rfl⟩

/-- The texts `f()`, `f` and `(v)` for a name `f` and a primary `v`. -/
theorem parseExpression_primary_texts (f v : List Char) (hf : isNameText f = true)
    (hv : isPrimaryText v = true) (fuel : Nat) (hfuel : 8 ≤ fuel) :
    (parseExpression fuel (Parser.new (f ++ "()".toList))).map (fun r => r.1)
        = some (some (ASTNode.mk "call" [createIdentifierNode (String.mk f)] ""))
    ∧ (parseExpression fuel (Parser.new f)).map (fun r => r.1)
        = some (some (createIdentifierNode (String.mk f)))
    ∧ (parseExpression fuel (Parser.new ("(".toList ++ v ++ ")".toList))).map (fun r => r.1)
        = some (some (primaryNode v)) := by
  obtain ⟨k, rfl⟩ : ∃ k, fuel = k + 8 := ⟨fuel - 8, by omega⟩
  refine ⟨?_, ?_, ?_⟩
  · have hin : f ++ "()".toList = f ++ '(' :: ')' :: [] := rfl
    rw [hin]
    have b0 := new_at (lexTo_name f ('(' :: ')' :: []) hf rfl)
    generalize Parser.new _ = p at b0 ⊢
    have b1 := b0.advance (LexTo.lparen (r := ')' :: []))
    have b2 := b1.advance (LexTo.rparen (r := []))
    have b3 := b2.advance LexTo.eof
    rw [parseExpression_of_primary (k + 4) p _ _ (parsePrimary_call_empty _ p b0.1 b1.1 b2.1)
      (by rw [b3.1]; rfl), b0.2.1]
    rfl
  · have hin : f = f ++ [] := (List.append_nil f).symm
    have b0 := new_at (lexTo_name f [] hf rfl)
    rw [List.append_nil] at b0
    generalize Parser.new _ = p at b0 ⊢
    have b1 := b0.advance LexTo.eof
    rw [parseExpression_of_primary (k + 4) p _ _
      (parsePrimary_identifier _ p b0.1 (by rw [b1.1]; decide)) (by rw [b1.1]; rfl), b0.2.1]
    rfl
  · have hin : "(".toList ++ v ++ ")".toList = '(' :: (v ++ ')' :: []) := by simp
    rw [hin]
    have b0 := new_at (LexTo.lparen (r := v ++ ')' :: []))
    generalize Parser.new _ = p at b0 ⊢
    have b1 := b0.advance (lexTo_primary_kind v (')' :: []) hv rfl)
    have b2 := b1.advance (LexTo.rparen (r := []))
    have b3 := b2.advance LexTo.eof
    have hf0 := parseExpression_item p.advance v _ b1 (by rw [b2.1]; rfl)
    have h1 := parsePrimary_paren (k + 4) p _ b0.1 (parseExpression_mono hf0 (by omega))
    simp only [consume_of_type b2.1] at h1
    rw [parseExpression_of_primary (k + 4) p _ _ h1 (by rw [b3.1]; rfl)]
    rfl

end Parser

open Parser in
/-- Claim C32: calls, identifiers and parenthesized expressions in `parsePrimary`.  At an
identifier followed by `(`, a list of `n ≥ 1` arguments that `parseExpression` turns into the
trees `args`, and `)`, the result is a `call` node with `n + 1` children: the `<identifier>`
wrapper of the name, then the argument trees in source order.  At an identifier followed by
`(` and `)` it is `call` with the wrapper as only child.  At an identifier not followed by `(`
it is just the wrapper.  At `(`, an expression of tree `e` and `)`, it is exactly `e`.  The same
holds of the texts `f(v1, ..., vn)`, `f()`, `f` and `(v)` for every name `f` and primaries
`v`, `v1`, ..., `vn`, read as expressions. -/
theorem C32_call_primary :
    (∀ (p q : Parser) (args : List ASTNode), p.currentToken.type = TOK_IDENTIFIER →
      p.advance.currentToken.type = TOK_LPAREN →
      SepSeq ExprAt TOK_COMMA p.advance.advance args q → q.currentToken.type = TOK_RPAREN →
      (∃ N, ∀ fuel, N ≤ fuel →
        parsePrimary fuel p
          = some (some (ASTNode.mk "call"
              (createIdentifierNode p.currentToken.value :: args) ""), q.advance))
      ∧ (ASTNode.mk "call"
          (createIdentifierNode p.currentToken.value :: args) "").children.length
            = args.length + 1)
    ∧ (∀ (p : Parser) (k : Nat), p.currentToken.type = TOK_IDENTIFIER →
      p.advance.currentToken.type = TOK_LPAREN →
      p.advance.advance.currentToken.type = TOK_RPAREN →
      parsePrimary (k + 1) p
        = some (some (ASTNode.mk "call" [createIdentifierNode p.currentToken.value] ""),
            p.advance.advance.advance))
    ∧ (∀ (p : Parser) (k : Nat), p.currentToken.type = TOK_IDENTIFIER →
      p.advance.currentToken.type ≠ TOK_LPAREN →
      parsePrimary (k + 1) p
        = some (some (createIdentifierNode p.currentToken.value), p.advance))
    ∧ (∀ (p q : Parser) (e : ASTNode), p.currentToken.type = TOK_LPAREN →
      ExprAt p.advance e q → q.currentToken.type = TOK_RPAREN →
      ∃ N, ∀ fuel, N ≤ fuel → parsePrimary fuel p = some (some e, q.advance))
    ∧ (∀ (f : List Char) (L : List (List Char)), isNameText f = true → L ≠ [] →
      (∀ v ∈ L, isPrimaryText v = true) →
      ∃ N, ∀ fuel, N ≤ fuel →
        (parseExpression fuel (Parser.new (f ++ "(".toList ++ commaText L ++ ")".toList))).map
            (fun r => r.1)
          = some (some (ASTNode.mk "call"
              (createIdentifierNode (String.mk f) :: L.map primaryNode) "")))
    ∧ (∀ (f v : List Char) (fuel : Nat), isNameText f = true → isPrimaryText v = true →
      8 ≤ fuel →
      (parseExpression fuel (Parser.new (f ++ "()".toList))).map (fun r => r.1)
          = some (some (ASTNode.mk "call" [createIdentifierNode (String.mk f)] ""))
      ∧ (parseExpression fuel (Parser.new f)).map (fun r => r.1)
          = some (some (createIdentifierNode (String.mk f)))
      ∧ (parseExpression fuel (Parser.new ("(".toList ++ v ++ ")".toList))).map (fun r => r.1)
          = some (some (primaryNode v))) :=
  ⟨fun p q args h0 h1 hs hq => ⟨parsePrimary_call_at p q args h0 h1 hs hq, rfl⟩,
   fun p k h0 h1 h2 => parsePrimary_call_empty k p h0 h1 h2,
   fun p k h0 h1 => parsePrimary_identifier k p h0 h1,
   fun p q e h0 he hq => parsePrimary_paren_at p q e h0 he hq,
   fun f L hf hL hall => parseExpression_call_text f L hf hL hall,
   fun f v fuel hf hv hfuel => parseExpression_primary_texts f v hf hv fuel hfuel⟩

open Parser in
theorem C32_call_primary_witness :
    ((∃ N, ∀ fuel, N ≤ fuel →
        parsePrimary fuel (Parser.new "f(x, 1)".toList)
          = some (some (ASTNode.mk "call"
              (createIdentifierNode (Parser.new "f(x, 1)".toList).currentToken.value :: [ASTNode.mk "<identifier>" [ASTNode.mk "x" [] ""] "",
            ASTNode.mk "<integer>" [ASTNode.mk "1" [] ""] ""]) ""),
              (Parser.new "f(x, 1)".toList).advance.advance.advance.advance.advance.advance))
      ∧ (ASTNode.mk "call"
          (createIdentifierNode (Parser.new "f(x, 1)".toList).currentToken.value :: [ASTNode.mk "<identifier>" [ASTNode.mk "x" [] ""] "",
            ASTNode.mk "<integer>" [ASTNode.mk "1" [] ""] ""]) "").children.length
            = [ASTNode.mk "<identifier>" [ASTNode.mk "x" [] ""] "",
            ASTNode.mk "<integer>" [ASTNode.mk "1" [] ""] ""].length + 1)
    ∧ parsePrimary 1 (Parser.new "f()".toList)
        = some (some (ASTNode.mk "call" [createIdentifierNode (Parser.new "f()".toList).currentToken.value] ""),
            (Parser.new "f()".toList).advance.advance.advance)
    ∧ parsePrimary 1 (Parser.new "f + 1".toList)
        = some (some (createIdentifierNode (Parser.new "f + 1".toList).currentToken.value), (Parser.new "f + 1".toList).advance)
    ∧ (∃ N, ∀ fuel, N ≤ fuel →
        parsePrimary fuel (Parser.new "(x)".toList) = some (some (ASTNode.mk "<identifier>" [ASTNode.mk "x" [] ""] ""), (Parser.new "(x)".toList).advance.advance.advance))
    ∧ (∃ N, ∀ fuel, N ≤ fuel →
        (parseExpression fuel (Parser.new ("f".toList ++ "(".toList
            ++ commaText ["x".toList, "1".toList] ++ ")".toList))).map (fun r => r.1)
          = some (some (ASTNode.mk "call"
              (createIdentifierNode (String.mk "f".toList)
                :: ["x".toList, "1".toList].map primaryNode) "")))
    ∧ ((parseExpression 8 (Parser.new ("f".toList ++ "()".toList))).map (fun r => r.1)
          = some (some (ASTNode.mk "call" [createIdentifierNode (String.mk "f".toList)] ""))
      ∧ (parseExpression 8 (Parser.new "f".toList)).map (fun r => r.1)
          = some (some (createIdentifierNode (String.mk "f".toList)))
      ∧ (parseExpression 8 (Parser.new ("(".toList ++ "x".toList ++ ")".toList))).map
            (fun r => r.1)
          = some (some (primaryNode "x".toList))) :=
  ⟨C32_call_primary.1 (Parser.new "f(x, 1)".toList)
      (Parser.new "f(x, 1)".toList).advance.advance.advance.advance.advance _ (by decide) (by decide)
      (SepSeq.more (m := (Parser.new "f(x, 1)".toList).advance.advance.advance) ⟨4, rfl⟩ (by decide)
        (SepSeq.one ⟨4, rfl⟩ (by decide))) (by decide),
   C32_call_primary.2.1 (Parser.new "f()".toList) 0 (by decide) (by decide) (by decide),
   C32_call_primary.2.2.1 (Parser.new "f + 1".toList) 0 (by decide) (by decide),
   C32_call_primary.2.2.2.1 (Parser.new "(x)".toList) (Parser.new "(x)".toList).advance.advance _ (by decide) ⟨4, rfl⟩ (by decide),
   C32_call_primary.2.2.2.2.1 "f".toList ["x".toList, "1".toList] (by decide) (by decide)
      (by decide),
   C32_call_primary.2.2.2.2.2 "f".toList "x".toList 8 (by decide) (by decide) (by decide)⟩

open TokenType

/-! ## Variable declarations -/

namespace Parser

/-- The tokens `parseName` accepts: an identifier and the type keywords `integer` and
`boolean`; each gives the `<identifier>` wrapper of its text. -/
theorem nameAt_of_type {s : Parser}
    (h : s.currentToken.type = TOK_IDENTIFIER ∨ s.currentToken.type = TOK_INTEGER_TYPE
      ∨ s.currentToken.type = TOK_BOOLEAN) :
    NameAt s (createIdentifierNode s.currentToken.value) s.advance := by
  rcases h with h | h | h <;> simp [NameAt, parseName, matchTok, h]

/-- One iteration of the name loop of `parseDcln` that ends the loop: no `,` after the name. -/
theorem parseDclnLoop_last (k : Nat) (var node : ASTNode) (p q : Parser)
    (hs : NameAt p node q) (hq : q.currentToken.type ≠ TOK_COMMA) :
    parseDclnLoop (k + 1) var p = some (var.addChild (some node), q) := by
  rw [parseDclnLoop]
  simp [show parseName p = (some node, q) from hs, consume_of_ne hq]

/-- One iteration of the name loop of `parseDcln` that goes on: a `,` after the name. -/
theorem parseDclnLoop_next (k : Nat) (var node : ASTNode) (p q : Parser)
    (hs : NameAt p node q) (hq : q.currentToken.type = TOK_COMMA) :
    parseDclnLoop (k + 1) var p = parseDclnLoop k (var.addChild (some node)) q.advance := by
  rw [parseDclnLoop]
  simp [show parseName p = (some node, q) from hs, consume_of_type hq]

/-- The name loop of `parseDcln` on a list of names: their wrappers are appended in order. -/
theorem parseDclnLoop_seq {p q : Parser} {nodes : List ASTNode}
    (hs : SepSeq NameAt TOK_COMMA p nodes q) :
    ∀ var : ASTNode, ∃ N, ∀ fuel, N ≤ fuel → parseDclnLoop fuel var p
      = some (ASTNode.mk var.nodeType (var.children ++ nodes) var.value, q) := by
  induction hs with
  | @one p q node h1 hq =>
    intro var
    refine ⟨1, fun fuel hf => ?_⟩
    obtain ⟨k, rfl⟩ : ∃ k, fuel = k + 1 := ⟨fuel - 1, by omega⟩
    rw [parseDclnLoop_last k var node p q h1 hq]
    rfl
  | @more p m q node nodes h1 hm _ ih =>
    intro var
    obtain ⟨N, hN⟩ := ih (var.addChild (some node))
    refine ⟨N + 1, fun fuel hf => ?_⟩
    obtain ⟨k, rfl⟩ : ∃ k, fuel = k + 1 := ⟨fuel - 1, by omega⟩
    rw [parseDclnLoop_next k var node p m h1 hm, hN k (by omega)]
    simp [addChild_some_eq, ASTNode.nodeType, ASTNode.children, ASTNode.value]

/-- A declaration `n1, ..., nk : T`: a `var` node over the wrappers of the names, in order, and
the wrapper of the type name as last child. -/
theorem parseDcln_at (p q q2 : Parser) (names : List ASTNode) (ty : ASTNode)
    (hs : SepSeq NameAt TOK_COMMA p names q) (hq : q.currentToken.type = TOK_COLON)
    (ht : NameAt q.advance ty q2) :
    ∃ N, ∀ fuel, N ≤ fuel →
      parseDcln fuel p = some (some (ASTNode.mk "var" (names ++ [ty]) ""), q2) := by
  obtain ⟨N, hN⟩ := parseDclnLoop_seq hs (ASTNode.new "var")
  refine ⟨N, fun fuel hf => ?_⟩
  have ht2 : parseName q.advance = (some ty, q2) := ht
  simp only [parseDcln, hN fuel hf, consume_of_type hq, ht2]
  simp [ASTNode.new, ASTNode.addChild, ASTNode.nodeType, ASTNode.children, ASTNode.value]

theorem dclnAt_of (p q q2 : Parser) (names : List ASTNode) (ty : ASTNode)
    (hs : SepSeq NameAt TOK_COMMA p names q) (hq : q.currentToken.type = TOK_COLON)
    (ht : NameAt q.advance ty q2) : DclnAt p (ASTNode.mk "var" (names ++ [ty]) "") q2 := by
  obtain ⟨N, hN⟩ := parseDcln_at p q q2 names ty hs hq ht
  exact ⟨N, hN N (Nat.le_refl _)⟩

/-- One iteration of the loop of `parseDclns` that ends the loop: after the declaration and
the optional `;` the token is no identifier. -/
theorem parseDclnsLoop_last (k : Nat) (dclns node : ASTNode) (p m : Parser)
    (hs : parseDcln k p = some (some node, m))
    (hq : (m.consume TOK_SEMICOLON).2.currentToken.type ≠ TOK_IDENTIFIER) :
    parseDclnsLoop (k + 1) dclns p
      = some (dclns.addChild (some node), (m.consume TOK_SEMICOLON).2) := by
  rw [parseDclnsLoop]
  simp [hs, matchTok, hq]

/-- One iteration of the loop of `parseDclns` that goes on: after the declaration and the
optional `;` the token is an identifier. -/
theorem parseDclnsLoop_next (k : Nat) (dclns node : ASTNode) (p m : Parser)
    (hs : parseDcln k p = some (some node, m))
    (hq : (m.consume TOK_SEMICOLON).2.currentToken.type = TOK_IDENTIFIER) :
    parseDclnsLoop (k + 1) dclns p
      = parseDclnsLoop k (dclns.addChild (some node)) (m.consume TOK_SEMICOLON).2 := by
  rw [parseDclnsLoop]
  simp [hs, matchTok, hq]

/-- The loop of `parseDclns` on a list of declarations: their nodes are appended in order. -/
theorem parseDclnsLoop_seq {p q : Parser} {nodes : List ASTNode} (hs : DclnSeq p nodes q) :
    ∀ dclns : ASTNode, ∃ N, ∀ fuel, N ≤ fuel → parseDclnsLoop fuel dclns p
      = some (ASTNode.mk dclns.nodeType (dclns.children ++ nodes) dclns.value, q) := by
  induction hs with
  | @one p m node h1 hq =>
    intro dclns
    obtain ⟨f0, hf0⟩ := h1
    refine ⟨f0 + 1, fun fuel hf => ?_⟩
    obtain ⟨k, rfl⟩ : ∃ k, fuel = k + 1 := ⟨fuel - 1, by omega⟩
    rw [parseDclnsLoop_last k dclns node p m (parseDcln_mono hf0 (by omega)) hq]
    rfl
  | @more p m q node nodes h1 hm _ ih =>
    intro dclns
    obtain ⟨f0, hf0⟩ := h1
    obtain ⟨N, hN⟩ := ih (dclns.addChild (some node))
    refine ⟨max f0 N + 1, fun fuel hf => ?_⟩
    obtain ⟨k, rfl⟩ : ∃ k, fuel = k + 1 := ⟨fuel - 1, by omega⟩
    rw [parseDclnsLoop_next k dclns node p m (parseDcln_mono hf0 (by omega)) hm,
      hN k (by omega)]
    simp [addChild_some_eq, ASTNode.nodeType, ASTNode.children, ASTNode.value]

/-- The declarations after `var`: a `dclns` node over the nodes of the declarations. -/
theorem parseDclns_at (p q : Parser) (nodes : List ASTNode)
    (hv : p.currentToken.type = TOK_VAR) (hs : DclnSeq p.advance nodes q) :
    ∃ N, ∀ fuel, N ≤ fuel →
      parseDclns fuel p = some (some (ASTNode.mk "dclns" nodes ""), q) := by
  obtain ⟨N, hN⟩ := parseDclnsLoop_seq hs (ASTNode.new "dclns")
  refine ⟨N, fun fuel hf => ?_⟩
  simp only [parseDclns, matchTok, hv, hN fuel hf]
  simp [ASTNode.new, ASTNode.nodeType, ASTNode.children, ASTNode.value]

/-- A type name, `integer`, `boolean` or a name, is lexed as one token that `parseName`
accepts. -/
theorem lexTo_typeName {t : List Char}
    (ht : isNameText t = true ∨ t = "integer".toList ∨ t = "boolean".toList)
    {r : List Char} (hr : Lexer.identifierEnd r = true) :
    ∃ ty, (ty = TOK_IDENTIFIER ∨ ty = TOK_INTEGER_TYPE ∨ ty = TOK_BOOLEAN)
      ∧ LexTo (t ++ r) ty (String.mk t) r := by
  rcases ht with ht | rfl | rfl
  · exact ⟨_, Or.inl rfl, lexTo_name t r ht hr⟩
  · exact ⟨_, Or.inr (Or.inl rfl), LexTo.identifier (p := "integer".toList) (by decide) hr⟩
  · exact ⟨_, Or.inr (Or.inr rfl), LexTo.identifier (p := "boolean".toList) (by decide) hr⟩

/-- A name as an item of a name list. -/
theorem nameAt_item (s : Parser) (x cs : List Char) (_ : isNameText x = true)
    (hat : s.At TOK_IDENTIFIER (String.mk x) cs)
    (_ : endsExpression s.advance.currentToken.type = true) :
    NameAt s (createIdentifierNode (String.mk x)) s.advance := by
  have := nameAt_of_type (s := s) (Or.inl hat.1)
  rwa [hat.2.1] at this

/-- The text `var n1, ..., nk: T;` for names `n1`, ..., `nk` and a type name `T`. -/
theorem parseDclns_text (L : List (List Char)) (t : List Char) (hL : L ≠ [])
    (hall : ∀ x ∈ L, isNameText x = true)
    (ht : isNameText t = true ∨ t = "integer".toList ∨ t = "boolean".toList) :
    ∃ N, ∀ fuel, N ≤ fuel →
      (parseDclns fuel (Parser.new ("var ".toList ++ commaText L ++ ": ".toList ++ t
          ++ ";".toList))).map (fun r => r.1)
        = some (some (ASTNode.mk "dclns" [ASTNode.mk "var"
            (L.map (fun x => createIdentifierNode (String.mk x))
              ++ [createIdentifierNode (String.mk t)]) ""] "")) := by
  have hin : "var ".toList ++ commaText L ++ ": ".toList ++ t ++ ";".toList
      = "var".toList ++ ' ' :: (commaText L ++ ':' :: ' ' :: (t ++ ';' :: [])) := by simp
  rw [hin]
  have b0 := new_at (LexTo.identifier (p := "var".toList)
    (r := ' ' :: (commaText L ++ ':' :: ' ' :: (t ++ ';' :: []))) (by decide) rfl)
  generalize Parser.new _ = p at b0 ⊢
  obtain ⟨p1, hp1, hadv⟩ := advance_skip_space b0.2.2 (by decide)
  obtain ⟨_, q, hs, hq⟩ := sepSeq_commaText NameAt isNameText
    (fun _ => TOK_IDENTIFIER) (fun x => createIdentifierNode (String.mk x))
    lexTo_name nameAt_item (r := ':' :: ' ' :: (t ++ ';' :: [])) rfl
    (LexTo.single (c := ':') (r := ' ' :: (t ++ ';' :: [])) isSingleCharToken_colon_space)
    (by decide) (by decide) L hL hall p1 hp1
  rw [← hadv] at hs
  obtain ⟨ty, hty, hl⟩ := lexTo_typeName ht (r := ';' :: []) rfl
  have k1 := hq.advance (LexTo.space (by decide) hl)
  have k2 := k1.advance (LexTo.semicolon (r := []))
  have k3 := k2.advance LexTo.eof
  have hn : NameAt q.advance (createIdentifierNode (String.mk t)) q.advance.advance := by
    have := nameAt_of_type (s := q.advance) (by rw [k1.1]; exact hty)
    rwa [k1.2.1] at this
  have hd := dclnAt_of p.advance q _ _ _ hs hq.1 hn
  have hseq := DclnSeq.one hd (by rw [consume_of_type k2.1, k3.1]; decide)
  obtain ⟨N, hN⟩ := parseDclns_at p _ _ b0.1 hseq
  exact ⟨N, fun fuel hf => by rw [hN fuel hf]; rfl⟩

end Parser

namespace Parser

/-- One iteration of the loop of `parseDclns`: the result of `parseDcln` is added, a `;` is
consumed if there is one, and the loop goes on exactly when the token reached is an
identifier. -/
theorem parseDclnsLoop_iteration (k : Nat) (dclns : ASTNode) (p : Parser)
    (r : Option ASTNode × Parser) (hs : parseDcln k p = some r) :
    parseDclnsLoop (k + 1) dclns p
      = if (r.2.consume TOK_SEMICOLON).2.currentToken.type = TOK_IDENTIFIER then
          parseDclnsLoop k (dclns.addChild r.1) (r.2.consume TOK_SEMICOLON).2
        else some (dclns.addChild r.1, (r.2.consume TOK_SEMICOLON).2) := by
  rw [parseDclnsLoop]
  by_cases h : (r.2.consume TOK_SEMICOLON).2.currentToken.type = TOK_IDENTIFIER
  · simp [hs, matchTok, h]
  · simp [hs, matchTok, h]

end Parser

open Parser in
/-- Claim C34: variable declarations.  `parseName` accepts an identifier and the type keywords
`integer` and `boolean`, and wraps the text of each as `<identifier>`.  A declaration made of
names separated by `,`, a `:` and a type name gives a `var` node whose children are the
wrappers of the names in source order followed by the wrapper of the type name.  In the loop of
`parseDclns` each iteration adds the result of `parseDcln`, consumes a `;` if there is one, and
goes on exactly when the token then reached is an identifier; so after `var` a list of
declarations gives a `dclns` node over their nodes, in order.  The text `var n1, ..., nk: T;`
gives `dclns` over one `var` with `k + 1` children, and `var a, b: integer; c: boolean;` gives
`dclns` with 2 children, `var` over a, b, integer and `var` over c, boolean. -/
theorem C34_variable_declarations :
    (∀ s : Parser, (s.currentToken.type = TOK_IDENTIFIER
        ∨ s.currentToken.type = TOK_INTEGER_TYPE ∨ s.currentToken.type = TOK_BOOLEAN) →
      parseName s = (some (createIdentifierNode s.currentToken.value), s.advance))
    ∧ (∀ (p q q2 : Parser) (names : List ASTNode) (ty : ASTNode),
      SepSeq NameAt TOK_COMMA p names q → q.currentToken.type = TOK_COLON →
      NameAt q.advance ty q2 →
      (∃ N, ∀ fuel, N ≤ fuel →
        parseDcln fuel p = some (some (ASTNode.mk "var" (names ++ [ty]) ""), q2))
      ∧ (ASTNode.mk "var" (names ++ [ty]) "").children.length = names.length + 1
      ∧ (ASTNode.mk "var" (names ++ [ty]) "").children.getLast? = some ty)
    ∧ (∀ (k : Nat) (dclns : ASTNode) (p : Parser) (r : Option ASTNode × Parser),
      parseDcln k p = some r →
      parseDclnsLoop (k + 1) dclns p
        = if (r.2.consume TOK_SEMICOLON).2.currentToken.type = TOK_IDENTIFIER then
            parseDclnsLoop k (dclns.addChild r.1) (r.2.consume TOK_SEMICOLON).2
          else some (dclns.addChild r.1, (r.2.consume TOK_SEMICOLON).2))
    ∧ (∀ (p q : Parser) (nodes : List ASTNode), p.currentToken.type = TOK_VAR →
      DclnSeq p.advance nodes q →
      ∃ N, ∀ fuel, N ≤ fuel →
        parseDclns fuel p = some (some (ASTNode.mk "dclns" nodes ""), q))
    ∧ (∀ (L : List (List Char)) (t : List Char), L ≠ [] → (∀ x ∈ L, isNameText x = true) →
      (isNameText t = true ∨ t = "integer".toList ∨ t = "boolean".toList) →
      ∃ N, ∀ fuel, N ≤ fuel →
        (parseDclns fuel (Parser.new ("var ".toList ++ commaText L ++ ": ".toList ++ t
            ++ ";".toList))).map (fun r => r.1)
          = some (some (ASTNode.mk "dclns" [ASTNode.mk "var"
              (L.map (fun x => createIdentifierNode (String.mk x))
                ++ [createIdentifierNode (String.mk t)]) ""] "")))
    ∧ (parseDclns 4 (Parser.new "var a, b: integer; c: boolean;".toList)).map (fun r => r.1)
        = some (some (ASTNode.mk "dclns"
            [ASTNode.mk "var" [ASTNode.mk "<identifier>" [ASTNode.mk "a" [] ""] "",
            ASTNode.mk "<identifier>" [ASTNode.mk "b" [] ""] "", ASTNode.mk "<identifier>" [ASTNode.mk "integer" [] ""] ""] "",
             ASTNode.mk "var" [ASTNode.mk "<identifier>" [ASTNode.mk "c" [] ""] "", ASTNode.mk "<identifier>" [ASTNode.mk "boolean" [] ""] ""] ""] "")) :=
  ⟨fun _ h => nameAt_of_type h,
   fun p q q2 names ty hs hq ht =>
      ⟨parseDcln_at p q q2 names ty hs hq ht, by simp [ASTNode.children],
        by simp [ASTNode.children]⟩,
   fun k dclns p r hs => parseDclnsLoop_iteration k dclns p r hs,
   fun p q nodes hv hs => parseDclns_at p q nodes hv hs,
   fun L t hL hall ht => parseDclns_text L t hL hall ht,
   by rfl⟩

open Parser in
theorem C34_variable_declarations_witness :
    parseName (Parser.new "var a, b: integer; c: boolean;".toList).advance.advance.advance.advance.advance
        = (some (createIdentifierNode (Parser.new "var a, b: integer; c: boolean;".toList).advance.advance.advance.advance.advance.currentToken.value),
            (Parser.new "var a, b: integer; c: boolean;".toList).advance.advance.advance.advance.advance.advance)
    ∧ ((∃ N, ∀ fuel, N ≤ fuel →
        parseDcln fuel (Parser.new "var a, b: integer; c: boolean;".toList).advance
          = some (some (ASTNode.mk "var" ([ASTNode.mk "<identifier>" [ASTNode.mk "a" [] ""] "",
            ASTNode.mk "<identifier>" [ASTNode.mk "b" [] ""] ""] ++ [ASTNode.mk "<identifier>" [ASTNode.mk "integer" [] ""] ""]) ""),
              (Parser.new "var a, b: integer; c: boolean;".toList).advance.advance.advance.advance.advance.advance))
      ∧ (ASTNode.mk "var" ([ASTNode.mk "<identifier>" [ASTNode.mk "a" [] ""] "",
            ASTNode.mk "<identifier>" [ASTNode.mk "b" [] ""] ""] ++ [ASTNode.mk "<identifier>" [ASTNode.mk "integer" [] ""] ""]) "").children.length
          = [ASTNode.mk "<identifier>" [ASTNode.mk "a" [] ""] "",
            ASTNode.mk "<identifier>" [ASTNode.mk "b" [] ""] ""].length + 1
      ∧ (ASTNode.mk "var" ([ASTNode.mk "<identifier>" [ASTNode.mk "a" [] ""] "",
            ASTNode.mk "<identifier>" [ASTNode.mk "b" [] ""] ""] ++ [ASTNode.mk "<identifier>" [ASTNode.mk "integer" [] ""] ""]) "").children.getLast?
          = some (ASTNode.mk "<identifier>" [ASTNode.mk "integer" [] ""] ""))
    ∧ parseDclnsLoop 3 (ASTNode.new "dclns") (Parser.new "var a, b: integer; c: boolean;".toList).advance
        = parseDclnsLoop 2 ((ASTNode.new "dclns").addChild (some (ASTNode.mk "var" [ASTNode.mk "<identifier>" [ASTNode.mk "a" [] ""] "",
            ASTNode.mk "<identifier>" [ASTNode.mk "b" [] ""] "", ASTNode.mk "<identifier>" [ASTNode.mk "integer" [] ""] ""] "")))
            (Parser.new "var a, b: integer; c: boolean;".toList).advance.advance.advance.advance.advance.advance.advance
    ∧ (∃ N, ∀ fuel, N ≤ fuel →
        parseDclns fuel (Parser.new "var a, b: integer; c: boolean;".toList)
          = some (some (ASTNode.mk "dclns"
              [ASTNode.mk "var" [ASTNode.mk "<identifier>" [ASTNode.mk "a" [] ""] "",
            ASTNode.mk "<identifier>" [ASTNode.mk "b" [] ""] "", ASTNode.mk "<identifier>" [ASTNode.mk "integer" [] ""] ""] "",
               ASTNode.mk "var" [ASTNode.mk "<identifier>" [ASTNode.mk "c" [] ""] "", ASTNode.mk "<identifier>" [ASTNode.mk "boolean" [] ""] ""] ""] ""),
              (Parser.new "var a, b: integer; c: boolean;".toList).advance.advance.advance.advance.advance.advance.advance.advance.advance.advance.advance))
    ∧ (∃ N, ∀ fuel, N ≤ fuel →
        (parseDclns fuel (Parser.new ("var ".toList ++ commaText ["a".toList, "b".toList]
            ++ ": ".toList ++ "integer".toList ++ ";".toList))).map (fun r => r.1)
          = some (some (ASTNode.mk "dclns" [ASTNode.mk "var"
              (["a".toList, "b".toList].map (fun x => createIdentifierNode (String.mk x))
                ++ [createIdentifierNode (String.mk "integer".toList)]) ""] ""))) :=
  ⟨C34_variable_declarations.1 (Parser.new "var a, b: integer; c: boolean;".toList).advance.advance.advance.advance.advance (by decide),
   C34_variable_declarations.2.1 (Parser.new "var a, b: integer; c: boolean;".toList).advance
      (Parser.new "var a, b: integer; c: boolean;".toList).advance.advance.advance.advance
      (Parser.new "var a, b: integer; c: boolean;".toList).advance.advance.advance.advance.advance.advance _ _
      (SepSeq.more (m := (Parser.new "var a, b: integer; c: boolean;".toList).advance.advance) rfl (by decide)
        (SepSeq.one rfl (by decide))) (by decide) rfl,
   (C34_variable_declarations.2.2.1 2 (ASTNode.new "dclns") (Parser.new "var a, b: integer; c: boolean;".toList).advance
      (some (ASTNode.mk "var" [ASTNode.mk "<identifier>" [ASTNode.mk "a" [] ""] "",
            ASTNode.mk "<identifier>" [ASTNode.mk "b" [] ""] "", ASTNode.mk "<identifier>" [ASTNode.mk "integer" [] ""] ""] ""),
        (Parser.new "var a, b: integer; c: boolean;".toList).advance.advance.advance.advance.advance.advance) rfl).trans rfl,
   C34_variable_declarations.2.2.2.1 (Parser.new "var a, b: integer; c: boolean;".toList)
      (Parser.new "var a, b: integer; c: boolean;".toList).advance.advance.advance.advance.advance.advance.advance.advance.advance.advance.advance _ (by decide)
      (DclnSeq.more (m := (Parser.new "var a, b: integer; c: boolean;".toList).advance.advance.advance.advance.advance.advance) ⟨2, rfl⟩ (by decide)
        (DclnSeq.one (m := (Parser.new "var a, b: integer; c: boolean;".toList).advance.advance.advance.advance.advance.advance.advance.advance.advance.advance) ⟨1, rfl⟩ (by decide))),
   C34_variable_declarations.2.2.2.2.1 ["a".toList, "b".toList] "integer".toList (by decide)
      (by decide) (Or.inr (Or.inl rfl))⟩

open TokenType

/-! ## Function declarations -/

namespace Parser

/-- One iteration of the loop of `parseParams` that ends the loop: no `;` after the
declaration. -/
theorem parseParamsLoop_last (k : Nat) (params node : ASTNode) (p q : Parser)
    (hs : parseDcln k p = some (some node, q)) (hq : q.currentToken.type ≠ TOK_SEMICOLON) :
    parseParamsLoop (k + 1) params p = some (params.addChild (some node), q) := by
  rw [parseParamsLoop]
  simp [hs, consume_of_ne hq]

/-- One iteration of the loop of `parseParams` that goes on: a `;` after the declaration. -/
theorem parseParamsLoop_next (k : Nat) (params node : ASTNode) (p q : Parser)
    (hs : parseDcln k p = some (some node, q)) (hq : q.currentToken.type = TOK_SEMICOLON) :
    parseParamsLoop (k + 1) params p
      = parseParamsLoop k (params.addChild (some node)) q.advance := by
  rw [parseParamsLoop]
  simp [hs, consume_of_type hq]

/-- The loop of `parseParams` on a list of declarations separated by `;`: their nodes are
appended in order. -/
theorem parseParamsLoop_seq {p q : Parser} {nodes : List ASTNode}
    (hs : SepSeq DclnAt TOK_SEMICOLON p nodes q) :
    ∀ params : ASTNode, ∃ N, ∀ fuel, N ≤ fuel → parseParamsLoop fuel params p
      = some (ASTNode.mk params.nodeType (params.children ++ nodes) params.value, q) := by
  induction hs with
  | @one p q node h1 hq =>
    intro params
    obtain ⟨f0, hf0⟩ := h1
    refine ⟨f0 + 1, fun fuel hf => ?_⟩
    obtain ⟨k, rfl⟩ : ∃ k, fuel = k + 1 := ⟨fuel - 1, by omega⟩
    rw [parseParamsLoop_last k params node p q (parseDcln_mono hf0 (by omega)) hq]
    rfl
  | @more p m q node nodes h1 hm _ ih =>
    intro params
    obtain ⟨f0, hf0⟩ := h1
    obtain ⟨N, hN⟩ := ih (params.addChild (some node))
    refine ⟨max f0 N + 1, fun fuel hf => ?_⟩
    obtain ⟨k, rfl⟩ : ∃ k, fuel = k + 1 := ⟨fuel - 1, by omega⟩
    rw [parseParamsLoop_next k params node p m (parseDcln_mono hf0 (by omega)) hm,
      hN k (by omega)]
    simp [addChild_some_eq, ASTNode.nodeType, ASTNode.children, ASTNode.value]

/-- No declaration starts at `)`: there `parseDcln` finds no name and no `:`. -/
theorem dclnAt_not_rparen {p q : Parser} {node : ASTNode} (h : DclnAt p node q) :
    p.currentToken.type ≠ TOK_RPAREN := by
  intro hp
  obtain ⟨f, hf⟩ := h
  cases f with
  | zero => simp [parseDcln, parseDclnLoop] at hf
  | succ k =>
    have hn : parseName p = (none, p) := by simp [parseName, matchTok, hp]
    have hc : (p.consume TOK_COMMA) = (false, p) := consume_of_ne (by rw [hp]; decide)
    have hc2 : (p.consume TOK_COLON) = (false, p) := consume_of_ne (by rw [hp]; decide)
    simp [parseDcln, parseDclnLoop, hn, hc, hc2, ASTNode.addChild] at hf

/-- The parameter list: a `params` node with one child per declaration, in order. -/
theorem parseParams_at (p q : Parser) (vars : List ASTNode)
    (hs : SepSeq DclnAt TOK_SEMICOLON p vars q) :
    ∃ N, ∀ fuel, N ≤ fuel →
      parseParams fuel p = some (some (ASTNode.mk "params" vars ""), q) := by
  have h2 : p.currentToken.type ≠ TOK_RPAREN := by
    cases hs with
    | one h _ => exact dclnAt_not_rparen h
    | more h _ _ => exact dclnAt_not_rparen h
  obtain ⟨N, hN⟩ := parseParamsLoop_seq hs (ASTNode.new "params")
  refine ⟨N, fun fuel hf => ?_⟩
  simp only [parseParams, matchTok, h2, hN fuel hf]
  simp [ASTNode.new, ASTNode.nodeType, ASTNode.children, ASTNode.value]

/-- An empty parameter list: at `)` the `params` node has no child. -/
theorem parseParams_empty (fuel : Nat) (p : Parser) (h : p.currentToken.type = TOK_RPAREN) :
    parseParams fuel p = some (some (ASTNode.mk "params" [] ""), p) := by
  simp [parseParams, matchTok, h, ASTNode.new]

/-- Every node `parseDcln` returns is labeled `var`. -/
theorem dclnAt_nodeType {p q : Parser} {node : ASTNode} (h : DclnAt p node q) :
    node.nodeType = "var" := by
  obtain ⟨f, hf⟩ := h
  simp only [parseDcln] at hf
  split at hf
  · cases hf
  · next r hr =>
    have hl : ∀ (n : Nat) (v : ASTNode) (s : Parser) (x : ASTNode × Parser),
        parseDclnLoop n v s = some x → x.1.nodeType = v.nodeType := by
      intro n
      induction n with
      | zero => intro v s x hx; simp [parseDclnLoop] at hx
      | succ n ih =>
        intro v s x hx
        simp only [parseDclnLoop] at hx
        split at hx
        · rw [ih _ _ _ hx, nodeType_addChild]
        · cases hx
          rw [nodeType_addChild]
    split at hf
    · cases hf
    · cases hf
      rw [nodeType_addChild, hl _ _ _ _ hr]
      rfl

/-- A function declaration, part by part: the `fcn` node has the eight children name,
`params`, return type, `consts`, `types`, `dclns`, `block` and closing name, in this order. -/
theorem parseFcn_at (p q1 q2 q3 q4 q5 q6 q7 q8 : Parser)
    (name params ret consts types dclns block name2 : ASTNode)
    (h0 : p.currentToken.type = TOK_FUNCTION) (h1 : NameAt p.advance name q1)
    (h2 : q1.currentToken.type = TOK_LPAREN)
    (h3 : ∃ f, parseParams f q1.advance = some (some params, q2))
    (h4 : q2.currentToken.type = TOK_RPAREN) (h5 : q2.advance.currentToken.type = TOK_COLON)
    (h6 : NameAt q2.advance.advance ret q3) (h7 : q3.currentToken.type = TOK_SEMICOLON)
    (h8 : ∃ f, parseConsts f q3.advance = some (some consts, q4))
    (h9 : ∃ f, parseTypes f q4 = some (some types, q5))
    (h10 : ∃ f, parseDclns f q5 = some (some dclns, q6))
    (h11 : BodyAt q6 block q7) (h12 : NameAt q7 name2 q8)
    (h13 : q8.currentToken.type = TOK_SEMICOLON) :
    ∃ N, ∀ fuel, N ≤ fuel →
      parseFcn fuel p
        = some (some (ASTNode.mk "fcn"
            [name, params, ret, consts, types, dclns, block, name2] ""), q8.advance) := by
  obtain ⟨f3, e3⟩ := h3
  obtain ⟨f8, e8⟩ := h8
  obtain ⟨f9, e9⟩ := h9
  obtain ⟨f10, e10⟩ := h10
  obtain ⟨f11, e11⟩ := h11
  have e1 : parseName p.advance = (some name, q1) := h1
  have e6 : parseName q2.advance.advance = (some ret, q3) := h6
  have e12 : parseName q7 = (some name2, q8) := h12
  refine ⟨max (max (max f3 f8) (max f9 f10)) f11, fun fuel hf => ?_⟩
  simp only [parseFcn, consume_of_type h0, e1, consume_of_type h2,
    parseParams_mono e3 (show f3 ≤ fuel by omega), consume_of_type h4, consume_of_type h5, e6,
    consume_of_type h7, parseConsts_mono e8 (show f8 ≤ fuel by omega),
    parseTypes_mono e9 (show f9 ≤ fuel by omega),
    parseDclns_mono e10 (show f10 ≤ fuel by omega),
    parseBody_mono e11 (show f11 ≤ fuel by omega), e12, consume_of_type h13]
  simp [ASTNode.new, ASTNode.addChild, ASTNode.nodeType, ASTNode.children, ASTNode.value]

/-- Every result of `parseFcn` is a node labeled `fcn`. -/
theorem parseFcn_nodeType {fuel : Nat} {p : Parser} {r : Option ASTNode × Parser}
    (h : parseFcn fuel p = some r) : ∃ n, r.1 = some n ∧ n.nodeType = "fcn" := by
  simp only [parseFcn] at h
  split at h
  · cases h
  · split at h
    · cases h
    · split at h
      · cases h
      · split at h
        · cases h
        · split at h
          · cases h
          · cases h
            refine ⟨_, rfl, ?_⟩
            simp only [nodeType_addChild]
            rfl

/-- One iteration of the loop of `parseSubProgs`: at `function` the node of the declaration
is added and the loop goes on where the declaration ends. -/
theorem parseSubProgsLoop_next (k : Nat) (sub node : ASTNode) (p m : Parser)
    (hp : p.currentToken.type = TOK_FUNCTION) (hs : parseFcn k p = some (some node, m)) :
    parseSubProgsLoop (k + 1) sub p = parseSubProgsLoop k (sub.addChild (some node)) m := by
  rw [parseSubProgsLoop]
  simp [matchTok, hp, hs]

/-- The loop of `parseSubProgs` stops at the first token that is not `function`. -/
theorem parseSubProgsLoop_done (k : Nat) (sub : ASTNode) (p : Parser)
    (hp : p.currentToken.type ≠ TOK_FUNCTION) :
    parseSubProgsLoop (k + 1) sub p = some (sub, p) := by
  rw [parseSubProgsLoop]
  simp [matchTok, hp]

/-- The loop of `parseSubProgs` on a list of function declarations: one node per `function`
keyword, in order. -/
theorem parseSubProgsLoop_seq {p q : Parser} {nodes : List ASTNode} (hs : FcnSeq p nodes q) :
    ∀ sub : ASTNode, ∃ N, ∀ fuel, N ≤ fuel → parseSubProgsLoop fuel sub p
      = some (ASTNode.mk sub.nodeType (sub.children ++ nodes) sub.value, q) := by
  induction hs with
  | @done p hp =>
    intro sub
    refine ⟨1, fun fuel hf => ?_⟩
    obtain ⟨k, rfl⟩ : ∃ k, fuel = k + 1 := ⟨fuel - 1, by omega⟩
    rw [parseSubProgsLoop_done k sub p hp, List.append_nil]
    cases sub
    rfl
  | @more p m q node nodes hp h1 _ ih =>
    intro sub
    obtain ⟨f0, hf0⟩ := h1
    obtain ⟨N, hN⟩ := ih (sub.addChild (some node))
    refine ⟨max f0 N + 1, fun fuel hf => ?_⟩
    obtain ⟨k, rfl⟩ : ∃ k, fuel = k + 1 := ⟨fuel - 1, by omega⟩
    rw [parseSubProgsLoop_next k sub node p m hp (parseFcn_mono hf0 (by omega)),
      hN k (by omega)]
    simp [addChild_some_eq, ASTNode.nodeType, ASTNode.children, ASTNode.value]

/-- The function declarations of a program: a `subprogs` node with one child per `function`
keyword, in source order. -/
theorem parseSubProgs_at (p q : Parser) (nodes : List ASTNode) (hs : FcnSeq p nodes q) :
    ∃ N, ∀ fuel, N ≤ fuel →
      parseSubProgs fuel p = some (some (ASTNode.mk "subprogs" nodes ""), q) := by
  obtain ⟨N, hN⟩ := parseSubProgsLoop_seq hs (ASTNode.new "subprogs")
  refine ⟨N, fun fuel hf => ?_⟩
  simp only [parseSubProgs, hN fuel hf]
  simp [ASTNode.new, ASTNode.nodeType, ASTNode.children, ASTNode.value]

/-- Every node in a list of function declarations is labeled `fcn`. -/
theorem fcnSeq_labels {p q : Parser} {nodes : List ASTNode} (hs : FcnSeq p nodes q) :
    ∀ n ∈ nodes, n.nodeType = "fcn" := by
  induction hs with
  | done _ => intro n hn; cases hn
  | @more p m q node nodes _ h1 _ ih =>
    intro n hn
    rcases List.mem_cons.1 hn with rfl | hn
    · obtain ⟨f, hf⟩ := h1
      obtain ⟨x, hx, hl⟩ := parseFcn_nodeType hf
      cases hx
      exact hl
    · exact ih n hn

/-- The text of a function declaration with one parameter and an empty body. -/
theorem functionText_eq (f x t r g : List Char) :
    "function ".toList ++ f ++ "(".toList ++ x ++ ": ".toList ++ t ++ "): ".toList ++ r
        ++ "; begin end ".toList ++ g ++ ";".toList
      = "function".toList ++ ' ' :: (f ++ '(' :: (x ++ ':' :: ' ' :: (t ++ ')' :: ':' :: ' ' ::
          (r ++ ';' :: ' ' :: ("begin".toList ++ ' ' :: ("end".toList ++ ' ' ::
            (g ++ ';' :: []))))))) := by
  simp

/-- The text `function f(x: T): R; begin end g;` for names `f`, `x`, `g` and type names `T`,
`R`: the `fcn` node with its eight children, and the state after the closing `;`. -/
theorem fcnAt_text (f x t r g : List Char) (hf : isNameText f = true)
    (hx : isNameText x = true) (hg : isNameText g = true)
    (ht : isNameText t = true ∨ t = "integer".toList ∨ t = "boolean".toList)
    (hr : isNameText r = true ∨ r = "integer".toList ∨ r = "boolean".toList) (p : Parser)
    (hp : p.At TOK_FUNCTION "function"
      (' ' :: (f ++ '(' :: (x ++ ':' :: ' ' :: (t ++ ')' :: ':' :: ' ' ::
        (r ++ ';' :: ' ' :: ("begin".toList ++ ' ' :: ("end".toList ++ ' ' ::
          (g ++ ';' :: []))))))))) :
    ∃ q, FcnAt p (ASTNode.mk "fcn"
        [createIdentifierNode (String.mk f),
         ASTNode.mk "params" [ASTNode.mk "var"
           [createIdentifierNode (String.mk x), createIdentifierNode (String.mk t)] ""] "",
         createIdentifierNode (String.mk r), ASTNode.mk "consts" [] "",
         ASTNode.mk "types" [] "", ASTNode.mk "dclns" [] "", ASTNode.mk "block" [] "",
         createIdentifierNode (String.mk g)] "") q
      ∧ q.At TOK_EOF "" [] := by
  have b1 := hp.advance (LexTo.space (by decide) (lexTo_name f _ hf rfl))
  have b2 := b1.advance LexTo.lparen
  have b3 := b2.advance (lexTo_name x _ hx rfl)
  have b4 := b3.advance (LexTo.single (c := ':') isSingleCharToken_colon_space)
  obtain ⟨ty1, hty1, hl1⟩ := lexTo_typeName ht
    (r := ')' :: ':' :: ' ' :: (r ++ ';' :: ' ' :: ("begin".toList ++ ' ' :: ("end".toList
      ++ ' ' :: (g ++ ';' :: []))))) rfl
  have b5 := b4.advance (LexTo.space (by decide) hl1)
  have b6 := b5.advance LexTo.rparen
  have b7 := b6.advance (LexTo.single (c := ':') isSingleCharToken_colon_space)
  obtain ⟨ty2, hty2, hl2⟩ := lexTo_typeName hr
    (r := ';' :: ' ' :: ("begin".toList ++ ' ' :: ("end".toList ++ ' ' :: (g ++ ';' :: []))))
    rfl
  have b8 := b7.advance (LexTo.space (by decide) hl2)
  have b9 := b8.advance LexTo.semicolon
  have b10 := b9.advance (LexTo.space (by decide) (LexTo.identifier (p := "begin".toList)
    (r := ' ' :: ("end".toList ++ ' ' :: (g ++ ';' :: []))) (by decide) rfl))
  have b11 := b10.advance (LexTo.space (by decide) (LexTo.identifier (p := "end".toList)
    (r := ' ' :: (g ++ ';' :: [])) (by decide) rfl))
  have b12 := b11.advance (LexTo.space (by decide) (lexTo_name g _ hg rfl))
  have b13 := b12.advance LexTo.semicolon
  have b14 := b13.advance LexTo.eof
  have n1 : NameAt p.advance (createIdentifierNode (String.mk f)) p.advance.advance := by
    have := nameAt_of_type (s := p.advance) (Or.inl b1.1)
    rwa [b1.2.1] at this
  have n3 : NameAt p.advance.advance.advance (createIdentifierNode (String.mk x))
      p.advance.advance.advance.advance := by
    have := nameAt_of_type (s := p.advance.advance.advance) (Or.inl b3.1)
    rwa [b3.2.1] at this
  have n5 : NameAt p.advance.advance.advance.advance.advance
      (createIdentifierNode (String.mk t)) p.advance.advance.advance.advance.advance.advance := by
    have := nameAt_of_type (s := p.advance.advance.advance.advance.advance)
      (by rw [b5.1]; exact hty1)
    rwa [b5.2.1] at this
  have n8 : NameAt p.advance.advance.advance.advance.advance.advance.advance.advance
      (createIdentifierNode (String.mk r))
      p.advance.advance.advance.advance.advance.advance.advance.advance.advance := by
    have := nameAt_of_type (s := p.advance.advance.advance.advance.advance.advance.advance.advance)
      (by rw [b8.1]; exact hty2)
    rwa [b8.2.1] at this
  have n12 : NameAt
      p.advance.advance.advance.advance.advance.advance.advance.advance.advance.advance.advance.advance
      (createIdentifierNode (String.mk g))
      p.advance.advance.advance.advance.advance.advance.advance.advance.advance.advance.advance.advance.advance := by
    have := nameAt_of_type
      (s := p.advance.advance.advance.advance.advance.advance.advance.advance.advance.advance.advance.advance)
      (Or.inl b12.1)
    rwa [b12.2.1] at this
  have hd := dclnAt_of _ _ _ _ _ (SepSeq.one n3 (by rw [b4.1]; decide)) b4.1 n5
  obtain ⟨N, hN⟩ := parseParams_at _ _ _ (SepSeq.one hd (by rw [b6.1]; decide))
  obtain ⟨M, hM⟩ := parseFcn_at p _ _ _ _ _ _ _ _ _ _ _ _ _ _ _ _ hp.1 n1 b2.1
    ⟨N, hN N (Nat.le_refl _)⟩ b6.1 b7.1 n8 b9.1
    ⟨0, parseConsts_absent 0 _ (by rw [b10.1]; decide)⟩
    ⟨0, parseTypes_absent 0 _ (by rw [b10.1]; decide)⟩
    ⟨0, parseDclns_absent 0 _ (by rw [b10.1]; decide)⟩
    ⟨1, parseBody_empty 0 _ b10.1 b11.1⟩ n12 b13.1
  exact ⟨_, ⟨M, hM M (Nat.le_refl _)⟩, b14⟩

/-- The text `function f(x: T): R; begin end g;` read by `parseFcn` and by `parseSubProgs`. -/
theorem parseFcn_text (f x t r g : List Char) (hf : isNameText f = true)
    (hx : isNameText x = true) (hg : isNameText g = true)
    (ht : isNameText t = true ∨ t = "integer".toList ∨ t = "boolean".toList)
    (hr : isNameText r = true ∨ r = "integer".toList ∨ r = "boolean".toList) :
    ∃ N, ∀ fuel, N ≤ fuel →
      (parseFcn fuel (Parser.new ("function ".toList ++ f ++ "(".toList ++ x ++ ": ".toList ++ t
          ++ "): ".toList ++ r ++ "; begin end ".toList ++ g ++ ";".toList))).map (fun r => r.1)
        = some (some (ASTNode.mk "fcn"
            [createIdentifierNode (String.mk f),
             ASTNode.mk "params" [ASTNode.mk "var"
               [createIdentifierNode (String.mk x), createIdentifierNode (String.mk t)] ""] "",
             createIdentifierNode (String.mk r), ASTNode.mk "consts" [] "",
             ASTNode.mk "types" [] "", ASTNode.mk "dclns" [] "", ASTNode.mk "block" [] "",
             createIdentifierNode (String.mk g)] ""))
      ∧ (parseSubProgs fuel (Parser.new ("function ".toList ++ f ++ "(".toList ++ x
          ++ ": ".toList ++ t ++ "): ".toList ++ r ++ "; begin end ".toList ++ g
          ++ ";".toList))).map (fun r => r.1)
        = some (some (ASTNode.mk "subprogs" [ASTNode.mk "fcn"
            [createIdentifierNode (String.mk f),
             ASTNode.mk "params" [ASTNode.mk "var"
               [createIdentifierNode (String.mk x), createIdentifierNode (String.mk t)] ""] "",
             createIdentifierNode (String.mk r), ASTNode.mk "consts" [] "",
             ASTNode.mk "types" [] "", ASTNode.mk "dclns" [] "", ASTNode.mk "block" [] "",
             createIdentifierNode (String.mk g)] ""] "")) := by
  rw [functionText_eq]
  have b0 := new_at (LexTo.identifier (p := "function".toList)
    (r := ' ' :: (f ++ '(' :: (x ++ ':' :: ' ' :: (t ++ ')' :: ':' :: ' ' ::
        (r ++ ';' :: ' ' :: ("begin".toList ++ ' ' :: ("end".toList ++ ' ' ::
          (g ++ ';' :: [])))))))) (by decide) rfl)
  generalize Parser.new _ = p at b0 ⊢
  obtain ⟨q, hq, hat⟩ := fcnAt_text f x t r g hf hx hg ht hr p b0
  obtain ⟨f0, hf0⟩ := hq
  obtain ⟨N, hN⟩ := parseSubProgs_at p q _
    (FcnSeq.more b0.1 ⟨f0, hf0⟩ (FcnSeq.done (by rw [hat.1]; decide)))
  refine ⟨max f0 N, fun fuel hfuel => ⟨?_, ?_⟩⟩
  · rw [parseFcn_mono hf0 (by omega)]
    rfl
  · rw [hN fuel (by omega)]
    rfl

end Parser

namespace Parser

/-- Every node in a list of parameter declarations is labeled `var`. -/
theorem sepSeq_dcln_labels {p q : Parser} {nodes : List ASTNode}
    (hs : SepSeq DclnAt TOK_SEMICOLON p nodes q) : ∀ n ∈ nodes, n.nodeType = "var" := by
  induction hs with
  | one h _ =>
    intro n hn
    rw [List.mem_singleton.1 hn]
    exact dclnAt_nodeType h
  | more h _ _ ih =>
    intro n hn
    rcases List.mem_cons.1 hn with rfl | hn
    · exact dclnAt_nodeType h
    · exact ih n hn

end Parser

open Parser in
/-- Claim C33: function declarations.  Let the parser be at `function`, followed by a name, `(`,
a parameter list, `)`, `:`, the name of the return type, `;`, the constant, type and variable
sections, a body, the closing name and `;`.  Then `parseFcn` returns an `fcn` node with exactly
8 children in the order: wrapper of the name, `params`, wrapper of the return type, `consts`,
`types`, `dclns`, `block`, wrapper of the closing name.  The `params` node has one child per
parameter declaration, each labeled `var`, in order (declarations are separated by `;`), and
no child when `)` follows `(` at once.  `parseSubProgs` returns a `subprogs` node with one
child per `function` keyword at which its loop stands, each labeled `fcn`, in source order.
The text `function f(x: T): R; begin end g;` gives such an `fcn` node for all names `f`, `x`,
`g` and type names `T`, `R`. -/
theorem C33_function_declaration :
    (∀ (p q1 q2 q3 q4 q5 q6 q7 q8 : Parser)
        (name params ret consts types dclns block name2 : ASTNode),
      p.currentToken.type = TOK_FUNCTION → NameAt p.advance name q1 →
      q1.currentToken.type = TOK_LPAREN →
      (∃ f, parseParams f q1.advance = some (some params, q2)) →
      q2.currentToken.type = TOK_RPAREN → q2.advance.currentToken.type = TOK_COLON →
      NameAt q2.advance.advance ret q3 → q3.currentToken.type = TOK_SEMICOLON →
      (∃ f, parseConsts f q3.advance = some (some consts, q4)) →
      (∃ f, parseTypes f q4 = some (some types, q5)) →
      (∃ f, parseDclns f q5 = some (some dclns, q6)) →
      BodyAt q6 block q7 → NameAt q7 name2 q8 → q8.currentToken.type = TOK_SEMICOLON →
      (∃ N, ∀ fuel, N ≤ fuel →
        parseFcn fuel p
          = some (some (ASTNode.mk "fcn"
              [name, params, ret, consts, types, dclns, block, name2] ""), q8.advance))
      ∧ (ASTNode.mk "fcn"
          [name, params, ret, consts, types, dclns, block, name2] "").children.length = 8)
    ∧ (∀ (p q : Parser) (vars : List ASTNode), SepSeq DclnAt TOK_SEMICOLON p vars q →
      (∃ N, ∀ fuel, N ≤ fuel →
        parseParams fuel p = some (some (ASTNode.mk "params" vars ""), q))
      ∧ ∀ n ∈ vars, n.nodeType = "var")
    ∧ (∀ (p : Parser) (fuel : Nat), p.currentToken.type = TOK_RPAREN →
      parseParams fuel p = some (some (ASTNode.mk "params" [] ""), p))
    ∧ (∀ (p q : Parser) (nodes : List ASTNode), FcnSeq p nodes q →
      (∃ N, ∀ fuel, N ≤ fuel →
        parseSubProgs fuel p = some (some (ASTNode.mk "subprogs" nodes ""), q))
      ∧ ∀ n ∈ nodes, n.nodeType = "fcn")
    ∧ (∀ (f x t r g : List Char), isNameText f = true → isNameText x = true →
      isNameText g = true →
      (isNameText t = true ∨ t = "integer".toList ∨ t = "boolean".toList) →
      (isNameText r = true ∨ r = "integer".toList ∨ r = "boolean".toList) →
      ∃ N, ∀ fuel, N ≤ fuel →
        (parseFcn fuel (Parser.new ("function ".toList ++ f ++ "(".toList ++ x ++ ": ".toList
            ++ t ++ "): ".toList ++ r ++ "; begin end ".toList ++ g ++ ";".toList))).map
            (fun r => r.1)
          = some (some (ASTNode.mk "fcn"
              [createIdentifierNode (String.mk f),
               ASTNode.mk "params" [ASTNode.mk "var"
                 [createIdentifierNode (String.mk x), createIdentifierNode (String.mk t)] ""] "",
               createIdentifierNode (String.mk r), ASTNode.mk "consts" [] "",
               ASTNode.mk "types" [] "", ASTNode.mk "dclns" [] "", ASTNode.mk "block" [] "",
               createIdentifierNode (String.mk g)] ""))
        ∧ (parseSubProgs fuel (Parser.new ("function ".toList ++ f ++ "(".toList ++ x
            ++ ": ".toList ++ t ++ "): ".toList ++ r ++ "; begin end ".toList ++ g
            ++ ";".toList))).map (fun r => r.1)
          = some (some (ASTNode.mk "subprogs" [ASTNode.mk "fcn"
              [createIdentifierNode (String.mk f),
               ASTNode.mk "params" [ASTNode.mk "var"
                 [createIdentifierNode (String.mk x), createIdentifierNode (String.mk t)] ""] "",
               createIdentifierNode (String.mk r), ASTNode.mk "consts" [] "",
               ASTNode.mk "types" [] "", ASTNode.mk "dclns" [] "", ASTNode.mk "block" [] "",
               createIdentifierNode (String.mk g)] ""] "")))
    ∧ (parseSubProgs 6 (Parser.new "function f(x: integer): integer; begin end f; function g(a, b: integer; c: boolean): boolean; begin end g; begin".toList)).map (fun r => r.1)
        = some (some (ASTNode.mk "subprogs"
          [ASTNode.mk "fcn"
            [ASTNode.mk "<identifier>" [ASTNode.mk "f" [] ""] "",
             ASTNode.mk "params" [ASTNode.mk "var" [ASTNode.mk "<identifier>" [ASTNode.mk "x" [] ""] "", ASTNode.mk "<identifier>" [ASTNode.mk "integer" [] ""] ""] ""] "",
             ASTNode.mk "<identifier>" [ASTNode.mk "integer" [] ""] "", ASTNode.mk "consts" [] "",
             ASTNode.mk "types" [] "", ASTNode.mk "dclns" [] "", ASTNode.mk "block" [] "",
             ASTNode.mk "<identifier>" [ASTNode.mk "f" [] ""] ""] "",
           ASTNode.mk "fcn"
            [ASTNode.mk "<identifier>" [ASTNode.mk "g" [] ""] "",
             ASTNode.mk "params" [ASTNode.mk "var" [ASTNode.mk "<identifier>" [ASTNode.mk "a" [] ""] "", ASTNode.mk "<identifier>" [ASTNode.mk "b" [] ""] "", ASTNode.mk "<identifier>" [ASTNode.mk "integer" [] ""] ""] "",
               ASTNode.mk "var" [ASTNode.mk "<identifier>" [ASTNode.mk "c" [] ""] "", ASTNode.mk "<identifier>" [ASTNode.mk "boolean" [] ""] ""] ""] "",
             ASTNode.mk "<identifier>" [ASTNode.mk "boolean" [] ""] "", ASTNode.mk "consts" [] "",
             ASTNode.mk "types" [] "", ASTNode.mk "dclns" [] "", ASTNode.mk "block" [] "",
             ASTNode.mk "<identifier>" [ASTNode.mk "g" [] ""] ""] ""] "")) :=
  ⟨fun p q1 q2 q3 q4 q5 q6 q7 q8 name params ret consts types dclns block name2
      h0 h1 h2 h3 h4 h5 h6 h7 h8 h9 h10 h11 h12 h13 =>
      ⟨parseFcn_at p q1 q2 q3 q4 q5 q6 q7 q8 name params ret consts types dclns block name2
        h0 h1 h2 h3 h4 h5 h6 h7 h8 h9 h10 h11 h12 h13, rfl⟩,
   fun p q vars hs => ⟨parseParams_at p q vars hs, sepSeq_dcln_labels hs⟩,
   fun p fuel h => parseParams_empty fuel p h,
   fun p q nodes hs => ⟨parseSubProgs_at p q nodes hs, fcnSeq_labels hs⟩,
   fun f x t r g hf hx hg ht hr => parseFcn_text f x t r g hf hx hg ht hr,
   by rfl⟩

open Parser in
theorem C33_function_declaration_witness :
    ((∃ N, ∀ fuel, N ≤ fuel →
        parseFcn fuel (Parser.new "function f(x: integer): integer; begin end f;".toList)
          = some (some (ASTNode.mk "fcn"
            [ASTNode.mk "<identifier>" [ASTNode.mk "f" [] ""] "",
             ASTNode.mk "params" [ASTNode.mk "var" [ASTNode.mk "<identifier>" [ASTNode.mk "x" [] ""] "", ASTNode.mk "<identifier>" [ASTNode.mk "integer" [] ""] ""] ""] "",
             ASTNode.mk "<identifier>" [ASTNode.mk "integer" [] ""] "", ASTNode.mk "consts" [] "",
             ASTNode.mk "types" [] "", ASTNode.mk "dclns" [] "", ASTNode.mk "block" [] "",
             ASTNode.mk "<identifier>" [ASTNode.mk "f" [] ""] ""] ""),
              (Parser.new "function f(x: integer): integer; begin end f;".toList).advance.advance.advance.advance.advance.advance.advance.advance.advance.advance.advance.advance.advance.advance))
      ∧ (ASTNode.mk "fcn"
            [ASTNode.mk "<identifier>" [ASTNode.mk "f" [] ""] "",
             ASTNode.mk "params" [ASTNode.mk "var" [ASTNode.mk "<identifier>" [ASTNode.mk "x" [] ""] "", ASTNode.mk "<identifier>" [ASTNode.mk "integer" [] ""] ""] ""] "",
             ASTNode.mk "<identifier>" [ASTNode.mk "integer" [] ""] "", ASTNode.mk "consts" [] "",
             ASTNode.mk "types" [] "", ASTNode.mk "dclns" [] "", ASTNode.mk "block" [] "",
             ASTNode.mk "<identifier>" [ASTNode.mk "f" [] ""] ""] "").children.length = 8)
    ∧ ((∃ N, ∀ fuel, N ≤ fuel →
        parseParams fuel (Parser.new "function f(x: integer): integer; begin end f;".toList).advance.advance.advance
          = some (some (ASTNode.mk "params" [ASTNode.mk "var" [ASTNode.mk "<identifier>" [ASTNode.mk "x" [] ""] "", ASTNode.mk "<identifier>" [ASTNode.mk "integer" [] ""] ""] ""] ""),
              (Parser.new "function f(x: integer): integer; begin end f;".toList).advance.advance.advance.advance.advance.advance))
      ∧ ∀ n ∈ [ASTNode.mk "var" [ASTNode.mk "<identifier>" [ASTNode.mk "x" [] ""] "", ASTNode.mk "<identifier>" [ASTNode.mk "integer" [] ""] ""] ""], n.nodeType = "var")
    ∧ parseParams 0 (Parser.new "function f(x: integer): integer; begin end f;".toList).advance.advance.advance.advance.advance.advance
        = some (some (ASTNode.mk "params" [] ""), (Parser.new "function f(x: integer): integer; begin end f;".toList).advance.advance.advance.advance.advance.advance)
    ∧ ((∃ N, ∀ fuel, N ≤ fuel →
        parseSubProgs fuel (Parser.new "function f(x: integer): integer; begin end f;".toList)
          = some (some (ASTNode.mk "subprogs" [ASTNode.mk "fcn"
            [ASTNode.mk "<identifier>" [ASTNode.mk "f" [] ""] "",
             ASTNode.mk "params" [ASTNode.mk "var" [ASTNode.mk "<identifier>" [ASTNode.mk "x" [] ""] "", ASTNode.mk "<identifier>" [ASTNode.mk "integer" [] ""] ""] ""] "",
             ASTNode.mk "<identifier>" [ASTNode.mk "integer" [] ""] "", ASTNode.mk "consts" [] "",
             ASTNode.mk "types" [] "", ASTNode.mk "dclns" [] "", ASTNode.mk "block" [] "",
             ASTNode.mk "<identifier>" [ASTNode.mk "f" [] ""] ""] ""] ""),
              (Parser.new "function f(x: integer): integer; begin end f;".toList).advance.advance.advance.advance.advance.advance.advance.advance.advance.advance.advance.advance.advance.advance))
      ∧ ∀ n ∈ [ASTNode.mk "fcn"
            [ASTNode.mk "<identifier>" [ASTNode.mk "f" [] ""] "",
             ASTNode.mk "params" [ASTNode.mk "var" [ASTNode.mk "<identifier>" [ASTNode.mk "x" [] ""] "", ASTNode.mk "<identifier>" [ASTNode.mk "integer" [] ""] ""] ""] "",
             ASTNode.mk "<identifier>" [ASTNode.mk "integer" [] ""] "", ASTNode.mk "consts" [] "",
             ASTNode.mk "types" [] "", ASTNode.mk "dclns" [] "", ASTNode.mk "block" [] "",
             ASTNode.mk "<identifier>" [ASTNode.mk "f" [] ""] ""] ""], n.nodeType = "fcn")
    ∧ (∃ N, ∀ fuel, N ≤ fuel →
        (parseFcn fuel (Parser.new ("function ".toList ++ "f".toList ++ "(".toList
            ++ "x".toList ++ ": ".toList ++ "integer".toList ++ "): ".toList
            ++ "boolean".toList ++ "; begin end ".toList ++ "f".toList ++ ";".toList))).map
            (fun r => r.1)
          = some (some (ASTNode.mk "fcn"
              [createIdentifierNode (String.mk "f".toList),
               ASTNode.mk "params" [ASTNode.mk "var"
                 [createIdentifierNode (String.mk "x".toList),
                  createIdentifierNode (String.mk "integer".toList)] ""] "",
               createIdentifierNode (String.mk "boolean".toList), ASTNode.mk "consts" [] "",
               ASTNode.mk "types" [] "", ASTNode.mk "dclns" [] "", ASTNode.mk "block" [] "",
               createIdentifierNode (String.mk "f".toList)] ""))
        ∧ (parseSubProgs fuel (Parser.new ("function ".toList ++ "f".toList ++ "(".toList
            ++ "x".toList ++ ": ".toList ++ "integer".toList ++ "): ".toList
            ++ "boolean".toList ++ "; begin end ".toList ++ "f".toList ++ ";".toList))).map
            (fun r => r.1)
          = some (some (ASTNode.mk "subprogs" [ASTNode.mk "fcn"
              [createIdentifierNode (String.mk "f".toList),
               ASTNode.mk "params" [ASTNode.mk "var"
                 [createIdentifierNode (String.mk "x".toList),
                  createIdentifierNode (String.mk "integer".toList)] ""] "",
               createIdentifierNode (String.mk "boolean".toList), ASTNode.mk "consts" [] "",
               ASTNode.mk "types" [] "", ASTNode.mk "dclns" [] "", ASTNode.mk "block" [] "",
               createIdentifierNode (String.mk "f".toList)] ""] ""))) :=
  ⟨C33_function_declaration.1 (Parser.new "function f(x: integer): integer; begin end f;".toList)
      (Parser.new "function f(x: integer): integer; begin end f;".toList).advance.advance
      (Parser.new "function f(x: integer): integer; begin end f;".toList).advance.advance.advance.advance.advance.advance
      (Parser.new "function f(x: integer): integer; begin end f;".toList).advance.advance.advance.advance.advance.advance.advance.advance.advance
      (Parser.new "function f(x: integer): integer; begin end f;".toList).advance.advance.advance.advance.advance.advance.advance.advance.advance.advance
      (Parser.new "function f(x: integer): integer; begin end f;".toList).advance.advance.advance.advance.advance.advance.advance.advance.advance.advance
      (Parser.new "function f(x: integer): integer; begin end f;".toList).advance.advance.advance.advance.advance.advance.advance.advance.advance.advance
      (Parser.new "function f(x: integer): integer; begin end f;".toList).advance.advance.advance.advance.advance.advance.advance.advance.advance.advance.advance.advance
      (Parser.new "function f(x: integer): integer; begin end f;".toList).advance.advance.advance.advance.advance.advance.advance.advance.advance.advance.advance.advance.advance _ _ _ _ _ _ _ _
      (by decide) rfl (by decide) ⟨3, rfl⟩ (by decide) (by decide) rfl (by decide) ⟨0, rfl⟩
      ⟨0, rfl⟩ ⟨0, rfl⟩ ⟨1, rfl⟩ rfl (by decide),
   C33_function_declaration.2.1 (Parser.new "function f(x: integer): integer; begin end f;".toList).advance.advance.advance
      (Parser.new "function f(x: integer): integer; begin end f;".toList).advance.advance.advance.advance.advance.advance _
      (SepSeq.one ⟨1, rfl⟩ (by decide)),
   C33_function_declaration.2.2.1 (Parser.new "function f(x: integer): integer; begin end f;".toList).advance.advance.advance.advance.advance.advance 0 (by decide),
   C33_function_declaration.2.2.2.1 (Parser.new "function f(x: integer): integer; begin end f;".toList)
      (Parser.new "function f(x: integer): integer; begin end f;".toList).advance.advance.advance.advance.advance.advance.advance.advance.advance.advance.advance.advance.advance.advance _
      (FcnSeq.more (m := (Parser.new "function f(x: integer): integer; begin end f;".toList).advance.advance.advance.advance.advance.advance.advance.advance.advance.advance.advance.advance.advance.advance) (by decide) ⟨3, rfl⟩ (FcnSeq.done (by decide))),
   C33_function_declaration.2.2.2.2.1 "f".toList "x".toList "integer".toList
      "boolean".toList "f".toList (by decide) (by decide) (by decide) (Or.inr (Or.inl rfl))
      (Or.inr (Or.inr rfl))⟩

open TokenType

/-! ## Token positions -/

namespace Lexer

theorem posOK_new (input : List Char) : PosOK (Lexer.new input) := by
  simp [PosOK, Lexer.new, specLine, specColumn]

theorem take_succ_of_rest {l : Lexer} {c : Char} {cs : List Char} (h : l.rest = c :: cs) :
    l.input.take (l.pos + 1) = l.input.take l.pos ++ [c] := by
  have hlt : l.pos < l.input.length := by rw [pos_lt_iff, h]; simp
  rw [List.take_succ]
  congr 1
  have : l.input[l.pos]? = some c := by
    have := congrArg List.head? h
    simpa [rest, List.head?_drop] using this
  rw [this]
  rfl

/-- The spec's line and column after a line break: the next line, column 1. -/
theorem spec_after_newline {l : Lexer} {cs : List Char} (h : l.rest = '\n' :: cs) :
    specLine l.input (l.pos + 1) = specLine l.input l.pos + 1
      ∧ specColumn l.input (l.pos + 1) = 1 := by
  simp [specLine, specColumn, take_succ_of_rest h, List.count_append]
  omega

/-- The spec's line and column after any other character: the same line, the next column. -/
theorem spec_after_char {l : Lexer} {c : Char} {cs : List Char} (h : l.rest = c :: cs)
    (hc : c ≠ '\n') :
    specLine l.input (l.pos + 1) = specLine l.input l.pos
      ∧ specColumn l.input (l.pos + 1) = specColumn l.input l.pos + 1 := by
  have hcount : List.count '\n' [c] = 0 := by
    simp [List.count_singleton, hc]
  simp [specLine, specColumn, take_succ_of_rest h, List.count_append, hcount,
    List.takeWhile_cons, hc]
  omega

/-- Member `advance` keeps the position invariant. -/
theorem posOK_advance {l : Lexer} (h : PosOK l) : PosOK l.advance.2 := by
  obtain ⟨h1, h2, h3⟩ := h
  cases hr : l.rest with
  | nil => rw [advance_of_rest_nil hr]; exact ⟨h1, h2, h3⟩
  | cons c cs =>
    have hlt : l.pos < l.input.length := by rw [pos_lt_iff, hr]; simp
    by_cases hc : c = '\n'
    · subst hc
      have hadv : l.advance.2 = ⟨l.input, l.pos + 1, l.line + 1, 1⟩ := by
        have hg : l.input.getD l.pos '\x00' = '\n' := by
          have := advance_fst_of_rest hr
          simp only [advance] at this
          rw [if_neg (by omega)] at this
          by_cases hn : l.input.getD l.pos '\x00' = '\n'
          · exact hn
          · simp only [hn, if_false] at this
        simp only [advance]
        rw [if_neg (by omega)]
        simp only [hg, if_true]
      obtain ⟨e1, e2⟩ := spec_after_newline hr
      rw [hadv]
      exact ⟨hlt, by show l.line + 1 = _; rw [e1, h2], by show (1 : Int) = _; rw [e2]⟩
    · obtain ⟨e1, e2⟩ := spec_after_char hr hc
      rw [advance_of_rest_ne_newline hr hc]
      exact ⟨hlt, by show l.line = _; rw [e1, h2], by show l.column + 1 = _; rw [e2, h3]⟩

/-- Any number of calls of `advance` keeps the position invariant. -/
theorem posOK_skip (k : Nat) : ∀ {l : Lexer}, PosOK l → PosOK (l.skip k) := by
  induction k with
  | zero => intro l h; exact h
  | succ k ih => intro l h; exact ih (posOK_advance h)

/-- Two characters that are no line breaks follow the cursor when the first is `a` and `peek 1`
is `b`. -/
theorem rest_two_of_peek {l : Lexer} {a b : Char} {cs : List Char} (h : l.rest = a :: cs)
    (hp : l.peek 1 = b) (hb : b ≠ '\x00') : ∃ r, l.rest = a :: b :: r := by
  rw [peek_one_of_rest h] at hp
  cases cs with
  | nil => exact absurd hp.symm hb
  | cons x r =>
    simp only [List.headD_cons] at hp
    exact ⟨r, by rw [h, hp]⟩

/-- The token of an operator of two characters: its position is the one of the state before
the two calls of `advance`. -/
theorem two_char_position {l : Lexer} {a b : Char} {cs : List Char} (h : l.rest = a :: cs)
    (hp : l.peek 1 = b) (ha : a ≠ '\n') (hb : b ≠ '\n') (hb0 : b ≠ '\x00') :
    l.advance.2.advance.2.line = l.line ∧ l.advance.2.advance.2.column - 2 = l.column := by
  obtain ⟨r, hr⟩ := rest_two_of_peek h hp hb0
  rw [skip_two, skip_two_eq hr ha hb]
  simp

/-- Every token read by `scanToken` carries the line and column of the state in which the scan
starts, the operators of several characters included. -/
theorem scanToken_position {l : Lexer} {c : Char} {cs : List Char} (h : l.rest = c :: cs) :
    l.scanToken.1.line = l.line ∧ l.scanToken.1.column = l.column := by
  unfold scanToken
  simp only [peek_zero_of_rest h]
  by_cases h1 : c = '\n'
  · rw [if_pos h1]; exact ⟨rfl, rfl⟩
  rw [if_neg h1]
  by_cases h2 : (isalpha c || decide (c = '_')) = true
  · rw [if_pos h2]; exact ⟨rfl, rfl⟩
  rw [if_neg h2]
  by_cases h3 : isdigit c = true
  · rw [if_pos h3]; exact ⟨rfl, rfl⟩
  rw [if_neg h3]
  by_cases h4 : c = '\''
  · rw [if_pos h4]
    unfold readChar
    simp only
    split_ifs <;> exact ⟨rfl, rfl⟩
  rw [if_neg h4]
  by_cases h5 : c = '"'
  · rw [if_pos h5]
    unfold readString
    simp only
    split_ifs <;> exact ⟨rfl, rfl⟩
  rw [if_neg h5]
  by_cases h6 : (decide (c = ':') && decide (l.peek 1 = '=')) = true
  · rw [if_pos h6]
    simp only [Bool.and_eq_true, decide_eq_true_eq] at h6
    obtain ⟨rfl, hp⟩ := h6
    obtain ⟨r, hr⟩ := rest_two_of_peek h hp (by decide)
    by_cases h7 : l.peek 2 = ':'
    · rw [if_pos h7]
      rw [peek_two_of_rest hr] at h7
      cases r with
      | nil => exact absurd h7 (by decide)
      | cons x r2 =>
        simp only [List.headD_cons] at h7
        subst h7
        simp only [skip_three, skip_three_eq hr (by decide) (by decide) (by decide)]
        simp
    · rw [if_neg h7]
      exact two_char_position h hp (by decide) (by decide) (by decide)
  rw [if_neg h6]
  by_cases h8 : (decide (c = '<') && decide (l.peek 1 = '=')) = true
  · rw [if_pos h8]
    simp only [Bool.and_eq_true, decide_eq_true_eq] at h8
    obtain ⟨rfl, hp⟩ := h8
    exact two_char_position h hp (by decide) (by decide) (by decide)
  rw [if_neg h8]
  by_cases h9 : (decide (c = '>') && decide (l.peek 1 = '=')) = true
  · rw [if_pos h9]
    simp only [Bool.and_eq_true, decide_eq_true_eq] at h9
    obtain ⟨rfl, hp⟩ := h9
    exact two_char_position h hp (by decide) (by decide) (by decide)
  rw [if_neg h9]
  by_cases h10 : (decide (c = '<') && decide (l.peek 1 = '>')) = true
  · rw [if_pos h10]
    simp only [Bool.and_eq_true, decide_eq_true_eq] at h10
    obtain ⟨rfl, hp⟩ := h10
    exact two_char_position h hp (by decide) (by decide) (by decide)
  rw [if_neg h10]
  by_cases h11 : (decide (c = '.') && decide (l.peek 1 = '.')) = true
  · rw [if_pos h11]
    simp only [Bool.and_eq_true, decide_eq_true_eq] at h11
    obtain ⟨rfl, hp⟩ := h11
    exact two_char_position h hp (by decide) (by decide) (by decide)
  rw [if_neg h11]
  exact ⟨rfl, rfl⟩

/-- The loop of `nextToken` and the loop that returns the start state run in step: the token
is the end-of-input token at the start state when no character is left there, and the token
`scanToken` reads from the start state otherwise. -/
theorem nextTokenLoop_start : ∀ (fuel : Nat) (l : Lexer), l.rest.length < fuel →
    (∃ k, tokenStartLoop fuel l = l.skip k)
    ∧ ((tokenStartLoop fuel l).rest = [] →
        nextTokenLoop fuel l
          = (⟨TOK_EOF, "", (tokenStartLoop fuel l).line, (tokenStartLoop fuel l).column⟩,
              tokenStartLoop fuel l))
    ∧ ((tokenStartLoop fuel l).rest ≠ [] →
        nextTokenLoop fuel l = (tokenStartLoop fuel l).scanToken
        ∧ (isspace ((tokenStartLoop fuel l).peek 0)
            && (tokenStartLoop fuel l).peek 0 != '\n') = false
        ∧ (tokenStartLoop fuel l).peek 0 ≠ '#' ∧ (tokenStartLoop fuel l).peek 0 ≠ '\x7b') := by
  intro fuel
  induction fuel with
  | zero => intro l h; omega
  | succ f ih =>
    intro l hlen
    rw [nextTokenLoop, tokenStartLoop]
    by_cases hlt : l.pos < l.input.length
    · rw [if_pos hlt, if_pos hlt]
      by_cases hge : l.skipWhitespace.pos ≥ l.skipWhitespace.input.length
      · simp only [hge, if_true]
        refine ⟨⟨_, skipWhitespace_eq l⟩, fun _ => trivial, fun hne => ?_⟩
        exact absurd ((rest_eq_nil_iff _).2 hge) hne
      · simp only [hge, if_false]
        by_cases hc : (decide (l.skipWhitespace.peek 0 = '#')
            || decide (l.skipWhitespace.peek 0 = '\x7b')) = true
        · rw [if_pos hc, if_pos hc]
          have h3 := skipComment_rest_lt hge hc
          have h4 := skipWhitespace_rest_le l
          obtain ⟨⟨k3, hk3⟩, ihA, ihB⟩ := ih l.skipWhitespace.skipComment (by omega)
          have hc2 : l.skipWhitespace.peek 0 = '#' ∨ l.skipWhitespace.peek 0 = '\x7b' := by
            simpa using hc
          obtain ⟨k2, _, he2⟩ := skipComment_spec (rest_of_pos_lt hge) hc2
          refine ⟨⟨(l.rest.takeWhile (fun c => isspace c && c != '\n')).length + k2 + k3, ?_⟩,
            ihA, ihB⟩
          rw [hk3, he2, skipWhitespace_eq, skip_add, skip_add, Nat.add_assoc]
        · rw [if_neg hc, if_neg hc]
          refine ⟨⟨_, skipWhitespace_eq l⟩, fun hnil => ?_, fun _ => ⟨rfl, ?_, ?_, ?_⟩⟩
          · exact absurd ((rest_eq_nil_iff _).1 hnil) (by omega)
          · have hidem := skipWhitespace_idem l
            have hr := rest_of_pos_lt hge
            by_contra hsp
            have hsp2 : (isspace (l.skipWhitespace.peek 0)
                && l.skipWhitespace.peek 0 != '\n') = true := by
              simpa using hsp
            have := skipWhitespace_space hr hsp2
            rw [hidem] at this
            have hlen2 := congrArg (fun x => x.rest.length) this
            simp only [rest_skip_length] at hlen2
            have hpos : 0 < l.skipWhitespace.rest.length := by rw [hr]; simp
            have hle := skipWhitespace_rest_le (l.skipWhitespace.skip 1)
            rw [rest_skip_length] at hle
            omega
          · intro he; simp [he] at hc
          · intro he; simp [he] at hc
    · rw [if_neg hlt, if_neg hlt]
      refine ⟨⟨0, rfl⟩, fun _ => rfl, fun hne => ?_⟩
      exact absurd ((rest_eq_nil_iff _).2 (by omega)) hne

/-- Member `nextToken` and the start state of its token. -/
theorem nextToken_start (l : Lexer) :
    (∃ k, l.tokenStart = l.skip k)
    ∧ (l.tokenStart.rest = [] →
        l.nextToken = (⟨TOK_EOF, "", l.tokenStart.line, l.tokenStart.column⟩, l.tokenStart))
    ∧ (l.tokenStart.rest ≠ [] →
        l.nextToken = l.tokenStart.scanToken
        ∧ (isspace (l.tokenStart.peek 0) && l.tokenStart.peek 0 != '\n') = false
        ∧ l.tokenStart.peek 0 ≠ '#' ∧ l.tokenStart.peek 0 ≠ '\x7b') := by
  have h := nextTokenLoop_start (l.input.length - l.pos + 1) l (by rw [rest_length]; omega)
  exact h

theorem posOK_skipWhitespace {l : Lexer} (h : PosOK l) : PosOK l.skipWhitespace := by
  rw [skipWhitespace_eq]
  exact posOK_skip _ h

theorem posOK_skipComment {l : Lexer} (h : PosOK l) : PosOK l.skipComment := by
  cases hr : l.rest with
  | nil =>
    have hp : l.peek 0 = '\x00' := by rw [peek_eq, hr]; rfl
    have : l.skipComment = l := by
      unfold skipComment
      rw [hp]
      rfl
    rw [this]
    exact h
  | cons c cs =>
    by_cases hc : c = '#' ∨ c = '\x7b'
    · obtain ⟨k, _, hk⟩ := skipComment_spec hr hc
      rw [hk]
      exact posOK_skip _ h
    · have : l.skipComment = l := by
        unfold skipComment
        rw [peek_zero_of_rest hr]
        simp only [not_or] at hc
        simp [hc.1, hc.2]
      rw [this]
      exact h

theorem posOK_nextToken {l : Lexer} (h : PosOK l) : PosOK l.nextToken.2 := by
  obtain ⟨k, hk, _⟩ := nextToken_spec _ l rfl
  rw [hk]
  exact posOK_skip _ h

/-- Every state reached from the start of the input by calls of `nextToken` satisfies the
position invariant. -/
theorem posOK_iterate (input : List Char) (n : Nat) :
    PosOK (Nat.iterate (fun l : Lexer => l.nextToken.2) n (Lexer.new input)) := by
  have key : ∀ (n : Nat) (l : Lexer), PosOK l →
      PosOK (Nat.iterate (fun l : Lexer => l.nextToken.2) n l) := by
    intro n
    induction n with
    | zero => intro l h; exact h
    | succ n ih => intro l h; exact ih _ (posOK_nextToken h)
  exact key n _ (posOK_new input)

/-- The token returned by `nextToken` carries the line and column of its start offset. -/
theorem nextToken_position {l : Lexer} (h : PosOK l) :
    l.nextToken.1.line = specLine l.input l.tokenStart.pos
    ∧ l.nextToken.1.column = specColumn l.input l.tokenStart.pos
    ∧ l.pos ≤ l.tokenStart.pos ∧ l.tokenStart.pos ≤ l.nextToken.2.pos
    ∧ (l.nextToken.1.type ≠ TOK_EOF → l.tokenStart.pos < l.nextToken.2.pos) := by
  obtain ⟨⟨k, hk⟩, hA, hB⟩ := nextToken_start l
  have hs : PosOK l.tokenStart := by rw [hk]; exact posOK_skip _ h
  have hin : l.tokenStart.input = l.input := by rw [hk, skip_input]
  have hle : l.pos ≤ l.tokenStart.pos := by rw [hk]; exact (skip_pos_le k l h.1).1
  obtain ⟨s1, s2, s3⟩ := hs
  rw [hin] at s2 s3
  by_cases hr : l.tokenStart.rest = []
  · rw [hA hr]
    exact ⟨s2, s3, hle, Nat.le_refl _, fun hne => absurd rfl hne⟩
  · obtain ⟨e, _, _, _⟩ := hB hr
    cases hrest : l.tokenStart.rest with
    | nil => exact absurd hrest hr
    | cons c cs =>
      obtain ⟨p1, p2⟩ := scanToken_position hrest
      obtain ⟨_, j, hj, hj2⟩ := scanToken_spec hrest
      have hlt : l.tokenStart.pos < (l.tokenStart.skip j).pos :=
        skip_pos_lt hj ((pos_lt_iff _).2 hr)
      rw [e, p1, p2, hj2]
      exact ⟨s2, s3, hle, Nat.le_of_lt hlt, fun _ => hlt⟩

end Lexer

open Lexer in
/-- Claim C35: token positions.  Write `specLine input k` for 1 plus the number of line breaks
among the first `k` characters and `specColumn input k` for 1 plus the number of characters
between the last line break before offset `k` (or the start of the input) and offset `k`.  The
invariant `PosOK` (the fields `line`, `column` are `specLine`, `specColumn` of the cursor
offset) holds of the initial state and is kept by `advance`, by any number of calls of it, by
`skipWhitespace`, `skipComment` and `nextToken`, hence in every state reached by calls of
`nextToken`.  In such a state the token `nextToken` returns, of any kind, carries
`specLine` and `specColumn` of its start offset: the cursor of the state `tokenStart`, reached
after white space and comments, where the token is the end-of-input token if no character is
left and the token `scanToken` reads there otherwise; `scanToken` gives every token, also an
operator of several characters, the line and column of the state it starts from.  For
`x :=`, line break, two blanks, a string over two lines, ` <= 1` the tokens are at (1,1), (1,3),
(1,5), (2,3), (3,4), (3,7) and the end of input at (3,8). -/
theorem C35_token_positions :
    (∀ input : List Char, PosOK (Lexer.new input))
    ∧ (∀ l : Lexer, PosOK l →
      PosOK l.advance.2 ∧ (∀ k, PosOK (l.skip k)) ∧ PosOK l.skipWhitespace
        ∧ PosOK l.skipComment ∧ PosOK l.nextToken.2)
    ∧ (∀ (input : List Char) (n : Nat),
      PosOK (Nat.iterate (fun l : Lexer => l.nextToken.2) n (Lexer.new input)))
    ∧ (∀ l : Lexer, PosOK l →
      l.nextToken.1.line = specLine l.input l.tokenStart.pos
      ∧ l.nextToken.1.column = specColumn l.input l.tokenStart.pos
      ∧ l.pos ≤ l.tokenStart.pos ∧ l.tokenStart.pos ≤ l.nextToken.2.pos
      ∧ (l.nextToken.1.type ≠ TOK_EOF → l.tokenStart.pos < l.nextToken.2.pos))
    ∧ (∀ l : Lexer,
      (∃ k, l.tokenStart = l.skip k)
      ∧ (l.tokenStart.rest = [] →
          l.nextToken
            = (⟨TOK_EOF, "", l.tokenStart.line, l.tokenStart.column⟩, l.tokenStart))
      ∧ (l.tokenStart.rest ≠ [] →
          l.nextToken = l.tokenStart.scanToken
          ∧ (isspace (l.tokenStart.peek 0) && l.tokenStart.peek 0 != '\n') = false
          ∧ l.tokenStart.peek 0 ≠ '#' ∧ l.tokenStart.peek 0 ≠ '\x7b'))
    ∧ (∀ (l : Lexer) (c : Char) (cs : List Char), l.rest = c :: cs →
      l.scanToken.1.line = l.line ∧ l.scanToken.1.column = l.column)
    ∧ (Lexer.tokenStream 7 (Lexer.new "x :=\n  \"a\nb\" <= 1".toList)).map
        (fun t => (t.type, t.line, t.column))
      = [(TOK_IDENTIFIER, 1, 1), (TOK_ASSIGN, 1, 3), (TOK_NEWLINE, 1, 5), (TOK_STRING, 2, 3),
         (TOK_LESS_EQUAL, 3, 4), (TOK_INTEGER, 3, 7), (TOK_EOF, 3, 8)] :=
  ⟨posOK_new,
   fun _ h => ⟨posOK_advance h, fun k => posOK_skip k h, posOK_skipWhitespace h,
      posOK_skipComment h, posOK_nextToken h⟩,
   posOK_iterate,
   fun _ h => nextToken_position h,
   nextToken_start,
   fun _ _ _ h => scanToken_position h,
   by decide⟩

open Lexer in
theorem C35_token_positions_witness :
    (PosOK (Lexer.new "x :=\n  y".toList).nextToken.2.advance.2
      ∧ (∀ k, PosOK ((Lexer.new "x :=\n  y".toList).nextToken.2.skip k))
      ∧ PosOK (Lexer.new "x :=\n  y".toList).nextToken.2.skipWhitespace
      ∧ PosOK (Lexer.new "x :=\n  y".toList).nextToken.2.skipComment
      ∧ PosOK (Lexer.new "x :=\n  y".toList).nextToken.2.nextToken.2)
    ∧ ((Lexer.new "x :=\n  y".toList).nextToken.2.nextToken.1.line
        = specLine (Lexer.new "x :=\n  y".toList).nextToken.2.input
            (Lexer.new "x :=\n  y".toList).nextToken.2.tokenStart.pos
      ∧ (Lexer.new "x :=\n  y".toList).nextToken.2.nextToken.1.column
        = specColumn (Lexer.new "x :=\n  y".toList).nextToken.2.input
            (Lexer.new "x :=\n  y".toList).nextToken.2.tokenStart.pos
      ∧ (Lexer.new "x :=\n  y".toList).nextToken.2.pos
        ≤ (Lexer.new "x :=\n  y".toList).nextToken.2.tokenStart.pos
      ∧ (Lexer.new "x :=\n  y".toList).nextToken.2.tokenStart.pos
        ≤ (Lexer.new "x :=\n  y".toList).nextToken.2.nextToken.2.pos
      ∧ ((Lexer.new "x :=\n  y".toList).nextToken.2.nextToken.1.type ≠ TOK_EOF →
        (Lexer.new "x :=\n  y".toList).nextToken.2.tokenStart.pos
          < (Lexer.new "x :=\n  y".toList).nextToken.2.nextToken.2.pos))
    ∧ ((Lexer.new ":=: y".toList).scanToken.1.line = (Lexer.new ":=: y".toList).line
      ∧ (Lexer.new ":=: y".toList).scanToken.1.column = (Lexer.new ":=: y".toList).column) :=
  ⟨C35_token_positions.2.1 (Lexer.new "x :=\n  y".toList).nextToken.2 (by decide),
   C35_token_positions.2.2.2.1 (Lexer.new "x :=\n  y".toList).nextToken.2 (by decide),
   C35_token_positions.2.2.2.2.2.1 (Lexer.new ":=: y".toList) ':' "=: y".toList rfl⟩

open TokenType

/-! ## The serializer: lines, digits and injectivity -/

namespace ASTNode

/-- A text splits in one way only into a run of characters that satisfy `P` and a rest that is
empty or starts with a character that does not. -/
theorem split_unique (P : Char → Bool) : ∀ {a1 a2 r1 r2 : List Char},
    (∀ c ∈ a1, P c = true) → (∀ c ∈ a2, P c = true) →
    (∀ c, r1.head? = some c → P c = false) → (∀ c, r2.head? = some c → P c = false) →
    a1 ++ r1 = a2 ++ r2 → a1 = a2 ∧ r1 = r2 := by
  intro a1
  induction a1 with
  | nil =>
    intro a2 r1 r2 _ h2 hr1 _ h
    cases a2 with
    | nil => exact ⟨rfl, h⟩
    | cons c a2 =>
      simp only [List.nil_append, List.cons_append] at h
      have := hr1 c (by rw [h]; rfl)
      rw [h2 c (List.mem_cons_self _ _)] at this
      cases this
  | cons c a1 ih =>
    intro a2 r1 r2 h1 h2 hr1 hr2 h
    cases a2 with
    | nil =>
      simp only [List.nil_append, List.cons_append] at h
      have := hr2 c (by rw [← h]; rfl)
      rw [h1 c (List.mem_cons_self _ _)] at this
      cases this
    | cons c2 a2 =>
      simp only [List.cons_append, List.cons.injEq] at h
      obtain ⟨hc, ht⟩ := h
      obtain ⟨e1, e2⟩ := ih (fun x hx => h1 x (List.mem_cons_of_mem _ hx))
        (fun x hx => h2 x (List.mem_cons_of_mem _ hx)) hr1 hr2 ht
      exact ⟨by rw [hc, e1], e2⟩

/-- The value of a decimal digit character. -/
theorem digitChar_value (k : Nat) (h : k < 10) :
    (Nat.digitChar k).toNat - 48 = k ∧ (Nat.digitChar k).isDigit = true := by
  interval_cases k <;> decide

/-- Reading back the digits written by `Nat.toDigitsCore`. -/
theorem toDigitsCore_decode : ∀ (fuel n : Nat) (ds : List Char), n < fuel →
    (Nat.toDigitsCore 10 fuel n ds).foldl (fun a c => a * 10 + (c.toNat - 48)) 0
      = ds.foldl (fun a c => a * 10 + (c.toNat - 48)) n := by
  intro fuel
  induction fuel with
  | zero => intro n ds h; omega
  | succ f ih =>
    intro n ds h
    rw [Nat.toDigitsCore]
    by_cases h0 : n / 10 = 0
    · rw [if_pos h0]
      have hn : n % 10 = n := Nat.mod_eq_of_lt (by omega)
      simp only [List.foldl_cons, Nat.zero_mul, Nat.zero_add]
      rw [(digitChar_value (n % 10) (Nat.mod_lt _ (by decide))).1, hn]
    · rw [if_neg h0, ih (n / 10) _ (by omega)]
      simp only [List.foldl_cons]
      rw [(digitChar_value (n % 10) (Nat.mod_lt _ (by decide))).1, Nat.div_add_mod']

/-- All the characters written by `Nat.toDigitsCore` are decimal digits. -/
theorem toDigitsCore_digits : ∀ (fuel n : Nat) (ds : List Char),
    (∀ c ∈ ds, c.isDigit = true) → ∀ c ∈ Nat.toDigitsCore 10 fuel n ds, c.isDigit = true := by
  intro fuel
  induction fuel with
  | zero => intro n ds h; simpa [Nat.toDigitsCore] using h
  | succ f ih =>
    intro n ds h
    rw [Nat.toDigitsCore]
    have hd := (digitChar_value (n % 10) (Nat.mod_lt _ (by decide))).2
    have hds : ∀ c ∈ Nat.digitChar (n % 10) :: ds, c.isDigit = true := by
      intro c hc
      rcases List.mem_cons.1 hc with rfl | hc
      · exact hd
      · exact h c hc
    by_cases h0 : n / 10 = 0
    · rw [if_pos h0]; exact hds
    · rw [if_neg h0]; exact ih _ _ hds

/-- The decimal text of a number consists of digits. -/
theorem toString_digits (n : Nat) : ∀ c ∈ (toString n).data, c.isDigit = true :=
  toDigitsCore_digits (n + 1) n [] (fun _ h => by cases h)

/-- The decimal text determines the number. -/
theorem toString_injective {m n : Nat} (h : toString m = toString n) : m = n := by
  have hm := toDigitsCore_decode (m + 1) m [] (Nat.lt_succ_self _)
  have hn := toDigitsCore_decode (n + 1) n [] (Nat.lt_succ_self _)
  have hd : Nat.toDigitsCore 10 (m + 1) m [] = Nat.toDigitsCore 10 (n + 1) n [] :=
    congrArg String.data h
  rw [hd, hn] at hm
  simpa using hm.symm

/-- The first line of the dump of a node determines its label and its number of children. -/
theorem header_injective {ty1 ty2 : String} {n1 n2 d : Nat}
    (h : String.join (List.replicate d ". ") ++ ty1 ++ "(" ++ toString n1 ++ ")"
      = String.join (List.replicate d ". ") ++ ty2 ++ "(" ++ toString n2 ++ ")") :
    ty1 = ty2 ∧ n1 = n2 := by
  have hd := congrArg String.data h
  simp only [String.data_append, List.append_assoc] at hd
  have h1 := List.append_cancel_left hd
  have h2 := congrArg List.reverse h1
  simp only [List.reverse_append, List.append_assoc] at h2
  have h3 : (")" : String).data.reverse = [')'] := rfl
  have h4 : ("(" : String).data.reverse = ['('] := rfl
  rw [h3, h4] at h2
  simp only [List.singleton_append, List.cons.injEq, true_and] at h2
  obtain ⟨e1, e2⟩ := split_unique Char.isDigit
    (fun c hc => toString_digits n1 c (List.mem_reverse.1 hc))
    (fun c hc => toString_digits n2 c (List.mem_reverse.1 hc))
    (fun c hc => by cases hc; rfl) (fun c hc => by cases hc; rfl) h2
  simp only [List.cons.injEq, true_and, List.reverse_inj] at e2
  exact ⟨String.ext e2, toString_injective (String.ext (List.reverse_inj.1 e1))⟩

/-- The characters of the lines that follow the first one, each after a line break. -/
theorem join_lines_data (l : List String) :
    (String.join (l.map (fun b => "\n" ++ b))).data
      = (l.map (fun b => '\n' :: b.data)).flatten := by
  induction l with
  | nil => rfl
  | cons b l ih =>
    rw [List.map_cons, join_cons, String.data_append, ih]
    rfl

theorem lines_head (l : List String) :
    ∀ c, ((l.map (fun b => '\n' :: b.data)).flatten).head? = some c → (c != '\n') = false := by
  intro c hc
  cases l with
  | nil => cases hc
  | cons b l =>
    simp only [List.map_cons, List.flatten_cons, List.cons_append, List.head?_cons,
      Option.some.injEq] at hc
    rw [← hc]
    rfl

/-- Lines without line breaks are determined by their concatenation, each after a line
break. -/
theorem join_lines_injective : ∀ (l1 l2 : List String),
    (∀ s ∈ l1, ∀ c ∈ s.data, (c != '\n') = true) →
    (∀ s ∈ l2, ∀ c ∈ s.data, (c != '\n') = true) →
    (l1.map (fun b => '\n' :: b.data)).flatten = (l2.map (fun b => '\n' :: b.data)).flatten →
    l1 = l2 := by
  intro l1
  induction l1 with
  | nil =>
    intro l2 _ _ h
    cases l2 with
    | nil => rfl
    | cons b l2 => simp at h
  | cons b1 l1 ih =>
    intro l2 h1 h2 h
    cases l2 with
    | nil => simp at h
    | cons b2 l2 =>
      simp only [List.map_cons, List.flatten_cons, List.cons_append, List.cons.injEq,
        true_and] at h
      obtain ⟨e1, e2⟩ := split_unique (fun c => c != '\n')
        (h1 b1 (List.mem_cons_self _ _)) (h2 b2 (List.mem_cons_self _ _))
        (lines_head l1) (lines_head l2) h
      rw [String.ext e1, ih l2 (fun s hs => h1 s (List.mem_cons_of_mem _ hs))
        (fun s hs => h2 s (List.mem_cons_of_mem _ hs)) e2]

/-- Lines without line breaks are determined by their text joined with line breaks. -/
theorem intercalate_injective {a1 a2 : String} {l1 l2 : List String}
    (h1 : ∀ s ∈ a1 :: l1, ∀ c ∈ s.data, (c != '\n') = true)
    (h2 : ∀ s ∈ a2 :: l2, ∀ c ∈ s.data, (c != '\n') = true)
    (h : "\n".intercalate (a1 :: l1) = "\n".intercalate (a2 :: l2)) :
    a1 :: l1 = a2 :: l2 := by
  rw [intercalate_cons, intercalate_cons] at h
  have hd := congrArg String.data h
  rw [String.data_append, String.data_append, join_lines_data, join_lines_data] at hd
  obtain ⟨e1, e2⟩ := split_unique (fun c => c != '\n')
    (h1 a1 (List.mem_cons_self _ _)) (h2 a2 (List.mem_cons_self _ _))
    (lines_head l1) (lines_head l2) hd
  rw [String.ext e1, join_lines_injective l1 l2 (fun s hs => h1 s (List.mem_cons_of_mem _ hs))
    (fun s hs => h2 s (List.mem_cons_of_mem _ hs)) e2]

/-- The number of line breaks in lines joined with line breaks, when no line holds one. -/
theorem join_lines_count (l : List String) (h : ∀ s ∈ l, ∀ c ∈ s.data, (c != '\n') = true) :
    ((l.map (fun b => '\n' :: b.data)).flatten).count '\n' = l.length := by
  induction l with
  | nil => rfl
  | cons b l ih =>
    have hb : b.data.count '\n' = 0 := by
      rw [List.count_eq_zero]
      intro hm
      have := h b (List.mem_cons_self _ _) '\n' hm
      simp at this
    simp only [List.map_cons, List.flatten_cons, List.cons_append, List.count_cons_self,
      List.count_append, hb, List.length_cons]
    rw [ih (fun s hs => h s (List.mem_cons_of_mem _ hs))]
    omega

end ASTNode

open TokenType

namespace ASTNode

mutual
/-- The dump of a tree, followed by any further lines, determines the tree and the further
lines: the child counts tell where each subtree ends. -/
theorem dumpLines_injective : ∀ (t1 t2 : ASTNode) (d : Nat) (r1 r2 : List String),
    t1.valuesEmpty = true → t2.valuesEmpty = true →
    t1.dumpLines d ++ r1 = t2.dumpLines d ++ r2 → t1 = t2 ∧ r1 = r2
  | mk ty1 cs1 v1, mk ty2 cs2 v2, d, r1, r2, h1, h2, h => by
    simp only [valuesEmpty, Bool.and_eq_true, beq_iff_eq] at h1 h2
    obtain ⟨hv1, hc1⟩ := h1
    obtain ⟨hv2, hc2⟩ := h2
    simp only [dumpLines, List.cons_append, List.cons.injEq] at h
    obtain ⟨hh, ht⟩ := h
    obtain ⟨ety, elen⟩ := header_injective hh
    obtain ⟨ecs, er⟩ := dumpLinesList_injective cs1 cs2 (d + 1) r1 r2 elen hc1 hc2 ht
    exact ⟨by rw [ety, ecs, hv1, hv2], er⟩
theorem dumpLinesList_injective : ∀ (cs1 cs2 : List ASTNode) (d : Nat) (r1 r2 : List String),
    cs1.length = cs2.length → valuesEmptyList cs1 = true → valuesEmptyList cs2 = true →
    dumpLinesList cs1 d ++ r1 = dumpLinesList cs2 d ++ r2 → cs1 = cs2 ∧ r1 = r2
  | [], [], _, _, _, _, _, _, h => ⟨rfl, by simpa [dumpLinesList] using h⟩
  | [], _ :: _, _, _, _, hl, _, _, _ => by simp at hl
  | _ :: _, [], _, _, _, hl, _, _, _ => by simp at hl
  | c1 :: cs1, c2 :: cs2, d, r1, r2, hl, h1, h2, h => by
    simp only [valuesEmptyList, Bool.and_eq_true] at h1 h2
    simp only [dumpLinesList, List.append_assoc] at h
    obtain ⟨ec, er⟩ := dumpLines_injective c1 c2 d _ _ h1.1 h2.1 h
    obtain ⟨ecs, er2⟩ := dumpLinesList_injective cs1 cs2 d r1 r2
      (by simpa using hl) h1.2 h2.2 er
    exact ⟨by rw [ec, ecs], er2⟩
end

/-- The markers of the indentation hold no line break. -/
theorem indent_clean (d : Nat) :
    ∀ c ∈ (String.join (List.replicate d ". ")).data, (c != '\n') = true := by
  induction d with
  | zero => intro c hc; cases hc
  | succ d ih =>
    intro c hc
    rw [List.replicate_succ, join_cons, String.data_append, List.mem_append] at hc
    rcases hc with hc | hc
    · have : c = '.' ∨ c = ' ' := by simpa using hc
      rcases this with rfl | rfl <;> rfl
    · exact ih c hc

/-- The first line of the dump of a node holds no line break when its label holds none. -/
theorem header_clean (ty : String) (n d : Nat) (h : ty.data.all (fun c => c != '\n') = true) :
    ∀ c ∈ (String.join (List.replicate d ". ") ++ ty ++ "(" ++ toString n ++ ")").data,
      (c != '\n') = true := by
  intro c hc
  simp only [String.data_append, List.mem_append] at hc
  rcases hc with (((hc | hc) | hc) | hc) | hc
  · exact indent_clean d c hc
  · exact List.all_eq_true.1 h c hc
  · have : c = '(' := by simpa using hc
    rw [this]; rfl
  · have hdig := toString_digits n c hc
    by_contra hn
    have hcn : c = '\n' := by simpa using hn
    rw [hcn] at hdig
    exact absurd hdig (by decide)
  · have : c = ')' := by simpa using hc
    rw [this]; rfl

mutual
/-- No line of the dump of a tree holds a line break when no label does. -/
theorem dumpLines_clean : ∀ (t : ASTNode) (d : Nat), t.labelsClean = true →
    ∀ s ∈ t.dumpLines d, ∀ c ∈ s.data, (c != '\n') = true
  | mk ty cs v, d, h => by
    simp only [labelsClean, Bool.and_eq_true] at h
    intro s hs
    rw [dumpLines, List.mem_cons] at hs
    rcases hs with rfl | hs
    · exact header_clean ty cs.length d h.1
    · exact dumpLinesList_clean cs (d + 1) h.2 s hs
theorem dumpLinesList_clean : ∀ (cs : List ASTNode) (d : Nat), labelsCleanList cs = true →
    ∀ s ∈ dumpLinesList cs d, ∀ c ∈ s.data, (c != '\n') = true
  | [], _, _ => by intro s hs; simp [dumpLinesList] at hs
  | c :: cs, d, h => by
    simp only [labelsCleanList, Bool.and_eq_true] at h
    intro s hs
    rw [dumpLinesList, List.mem_append] at hs
    rcases hs with hs | hs
    · exact dumpLines_clean c d h.1 s hs
    · exact dumpLinesList_clean cs d h.2 s hs
end

mutual
/-- The dump has one line per node. -/
theorem dumpLines_length : ∀ (t : ASTNode) (d : Nat),
    (t.dumpLines d).length = t.subtrees.length
  | mk ty cs v, d => by
    rw [dumpLines, subtrees, List.length_cons, List.length_cons, dumpLinesList_length cs (d + 1)]
theorem dumpLinesList_length : ∀ (cs : List ASTNode) (d : Nat),
    (dumpLinesList cs d).length = (subtreesList cs).length
  | [], _ => rfl
  | c :: cs, d => by
    rw [dumpLinesList, subtreesList, List.length_append, List.length_append,
      dumpLines_length c d, dumpLinesList_length cs d]
end

/-- The dump of a tree is a first line followed by the dump of its children. -/
theorem dumpLines_eq_cons (t : ASTNode) (d : Nat) :
    ∃ a l, t.dumpLines d = a :: l := by
  cases t with
  | mk ty cs v => exact ⟨_, _, rfl⟩

/-- The serializer is injective on trees without values and without line breaks in labels,
at every depth and whatever the flag `isLast`. -/
theorem print_injective (t1 t2 : ASTNode) (k : Nat) (b1 b2 : Bool)
    (hv1 : t1.valuesEmpty = true) (hv2 : t2.valuesEmpty = true)
    (hl1 : t1.labelsClean = true) (hl2 : t2.labelsClean = true)
    (h : t1.print (k : Int) b1 = t2.print (k : Int) b2) : t1 = t2 := by
  rw [print_dumpLines t1 k b1 hv1, print_dumpLines t2 k b2 hv2] at h
  obtain ⟨a1, l1, e1⟩ := dumpLines_eq_cons t1 k
  obtain ⟨a2, l2, e2⟩ := dumpLines_eq_cons t2 k
  have c1 := dumpLines_clean t1 k hl1
  have c2 := dumpLines_clean t2 k hl2
  rw [e1] at h c1
  rw [e2] at h c2
  have hlines := intercalate_injective c1 c2 h
  rw [← e1, ← e2] at hlines
  have := dumpLines_injective t1 t2 k [] [] hv1 hv2 (by rw [List.append_nil, List.append_nil, hlines])
  exact this.1

/-- The serialized text of a tree without values and without line breaks in labels has one
line per node. -/
theorem print_lineCount (t : ASTNode) (k : Nat) (b : Bool) (hv : t.valuesEmpty = true)
    (hl : t.labelsClean = true) : lineCount (t.print (k : Int) b) = t.subtrees.length := by
  rw [print_dumpLines t k b hv, ← dumpLines_length t k]
  obtain ⟨a, l, e⟩ := dumpLines_eq_cons t k
  have c := dumpLines_clean t k hl
  rw [e] at c ⊢
  rw [intercalate_cons, lineCount, String.data_append, join_lines_data, List.count_append,
    join_lines_count l (fun s hs => c s (List.mem_cons_of_mem _ hs)), List.length_cons]
  have ha : a.data.count '\n' = 0 := by
    rw [List.count_eq_zero]
    intro hm
    have := c a (List.mem_cons_self _ _) '\n' hm
    simp at this
  omega

/-- C37: the serializer is injective on well-formed trees. When every node of `t1` and of
`t2` has an empty value and a label without line break, equal dumps (at depth 0, and likewise at
any common depth, whatever the unused flag) come from equal trees: same label, same number of
children, same shape. -/
theorem C37_print_injective (t1 t2 : ASTNode) (k : Nat) (b1 b2 : Bool)
    (hv1 : t1.valuesEmpty = true) (hv2 : t2.valuesEmpty = true)
    (hl1 : t1.labelsClean = true) (hl2 : t2.labelsClean = true)
    (h : t1.print (k : Int) b1 = t2.print (k : Int) b2) :
    t1 = t2 ∧ t1.nodeType = t2.nodeType ∧ t1.children.length = t2.children.length
      ∧ t1.dumpLines k = t2.dumpLines k := by
  have e := print_injective t1 t2 k b1 b2 hv1 hv2 hl1 hl2 h
  subst e
  exact ⟨rfl, rfl, rfl, rfl⟩

theorem C37_print_injective_witness :
    (ASTNode.mk "a" [ASTNode.mk "b" [] "", ASTNode.mk "c" [] ""] "").valuesEmpty = true
      ∧ (ASTNode.mk "a" [ASTNode.mk "b" [] "", ASTNode.mk "c" [] ""] "").labelsClean = true
      ∧ (ASTNode.mk "a" [ASTNode.mk "b" [] "", ASTNode.mk "c" [] ""] "").print ((0 : Nat) : Int)
          true
        = (ASTNode.mk "a" [ASTNode.mk "b" [] "", ASTNode.mk "c" [] ""] "").print ((0 : Nat) : Int)
          false
      ∧ (ASTNode.mk "a" [ASTNode.mk "b" [] "", ASTNode.mk "c" [] ""] "")
        = ASTNode.mk "a" [ASTNode.mk "b" [] "", ASTNode.mk "c" [] ""] "" :=
  ⟨by decide, by decide, rfl,
    (C37_print_injective (ASTNode.mk "a" [ASTNode.mk "b" [] "", ASTNode.mk "c" [] ""] "")
      (ASTNode.mk "a" [ASTNode.mk "b" [] "", ASTNode.mk "c" [] ""] "") 0 true false
      (by decide) (by decide) (by decide) (by decide) rfl).1⟩

end ASTNode

open TokenType

/-! ## Properties kept by the tree builders hold of every parsed tree -/

namespace Parser

theorem optP_none {P : ASTNode → Prop} : OptP P none := by
  intro t h; cases h

theorem optP_some {P : ASTNode → Prop} {n : ASTNode} (h : P n) : OptP P (some n) := by
  intro t ht
  cases ht
  exact h

theorem builds_add {P : ASTNode → Prop} (hP : Builds P) {n : ASTNode} {c : Option ASTNode}
    (hn : P n) (hc : OptP P c) : P (n.addChild c) := by
  cases c with
  | none => exact hn
  | some x => exact hP.2 n x hn (hc x rfl)

theorem builds_identifier {P : ASTNode → Prop} (hP : Builds P) (v : String) :
    P (createIdentifierNode v) :=
  hP.2 _ _ (hP.1 _) (hP.1 _)

theorem builds_integer {P : ASTNode → Prop} (hP : Builds P) (v : String) :
    P (createIntegerNode v) :=
  hP.2 _ _ (hP.1 _) (hP.1 _)

theorem builds_char {P : ASTNode → Prop} (hP : Builds P) (v : String) :
    P (createCharNode v) :=
  hP.2 _ _ (hP.1 _) (hP.1 _)

theorem builds_string {P : ASTNode → Prop} (hP : Builds P) (v : String) :
    P (createStringNode v) :=
  hP.2 _ _ (hP.1 _) (hP.1 _)

theorem builds_mkOpNode {P : ASTNode → Prop} (hP : Builds P) {op : String}
    {l r : Option ASTNode} (hl : OptP P l) (hr : OptP P r) : P (mkOpNode op l r) :=
  builds_add hP (builds_add hP (hP.1 op) hl) hr

theorem parseName_builds {P : ASTNode → Prop} (hP : Builds P) (s : Parser) :
    OptP P (parseName s).1 := by
  unfold parseName
  simp only [matchTok, decide_eq_true_eq]
  split
  · exact optP_some (builds_identifier hP _)
  split
  · exact optP_some (builds_identifier hP _)
  split
  · exact optP_some (builds_identifier hP _)
  · exact optP_none

theorem parseConstValue_builds {P : ASTNode → Prop} (hP : Builds P) (s : Parser) :
    OptP P (parseConstValue s).1 := by
  unfold parseConstValue
  simp only [matchTok, decide_eq_true_eq]
  split
  · exact optP_some (builds_integer hP _)
  split
  · exact optP_some (builds_char hP _)
  split
  · exact parseName_builds hP s
  split
  · exact optP_some (builds_identifier hP _)
  split
  · exact optP_some (builds_identifier hP _)
  · exact optP_none

theorem parseConst_builds {P : ASTNode → Prop} (hP : Builds P) (s : Parser) :
    OptP P (parseConst s).1 := by
  unfold parseConst
  simp only
  split
  · exact optP_none
  · exact optP_some (builds_add hP (builds_add hP (hP.1 _) (parseName_builds hP _))
      (parseConstValue_builds hP _))

theorem parseCaseExpression_builds {P : ASTNode → Prop} (hP : Builds P) (s : Parser) :
    OptP P (parseCaseExpression s).1 := by
  unfold parseCaseExpression
  simp only
  split
  · exact optP_some (builds_add hP (builds_add hP (hP.1 _) (parseConstValue_builds hP _))
      (parseConstValue_builds hP _))
  · exact parseConstValue_builds hP s

/-- The list loops that only call `parseName` keep the property of the node they fill. -/
theorem nameLoop_builds {P : ASTNode → Prop} (hP : Builds P)
    (loop : Nat → ASTNode → Parser → Option (ASTNode × Parser))
    (h0 : ∀ n p, loop 0 n p = none)
    (hstep : ∀ f n p, loop (f + 1) n p =
      if ((parseName p).2.consume TOK_COMMA).1 = true then
        loop f (n.addChild (parseName p).1) ((parseName p).2.consume TOK_COMMA).2
      else some (n.addChild (parseName p).1, ((parseName p).2.consume TOK_COMMA).2)) :
    ∀ (fuel : Nat) (n : ASTNode) (p : Parser) (r : ASTNode × Parser),
      loop fuel n p = some r → P n → P r.1 := by
  intro fuel
  induction fuel with
  | zero => intro n p r h; rw [h0] at h; cases h
  | succ f ih =>
    intro n p r h hn
    rw [hstep] at h
    have h1 := parseName_builds hP p
    split at h
    · exact ih _ _ _ h (builds_add hP hn h1)
    · cases h
      exact builds_add hP hn h1

theorem parseLitListLoop_builds {P : ASTNode → Prop} (hP : Builds P) :
    ∀ (fuel : Nat) (n : ASTNode) (p : Parser) (r : ASTNode × Parser),
      parseLitListLoop fuel n p = some r → P n → P r.1 :=
  nameLoop_builds hP parseLitListLoop (fun _ _ => rfl) (fun _ _ _ => rfl)

theorem parseDclnLoop_builds {P : ASTNode → Prop} (hP : Builds P) :
    ∀ (fuel : Nat) (n : ASTNode) (p : Parser) (r : ASTNode × Parser),
      parseDclnLoop fuel n p = some r → P n → P r.1 :=
  nameLoop_builds hP parseDclnLoop (fun _ _ => rfl) (fun _ _ _ => rfl)

theorem parseReadLoop_builds {P : ASTNode → Prop} (hP : Builds P) :
    ∀ (fuel : Nat) (n : ASTNode) (p : Parser) (r : ASTNode × Parser),
      parseReadLoop fuel n p = some r → P n → P r.1 :=
  nameLoop_builds hP parseReadLoop (fun _ _ => rfl) (fun _ _ _ => rfl)

end Parser

open TokenType

namespace Parser

theorem exprBuilds_zero (P : ASTNode → Prop) : ExprBuilds P 0 := by
  refine ⟨?_, ?_, ?_, ?_, ?_, ?_, ?_, ?_⟩
  · intro s r h; simp [parseExpression] at h
  · intro l s r h; simp [parseExpressionLoop] at h
  · intro s r h; simp [parseTerm] at h
  · intro l s r h; simp [parseTermLoop] at h
  · intro s r h; simp [parseFactor] at h
  · intro l s r h; simp [parseFactorLoop] at h
  · intro s r h; simp [parsePrimary] at h
  · intro l s r h; simp [parseCallArgsLoop] at h

theorem parsePrimary_builds_step {P : ASTNode → Prop} (hP : Builds P)
    (n : Nat) (ih : ExprBuilds P n) :
    ∀ s r, parsePrimary (n + 1) s = some r → OptP P r.1 := by
  obtain ⟨ihE, _, _, _, _, _, ihP, ihC⟩ := ih
  intro s r h
  -- a builtin call `name(expression)`
  have builtin : ∀ (label : String), (match parseExpression n (s.advance.consume TOK_LPAREN).2 with
        | none => none
        | some r => some (some ((ASTNode.new label).addChild r.1), (r.2.consume TOK_RPAREN).2))
        = some r → OptP P r.1 := by
    intro label h
    split at h
    · cases h
    · next r1 hr1 =>
      cases h
      have h1 := ihE _ _ hr1
      exact optP_some (builds_add hP (hP.1 _) h1)
  -- a unary operator
  have unary : ∀ (label : String), (match parsePrimary n s.advance with
        | none => none
        | some r => some (some ((ASTNode.new label).addChild r.1), r.2)) = some r →
      OptP P r.1 := by
    intro label h
    split at h
    · cases h
    · next r1 hr1 =>
      cases h
      have h1 := ihP _ _ hr1
      exact optP_some (builds_add hP (hP.1 _) h1)
  simp only [parsePrimary, matchTok, decide_eq_true_eq, Bool.or_eq_true] at h
  by_cases c1 : s.currentToken.type = TOK_MINUS
  · rw [if_pos c1] at h; exact unary "-" h
  rw [if_neg c1] at h
  by_cases c2 : s.currentToken.type = TOK_PLUS
  · rw [if_pos c2] at h; exact ihP _ _ h
  rw [if_neg c2] at h
  by_cases c3 : s.currentToken.type = TOK_NOT
  · rw [if_pos c3] at h; exact unary "not" h
  rw [if_neg c3] at h
  by_cases c4 : s.currentToken.type = TOK_SUCC
  · rw [if_pos c4] at h; exact builtin "succ" h
  rw [if_neg c4] at h
  by_cases c5 : s.currentToken.type = TOK_PRED
  · rw [if_pos c5] at h; exact builtin "pred" h
  rw [if_neg c5] at h
  by_cases c6 : s.currentToken.type = TOK_CHR
  · rw [if_pos c6] at h; exact builtin "chr" h
  rw [if_neg c6] at h
  by_cases c7 : s.currentToken.type = TOK_ORD
  · rw [if_pos c7] at h; exact builtin "ord" h
  rw [if_neg c7] at h
  by_cases c8 : s.currentToken.type = TOK_EOF_KW
  · rw [if_pos c8] at h; cases h
    exact optP_some (hP.1 _)
  rw [if_neg c8] at h
  by_cases c9 : s.currentToken.type = TOK_INTEGER
  · rw [if_pos c9] at h; cases h
    exact optP_some (builds_integer hP _)
  rw [if_neg c9] at h
  by_cases c10 : s.currentToken.type = TOK_CHAR
  · rw [if_pos c10] at h; cases h
    exact optP_some (builds_char hP _)
  rw [if_neg c10] at h
  by_cases c11 : s.currentToken.type = TOK_STRING
  · rw [if_pos c11] at h; cases h
    exact optP_some (builds_string hP _)
  rw [if_neg c11] at h
  by_cases c12 : s.currentToken.type = TOK_TRUE ∨ s.currentToken.type = TOK_FALSE
  · rw [if_pos c12] at h; cases h
    exact optP_some (builds_identifier hP _)
  rw [if_neg c12] at h
  by_cases c13 : s.currentToken.type = TOK_LPAREN
  · rw [if_pos c13] at h
    split at h
    · cases h
    · next r1 hr1 =>
      cases h
      have h1 := ihE _ _ hr1
      exact h1
  rw [if_neg c13] at h
  by_cases c14 : s.currentToken.type = TOK_IDENTIFIER
  · rw [if_pos c14] at h
    have hid : OptP P (some (createIdentifierNode s.currentToken.value)) :=
      optP_some (builds_identifier hP _)
    have hcall : P ((ASTNode.new "call").addChild
        (some (createIdentifierNode s.currentToken.value))) :=
      builds_add hP (hP.1 _) hid
    split at h
    · split at h
      · split at h
        · cases h
        · next r1 hr1 =>
          cases h
          have h1 := ihC _ _ _ hr1 hcall
          exact optP_some h1
      · cases h
        exact optP_some hcall
    · cases h
      exact hid
  rw [if_neg c14] at h
  cases h
  exact optP_none

/-- The invariant holds at every fuel for the expression parser. -/
theorem exprBuilds {P : ASTNode → Prop} (hP : Builds P) :
    ∀ n, ExprBuilds P n := by
  intro n
  induction n with
  | zero => exact exprBuilds_zero P
  | succ n ih =>
    have hPr := parsePrimary_builds_step hP n ih
    obtain ⟨ihE, ihEL, ihT, ihTL, ihF, ihFL, ihP, ihC⟩ := ih
    refine ⟨?_, ?_, ?_, ?_, ?_, ?_, hPr, ?_⟩
    · intro s r h
      simp only [parseExpression] at h
      split at h
      · cases h
      · next r1 hr1 =>
        have h1 := ihT _ _ hr1
        exact ihEL _ _ _ h h1
    · intro left s r h hl
      simp only [parseExpressionLoop] at h
      split at h
      · cases h; exact hl
      · next op hop =>
        split at h
        · cases h
        · next r1 hr1 =>
          have h1 := ihT _ _ hr1
          exact ihEL _ _ _ h (optP_some (builds_mkOpNode hP hl h1))
    · intro s r h
      simp only [parseTerm] at h
      split at h
      · cases h
      · next r1 hr1 =>
        have h1 := ihF _ _ hr1
        exact ihTL _ _ _ h h1
    · intro left s r h hl
      simp only [parseTermLoop] at h
      split at h
      · cases h; exact hl
      · next op hop =>
        split at h
        · cases h
        · next r1 hr1 =>
          have h1 := ihF _ _ hr1
          exact ihTL _ _ _ h (optP_some (builds_mkOpNode hP hl h1))
    · intro s r h
      simp only [parseFactor] at h
      split at h
      · cases h
      · next r1 hr1 =>
        have h1 := ihP _ _ hr1
        exact ihFL _ _ _ h h1
    · intro left s r h hl
      simp only [parseFactorLoop] at h
      split at h
      · cases h; exact hl
      · next op hop =>
        split at h
        · cases h
        · next r1 hr1 =>
          have h1 := ihP _ _ hr1
          exact ihFL _ _ _ h (optP_some (builds_mkOpNode hP hl h1))
    · intro node s r h hn
      simp only [parseCallArgsLoop] at h
      split at h
      · cases h
      · next r1 hr1 =>
        have h1 := ihE _ _ hr1
        split at h
        · exact ihC _ _ _ h (builds_add hP hn h1)
        · cases h
          exact builds_add hP hn h1

theorem parseExpression_builds {P : ASTNode → Prop} (hP : Builds P)
    {n : Nat} {s : Parser} {r : Option ASTNode × Parser} (h : parseExpression n s = some r) : OptP P r.1 :=
  (exprBuilds hP n).1 s r h

theorem parseAssignment_builds {P : ASTNode → Prop} (hP : Builds P)
    {n : Nat} {s : Parser} {r : Option ASTNode × Parser} (h : parseAssignment n s = some r) : OptP P r.1 := by
  simp only [parseAssignment, matchTok, decide_eq_true_eq] at h
  split at h
  · next c =>
    have hid : OptP P (some (createIdentifierNode s.currentToken.value)) :=
      optP_some (builds_identifier hP _)
    split at h
    · split at h
      · cases h
      · next r1 hr1 =>
        cases h
        have h1 := parseExpression_builds hP hr1
        exact optP_some
          (builds_add hP (builds_add hP (hP.1 _) hid) h1)
    · split at h
      · cases h
        exact optP_some
          (builds_add hP (builds_add hP (hP.1 _) hid) (parseName_builds hP _))
      · cases h
        exact optP_none
  · cases h
    exact optP_none

theorem parseForStat_builds {P : ASTNode → Prop} (hP : Builds P)
    {n : Nat} {s : Parser} {r : Option ASTNode × Parser} (h : parseForStat n s = some r) : OptP P r.1 := by
  simp only [parseForStat] at h
  split at h
  · exact parseAssignment_builds hP h
  · cases h
    exact optP_some (hP.1 _)

theorem parseForExp_builds {P : ASTNode → Prop} (hP : Builds P)
    {n : Nat} {s : Parser} {r : Option ASTNode × Parser} (h : parseForExp n s = some r) : OptP P r.1 := by
  simp only [parseForExp] at h
  split at h
  · exact parseExpression_builds hP h
  · cases h
    exact optP_some (hP.1 _)

theorem parseOutExp_builds {P : ASTNode → Prop} (hP : Builds P)
    {n : Nat} {s : Parser} {r : Option ASTNode × Parser} (h : parseOutExp n s = some r) : OptP P r.1 := by
  simp only [parseOutExp, matchTok, decide_eq_true_eq] at h
  split at h
  · next c =>
    cases h
    exact optP_some
      (builds_add hP (hP.1 _) (optP_some (builds_string hP _)))
  · split at h
    · cases h
    · next r1 hr1 =>
      cases h
      have h1 := parseExpression_builds hP hr1
      exact optP_some (builds_add hP (hP.1 _) h1)

theorem parseOutputLoop_builds {P : ASTNode → Prop} (hP : Builds P) :
    ∀ (fuel : Nat) (n : ASTNode) (p : Parser) (r : ASTNode × Parser),
      parseOutputLoop fuel n p = some r → P n → P r.1 := by
  intro fuel
  induction fuel with
  | zero => intro n p r h; simp [parseOutputLoop] at h
  | succ f ih =>
    intro n p r h hn
    simp only [parseOutputLoop] at h
    split at h
    · cases h
    · next r1 hr1 =>
      have h1 := parseOutExp_builds hP hr1
      split at h
      · exact ih _ _ _ h (builds_add hP hn h1)
      · cases h
        exact builds_add hP hn h1

end Parser

open TokenType

namespace Parser

theorem stmtBuilds_zero (P : ASTNode → Prop) : StmtBuilds P 0 := by
  refine ⟨?_, ?_, ?_, ?_, ?_, ?_, ?_, ?_⟩
  · intro s r h; simp [parseStatement] at h
  · intro l s r h; simp [parseRepeatLoop] at h
  · intro l s r h; simp [parseLoopLoop] at h
  · intro l s r h; simp [parseCaseLoop] at h
  · intro s r h; simp [parseCaseclause] at h
  · intro s r h; simp [parseOtherwiseClause] at h
  · intro s r h; simp [parseBody] at h
  · intro l s r h; simp [parseBodyLoop] at h

theorem parseStatement_builds_step {P : ASTNode → Prop} (hP : Builds P)
    (n : Nat) (ih : StmtBuilds P n) :
    ∀ s r, parseStatement (n + 1) s = some r → OptP P r.1 := by
  obtain ⟨ihS, ihR, ihL, ihC, _, ihO, ihB, _⟩ := ih
  intro s r h
  simp only [parseStatement, matchTok, decide_eq_true_eq] at h
  by_cases c1 : s.currentToken.type = TOK_IDENTIFIER
  · rw [if_pos c1] at h
    have hid : OptP P (some (createIdentifierNode s.currentToken.value)) :=
      optP_some (builds_identifier hP _)
    split at h
    · split at h
      · cases h
      · next r1 hr1 =>
        cases h
        have h1 := parseExpression_builds hP hr1
        exact optP_some
          (builds_add hP (builds_add hP (hP.1 _) hid) h1)
    · split at h
      · cases h
        exact optP_some
          (builds_add hP (builds_add hP (hP.1 _) hid) (parseName_builds hP _))
      · cases h
        exact optP_none
  rw [if_neg c1] at h
  by_cases c2 : s.currentToken.type = TOK_OUTPUT
  · rw [if_pos c2] at h
    split at h
    · cases h
    · next r1 hr1 =>
      cases h
      have h1 := parseOutputLoop_builds hP _ _ _ _ hr1
        (hP.1 _)
      exact optP_some h1
  rw [if_neg c2] at h
  by_cases c3 : s.currentToken.type = TOK_IF
  · rw [if_pos c3] at h
    split at h
    · cases h
    · next rc hrc =>
      have h1 := parseExpression_builds hP hrc
      split at h
      · cases h
      · next rt hrt =>
        have h2 := ihS _ _ hrt
        have hif : P (((ASTNode.new "if").addChild rc.1).addChild rt.1) :=
          builds_add hP (builds_add hP (hP.1 _) h1) h2
        split at h
        · split at h
          · cases h
          · next re hre =>
            cases h
            have h3 := ihS _ _ hre
            exact optP_some (builds_add hP hif h3)
        · cases h
          exact optP_some hif
  rw [if_neg c3] at h
  by_cases c4 : s.currentToken.type = TOK_WHILE
  · rw [if_pos c4] at h
    split at h
    · cases h
    · next rc hrc =>
      have h1 := parseExpression_builds hP hrc
      split at h
      · cases h
      · next rb hrb =>
        cases h
        have h2 := ihS _ _ hrb
        exact optP_some
          (builds_add hP (builds_add hP (hP.1 _) h1) h2)
  rw [if_neg c4] at h
  by_cases c5 : s.currentToken.type = TOK_REPEAT
  · rw [if_pos c5] at h
    split at h
    · cases h
    · next rl hrl =>
      have h1 := ihR _ _ _ hrl (hP.1 _)
      split at h
      · cases h
      · next rc hrc =>
        cases h
        have h2 := parseExpression_builds hP hrc
        exact optP_some (builds_add hP h1 h2)
  rw [if_neg c5] at h
  by_cases c6 : s.currentToken.type = TOK_FOR
  · rw [if_pos c6] at h
    split at h
    · cases h
    · next r1 hr1 =>
      have h1 := parseForStat_builds hP hr1
      split at h
      · cases h
      · next r2 hr2 =>
        have h2 := parseForExp_builds hP hr2
        split at h
        · cases h
        · next r3 hr3 =>
          have h3 := parseForStat_builds hP hr3
          split at h
          · cases h
          · next r4 hr4 =>
            cases h
            have h4 := ihS _ _ hr4
            exact optP_some (builds_add hP (builds_add hP (builds_add hP
              (builds_add hP (hP.1 _) h1) h2) h3) h4)
  rw [if_neg c6] at h
  by_cases c7 : s.currentToken.type = TOK_LOOP
  · rw [if_pos c7] at h
    split at h
    · cases h
    · next rl hrl =>
      cases h
      have h1 := ihL _ _ _ hrl (hP.1 _)
      exact optP_some h1
  rw [if_neg c7] at h
  by_cases c8 : s.currentToken.type = TOK_CASE
  · rw [if_pos c8] at h
    split at h
    · cases h
    · next re hre =>
      have h1 := parseExpression_builds hP hre
      split at h
      · cases h
      · next rl hrl =>
        have h2 := ihC _ _ _ hrl
          (builds_add hP (hP.1 _) h1)
        split at h
        · split at h
          · cases h
          · next ro hro =>
            cases h
            have h3 := ihO _ _ hro
            exact optP_some (builds_add hP h2 h3)
        · cases h
          exact optP_some h2
  rw [if_neg c8] at h
  by_cases c9 : s.currentToken.type = TOK_READ
  · rw [if_pos c9] at h
    split at h
    · cases h
    · next r1 hr1 =>
      cases h
      have h1 := parseReadLoop_builds hP _ _ _ _ hr1
        (hP.1 _)
      exact optP_some h1
  rw [if_neg c9] at h
  by_cases c10 : s.currentToken.type = TOK_EXIT
  · rw [if_pos c10] at h
    cases h
    exact optP_some (hP.1 _)
  rw [if_neg c10] at h
  by_cases c11 : s.currentToken.type = TOK_RETURN
  · rw [if_pos c11] at h
    split at h
    · cases h
    · next r1 hr1 =>
      cases h
      have h1 := parseExpression_builds hP hr1
      exact optP_some (builds_add hP (hP.1 _) h1)
  rw [if_neg c11] at h
  by_cases c12 : s.currentToken.type = TOK_BEGIN
  · rw [if_pos c12] at h
    exact ihB _ _ h
  rw [if_neg c12] at h
  cases h
  exact optP_some (hP.1 _)

/-- The invariant holds at every fuel for the statement parser. -/
theorem stmtBuilds {P : ASTNode → Prop} (hP : Builds P) :
    ∀ n, StmtBuilds P n := by
  intro n
  induction n with
  | zero => exact stmtBuilds_zero P
  | succ n ih =>
    have hS := parseStatement_builds_step hP n ih
    obtain ⟨ihS, ihR, ihL, ihC, ihCc, ihO, ihB, ihBL⟩ := ih
    refine ⟨hS, ?_, ?_, ?_, ?_, ?_, ?_, ?_⟩
    · intro node s r h hn
      simp only [parseRepeatLoop] at h
      split at h
      · cases h
      · next r1 hr1 =>
        have h1 := ihS _ _ hr1
        split at h
        · exact ihR _ _ _ h (builds_add hP hn h1)
        · cases h
          exact builds_add hP hn h1
    · intro node s r h hn
      simp only [parseLoopLoop] at h
      split at h
      · cases h
      · next r1 hr1 =>
        have h1 := ihS _ _ hr1
        split at h
        · exact ihL _ _ _ h (builds_add hP hn h1)
        · cases h
          exact builds_add hP hn h1
    · intro node s r h hn
      simp only [parseCaseLoop] at h
      split at h
      · split at h
        · cases h
        · next r1 hr1 =>
          have h1 := ihCc _ _ hr1
          split at h
          · cases h
            exact builds_add hP hn h1
          · exact ihC _ _ _ h (builds_add hP hn h1)
      · cases h
        exact hn
    · intro s r h
      simp only [parseCaseclause] at h
      split at h
      · cases h
      · next r2 hr2 =>
        cases h
        have h2 := ihS _ _ hr2
        exact optP_some
          (builds_add hP (builds_add hP (hP.1 _) (parseCaseExpression_builds hP _)) h2)
    · intro s r h
      simp only [parseOtherwiseClause] at h
      split at h
      · cases h
      · next r1 hr1 =>
        cases h
        have h1 := ihS _ _ hr1
        exact optP_some (builds_add hP (hP.1 _) h1)
    · intro s r h
      simp only [parseBody] at h
      split at h
      · split at h
        · cases h
        · next r1 hr1 =>
          cases h
          have h1 := ihBL _ _ _ hr1 (hP.1 _)
          exact optP_some h1
      · cases h
        exact optP_some (hP.1 _)
    · intro node s r h hn
      simp only [parseBodyLoop] at h
      split at h
      · split at h
        · cases h
        · next r1 hr1 =>
          have h1 := ihS _ _ hr1
          have hnull : OptP P (some (ASTNode.new "<null>")) :=
            optP_some (hP.1 _)
          cases hst : r1.1 with
          | none =>
            simp only [hst] at h
            have hb := builds_add hP hn hnull
            split at h
            · split at h
              · cases h
                exact builds_add hP hb hnull
              · cases h
                exact hb
            · split at h
              · cases h
                exact builds_add hP hb hnull
              · exact ihBL _ _ _ h hb
          | some stmt =>
            simp only [hst] at h
            have hb : P (node.addChild (some stmt)) :=
              builds_add hP hn (by rw [← hst]; exact h1)
            split at h
            · split at h
              · cases h
                exact builds_add hP hb hnull
              · cases h
                exact hb
            · split at h
              · cases h
                exact builds_add hP hb hnull
              · exact ihBL _ _ _ h hb
      · cases h
        exact hn

theorem parseBody_builds {P : ASTNode → Prop} (hP : Builds P)
    {n : Nat} {s : Parser} {r : Option ASTNode × Parser} (h : parseBody n s = some r) : OptP P r.1 :=
  (stmtBuilds hP n).2.2.2.2.2.2.1 s r h

theorem parseConstsLoop_builds {P : ASTNode → Prop} (hP : Builds P) :
    ∀ (fuel : Nat) (n : ASTNode) (p : Parser) (r : ASTNode × Parser),
      parseConstsLoop fuel n p = some r → P n → P r.1 := by
  intro fuel
  induction fuel with
  | zero => intro n p r h; simp [parseConstsLoop] at h
  | succ f ih =>
    intro n p r h hn
    simp only [parseConstsLoop] at h
    split at h
    · exact ih _ _ _ h (builds_add hP hn (parseConst_builds hP _))
    · cases h
      exact builds_add hP hn (parseConst_builds hP _)

theorem parseConsts_builds {P : ASTNode → Prop} (hP : Builds P)
    {n : Nat} {s : Parser} {r : Option ASTNode × Parser} (h : parseConsts n s = some r) : OptP P r.1 := by
  simp only [parseConsts] at h
  split at h
  · split at h
    · cases h
    · next r1 hr1 =>
      cases h
      have h1 := parseConstsLoop_builds hP _ _ _ _ hr1 (hP.1 _)
      exact optP_some h1
  · cases h
    exact optP_some (hP.1 _)

theorem parseLitList_builds {P : ASTNode → Prop} (hP : Builds P)
    {n : Nat} {s : Parser} {r : Option ASTNode × Parser} (h : parseLitList n s = some r) : OptP P r.1 := by
  simp only [parseLitList] at h
  split at h
  · cases h
    exact optP_none
  · split at h
    · cases h
    · next r1 hr1 =>
      cases h
      have h1 := parseLitListLoop_builds hP _ _ _ _ hr1 (hP.1 _)
      exact optP_some h1

theorem parseType_builds {P : ASTNode → Prop} (hP : Builds P)
    {n : Nat} {s : Parser} {r : Option ASTNode × Parser} (h : parseType n s = some r) : OptP P r.1 := by
  simp only [parseType] at h
  split at h
  · cases h
    exact optP_none
  · split at h
    · cases h
    · next r2 hr2 =>
      cases h
      have h2 := parseLitList_builds hP hr2
      exact optP_some
        (builds_add hP (builds_add hP (hP.1 _) (parseName_builds hP _)) h2)

theorem parseTypesLoop_builds {P : ASTNode → Prop} (hP : Builds P) :
    ∀ (fuel : Nat) (n : ASTNode) (p : Parser) (r : ASTNode × Parser),
      parseTypesLoop fuel n p = some r → P n → P r.1 := by
  intro fuel
  induction fuel with
  | zero => intro n p r h; simp [parseTypesLoop] at h
  | succ f ih =>
    intro n p r h hn
    simp only [parseTypesLoop] at h
    split at h
    · cases h
    · next r1 hr1 =>
      have h1 := parseType_builds hP hr1
      split at h
      · exact ih _ _ _ h (builds_add hP hn h1)
      · cases h
        exact builds_add hP hn h1

theorem parseTypes_builds {P : ASTNode → Prop} (hP : Builds P)
    {n : Nat} {s : Parser} {r : Option ASTNode × Parser} (h : parseTypes n s = some r) : OptP P r.1 := by
  simp only [parseTypes] at h
  split at h
  · split at h
    · cases h
    · next r1 hr1 =>
      cases h
      have h1 := parseTypesLoop_builds hP _ _ _ _ hr1 (hP.1 _)
      exact optP_some h1
  · cases h
    exact optP_some (hP.1 _)

theorem parseDcln_builds {P : ASTNode → Prop} (hP : Builds P)
    {n : Nat} {s : Parser} {r : Option ASTNode × Parser} (h : parseDcln n s = some r) : OptP P r.1 := by
  simp only [parseDcln] at h
  split at h
  · cases h
  · next r1 hr1 =>
    have h1 := parseDclnLoop_builds hP _ _ _ _ hr1 (hP.1 _)
    split at h
    · cases h
      exact optP_none
    · cases h
      exact optP_some (builds_add hP h1 (parseName_builds hP _))

theorem parseDclnsLoop_builds {P : ASTNode → Prop} (hP : Builds P) :
    ∀ (fuel : Nat) (n : ASTNode) (p : Parser) (r : ASTNode × Parser),
      parseDclnsLoop fuel n p = some r → P n → P r.1 := by
  intro fuel
  induction fuel with
  | zero => intro n p r h; simp [parseDclnsLoop] at h
  | succ f ih =>
    intro n p r h hn
    simp only [parseDclnsLoop] at h
    split at h
    · cases h
    · next r1 hr1 =>
      have h1 := parseDcln_builds hP hr1
      split at h
      · exact ih _ _ _ h (builds_add hP hn h1)
      · cases h
        exact builds_add hP hn h1

theorem parseDclns_builds {P : ASTNode → Prop} (hP : Builds P)
    {n : Nat} {s : Parser} {r : Option ASTNode × Parser} (h : parseDclns n s = some r) : OptP P r.1 := by
  simp only [parseDclns] at h
  split at h
  · split at h
    · cases h
    · next r1 hr1 =>
      cases h
      have h1 := parseDclnsLoop_builds hP _ _ _ _ hr1 (hP.1 _)
      exact optP_some h1
  · cases h
    exact optP_some (hP.1 _)

theorem parseParamsLoop_builds {P : ASTNode → Prop} (hP : Builds P) :
    ∀ (fuel : Nat) (n : ASTNode) (p : Parser) (r : ASTNode × Parser),
      parseParamsLoop fuel n p = some r → P n → P r.1 := by
  intro fuel
  induction fuel with
  | zero => intro n p r h; simp [parseParamsLoop] at h
  | succ f ih =>
    intro n p r h hn
    simp only [parseParamsLoop] at h
    split at h
    · cases h
    · next r1 hr1 =>
      have h1 := parseDcln_builds hP hr1
      split at h
      · exact ih _ _ _ h (builds_add hP hn h1)
      · cases h
        exact builds_add hP hn h1

theorem parseParams_builds {P : ASTNode → Prop} (hP : Builds P)
    {n : Nat} {s : Parser} {r : Option ASTNode × Parser} (h : parseParams n s = some r) : OptP P r.1 := by
  simp only [parseParams] at h
  split at h
  · split at h
    · cases h
    · next r1 hr1 =>
      cases h
      have h1 := parseParamsLoop_builds hP _ _ _ _ hr1 (hP.1 _)
      exact optP_some h1
  · cases h
    exact optP_some (hP.1 _)

theorem parseFcn_builds {P : ASTNode → Prop} (hP : Builds P)
    {n : Nat} {s : Parser} {r : Option ASTNode × Parser} (h : parseFcn n s = some r) : OptP P r.1 := by
  simp only [parseFcn] at h
  split at h
  · cases h
  · next r2 hr2 =>
    have h2 := parseParams_builds hP hr2
    split at h
    · cases h
    · next r4 hr4 =>
      have h4 := parseConsts_builds hP hr4
      split at h
      · cases h
      · next r5 hr5 =>
        have h5 := parseTypes_builds hP hr5
        split at h
        · cases h
        · next r6 hr6 =>
          have h6 := parseDclns_builds hP hr6
          split at h
          · cases h
          · next r7 hr7 =>
            cases h
            have h7 := parseBody_builds hP hr7
            exact optP_some (builds_add hP (builds_add hP
              (builds_add hP (builds_add hP (builds_add hP (builds_add hP (builds_add hP
              (builds_add hP (hP.1 _) (parseName_builds hP _)) h2) (parseName_builds hP _)) h4) h5) h6) h7)
              (parseName_builds hP _))

theorem parseSubProgsLoop_builds {P : ASTNode → Prop} (hP : Builds P) :
    ∀ (fuel : Nat) (n : ASTNode) (p : Parser) (r : ASTNode × Parser),
      parseSubProgsLoop fuel n p = some r → P n → P r.1 := by
  intro fuel
  induction fuel with
  | zero => intro n p r h; simp [parseSubProgsLoop] at h
  | succ f ih =>
    intro n p r h hn
    simp only [parseSubProgsLoop] at h
    split at h
    · split at h
      · cases h
      · next r1 hr1 =>
        have h1 := parseFcn_builds hP hr1
        exact ih _ _ _ h (builds_add hP hn h1)
    · cases h
      exact hn

theorem parseSubProgs_builds {P : ASTNode → Prop} (hP : Builds P)
    {n : Nat} {s : Parser} {r : Option ASTNode × Parser} (h : parseSubProgs n s = some r) : OptP P r.1 := by
  simp only [parseSubProgs] at h
  split at h
  · cases h
  · next r1 hr1 =>
    cases h
    have h1 := parseSubProgsLoop_builds hP _ _ _ _ hr1 (hP.1 _)
    exact optP_some h1

/-- Every tree returned by `parseProgram` has a property that node construction keeps. -/
theorem parseProgram_builds {P : ASTNode → Prop} (hP : Builds P)
    {n : Nat} {s0 : Parser} {r : Option ASTNode × Parser} (h : parseProgram n s0 = some r) :
    OptP P r.1 := by
  simp only [parseProgram] at h
  split at h
  · cases h
    exact optP_none
  · split at h
    · cases h
      exact optP_none
    · split at h
      · cases h
      · next r2 hr2 =>
        have h2 := parseConsts_builds hP hr2
        split at h
        · cases h
        · next r3 hr3 =>
          have h3 := parseTypes_builds hP hr3
          split at h
          · cases h
          · next r4 hr4 =>
            have h4 := parseDclns_builds hP hr4
            split at h
            · cases h
            · next r5 hr5 =>
              have h5 := parseSubProgs_builds hP hr5
              split at h
              · cases h
              · next r6 hr6 =>
                cases h
                have h6 := parseBody_builds hP hr6
                exact optP_some (builds_add hP (builds_add hP
                  (builds_add hP (builds_add hP (builds_add hP (builds_add hP (builds_add hP
                  (hP.1 _) (parseName_builds hP _)) h2) h3) h4) h5) h6) (parseName_builds hP _))

end Parser

open TokenType

/-! ## Parsed trees carry no value, so their dump has one line per node -/

namespace ASTNode

theorem valuesEmptyList_append (l1 l2 : List ASTNode) :
    valuesEmptyList (l1 ++ l2) = (valuesEmptyList l1 && valuesEmptyList l2) := by
  induction l1 with
  | nil => simp [valuesEmptyList]
  | cons c cs ih => simp [valuesEmptyList, ih, Bool.and_assoc]

mutual
/-- In a tree without values every node has the empty value. -/
theorem valuesEmpty_subtrees : ∀ (t : ASTNode), t.valuesEmpty = true →
    ∀ n ∈ t.subtrees, n.value = "" ∧ n.valuesEmpty = true
  | mk ty cs v, h => by
    intro n hn
    rw [subtrees, List.mem_cons] at hn
    rcases hn with rfl | hn
    · refine ⟨?_, h⟩
      simp only [valuesEmpty, Bool.and_eq_true, beq_iff_eq] at h
      exact h.1
    · simp only [valuesEmpty, Bool.and_eq_true, beq_iff_eq] at h
      exact valuesEmptyList_subtrees cs h.2 n hn
theorem valuesEmptyList_subtrees : ∀ (cs : List ASTNode), valuesEmptyList cs = true →
    ∀ n ∈ subtreesList cs, n.value = "" ∧ n.valuesEmpty = true
  | [], _ => by
    intro n hn
    simp [subtreesList] at hn
  | c :: cs, h => by
    intro n hn
    simp only [valuesEmptyList, Bool.and_eq_true] at h
    rw [subtreesList, List.mem_append] at hn
    rcases hn with hn | hn
    · exact valuesEmpty_subtrees c h.1 n hn
    · exact valuesEmptyList_subtrees cs h.2 n hn
end

/-- The condition of the value branch of `print` is false at a node whose value is empty. -/
theorem value_branch_off (n : ASTNode) (h : n.value = "") :
    (n.children.isEmpty && n.value != "") = false := by
  rw [h]
  simp

end ASTNode

namespace Parser

/-- Having no value anywhere is kept by the two operations that build trees. -/
theorem builds_valuesEmpty : Builds (fun t => t.valuesEmpty = true) := by
  refine ⟨?_, ?_⟩
  · intro label
    simp [ASTNode.new, ASTNode.valuesEmpty, ASTNode.valuesEmptyList]
  · intro n c hn hc
    cases n with
    | mk ty cs v =>
      simp only [ASTNode.valuesEmpty, Bool.and_eq_true, beq_iff_eq] at hn
      simp only [ASTNode.addChild, ASTNode.nodeType, ASTNode.children, ASTNode.value,
        ASTNode.valuesEmpty, Bool.and_eq_true, beq_iff_eq, ASTNode.valuesEmptyList_append,
        ASTNode.valuesEmptyList]
      exact ⟨hn.1, hn.2, hc, trivial⟩

/-- Every tree returned by `parseProgram` has an empty value at every node. -/
theorem parseProgram_valuesEmpty {fuel : Nat} {p q : Parser} {tree : ASTNode}
    (h : parseProgram fuel p = some (some tree, q)) : tree.valuesEmpty = true :=
  parseProgram_builds builds_valuesEmpty h tree rfl

/-- With an empty value the text of a node is its header line followed by its children: the
value branch of `print` writes nothing. -/
theorem print_without_value (n : ASTNode) (h : n.value = "") (k : Nat) (b : Bool) :
    n.print (k : Int) b
      = ASTNode.indent k ++ n.nodeType ++ "(" ++ toString n.children.length ++ ")"
          ++ ASTNode.printChildren n.children (k : Int) := by
  cases n with
  | mk ty cs v =>
    simp only [ASTNode.value] at h
    subst h
    simp [ASTNode.print, ASTNode.nodeType, ASTNode.children]

/-- The hypothesis on labels is needed for the count of lines: a string literal that spans two
lines is a label of the parsed tree, which then has 14 nodes and a dump of 15 lines. -/
theorem parsed_label_with_line_break :
    ∃ tree q, parseProgram 9 (Parser.new "program p: begin output(\"a\nb\") end p.".toList)
        = some (some tree, q)
      ∧ tree.labelsClean = false
      ∧ tree.subtrees.length = 14
      ∧ ASTNode.lineCount (tree.print 0 true) = 15 :=
  ⟨_, _, rfl, by decide, by decide, by decide⟩

/-- C36: every node of every tree returned by `parseProgram` has an empty value field, so the
condition of the value branch of the serializer is false at every node of a parsed tree and each
node is written as its header line followed by its children; when moreover no label of the tree
contains a line break, the serialized tree has exactly as many lines as the tree has nodes. -/
theorem C36_parsed_values_empty (fuel : Nat) (p q : Parser) (tree : ASTNode)
    (h : parseProgram fuel p = some (some tree, q)) :
    (∀ n ∈ tree.subtrees, n.value = "")
      ∧ (∀ n ∈ tree.subtrees, (n.children.isEmpty && n.value != "") = false)
      ∧ (∀ n ∈ tree.subtrees, ∀ (k : Nat) (b : Bool),
          n.print (k : Int) b
            = ASTNode.indent k ++ n.nodeType ++ "(" ++ toString n.children.length ++ ")"
                ++ ASTNode.printChildren n.children (k : Int))
      ∧ (∀ (k : Nat) (b : Bool), tree.print (k : Int) b = "\n".intercalate (tree.dumpLines k))
      ∧ (tree.labelsClean = true →
          ∀ b : Bool, ASTNode.lineCount (tree.print 0 b) = tree.subtrees.length) := by
  have hv := parseProgram_valuesEmpty h
  refine ⟨?_, ?_, ?_, ?_, ?_⟩
  · intro n hn
    exact (ASTNode.valuesEmpty_subtrees tree hv n hn).1
  · intro n hn
    exact ASTNode.value_branch_off n (ASTNode.valuesEmpty_subtrees tree hv n hn).1
  · intro n hn k b
    exact print_without_value n (ASTNode.valuesEmpty_subtrees tree hv n hn).1 k b
  · intro k b
    exact ASTNode.print_dumpLines tree k b hv
  · intro hl b
    have := ASTNode.print_lineCount tree 0 b hv hl
    rw [Nat.cast_zero] at this
    exact this

theorem C36_parsed_values_empty_witness :
    ∃ tree q,
      parseProgram 8
          (Parser.new "program p: begin x := 1 end p.".toList)
        = some (some tree, q)
      ∧ tree.labelsClean = true
      ∧ tree.subtrees.length = 15
      ∧ (∀ n ∈ tree.subtrees, n.value = "")
      ∧ ASTNode.lineCount (tree.print 0 true) = tree.subtrees.length :=
  ⟨_, _, rfl, rfl, rfl,
    (C36_parsed_values_empty 8
      (Parser.new "program p: begin x := 1 end p.".toList)
      _ _ rfl).1,
    (C36_parsed_values_empty 8
      (Parser.new "program p: begin x := 1 end p.".toList)
      _ _ rfl).2.2.2.2 rfl true⟩

end Parser

open TokenType

/-! ## The wrapper pattern and the number of lines of a literal -/

namespace Parser

/-- The four wrapper labels hold no line break. -/
theorem wrapperLabel_clean {label : String} (h : isWrapperLabel label = true) :
    label.data.count '\n' = 0 := by
  simp only [isWrapperLabel, Bool.or_eq_true, beq_iff_eq] at h
  rcases h with ((rfl | rfl) | rfl) | rfl <;> decide

/-- An identifier spelling holds no line break. -/
theorem identifierText_clean {x : List Char} (h : Lexer.isIdentifierText x = true) :
    x.count '\n' = 0 := by
  rw [List.count_eq_zero]
  intro hm
  cases x with
  | nil => cases hm
  | cons c cs =>
    simp only [Lexer.isIdentifierText, Bool.and_eq_true, List.all_eq_true] at h
    rcases List.mem_cons.1 hm with hc | hc
    · rw [← hc] at h
      exact absurd h.1 (by decide)
    · exact absurd (h.2 _ hc) (by decide)

/-- A run of digits holds no line break. -/
theorem numberText_clean {x : List Char} (h : Lexer.isNumberText x = true) :
    x.count '\n' = 0 := by
  rw [List.count_eq_zero]
  intro hm
  simp only [Lexer.isNumberText, Bool.and_eq_true, List.all_eq_true] at h
  exact absurd (h.2 _ hm) (by decide)

/-- The text of a wrapper over a leaf has two lines and one more for each line break of the
text of the leaf. -/
theorem print_wrapper_lineCount (label text : String) (d : Int) (isLast : Bool) (hd : 0 ≤ d)
    (hl : label.data.count '\n' = 0) :
    ASTNode.lineCount ((ASTNode.mk label [ASTNode.mk text [] ""] "").print d isLast)
      = 2 + text.data.count '\n' := by
  rw [print_wrapper label text d isLast hd]
  have i1 : (String.join (List.replicate d.toNat ". ")).data.count '\n' = 0 := by
    rw [List.count_eq_zero]
    intro hm
    exact absurd (ASTNode.indent_clean d.toNat _ hm) (by decide)
  have i2 : (String.join (List.replicate (d.toNat + 1) ". ")).data.count '\n' = 0 := by
    rw [List.count_eq_zero]
    intro hm
    exact absurd (ASTNode.indent_clean (d.toNat + 1) _ hm) (by decide)
  have e1 : ("(1)" : String).data.count '\n' = 0 := by decide
  have e0 : ("(0)" : String).data.count '\n' = 0 := by decide
  have en : ("\n" : String).data.count '\n' = 1 := by decide
  rw [ASTNode.intercalate_cons]
  simp only [List.map_cons, List.map_nil, ASTNode.join_cons, ASTNode.join_nil, ASTNode.lineCount,
    String.data_append, List.count_append, i1, i2, e1, e0, en, hl]
  simp
  omega

end Parser

open Parser in
/-- Counterexample to the count of lines in C7: the string literal of
`output("a` line break `b")` is one token, the lexer does not stop a string at a line break, so
the parsed tree holds the wrapper `<string>` over a leaf whose label spans two lines and the
wrapper is written as three lines, not two. -/
theorem C7_literal_with_line_break :
    ∃ tree s n,
      parseProgram 9 (Parser.new "program p: begin output(\"a\nb\") end p.".toList)
        = some (some tree, s)
      ∧ n ∈ tree.subtrees
      ∧ n = ASTNode.mk "<string>" [ASTNode.mk "\"a\nb\"" [] ""] ""
      ∧ isWrapperLabel n.nodeType = true
      ∧ n.print 4 false = ". . . . <string>(1)\n. . . . . \"a\nb\"(0)"
      ∧ ASTNode.lineCount (n.print 4 false) = 3 :=
  ⟨_, _, ASTNode.mk "<string>" [ASTNode.mk "\"a\nb\"" [] ""] "", rfl,
    List.getElem?_mem (n := 10) rfl, rfl, by decide, by decide, by decide⟩

open Parser in
/-- Claim C7 (wrapper pattern), with the count of lines as the code gives it: in every tree
returned by `parseProgram`, every node labeled `<identifier>`, `<integer>`, `<char>` or
`<string>` has exactly one child, which has no children and is labeled with the text of one of
the tokens of the input, of a kind the wrapper is built from and of the lexical class of that
wrapper (identifier spelling, digit string, quoted char, quoted string); the node is printed as
`wrapper(1)` at its depth followed by `text(0)` one level deeper, which is two lines plus one
line for each line break of the text: exactly two lines when the text holds no line break, and
always so under `<identifier>` and `<integer>`. -/
theorem C7_wrapper_pattern (input : List Char) (fuel : Nat) (tree : ASTNode) (s : Parser)
    (h : parseProgram fuel (Parser.new input) = some (some tree, s)) :
    ∀ n ∈ tree.subtrees, isWrapperLabel n.nodeType = true →
      ∃ k,
        (advanceN k (Parser.new input)).currentToken.type ∈ wrapperKinds n.nodeType
        ∧ n = ASTNode.mk n.nodeType
            [ASTNode.mk (advanceN k (Parser.new input)).currentToken.value [] ""] ""
        ∧ wrapperText n.nodeType (advanceN k (Parser.new input)).currentToken.value
        ∧ (∀ (d : Int) (isLast : Bool), 0 ≤ d →
            n.print d isLast
              = "\n".intercalate
                  [String.join (List.replicate d.toNat ". ") ++ n.nodeType ++ "(1)",
                   String.join (List.replicate (d.toNat + 1) ". ")
                     ++ (advanceN k (Parser.new input)).currentToken.value ++ "(0)"]
            ∧ ASTNode.lineCount (n.print d isLast)
              = 2 + (advanceN k (Parser.new input)).currentToken.value.data.count '\n')
        ∧ ((advanceN k (Parser.new input)).currentToken.value.data.count '\n' = 0 →
            ∀ (d : Int) (isLast : Bool), 0 ≤ d → ASTNode.lineCount (n.print d isLast) = 2)
        ∧ ((n.nodeType = "<identifier>" ∨ n.nodeType = "<integer>") →
            (advanceN k (Parser.new input)).currentToken.value.data.count '\n' = 0
            ∧ ∀ (d : Int) (isLast : Bool), 0 ≤ d →
                ASTNode.lineCount (n.print d isLast) = 2) := by
  intro n hn hw
  have hok := (parseProgram_ok (new_tokenTextOK input) h).2 tree rfl
  obtain ⟨k, hk, hshape⟩ := hok n hn hw
  have hwt := wrapperText_of_class hk (advanceN_new_class input k)
  have hcount : ∀ (d : Int) (isLast : Bool), 0 ≤ d →
      ASTNode.lineCount (n.print d isLast)
        = 2 + (advanceN k (Parser.new input)).currentToken.value.data.count '\n' := by
    intro d isLast hd
    conv_lhs => rw [hshape]
    exact print_wrapper_lineCount _ _ d isLast hd (wrapperLabel_clean hw)
  have hclean : (n.nodeType = "<identifier>" ∨ n.nodeType = "<integer>") →
      (advanceN k (Parser.new input)).currentToken.value.data.count '\n' = 0 := by
    intro hl
    rcases hl with hl | hl
    · exact identifierText_clean (hwt.1 hl)
    · exact numberText_clean (hwt.2.1 hl)
  refine ⟨k, hk, hshape, hwt, ?_, ?_, ?_⟩
  · intro d isLast hd
    refine ⟨?_, hcount d isLast hd⟩
    conv_lhs => rw [hshape]
    exact print_wrapper _ _ d isLast hd
  · intro h0 d isLast hd
    rw [hcount d isLast hd, h0]
  · intro hl
    refine ⟨hclean hl, ?_⟩
    intro d isLast hd
    rw [hcount d isLast hd, hclean hl]

open Parser in
theorem C7_wrapper_pattern_witness :
    ∃ tree s, parseProgram 9 (Parser.new "program p: begin x := 'a end p.".toList)
        = some (some tree, s)
      ∧ ∀ n ∈ tree.subtrees, isWrapperLabel n.nodeType = true →
        ∃ k,
          (advanceN k (Parser.new "program p: begin x := 'a end p.".toList)).currentToken.type
              ∈ wrapperKinds n.nodeType
          ∧ n = ASTNode.mk n.nodeType [ASTNode.mk
              (advanceN k (Parser.new "program p: begin x := 'a end p.".toList)).currentToken.value
              [] ""] ""
          ∧ wrapperText n.nodeType
              (advanceN k (Parser.new "program p: begin x := 'a end p.".toList)).currentToken.value
          ∧ (∀ (d : Int) (isLast : Bool), 0 ≤ d →
              n.print d isLast
                = "\n".intercalate
                    [String.join (List.replicate d.toNat ". ") ++ n.nodeType ++ "(1)",
                     String.join (List.replicate (d.toNat + 1) ". ")
                       ++ (advanceN k
                            (Parser.new "program p: begin x := 'a end p.".toList)).currentToken.value
                       ++ "(0)"]
              ∧ ASTNode.lineCount (n.print d isLast)
                = 2 + (advanceN k (Parser.new
                    "program p: begin x := 'a end p.".toList)).currentToken.value.data.count '\n')
          ∧ ((advanceN k (Parser.new
                "program p: begin x := 'a end p.".toList)).currentToken.value.data.count '\n' = 0 →
              ∀ (d : Int) (isLast : Bool), 0 ≤ d → ASTNode.lineCount (n.print d isLast) = 2)
          ∧ ((n.nodeType = "<identifier>" ∨ n.nodeType = "<integer>") →
              (advanceN k (Parser.new
                "program p: begin x := 'a end p.".toList)).currentToken.value.data.count '\n' = 0
              ∧ ∀ (d : Int) (isLast : Bool), 0 ≤ d →
                  ASTNode.lineCount (n.print d isLast) = 2) :=
  ⟨_, _, rfl, C7_wrapper_pattern "program p: begin x := 'a end p.".toList 9 _ _ rfl⟩

